import Mathlib

/-!
The memory management of linux-2.4.0: zoned buddy allocator and slab allocator.

A shallow embedding of `mm/page_alloc.c` and `mm/slab.c` (with
`include/linux/mmzone.h`) and theorems about it.

Conventions of the embedding.

* A `struct page *` is the index of the descriptor in `mem_map`; a `zone_t *` is
  the index of the zone in `node_zones`.
* `unsigned long` is the 32-bit word of i386: values are naturals below
  `ULONG = 2 ^ 32`, and arithmetic that can wrap is written with `% ULONG`.
* A `list_head` chain is the list of its entries, head first.  `list_add` to the
  head is `::`, `list_del` of an entry erases it.
* A bitmap (`unsigned int *map`) is a natural number read as a set of bits.
* `BUG()` is a trap: a function that can trap returns `Option`, `none` being the
  trap.
-/

namespace Linux24

/-! ## Constants of `include/linux/mmzone.h` -/

/-- The constant `MAX_ORDER` of mmzone.h. -/
def MAX_ORDER : Nat := 10

/-- The constant `ZONE_DMA` of mmzone.h. -/
def ZONE_DMA : Nat := 0

/-- The constant `ZONE_NORMAL` of mmzone.h. -/
def ZONE_NORMAL : Nat := 1

/-- The constant `ZONE_HIGHMEM` of mmzone.h. -/
def ZONE_HIGHMEM : Nat := 2

/-- The constant `MAX_NR_ZONES` of mmzone.h. -/
def MAX_NR_ZONES : Nat := 3

/-- The constant `NR_GFPINDEX` of mmzone.h. -/
def NR_GFPINDEX : Nat := 0x100

/-- Modulus of `unsigned long` (and of `unsigned int`, `size_t`) on i386. -/
def ULONG : Nat := 2 ^ 32

/-! ## Data model -/

/-- Modelled from the spec: `struct page` is declared in include/linux/mm.h, which
is not among the files here.  The frame descriptor carries the state bits, a
reference count, an age counter and the back-pointer to its owning zone; `buffers`
and `mapping` say whether the respective pointer is non-NULL. -/
structure page where
  count : Int
  age : Nat
  buffers : Bool
  mapping : Bool
  zone : Nat
  reserved : Bool
  locked : Bool
  referenced : Bool
  dirty : Bool
  active : Bool
  inactive_dirty : Bool
  inactive_clean : Bool
  swap_cache : Bool
  decr_after : Bool
  slab : Bool
deriving DecidableEq

/-- The type `free_area_t` of mmzone.h: the free list of one order (indices into
`mem_map` of the first page of each free block, list head first) and its
bitmap. -/
structure free_area_t where
  free_list : List Nat
  map : Nat
deriving DecidableEq

/-- The type `zone_t` of mmzone.h (the fields the allocator reads or writes).
`free_area` is the array `free_area[MAX_ORDER]`; only indices below `MAX_ORDER`
are ever accessed. -/
structure zone_t where
  offset : Nat
  free_pages : Nat
  inactive_clean_pages : Nat
  inactive_dirty_pages : Nat
  pages_min : Nat
  pages_low : Nat
  pages_high : Nat
  free_area : Nat → free_area_t
  size : Nat

/-- The type `zonelist_t` of mmzone.h: `zones` is the array
`zones[MAX_NR_ZONES+1]`, `none` being the NULL pointer. -/
structure zonelist_t where
  zones : List (Option Nat)
  gfp_mask : Nat
deriving DecidableEq

/-- Constants that come from headers which are not among the files here. -/
structure config where
  NR_CPUS : Int
  PAGE_AGE_START : Nat
  CONFIG_HIGHMEM : Bool
  GFP_DMA : Nat
  GFP_HIGHMEM : Nat

/-- The global memory state: the frame table `mem_map`, its length `max_mapnr`,
the zones of the (single) node `contig_page_data`, the global
`memory_pressure`, and the reclaim daemon's wait queue `kreclaimd_wait`
(whether a sleeper is queued, and how many times it has been woken). -/
structure machine where
  mem_map : Nat → page
  max_mapnr : Nat
  node_zones : Nat → zone_t
  memory_pressure : Int
  kreclaimd_waiting : Bool
  kreclaimd_wakeups : Nat

/-! ## Bit and list primitives -/

/-- The primitive `change_bit(nr, map)`: toggle bit `nr`. -/
def change_bit (nr : Nat) (map : Nat) : Nat := map ^^^ (1 <<< nr)

/-- The value returned by `test_and_change_bit(nr, map)`: the old bit. -/
def test_bit (nr : Nat) (map : Nat) : Bool := map.testBit nr

/-- The macro `BAD_RANGE(zone, x)` of page_alloc.c. -/
def BAD_RANGE (mem_map : Nat → page) (zid : Nat) (zone : zone_t) (x : Nat) : Bool :=
  (mem_map x).zone != zid || decide (x < zone.offset) ||
    decide (x ≥ zone.offset + zone.size)

/-- Modelled from the spec: `VALID_PAGE` is a macro of the architecture headers,
not among the files here; a page pointer is valid when it lies inside the frame
table. -/
def VALID_PAGE (s : machine) (x : Nat) : Bool := decide (x < s.max_mapnr)

/-- Modelled from the spec: `DEBUG_ADD_PAGE` is a macro of include/linux/swap.h,
not among the files here; it traps when the page still carries the state bit of
one of the page lists (active, inactive-dirty, inactive-clean).  The value is
`true` when it traps. -/
def DEBUG_ADD_PAGE (p : page) : Bool := p.active || p.inactive_dirty || p.inactive_clean

/-- Write one entry of the array `zone->free_area`. -/
def set_area (zone : zone_t) (k : Nat) (a : free_area_t) : zone_t :=
  { zone with free_area := Function.update zone.free_area k a }

/-! ## `mm/page_alloc.c`: the buddy allocator -/

/-- The macro `MARK_USED(index, order, area)`. -/
def MARK_USED (index order : Nat) (area : free_area_t) : free_area_t :=
  { area with map := change_bit (index >>> (1 + order)) area.map }

/-- The loop of `expand`, by the number `n = high - low` of halvings left.
`area` is the index of the `free_area_t` the pointer `area` points at. -/
def expand_loop (mem_map : Nat → page) (zid : Nat) :
    Nat → zone_t → Nat → Nat → Nat → Nat → Nat → Option (zone_t × Nat)
  | 0, zone, page, _, _, _, _ =>
    if BAD_RANGE mem_map zid zone page then none else some (zone, page)
  | n + 1, zone, page, index, high, area, size =>
    if BAD_RANGE mem_map zid zone page then none
    else
      let area := area - 1
      let high := high - 1
      let size := size >>> 1
      let a := zone.free_area area
      let zone := set_area zone area
        (MARK_USED index high { a with free_list := page :: a.free_list })
      expand_loop mem_map zid n zone (page + size) (index + size) high area size

/-- The function `expand(zone, page, index, low, high, area)`. -/
def expand (mem_map : Nat → page) (zid : Nat) (zone : zone_t)
    (page index low high area : Nat) : Option (zone_t × Nat) :=
  expand_loop mem_map zid (high - low) zone page index high area (1 <<< high)

/-- The branch `if (curr != head) { ... }` of `rmqueue`: the free list of order
`curr_order` is `page :: rest`.  `curr_order` is also the index of the
`free_area_t` the pointer `area` points at (both are incremented together).  The
result is the new state and the returned page. -/
def rmqueue_take (s : machine) (zid order curr_order page : Nat) (rest : List Nat) :
    Option (machine × Option Nat) :=
  let zone := s.node_zones zid
  if BAD_RANGE s.mem_map zid zone page then none
  else
    let index := (page - zone.offset) % ULONG
    let zone := set_area zone curr_order
      (MARK_USED index curr_order { zone.free_area curr_order with free_list := rest })
    let zone := { zone with
      free_pages := (zone.free_pages + ULONG - (1 <<< order) % ULONG) % ULONG }
    match expand s.mem_map zid zone page index order curr_order curr_order with
    | none => none
    | some (zone, page) =>
      let pg := { s.mem_map page with count := 1 }
      if BAD_RANGE s.mem_map zid zone page then none
      else if DEBUG_ADD_PAGE pg then none
      else some ({ s with mem_map := Function.update s.mem_map page pg,
                          node_zones := Function.update s.node_zones zid zone },
                 some page)

/-- The `do ... while (curr_order < MAX_ORDER)` loop of `rmqueue`, by the number
`n` of iterations that follow the current one.  The result is the new state and
the page, `none` inside being NULL. -/
def rmqueue_loop (s : machine) (zid order : Nat) :
    Nat → Nat → Option (machine × Option Nat)
  | 0, curr_order =>
    match ((s.node_zones zid).free_area curr_order).free_list with
    | page :: rest => rmqueue_take s zid order curr_order page rest
    | [] => some (s, none)
  | n + 1, curr_order =>
    match ((s.node_zones zid).free_area curr_order).free_list with
    | page :: rest => rmqueue_take s zid order curr_order page rest
    | [] => rmqueue_loop s zid order n (curr_order + 1)

/-- The function `rmqueue(zone, order)`. -/
def rmqueue (s : machine) (zid order : Nat) : Option (machine × Option Nat) :=
  rmqueue_loop s zid order (MAX_ORDER - 1 - order) order

/-- The `while (mask + (1 << (MAX_ORDER-1)))` loop of `__free_pages_ok`, by the
number `n = MAX_ORDER - area` of orders left; with none left the check
`area >= zone->free_area + MAX_ORDER` traps.  The loop state is `mask`, the index
`area` of the current `free_area_t`, `index` and `page_idx`; the result is the
zone after the final `memlist_add_head`.  `memlist_del(&buddy1->list)` unlinks the
buddy from the free list of the current order. -/
def free_loop (mem_map : Nat → page) (zid : Nat) :
    Nat → zone_t → Nat → Nat → Nat → Nat → Option zone_t
  | n, zone, mask, area, index, page_idx =>
    let finish : zone_t → Option zone_t := fun zone =>
      let a := zone.free_area area
      some (set_area zone area { a with free_list := (zone.offset + page_idx) :: a.free_list })
    if (mask + (1 <<< (MAX_ORDER - 1))) % ULONG = 0 then finish zone
    else if area ≥ MAX_ORDER then none
    else
      let a := zone.free_area area
      let old := test_bit index a.map
      let zone := set_area zone area { a with map := change_bit index a.map }
      if !old then finish zone
      else
        let buddy1 := zone.offset + (page_idx ^^^ ((ULONG - mask) % ULONG))
        let buddy2 := zone.offset + page_idx
        if BAD_RANGE mem_map zid zone buddy1 then none
        else if BAD_RANGE mem_map zid zone buddy2 then none
        else
          let a := zone.free_area area
          let zone := set_area zone area { a with free_list := a.free_list.erase buddy1 }
          let mask := (mask <<< 1) % ULONG
          match n with
          | 0 => none
          | n + 1 => free_loop mem_map zid n zone mask (area + 1) (index >>> 1) (page_idx &&& mask)

/-- The function `__free_pages_ok(page, order)`. -/
def __free_pages_ok (cfg : config) (s : machine) (page order : Nat) : Option machine :=
  let pg := s.mem_map page
  if pg.buffers then none
  else if pg.mapping then none
  else if !VALID_PAGE s page then none
  else if pg.swap_cache then none
  else if pg.locked then none
  else if pg.decr_after then none
  else if pg.active then none
  else if pg.inactive_dirty then none
  else if pg.inactive_clean then none
  else
    let pg := { pg with referenced := false, dirty := false, age := cfg.PAGE_AGE_START }
    let zid := pg.zone
    let zone := s.node_zones zid
    let mask := ((ULONG - 1) <<< order) % ULONG
    let page_idx := page - zone.offset
    if page_idx &&& (ULONG - 1 - mask) ≠ 0 then none
    else
      let index := page_idx >>> (1 + order)
      let zone := { zone with free_pages := (zone.free_pages + ULONG - mask) % ULONG }
      match free_loop s.mem_map zid (MAX_ORDER - order) zone mask order index page_idx with
      | none => none
      | some zone =>
        some { s with
          mem_map := Function.update s.mem_map page pg
          node_zones := Function.update s.node_zones zid zone
          memory_pressure :=
            if s.memory_pressure > cfg.NR_CPUS then s.memory_pressure - 1
            else s.memory_pressure }

/-- The function `__free_pages(page, order)`: `put_page_testzero` decrements the
count and tells whether it has become zero. -/
def __free_pages (cfg : config) (s : machine) (page order : Nat) : Option machine :=
  if (s.mem_map page).reserved then some s
  else
    let pg := s.mem_map page
    let s1 := { s with mem_map := Function.update s.mem_map page { pg with count := pg.count - 1 } }
    if pg.count - 1 = 0 then __free_pages_ok cfg s1 page order else some s1

/-! ## Well-formedness of a zone -/

/-- The block of order `k` whose first page is `p` lies inside zone `zid` and is
aligned to its size relative to the zone base. -/
def block_in_zone (s : machine) (zid k p : Nat) : Prop :=
  (s.node_zones zid).offset ≤ p ∧
  p + 2 ^ k ≤ (s.node_zones zid).offset + (s.node_zones zid).size ∧
  (p - (s.node_zones zid).offset) % 2 ^ k = 0

/-- The checks `__free_pages_ok` and `DEBUG_ADD_PAGE` make on a descriptor all
pass. -/
def page_clean (pg : page) : Bool :=
  !pg.buffers && !pg.mapping && !pg.swap_cache && !pg.locked && !pg.decr_after &&
    !pg.active && !pg.inactive_dirty && !pg.inactive_clean

/-- Free-list invariant of zone `zid`: every entry of the free list of order `k`
is the first page of an aligned block of `2^k` pages inside the zone, no list
holds an entry twice, the pages of the zone point back to it
(`page->zone == zone`), the pages of free blocks carry no state that the
allocator traps on, and the counters fit their machine words. -/
structure zone_wf (s : machine) (zid : Nat) : Prop where
  blocks : ∀ k, k < MAX_ORDER → ∀ p ∈ ((s.node_zones zid).free_area k).free_list,
    block_in_zone s zid k p
  nodup : ∀ k, k < MAX_ORDER → ((s.node_zones zid).free_area k).free_list.Nodup
  backptr : ∀ i, i < (s.node_zones zid).size →
    (s.mem_map ((s.node_zones zid).offset + i)).zone = zid
  clean : ∀ k, k < MAX_ORDER → ∀ p ∈ ((s.node_zones zid).free_area k).free_list,
    ∀ i, i < 2 ^ k → page_clean (s.mem_map (p + i)) = true
  valid : (s.node_zones zid).offset + (s.node_zones zid).size ≤ s.max_mapnr
  word : s.max_mapnr < ULONG ∧ (s.node_zones zid).free_pages < ULONG

/-- The zone after `expand` has halved a block `n` times: the closed form of
`expand_loop`.  The block starts at `page` (zone index `index`) and has order
`high`; for every order `k` with `high - n ≤ k < high` the lower half of the run
that is split at order `k + 1` is put at the head of list `k` and its pair bit is
toggled. -/
def split_zone (zone : zone_t) (page index high n : Nat) : zone_t :=
  { zone with free_area := fun k =>
      if high - n ≤ k ∧ k < high then
        { free_list := (page + 2 ^ high - 2 ^ (k + 1)) :: (zone.free_area k).free_list
          map := change_bit ((index + 2 ^ high - 2 ^ (k + 1)) >>> (1 + k)) (zone.free_area k).map }
      else zone.free_area k }

/-- The zone after a successful `rmqueue(zone, order)` that takes the block `p`
at the head of the free list of order `c` (the rest of the list being `rest`):
the closed form of `rmqueue_loop`. -/
def rmqueue_zone (zone : zone_t) (order c p : Nat) (rest : List Nat) : zone_t :=
  split_zone
    { set_area zone c
        (MARK_USED ((p - zone.offset) % ULONG) c { zone.free_area c with free_list := rest }) with
      free_pages := (zone.free_pages + ULONG - (1 <<< order) % ULONG) % ULONG }
    p ((p - zone.offset) % ULONG) c (c - order)

/-- The state after a successful `rmqueue(zone, order)` that takes the block `p`
at the head of the free list of order `c`: the zone becomes `rmqueue_zone` and
the count of the returned page `p + 2^c - 2^order` is set to 1. -/
def rmqueue_state (s : machine) (zid order c p : Nat) (rest : List Nat) : machine :=
  { s with
    mem_map := Function.update s.mem_map (p + 2 ^ c - 2 ^ order)
      { s.mem_map (p + 2 ^ c - 2 ^ order) with count := 1 }
    node_zones := Function.update s.node_zones zid
      (rmqueue_zone (s.node_zones zid) order c p rest) }

/-! ## Example states -/

/-- A descriptor of a page of zone 0 that is in no use. -/
def page_ex : page :=
  { count := 0, age := 0, buffers := false, mapping := false, zone := 0, reserved := false,
    locked := false, referenced := false, dirty := false, active := false,
    inactive_dirty := false, inactive_clean := false, swap_cache := false,
    decr_after := false, slab := false }

/-- A zone of 16 pages at offset 0 whose only free block is the order-3 block of
pages 0..7 (pages 8..15 are allocated, so the pair bit of the block is set). -/
def zone_ex : zone_t :=
  { offset := 0, free_pages := 8, inactive_clean_pages := 0, inactive_dirty_pages := 0,
    pages_min := 0, pages_low := 0, pages_high := 0,
    free_area := (fun k => if k = 3 then { free_list := [0], map := 1 }
      else { free_list := [], map := 0 }),
    size := 16 }

/-- A machine with 16 page frames whose zones are all `zone_ex`. -/
def machine_ex : machine :=
  { mem_map := fun _ => page_ex, max_mapnr := 16, node_zones := fun _ => zone_ex,
    memory_pressure := 0, kreclaimd_waiting := false, kreclaimd_wakeups := 0 }

/-- Values of the header constants on i386 with CONFIG_HIGHMEM and one CPU. -/
def config_ex : config :=
  { NR_CPUS := 1, PAGE_AGE_START := 2, CONFIG_HIGHMEM := true, GFP_DMA := 0x08,
    GFP_HIGHMEM := 0x10 }

/-! ## Invariants of a zone -/

/-- The first page (as a zone index) of the order-`j` block that contains zone
index `idx`. -/
def block_of (idx j : Nat) : Nat := idx - idx % 2 ^ j

/-- Pair-bit invariant at order `k`: for every buddy pair `i` of the zone (the
blocks of order `k` at zone indices `2i * 2^k` and `(2i+1) * 2^k`), bit `i` of
`free_area[k].map` is the XOR of "the first buddy is on free list `k`" and "the
second buddy is on free list `k`". -/
def pair_bit_ok (z : zone_t) (k : Nat) : Prop :=
  ∀ i, i < z.size → i * 2 ^ (k + 1) < z.size →
    test_bit i (z.free_area k).map =
      xor (decide (z.offset + (2 * i) * 2 ^ k ∈ (z.free_area k).free_list))
          (decide (z.offset + (2 * i + 1) * 2 ^ k ∈ (z.free_area k).free_list))

/-- The pair-bit invariant at every order below `n`. -/
def pair_bits_ok (z : zone_t) (n : Nat) : Prop := ∀ k, k < n → pair_bit_ok z k

/-- The run of `2^order` pages at `page` is not free already: at no order
`j ≥ order` is the block that contains it on the free list. -/
def not_free (z : zone_t) (page order : Nat) : Prop :=
  ∀ j, j < MAX_ORDER → order ≤ j →
    z.offset + block_of (page - z.offset) j ∉ (z.free_area j).free_list

/-- The number of pages on the free lists of orders below `n`:
the sum over `k < n` of `length (free list k) * 2^k`. -/
def free_sum (z : zone_t) : Nat → Nat
  | 0 => 0
  | n + 1 => free_sum z n + (z.free_area n).free_list.length * 2 ^ n

/-- Accounting invariant: the free lists hold exactly `free_pages` pages. -/
def accounting (z : zone_t) : Prop := free_sum z MAX_ORDER = z.free_pages

instance (s : machine) (zid k p : Nat) : Decidable (block_in_zone s zid k p) := by
  unfold block_in_zone; infer_instance

instance (z : zone_t) (k : Nat) : Decidable (pair_bit_ok z k) := by
  unfold pair_bit_ok; infer_instance

instance (z : zone_t) (n : Nat) : Decidable (pair_bits_ok z n) := by
  unfold pair_bits_ok; infer_instance

instance (z : zone_t) (page order : Nat) : Decidable (not_free z page order) := by
  unfold not_free; infer_instance

instance (z : zone_t) : Decidable (accounting z) := by
  unfold accounting; infer_instance

/-- No two buddies are both free at an order below `MAX_ORDER - 1` (they would
have been merged). -/
def coalesced (z : zone_t) : Prop :=
  ∀ k, k < MAX_ORDER - 1 → ∀ i, i < z.size →
    ¬ (z.offset + (2 * i) * 2 ^ k ∈ (z.free_area k).free_list ∧
       z.offset + (2 * i + 1) * 2 ^ k ∈ (z.free_area k).free_list)

instance (z : zone_t) : Decidable (coalesced z) := by
  unfold coalesced; infer_instance

/-- A zone of 512 pages at offset 0 with no free block: every list is empty and
every bitmap is clear. -/
def zone_full : zone_t :=
  { offset := 0, free_pages := 0, inactive_clean_pages := 0, inactive_dirty_pages := 0,
    pages_min := 0, pages_low := 0, pages_high := 0,
    free_area := (fun _ => { free_list := [], map := 0 }),
    size := 512 }

/-- A machine with 512 page frames whose zones are all `zone_full`. -/
def machine_full : machine :=
  { mem_map := fun _ => page_ex, max_mapnr := 512, node_zones := fun _ => zone_full,
    memory_pressure := 0, kreclaimd_waiting := false, kreclaimd_wakeups := 0 }

/-- A zone of 512 pages at offset 0 whose only free block is the block of order
`MAX_ORDER - 1` at page 0; its pair bit is set (the second buddy is not free). -/
def zone_top : zone_t :=
  { offset := 0, free_pages := 512, inactive_clean_pages := 0, inactive_dirty_pages := 0,
    pages_min := 0, pages_low := 0, pages_high := 0,
    free_area := (fun k => if k = 9 then { free_list := [0], map := 1 }
      else { free_list := [], map := 0 }),
    size := 512 }

/-- A machine with 512 page frames whose zones are all `zone_top`. -/
def machine_top : machine :=
  { mem_map := fun _ => page_ex, max_mapnr := 512, node_zones := fun _ => zone_top,
    memory_pressure := 0, kreclaimd_waiting := false, kreclaimd_wakeups := 0 }

/-! ## `mm/page_alloc.c`: zone lists, zone initialisation, the first allocation pass -/

/-- The assignment `zonelist->zones[j++] = zone` of `build_zonelists`: the state is
the array `zones` and the index `j`. -/
def zonelist_put (st : List (Option Nat) × Nat) (zone : Option Nat) : List (Option Nat) × Nat :=
  (st.1.set st.2 zone, st.2 + 1)

/-- One iteration of the loop of `build_zonelists`: the zone list for the flag
index `i`.  The `switch (k)` falls through from `ZONE_HIGHMEM` to `ZONE_NORMAL`
to `ZONE_DMA`; its `default:` and the `#ifndef CONFIG_HIGHMEM` branch are
`BUG()`.  `__GFP_DMA` and `__GFP_HIGHMEM` come from include/linux/mm.h, which is
not among the files here, and are taken from `cfg`. -/
def build_zonelist (cfg : config) (node_zones : Nat → zone_t) (i : Nat) : Option zonelist_t :=
  let st : List (Option Nat) × Nat := (List.replicate (MAX_NR_ZONES + 1) none, 0)
  let k := ZONE_NORMAL
  let k := if i &&& cfg.GFP_HIGHMEM ≠ 0 then ZONE_HIGHMEM else k
  let k := if i &&& cfg.GFP_DMA ≠ 0 then ZONE_DMA else k
  if k ≠ ZONE_HIGHMEM ∧ k ≠ ZONE_NORMAL ∧ k ≠ ZONE_DMA then none
  else
    let st1 : Option (List (Option Nat) × Nat) :=
      if k = ZONE_HIGHMEM then
        if (node_zones ZONE_HIGHMEM).size ≠ 0 then
          if !cfg.CONFIG_HIGHMEM then none else some (zonelist_put st (some ZONE_HIGHMEM))
        else some st
      else some st
    match st1 with
    | none => none
    | some st =>
      let st :=
        if k = ZONE_HIGHMEM ∨ k = ZONE_NORMAL then
          if (node_zones ZONE_NORMAL).size ≠ 0 then zonelist_put st (some ZONE_NORMAL) else st
        else st
      let st :=
        if (node_zones ZONE_DMA).size ≠ 0 then zonelist_put st (some ZONE_DMA) else st
      let st := zonelist_put st none
      some { zones := st.1, gfp_mask := i }

/-- The loop `for (i = 0; i < NR_GFPINDEX; i++)` of `build_zonelists`, by the
number `n` of iterations left; `zl` is the array `pgdat->node_zonelists`. -/
def build_zonelists_loop (cfg : config) (node_zones : Nat → zone_t) :
    Nat → Nat → (Nat → zonelist_t) → Option (Nat → zonelist_t)
  | 0, _, zl => some zl
  | n + 1, i, zl =>
    match build_zonelist cfg node_zones i with
    | none => none
    | some z => build_zonelists_loop cfg node_zones n (i + 1) (Function.update zl i z)

/-- The function `build_zonelists(pgdat)`: `node_zones` and `node_zonelists` are
the arrays of `pgdat`; the result is the new `node_zonelists`. -/
def build_zonelists (cfg : config) (node_zones : Nat → zone_t)
    (node_zonelists : Nat → zonelist_t) : Option (Nat → zonelist_t) :=
  build_zonelists_loop cfg node_zones NR_GFPINDEX 0 node_zonelists

/-- The zone an allocation with flag index `i` starts from, as `build_zonelists`
computes it: DMA when `__GFP_DMA` is set, else HighMem when `__GFP_HIGHMEM` is
set, else Normal. -/
def goal_zone (cfg : config) (i : Nat) : Nat :=
  if i &&& cfg.GFP_DMA ≠ 0 then ZONE_DMA
  else if i &&& cfg.GFP_HIGHMEM ≠ 0 then ZONE_HIGHMEM
  else ZONE_NORMAL

/-- The goal zone in the words of the specification: "HighMem when
`__GFP_HIGHMEM` is set in `i`, DMA when `__GFP_DMA` is set in `i`, and Normal
otherwise". -/
def spec_goal_zone (cfg : config) (i : Nat) : Nat :=
  if i &&& cfg.GFP_HIGHMEM ≠ 0 then ZONE_HIGHMEM
  else if i &&& cfg.GFP_DMA ≠ 0 then ZONE_DMA
  else ZONE_NORMAL

/-- The zones in the order HighMem, Normal, DMA starting from `goal`. -/
def fallback_order (goal : Nat) : List Nat :=
  if goal = ZONE_HIGHMEM then [ZONE_HIGHMEM, ZONE_NORMAL, ZONE_DMA]
  else if goal = ZONE_NORMAL then [ZONE_NORMAL, ZONE_DMA]
  else [ZONE_DMA]

/-- The NULL-terminated array `zones[MAX_NR_ZONES+1]` that holds the zones of
non-zero size among the fallback order from `goal`. -/
def zonelist_from (node_zones : Nat → zone_t) (goal : Nat) : List (Option Nat) :=
  let zs := (fallback_order goal).filter (fun z => decide ((node_zones z).size ≠ 0))
  zs.map some ++ List.replicate (MAX_NR_ZONES + 1 - zs.length) none

/-- The static array `zone_balance_ratio` as initialised in page_alloc.c (the
boot parameter `memfrac=` can overwrite it). -/
def zone_balance_ratio (j : Nat) : Int := [32, 128, 128].getD j 0

/-- The static array `zone_balance_min` of page_alloc.c. -/
def zone_balance_min (j : Nat) : Nat := [10, 10, 10].getD j 0

/-- The static array `zone_balance_max` of page_alloc.c. -/
def zone_balance_max (j : Nat) : Nat := [255, 255, 255].getD j 0

/-- The body of the loop `for (j = 0; j < MAX_NR_ZONES; j++)` of
`free_area_init_core`, as far as the fields of `zone_t` go: `ratio` is the array
`zone_balance_ratio` at the time of the call, `size` is `zones_size[j]`,
`zholes_size` is `zholes_size[j]` when that array is given, `offset` the running
offset into `mem_map`.  `realsize / zone_balance_ratio[j]` is an unsigned
division (the `int` is converted to `unsigned long`); a zero divisor traps.  The
bitmaps come zeroed from the boot allocator. -/
def free_area_init_zone (ratio : Nat → Int) (j : Nat) (zone : zone_t) (size : Nat)
    (zholes_size : Option Nat) (offset : Nat) : Option zone_t :=
  let realsize :=
    match zholes_size with
    | some holes => (size + ULONG - holes % ULONG) % ULONG
    | none => size
  let zone := { zone with
    size := size, free_pages := 0, inactive_clean_pages := 0, inactive_dirty_pages := 0 }
  if size = 0 then some zone
  else
    let r := (ratio j % (ULONG : Int)).toNat
    if r = 0 then none
    else
      let mask := realsize / r
      let mask :=
        if mask < zone_balance_min j then zone_balance_min j
        else if mask > zone_balance_max j then zone_balance_max j
        else mask
      some { zone with
        offset := offset
        pages_min := mask
        pages_low := (mask * 2) % ULONG
        pages_high := (mask * 3) % ULONG
        free_area := fun k => if k < MAX_ORDER then { free_list := [], map := 0 }
          else zone.free_area k }

/-- What the first loop of `__alloc_pages` did at one zone of the zone list: it
called `rmqueue`, or woke the reclaim daemon, or passed on.  The log of these
is not part of the kernel state; it records the control flow. -/
inductive pass_event where
  | tried (z : Nat)
  | woke (z : Nat)
  | passed (z : Nat)
deriving DecidableEq

/-- The zone an event is about. -/
def pass_event.zone : pass_event → Nat
  | .tried z => z
  | .woke z => z
  | .passed z => z

/-- The first `for (;;)` loop of `__alloc_pages` (after the label `try_again`)
over the array `zonelist->zones`: the result is the state, the page (`none` when
the loop ends without one) and the log of what was done at each visited zone.
`wake_up_interruptible(&kreclaimd_wait)` is counted in `kreclaimd_wakeups`;
`waitqueue_active(&kreclaimd_wait)` is `kreclaimd_waiting`. -/
def alloc_pages_first_pass (order : Nat) :
    List (Option Nat) → machine → Option (machine × Option Nat × List pass_event)
  | [], s => some (s, none, [])
  | none :: _, s => some (s, none, [])
  | some z :: rest, s =>
    if (s.node_zones z).size = 0 then none
    else if (s.node_zones z).free_pages ≥ (s.node_zones z).pages_low then
      match rmqueue s z order with
      | none => none
      | some (s', some page) => some (s', some page, [pass_event.tried z])
      | some (s', none) =>
        match alloc_pages_first_pass order rest s' with
        | none => none
        | some (s'', r, log) => some (s'', r, pass_event.tried z :: log)
    else if (s.node_zones z).free_pages < (s.node_zones z).pages_min ∧
        s.kreclaimd_waiting = true then
      match alloc_pages_first_pass order rest
          { s with kreclaimd_wakeups := s.kreclaimd_wakeups + 1 } with
      | none => none
      | some (s'', r, log) => some (s'', r, pass_event.woke z :: log)
    else
      match alloc_pages_first_pass order rest s with
      | none => none
      | some (s'', r, log) => some (s'', r, pass_event.passed z :: log)

/-- The number of times the log says the reclaim daemon was woken. -/
def wake_count : List pass_event → Nat
  | [] => 0
  | pass_event.woke _ :: l => wake_count l + 1
  | _ :: l => wake_count l

/-! ## The slab allocator (mm/slab.c): cache creation -/

/-- Constants that slab.c takes from headers outside this development: the
page size, the size of a first-level cache line, and the three creation flags
of `linux/slab.h` that make up `CREATE_MASK` when `DEBUG` is 0. -/
structure slab_config where
  PAGE_SIZE : Nat
  L1_CACHE_BYTES : Nat
  SLAB_HWCACHE_ALIGN : Nat
  SLAB_NO_REAP : Nat
  SLAB_CACHE_DMA : Nat

/-- The value of `sizeof(void *)` on i386. -/
def BYTES_PER_WORD : Nat := 4

def CACHE_NAMELEN : Nat := 20

def MAX_OBJ_ORDER : Nat := 5

def SLAB_LIMIT : Nat := 0xfffffffe

def CFLGS_OFF_SLAB : Nat := 0x010000

/-- The value of `sizeof(slab_t)` on i386: a `list_head` (two pointers), an
`unsigned long`, a pointer, an `unsigned int` and a `kmem_bufctl_t`. -/
def sizeof_slab_t : Nat := 24

/-- The value of `sizeof(kmem_bufctl_t)`: an `unsigned int`. -/
def sizeof_kmem_bufctl_t : Nat := 4

/-- The largest value of an `int`. -/
def INT_MAX : Nat := 2 ^ 31 - 1

/-- Legal flag mask for `kmem_cache_create` (`DEBUG` is 0). -/
def CREATE_MASK (cfg : slab_config) : Nat :=
  cfg.SLAB_HWCACHE_ALIGN ||| cfg.SLAB_NO_REAP ||| cfg.SLAB_CACHE_DMA

/-- The sanity checks at the head of `kmem_cache_create`, up to the call that
allocates the cache descriptor.  `name` is `none` for a NULL pointer and
otherwise the characters before the terminating NUL, so `strlen` is the length
of the string; `ctor` and `dtor` say whether the function pointers are
non-NULL; `in_interrupt` is the value of `in_interrupt()`.  `size` and `offset`
are `size_t`, so `offset < 0` never holds.  The result is `none` when `BUG()`
is reached and `some flags` when control passes both checks (with `DEBUG` 0 the
flags are not altered in between). -/
def kmem_cache_create_checks (cfg : slab_config) (name : Option String) (size offset : Nat)
    (flags : Nat) (ctor dtor : Bool) ( in_interrupt : Bool) : Option Nat :=
  match name with
  | none => none
  | some nm =>
    if nm.length ≥ CACHE_NAMELEN - 1 ∨
        in_interrupt = true ∨
        size < BYTES_PER_WORD ∨
        size > ((1 <<< MAX_OBJ_ORDER) * cfg.PAGE_SIZE) % ULONG ∨
        (dtor = true ∧ ctor = false) ∨
        offset > size then none
    else if flags &&& ((ULONG - 1) ^^^ (CREATE_MASK cfg % ULONG)) ≠ 0 then none
    else some flags

/-- The faults that the specification lists for `kmem_cache_create`, in its
words: a missing name, a name too long for the `CACHE_NAMELEN`-byte field
(the string and its terminator do not fit), a caller in interrupt context, a
size below one word, a size above `2^MAX_OBJ_ORDER` pages, a destructor
without a constructor. -/
def spec_create_fault (cfg : slab_config) (name : Option String) (size : Nat)
    (ctor dtor : Bool) ( in_interrupt : Bool) : Prop :=
  (match name with
    | none => True
    | some nm => nm.length + 1 > CACHE_NAMELEN) ∨
  in_interrupt = true ∨
  size < BYTES_PER_WORD ∨
  size > 2 ^ MAX_OBJ_ORDER * cfg.PAGE_SIZE ∨
  (dtor = true ∧ ctor = false)

instance (cfg : slab_config) (name : Option String) (size : Nat) (ctor dtor : Bool)
    ( in_interrupt : Bool) :
    Decidable (spec_create_fault cfg name size ctor dtor in_interrupt) := by
  unfold spec_create_fault
  cases name <;> infer_instance

/-- The configuration of a 32-bit PC: 4 KiB pages, 32-byte cache lines, and the
flag values of `linux/slab.h`. -/
def slab_config_ex : slab_config :=
  { PAGE_SIZE := 4096, L1_CACHE_BYTES := 32, SLAB_HWCACHE_ALIGN := 0x2000,
    SLAB_NO_REAP := 0x1000, SLAB_CACHE_DMA := 0x4000 }

/-! ## The slab allocator (mm/slab.c): objects per slab -/

/-- Modelled from the spec: the macro `L1_CACHE_ALIGN` of `linux/cache.h`,
which is not among the sources, rounds its argument up to a multiple of the
cache line size (`align_up`); the addition is `size_t` arithmetic. -/
def L1_CACHE_ALIGN (cfg : slab_config) (x : Nat) : Nat :=
  ((x + (cfg.L1_CACHE_BYTES - 1)) % ULONG) / cfg.L1_CACHE_BYTES * cfg.L1_CACHE_BYTES

/-- The condition of the `while` loop of `kmem_cache_estimate`, in `size_t`
arithmetic: `i*size + L1_CACHE_ALIGN(base+i*extra) <= wastage`. -/
def estimate_cond (cfg : slab_config) (size base extra wastage i : Nat) : Bool :=
  decide (((i * size) % ULONG +
    L1_CACHE_ALIGN cfg ((base + (i * extra) % ULONG) % ULONG)) % ULONG ≤ wastage)

/-- The `while` loop of `kmem_cache_estimate`, from the value `i` on.  The
counter is an `int`: the first argument is the number of values it can still
take, and `none` stands for the signed overflow of `i++`. -/
def estimate_loop (cfg : slab_config) (size base extra wastage : Nat) : Nat → Nat → Option Nat
  | 0, _ => none
  | n + 1, i =>
    if estimate_cond cfg size base extra wastage i = true then
      estimate_loop cfg size base extra wastage n (i + 1)
    else some i

/-- The function `kmem_cache_estimate`: the result is `(*left_over, *num)`.
`SLAB_LIMIT` is an unsigned constant, so the comparison `i > SLAB_LIMIT`
converts `i`. -/
def kmem_cache_estimate (cfg : slab_config) (gfporder size flags : Nat) : Option (Nat × Nat) :=
  let wastage := (cfg.PAGE_SIZE <<< gfporder) % ULONG
  let base := if flags &&& CFLGS_OFF_SLAB = 0 then sizeof_slab_t else 0
  let extra := if flags &&& CFLGS_OFF_SLAB = 0 then sizeof_kmem_bufctl_t else 0
  match estimate_loop cfg size base extra wastage (INT_MAX + 1) 0 with
  | none => none
  | some i =>
    let i := if i > 0 then i - 1 else i
    let i := if i % ULONG > SLAB_LIMIT then SLAB_LIMIT else i
    let wastage := (wastage + ULONG - (i * size) % ULONG) % ULONG
    let wastage := (wastage + ULONG -
      L1_CACHE_ALIGN cfg ((base + (i * extra) % ULONG) % ULONG)) % ULONG
    some (wastage, i)

/-- The size of the slab header the specification counts: `sizeof(slab_t)` for
an on-slab cache, 0 when `CFLGS_OFF_SLAB` is set. -/
def spec_header (flags : Nat) : Nat :=
  if flags &&& CFLGS_OFF_SLAB = 0 then sizeof_slab_t else 0

/-- The size of an index slot the specification counts:
`sizeof(kmem_bufctl_t)` for an on-slab cache, 0 when `CFLGS_OFF_SLAB` is set. -/
def spec_slot (flags : Nat) : Nat :=
  if flags &&& CFLGS_OFF_SLAB = 0 then sizeof_kmem_bufctl_t else 0

/-- Rounding up to a multiple of the cache line size, over the natural
numbers. -/
def spec_align (cfg : slab_config) (x : Nat) : Nat :=
  (x + (cfg.L1_CACHE_BYTES - 1)) / cfg.L1_CACHE_BYTES * cfg.L1_CACHE_BYTES

/-- The specification's test that `N` objects fit into a slab of `2^order`
pages: `N*size + L1_CACHE_ALIGN(header + N*slot) <= PAGE_SIZE * 2^order`, over
the natural numbers. -/
def spec_fits (cfg : slab_config) (order size flags N : Nat) : Prop :=
  N * size + spec_align cfg (spec_header flags + N * spec_slot flags) ≤
    cfg.PAGE_SIZE * 2 ^ order

instance (cfg : slab_config) (order size flags N : Nat) :
    Decidable (spec_fits cfg order size flags N) := by
  unfold spec_fits; infer_instance

/-! ## The slab allocator (mm/slab.c): slabs, caches and the cache chain

Pointers of the slab allocator are addresses, natural numbers below `2^32`
with 0 for NULL.  A node of a linked list is named by the address of the
structure that holds it (`list` is the first member of `slab_t`); the list
head, which is embedded in the cache descriptor, is `none`. -/

def BUFCTL_END : Nat := 0xffffFFFF

def CFLGS_OPTIMIZE : Nat := 0x020000

def DFLGS_GROWN : Nat := 0x000001

def MAX_GFP_ORDER : Nat := 5

/-- The structure `slab_t` followed by its array of `kmem_bufctl_t`
(`slab_bufctl(slabp)`), which is `bufctl`.  The list node `list` is kept in the
list `slabs` of the cache. -/
structure slab_t where
  colouroff : Nat
  s_mem : Nat
  inuse : Nat
  free : Nat
  bufctl : Nat → Nat

/-- The structure `cpucache_t` followed by its array of object pointers
(`cc_entry(cc)`), which is `entry`. -/
structure cpucache_t where
  avail : Nat
  limit : Nat
  entry : Nat → Nat

/-- The structure `kmem_cache_t` of an SMP kernel, without statistics.  `slabs`
is the circular list of the cache's slabs, first to last; `firstnotfull` points
at a slab of it or at the list head (`none`); `ctor` and `dtor` say whether the
function pointers are non-NULL; `cpudata` is indexed by CPU.  The node `next`
is kept in `cache_chain` of the state. -/
structure kmem_cache_t where
  slabs : List Nat
  firstnotfull : Option Nat
  objsize : Nat
  flags : Nat
  num : Nat
  batchcount : Nat
  gfporder : Nat
  gfpflags : Nat
  colour : Nat
  colour_off : Nat
  colour_next : Nat
  slabp_cache : Nat
  growing : Nat
  dflags : Nat
  ctor : Bool
  dtor : Bool
  failures : Nat
  name : String
  cpudata : Nat → Nat

/-- An entry of the table `cache_sizes`. -/
structure cache_sizes_t where
  cs_size : Nat
  cs_cachep : Nat
  cs_dmacachep : Nat

/-- The state of the slab allocator.  `cache`, `slab` and `cpucache` are the
memory holding cache descriptors, slab descriptors and per-CPU arrays, by
address.  `cache_chain` is the list headed by `cache_cache.next`: the caches
linked behind the head, first to last (the head itself belongs to
`cache_cache`).  `page_cache`, `page_slab` and `PageSlab` are `list.next`,
`list.prev` and the `PG_slab` bit of the page descriptors, by frame number.

The page allocator is outside: `getpages k` is what the `k`-th call of
`__get_free_pages` returns (0 when it fails), `getpages_calls` counts the calls
made, and `pages_freed` records the calls of `free_pages` (address and order,
latest first).  `grown` records the caches for which `kmem_cache_grow`
returned 1, latest first; it is not kernel state. -/
structure kmem_state where
  cache : Nat → kmem_cache_t
  slab : Nat → slab_t
  cpucache : Nat → cpucache_t
  cache_chain : List Nat
  clock_searchp : Nat
  cache_sizes : List cache_sizes_t
  offslab_limit : Nat
  slab_break_gfp_order : Nat
  g_cpucache_up : Bool
  page_cache : Nat → Nat
  page_slab : Nat → Nat
  PageSlab : Nat → Bool
  getpages : Nat → Nat
  getpages_calls : Nat
  pages_freed : List (Nat × Nat)
  grown : List Nat

/-- What slab.c takes from its surroundings: the constants of `slab_config`,
the address of the static `cache_cache`, the number of CPUs, the CPU the code
runs on (`smp_processor_id()`), the value of `in_interrupt()`, the base of the
kernel's direct mapping, the flag values of `linux/slab.h` and `linux/mm.h`,
and `cpu_logical_map`. -/
structure slab_env where
  cfg : slab_config
  cache_cache : Nat
  NR_CPUS : Nat
  smp_num_cpus : Nat
  cpu : Nat
  in_interrupt : Bool
  PAGE_OFFSET : Nat
  GFP_DMA : Nat
  GFP_KERNEL : Nat
  SLAB_DMA : Nat
  SLAB_LEVEL_MASK : Nat
  SLAB_NO_GROW : Nat
  SLAB_ATOMIC : Nat
  SLAB_KERNEL : Nat
  cpu_logical_map : Nat → Nat

/-- Assignment to one cell of a memory. -/
def upd {α : Type} (f : Nat → α) (a : Nat) (v : α) : Nat → α :=
  fun b => if b = a then v else f b

/-- Modelled from the spec: the macro `virt_to_page` of `asm/page.h`, which is
not among the sources, gives the frame that holds a kernel address; frames are
numbered from the base of the direct mapping. -/
def virt_to_page (env : slab_env) (addr : Nat) : Nat :=
  ((addr + ULONG - env.PAGE_OFFSET % ULONG) % ULONG) / env.cfg.PAGE_SIZE

/-- The node after `p` in a circular list (`p->next`). -/
def list_next (l : List Nat) : Option Nat → Option Nat
  | none => l.head?
  | some x =>
    match l.dropWhile (fun y => decide (y ≠ x)) with
    | _ :: y :: _ => some y
    | _ => none

/-- The node before `p` in a circular list (`p->prev`). -/
def list_prev (l : List Nat) : Option Nat → Option Nat
  | none => l.getLast?
  | some x => (l.takeWhile (fun y => decide (y ≠ x))).getLast?

/-- The list after `list_del(&x->list)`. -/
def list_del (l : List Nat) (x : Nat) : List Nat := l.erase x

/-- The list after `list_add_tail(&x->list, t)`: `x` is put before `t`. -/
def list_add_tail (l : List Nat) (x : Nat) : Option Nat → List Nat
  | none => l ++ [x]
  | some t => l.takeWhile (fun y => decide (y ≠ t)) ++ x :: l.dropWhile (fun y => decide (y ≠ t))

/-- The list after `list_add(&x->list, head)`: `x` is put first. -/
def list_add (l : List Nat) (x : Nat) : List Nat := x :: l

/-- The loop of `kmem_cache_init_objs`, from counter `i` on, with `n` rounds
to go: `slab_bufctl(slabp)[i] = i+1`.  Constructors act on the objects only. -/
def init_objs_loop (bufctl : Nat → Nat) : Nat → Nat → Nat → Nat
  | 0, _ => bufctl
  | n + 1, i => init_objs_loop (upd bufctl i ((i + 1) % ULONG)) n (i + 1)

/-- The function `kmem_cache_init_objs`.  For `num = 0` the assignment to
`slab_bufctl(slabp)[i-1]` falls on `slabp->free`, which is set next. -/
def kmem_cache_init_objs (s : kmem_state) (cachep slabp : Nat) : kmem_state :=
  let num := (s.cache cachep).num
  let b := init_objs_loop (s.slab slabp).bufctl num 0
  let b := if num = 0 then b else upd b (num - 1) BUFCTL_END
  { s with slab := upd s.slab slabp { s.slab slabp with bufctl := b, free := 0 } }

/-- The function `kmem_cache_alloc_one_tail`: the new state and the object. -/
def kmem_cache_alloc_one_tail (s : kmem_state) (cachep slabp : Nat) : kmem_state × Nat :=
  let c := s.cache cachep
  let sl := s.slab slabp
  let objp := (sl.s_mem + (sl.free * c.objsize) % ULONG) % ULONG
  let free := sl.bufctl sl.free
  let s1 := { s with
    slab := upd s.slab slabp { sl with inuse := (sl.inuse + 1) % ULONG, free := free } }
  if free = BUFCTL_END then
    ({ s1 with
      cache := upd s1.cache cachep
        { c with firstnotfull := list_next c.slabs (some slabp) } }, objp)
  else (s1, objp)

/-- The function `kmem_cache_free_one` (`DEBUG` is 0).  The division by
`objsize` traps when that is 0. -/
def kmem_cache_free_one (env : slab_env) (s : kmem_state) (cachep objp : Nat) :
    Option kmem_state :=
  let c := s.cache cachep
  let slabp := s.page_slab (virt_to_page env objp)
  let sl := s.slab slabp
  if c.objsize % ULONG = 0 then none
  else
    let objnr := ((objp + ULONG - sl.s_mem % ULONG) % ULONG) / (c.objsize % ULONG)
    let sl1 := { sl with
      bufctl := upd sl.bufctl objnr sl.free
      free := objnr
      inuse := (sl.inuse + ULONG - 1) % ULONG }
    let s1 := { s with slab := upd s.slab slabp sl1 }
    if sl.inuse = c.num then
      -- moveslab_partial
      let t := c.firstnotfull
      if list_next c.slabs (some slabp) = t then
        some { s1 with cache := upd s1.cache cachep { c with firstnotfull := some slabp } }
      else
        some { s1 with
          cache := upd s1.cache cachep
            { c with
              firstnotfull := some slabp
              slabs := list_add_tail (list_del c.slabs slabp) slabp t } }
    else if sl1.inuse = 0 then
      -- moveslab_free
      let t := list_prev c.slabs c.firstnotfull
      let slabs := list_add_tail (list_del c.slabs slabp) slabp none
      if c.firstnotfull = some slabp then
        some { s1 with
          cache := upd s1.cache cachep
            { c with slabs := slabs, firstnotfull := list_next slabs t } }
      else
        some { s1 with cache := upd s1.cache cachep { c with slabs := slabs } }
    else some s1

/-! ## The slab allocator (mm/slab.c): growing a cache, allocation and release -/

/-- The function `kmem_getpages`: the next answer of the page allocator. -/
def kmem_getpages (s : kmem_state) : kmem_state × Nat :=
  ({ s with getpages_calls := s.getpages_calls + 1 }, s.getpages s.getpages_calls)

/-- The loop `while (i--) { PageClearSlab(page); page++; }` of
`kmem_freepages`, with `n` rounds to go. -/
def clear_slab_loop (flag : Nat → Bool) : Nat → Nat → Nat → Bool
  | 0, _ => flag
  | n + 1, page => clear_slab_loop (upd flag page false) n (page + 1)

/-- The function `kmem_freepages`. -/
def kmem_freepages (env : slab_env) (s : kmem_state) (cachep addr : Nat) : kmem_state :=
  let order := (s.cache cachep).gfporder
  { s with
    PageSlab := clear_slab_loop s.PageSlab ((1 <<< order) % ULONG) (virt_to_page env addr)
    pages_freed := (addr, order) :: s.pages_freed }

/-- The function `kmem_cache_slabmgmt`: the new state and the slab descriptor
(0 when its allocation failed).  `alloc` stands for `kmem_cache_alloc`, which
is defined further down, with `kmem_cache_grow`, as `__kmem_cache_alloc`. -/
def kmem_cache_slabmgmt (alloc : kmem_state → Nat → Nat → Option (kmem_state × Nat))
    (env : slab_env) (s : kmem_state) (cachep objp colour_off local_flags : Nat) :
    Option (kmem_state × Nat) :=
  let c := s.cache cachep
  if c.flags &&& CFLGS_OFF_SLAB ≠ 0 then
    match alloc s c.slabp_cache local_flags with
    | none => none
    | some (s1, slabp) =>
      if slabp = 0 then some (s1, 0)
      else
        some ({ s1 with
          slab := upd s1.slab slabp
            { s1.slab slabp with
              inuse := 0
              colouroff := colour_off
              s_mem := (objp + colour_off) % ULONG } }, slabp)
  else
    let slabp := (objp + colour_off) % ULONG
    let colour_off := (colour_off +
      L1_CACHE_ALIGN env.cfg ((((c.num * sizeof_kmem_bufctl_t) % ULONG) + sizeof_slab_t) % ULONG))
      % ULONG
    some ({ s with
      slab := upd s.slab slabp
        { s.slab slabp with
          inuse := 0
          colouroff := colour_off
          s_mem := (objp + colour_off) % ULONG } }, slabp)

/-- The loop `do { SET_PAGE_CACHE(page, cachep); SET_PAGE_SLAB(page, slabp);
PageSetSlab(page); page++; } while (--i)` of `kmem_cache_grow`, with `n` rounds
to go. -/
def set_pages_loop (cachep slabp : Nat) (s : kmem_state) : Nat → Nat → kmem_state
  | 0, _ => s
  | n + 1, page =>
    set_pages_loop cachep slabp
      { s with
        page_cache := upd s.page_cache page cachep
        page_slab := upd s.page_slab page slabp
        PageSlab := upd s.PageSlab page true } n (page + 1)

/-- The function `kmem_cache_grow`: the new state and the value returned.  The
`do ... while (--i)` loop over the pages runs `1 << gfporder` times. -/
def kmem_cache_grow (alloc : kmem_state → Nat → Nat → Option (kmem_state × Nat))
    (env : slab_env) (s : kmem_state) (cachep flags : Nat) : Option (kmem_state × Nat) :=
  if flags &&& ((ULONG - 1) ^^^
      ((env.SLAB_DMA ||| env.SLAB_LEVEL_MASK ||| env.SLAB_NO_GROW) % ULONG)) ≠ 0 then none
  else if flags &&& env.SLAB_NO_GROW ≠ 0 then some (s, 0)
  else if env.in_interrupt = true ∧ flags &&& env.SLAB_LEVEL_MASK ≠ env.SLAB_ATOMIC then none
  else
    let local_flags := flags &&& env.SLAB_LEVEL_MASK
    let c := s.cache cachep
    let offset := c.colour_next
    let colour_next := (c.colour_next + 1) % ULONG
    let colour_next := if colour_next ≥ c.colour then 0 else colour_next
    let offset := (offset * c.colour_off) % ULONG
    let s := { s with
      cache := upd s.cache cachep
        { c with
          colour_next := colour_next
          dflags := c.dflags ||| DFLGS_GROWN
          growing := (c.growing + 1) % ULONG } }
    let objp := (kmem_getpages s).2
    let s := (kmem_getpages s).1
    if objp = 0 then
      -- failed
      some ({ s with
        cache := upd s.cache cachep
          { s.cache cachep with growing := ((s.cache cachep).growing + ULONG - 1) % ULONG } }, 0)
    else
      match kmem_cache_slabmgmt alloc env s cachep objp offset local_flags with
      | none => none
      | some (s, slabp) =>
        if slabp = 0 then
          -- opps1
          let s := kmem_freepages env s cachep objp
          some ({ s with
            cache := upd s.cache cachep
              { s.cache cachep with
                growing := ((s.cache cachep).growing + ULONG - 1) % ULONG } }, 0)
        else
          let s := set_pages_loop cachep slabp s
            ((1 <<< (s.cache cachep).gfporder) % ULONG) (virt_to_page env objp)
          let s := kmem_cache_init_objs s cachep slabp
          let c := s.cache cachep
          let slabs := list_add_tail c.slabs slabp none
          some ({ s with
            cache := upd s.cache cachep
              { c with
                growing := (c.growing + ULONG - 1) % ULONG
                slabs := slabs
                firstnotfull := if c.firstnotfull = none then some slabp else c.firstnotfull
                failures := 0 }
            grown := cachep :: s.grown }, 1)

/-- The macro `kmem_cache_alloc_one`: `none` stands for the jump to
`alloc_new_slab`. -/
def kmem_cache_alloc_one (s : kmem_state) (cachep : Nat) : Option (kmem_state × Nat) :=
  match (s.cache cachep).firstnotfull with
  | none => none
  | some slabp => some (kmem_cache_alloc_one_tail s cachep slabp)

/-- The loop `while (batchcount--)` of `kmem_cache_alloc_batch`, with
`batchcount` rounds to go; `cc` is the address of the CPU's array. -/
def alloc_batch_loop (cachep cc : Nat) : Nat → kmem_state → kmem_state
  | 0, s => s
  | n + 1, s =>
    match (s.cache cachep).firstnotfull with
    | none => s
    | some slabp =>
      let s1 := (kmem_cache_alloc_one_tail s cachep slabp).1
      let objp := (kmem_cache_alloc_one_tail s cachep slabp).2
      let ccv := s1.cpucache cc
      alloc_batch_loop cachep cc n
        { s1 with
          cpucache := upd s1.cpucache cc
            { ccv with entry := upd ccv.entry ccv.avail objp, avail := (ccv.avail + 1) % ULONG } }

/-- The function `kmem_cache_alloc_batch`.  `batchcount` is read into an
`int`: a value above `INT_MAX` would make the counter negative, and the loop
then ends only by signed overflow, for which `none` stands. -/
def kmem_cache_alloc_batch (env : slab_env) (s : kmem_state) (cachep : Nat) :
    Option (kmem_state × Nat) :=
  let batchcount := (s.cache cachep).batchcount
  let cc := (s.cache cachep).cpudata env.cpu
  if batchcount > INT_MAX then none
  else
    let s := alloc_batch_loop cachep cc batchcount s
    let ccv := s.cpucache cc
    if ccv.avail ≠ 0 then
      let avail := (ccv.avail + ULONG - 1) % ULONG
      some ({ s with cpucache := upd s.cpucache cc { ccv with avail := avail } },
        ccv.entry avail)
    else some (s, 0)

/-- One pass of `__kmem_cache_alloc` from the label `try_again` to the
`return objp`: the outer `none` is a trap, the inner `none` the jump to
`alloc_new_slab` or `alloc_new_slab_nolock`. -/
def alloc_pass (env : slab_env) (s : kmem_state) (cachep : Nat) :
    Option (kmem_state × Option Nat) :=
  let cc := (s.cache cachep).cpudata env.cpu
  if cc ≠ 0 then
    let ccv := s.cpucache cc
    if ccv.avail ≠ 0 then
      let avail := (ccv.avail + ULONG - 1) % ULONG
      some ({ s with cpucache := upd s.cpucache cc { ccv with avail := avail } },
        some (ccv.entry avail))
    else
      match kmem_cache_alloc_batch env s cachep with
      | none => none
      | some (s1, objp) => if objp = 0 then some (s1, none) else some (s1, some objp)
  else
    match kmem_cache_alloc_one s cachep with
    | none => some (s, none)
    | some (s1, objp) => some (s1, some objp)

/-- The function `__kmem_cache_alloc` of an SMP kernel (on a uniprocessor
kernel it is the branch taken when the CPU has no array): the new state and
the object, 0 for NULL.  The first argument bounds the passes through
`try_again` and the depth of the calls made for off-slab slab descriptors;
`none` is a trap or the exhaustion of that bound. -/
def __kmem_cache_alloc (env : slab_env) :
    Nat → kmem_state → Nat → Nat → Option (kmem_state × Nat)
  | 0, _, _, _ => none
  | n + 1, s, cachep, flags =>
    match alloc_pass env s cachep with
    | none => none
    | some (s1, some objp) => some (s1, objp)
    | some (s1, none) =>
      match kmem_cache_grow (__kmem_cache_alloc env n) env s1 cachep flags with
      | none => none
      | some (s2, grew) =>
        if grew ≠ 0 then __kmem_cache_alloc env n s2 cachep flags
        else some (s2, 0)

/-- The function `kmem_cache_alloc`. -/
def kmem_cache_alloc (env : slab_env) (n : Nat) (s : kmem_state) (cachep flags : Nat) :
    Option (kmem_state × Nat) :=
  __kmem_cache_alloc env n s cachep flags

/-- The function `__free_block`: `kmem_cache_free_one` on the `len` objects
`objpp 0`, `objpp 1`, ... -/
def __free_block (env : slab_env) (cachep : Nat) (objpp : Nat → Nat) :
    Nat → Nat → kmem_state → Option kmem_state
  | 0, _, s => some s
  | len + 1, i, s =>
    match kmem_cache_free_one env s cachep (objpp i) with
    | none => none
    | some s1 => __free_block env cachep objpp len (i + 1) s1

/-- The function `free_block`; `len` is an `int`, given as the unsigned value
it was converted from, so that a value above `INT_MAX` is negative. -/
def free_block (env : slab_env) (s : kmem_state) (cachep : Nat) (objpp : Nat → Nat)
    (len : Nat) : Option kmem_state :=
  if len > INT_MAX then some s
  else __free_block env cachep objpp len 0 s

/-- The function `__kmem_cache_free` of an SMP kernel. -/
def __kmem_cache_free (env : slab_env) (s : kmem_state) (cachep objp : Nat) :
    Option kmem_state :=
  let cc := (s.cache cachep).cpudata env.cpu
  if cc ≠ 0 then
    let ccv := s.cpucache cc
    if ccv.avail < ccv.limit then
      some { s with
        cpucache := upd s.cpucache cc
          { ccv with entry := upd ccv.entry ccv.avail objp, avail := (ccv.avail + 1) % ULONG } }
    else
      let batchcount := (s.cache cachep).batchcount % ULONG
      let avail := (ccv.avail + ULONG - batchcount) % ULONG
      let s := { s with cpucache := upd s.cpucache cc { ccv with avail := avail } }
      match free_block env s cachep (fun i => ccv.entry (avail + i)) batchcount with
      | none => none
      | some s1 =>
        let ccv := s1.cpucache cc
        some { s1 with
          cpucache := upd s1.cpucache cc
            { ccv with entry := upd ccv.entry ccv.avail objp, avail := (ccv.avail + 1) % ULONG } }
  else free_block env s cachep (fun _ => objp) 1

/-- The function `kmem_cache_free`. -/
def kmem_cache_free (env : slab_env) (s : kmem_state) (cachep objp : Nat) :
    Option kmem_state :=
  __kmem_cache_free env s cachep objp

/-- The loop of `kmalloc` over the table `cache_sizes`: the cache chosen, or
`none` when the loop ends at the entry of size 0 and `BUG()` is reached. -/
def kmalloc_cachep (env : slab_env) (size flags : Nat) : List cache_sizes_t → Option Nat
  | [] => none
  | e :: rest =>
    if e.cs_size = 0 then none
    else if size > e.cs_size then kmalloc_cachep env size flags rest
    else some (if flags &&& env.GFP_DMA ≠ 0 then e.cs_dmacachep else e.cs_cachep)

/-- The function `kmalloc`. -/
def kmalloc (env : slab_env) (n : Nat) (s : kmem_state) (size flags : Nat) :
    Option (kmem_state × Nat) :=
  match kmalloc_cachep env size flags s.cache_sizes with
  | none => none
  | some cachep => __kmem_cache_alloc env n s cachep flags

/-- The function `kfree`. -/
def kfree (env : slab_env) (s : kmem_state) (objp : Nat) : Option kmem_state :=
  if objp = 0 then some s
  else __kmem_cache_free env s (s.page_cache (virt_to_page env objp)) objp

/-- The loop of `kmem_find_general_cachep`: it stops at the first entry that
is large enough or at the entry of size 0. -/
def kmem_find_general_cachep (env : slab_env) (size gfpflags : Nat) :
    List cache_sizes_t → Nat
  | [] => 0
  | e :: rest =>
    if e.cs_size ≠ 0 ∧ size > e.cs_size then kmem_find_general_cachep env size gfpflags rest
    else if gfpflags &&& env.GFP_DMA ≠ 0 then e.cs_dmacachep else e.cs_cachep

/-! ## The slab allocator: invariants of a slab and of the slab list -/

/-- The index chain `f, bufctl[f], bufctl[bufctl[f]], ...` runs through the
indices of `l`, in this order, and then reaches `BUFCTL_END`. -/
def is_chain (bufctl : Nat → Nat) : Nat → List Nat → Prop
  | f, [] => f = BUFCTL_END
  | f, i :: l => f = i ∧ i ≠ BUFCTL_END ∧ is_chain bufctl (bufctl i) l

instance is_chain_decidable (bufctl : Nat → Nat) :
    ∀ (f : Nat) (l : List Nat), Decidable (is_chain bufctl f l)
  | f, [] => by unfold is_chain; infer_instance
  | f, i :: l => by
    unfold is_chain
    have := is_chain_decidable bufctl (bufctl i) l
    infer_instance

/-- The free-list invariant of a slab of a cache with `N` objects per slab:
the chain from `free` reaches `BUFCTL_END` after `N - inuse` distinct indices,
all below `N`. -/
def slab_free_ok (N : Nat) (sl : slab_t) : Prop :=
  ∃ l : List Nat, is_chain sl.bufctl sl.free l ∧ l.Nodup ∧ (∀ i ∈ l, i < N) ∧
    l.length + sl.inuse = N

/-- The free-list invariant for every slab on the list of a cache. -/
def cache_free_ok (s : kmem_state) (cachep : Nat) : Prop :=
  ∀ x ∈ (s.cache cachep).slabs, slab_free_ok (s.cache cachep).num (s.slab x)

/-- The address `objp` is that of an object of the slab, with an index below
`N`, that is not on the slab's free chain. -/
def slab_obj_allocated (N : Nat) (sl : slab_t) (objsize objp : Nat) : Prop :=
  ∃ i, i < N ∧ objp = sl.s_mem + i * objsize ∧ objp < ULONG ∧
    ∀ l, is_chain sl.bufctl sl.free l → i ∉ l

/-- The environment of a uniprocessor PC, for the examples: 4 KiB pages, the
direct mapping at 3 GiB, and the flag values of linux-2.4.0. -/
def slab_env_ex : slab_env :=
  { cfg := slab_config_ex, cache_cache := 0xC0300000, NR_CPUS := 1, smp_num_cpus := 1,
    cpu := 0, in_interrupt := false, PAGE_OFFSET := 0xC0000000, GFP_DMA := 0x08,
    GFP_KERNEL := 0x07, SLAB_DMA := 0x08, SLAB_LEVEL_MASK := 0x07, SLAB_NO_GROW := 0x1000,
    SLAB_ATOMIC := 0x02, SLAB_KERNEL := 0x07, cpu_logical_map := fun i => i }

/-- An on-slab cache of 256-byte objects without slabs: 15 objects fit into a
page behind the slab descriptor, and 160 bytes are left for 5 colours. -/
def cache_ex : kmem_cache_t :=
  { slabs := [], firstnotfull := none, objsize := 256, flags := 0x22000, num := 15,
    batchcount := 0, gfporder := 0, gfpflags := 0, colour := 5, colour_off := 32,
    colour_next := 0, slabp_cache := 0, growing := 0, dflags := 0, ctor := false,
    dtor := false, failures := 0, name := "size-256", cpudata := fun _ => 0 }

/-- An empty slab descriptor, for the examples. -/
def slab_ex : slab_t :=
  { colouroff := 0, s_mem := 0, inuse := 0, free := 0, bufctl := fun _ => 0 }

/-- A state in which every cache is like `cache_ex`, nothing is allocated, and
the page allocator answers with the pages at 3 GiB + 16 MiB and up. -/
def kmem_state_ex : kmem_state :=
  { cache := fun _ => cache_ex, slab := fun _ => slab_ex,
    cpucache := fun _ => { avail := 0, limit := 0, entry := fun _ => 0 },
    cache_chain := [], clock_searchp := 0xC0300000, cache_sizes := [], offslab_limit := 0,
    slab_break_gfp_order := 1, g_cpucache_up := false, page_cache := fun _ => 0,
    page_slab := fun _ => 0, PageSlab := fun _ => false,
    getpages := fun k => 0xC1000000 + 4096 * k, getpages_calls := 0, pages_freed := [],
    grown := [] }

/-- The state of `kmem_cache_grow` when it calls `kmem_cache_slabmgmt`: the
colour is advanced, `DFLGS_GROWN` and `growing` are set and the pages are
taken. -/
def grow_start (s : kmem_state) (cachep : Nat) : kmem_state :=
  let c := s.cache cachep
  let colour_next := (c.colour_next + 1) % ULONG
  let colour_next := if colour_next ≥ c.colour then 0 else colour_next
  (kmem_getpages { s with
    cache := upd s.cache cachep
      { c with
        colour_next := colour_next
        dflags := c.dflags ||| DFLGS_GROWN
        growing := (c.growing + 1) % ULONG } }).1

/-- The colour offset that `kmem_cache_grow` passes to `kmem_cache_slabmgmt`. -/
def grow_offset (s : kmem_state) (cachep : Nat) : Nat :=
  ((s.cache cachep).colour_next * (s.cache cachep).colour_off) % ULONG

/-- The state in which `kmem_cache_grow` returns 1, from the state `s` in which
`kmem_cache_slabmgmt` returned the descriptor `slabp` for the pages at `objp`. -/
def grow_finish (env : slab_env) (s : kmem_state) (cachep slabp objp : Nat) : kmem_state :=
  let s := set_pages_loop cachep slabp s
    ((1 <<< (s.cache cachep).gfporder) % ULONG) (virt_to_page env objp)
  let s := kmem_cache_init_objs s cachep slabp
  let c := s.cache cachep
  { s with
    cache := upd s.cache cachep
      { c with
        growing := (c.growing + ULONG - 1) % ULONG
        slabs := list_add_tail c.slabs slabp none
        firstnotfull := if c.firstnotfull = none then some slabp else c.firstnotfull
        failures := 0 }
    grown := cachep :: s.grown }

/-- The flags with which `kmem_cache_grow` neither traps nor declines. -/
def grow_flags_ok (env : slab_env) (flags : Nat) : Prop :=
  flags &&& ((ULONG - 1) ^^^
      ((env.SLAB_DMA ||| env.SLAB_LEVEL_MASK ||| env.SLAB_NO_GROW) % ULONG)) = 0 ∧
  flags &&& env.SLAB_NO_GROW = 0 ∧
  ¬ (env.in_interrupt = true ∧ flags &&& env.SLAB_LEVEL_MASK ≠ env.SLAB_ATOMIC)

instance (env : slab_env) (flags : Nat) : Decidable (grow_flags_ok env flags) := by
  unfold grow_flags_ok; infer_instance

/-- The members of a cache descriptor that are set when the cache is created
or tuned and that allocation and release leave alone are the same in `c` and
`c2`. -/
def cache_same (c c2 : kmem_cache_t) : Prop :=
  c2.objsize = c.objsize ∧ c2.num = c.num ∧ c2.flags = c.flags ∧
  c2.batchcount = c.batchcount ∧ c2.gfporder = c.gfporder ∧ c2.gfpflags = c.gfpflags ∧
  c2.colour = c.colour ∧ c2.colour_off = c.colour_off ∧ c2.slabp_cache = c.slabp_cache ∧
  c2.ctor = c.ctor ∧ c2.dtor = c.dtor ∧ c2.name = c.name ∧ c2.cpudata = c.cpudata

/-- Every cache descriptor has the same constant members in `s` and `s2`. -/
def state_same (s s2 : kmem_state) : Prop :=
  ∀ x, cache_same (s.cache x) (s2.cache x)

/-- The index of the object at `objp` in its slab, as `kmem_cache_free_one`
computes it. -/
def free_objnr (env : slab_env) (s : kmem_state) (cachep objp : Nat) : Nat :=
  ((objp + ULONG - (s.slab (s.page_slab (virt_to_page env objp))).s_mem % ULONG) % ULONG) /
    ((s.cache cachep).objsize % ULONG)

/-- The slab descriptor after `kmem_cache_free_one` has put the object at
`objp` back. -/
def free_slab (env : slab_env) (s : kmem_state) (cachep objp : Nat) : slab_t :=
  { s.slab (s.page_slab (virt_to_page env objp)) with
    bufctl := upd (s.slab (s.page_slab (virt_to_page env objp))).bufctl
      (free_objnr env s cachep objp) (s.slab (s.page_slab (virt_to_page env objp))).free
    free := free_objnr env s cachep objp
    inuse := ((s.slab (s.page_slab (virt_to_page env objp))).inuse + ULONG - 1) % ULONG }

/-- The state in which `kmem_cache_grow` returns 0 from the label `failed`,
`s` being the state reached there. -/
def grow_failed (s : kmem_state) (cachep : Nat) : kmem_state :=
  { s with
    cache := upd s.cache cachep
      { s.cache cachep with growing := ((s.cache cachep).growing + ULONG - 1) % ULONG } }

/-- The slab-list order invariant of a cache: the list has no repetition and
is made of full slabs (`inuse = num`), then partially used slabs, then empty
slabs (`inuse = 0`), and `firstnotfull` points at the first slab that is not
full, or at the list head when there is none. -/
def slab_order_ok (s : kmem_state) (cachep : Nat) : Prop :=
  (s.cache cachep).slabs.Nodup ∧
  ∃ full part emp : List Nat, (s.cache cachep).slabs = full ++ (part ++ emp) ∧
    (∀ x ∈ full, (s.slab x).inuse = (s.cache cachep).num) ∧
    (∀ x ∈ part, (s.slab x).inuse ≠ 0 ∧ (s.slab x).inuse ≠ (s.cache cachep).num) ∧
    (∀ x ∈ emp, (s.slab x).inuse = 0) ∧
    (s.cache cachep).firstnotfull = (part ++ emp).head?

/-- The removal of the last slab of the list, as `__kmem_cache_shrink` and
`kmem_cache_reap` do it before they destroy the slab: `list_del(&slabp->list)`
and, if `firstnotfull` pointed at it, `firstnotfull = &cachep->slabs`. -/
def slab_unlink (s : kmem_state) (cachep slabp : Nat) : kmem_state :=
  let c := s.cache cachep
  { s with
    cache := upd s.cache cachep
      { c with
        slabs := list_del c.slabs slabp
        firstnotfull := if c.firstnotfull = some slabp then none else c.firstnotfull } }

/-! ## The slab allocator (mm/slab.c): shrinking and destroying a cache -/

/-- The function `kmem_slab_destroy` (`DEBUG` is 0); destructors act on the
objects only. -/
def kmem_slab_destroy (env : slab_env) (s : kmem_state) (cachep slabp : Nat) :
    Option kmem_state :=
  let c := s.cache cachep
  let sl := s.slab slabp
  let s1 := kmem_freepages env s cachep ((sl.s_mem + ULONG - sl.colouroff % ULONG) % ULONG)
  if c.flags &&& CFLGS_OFF_SLAB ≠ 0 then kmem_cache_free env s1 c.slabp_cache slabp
  else some s1

/-- The loop of `drain_cpu_caches` over the CPUs, from `i` on with `n` rounds
to go.  The two calls of `do_ccupdate_local` around it exchange the arrays of
the cache with NULL pointers and back, so that `new.new[cpu]` is what
`cpudata[cpu]` was; `smp_call_function` is taken to succeed. -/
def drain_loop (env : slab_env) (cachep : Nat) : Nat → Nat → kmem_state → Option kmem_state
  | 0, _, s => some s
  | n + 1, i, s =>
    let ccold := (s.cache cachep).cpudata (env.cpu_logical_map i)
    if ccold = 0 ∨ (s.cpucache ccold).avail = 0 then drain_loop env cachep n (i + 1) s
    else
      match free_block env s cachep (s.cpucache ccold).entry ((s.cpucache ccold).avail % ULONG)
        with
      | none => none
      | some s1 =>
        drain_loop env cachep n (i + 1)
          { s1 with cpucache := upd s1.cpucache ccold { s1.cpucache ccold with avail := 0 } }

/-- The function `drain_cpu_caches` of an SMP kernel. -/
def drain_cpu_caches (env : slab_env) (s : kmem_state) (cachep : Nat) : Option kmem_state :=
  drain_loop env cachep env.smp_num_cpus 0 s

/-- The slab that the loop of `__kmem_cache_shrink` takes next: the last of the
list when the cache is not growing, the list is not empty and that slab has no
object in use. -/
def shrink_next (s : kmem_state) (cachep : Nat) : Option Nat :=
  if (s.cache cachep).growing ≠ 0 then none
  else
    match list_prev (s.cache cachep).slabs none with
    | none => none
    | some slabp => if (s.slab slabp).inuse ≠ 0 then none else some slabp

/-- The loop `while (!cachep->growing)` of `__kmem_cache_shrink`.  Every round
takes a slab off the list; the first argument bounds the rounds by the number
of slabs there were, and `none` is a trap or the exhaustion of that bound. -/
def shrink_loop (env : slab_env) (cachep : Nat) : Nat → kmem_state → Option kmem_state
  | 0, s =>
    match shrink_next s cachep with
    | none => some s
    | some _ => none
  | n + 1, s =>
    match shrink_next s cachep with
    | none => some s
    | some slabp =>
      match kmem_slab_destroy env (slab_unlink s cachep slabp) cachep slabp with
      | none => none
      | some s1 => shrink_loop env cachep n s1

/-- The function `__kmem_cache_shrink`: the new state and the value returned. -/
def __kmem_cache_shrink (env : slab_env) (s : kmem_state) (cachep : Nat) :
    Option (kmem_state × Nat) :=
  match drain_cpu_caches env s cachep with
  | none => none
  | some s1 =>
    match shrink_loop env cachep (s1.cache cachep).slabs.length s1 with
    | none => none
    | some s2 => some (s2, if (s2.cache cachep).slabs = [] then 0 else 1)

/-- The loop `for (scan = 0; scan < best_len; scan++)` at the label `perfect`
of `kmem_cache_reap`, with `n` rounds to go. -/
def reap_free_loop (env : slab_env) (best_cachep : Nat) : Nat → kmem_state → Option kmem_state
  | 0, s => some s
  | n + 1, s =>
    match shrink_next s best_cachep with
    | none => some s
    | some slabp =>
      match kmem_slab_destroy env (slab_unlink s best_cachep slabp) best_cachep slabp with
      | none => none
      | some s1 => reap_free_loop env best_cachep n s1

/-- The cache whose node follows that of `x` on the circular cache chain
(`list_entry(x->next.next, kmem_cache_t, next)`); the head of the chain is the
node of `cache_cache`. -/
def chain_next (env : slab_env) (s : kmem_state) (x : Nat) : Nat :=
  match list_next s.cache_chain (if x = env.cache_cache then none else some x) with
  | none => env.cache_cache
  | some y => y

/-- The loop `for (i = 0; i < NR_CPUS; i++) kfree(cachep->cpudata[i])` of
`kmem_cache_destroy`, from `i` on with `n` rounds to go. -/
def destroy_kfree_loop (env : slab_env) (cachep : Nat) :
    Nat → Nat → kmem_state → Option kmem_state
  | 0, _, s => some s
  | n + 1, i, s =>
    match kfree env s ((s.cache cachep).cpudata i) with
    | none => none
    | some s1 => destroy_kfree_loop env cachep n (i + 1) s1

/-- The function `kmem_cache_destroy` of an SMP kernel: the new state and the
value returned.  (`cache_cache`, whose node is the head of the chain, is never
destroyed.) -/
def kmem_cache_destroy (env : slab_env) (s : kmem_state) (cachep : Nat) :
    Option (kmem_state × Nat) :=
  if cachep = 0 ∨ env.in_interrupt = true ∨ (s.cache cachep).growing ≠ 0 then none
  else
    let s := { s with
      clock_searchp := if s.clock_searchp = cachep then chain_next env s cachep
        else s.clock_searchp
      cache_chain := list_del s.cache_chain cachep }
    match __kmem_cache_shrink env s cachep with
    | none => none
    | some (s1, ret) =>
      if ret ≠ 0 then some ({ s1 with cache_chain := list_add s1.cache_chain cachep }, 1)
      else
        match destroy_kfree_loop env cachep env.NR_CPUS 0 s1 with
        | none => none
        | some s2 =>
          match kmem_cache_free env s2 env.cache_cache cachep with
          | none => none
          | some s3 => some (s3, 0)

/-! ## Example states of the slab allocator -/

/-- The state `kmem_state_ex` after `kmem_cache_grow` has given the cache at
address 0 its first slab: the slab descriptor is at the start of the page at
3 GiB + 16 MiB and the 15 objects of 256 bytes start 96 bytes into it. -/
def kmem_state_ex1 : kmem_state :=
  match kmem_cache_grow (__kmem_cache_alloc slab_env_ex 1) slab_env_ex kmem_state_ex 0 0x07 with
  | some (s, _) => s
  | none => kmem_state_ex

/-- Repetitions of `kmem_cache_free(cachep, p)` followed by
`kmem_cache_alloc(cachep, flags)`, `k` of them: the state reached, or `none`
when a call traps or an allocation returns another pointer than `p`. -/
def lifo_iter (env : slab_env) (n cachep flags p : Nat) : Nat → kmem_state → Option kmem_state
  | 0, s => some s
  | k + 1, s =>
    match kmem_cache_free env s cachep p with
    | none => none
    | some s2 =>
      match kmem_cache_alloc env n s2 cachep flags with
      | none => none
      | some (s3, q) => if q = p then lifo_iter env n cachep flags p k s3 else none

/-- The CPU's array of the cache is in the state that `kmem_tune_cpucache`
and the allocator keep it in: it is there, `0 < limit`, it holds at most
`limit` objects, and `1 ≤ batchcount ≤ limit`; the object size is not 0. -/
def magazine_ok (env : slab_env) (s : kmem_state) (cachep : Nat) : Prop :=
  (s.cache cachep).cpudata env.cpu ≠ 0 ∧
  0 < (s.cpucache ((s.cache cachep).cpudata env.cpu)).limit ∧
  (s.cpucache ((s.cache cachep).cpudata env.cpu)).limit < ULONG ∧
  (s.cpucache ((s.cache cachep).cpudata env.cpu)).avail ≤
    (s.cpucache ((s.cache cachep).cpudata env.cpu)).limit ∧
  1 ≤ (s.cache cachep).batchcount ∧
  (s.cache cachep).batchcount ≤ (s.cpucache ((s.cache cachep).cpudata env.cpu)).limit ∧
  (s.cache cachep).objsize % ULONG ≠ 0

instance (env : slab_env) (s : kmem_state) (cachep : Nat) :
    Decidable (magazine_ok env s cachep) := by
  unfold magazine_ok; infer_instance

/-- The state `kmem_state_ex1` with an array of limit 2 and `batchcount` 1 for
the cache at address 0, after the first three objects of the slab have been
handed out and the first two released again: these two are in the array,
which is full. -/
def kmem_state_ex2 : kmem_state :=
  { kmem_state_ex1 with
    cache := upd kmem_state_ex1.cache 0
      { kmem_state_ex1.cache 0 with cpudata := fun _ => 0xC0400000, batchcount := 1 }
    slab := upd kmem_state_ex1.slab 0xC1000000
      { kmem_state_ex1.slab 0xC1000000 with inuse := 3, free := 3 }
    cpucache := fun _ => { avail := 2, limit := 2, entry := fun i => 0xC1000060 + 256 * i } }
/-! ## The slab allocator: a run of allocations from an empty cache -/

/-- The state after `k` successive calls `kmem_cache_alloc(cachep, flags)`,
each of which returned an object; `none` when one of them traps or returns
NULL. -/
def alloc_iter (env : slab_env) (n cachep flags : Nat) : Nat → kmem_state → Option kmem_state
  | 0, s => some s
  | k + 1, s =>
    match kmem_cache_alloc env n s cachep flags with
    | none => none
    | some (s1, objp) => if objp = 0 then none else alloc_iter env n cachep flags k s1

/-- The bytes that a slab of the on-slab cache `c` takes from the start of its
pages to the end of its last object when its colour is at most `m`: colour
offset, slab descriptor with the index array, objects. -/
def slab_extent (env : slab_env) (c : kmem_cache_t) (m : Nat) : Nat :=
  m * c.colour_off +
    L1_CACHE_ALIGN env.cfg ((((c.num * sizeof_kmem_bufctl_t) % ULONG) + sizeof_slab_t) % ULONG) +
    c.num * c.objsize

/-- The next two answers of the page allocator are blocks, not NULL, that lie
in the address space and apart from each other by at least the extent of a
slab of the cache. -/
def pages_ok (env : slab_env) (s : kmem_state) (cachep m : Nat) : Prop :=
  0 < s.getpages s.getpages_calls ∧
  s.getpages s.getpages_calls + slab_extent env (s.cache cachep) m < ULONG ∧
  0 < s.getpages (s.getpages_calls + 1) ∧
  s.getpages (s.getpages_calls + 1) + slab_extent env (s.cache cachep) m < ULONG ∧
  (s.getpages s.getpages_calls + slab_extent env (s.cache cachep) m ≤
      s.getpages (s.getpages_calls + 1) ∨
    s.getpages (s.getpages_calls + 1) + slab_extent env (s.cache cachep) m ≤
      s.getpages s.getpages_calls)

instance (env : slab_env) (s : kmem_state) (cachep m : Nat) :
    Decidable (pages_ok env s cachep m) := by
  unfold pages_ok; infer_instance

/-- The slab list of the cache is `pre` followed by the slab `slabp`, which has
`u` objects in use, a sound free chain and objects at addresses that neither
are 0 nor wrap; `firstnotfull` points at `slabp` as long as it is not full,
and at the list head then. -/
def open_slab (s : kmem_state) (cachep : Nat) (pre : List Nat) (slabp u : Nat) : Prop :=
  (s.cache cachep).slabs = pre ++ [slabp] ∧ slabp ∉ pre ∧
  (s.cache cachep).firstnotfull = (if u < (s.cache cachep).num then some slabp else none) ∧
  slab_free_ok (s.cache cachep).num (s.slab slabp) ∧
  (s.slab slabp).inuse = u ∧
  0 < (s.slab slabp).s_mem ∧
  (s.slab slabp).s_mem + (s.cache cachep).num * (s.cache cachep).objsize < ULONG

/-- The per-CPU array at `cc` holds `a` objects, none of them NULL. -/
def mag_ok (s : kmem_state) (cc a : Nat) : Prop :=
  (s.cpucache cc).avail = a ∧ ∀ i, i < a → (s.cpucache cc).entry i ≠ 0

/-- What an allocation that does not grow the cache leaves alone: the record
of growths, the page allocator, the colour of the next slab and the constant
members of the cache. -/
def alloc_quiet (s s2 : kmem_state) (cachep : Nat) : Prop :=
  s2.grown = s.grown ∧ s2.getpages = s.getpages ∧ s2.getpages_calls = s.getpages_calls ∧
  (s2.cache cachep).colour_next = (s.cache cachep).colour_next ∧
  cache_same (s.cache cachep) (s2.cache cachep)

/-- In a run of allocations from the slab `slabp`, `j` of its objects have been
handed out: the others that count as in use lie in the CPU's array, which,
when there is one, is refilled in batches of `1 ≤ batchcount ≤ INT_MAX`. -/
def run_inv (env : slab_env) (s : kmem_state) (cachep : Nat) (pre : List Nat)
    (slabp j : Nat) : Prop :=
  ∃ u a, open_slab s cachep pre slabp u ∧ u = j + a ∧
    if (s.cache cachep).cpudata env.cpu = 0 then a = 0
    else mag_ok s ((s.cache cachep).cpudata env.cpu) a ∧
      1 ≤ (s.cache cachep).batchcount ∧ (s.cache cachep).batchcount ≤ INT_MAX

/-- The state in which `kmem_cache_slabmgmt` returns for a cache that keeps its
slab descriptors in the slab: the descriptor lies at `objp + colour_off`, the
objects behind it and the index array. -/
def onslab_mgmt (env : slab_env) (s : kmem_state) (cachep objp colour_off : Nat) : kmem_state :=
  { s with
    slab := upd s.slab ((objp + colour_off) % ULONG)
      { s.slab ((objp + colour_off) % ULONG) with
        inuse := 0
        colouroff := (colour_off + L1_CACHE_ALIGN env.cfg
          (((((s.cache cachep).num * sizeof_kmem_bufctl_t) % ULONG) + sizeof_slab_t) % ULONG))
          % ULONG
        s_mem := (objp + (colour_off + L1_CACHE_ALIGN env.cfg
          (((((s.cache cachep).num * sizeof_kmem_bufctl_t) % ULONG) + sizeof_slab_t) % ULONG))
          % ULONG) % ULONG } }

/-- The static table `cache_sizes`, as initialised in the source: the sizes of
the general caches, with the entry of 32 bytes only for pages of 4096 bytes,
ended by the entry of size 0; the cache pointers are NULL until
`kmem_cache_sizes_init` has run. -/
def cache_sizes (cfg : slab_config) : List cache_sizes_t :=
  (if cfg.PAGE_SIZE = 4096 then [{ cs_size := 32, cs_cachep := 0, cs_dmacachep := 0 }] else []) ++
  [{ cs_size := 64, cs_cachep := 0, cs_dmacachep := 0 },
   { cs_size := 128, cs_cachep := 0, cs_dmacachep := 0 },
   { cs_size := 256, cs_cachep := 0, cs_dmacachep := 0 },
   { cs_size := 512, cs_cachep := 0, cs_dmacachep := 0 },
   { cs_size := 1024, cs_cachep := 0, cs_dmacachep := 0 },
   { cs_size := 2048, cs_cachep := 0, cs_dmacachep := 0 },
   { cs_size := 4096, cs_cachep := 0, cs_dmacachep := 0 },
   { cs_size := 8192, cs_cachep := 0, cs_dmacachep := 0 },
   { cs_size := 16384, cs_cachep := 0, cs_dmacachep := 0 },
   { cs_size := 32768, cs_cachep := 0, cs_dmacachep := 0 },
   { cs_size := 65536, cs_cachep := 0, cs_dmacachep := 0 },
   { cs_size := 131072, cs_cachep := 0, cs_dmacachep := 0 },
   { cs_size := 0, cs_cachep := 0, cs_dmacachep := 0 }]

/-- The state `kmem_state_ex` with the table of the general caches filled in:
the cache of size `n` lies at `0xC0310000 + n`, its DMA variant at
`0xC0350000 + n`. -/
def kmem_state_ex3 : kmem_state :=
  { kmem_state_ex with
    cache_sizes := (cache_sizes slab_config_ex).map (fun e =>
      if e.cs_size = 0 then e
      else { e with cs_cachep := 0xC0310000 + e.cs_size,
                    cs_dmacachep := 0xC0350000 + e.cs_size }) }

/-! ## The slab allocator (mm/slab.c): tuning the per-CPU arrays -/

/-- Modelled from the spec: the error number `EINVAL` of `asm/errno.h`, which
is not among the sources. -/
def EINVAL : Int := 22

/-- Modelled from the spec: the error number `ENOMEM` of `asm/errno.h`, which
is not among the sources. -/
def ENOMEM : Int := 12

/-- The size of a pointer on i386. -/
def sizeof_void_p : Nat := 4

/-- The size of `cpucache_t` on i386: two `unsigned int`. -/
def sizeof_cpucache_t : Nat := 8

/-- The loop of `kmem_tune_cpucache` that allocates the new arrays, from CPU
`i` on with `k` rounds to go: the state, `new.new`, and the value of `i` at the
jump to `oom` when an allocation fails.  `n` bounds the work of `kmalloc`. -/
def tune_alloc_loop (env : slab_env) (n limit : Nat) :
    Nat → Nat → (Nat → Nat) → kmem_state → Option (kmem_state × (Nat → Nat) × Option Nat)
  | 0, _, new, s => some (s, new, none)
  | k + 1, i, new, s =>
    match kmalloc env n s
      (((sizeof_void_p * limit) % ULONG + sizeof_cpucache_t) % ULONG) env.GFP_KERNEL with
    | none => none
    | some (s1, ccnew) =>
      if ccnew = 0 then some (s1, new, some i)
      else
        tune_alloc_loop env n limit k (i + 1) (upd new (env.cpu_logical_map i) ccnew)
          { s1 with
            cpucache := upd s1.cpucache ccnew
              { s1.cpucache ccnew with limit := limit, avail := 0 } }

/-- The loop `for (i--; i >= 0; i--) kfree(new.new[cpu_logical_map(i)])` at
the label `oom` of `kmem_tune_cpucache`, entered with `i = k`. -/
def tune_oom_loop (env : slab_env) (new : Nat → Nat) : Nat → kmem_state → Option kmem_state
  | 0, s => some s
  | k + 1, s =>
    match kfree env s (new (env.cpu_logical_map k)) with
    | none => none
    | some s1 => tune_oom_loop env new k s1

/-- The function `do_ccupdate_local` on the CPU `cpu`: the array of the cache
and `new->new[cpu]` are exchanged. -/
def do_ccupdate_local (s : kmem_state) (cachep : Nat) (new : Nat → Nat) (cpu : Nat) :
    kmem_state × (Nat → Nat) :=
  ({ s with
    cache := upd s.cache cachep
      { s.cache cachep with cpudata := upd (s.cache cachep).cpudata cpu (new cpu) } },
    upd new cpu ((s.cache cachep).cpudata cpu))

/-- The call `smp_call_function_all_cpus(do_ccupdate_local, &new)`:
`do_ccupdate_local` runs once on each of the CPUs `cpu_logical_map(i)`,
`i < smp_num_cpus`; here from `i` on with `k` rounds to go.
`smp_call_function` is taken to succeed. -/
def smp_call_function_all_cpus (env : slab_env) (cachep : Nat) :
    Nat → Nat → kmem_state × (Nat → Nat) → kmem_state × (Nat → Nat)
  | 0, _, r => r
  | k + 1, i, r =>
    smp_call_function_all_cpus env cachep k (i + 1)
      (do_ccupdate_local r.1 cachep r.2 (env.cpu_logical_map i))

/-- The last loop of `kmem_tune_cpucache`, which releases the objects of the
old arrays and the old arrays, from CPU `i` on with `k` rounds to go. -/
def tune_free_loop (env : slab_env) (cachep : Nat) (new : Nat → Nat) :
    Nat → Nat → kmem_state → Option kmem_state
  | 0, _, s => some s
  | k + 1, i, s =>
    if new (env.cpu_logical_map i) = 0 then tune_free_loop env cachep new k (i + 1) s
    else
      match free_block env s cachep (s.cpucache (new (env.cpu_logical_map i))).entry
        ((s.cpucache (new (env.cpu_logical_map i))).avail % ULONG) with
      | none => none
      | some s1 =>
        match kfree env s1 (new (env.cpu_logical_map i)) with
        | none => none
        | some s2 => tune_free_loop env cachep new k (i + 1) s2

/-- The function `kmem_tune_cpucache` of an SMP kernel: the new state and the
value returned; `none` is a trap.  `limit` and `batchcount` are `int`. -/
def kmem_tune_cpucache (env : slab_env) (n : Nat) (s : kmem_state) (cachep : Nat)
    (limit batchcount : Int) : Option (kmem_state × Int) :=
  if limit < 0 then some (s, -EINVAL)
  else if batchcount < 0 then some (s, -EINVAL)
  else if batchcount > limit then some (s, -EINVAL)
  else if limit ≠ 0 ∧ batchcount = 0 then some (s, -EINVAL)
  else
    match (if limit ≠ 0 then
        tune_alloc_loop env n limit.toNat env.smp_num_cpus 0 (fun _ => 0) s
      else some (s, fun _ => 0, none)) with
    | none => none
    | some (s1, new, some i) =>
      match tune_oom_loop env new i s1 with
      | none => none
      | some s2 => some (s2, -ENOMEM)
    | some (s1, new, none) =>
      let s2 := { s1 with
        cache := upd s1.cache cachep { s1.cache cachep with batchcount := batchcount.toNat } }
      let r := smp_call_function_all_cpus env cachep env.smp_num_cpus 0 (s2, new)
      match tune_free_loop env cachep r.2 env.smp_num_cpus 0 r.1 with
      | none => none
      | some s3 => some (s3, 0)

/-- The function `enable_cpucache`; the message printed when
`kmem_tune_cpucache` fails is left out. -/
def enable_cpucache (env : slab_env) (n : Nat) (s : kmem_state) (cachep : Nat) :
    Option kmem_state :=
  if (s.cache cachep).objsize > env.cfg.PAGE_SIZE then some s
  else
    let limit : Int :=
      if (s.cache cachep).objsize > 1024 then 60
      else if (s.cache cachep).objsize > 256 then 124
      else 252
    match kmem_tune_cpucache env n s cachep limit (limit / 2) with
    | none => none
    | some (s1, _) => some s1

/-! ## The slab allocator: what releasing objects leaves alone -/

/-- What the release of objects leaves alone in the cache descriptors and the
cache chain: the constant members and `growing` of every cache, and the
chain. -/
def free_frame (s s2 : kmem_state) : Prop :=
  state_same s s2 ∧ (∀ x, (s2.cache x).growing = (s.cache x).growing) ∧
  s2.cache_chain = s.cache_chain

/-- The state of `kmem_cache_destroy` when it calls `__kmem_cache_shrink`: the
cache is off the chain and `clock_searchp` does not point at it. -/
def destroy_unlink (env : slab_env) (s : kmem_state) (cachep : Nat) : kmem_state :=
  { s with
    clock_searchp := if s.clock_searchp = cachep then chain_next env s cachep
      else s.clock_searchp
    cache_chain := list_del s.cache_chain cachep }

/-- The state `kmem_state_ex` with the cache at `0xC0300100` on the chain and
holding one slab, of which one object is in use. -/
def kmem_state_ex4 : kmem_state :=
  { kmem_state_ex with
    cache := upd kmem_state_ex.cache 0xC0300100
      { cache_ex with slabs := [0xC1000000], firstnotfull := some 0xC1000000 }
    slab := upd kmem_state_ex.slab 0xC1000000
      { colouroff := 96, s_mem := 0xC1000060, inuse := 1, free := 1,
        bufctl := fun i => if i < 14 then i + 1 else BUFCTL_END }
    cache_chain := [0xC0300100] }

/-! ## The slab allocator: the back-pointers of the pages of a slab -/

/-- The page of every object of every slab on the list of the cache has
`PG_slab` set and points back to the cache and to the slab. -/
def slab_pages_ok (env : slab_env) (s : kmem_state) (cachep : Nat) : Prop :=
  ∀ slabp ∈ (s.cache cachep).slabs, ∀ i, i < (s.cache cachep).num →
    s.PageSlab (virt_to_page env ((s.slab slabp).s_mem + i * (s.cache cachep).objsize)) = true ∧
    s.page_cache (virt_to_page env ((s.slab slabp).s_mem + i * (s.cache cachep).objsize)) =
      cachep ∧
    s.page_slab (virt_to_page env ((s.slab slabp).s_mem + i * (s.cache cachep).objsize)) = slabp

/-! ## The slab allocator (mm/slab.c): kmem_cache_create -/

/-- The size after `kmem_cache_create` has forced it to a multiple of the
word size: `size += BYTES_PER_WORD-1; size &= ~(BYTES_PER_WORD-1)` when
`size & (BYTES_PER_WORD-1)` is not 0. -/
def create_word_align (size : Nat) : Nat :=
  if size &&& (BYTES_PER_WORD - 1) ≠ 0 then
    ((size + (BYTES_PER_WORD - 1)) % ULONG) &&& ((ULONG - 1) ^^^ (BYTES_PER_WORD - 1))
  else size

/-- The loop `while (size < align/2) align /= 2` of `kmem_cache_create`; the
first argument bounds the rounds, and `align` itself is enough. -/
def create_align_loop (size : Nat) : Nat → Nat → Nat
  | 0, align => align
  | n + 1, align =>
    if size < align / 2 then create_align_loop size n (align / 2) else align

/-- The flags after `kmem_cache_create` has decided where the slab descriptor
goes: `CFLGS_OFF_SLAB` is set when the word-aligned size is at least
`PAGE_SIZE>>3`. -/
def create_flags (cfg : slab_config) (size flags : Nat) : Nat :=
  if create_word_align size ≥ cfg.PAGE_SIZE >>> 3 then flags ||| CFLGS_OFF_SLAB else flags

/-- The alignment `align` that `kmem_cache_create` ends up with. -/
def create_align (cfg : slab_config) (size flags : Nat) : Nat :=
  if create_flags cfg size flags &&& cfg.SLAB_HWCACHE_ALIGN ≠ 0 then
    create_align_loop (create_word_align size)
      (if flags &&& cfg.SLAB_HWCACHE_ALIGN ≠ 0 then cfg.L1_CACHE_BYTES else BYTES_PER_WORD)
      (if flags &&& cfg.SLAB_HWCACHE_ALIGN ≠ 0 then cfg.L1_CACHE_BYTES else BYTES_PER_WORD)
  else if flags &&& cfg.SLAB_HWCACHE_ALIGN ≠ 0 then cfg.L1_CACHE_BYTES else BYTES_PER_WORD

/-- The object size that `kmem_cache_create` stores in `cachep->objsize`:
the word-aligned size, and with `SLAB_HWCACHE_ALIGN`
`(size+align-1)&(~(align-1))`, in `size_t` arithmetic. -/
def create_objsize (cfg : slab_config) (size flags : Nat) : Nat :=
  if create_flags cfg size flags &&& cfg.SLAB_HWCACHE_ALIGN ≠ 0 then
    ((create_word_align size + create_align cfg size flags + ULONG - 1) % ULONG) &&&
      ((ULONG - 1) ^^^ ((create_align cfg size flags + ULONG - 1) % ULONG))
  else create_word_align size

/-- The loop of `kmem_cache_create` that selects the page order, from
`cachep->gfporder = gfporder` on: the result is `(gfporder, left_over, num)`.
When an off-slab cache would get more than `offslab_limit` objects,
`gfporder--` is followed by one more estimate and the `break`.  The first
argument bounds the rounds; `none` is a trap (in `kmem_cache_estimate`) or the
exhaustion of that bound. -/
def create_order_loop (cfg : slab_config) (offslab_limit slab_break_gfp_order size flags : Nat) :
    Nat → Nat → Option (Nat × Nat × Nat)
  | 0, _ => none
  | n + 1, gfporder =>
    match kmem_cache_estimate cfg gfporder size flags with
    | none => none
    | some (left_over, num) =>
      if gfporder ≥ MAX_GFP_ORDER then some (gfporder, left_over, num)
      else if num = 0 then
        create_order_loop cfg offslab_limit slab_break_gfp_order size flags n
          ((gfporder + 1) % ULONG)
      else if flags &&& CFLGS_OFF_SLAB ≠ 0 ∧ num > offslab_limit then
        match kmem_cache_estimate cfg ((gfporder + ULONG - 1) % ULONG) size flags with
        | none => none
        | some (left_over2, num2) => some ((gfporder + ULONG - 1) % ULONG, left_over2, num2)
      else if gfporder ≥ slab_break_gfp_order then some (gfporder, left_over, num)
      else if (left_over * 8) % ULONG ≤ (cfg.PAGE_SIZE <<< gfporder) % ULONG then
        some (gfporder, left_over, num)
      else
        create_order_loop cfg offslab_limit slab_break_gfp_order size flags n
          ((gfporder + 1) % ULONG)

/-- A cache descriptor after `memset(cachep, 0, sizeof(kmem_cache_t))`. -/
def cache_zero : kmem_cache_t :=
  { slabs := [], firstnotfull := none, objsize := 0, flags := 0, num := 0, batchcount := 0,
    gfporder := 0, gfpflags := 0, colour := 0, colour_off := 0, colour_next := 0,
    slabp_cache := 0, growing := 0, dflags := 0, ctor := false, dtor := false, failures := 0,
    name := "", cpudata := fun _ => 0 }

/-- The descriptor that `kmem_cache_create` has filled in when it reaches
`#ifdef CONFIG_SMP`, from the results `(gfporder, left_over, num)` of the order
loop; `none` when `left_over/offset` divides by 0.  `sizes` is the table
`cache_sizes`. -/
def create_descriptor (env : slab_env) (sizes : List cache_sizes_t) (nm : String)
    (size offset flags : Nat) (ctor dtor : Bool) (gfporder left_over num : Nat) :
    Option kmem_cache_t :=
  let cfg := env.cfg
  let align := create_align cfg size flags
  let flags1 := create_flags cfg size flags
  let slab_size := L1_CACHE_ALIGN cfg
    ((((num * sizeof_kmem_bufctl_t) % ULONG) + sizeof_slab_t) % ULONG)
  let move := flags1 &&& CFLGS_OFF_SLAB ≠ 0 ∧ left_over ≥ slab_size
  let flags2 := if move then flags1 &&& ((ULONG - 1) ^^^ CFLGS_OFF_SLAB) else flags1
  let left_over := if move then left_over - slab_size else left_over
  let offset1 := ((offset + align + ULONG - 1) % ULONG) &&&
    ((ULONG - 1) ^^^ ((align + ULONG - 1) % ULONG))
  let offset2 := if offset1 = 0 then cfg.L1_CACHE_BYTES else offset1
  if offset2 = 0 then none
  else
    let flags3 := if gfporder = 0 ∧ flags2 &&& CFLGS_OFF_SLAB = 0 then flags2 ||| CFLGS_OPTIMIZE
      else flags2
    some { cache_zero with
      objsize := create_objsize cfg size flags
      flags := flags3
      num := num
      gfporder := gfporder
      gfpflags := if flags3 &&& cfg.SLAB_CACHE_DMA ≠ 0 then env.GFP_DMA else 0
      colour := left_over / offset2
      colour_off := offset2
      slabp_cache := if flags3 &&& CFLGS_OFF_SLAB ≠ 0 then
        kmem_find_general_cachep env slab_size 0 sizes else 0
      ctor := ctor
      dtor := dtor
      name := nm }

/-- The function `kmem_cache_create` of an SMP kernel (`DEBUG` is 0): the new
state and the cache returned, 0 for NULL; `none` is a trap.  `n` bounds the
work of the allocations made on the way. -/
def kmem_cache_create (env : slab_env) (n : Nat) (s : kmem_state) (name : Option String)
    (size offset flags : Nat) (ctor dtor : Bool) : Option (kmem_state × Nat) :=
  match name with
  | none => none
  | some nm =>
    match kmem_cache_create_checks env.cfg (some nm) size offset flags ctor dtor
        env.in_interrupt with
    | none => none
    | some flags =>
      match kmem_cache_alloc env n s env.cache_cache env.SLAB_KERNEL with
      | none => none
      | some (s1, cachep) =>
        if cachep = 0 then some (s1, 0)
        else
          match create_order_loop env.cfg s1.offslab_limit s1.slab_break_gfp_order
              (create_objsize env.cfg size flags) (create_flags env.cfg size flags)
              (MAX_GFP_ORDER + 2) 0 with
          | none => none
          | some (gfporder, left_over, num) =>
            if num = 0 then
              match kmem_cache_free env
                  { s1 with
                    cache := upd s1.cache cachep { cache_zero with gfporder := gfporder } }
                  env.cache_cache cachep with
              | none => none
              | some s2 => some (s2, 0)
            else
              match create_descriptor env s1.cache_sizes nm size offset flags ctor dtor gfporder
                  left_over num with
              | none => none
              | some c =>
                match (if s1.g_cpucache_up = true then
                    enable_cpucache env n { s1 with cache := upd s1.cache cachep c } cachep
                  else some { s1 with cache := upd s1.cache cachep c }) with
                | none => none
                | some s3 =>
                  if ∃ pc ∈ s3.cache_chain, (s3.cache pc).name = nm then none
                  else some ({ s3 with cache_chain := list_add s3.cache_chain cachep }, cachep)

/-! ## The slab allocator: what allocation and release leave alone -/

/-- The tables and switches of the allocator are the same in `s` and `s2`:
the cache chain, the table of the general caches, `offslab_limit`,
`slab_break_gfp_order` and `g_cpucache_up`. -/
def globals_same (s s2 : kmem_state) : Prop :=
  s2.cache_chain = s.cache_chain ∧ s2.cache_sizes = s.cache_sizes ∧
  s2.offslab_limit = s.offslab_limit ∧ s2.slab_break_gfp_order = s.slab_break_gfp_order ∧
  s2.g_cpucache_up = s.g_cpucache_up

/-- The members of a cache descriptor that `kmem_cache_create` sets and that
nothing changes afterwards, tuning included, are the same in `c` and `c2`. -/
def geom_same (c c2 : kmem_cache_t) : Prop :=
  c2.objsize = c.objsize ∧ c2.num = c.num ∧ c2.flags = c.flags ∧ c2.gfporder = c.gfporder ∧
  c2.gfpflags = c.gfpflags ∧ c2.colour = c.colour ∧ c2.colour_off = c.colour_off ∧
  c2.slabp_cache = c.slabp_cache ∧ c2.ctor = c.ctor ∧ c2.dtor = c.dtor ∧ c2.name = c.name

/-- Every cache has the same geometry in `s` and `s2`, and the tables and
switches are the same. -/
def create_frame (s s2 : kmem_state) : Prop :=
  (∀ x, geom_same (s.cache x) (s2.cache x)) ∧ globals_same s s2

/-- The per-CPU arrays have the same `limit` in `s` and `s2`, at every
address. -/
def limits_same (s s2 : kmem_state) : Prop :=
  ∀ a, (s2.cpucache a).limit = (s.cpucache a).limit

/-- The state `kmem_state_ex` with the name of `cache_cache` as the source
gives it. -/
def kmem_state_ex5 : kmem_state :=
  { kmem_state_ex with
    cache := upd kmem_state_ex.cache 0xC0300000 { cache_ex with name := "kmem_cache" } }
/-- The state in which `kmem_cache_create` has returned the cache
"inode_cache" of 96-byte objects with `SLAB_HWCACHE_ALIGN`, called in
`kmem_state_ex`. -/
def kmem_state_ex6 : kmem_state :=
  match kmem_cache_create slab_env_ex 2 kmem_state_ex (some "inode_cache") 96 0 0x2000 false
    false with
  | some r => r.1
  | none => kmem_state_ex
/-- The state `kmem_state_ex3` in which the general cache of size 8192 has
objects of two pages: an off-slab cache with one object per slab of order 1. -/
def kmem_state_ex7 : kmem_state :=
  { kmem_state_ex3 with
    cache := upd kmem_state_ex3.cache 0xC0312000
      { cache_ex with
        objsize := 8192, flags := 0x10000, num := 1, gfporder := 1, colour := 0,
        name := "size-8192" } }

/-- The state `kmem_state_ex` with a table of general caches that has the one
size 1024, its cache at `0xC0310400`. -/
def kmem_state_ex8 : kmem_state :=
  { kmem_state_ex with
    cache_sizes := [{ cs_size := 1024, cs_cachep := 0xC0310400, cs_dmacachep := 0xC0350400 },
      { cs_size := 0, cs_cachep := 0, cs_dmacachep := 0 }] }
/-! ## The buddy allocator: closed form of a release, further example states -/

/-- The zone after `__free_pages_ok` has released the run at zone index `idx`
at order `j` and merged it up to order `m`: the closed form of `free_loop`.
At every order `k` with `j ≤ k < m` the buddy of the block that contains `idx`
is taken off list `k` and the bit of the pair is toggled; at order `m` the
block that contains `idx` is put at the head of the list, and the bit of its
pair is toggled unless `m = MAX_ORDER - 1`. -/
def merge_zone (zone : zone_t) (idx j m : Nat) : zone_t :=
  { zone with free_area := fun k =>
      if j ≤ k ∧ k < m then
        { free_list := (zone.free_area k).free_list.erase
            (zone.offset + (block_of idx k ^^^ 2 ^ k))
          map := change_bit (idx / 2 ^ (k + 1)) (zone.free_area k).map }
      else if k = m then
        { free_list := (zone.offset + block_of idx m) :: (zone.free_area m).free_list
          map := if m < MAX_ORDER - 1 then change_bit (idx / 2 ^ (m + 1)) (zone.free_area m).map
            else (zone.free_area m).map }
      else zone.free_area k }

/-- A zone of 64 pages at offset 0 whose only free block is the order-5 block
of pages 0..31 (pages 32..63 are allocated, so the pair bit of the block is
set). -/
def zone_ex5 : zone_t :=
  { offset := 0, free_pages := 32, inactive_clean_pages := 0, inactive_dirty_pages := 0,
    pages_min := 0, pages_low := 0, pages_high := 0,
    free_area := (fun k => if k = 5 then { free_list := [0], map := 1 }
      else { free_list := [], map := 0 }),
    size := 64 }

/-- A machine with 64 page frames whose zones are all `zone_ex5`. -/
def machine_ex5 : machine :=
  { mem_map := fun _ => page_ex, max_mapnr := 64, node_zones := fun _ => zone_ex5,
    memory_pressure := 0, kreclaimd_waiting := false, kreclaimd_wakeups := 0 }

/-- A zone of 8 pages at offset 0 in which page 1 is free at order 0 and the
pages 2..3 are free at order 1; page 0 and the pages 4..7 are allocated, so the
pair bits of the orders 0 and 1 are set and that of order 2 is clear. -/
def zone_ex6 : zone_t :=
  { offset := 0, free_pages := 3, inactive_clean_pages := 0, inactive_dirty_pages := 0,
    pages_min := 0, pages_low := 0, pages_high := 0,
    free_area := (fun k => if k = 0 then { free_list := [1], map := 1 }
      else if k = 1 then { free_list := [2], map := 1 }
      else { free_list := [], map := 0 }),
    size := 8 }

/-- A machine with 8 page frames whose zones are all `zone_ex6`. -/
def machine_ex6 : machine :=
  { mem_map := fun _ => page_ex, max_mapnr := 8, node_zones := fun _ => zone_ex6,
    memory_pressure := 0, kreclaimd_waiting := false, kreclaimd_wakeups := 0 }
/-! ## `mm/page_alloc.c`: the final phase of `__alloc_pages` -/

/-- What the last loop of `__alloc_pages` did at one zone of the zone list:
`reclaim_page` gave a page, or the zone was passed over because it is below a
quarter of `pages_min`, or `rmqueue` was called.  The log records the control
flow; it is not part of the kernel state. -/
inductive final_event where
  | reclaimed (z : Nat)
  | skipped (z : Nat)
  | tried (z : Nat)
deriving DecidableEq

/-- The zone an event is about. -/
def final_event.zone : final_event → Nat
  | .reclaimed z => z
  | .skipped z => z
  | .tried z => z

/-- The last `for (;;)` loop of `__alloc_pages` ("Final phase: allocate
anything we can!") over the array `zonelist->zones`: the state, the page
(`none` when the loop ends at the NULL entry and NULL is returned) and the log
of what was done at each visited zone; `none` is the `BUG()` on a zone of size
0 or a trap of `rmqueue`.  `pf_memalloc` is `current->flags & PF_MEMALLOC`,
`direct_reclaim` the local variable.  `reclaim_page` belongs to mm/vmscan.c,
which is not among the sources, and is a parameter. -/
def alloc_pages_final_scan (order : Nat) (pf_memalloc direct_reclaim : Bool)
    (reclaim_page : machine → Nat → machine × Option Nat) :
    List (Option Nat) → machine → Option (machine × Option Nat × List final_event)
  | [], s => some (s, none, [])
  | none :: _, s => some (s, none, [])
  | some z :: rest, s =>
    if (s.node_zones z).size = 0 then none
    else
      let r := if direct_reclaim then reclaim_page s z else (s, none)
      match r.2 with
      | some page => some (r.1, some page, [final_event.reclaimed z])
      | none =>
        if (r.1.node_zones z).free_pages < (r.1.node_zones z).pages_min / 4 ∧
            pf_memalloc = false then
          match alloc_pages_final_scan order pf_memalloc direct_reclaim reclaim_page rest
              r.1 with
          | none => none
          | some (s'', res, log) => some (s'', res, final_event.skipped z :: log)
        else
          match rmqueue r.1 z order with
          | none => none
          | some (s', some page) => some (s', some page, [final_event.tried z])
          | some (s', none) =>
            match alloc_pages_final_scan order pf_memalloc direct_reclaim reclaim_page rest
                s' with
            | none => none
            | some (s'', res, log) => some (s'', res, final_event.tried z :: log)

/-- The zone `zone_ex` with `pages_min = 40`: its 8 free pages are fewer than
a quarter of that. -/
def zone_ex7 : zone_t := { zone_ex with pages_min := 40 }

/-- A machine with 16 page frames whose zones are all `zone_ex7`. -/
def machine_ex7 : machine :=
  { mem_map := fun _ => page_ex, max_mapnr := 16, node_zones := fun _ => zone_ex7,
    memory_pressure := 0, kreclaimd_waiting := false, kreclaimd_wakeups := 0 }
/-- The state `kmem_state_ex` in which the cache at `0xC0300100` (15 objects
per slab) has two slabs: the one at `0xC1000000` is full, the one at
`0xC1001000` has one object in use and is what `firstnotfull` points at. -/
def kmem_state_ex9 : kmem_state :=
  { kmem_state_ex with
    cache := upd kmem_state_ex.cache 0xC0300100
      { cache_ex with slabs := [0xC1000000, 0xC1001000], firstnotfull := some 0xC1001000 }
    slab := upd (upd kmem_state_ex.slab 0xC1000000
        { colouroff := 96, s_mem := 0xC1000060, inuse := 15, free := BUFCTL_END,
          bufctl := fun i => if i < 14 then i + 1 else BUFCTL_END })
      0xC1001000
        { colouroff := 96, s_mem := 0xC1001060, inuse := 1, free := 1,
          bufctl := fun i => if i < 14 then i + 1 else BUFCTL_END }
    page_slab := fun f => if f = 4096 then 0xC1000000 else if f = 4097 then 0xC1001000 else 0
    page_cache := fun f => if f = 4096 ∨ f = 4097 then 0xC0300100 else 0
    cache_chain := [0xC0300100] }
/-- The state after `k` successive calls `kmem_cache_grow(cachep, flags)`,
whatever they return; `none` when one of them traps. -/
def grow_iter (alloc : kmem_state → Nat → Nat → Option (kmem_state × Nat)) (env : slab_env)
    (cachep flags : Nat) : Nat → kmem_state → Option kmem_state
  | 0, s => some s
  | k + 1, s =>
    match kmem_cache_grow alloc env s cachep flags with
    | none => none
    | some (s1, _) => grow_iter alloc env cachep flags k s1
/-- What the release of objects of another cache leaves alone for the cache
`cachep` with the slabs `L0`: the constant members of every cache, the whole
descriptor of `cachep`, the slab descriptors of `L0`, the table from pages to
slabs and the record of the pages given back. -/
def apart_frame (cachep : Nat) (L0 : List Nat) (s s2 : kmem_state) : Prop :=
  state_same s s2 ∧ s2.cache cachep = s.cache cachep ∧ (∀ x ∈ L0, s2.slab x = s.slab x) ∧
  s2.page_slab = s.page_slab ∧ s2.pages_freed = s.pages_freed

/-- The slab descriptors of `cachep` are objects of another cache, none of
size 0: neither they nor the objects in the array that cache has for this CPU
lie in a page of a slab of `L0`. -/
def offslab_apart (env : slab_env) (s : kmem_state) (cachep : Nat) (L0 : List Nat) : Prop :=
  (s.cache cachep).slabp_cache ≠ cachep ∧
  (s.cache (s.cache cachep).slabp_cache).objsize % ULONG ≠ 0 ∧
  (∀ x ∈ L0, s.page_slab (virt_to_page env x) ∉ L0) ∧
  ((s.cache (s.cache cachep).slabp_cache).cpudata env.cpu ≠ 0 →
    ∀ i, s.page_slab (virt_to_page env
      ((s.cpucache ((s.cache (s.cache cachep).slabp_cache).cpudata env.cpu)).entry i)) ∉ L0)

/-- The state `kmem_state_ex9` with two more slabs at the end of the list of
the cache at `0xC0300100`, at `0xC1002000` and `0xC1003000`, neither with an
object in use. -/
def kmem_state_ex11 : kmem_state :=
  { kmem_state_ex9 with
    cache := upd kmem_state_ex9.cache 0xC0300100
      { kmem_state_ex9.cache 0xC0300100 with
        slabs := [0xC1000000, 0xC1001000, 0xC1002000, 0xC1003000] }
    slab := upd (upd kmem_state_ex9.slab 0xC1002000
        { colouroff := 96, s_mem := 0xC1002060, inuse := 0, free := 0,
          bufctl := fun i => if i < 14 then i + 1 else BUFCTL_END })
      0xC1003000
        { colouroff := 96, s_mem := 0xC1003060, inuse := 0, free := 0,
          bufctl := fun i => if i < 14 then i + 1 else BUFCTL_END } }

/-! ## The slab allocator (mm/slab.c): reaping -/

def REAP_SCANLEN : Nat := 10

def REAP_PERFECT : Nat := 10

/-- The loop of `kmem_cache_reap` that counts the slabs without an object in
use from the tail of the list on; the argument is the list from its tail to
its head. -/
def full_free_loop (s : kmem_state) : List Nat → Nat
  | [] => 0
  | slabp :: rest => if (s.slab slabp).inuse ≠ 0 then 0 else full_free_loop s rest + 1

/-- The value `pages` that `kmem_cache_reap` computes for a cache with
`full_free` free slabs at the end of its list (`unsigned int` arithmetic). -/
def reap_pages (c : kmem_cache_t) (full_free : Nat) : Nat :=
  let pages := (full_free * ((1 <<< c.gfporder) % ULONG)) % ULONG
  let pages := if c.ctor = true then ((pages * 4 + 1) % ULONG) / 5 else pages
  if c.gfporder ≠ 0 then ((pages * 4 + 1) % ULONG) / 5 else pages

/-- The body of the loop of `kmem_cache_reap` for the cache `searchp`, up to
the count of its free slabs: the new state, and the count `full_free` unless
the cache is passed over (`goto next`, `goto next_unlock`).  The objects of the
array of this CPU go back to their slabs first (`__free_block` with the `int`
length `cc->avail`). -/
def reap_visit (env : slab_env) (s : kmem_state) (searchp : Nat) :
    Option (kmem_state × Option Nat) :=
  let c := s.cache searchp
  if c.flags &&& env.cfg.SLAB_NO_REAP ≠ 0 then some (s, none)
  else if c.growing ≠ 0 then some (s, none)
  else if c.dflags &&& DFLGS_GROWN ≠ 0 then
    some ({ s with
      cache := upd s.cache searchp { c with dflags := c.dflags &&& (ULONG - 1 - DFLGS_GROWN) } },
      none)
  else
    let cc := c.cpudata env.cpu
    if cc ≠ 0 ∧ (s.cpucache cc).avail ≠ 0 then
      match free_block env s searchp (s.cpucache cc).entry ((s.cpucache cc).avail % ULONG) with
      | none => none
      | some s1 =>
        let s2 := { s1 with cpucache := upd s1.cpucache cc { s1.cpucache cc with avail := 0 } }
        some (s2, some (full_free_loop s2 (s2.cache searchp).slabs.reverse % ULONG))
    else some (s, some (full_free_loop s (s.cache searchp).slabs.reverse % ULONG))

/-- What the scan of `kmem_cache_reap` has chosen so far: `best_cachep` (NULL
is `none`), `best_len` and `best_pages`. -/
structure reap_best where
  best_cachep : Option Nat
  best_len : Nat
  best_pages : Nat

/-- The update of the best cache after the visit of `searchp`, which gave
`v`. -/
def reap_select (c : kmem_cache_t) (searchp : Nat) (v : Option Nat) (b : reap_best) :
    reap_best :=
  match v with
  | none => b
  | some full_free =>
    if reap_pages c full_free > b.best_pages then
      { best_cachep := some searchp, best_len := full_free,
        best_pages := reap_pages c full_free }
    else b

/-- Whether the visit of `searchp`, which gave `v`, ends the scan at once
(`goto perfect`). -/
def reap_is_perfect (c : kmem_cache_t) (v : Option Nat) (b : reap_best) : Bool :=
  match v with
  | none => false
  | some full_free =>
    decide (reap_pages c full_free > b.best_pages ∧ full_free ≥ REAP_PERFECT)

/-- The loop `do { ... } while (--scan && searchp != clock_searchp)` of
`kmem_cache_reap` with `scan` at `n`, and the assignment to `clock_searchp`
that ends it on either way out.  The last component records the caches
visited, each with its `full_free` and `pages` if it was not passed over; the
code keeps no such record. -/
def reap_scan (env : slab_env) :
    Nat → Nat → reap_best → kmem_state → List (Nat × Option (Nat × Nat)) →
      Option (kmem_state × reap_best × List (Nat × Option (Nat × Nat)))
  | 0, searchp, b, s, log => some ({ s with clock_searchp := searchp }, b, log)
  | n + 1, searchp, b, s, log =>
    match reap_visit env s searchp with
    | none => none
    | some (s1, v) =>
      let c := s1.cache searchp
      let log1 := log ++ [(searchp, v.map (fun full_free => (full_free, reap_pages c full_free)))]
      let b1 := reap_select c searchp v b
      let next := chain_next env s1 searchp
      if reap_is_perfect c v b = true then some ({ s1 with clock_searchp := next }, b1, log1)
      else if n = 0 ∨ next = s1.clock_searchp then
        some ({ s1 with clock_searchp := next }, b1, log1)
      else reap_scan env n next b1 s1 log1

/-- The function `kmem_cache_reap`.  Nothing else holds `cache_chain_sem`, so
that `down` and `down_trylock` both take it and `gfp_mask` decides nothing. -/
def kmem_cache_reap (env : slab_env) (s : kmem_state) (_gfp_mask : Nat) : Option kmem_state :=
  match reap_scan env REAP_SCANLEN s.clock_searchp
      { best_cachep := none, best_len := 0, best_pages := 0 } s [] with
  | none => none
  | some (s1, b, _) =>
    match b.best_cachep with
    | none => some s1
    | some best_cachep =>
      reap_free_loop env best_cachep (((b.best_len * 4 + 1) % ULONG) / 5) s1

/-- The state `kmem_state_ex` with three caches and no slab in use:
`cache_cache`, which is `SLAB_NO_REAP`; the cache at `0xC0300100`, with a
constructor, slabs of two pages and five slabs; and the cache at `0xC0300200`,
without a constructor, with slabs of one page and seven slabs. -/
def kmem_state_ex12 : kmem_state :=
  { kmem_state_ex with
    cache := upd (upd (upd kmem_state_ex.cache 0xC0300000
        { cache_ex with flags := 0x1000, name := "kmem_cache" })
      0xC0300100
        { cache_ex with
          ctor := true, gfporder := 1
          slabs := [0xC1000000, 0xC1002000, 0xC1004000, 0xC1006000, 0xC1008000]
          firstnotfull := some 0xC1000000 })
      0xC0300200
        { cache_ex with
          slabs := [0xC1010000, 0xC1011000, 0xC1012000, 0xC1013000, 0xC1014000, 0xC1015000,
            0xC1016000]
          firstnotfull := some 0xC1010000 }
    cache_chain := [0xC0300100, 0xC0300200] }

/-- The cache descriptor after `searchp->dflags &= ~DFLGS_GROWN`. -/
def clear_grown (c : kmem_cache_t) : kmem_cache_t :=
  { c with dflags := c.dflags &&& (ULONG - 1 - DFLGS_GROWN) }

/-- A cache that `kmem_cache_reap` passes over without looking at
`DFLGS_GROWN`: it is `SLAB_NO_REAP` or growing. -/
def reap_passes (env : slab_env) (c : kmem_cache_t) : Prop :=
  c.flags &&& env.cfg.SLAB_NO_REAP ≠ 0 ∨ c.growing ≠ 0

/-- The state `kmem_state_ex12` with `DFLGS_GROWN` set on every cache. -/
def kmem_state_ex14 : kmem_state :=
  { kmem_state_ex12 with cache := fun x => { kmem_state_ex12.cache x with dflags := 1 } }

/-! ## The slab allocator: the layout of a slab -/

/-- The function `kmem_cache_init`: `cache_chain` is made empty, and `num` and
`colour` of `cache_cache` are set from `kmem_cache_estimate(0,
cache_cache.objsize, 0, ...)`.  `none` is the `BUG()` for `num = 0`, a trap
in `kmem_cache_estimate`, or the division by a `colour_off` of 0. -/
def kmem_cache_init (env : slab_env) (s : kmem_state) : Option kmem_state :=
  let c := s.cache env.cache_cache
  match kmem_cache_estimate env.cfg 0 c.objsize 0 with
  | none => none
  | some (left_over, num) =>
    if num = 0 then none
    else if c.colour_off = 0 then none
    else
      some { s with
        cache_chain := []
        cache := upd s.cache env.cache_cache
          { c with num := num, colour := left_over / c.colour_off, colour_next := 0 } }

/-- The bytes that `kmem_cache_slabmgmt` puts between the colour offset and
the first object: the slab descriptor with its index array,
`L1_CACHE_ALIGN(num*sizeof(kmem_bufctl_t) + sizeof(slab_t))`, for a cache that
keeps it in the slab, nothing for a cache with `CFLGS_OFF_SLAB`. -/
def slab_mgmt (env : slab_env) (c : kmem_cache_t) : Nat :=
  if c.flags &&& CFLGS_OFF_SLAB ≠ 0 then 0
  else L1_CACHE_ALIGN env.cfg ((((c.num * sizeof_kmem_bufctl_t) % ULONG) + sizeof_slab_t) % ULONG)

/-- The counter `colour_next` of the cache is below `colour`, or 0 when there
is no colour, so that it is a value `kmem_cache_grow` leaves behind. -/
def colour_ok (c : kmem_cache_t) : Prop :=
  c.colour < ULONG ∧ (c.colour_next < c.colour ∨ c.colour_next = 0)

/-- The largest colour offset, the slab descriptor (if it is in the slab) and
the `num` objects of a slab of the cache fit into its `2^gfporder` pages. -/
def slab_fits (env : slab_env) (c : kmem_cache_t) : Prop :=
  (c.colour - 1) * c.colour_off + slab_mgmt env c + c.num * c.objsize ≤
    env.cfg.PAGE_SIZE * 2 ^ c.gfporder

/-- Every cache keeps its `colour`, and a `colour_next` that was in order
still is. -/
def colour_keep (s s2 : kmem_state) : Prop :=
  ∀ x, (s2.cache x).colour = (s.cache x).colour ∧
    (colour_ok (s.cache x) → colour_ok (s2.cache x))

/-- The machine `machine_ex7` with `pages_low = 80` in its zones and the
reclaim daemon waiting: with 8 free pages a zone is below both watermarks. -/
def machine_ex8 : machine :=
  { machine_ex7 with
    node_zones := fun _ => { zone_ex7 with pages_low := 80 }
    kreclaimd_waiting := true }

/-- The state `kmem_state_ex` with an off-slab cache of 1024-byte objects at
`0xC0300100`: its two slabs have their descriptors at `0xC0F00100` and
`0xC0F00140`, which are objects 0 and 1 of the one slab of the cache of 64-byte
objects at `0xC0300200`; the first slab has an object in use, the second has
none.  Both caches are on the chain. -/
def kmem_state_ex15 : kmem_state :=
  { kmem_state_ex with
    cache := upd (upd kmem_state_ex.cache 0xC0300200
        { cache_ex with
          objsize := 64, num := 59, colour := 0, name := "size-64",
          slabs := [0xC0F00000], firstnotfull := some 0xC0F00000 })
      0xC0300100
        { cache_ex with
          objsize := 1024, flags := 0x10000, num := 4, colour := 0, name := "size-1024",
          slabp_cache := 0xC0300200,
          slabs := [0xC0F00100, 0xC0F00140], firstnotfull := some 0xC0F00100 }
    slab := upd (upd (upd kmem_state_ex.slab 0xC0F00000
        { colouroff := 256, s_mem := 0xC0F00100, inuse := 2, free := 2,
          bufctl := fun i => if i < 58 then i + 1 else BUFCTL_END })
      0xC0F00100
        { colouroff := 0, s_mem := 0xC1000000, inuse := 1, free := 1,
          bufctl := fun i => if i < 3 then i + 1 else BUFCTL_END })
      0xC0F00140
        { colouroff := 0, s_mem := 0xC1001000, inuse := 0, free := 0,
          bufctl := fun i => if i < 3 then i + 1 else BUFCTL_END }
    page_slab := fun f =>
      if f = 3840 then 0xC0F00000 else if f = 4096 then 0xC0F00100
      else if f = 4097 then 0xC0F00140 else 0
    page_cache := fun f =>
      if f = 3840 then 0xC0300200 else if f = 4096 ∨ f = 4097 then 0xC0300100 else 0
    PageSlab := fun f => decide (f = 3840 ∨ f = 4096 ∨ f = 4097)
    getpages := fun k => 0xC1002000 + 4096 * k
    cache_chain := [0xC0300100, 0xC0300200] }

/-! ## The slab allocator: allocation from another cache -/

/-- The cache that stands `k` steps down the line of descriptor caches from
`cachep`: the cache itself, its `slabp_cache`, the `slabp_cache` of that, and
so on. -/
def desc_chain (s : kmem_state) : Nat → Nat → Nat
  | 0, cachep => cachep
  | k + 1, cachep => desc_chain s k (s.cache cachep).slabp_cache

/-- What an allocation from other caches leaves alone for the cache `cachep`
and the per-CPU array at `cc`: the descriptor of the cache, the array, and the
number of times the cache is on the record of growths. -/
def alloc_apart (cachep cc : Nat) (s s2 : kmem_state) : Prop :=
  s2.cache cachep = s.cache cachep ∧ s2.cpucache cc = s.cpucache cc ∧
  s2.grown.count cachep = s.grown.count cachep

/-- No general cache of the table `cache_sizes`, nor a cache down the line of
descriptor caches from one, to the depth `n`, is the cache `cachep`. -/
def sizes_apart (s : kmem_state) (n cachep : Nat) : Prop :=
  ∀ e ∈ s.cache_sizes, ∀ k, k < n →
    desc_chain s k e.cs_cachep ≠ cachep ∧ desc_chain s k e.cs_dmacachep ≠ cachep
/-- The state `kmem_state_ex3` as `kmem_cache_sizes_init` leaves the limit for
off-slab caches (`(256 - sizeof(slab_t)) / 2 = 116` objects), with the general
cache of 32-byte objects in place: 113 objects in a page, no room for a
colour. -/
def kmem_state_ex16 : kmem_state :=
  { kmem_state_ex3 with
    offslab_limit := 116
    cache := upd kmem_state_ex3.cache 0xC0310020
      { cache_ex with objsize := 32, num := 113, colour := 0, name := "size-32" } }

/-- The state after `kmem_cache_create("big", 4068, 8, 0, NULL, NULL)` in
`kmem_state_ex16`: a cache of one object per page, whose slab descriptors come
from the general cache of 32-byte objects. -/
def kmem_state_ex17 : kmem_state :=
  match kmem_cache_create slab_env_ex 2 kmem_state_ex16 (some "big") 4068 8 0 false false with
  | some r => r.1
  | none => kmem_state_ex16
/-- What the next call of `kmem_cache_grow` on the off-slab cache `cachep`
needs to succeed: the page allocator answers with a block, not NULL, in which
the objects lie behind the colour offset without wrap, and `kmem_cache_alloc`
(with fuel `m`) returns for the slab descriptor a pointer that is not NULL
and not a slab of the cache already. -/
def offslab_grow_ready (env : slab_env) (m : Nat) (s : kmem_state) (cachep flags : Nat) : Prop :=
  0 < s.getpages s.getpages_calls ∧
  s.getpages s.getpages_calls + (s.cache cachep).colour_next * (s.cache cachep).colour_off +
    (s.cache cachep).num * (s.cache cachep).objsize < ULONG ∧
  (__kmem_cache_alloc env m (grow_start s cachep) (s.cache cachep).slabp_cache
    (flags &&& env.SLAB_LEVEL_MASK)).map
      (fun r => decide (r.2 ≠ 0 ∧ r.2 ∉ (s.cache cachep).slabs)) = some true

instance (env : slab_env) (m : Nat) (s : kmem_state) (cachep flags : Nat) :
    Decidable (offslab_grow_ready env m s cachep flags) := by
  unfold offslab_grow_ready; infer_instance

/-- The caches from which the slab descriptors of `cachep` come, to the depth
`m`, are other caches than `cachep`, and when `cachep` has a per-CPU array
they have other arrays. -/
def desc_caches_apart (env : slab_env) (m : Nat) (s : kmem_state) (cachep : Nat) : Prop :=
  (∀ k, k < m → desc_chain s k (s.cache cachep).slabp_cache ≠ cachep) ∧
  ((s.cache cachep).cpudata env.cpu ≠ 0 → ∀ k, k < m →
    (s.cache (desc_chain s k (s.cache cachep).slabp_cache)).cpudata env.cpu ≠
      (s.cache cachep).cpudata env.cpu)

instance (env : slab_env) (m : Nat) (s : kmem_state) (cachep : Nat) :
    Decidable (desc_caches_apart env m s cachep) := by
  unfold desc_caches_apart; infer_instance
/-- The state after `kmem_cache_create("buffer", 1024, 0, 0, NULL, NULL)` in
`kmem_state_ex16`: a cache of four objects per page, whose slab descriptors
come from the general cache of 64-byte objects. -/
def kmem_state_ex18 : kmem_state :=
  match kmem_cache_create slab_env_ex 2 kmem_state_ex16 (some "buffer") 1024 0 0 false false with
  | some r => r.1
  | none => kmem_state_ex16
/-! ## The slab allocator: the pages behind the pointers of `kmalloc` -/

/-- The page that holds the address `p` has `PG_slab` set and points back to
the cache `cachep`. -/
def page_of_cache (env : slab_env) (s : kmem_state) (cachep p : Nat) : Prop :=
  s.PageSlab (virt_to_page env p) = true ∧ s.page_cache (virt_to_page env p) = cachep

instance (env : slab_env) (s : kmem_state) (cachep p : Nat) :
    Decidable (page_of_cache env s cachep p) := by
  unfold page_of_cache; infer_instance

/-- The array the cache has for this CPU, if it has one, is in order for
`kmem_cache_alloc`: it is refilled in batches of `1 ≤ batchcount ≤ INT_MAX`,
and the objects it holds are not NULL and lie in pages that point back to the
cache. -/
def mag_marked (env : slab_env) (s : kmem_state) (cachep : Nat) : Prop :=
  (s.cache cachep).cpudata env.cpu ≠ 0 →
    1 ≤ (s.cache cachep).batchcount ∧ (s.cache cachep).batchcount ≤ INT_MAX ∧
    (s.cpucache ((s.cache cachep).cpudata env.cpu)).avail < ULONG ∧
    ∀ i, i < (s.cpucache ((s.cache cachep).cpudata env.cpu)).avail →
      (s.cpucache ((s.cache cachep).cpudata env.cpu)).entry i ≠ 0 ∧
      page_of_cache env s cachep ((s.cpucache ((s.cache cachep).cpudata env.cpu)).entry i)

instance (env : slab_env) (s : kmem_state) (cachep : Nat) :
    Decidable (mag_marked env s cachep) := by
  unfold mag_marked; infer_instance

/-- The slabs of the cache are in order for `kmem_cache_alloc`: the list
invariant `slab_order_ok`, the free-list invariant of every slab, the
back-pointers of the pages of every object (`slab_pages_ok`), and objects at
addresses that neither are 0 nor wrap. -/
def slabs_marked (env : slab_env) (s : kmem_state) (cachep : Nat) : Prop :=
  1 ≤ (s.cache cachep).num ∧ (s.cache cachep).num ≤ SLAB_LIMIT ∧
  slab_order_ok s cachep ∧ cache_free_ok s cachep ∧ slab_pages_ok env s cachep ∧
  ∀ x ∈ (s.cache cachep).slabs, 0 < (s.slab x).s_mem ∧
    (s.slab x).s_mem + (s.cache cachep).num * (s.cache cachep).objsize < ULONG

/-- What `kmem_cache_grow` needs to build a slab for the cache: the geometry
of `kmem_cache_create` (`slab_fits`, `colour_ok`, objects of a size that is
not 0), from the page allocator a block that is not NULL, starts at a page
boundary of the direct mapping and ends below the top of the address space,
and a slab descriptor that is not on the list yet: for an on-slab cache the
address behind the colour offset, for an off-slab cache what
`kmem_cache_alloc` (with fuel `m`) returns from a descriptor cache apart from
the cache (`desc_caches_apart`, `offslab_grow_ready`). -/
def grow_prepared (env : slab_env) (m : Nat) (s : kmem_state) (cachep flags : Nat) : Prop :=
  slab_fits env (s.cache cachep) ∧ colour_ok (s.cache cachep) ∧
  1 ≤ (s.cache cachep).objsize ∧ 0 < env.cfg.PAGE_SIZE ∧
  env.PAGE_OFFSET ≤ s.getpages s.getpages_calls ∧ 0 < s.getpages s.getpages_calls ∧
  env.cfg.PAGE_SIZE ∣ (s.getpages s.getpages_calls - env.PAGE_OFFSET) ∧
  s.getpages s.getpages_calls + env.cfg.PAGE_SIZE * 2 ^ (s.cache cachep).gfporder < ULONG ∧
  (if (s.cache cachep).flags &&& CFLGS_OFF_SLAB = 0 then
    s.getpages s.getpages_calls +
      (s.cache cachep).colour_next * (s.cache cachep).colour_off ∉ (s.cache cachep).slabs
  else desc_caches_apart env m s cachep ∧ offslab_grow_ready env m s cachep flags)

instance (env : slab_env) (m : Nat) (s : kmem_state) (cachep flags : Nat) :
    Decidable (grow_prepared env m s cachep flags) := by
  unfold grow_prepared slab_fits colour_ok; infer_instance

/-- The page tables of the slab allocator (`PG_slab` and the back-pointers of
every page) and the page allocator are the same in `s` and `s2`. -/
def pages_same (s s2 : kmem_state) : Prop :=
  s2.PageSlab = s.PageSlab ∧ s2.page_cache = s.page_cache ∧ s2.page_slab = s.page_slab ∧
  s2.getpages = s.getpages ∧ s2.getpages_calls = s.getpages_calls

/-- Between `s` and `s2` the page allocator has answered the calls number
`s.getpages_calls` up to `s2.getpages_calls`, and every page that lies in
none of the blocks it gave, taken as `w` pages each, has kept `PG_slab` and
its back-pointers. -/
def pages_frame (env : slab_env) (w : Nat) (s s2 : kmem_state) : Prop :=
  s2.getpages = s.getpages ∧ s.getpages_calls ≤ s2.getpages_calls ∧
  ∀ q, (∀ k, s.getpages_calls ≤ k → k < s2.getpages_calls →
      ¬ (virt_to_page env (s.getpages k) ≤ q ∧ q < virt_to_page env (s.getpages k) + w)) →
    s2.PageSlab q = s.PageSlab q ∧ s2.page_cache q = s.page_cache q ∧
    s2.page_slab q = s.page_slab q
/-- The state `kmem_state_ex16` with the general cache of 1024-byte objects as
`kmem_cache_sizes_init` creates it on pages of 4096 bytes (four objects to a
page, the slab descriptors in the general cache of 64-byte objects), and with
the caches on the chain. -/
def kmem_state_ex19 : kmem_state :=
  { kmem_state_ex16 with
    cache := upd kmem_state_ex16.cache 0xC0310400
      { cache_ex with
        objsize := 1024, num := 4, flags := 0x12000, colour := 0,
        slabp_cache := 0xC0310040, name := "size-1024" }
    cache_chain := [0xC0300000, 0xC0310020, 0xC0310040, 0xC0310400] }

/-! ## Lemmas: words and bits -/

theorem zone_ext {a b : zone_t} (h1 : a.offset = b.offset) (h2 : a.free_pages = b.free_pages)
    (h3 : a.inactive_clean_pages = b.inactive_clean_pages)
    (h4 : a.inactive_dirty_pages = b.inactive_dirty_pages)
    (h5 : a.pages_min = b.pages_min) (h6 : a.pages_low = b.pages_low)
    (h7 : a.pages_high = b.pages_high) (h8 : ∀ k, a.free_area k = b.free_area k)
    (h9 : a.size = b.size) : a = b := by
  cases a; cases b
  simp only [zone_t.mk.injEq] at *
  exact ⟨h1, h2, h3, h4, h5, h6, h7, funext h8, h9⟩

@[simp]
theorem set_area_offset (z : zone_t) (k : Nat) (a : free_area_t) :
    (set_area z k a).offset = z.offset := rfl

@[simp]
theorem set_area_size (z : zone_t) (k : Nat) (a : free_area_t) :
    (set_area z k a).size = z.size := rfl

@[simp]
theorem set_area_free_pages (z : zone_t) (k : Nat) (a : free_area_t) :
    (set_area z k a).free_pages = z.free_pages := rfl

theorem set_area_free_area (z : zone_t) (k : Nat) (a : free_area_t) (j : Nat) :
    (set_area z k a).free_area j = if j = k then a else z.free_area j := by
  simp [set_area, Function.update_apply]

@[simp]
theorem set_area_same (z : zone_t) (k : Nat) (a : free_area_t) :
    (set_area z k a).free_area k = a := by
  simp [set_area_free_area]

theorem set_area_other (z : zone_t) (k : Nat) (a : free_area_t) (j : Nat) (h : j ≠ k) :
    (set_area z k a).free_area j = z.free_area j := by
  simp [set_area_free_area, h]

@[simp]
theorem BAD_RANGE_set_area (m : Nat → page) (zid : Nat) (z : zone_t) (k : Nat)
    (a : free_area_t) (x : Nat) :
    BAD_RANGE m zid (set_area z k a) x = BAD_RANGE m zid z x := rfl

theorem BAD_RANGE_false (m : Nat → page) (zid : Nat) (z : zone_t) (x : Nat)
    (hz : (m x).zone = zid) (h1 : z.offset ≤ x) (h2 : x < z.offset + z.size) :
    BAD_RANGE m zid z x = false := by
  simp [BAD_RANGE, hz, h1, h2]

theorem two_pow_succ_sub (h : Nat) : 2 ^ (h + 1) = 2 ^ h + 2 ^ h := by
  rw [pow_succ]; omega

/-! ## Lemmas: `expand` and `rmqueue` -/

theorem split_zone_zero (zone : zone_t) (page index high : Nat) :
    split_zone zone page index high 0 = zone := by
  apply zone_ext <;> try rfl
  intro k
  have : ¬ (high - 0 ≤ k ∧ k < high) := by omega
  simp [split_zone, this]

theorem split_zone_succ (zone : zone_t) (page index h n : Nat) (hn : n ≤ h) :
    split_zone
      (set_area zone h
        (MARK_USED index h
          { zone.free_area h with free_list := page :: (zone.free_area h).free_list }))
      (page + 2 ^ h) (index + 2 ^ h) h n = split_zone zone page index (h + 1) (n + 1) := by
  have h2 := two_pow_succ_sub h
  have hpos := Nat.two_pow_pos h
  apply zone_ext <;> try rfl
  intro k
  simp only [split_zone, set_area_free_area, MARK_USED]
  have e3 : page + 2 ^ (h + 1) - 2 ^ (h + 1) = page := by omega
  have e4 : index + 2 ^ (h + 1) - 2 ^ (h + 1) = index := by omega
  have e5 : page + 2 ^ h + 2 ^ h - 2 ^ (k + 1) = page + 2 ^ (h + 1) - 2 ^ (k + 1) := by omega
  have e6 : index + 2 ^ h + 2 ^ h - 2 ^ (k + 1) = index + 2 ^ (h + 1) - 2 ^ (k + 1) := by omega
  split_ifs with a b c d e <;>
    first
    | (exfalso; omega)
    | rfl
    | simp only [e5, e6]
    | (subst_vars; simp only [e3, e4])

theorem expand_loop_some (m : Nat → page) (zid : Nat) :
    ∀ (n : Nat) (zone : zone_t) (page index high : Nat) (r : zone_t × Nat), n ≤ high →
      expand_loop m zid n zone page index high high (2 ^ high) = some r →
      r = (split_zone zone page index high n, page + 2 ^ high - 2 ^ (high - n)) := by
  intro n
  induction n with
  | zero =>
    intro zone page index high r _ h
    rw [expand_loop] at h
    split at h
    · simp at h
    · simp only [Option.some.injEq] at h
      rw [← h, split_zone_zero]
      simp
  | succ n ih =>
    intro zone page index high r hn h
    obtain ⟨h', rfl⟩ : ∃ h', high = h' + 1 := ⟨high - 1, by omega⟩
    have h2 := two_pow_succ_sub h'
    have hs : (2 ^ (h' + 1)) >>> 1 = 2 ^ h' := by
      rw [Nat.shiftRight_eq_div_pow]; omega
    rw [expand_loop] at h
    split at h
    · simp at h
    · simp only [Nat.add_sub_cancel, hs] at h
      have key := ih _ _ _ _ r (by omega) h
      rw [key, split_zone_succ zone page index h' n (by omega)]
      have e1 : h' + 1 - (n + 1) = h' - n := by omega
      have e2 : page + 2 ^ h' + 2 ^ h' - 2 ^ (h' - n) = page + 2 ^ (h' + 1) - 2 ^ (h' - n) := by
        omega
      rw [e1, e2]

theorem expand_loop_eq (m : Nat → page) (zid : Nat) :
    ∀ (n : Nat) (zone : zone_t) (page index high : Nat), n ≤ high →
      (∀ x, page ≤ x → x < page + 2 ^ high → BAD_RANGE m zid zone x = false) →
      expand_loop m zid n zone page index high high (2 ^ high) =
        some (split_zone zone page index high n, page + 2 ^ high - 2 ^ (high - n)) := by
  intro n
  induction n with
  | zero =>
    intro zone page index high _ hr
    have hp : BAD_RANGE m zid zone page = false :=
      hr page (le_refl _) (by have := Nat.two_pow_pos high; omega)
    simp [expand_loop, hp, split_zone_zero]
  | succ n ih =>
    intro zone page index high hn hr
    obtain ⟨h, rfl⟩ : ∃ h, high = h + 1 := ⟨high - 1, by omega⟩
    have hp : BAD_RANGE m zid zone page = false :=
      hr page (le_refl _) (by have := Nat.two_pow_pos (h + 1); omega)
    have h2 := two_pow_succ_sub h
    have hs : (2 ^ (h + 1)) >>> 1 = 2 ^ h := by
      rw [Nat.shiftRight_eq_div_pow]; omega
    have hpos := Nat.two_pow_pos h
    simp only [expand_loop, hp, Bool.false_eq_true, if_false, Nat.add_sub_cancel, hs]
    rw [ih _ (page + 2 ^ h) (index + 2 ^ h) h (by omega)
      (by intro x hx1 hx2; rw [BAD_RANGE_set_area]; exact hr x (by omega) (by omega))]
    have e1 : h + 1 - (n + 1) = h - n := by omega
    have e2 : page + 2 ^ h + 2 ^ h - 2 ^ (h - n) = page + 2 ^ (h + 1) - 2 ^ (h - n) := by omega
    rw [e1, e2, split_zone_succ zone page index h n (by omega)]

theorem rmqueue_loop_nil_zero (s : machine) (zid order curr : Nat)
    (h : ((s.node_zones zid).free_area curr).free_list = []) :
    rmqueue_loop s zid order 0 curr = some (s, none) := by
  rw [rmqueue_loop]; simp only [h]

theorem rmqueue_loop_nil_succ (s : machine) (zid order n curr : Nat)
    (h : ((s.node_zones zid).free_area curr).free_list = []) :
    rmqueue_loop s zid order (n + 1) curr = rmqueue_loop s zid order n (curr + 1) := by
  rw [rmqueue_loop]; simp only [h]

theorem rmqueue_loop_all_nil (s : machine) (zid order : Nat) :
    ∀ (n curr : Nat),
      (∀ k, curr ≤ k → k ≤ curr + n → ((s.node_zones zid).free_area k).free_list = []) →
      rmqueue_loop s zid order n curr = some (s, none) := by
  intro n
  induction n with
  | zero =>
    intro curr h
    exact rmqueue_loop_nil_zero s zid order curr (h curr (le_refl _) (by omega))
  | succ n ih =>
    intro curr h
    rw [rmqueue_loop_nil_succ s zid order n curr (h curr (le_refl _) (by omega))]
    exact ih (curr + 1) (fun k h1 h2 => h k (by omega) (by omega))

theorem rmqueue_loop_skip (s : machine) (zid order n : Nat) :
    ∀ (d curr : Nat),
      (∀ k, curr ≤ k → k < curr + d → ((s.node_zones zid).free_area k).free_list = []) →
      rmqueue_loop s zid order (n + d) curr = rmqueue_loop s zid order n (curr + d) := by
  intro d
  induction d with
  | zero => intro curr _; rfl
  | succ d ih =>
    intro curr h
    rw [← Nat.add_assoc, rmqueue_loop_nil_succ s zid order (n + d) curr
      (h curr (le_refl _) (by omega))]
    rw [ih (curr + 1) (fun k h1 h2 => h k (by omega) (by omega))]
    congr 1; omega

theorem rmqueue_take_not_null (s : machine) (zid order c p : Nat) (rest : List Nat)
    (s' : machine) : rmqueue_take s zid order c p rest ≠ some (s', none) := by
  unfold rmqueue_take
  intro h
  dsimp only at h
  split at h
  · simp at h
  · split at h
    · simp at h
    · split at h
      · simp at h
      · split at h
        · simp at h
        · simp at h

theorem rmqueue_loop_cons_eq (s : machine) (zid order n c p : Nat) (rest : List Nat)
    (hl : ((s.node_zones zid).free_area c).free_list = p :: rest) :
    rmqueue_loop s zid order n c = rmqueue_take s zid order c p rest := by
  cases n <;> (rw [rmqueue_loop]; simp only [hl])

theorem rmqueue_loop_null (s : machine) (zid order : Nat) :
    ∀ (n curr : Nat) (s' : machine), rmqueue_loop s zid order n curr = some (s', none) →
      s' = s ∧
      ∀ k, curr ≤ k → k ≤ curr + n → ((s.node_zones zid).free_area k).free_list = [] := by
  intro n
  induction n with
  | zero =>
    intro curr s' h
    cases hl : ((s.node_zones zid).free_area curr).free_list with
    | nil =>
      rw [rmqueue_loop_nil_zero s zid order curr hl] at h
      simp only [Option.some.injEq, Prod.mk.injEq, and_true] at h
      refine ⟨h.symm, fun k h1 h2 => ?_⟩
      have : k = curr := by omega
      rw [this]; exact hl
    | cons p rest =>
      rw [rmqueue_loop_cons_eq s zid order 0 curr p rest hl] at h
      exact absurd h (rmqueue_take_not_null s zid order curr p rest s')
  | succ n ih =>
    intro curr s' h
    cases hl : ((s.node_zones zid).free_area curr).free_list with
    | nil =>
      rw [rmqueue_loop_nil_succ s zid order n curr hl] at h
      obtain ⟨h1, h2⟩ := ih (curr + 1) s' h
      refine ⟨h1, fun k h3 h4 => ?_⟩
      by_cases hk : k = curr
      · rw [hk]; exact hl
      · exact h2 k (by omega) (by omega)
    | cons p rest =>
      rw [rmqueue_loop_cons_eq s zid order (n + 1) curr p rest hl] at h
      exact absurd h (rmqueue_take_not_null s zid order curr p rest s')

theorem rmqueue_take_of_expand (s : machine) (zid order c p : Nat) (rest : List Nat)
    (z' : zone_t) (page' : Nat)
    (hb : BAD_RANGE s.mem_map zid (s.node_zones zid) p = false)
    (he : expand s.mem_map zid
      { set_area (s.node_zones zid) c
          (MARK_USED ((p - (s.node_zones zid).offset) % ULONG) c
            { (s.node_zones zid).free_area c with free_list := rest }) with
        free_pages := ((set_area (s.node_zones zid) c
          (MARK_USED ((p - (s.node_zones zid).offset) % ULONG) c
            { (s.node_zones zid).free_area c with free_list := rest })).free_pages
              + ULONG - (1 <<< order) % ULONG) % ULONG }
      p ((p - (s.node_zones zid).offset) % ULONG) order c c = some (z', page'))
    (hb2 : BAD_RANGE s.mem_map zid z' page' = false)
    (hd : DEBUG_ADD_PAGE { s.mem_map page' with count := 1 } = false) :
    rmqueue_take s zid order c p rest =
      some ({ s with mem_map := Function.update s.mem_map page' { s.mem_map page' with count := 1 },
                     node_zones := Function.update s.node_zones zid z' }, some page') := by
  unfold rmqueue_take
  simp only [hb, Bool.false_eq_true, if_false]
  rw [he]
  simp only [hb2, hd, Bool.false_eq_true, if_false]

theorem rmqueue_take_eq (s : machine) (zid order c p : Nat) (rest : List Nat)
    (hwf : zone_wf s zid) (hoc : order ≤ c) (hc : c < MAX_ORDER)
    (hl : ((s.node_zones zid).free_area c).free_list = p :: rest) :
    rmqueue_take s zid order c p rest =
      some (rmqueue_state s zid order c p rest, some (p + 2 ^ c - 2 ^ order)) := by
  have hmem : p ∈ ((s.node_zones zid).free_area c).free_list := by rw [hl]; simp
  obtain ⟨hb1, hb2, _⟩ := hwf.blocks c hc p hmem
  have hpc := Nat.two_pow_pos c
  have hpo : 2 ^ order ≤ 2 ^ c := Nat.pow_le_pow_right (by norm_num) hoc
  have hpo' := Nat.two_pow_pos order
  have hbad : ∀ (z : zone_t), z.offset = (s.node_zones zid).offset →
      z.size = (s.node_zones zid).size → ∀ x, p ≤ x → x < p + 2 ^ c →
      BAD_RANGE s.mem_map zid z x = false := by
    intro z hz1 hz2 x h1 h2
    apply BAD_RANGE_false
    · have := hwf.backptr (x - (s.node_zones zid).offset) (by omega)
      rwa [Nat.add_sub_cancel' (by omega)] at this
    · omega
    · omega
  have hclean : page_clean (s.mem_map (p + 2 ^ c - 2 ^ order)) = true := by
    have := hwf.clean c hc p hmem (2 ^ c - 2 ^ order) (by omega)
    rwa [← Nat.add_sub_assoc hpo] at this
  have hdbg : DEBUG_ADD_PAGE { s.mem_map (p + 2 ^ c - 2 ^ order) with count := 1 } = false := by
    simp only [page_clean, Bool.and_eq_true, Bool.not_eq_true'] at hclean
    simp [DEBUG_ADD_PAGE, hclean]
  have e : c - (c - order) = order := by omega
  rw [rmqueue_take_of_expand s zid order c p rest
    (rmqueue_zone (s.node_zones zid) order c p rest) (p + 2 ^ c - 2 ^ order)
    (hbad _ (by rfl) (by rfl) p (le_refl _) (by omega)) ?_
    (hbad _ (by rfl) (by rfl) _ (by omega) (by omega)) hdbg]
  · rfl
  · unfold expand
    have h1c : 1 <<< c = 2 ^ c := Nat.one_shiftLeft c
    rw [h1c]
    refine (expand_loop_eq s.mem_map zid (c - order) _ p _ c (by omega)
      (fun x h1 h2 => hbad _ (by rfl) (by rfl) x h1 h2)).trans ?_
    rw [e]
    rfl

theorem rmqueue_found (s : machine) (zid order c p : Nat) (rest : List Nat)
    (hwf : zone_wf s zid) (hoc : order ≤ c) (hc : c < MAX_ORDER)
    (hnil : ∀ k, order ≤ k → k < c → ((s.node_zones zid).free_area k).free_list = [])
    (hl : ((s.node_zones zid).free_area c).free_list = p :: rest) :
    rmqueue s zid order =
      some (rmqueue_state s zid order c p rest, some (p + 2 ^ c - 2 ^ order)) := by
  unfold rmqueue
  have e : MAX_ORDER - 1 - order = (MAX_ORDER - 1 - c) + (c - order) := by omega
  rw [e, rmqueue_loop_skip s zid order _ (c - order) order
    (fun k h1 h2 => hnil k h1 (by omega))]
  have e2 : order + (c - order) = c := by omega
  rw [e2]
  rw [rmqueue_loop_cons_eq s zid order _ c p rest hl]
  exact rmqueue_take_eq s zid order c p rest hwf hoc hc hl

theorem rmqueue_zone_free_list (z : zone_t) (order c p : Nat) (rest : List Nat) (k : Nat)
    (hoc : order ≤ c) :
    ((rmqueue_zone z order c p rest).free_area k).free_list =
      if k = c then rest
      else if order ≤ k ∧ k < c then (p + 2 ^ c - 2 ^ (k + 1)) :: (z.free_area k).free_list
      else (z.free_area k).free_list := by
  simp only [rmqueue_zone, split_zone, set_area_free_area, MARK_USED]
  split_ifs <;> first | rfl | (exfalso; omega)

theorem rmqueue_zone_map (z : zone_t) (order c p : Nat) (rest : List Nat) (k : Nat)
    (hoc : order ≤ c) :
    ((rmqueue_zone z order c p rest).free_area k).map =
      if k = c then change_bit (((p - z.offset) % ULONG) >>> (1 + c)) (z.free_area c).map
      else if order ≤ k ∧ k < c then
        change_bit (((p - z.offset) % ULONG + 2 ^ c - 2 ^ (k + 1)) >>> (1 + k)) (z.free_area k).map
      else (z.free_area k).map := by
  simp only [rmqueue_zone, split_zone, set_area_free_area, MARK_USED]
  split_ifs with h1 h2 <;> first | rfl | (exfalso; omega)

theorem rmqueue_state_zone (s : machine) (zid order c p : Nat) (rest : List Nat) :
    (rmqueue_state s zid order c p rest).node_zones zid =
      rmqueue_zone (s.node_zones zid) order c p rest := by
  simp [rmqueue_state]

theorem zone_ex_wf : zone_wf machine_ex 0 where
  blocks := by unfold block_in_zone; decide
  nodup := by decide
  backptr := by decide
  clean := by decide
  valid := by decide
  word := by decide

/-! ## Theorems -/

/-- C1. `rmqueue(zone, order)` for `order < MAX_ORDER` on a well-formed zone:
it returns NULL exactly when the free lists of all orders `order..MAX_ORDER-1`
are empty, and then the state is unchanged; otherwise, `c` being the smallest
order `≥ order` with a non-empty list, it returns a page and has removed the
head block of list `c`.  In a zone whose only free block is one block of order
`MAX_ORDER-1`, a request of that order succeeds and every following request of
any order returns NULL. -/
theorem rmqueue_contract (s : machine) (zid order : Nat) (ho : order < MAX_ORDER)
    (hwf : zone_wf s zid) :
    ((∀ k, order ≤ k → k < MAX_ORDER → ((s.node_zones zid).free_area k).free_list = []) →
        rmqueue s zid order = some (s, none)) ∧
    (∀ s', rmqueue s zid order = some (s', none) →
        s' = s ∧
        ∀ k, order ≤ k → k < MAX_ORDER → ((s.node_zones zid).free_area k).free_list = []) ∧
    (∀ c p rest, order ≤ c → c < MAX_ORDER →
        (∀ k, order ≤ k → k < c → ((s.node_zones zid).free_area k).free_list = []) →
        ((s.node_zones zid).free_area c).free_list = p :: rest →
        ∃ s' page, rmqueue s zid order = some (s', some page) ∧
          ((s'.node_zones zid).free_area c).free_list = rest) ∧
    (∀ p, (∀ k, k < MAX_ORDER - 1 → ((s.node_zones zid).free_area k).free_list = []) →
        ((s.node_zones zid).free_area (MAX_ORDER - 1)).free_list = [p] →
        ∃ s' page, rmqueue s zid (MAX_ORDER - 1) = some (s', some page) ∧
          ∀ o, o < MAX_ORDER → rmqueue s' zid o = some (s', none)) := by
  refine ⟨?_, ?_, ?_, ?_⟩
  · intro h
    exact rmqueue_loop_all_nil s zid order _ order (fun k h1 h2 => h k h1 (by omega))
  · intro s' h
    obtain ⟨h1, h2⟩ := rmqueue_loop_null s zid order _ order s' h
    exact ⟨h1, fun k h3 h4 => h2 k h3 (by omega)⟩
  · intro c p rest hoc hc hnil hl
    refine ⟨_, _, rmqueue_found s zid order c p rest hwf hoc hc hnil hl, ?_⟩
    rw [rmqueue_state_zone, rmqueue_zone_free_list _ _ _ _ _ _ hoc, if_pos rfl]
  · intro p hnil hl
    have hm : MAX_ORDER - 1 < MAX_ORDER := by decide
    refine ⟨_, _, rmqueue_found s zid (MAX_ORDER - 1) (MAX_ORDER - 1) p [] hwf (le_refl _) hm
      (fun k h1 h2 => absurd h1 (by omega)) hl, ?_⟩
    intro o ho'
    apply rmqueue_loop_all_nil
    intro k h1 h2
    rw [rmqueue_state_zone, rmqueue_zone_free_list _ _ _ _ _ _ (le_refl _)]
    by_cases hk : k = MAX_ORDER - 1
    · rw [if_pos hk]
    · rw [if_neg hk, if_neg (by omega)]
      exact hnil k (by omega)

/-- Witness for C1: in `machine_ex` a request of order 1 is served from the
order-3 block, whose list is empty afterwards. -/
theorem rmqueue_contract_witness :
    ∃ s' page, rmqueue machine_ex 0 1 = some (s', some page) ∧
      ((s'.node_zones 0).free_area 3).free_list = [] :=
  (rmqueue_contract machine_ex 0 1 (by decide) zone_ex_wf).2.2.1 3 0 [] (by decide) (by decide)
    (by intro k h1 h2; interval_cases k <;> rfl) rfl

/-! ## Lemmas: the merge loop of `__free_pages_ok` -/

theorem mask_init (order : Nat) (h : order < MAX_ORDER) :
    ((ULONG - 1) <<< order) % ULONG = ULONG - 2 ^ order := by
  unfold MAX_ORDER at h
  interval_cases order <;> rfl

theorem mask_exit (j : Nat) (h : j < MAX_ORDER) :
    (ULONG - 2 ^ j + 1 <<< (MAX_ORDER - 1)) % ULONG = 0 ↔ j = MAX_ORDER - 1 := by
  unfold MAX_ORDER at h
  interval_cases j <;> decide

theorem mask_neg (j : Nat) (h : j < MAX_ORDER) :
    (ULONG - (ULONG - 2 ^ j)) % ULONG = 2 ^ j := by
  unfold MAX_ORDER at h
  interval_cases j <;> rfl

theorem mask_shift (j : Nat) (h : j < MAX_ORDER) :
    ((ULONG - 2 ^ j) <<< 1) % ULONG = ULONG - 2 ^ (j + 1) := by
  unfold MAX_ORDER at h
  interval_cases j <;> rfl

theorem mask_not (j : Nat) (h : j < MAX_ORDER) :
    ULONG - 1 - (ULONG - 2 ^ j) = 2 ^ j - 1 := by
  unfold MAX_ORDER at h
  interval_cases j <;> rfl

theorem and_mask (x j : Nat) (hx : x < ULONG) (hj : j ≤ 32) :
    x &&& (ULONG - 2 ^ j) = block_of x j := by
  unfold ULONG at *
  unfold block_of
  apply Nat.eq_of_testBit_eq
  intro i
  have h1 : 2 ^ 32 - 2 ^ j = (2 ^ (32 - j) - 1) <<< j := by
    rw [Nat.shiftLeft_eq, Nat.sub_mul, one_mul, ← pow_add]
    congr 2; omega
  have h2 : x - x % 2 ^ j = (x >>> j) <<< j := by
    rw [Nat.shiftLeft_eq, Nat.shiftRight_eq_div_pow]
    have := Nat.div_add_mod x (2 ^ j)
    rw [mul_comm] at this
    omega
  rw [Nat.testBit_and, h1, h2, Nat.testBit_shiftLeft, Nat.testBit_shiftLeft,
    Nat.testBit_two_pow_sub_one, Nat.testBit_shiftRight]
  by_cases hij : j ≤ i
  · have e : j + (i - j) = i := by omega
    rw [e]
    by_cases hi : i < 32
    · have : i - j < 32 - j := by omega
      simp [hij, this]
    · have : x.testBit i = false := by
        apply Nat.testBit_lt_two_pow
        calc x < 2 ^ 32 := hx
          _ ≤ 2 ^ i := Nat.pow_le_pow_right (by norm_num) (by omega)
      simp [this]
  · simp [hij]

theorem xor_pow_even (i k : Nat) : ((2 * i) * 2 ^ k) ^^^ 2 ^ k = (2 * i + 1) * 2 ^ k := by
  apply Nat.eq_of_testBit_eq
  intro j
  rw [Nat.testBit_xor, Nat.mul_comm _ (2 ^ k), Nat.mul_comm _ (2 ^ k), Nat.testBit_mul_pow_two,
    Nat.testBit_mul_pow_two, Nat.testBit_two_pow]
  rcases Nat.lt_trichotomy j k with h | h | h
  · have h1 : ¬ j ≥ k := by omega
    have h2 : ¬ k = j := by omega
    simp [h1, h2]
  · subst h
    simp; omega
  · obtain ⟨d, rfl⟩ : ∃ d, j = k + d + 1 := ⟨j - k - 1, by omega⟩
    have h1 : k + d + 1 ≥ k := by omega
    have h2 : ¬ k = k + d + 1 := by omega
    have h3 : k + d + 1 - k = d + 1 := by omega
    simp only [h1, h2, h3, decide_True, decide_False, Bool.true_and, Bool.xor_false,
      Nat.testBit_add_one]
    congr 1; omega

theorem xor_pow_odd (i k : Nat) : ((2 * i + 1) * 2 ^ k) ^^^ 2 ^ k = (2 * i) * 2 ^ k := by
  rw [← xor_pow_even, Nat.xor_assoc, Nat.xor_self, Nat.xor_zero]

theorem pair_split (idx j : Nat) (h : idx % 2 ^ j = 0) :
    (idx = (2 * (idx / 2 ^ (j + 1))) * 2 ^ j ∧ idx % 2 ^ (j + 1) = 0) ∨
    (idx = (2 * (idx / 2 ^ (j + 1)) + 1) * 2 ^ j ∧ idx % 2 ^ (j + 1) = 2 ^ j) := by
  obtain ⟨m, rfl⟩ : ∃ m, idx = m * 2 ^ j := ⟨idx / 2 ^ j, by
    have := Nat.div_add_mod idx (2 ^ j); rw [h, mul_comm] at this; omega⟩
  have hp := Nat.two_pow_pos j
  have e1 : m * 2 ^ j / 2 ^ (j + 1) = m / 2 := by
    rw [pow_succ, ← Nat.div_div_eq_div_mul, Nat.mul_div_cancel _ hp]
  have e2 : m * 2 ^ j % 2 ^ (j + 1) = (m % 2) * 2 ^ j := by
    rw [pow_succ, Nat.mul_comm m, Nat.mul_mod_mul_left, Nat.mul_comm]
  rw [e1, e2]
  rcases Nat.mod_two_eq_zero_or_one m with h0 | h1
  · left
    have : 2 * (m / 2) = m := by omega
    rw [this, h0]; simp
  · right
    have : 2 * (m / 2) + 1 = m := by omega
    rw [this, h1]; simp

theorem pair_index_even (i j : Nat) : ((2 * i) * 2 ^ j) / 2 ^ (j + 1) = i := by
  have hp := Nat.two_pow_pos j
  rw [pow_succ, ← Nat.div_div_eq_div_mul, Nat.mul_div_cancel _ hp]
  omega

theorem pair_index_odd (i j : Nat) : ((2 * i + 1) * 2 ^ j) / 2 ^ (j + 1) = i := by
  have hp := Nat.two_pow_pos j
  rw [pow_succ, ← Nat.div_div_eq_div_mul, Nat.mul_div_cancel _ hp]
  omega

theorem block_of_div (x j : Nat) : block_of x (j + 1) / 2 ^ (j + 1 + 1) = x / 2 ^ (j + 1) / 2 := by
  unfold block_of
  have hp := Nat.two_pow_pos (j + 1)
  have h : x - x % 2 ^ (j + 1) = 2 ^ (j + 1) * (x / 2 ^ (j + 1)) := by
    have := Nat.div_add_mod x (2 ^ (j + 1)); omega
  rw [h, pow_succ _ (j + 1), Nat.mul_div_mul_left _ _ hp]

theorem block_of_mod (x j : Nat) : block_of x j % 2 ^ j = 0 := by
  unfold block_of
  have h : x - x % 2 ^ j = 2 ^ j * (x / 2 ^ j) := by
    have := Nat.div_add_mod x (2 ^ j); omega
  rw [h]; simp

theorem block_of_le (x j : Nat) : block_of x j ≤ x := by
  unfold block_of; omega

theorem block_of_self (x j : Nat) (h : x % 2 ^ j = 0) : block_of x j = x := by
  unfold block_of; omega

theorem block_of_block_of (x j k : Nat) (h : j ≤ k) : block_of (block_of x j) k = block_of x k := by
  unfold block_of
  have hj : x - x % 2 ^ j = 2 ^ j * (x / 2 ^ j) := by
    have := Nat.div_add_mod x (2 ^ j); omega
  obtain ⟨d, rfl⟩ : ∃ d, k = j + d := ⟨k - j, by omega⟩
  have e : (x - x % 2 ^ j) % 2 ^ (j + d) = x % 2 ^ (j + d) - x % 2 ^ j := by
    rw [hj, pow_add, Nat.mul_mod_mul_left]
    have h1 : x % (2 ^ j * 2 ^ d) = x % 2 ^ j + 2 ^ j * (x / 2 ^ j % 2 ^ d) := Nat.mod_mul
    omega
  have h2 : x % 2 ^ j ≤ x % 2 ^ (j + d) := by
    rw [pow_add]
    have h1 : x % (2 ^ j * 2 ^ d) = x % 2 ^ j + 2 ^ j * (x / 2 ^ j % 2 ^ d) := Nat.mod_mul
    omega
  have h3 : x % 2 ^ (j + d) ≤ x := Nat.mod_le _ _
  have h4 : x % 2 ^ j ≤ x := Nat.mod_le _ _
  omega

theorem set_area_set_area (z : zone_t) (k : Nat) (a b : free_area_t) :
    set_area (set_area z k a) k b = set_area z k b := by
  simp [set_area]

theorem free_loop_exit (m : Nat → page) (zid n : Nat) (zone : zone_t) (index idx : Nat) :
    free_loop m zid n zone (ULONG - 2 ^ (MAX_ORDER - 1)) (MAX_ORDER - 1) index idx =
      some (set_area zone (MAX_ORDER - 1)
        { free_list := (zone.offset + idx) :: (zone.free_area (MAX_ORDER - 1)).free_list
          map := (zone.free_area (MAX_ORDER - 1)).map }) := by
  rw [free_loop]
  have h : (ULONG - 2 ^ (MAX_ORDER - 1) + 1 <<< (MAX_ORDER - 1)) % ULONG = 0 := by decide
  simp only [h, if_true]

theorem free_loop_break (m : Nat → page) (zid n : Nat) (zone : zone_t) (j index idx : Nat)
    (hj : j < MAX_ORDER - 1) (hb : test_bit index (zone.free_area j).map = false) :
    free_loop m zid n zone (ULONG - 2 ^ j) j index idx =
      some (set_area zone j
        { free_list := (zone.offset + idx) :: (zone.free_area j).free_list
          map := change_bit index (zone.free_area j).map }) := by
  rw [free_loop]
  have h1 : ¬ (ULONG - 2 ^ j + 1 <<< (MAX_ORDER - 1)) % ULONG = 0 := by
    rw [mask_exit j (by omega)]; omega
  have h2 : ¬ j ≥ MAX_ORDER := by omega
  simp only [h1, h2, if_false, hb, Bool.not_false, if_true, set_area_same, set_area_offset,
    set_area_set_area]

theorem free_loop_merge (m : Nat → page) (zid n : Nat) (zone : zone_t) (j index idx : Nat)
    (hj : j < MAX_ORDER - 1) (hb : test_bit index (zone.free_area j).map = true) :
    free_loop m zid (n + 1) zone (ULONG - 2 ^ j) j index idx =
      if BAD_RANGE m zid zone (zone.offset + (idx ^^^ 2 ^ j)) then none
      else if BAD_RANGE m zid zone (zone.offset + idx) then none
      else free_loop m zid n
        (set_area zone j
          { free_list := (zone.free_area j).free_list.erase (zone.offset + (idx ^^^ 2 ^ j))
            map := change_bit index (zone.free_area j).map })
        (ULONG - 2 ^ (j + 1)) (j + 1) (index >>> 1) (idx &&& (ULONG - 2 ^ (j + 1))) := by
  rw [free_loop]
  have h1 : ¬ (ULONG - 2 ^ j + 1 <<< (MAX_ORDER - 1)) % ULONG = 0 := by
    rw [mask_exit j (by omega)]; omega
  have h2 : ¬ j ≥ MAX_ORDER := by omega
  simp only [h1, h2, if_false, hb, Bool.not_true, Bool.false_eq_true, set_area_same,
    set_area_offset, set_area_set_area, mask_neg j (by omega), mask_shift j (by omega),
    BAD_RANGE_set_area]

/-! ## Lemmas: accounting -/

theorem free_sum_congr (z z' : zone_t) :
    ∀ n, (∀ k, k < n → (z'.free_area k).free_list.length = (z.free_area k).free_list.length) →
      free_sum z' n = free_sum z n := by
  intro n
  induction n with
  | zero => intro _; rfl
  | succ n ih =>
    intro h
    simp only [free_sum]
    rw [ih (fun k hk => h k (by omega)), h n (by omega)]

theorem free_sum_set_area_ge (z : zone_t) (k : Nat) (a : free_area_t) (n : Nat) (h : n ≤ k) :
    free_sum (set_area z k a) n = free_sum z n := by
  apply free_sum_congr
  intro i hi
  rw [set_area_other _ _ _ _ (by omega)]

theorem free_sum_set_area (z : zone_t) (k : Nat) (a : free_area_t) :
    ∀ n, k < n →
      free_sum (set_area z k a) n + (z.free_area k).free_list.length * 2 ^ k =
        free_sum z n + a.free_list.length * 2 ^ k := by
  intro n
  induction n with
  | zero => intro h; omega
  | succ n ih =>
    intro h
    simp only [free_sum]
    by_cases hk : k = n
    · subst hk
      rw [free_sum_set_area_ge _ _ _ _ (le_refl _), set_area_same]
      omega
    · rw [set_area_other _ _ _ _ (Ne.symm hk)]
      have := ih (by omega)
      omega

theorem free_sum_rmqueue_zone (z : zone_t) (order c p : Nat) (rest : List Nat)
    (hoc : order ≤ c) (hl : (z.free_area c).free_list = p :: rest) :
    ∀ n,
      (n ≤ order → free_sum (rmqueue_zone z order c p rest) n = free_sum z n) ∧
      (order < n → n ≤ c →
        free_sum (rmqueue_zone z order c p rest) n + 2 ^ order = free_sum z n + 2 ^ n) ∧
      (c < n → free_sum (rmqueue_zone z order c p rest) n + 2 ^ order = free_sum z n) := by
  intro n
  induction n with
  | zero =>
    refine ⟨fun _ => rfl, fun h => absurd h (by omega), fun h => absurd h (by omega)⟩
  | succ n ih =>
    obtain ⟨ih1, ih2, ih3⟩ := ih
    have hlen := rmqueue_zone_free_list z order c p rest n hoc
    have h2n := two_pow_succ_sub n
    simp only [free_sum]
    refine ⟨fun h => ?_, fun h1 h2 => ?_, fun h => ?_⟩
    · rw [ih1 (by omega), hlen, if_neg (by omega), if_neg (by omega)]
    · rw [hlen, if_neg (by omega), if_pos (by omega), List.length_cons, Nat.succ_mul]
      by_cases hn : n = order
      · have := ih1 (by omega)
        subst hn
        omega
      · have := ih2 (by omega) (by omega)
        omega
    · by_cases hn : n = c
      · subst hn
        rw [hlen, if_pos rfl, hl, List.length_cons, Nat.succ_mul]
        by_cases hno : n = order
        · have := ih1 (by omega)
          subst hno
          omega
        · have := ih2 (by omega) (by omega)
          omega
      · rw [hlen, if_neg hn, if_neg (by omega)]
        have := ih3 (by omega)
        omega

theorem buddy_on_list (z : zone_t) (j idx : Nat) (ha : idx % 2 ^ j = 0) (hs : idx < z.size)
    (hp : pair_bit_ok z j) (hb : test_bit (idx / 2 ^ (j + 1)) (z.free_area j).map = true)
    (hn : z.offset + idx ∉ (z.free_area j).free_list) :
    z.offset + (idx ^^^ 2 ^ j) ∈ (z.free_area j).free_list := by
  have hpos := Nat.two_pow_pos (j + 1)
  have hle : idx / 2 ^ (j + 1) * 2 ^ (j + 1) ≤ idx := Nat.div_mul_le_self _ _
  have hi : idx / 2 ^ (j + 1) < z.size := by
    have : idx / 2 ^ (j + 1) ≤ idx := Nat.div_le_self _ _
    omega
  have hpb := hp (idx / 2 ^ (j + 1)) hi (by omega)
  rw [hb] at hpb
  rcases pair_split idx j ha with ⟨he, _⟩ | ⟨he, _⟩
  · rw [← he] at hpb
    have hx : idx ^^^ 2 ^ j = (2 * (idx / 2 ^ (j + 1)) + 1) * 2 ^ j := by
      conv_lhs => rw [he]
      exact xor_pow_even _ _
    rw [hx]
    simpa [hn] using hpb
  · rw [← he] at hpb
    have hx : idx ^^^ 2 ^ j = (2 * (idx / 2 ^ (j + 1))) * 2 ^ j := by
      conv_lhs => rw [he]
      exact xor_pow_odd _ _
    rw [hx]
    simpa [hn] using hpb

theorem BAD_RANGE_lt (m : Nat → page) (zid : Nat) (z : zone_t) (x : Nat)
    (h : ¬ BAD_RANGE m zid z x = true) : x < z.offset + z.size := by
  simp only [BAD_RANGE, Bool.or_eq_true, decide_eq_true_eq, not_or] at h
  omega

theorem free_loop_sum (m : Nat → page) (zid : Nat) :
    ∀ (n : Nat) (zone : zone_t) (j idx index : Nat) (z' : zone_t),
      j + n = MAX_ORDER → idx % 2 ^ j = 0 → idx < ULONG → index = idx / 2 ^ (j + 1) →
      (∀ k, j ≤ k → k < MAX_ORDER - 1 → pair_bit_ok zone k) →
      (∀ k, k < MAX_ORDER → j ≤ k →
        zone.offset + block_of idx k ∉ (zone.free_area k).free_list) →
      free_loop m zid n zone (ULONG - 2 ^ j) j index idx = some z' →
      free_sum z' MAX_ORDER = free_sum zone MAX_ORDER + 2 ^ j ∧
        z'.free_pages = zone.free_pages := by
  intro n
  induction n with
  | zero =>
    intro zone j idx index z' hjn _ _ _ _ _ h
    have hj : j = MAX_ORDER := by omega
    subst hj
    rw [free_loop] at h
    have h1 : ¬ (ULONG - 2 ^ MAX_ORDER + 1 <<< (MAX_ORDER - 1)) % ULONG = 0 := by decide
    simp [h1] at h
  | succ n ih =>
    intro zone j idx index z' hjn ha hu hidx hpb hnf h
    have hjm : j < MAX_ORDER := by omega
    by_cases hj9 : j = MAX_ORDER - 1
    · subst hj9
      rw [free_loop_exit] at h
      simp only [Option.some.injEq] at h
      subst h
      have := free_sum_set_area zone (MAX_ORDER - 1)
        { free_list := (zone.offset + idx) :: (zone.free_area (MAX_ORDER - 1)).free_list
          map := (zone.free_area (MAX_ORDER - 1)).map } MAX_ORDER (by decide)
      simp only [List.length_cons, Nat.succ_mul] at this
      exact ⟨by omega, rfl⟩
    · have hj : j < MAX_ORDER - 1 := by omega
      cases hb : test_bit index (zone.free_area j).map with
      | false =>
        rw [free_loop_break m zid _ zone j index idx hj hb] at h
        simp only [Option.some.injEq] at h
        subst h
        have := free_sum_set_area zone j
          { free_list := (zone.offset + idx) :: (zone.free_area j).free_list
            map := change_bit index (zone.free_area j).map } MAX_ORDER hjm
        simp only [List.length_cons, Nat.succ_mul] at this
        exact ⟨by omega, rfl⟩
      | true =>
        rw [free_loop_merge m zid n zone j index idx hj hb] at h
        split at h
        · simp at h
        · split at h
          · simp at h
          · rename_i hb1 hb2
            have hs : idx < zone.size := by
              have := BAD_RANGE_lt m zid zone _ hb2
              omega
            have hself : zone.offset + idx ∉ (zone.free_area j).free_list := by
              have := hnf j hjm (le_refl _)
              rwa [block_of_self idx j ha] at this
            have hbud := buddy_on_list zone j idx ha hs (hpb j (le_refl _) hj)
              (by rw [← hidx]; exact hb) hself
            rw [and_mask idx (j + 1) hu (by unfold MAX_ORDER at hjm; omega)] at h
            have key := ih _ (j + 1) (block_of idx (j + 1)) (index >>> 1) z' (by omega)
              (block_of_mod _ _) (lt_of_le_of_lt (block_of_le _ _) hu)
              (by rw [block_of_div, hidx, Nat.shiftRight_eq_div_pow])
              (fun k h1 h2 => by
                intro i hi1 hi2
                have := hpb k (by omega) h2 i hi1 hi2
                rwa [set_area_other _ _ _ _ (by omega)])
              (fun k h1 h2 => by
                rw [block_of_block_of _ _ _ h2, set_area_other _ _ _ _ (by omega)]
                exact hnf k h1 (by omega))
              h
            obtain ⟨k1, k2⟩ := key
            have hlen := List.length_erase_of_mem hbud
            have hpos : 0 < (zone.free_area j).free_list.length := List.length_pos_of_mem hbud
            have := free_sum_set_area zone j
              { free_list := (zone.free_area j).free_list.erase (zone.offset + (idx ^^^ 2 ^ j))
                map := change_bit index (zone.free_area j).map } MAX_ORDER hjm
            simp only [hlen] at this
            have h2j := two_pow_succ_sub j
            obtain ⟨L, hL⟩ : ∃ L, (zone.free_area j).free_list.length = L + 1 :=
              ⟨(zone.free_area j).free_list.length - 1, by omega⟩
            rw [hL] at this
            simp only [Nat.add_sub_cancel, Nat.succ_mul] at this
            refine ⟨by omega, ?_⟩
            rw [k2]; rfl

/-! ## Lemmas: what a successful call has done -/

theorem rmqueue_take_some (s : machine) (zid order c p : Nat) (rest : List Nat)
    (s' : machine) (page : Nat) (hoc : order ≤ c)
    (h : rmqueue_take s zid order c p rest = some (s', some page)) :
    s' = rmqueue_state s zid order c p rest ∧ page = p + 2 ^ c - 2 ^ order := by
  unfold rmqueue_take at h
  dsimp only at h
  split at h
  · simp at h
  · split at h
    · simp at h
    · rename_i zone page' heq
      split at h
      · simp at h
      · split at h
        · simp at h
        · unfold expand at heq
          have h1c : 1 <<< c = 2 ^ c := Nat.one_shiftLeft c
          rw [h1c] at heq
          have key := expand_loop_some s.mem_map zid (c - order) _ p _ c _ (by omega) heq
          have e : c - (c - order) = order := by omega
          rw [e] at key
          simp only [Prod.mk.injEq] at key
          obtain ⟨k1, k2⟩ := key
          simp only [Option.some.injEq, Prod.mk.injEq] at h
          obtain ⟨h1, h2⟩ := h
          subst k2
          refine ⟨?_, h2.symm⟩
          rw [← h1, k1]
          rfl

theorem rmqueue_loop_some (s : machine) (zid order : Nat) :
    ∀ (n curr : Nat) (s' : machine) (page : Nat),
      rmqueue_loop s zid order n curr = some (s', some page) →
      ∃ c p rest, curr ≤ c ∧ c ≤ curr + n ∧
        (∀ k, curr ≤ k → k < c → ((s.node_zones zid).free_area k).free_list = []) ∧
        ((s.node_zones zid).free_area c).free_list = p :: rest ∧
        rmqueue_take s zid order c p rest = some (s', some page) := by
  intro n
  induction n with
  | zero =>
    intro curr s' page h
    cases hl : ((s.node_zones zid).free_area curr).free_list with
    | nil =>
      rw [rmqueue_loop_nil_zero s zid order curr hl] at h
      simp at h
    | cons p rest =>
      rw [rmqueue_loop_cons_eq s zid order 0 curr p rest hl] at h
      exact ⟨curr, p, rest, le_refl _, by omega, fun k h1 h2 => absurd h1 (by omega), hl, h⟩
  | succ n ih =>
    intro curr s' page h
    cases hl : ((s.node_zones zid).free_area curr).free_list with
    | nil =>
      rw [rmqueue_loop_nil_succ s zid order n curr hl] at h
      obtain ⟨c, p, rest, h1, h2, h3, h4, h5⟩ := ih (curr + 1) s' page h
      refine ⟨c, p, rest, by omega, by omega, fun k k1 k2 => ?_, h4, h5⟩
      by_cases hk : k = curr
      · rw [hk]; exact hl
      · exact h3 k (by omega) k2
    | cons p rest =>
      rw [rmqueue_loop_cons_eq s zid order (n + 1) curr p rest hl] at h
      exact ⟨curr, p, rest, le_refl _, by omega, fun k h1 h2 => absurd h1 (by omega), hl, h⟩

theorem rmqueue_some (s : machine) (zid order : Nat) (s' : machine) (page : Nat)
    (ho : order < MAX_ORDER) (h : rmqueue s zid order = some (s', some page)) :
    ∃ c p rest, order ≤ c ∧ c < MAX_ORDER ∧
      (∀ k, order ≤ k → k < c → ((s.node_zones zid).free_area k).free_list = []) ∧
      ((s.node_zones zid).free_area c).free_list = p :: rest ∧
      s' = rmqueue_state s zid order c p rest ∧ page = p + 2 ^ c - 2 ^ order := by
  obtain ⟨c, p, rest, h1, h2, h3, h4, h5⟩ := rmqueue_loop_some s zid order _ order s' page h
  obtain ⟨h6, h7⟩ := rmqueue_take_some s zid order c p rest s' page h1 h5
  exact ⟨c, p, rest, h1, by omega, h3, h4, h6, h7⟩

theorem free_pages_ok_some (cfg : config) (s : machine) (page order : Nat) (s' : machine)
    (ho : order < MAX_ORDER) (h : __free_pages_ok cfg s page order = some s') :
    page_clean (s.mem_map page) = true ∧ page < s.max_mapnr ∧
    (page - (s.node_zones (s.mem_map page).zone).offset) % 2 ^ order = 0 ∧
    ∃ z', free_loop s.mem_map (s.mem_map page).zone (MAX_ORDER - order)
        { s.node_zones (s.mem_map page).zone with
          free_pages := ((s.node_zones (s.mem_map page).zone).free_pages + ULONG
            - (ULONG - 2 ^ order)) % ULONG }
        (ULONG - 2 ^ order) order
        ((page - (s.node_zones (s.mem_map page).zone).offset) >>> (1 + order))
        (page - (s.node_zones (s.mem_map page).zone).offset) = some z' ∧
      s' = { s with
        mem_map := Function.update s.mem_map page
          { s.mem_map page with referenced := false, dirty := false, age := cfg.PAGE_AGE_START }
        node_zones := Function.update s.node_zones (s.mem_map page).zone z'
        memory_pressure :=
          if s.memory_pressure > cfg.NR_CPUS then s.memory_pressure - 1
          else s.memory_pressure } := by
  unfold __free_pages_ok at h
  dsimp only at h
  rw [mask_init order ho, mask_not order ho, Nat.and_pow_two_sub_one_eq_mod] at h
  by_cases c1 : (s.mem_map page).buffers = true
  · rw [if_pos c1] at h; cases h
  rw [if_neg c1] at h
  by_cases c2 : (s.mem_map page).mapping = true
  · rw [if_pos c2] at h; cases h
  rw [if_neg c2] at h
  by_cases c3 : (!VALID_PAGE s page) = true
  · rw [if_pos c3] at h; cases h
  rw [if_neg c3] at h
  by_cases c4 : (s.mem_map page).swap_cache = true
  · rw [if_pos c4] at h; cases h
  rw [if_neg c4] at h
  by_cases c5 : (s.mem_map page).locked = true
  · rw [if_pos c5] at h; cases h
  rw [if_neg c5] at h
  by_cases c6 : (s.mem_map page).decr_after = true
  · rw [if_pos c6] at h; cases h
  rw [if_neg c6] at h
  by_cases c7 : (s.mem_map page).active = true
  · rw [if_pos c7] at h; cases h
  rw [if_neg c7] at h
  by_cases c8 : (s.mem_map page).inactive_dirty = true
  · rw [if_pos c8] at h; cases h
  rw [if_neg c8] at h
  by_cases c9 : (s.mem_map page).inactive_clean = true
  · rw [if_pos c9] at h; cases h
  rw [if_neg c9] at h
  by_cases c10 : (page - (s.node_zones (s.mem_map page).zone).offset) % 2 ^ order ≠ 0
  · rw [if_pos c10] at h; cases h
  rw [if_neg c10] at h
  cases hz : free_loop s.mem_map (s.mem_map page).zone (MAX_ORDER - order)
        { s.node_zones (s.mem_map page).zone with
          free_pages := ((s.node_zones (s.mem_map page).zone).free_pages + ULONG
            - (ULONG - 2 ^ order)) % ULONG }
        (ULONG - 2 ^ order) order
        ((page - (s.node_zones (s.mem_map page).zone).offset) >>> (1 + order))
        (page - (s.node_zones (s.mem_map page).zone).offset) with
  | none => rw [hz] at h; cases h
  | some z' =>
    rw [hz] at h
    simp only [Option.some.injEq] at h
    refine ⟨?_, ?_, ?_, z', rfl, h.symm⟩
    · simp only [Bool.not_eq_true] at c1 c2 c4 c5 c6 c7 c8 c9
      simp [page_clean, c1, c2, c4, c5, c6, c7, c8, c9]
    · simpa [VALID_PAGE] using c3
    · simpa using c10

theorem rmqueue_zone_free_pages (z : zone_t) (order c p : Nat) (rest : List Nat) :
    (rmqueue_zone z order c p rest).free_pages =
      (z.free_pages + ULONG - (1 <<< order) % ULONG) % ULONG := rfl

theorem one_shl_mod (order : Nat) (ho : order < MAX_ORDER) :
    (1 <<< order) % ULONG = 2 ^ order := by
  unfold MAX_ORDER at ho
  interval_cases order <;> rfl

theorem two_pow_lt_ULONG (order : Nat) (ho : order < MAX_ORDER) : 2 ^ order < ULONG := by
  unfold MAX_ORDER at ho
  interval_cases order <;> decide

theorem free_loop_fields (m : Nat → page) (zid : Nat) :
    ∀ (n : Nat) (zone : zone_t) (j idx index : Nat) (z' : zone_t),
      j + n = MAX_ORDER →
      free_loop m zid n zone (ULONG - 2 ^ j) j index idx = some z' →
      z'.free_pages = zone.free_pages ∧ z'.offset = zone.offset ∧ z'.size = zone.size := by
  intro n
  induction n with
  | zero =>
    intro zone j idx index z' hjn h
    have hj : j = MAX_ORDER := by omega
    subst hj
    rw [free_loop] at h
    have h1 : ¬ (ULONG - 2 ^ MAX_ORDER + 1 <<< (MAX_ORDER - 1)) % ULONG = 0 := by decide
    simp [h1] at h
  | succ n ih =>
    intro zone j idx index z' hjn h
    by_cases hj9 : j = MAX_ORDER - 1
    · subst hj9
      rw [free_loop_exit] at h
      simp only [Option.some.injEq] at h
      subst h
      exact ⟨rfl, rfl, rfl⟩
    · have hj : j < MAX_ORDER - 1 := by omega
      cases hb : test_bit index (zone.free_area j).map with
      | false =>
        rw [free_loop_break m zid _ zone j index idx hj hb] at h
        simp only [Option.some.injEq] at h
        subst h
        exact ⟨rfl, rfl, rfl⟩
      | true =>
        rw [free_loop_merge m zid n zone j index idx hj hb] at h
        split at h
        · simp at h
        · split at h
          · simp at h
          · have key := ih _ (j + 1) _ _ z' (by omega) h
            exact key

/-- C3. Zone accounting invariant `sum_k length(free list k) * 2^k = free_pages`:
a successful `rmqueue(zone, order)` lowers `free_pages` by exactly `2^order` and
keeps the invariant, whatever order the split block came from;
`__free_pages_ok(page, order)` adds `2^order` to `free_pages` modulo the word size
(`free_pages -= mask`), and keeps the invariant, however many merges occur, when
the zone satisfies the pair-bit invariant, the freed run is not free already and
the counter does not wrap. -/
theorem accounting_preserved (cfg : config) (s : machine) (zid order : Nat)
    (ho : order < MAX_ORDER) (hacc : accounting (s.node_zones zid)) :
    (∀ s' page, (s.node_zones zid).free_pages < ULONG →
        rmqueue s zid order = some (s', some page) →
        (s'.node_zones zid).free_pages + 2 ^ order = (s.node_zones zid).free_pages ∧
        accounting (s'.node_zones zid)) ∧
    (∀ s' page, (s.mem_map page).zone = zid →
        __free_pages_ok cfg s page order = some s' →
        (s'.node_zones zid).free_pages = ((s.node_zones zid).free_pages + 2 ^ order) % ULONG ∧
        (pair_bits_ok (s.node_zones zid) (MAX_ORDER - 1) →
          not_free (s.node_zones zid) page order →
          (s.node_zones zid).offset ≤ page → page < ULONG →
          (s.node_zones zid).free_pages + 2 ^ order < ULONG →
          accounting (s'.node_zones zid))) := by
  have hU : ULONG = 4294967296 := rfl
  have hlt := two_pow_lt_ULONG order ho
  have hpos := Nat.two_pow_pos order
  constructor
  · intro s' page hw h
    obtain ⟨c, p, rest, h1, h2, _, h4, h5, _⟩ := rmqueue_some s zid order s' page ho h
    subst h5
    rw [rmqueue_state_zone]
    have hsum := (free_sum_rmqueue_zone (s.node_zones zid) order c p rest h1 h4 MAX_ORDER).2.2 h2
    unfold accounting at hacc ⊢
    rw [rmqueue_zone_free_pages, one_shl_mod order ho]
    have e : ((s.node_zones zid).free_pages + ULONG - 2 ^ order) % ULONG =
        (s.node_zones zid).free_pages - 2 ^ order := by
      have e1 : (s.node_zones zid).free_pages + ULONG - 2 ^ order =
          ((s.node_zones zid).free_pages - 2 ^ order) + ULONG := by omega
      have e2 : (s.node_zones zid).free_pages - 2 ^ order < ULONG := by omega
      rw [e1, Nat.add_mod_right, Nat.mod_eq_of_lt e2]
    rw [e]
    omega
  · intro s' page hz h
    obtain ⟨_, _, ha, z', hloop, hs'⟩ := free_pages_ok_some cfg s page order s' ho h
    rw [hz] at hloop ha
    have hzone : s'.node_zones zid = z' := by
      rw [hs', hz]; simp
    have e : (s.node_zones zid).free_pages + ULONG - (ULONG - 2 ^ order) =
        (s.node_zones zid).free_pages + 2 ^ order := by omega
    rw [e] at hloop
    have hfp := (free_loop_fields s.mem_map zid (MAX_ORDER - order) _ order _ _ z'
      (by omega) hloop).1
    rw [hzone]
    refine ⟨hfp, fun hpb hnf hoff hpu hnw => ?_⟩
    have hsum := (free_loop_sum s.mem_map zid (MAX_ORDER - order)
      { s.node_zones zid with
        free_pages := ((s.node_zones zid).free_pages + 2 ^ order) % ULONG } order
      (page - (s.node_zones zid).offset) ((page - (s.node_zones zid).offset) >>> (1 + order)) z'
      (by omega) ha (by omega)
      (by rw [Nat.shiftRight_eq_div_pow, Nat.add_comm])
      (fun k _ h2 => hpb k h2) hnf hloop).1
    unfold accounting at hacc ⊢
    rw [hfp, hsum]
    show free_sum (s.node_zones zid) MAX_ORDER + 2 ^ order = _
    rw [hacc, Nat.mod_eq_of_lt hnw]

/-- Witness for C3: in `machine_ex` a request of order 1 (split from the order-3
block) and the release of the order-3 run at page 8 (merged into an order-4
block) both keep the accounting invariant. -/
theorem accounting_preserved_witness :
    (∃ s' page, rmqueue machine_ex 0 1 = some (s', some page) ∧
      accounting (s'.node_zones 0)) ∧
    (∃ s', __free_pages_ok config_ex machine_ex 8 3 = some s' ∧
      accounting (s'.node_zones 0)) := by
  constructor
  · have hr := rmqueue_found machine_ex 0 1 3 0 [] zone_ex_wf (by decide) (by decide)
      (by intro k h1 h2; interval_cases k <;> rfl) rfl
    exact ⟨_, _, hr, ((accounting_preserved config_ex machine_ex 0 1 (by decide) (by decide)).1
      _ _ (by decide) hr).2⟩
  · obtain ⟨s', hs'⟩ := Option.isSome_iff_exists.mp
      (by decide : (__free_pages_ok config_ex machine_ex 8 3).isSome = true)
    exact ⟨s', hs', ((accounting_preserved config_ex machine_ex 0 3 (by decide) (by decide)).2
      s' 8 rfl hs').2 (by unfold pair_bits_ok pair_bit_ok; decide) (by unfold not_free; decide)
        (by decide) (by decide) (by decide)⟩

/-! ## Lemmas: the pair bits -/

theorem test_bit_change_bit (i j m : Nat) :
    test_bit i (change_bit j m) = xor (test_bit i m) (decide (j = i)) := by
  unfold test_bit change_bit
  rw [Nat.testBit_xor, Nat.one_shiftLeft, Nat.testBit_two_pow]

theorem buddy_facts (idx j : Nat) (ha : idx % 2 ^ j = 0) :
    (idx ^^^ 2 ^ j) % 2 ^ j = 0 ∧ (idx ^^^ 2 ^ j) / 2 ^ (j + 1) = idx / 2 ^ (j + 1) := by
  rcases pair_split idx j ha with ⟨he, _⟩ | ⟨he, _⟩
  · have hx : idx ^^^ 2 ^ j = (2 * (idx / 2 ^ (j + 1)) + 1) * 2 ^ j := by
      conv_lhs => rw [he]
      exact xor_pow_even _ _
    rw [hx, pair_index_odd]
    exact ⟨Nat.mul_mod_left _ _, rfl⟩
  · have hx : idx ^^^ 2 ^ j = (2 * (idx / 2 ^ (j + 1))) * 2 ^ j := by
      conv_lhs => rw [he]
      exact xor_pow_odd _ _
    rw [hx, pair_index_even]
    exact ⟨Nat.mul_mod_left _ _, rfl⟩

/-- Toggling the membership of one block of order `k` in free list `k` together
with the bit of its pair keeps the pair-bit invariant at order `k`. -/
theorem pair_bit_toggle (z z' : zone_t) (k idx : Nat) (ha : idx % 2 ^ k = 0)
    (ho : z'.offset = z.offset) (hs : z'.size = z.size)
    (hm : (z'.free_area k).map = change_bit (idx / 2 ^ (k + 1)) (z.free_area k).map)
    (hother : ∀ x, x ≠ z.offset + idx →
      (x ∈ (z'.free_area k).free_list ↔ x ∈ (z.free_area k).free_list))
    (hself : z.offset + idx ∈ (z'.free_area k).free_list ↔
      z.offset + idx ∉ (z.free_area k).free_list)
    (hp : pair_bit_ok z k) : pair_bit_ok z' k := by
  intro i hi1 hi2
  rw [hs] at hi1 hi2
  have old := hp i hi1 hi2
  rw [hm, test_bit_change_bit, old, ho]
  by_cases hi : idx / 2 ^ (k + 1) = i
  · rcases pair_split idx k ha with ⟨he, _⟩ | ⟨he, _⟩
    · rw [hi] at he
      have hB : z.offset + (2 * i + 1) * 2 ^ k ≠ z.offset + idx := by
        intro h
        have h1 : (2 * i + 1) * 2 ^ k = (2 * i) * 2 ^ k := by omega
        have h2 := congrArg (· % 2 ^ (k + 1)) h1
        simp only at h2
        have hp := Nat.two_pow_pos k
        rw [pow_succ, Nat.mul_comm (2 * i + 1), Nat.mul_comm (2 * i), Nat.mul_mod_mul_left,
          Nat.mul_mod_mul_left] at h2
        have h3 : (2 * i + 1) % 2 = 1 := by omega
        have h4 : (2 * i) % 2 = 0 := by omega
        rw [h3, h4] at h2
        omega
      rw [← he]
      simp only [hother _ hB]
      by_cases hA : z.offset + idx ∈ (z.free_area k).free_list
      · have : z.offset + idx ∉ (z'.free_area k).free_list := fun h => (hself.mp h) hA
        simp [hA, this, hi]
      · have : z.offset + idx ∈ (z'.free_area k).free_list := hself.mpr hA
        simp [hA, this, hi]
    · rw [hi] at he
      have hA : z.offset + (2 * i) * 2 ^ k ≠ z.offset + idx := by
        intro h
        have h1 : (2 * i + 1) * 2 ^ k = (2 * i) * 2 ^ k := by omega
        have h2 := congrArg (· % 2 ^ (k + 1)) h1
        simp only at h2
        have hp := Nat.two_pow_pos k
        rw [pow_succ, Nat.mul_comm (2 * i + 1), Nat.mul_comm (2 * i), Nat.mul_mod_mul_left,
          Nat.mul_mod_mul_left] at h2
        have h3 : (2 * i + 1) % 2 = 1 := by omega
        have h4 : (2 * i) % 2 = 0 := by omega
        rw [h3, h4] at h2
        omega
      rw [← he]
      simp only [hother _ hA]
      by_cases hB : z.offset + idx ∈ (z.free_area k).free_list
      · have : z.offset + idx ∉ (z'.free_area k).free_list := fun h => (hself.mp h) hB
        simp [hB, this, hi]
      · have : z.offset + idx ∈ (z'.free_area k).free_list := hself.mpr hB
        simp [hB, this, hi]
  · have hA : z.offset + (2 * i) * 2 ^ k ≠ z.offset + idx := by
      intro h
      have h1 : idx = (2 * i) * 2 ^ k := by omega
      rw [h1, pair_index_even] at hi
      exact hi rfl
    have hB : z.offset + (2 * i + 1) * 2 ^ k ≠ z.offset + idx := by
      intro h
      have h1 : idx = (2 * i + 1) * 2 ^ k := by omega
      rw [h1, pair_index_odd] at hi
      exact hi rfl
    simp only [hother _ hA, hother _ hB]
    simp [hi]

theorem pair_bit_same (z z' : zone_t) (k : Nat) (ho : z'.offset = z.offset)
    (hs : z'.size = z.size) (ha : z'.free_area k = z.free_area k) (hp : pair_bit_ok z k) :
    pair_bit_ok z' k := by
  intro i hi1 hi2
  rw [hs] at hi1 hi2
  rw [ha, ho]
  exact hp i hi1 hi2

theorem split_index_aligned (idx c k : Nat) (ha : idx % 2 ^ c = 0) (hk : k < c) :
    (idx + 2 ^ c - 2 ^ (k + 1)) % 2 ^ (k + 1) = 0 := by
  obtain ⟨d, rfl⟩ : ∃ d, c = k + 1 + d := ⟨c - (k + 1), by omega⟩
  obtain ⟨a, rfl⟩ : ∃ a, idx = a * 2 ^ (k + 1 + d) := ⟨idx / 2 ^ (k + 1 + d), by
    have := Nat.div_add_mod idx (2 ^ (k + 1 + d)); rw [ha, mul_comm] at this; omega⟩
  have hd := Nat.two_pow_pos d
  have e : a * 2 ^ (k + 1 + d) + 2 ^ (k + 1 + d) - 2 ^ (k + 1) =
      2 ^ (k + 1) * (a * 2 ^ d + 2 ^ d - 1) := by
    rw [pow_add, Nat.mul_sub, Nat.mul_add, mul_one]
    have e1 : a * (2 ^ (k + 1) * 2 ^ d) = 2 ^ (k + 1) * (a * 2 ^ d) := by ring
    rw [e1]
  rw [e, Nat.mul_mod_right]

theorem mod_of_mod_succ (x k : Nat) (h : x % 2 ^ (k + 1) = 0) : x % 2 ^ k = 0 := by
  have hd : 2 ^ k ∣ 2 ^ (k + 1) := pow_dvd_pow 2 (by omega)
  exact Nat.mod_eq_zero_of_dvd (dvd_trans hd (Nat.dvd_of_mod_eq_zero h))

theorem rmqueue_zone_pair_bits (z : zone_t) (order c p : Nat) (rest : List Nat)
    (hoc : order ≤ c)
    (hnil : ∀ k, order ≤ k → k < c → (z.free_area k).free_list = [])
    (hl : (z.free_area c).free_list = p :: rest)
    (hoff : z.offset ≤ p) (ha : (p - z.offset) % 2 ^ c = 0) (hu : p - z.offset < ULONG)
    (hnd : (z.free_area c).free_list.Nodup) (n : Nat)
    (hp : pair_bits_ok z n) : pair_bits_ok (rmqueue_zone z order c p rest) n := by
  intro k hk
  have hlist := rmqueue_zone_free_list z order c p rest k hoc
  have hmap := rmqueue_zone_map z order c p rest k hoc
  rw [Nat.mod_eq_of_lt hu] at hmap
  by_cases hkc : k = c
  · subst hkc
    rw [if_pos rfl] at hlist hmap
    rw [hl] at hnd
    have hpn : p ∉ rest := (List.nodup_cons.mp hnd).1
    refine pair_bit_toggle z _ k (p - z.offset) ha ?_ ?_ ?_ ?_ ?_ (hp k hk)
    · rfl
    · rfl
    · rw [hmap, Nat.shiftRight_eq_div_pow, Nat.add_comm 1 k]
    · intro x hx
      rw [hlist, hl, List.mem_cons]
      have : x ≠ p := by omega
      simp [this]
    · have e : z.offset + (p - z.offset) = p := by omega
      rw [hlist, hl, e]
      simp [hpn]
  · by_cases hkr : order ≤ k ∧ k < c
    · rw [if_neg hkc, if_pos hkr] at hlist hmap
      have hpc : 2 ^ (k + 1) ≤ 2 ^ c := Nat.pow_le_pow_right (by norm_num) (by omega)
      have hal := split_index_aligned (p - z.offset) c k ha hkr.2
      refine pair_bit_toggle z _ k (p - z.offset + 2 ^ c - 2 ^ (k + 1))
        (mod_of_mod_succ _ _ hal) ?_ ?_ ?_ ?_ ?_ (hp k hk)
      · rfl
      · rfl
      · rw [hmap, Nat.shiftRight_eq_div_pow, Nat.add_comm 1 k]
      · intro x hx
        rw [hlist, hnil k hkr.1 hkr.2]
        have : x ≠ p + 2 ^ c - 2 ^ (k + 1) := by omega
        simp [this]
      · have e : z.offset + (p - z.offset + 2 ^ c - 2 ^ (k + 1)) = p + 2 ^ c - 2 ^ (k + 1) := by
          omega
        rw [hlist, hnil k hkr.1 hkr.2, e]
        simp
    · rw [if_neg hkc, if_neg hkr] at hlist hmap
      have : ∀ a b : free_area_t, a.free_list = b.free_list → a.map = b.map → a = b := by
        intro a b h1 h2; cases a; cases b; simp_all
      exact pair_bit_same z _ k (by rfl) (by rfl) (this _ _ hlist hmap) (hp k hk)

theorem free_loop_pair_bits (m : Nat → page) (zid : Nat) :
    ∀ (n : Nat) (zone : zone_t) (j idx index : Nat) (z' : zone_t),
      j + n = MAX_ORDER → idx % 2 ^ j = 0 → idx < ULONG → index = idx / 2 ^ (j + 1) →
      pair_bits_ok zone (MAX_ORDER - 1) →
      (∀ k, k < MAX_ORDER → j ≤ k → (zone.free_area k).free_list.Nodup) →
      (∀ k, k < MAX_ORDER → j ≤ k →
        zone.offset + block_of idx k ∉ (zone.free_area k).free_list) →
      free_loop m zid n zone (ULONG - 2 ^ j) j index idx = some z' →
      pair_bits_ok z' (MAX_ORDER - 1) := by
  intro n
  induction n with
  | zero =>
    intro zone j idx index z' hjn _ _ _ _ _ _ h
    have hj : j = MAX_ORDER := by omega
    subst hj
    rw [free_loop] at h
    have h1 : ¬ (ULONG - 2 ^ MAX_ORDER + 1 <<< (MAX_ORDER - 1)) % ULONG = 0 := by decide
    simp [h1] at h
  | succ n ih =>
    intro zone j idx index z' hjn ha hu hidx hpb hnd hnf h
    have hjm : j < MAX_ORDER := by omega
    have hself : zone.offset + idx ∉ (zone.free_area j).free_list := by
      have := hnf j hjm (le_refl _)
      rwa [block_of_self idx j ha] at this
    by_cases hj9 : j = MAX_ORDER - 1
    · subst hj9
      rw [free_loop_exit] at h
      simp only [Option.some.injEq] at h
      subst h
      intro k hk
      exact pair_bit_same zone _ k (by rfl) (by rfl) (set_area_other _ _ _ _ (by omega)) (hpb k hk)
    · have hj : j < MAX_ORDER - 1 := by omega
      cases hb : test_bit index (zone.free_area j).map with
      | false =>
        rw [free_loop_break m zid _ zone j index idx hj hb] at h
        simp only [Option.some.injEq] at h
        subst h
        intro k hk
        by_cases hkj : k = j
        · subst hkj
          refine pair_bit_toggle zone _ k idx ha ?_ ?_ ?_ ?_ ?_ (hpb k hk)
          · rfl
          · rfl
          · rw [set_area_same, hidx]
          · intro x hx
            rw [set_area_same]
            simp [hx]
          · rw [set_area_same]
            simp [hself]
        · exact pair_bit_same zone _ k (by rfl) (by rfl) (set_area_other _ _ _ _ hkj) (hpb k hk)
      | true =>
        rw [free_loop_merge m zid n zone j index idx hj hb] at h
        split at h
        · simp at h
        · split at h
          · simp at h
          · rename_i hb1 hb2
            have hs : idx < zone.size := by
              have := BAD_RANGE_lt m zid zone _ hb2
              omega
            have hbud := buddy_on_list zone j idx ha hs (hpb j hj)
              (by rw [← hidx]; exact hb) hself
            obtain ⟨hba, hbi⟩ := buddy_facts idx j ha
            rw [and_mask idx (j + 1) hu (by unfold MAX_ORDER at hjm; omega)] at h
            refine ih _ (j + 1) (block_of idx (j + 1)) (index >>> 1) z' (by omega)
              (block_of_mod _ _) (lt_of_le_of_lt (block_of_le _ _) hu)
              (by rw [block_of_div, hidx, Nat.shiftRight_eq_div_pow]) ?_ ?_ ?_ h
            · intro k hk
              by_cases hkj : k = j
              · subst hkj
                refine pair_bit_toggle zone _ k (idx ^^^ 2 ^ k) hba ?_ ?_ ?_ ?_ ?_ (hpb k hk)
                · rfl
                · rfl
                · rw [set_area_same, hbi, hidx]
                · intro x hx
                  rw [set_area_same]
                  exact List.mem_erase_of_ne hx
                · rw [set_area_same]
                  have := (hnd k hjm (le_refl _)).not_mem_erase
                    (a := zone.offset + (idx ^^^ 2 ^ k))
                  simp [hbud, this]
              · exact pair_bit_same zone _ k (by rfl) (by rfl) (set_area_other _ _ _ _ hkj) (hpb k hk)
            · intro k h1 h2
              rw [set_area_other _ _ _ _ (by omega)]
              exact hnd k h1 (by omega)
            · intro k h1 h2
              rw [block_of_block_of _ _ _ h2, set_area_other _ _ _ _ (by omega)]
              exact hnf k h1 (by omega)

theorem zone_full_wf : zone_wf machine_full 0 where
  blocks := by decide
  nodup := by decide
  backptr := by intro i _; rfl
  clean := by decide
  valid := by decide
  word := by decide

/-- C4 (as amended). Pair-bit invariant at the orders below `MAX_ORDER - 1`: it is
preserved by every `rmqueue` on a zone with well-formed free lists (the removal
of the block and the splits done by `expand` included; `rmqueue` keeps it at any
range of orders), and by every `__free_pages_ok` (merges included) of a run that
is not free already, the free lists holding no entry twice. -/
theorem pair_bits_preserved (cfg : config) (s : machine) (zid order : Nat)
    (ho : order < MAX_ORDER) (hpb : pair_bits_ok (s.node_zones zid) (MAX_ORDER - 1)) :
    (∀ s' r, zone_wf s zid → rmqueue s zid order = some (s', r) →
        pair_bits_ok (s'.node_zones zid) (MAX_ORDER - 1) ∧
        (pair_bits_ok (s.node_zones zid) MAX_ORDER → pair_bits_ok (s'.node_zones zid) MAX_ORDER)) ∧
    (∀ s' page, (s.mem_map page).zone = zid →
        (∀ k, k < MAX_ORDER → ((s.node_zones zid).free_area k).free_list.Nodup) →
        not_free (s.node_zones zid) page order →
        (s.node_zones zid).offset ≤ page → page < ULONG →
        __free_pages_ok cfg s page order = some s' →
        pair_bits_ok (s'.node_zones zid) (MAX_ORDER - 1)) := by
  have hU : ULONG = 4294967296 := rfl
  constructor
  · intro s' r hwf h
    cases r with
    | none =>
      obtain ⟨h1, _⟩ := rmqueue_loop_null s zid order _ order s' h
      subst h1
      exact ⟨hpb, fun h => h⟩
    | some page =>
      obtain ⟨c, p, rest, h1, h2, h3, h4, h5, _⟩ := rmqueue_some s zid order s' page ho h
      subst h5
      rw [rmqueue_state_zone]
      have hmem : p ∈ ((s.node_zones zid).free_area c).free_list := by rw [h4]; simp
      obtain ⟨hb1, hb2, hb3⟩ := hwf.blocks c h2 p hmem
      have hv := hwf.valid
      have hw := hwf.word.1
      have hpc := Nat.two_pow_pos c
      have hu : p - (s.node_zones zid).offset < ULONG := by omega
      exact ⟨rmqueue_zone_pair_bits _ order c p rest h1 h3 h4 hb1 hb3 hu (hwf.nodup c h2) _ hpb,
        rmqueue_zone_pair_bits _ order c p rest h1 h3 h4 hb1 hb3 hu (hwf.nodup c h2) _⟩
  · intro s' page hz hnd hnf hoff hpu h
    obtain ⟨_, _, ha, z', hloop, hs'⟩ := free_pages_ok_some cfg s page order s' ho h
    rw [hz] at hloop ha
    have hzone : s'.node_zones zid = z' := by
      rw [hs', hz]; simp
    rw [hzone]
    exact free_loop_pair_bits s.mem_map zid (MAX_ORDER - order)
      { s.node_zones zid with
        free_pages := ((s.node_zones zid).free_pages + ULONG - (ULONG - 2 ^ order)) % ULONG }
      order (page - (s.node_zones zid).offset)
      ((page - (s.node_zones zid).offset) >>> (1 + order)) z'
      (by omega) ha (by omega) (by rw [Nat.shiftRight_eq_div_pow, Nat.add_comm])
      hpb (fun k h1 _ => hnd k h1) hnf hloop

/-- Witness for C4: in `machine_ex` a request of order 1 (split from the order-3
block) and the release of the order-3 run at page 8 (merged into an order-4
block) both keep the pair-bit invariant below the top order. -/
theorem pair_bits_preserved_witness :
    (∃ s' page, rmqueue machine_ex 0 1 = some (s', some page) ∧
      pair_bits_ok (s'.node_zones 0) (MAX_ORDER - 1)) ∧
    (∃ s', __free_pages_ok config_ex machine_ex 8 3 = some s' ∧
      pair_bits_ok (s'.node_zones 0) (MAX_ORDER - 1)) := by
  constructor
  · have hr := rmqueue_found machine_ex 0 1 3 0 [] zone_ex_wf (by decide) (by decide)
      (by intro k h1 h2; interval_cases k <;> rfl) rfl
    exact ⟨_, _, hr, ((pair_bits_preserved config_ex machine_ex 0 1 (by decide) (by decide)).1
      _ _ zone_ex_wf hr).1⟩
  · obtain ⟨s', hs'⟩ := Option.isSome_iff_exists.mp
      (by decide : (__free_pages_ok config_ex machine_ex 8 3).isSome = true)
    exact ⟨s', hs', (pair_bits_preserved config_ex machine_ex 0 3 (by decide) (by decide)).2
      s' 8 rfl (by decide) (by decide) (by decide) (by decide) hs'⟩

/-- Counterexample to C4 as stated (every order `k` in `[0, MAX_ORDER)`): in the
zone `zone_full`, whose lists are empty and whose bitmaps are clear, the
invariant holds at every order; `__free_pages_ok` of the order-9 run at page 0
puts the block on list 9 and toggles no bit, so the invariant fails at order 9
afterwards. -/
theorem pair_bits_top_order_counterexample :
    pair_bits_ok (machine_full.node_zones 0) MAX_ORDER ∧
    zone_wf machine_full 0 ∧ not_free (machine_full.node_zones 0) 0 9 ∧
    ∃ s', __free_pages_ok config_ex machine_full 0 9 = some s' ∧
      ¬ pair_bits_ok (s'.node_zones 0) MAX_ORDER := by
  refine ⟨?_, zone_full_wf, by decide, ?_⟩
  · intro k _ i _ _
    simp [machine_full, zone_full, test_bit]
  have h : (__free_pages_ok config_ex machine_full 0 9).map
      (fun s' => (test_bit 0 ((s'.node_zones 0).free_area 9).map,
        decide (0 ∈ ((s'.node_zones 0).free_area 9).free_list),
        decide (512 ∈ ((s'.node_zones 0).free_area 9).free_list),
        (s'.node_zones 0).offset, (s'.node_zones 0).size)) =
      some (false, true, false, 0, 512) := by decide
  cases hs : __free_pages_ok config_ex machine_full 0 9 with
  | none => rw [hs] at h; cases h
  | some s' =>
    rw [hs] at h
    simp only [Option.map_some', Option.some.injEq, Prod.mk.injEq, decide_eq_true_eq,
      decide_eq_false_iff_not] at h
    obtain ⟨h1, h2, h3, h4, h5⟩ := h
    refine ⟨s', rfl, fun hall => ?_⟩
    have := hall 9 (by decide) 0 (by rw [h5]; decide) (by rw [h5]; decide)
    rw [h1, h4] at this
    simp [h2, h3] at this

/-- C5. `__free_pages(page, order)` changes nothing at all (not even the reference
count) when the page is reserved; for a page that is not reserved it decrements
the count, and when the count has not reached zero nothing else changes (the
zones, hence their free lists, bitmaps and `free_pages`, are untouched), while
`__free_pages_ok` is invoked exactly when it has reached zero. -/
theorem free_pages_frame (cfg : config) (s : machine) (page order : Nat) :
    ((s.mem_map page).reserved = true → __free_pages cfg s page order = some s) ∧
    ((s.mem_map page).reserved = false → (s.mem_map page).count - 1 ≠ 0 →
      ∃ s', __free_pages cfg s page order = some s' ∧
        s'.node_zones = s.node_zones ∧
        s'.mem_map page = { s.mem_map page with count := (s.mem_map page).count - 1 } ∧
        (∀ q, q ≠ page → s'.mem_map q = s.mem_map q) ∧
        s'.memory_pressure = s.memory_pressure) ∧
    ((s.mem_map page).reserved = false → (s.mem_map page).count - 1 = 0 →
      __free_pages cfg s page order =
        __free_pages_ok cfg
          { s with
            mem_map := Function.update s.mem_map page
              { s.mem_map page with count := (s.mem_map page).count - 1 } }
          page order) := by
  refine ⟨?_, ?_, ?_⟩
  · intro h
    simp [__free_pages, h]
  · intro h hc
    have e : __free_pages cfg s page order =
        some { s with
          mem_map := Function.update s.mem_map page
            { s.mem_map page with count := (s.mem_map page).count - 1 } } := by
      simp [__free_pages, h, hc]
    exact ⟨_, e, rfl, by simp, fun q hq => by simp [Function.update_noteq hq], rfl⟩
  · intro h hc
    simp [__free_pages, h, hc]

/-- Witness for C5: page 3 of `machine_ex` is not reserved and its count is 0, so
the decrement does not reach zero and the zones are left alone. -/
theorem free_pages_frame_witness :
    ∃ s', __free_pages config_ex machine_ex 3 0 = some s' ∧
      s'.node_zones = machine_ex.node_zones :=
  let ⟨s', h1, h2, _⟩ :=
    (free_pages_frame config_ex machine_ex 3 0).2.1 (by decide) (by decide)
  ⟨s', h1, h2⟩

/-! ## Lemmas: releasing what `rmqueue` has just returned -/

theorem change_bit_change_bit (i m : Nat) : change_bit i (change_bit i m) = m := by
  unfold change_bit
  rw [Nat.xor_assoc, Nat.xor_self, Nat.xor_zero]

theorem add_half_div (x h : Nat) (hx : x % 2 ^ (h + 1) = 0) :
    (x + 2 ^ h) / 2 ^ (h + 1) = x / 2 ^ (h + 1) := by
  obtain ⟨a, rfl⟩ : ∃ a, x = 2 ^ (h + 1) * a := ⟨x / 2 ^ (h + 1), by
    have := Nat.div_add_mod x (2 ^ (h + 1)); omega⟩
  have hp := Nat.two_pow_pos (h + 1)
  have hlt : 2 ^ h < 2 ^ (h + 1) := Nat.pow_lt_pow_right (by norm_num) (by omega)
  rw [Nat.mul_add_div hp, Nat.mul_div_cancel_left _ hp, Nat.div_eq_of_lt hlt, Nat.add_zero]

theorem add_half_xor (x h : Nat) (hx : x % 2 ^ (h + 1) = 0) : (x + 2 ^ h) ^^^ 2 ^ h = x := by
  obtain ⟨a, rfl⟩ : ∃ a, x = 2 ^ (h + 1) * a := ⟨x / 2 ^ (h + 1), by
    have := Nat.div_add_mod x (2 ^ (h + 1)); omega⟩
  have e : 2 ^ (h + 1) * a + 2 ^ h = (2 * a + 1) * 2 ^ h := by rw [pow_succ]; ring
  have e2 : 2 ^ (h + 1) * a = (2 * a) * 2 ^ h := by rw [pow_succ]; ring
  rw [e, e2, xor_pow_odd]

theorem add_half_block (x h : Nat) (hx : x % 2 ^ (h + 1) = 0) :
    block_of (x + 2 ^ h) (h + 1) = x := by
  unfold block_of
  have hlt : 2 ^ h < 2 ^ (h + 1) := Nat.pow_lt_pow_right (by norm_num) (by omega)
  have : (x + 2 ^ h) % 2 ^ (h + 1) = 2 ^ h := by
    rw [Nat.add_mod, hx, Nat.zero_add, Nat.mod_mod, Nat.mod_eq_of_lt hlt]
  omega

theorem split_zone_unsplit (Z : zone_t) (p idx c d h : Nat) (hd : h + (d + 1) = c) :
    set_area (split_zone Z p idx c (d + 1)) h (Z.free_area h) = split_zone Z p idx c d := by
  apply zone_ext <;> try rfl
  intro k
  simp only [split_zone, set_area_free_area]
  split_ifs <;> first | rfl | (exfalso; omega) | (subst_vars; rfl)

theorem free_loop_undo_split (m : Nat → page) (zid : Nat) (Z : zone_t) (p idx c : Nat)
    (hc : c < MAX_ORDER) (hidx : idx % 2 ^ c = 0) (hu : idx + 2 ^ c ≤ ULONG)
    (hp : p = Z.offset + idx)
    (hrange : ∀ x, idx ≤ x → x < idx + 2 ^ c → BAD_RANGE m zid Z (Z.offset + x) = false) :
    ∀ (d h : Nat), h + d = c →
      (∀ k, h ≤ k → k < c →
        test_bit ((idx + 2 ^ c - 2 ^ (k + 1)) / 2 ^ (k + 1)) (Z.free_area k).map = false) →
      free_loop m zid (MAX_ORDER - h) (split_zone Z p idx c d) (ULONG - 2 ^ h) h
          ((idx + 2 ^ c - 2 ^ h) >>> (1 + h)) (idx + 2 ^ c - 2 ^ h) =
        free_loop m zid (MAX_ORDER - c) Z (ULONG - 2 ^ c) c (idx >>> (1 + c)) idx := by
  intro d
  induction d with
  | zero =>
    intro h hd _
    have : h = c := by omega
    subst this
    rw [split_zone_zero, Nat.add_sub_cancel]
  | succ d ih =>
    intro h hd hbits
    have hhc : h < c := by omega
    have hpc : 2 ^ (h + 1) ≤ 2 ^ c := Nat.pow_le_pow_right (by norm_num) (by omega)
    have hph := Nat.two_pow_pos h
    have h2 := two_pow_succ_sub h
    have hal := split_index_aligned idx c h hidx hhc
    have ex : idx + 2 ^ c - 2 ^ h = (idx + 2 ^ c - 2 ^ (h + 1)) + 2 ^ h := by omega
    have en : MAX_ORDER - h = (MAX_ORDER - (h + 1)) + 1 := by omega
    have harea : (split_zone Z p idx c (d + 1)).free_area h =
        { free_list := (p + 2 ^ c - 2 ^ (h + 1)) :: (Z.free_area h).free_list
          map := change_bit ((idx + 2 ^ c - 2 ^ (h + 1)) >>> (1 + h)) (Z.free_area h).map } := by
      simp only [split_zone]
      rw [if_pos (by omega)]
    have hindex : (idx + 2 ^ c - 2 ^ h) >>> (1 + h) =
        (idx + 2 ^ c - 2 ^ (h + 1)) / 2 ^ (h + 1) := by
      rw [Nat.shiftRight_eq_div_pow, Nat.add_comm 1 h, ex, add_half_div _ _ hal]
    have hbit : test_bit ((idx + 2 ^ c - 2 ^ h) >>> (1 + h))
        ((split_zone Z p idx c (d + 1)).free_area h).map = true := by
      rw [harea, hindex]
      simp only [Nat.shiftRight_eq_div_pow, Nat.add_comm 1 h]
      rw [test_bit_change_bit, hbits h (le_refl _) hhc]
      simp
    rw [en, free_loop_merge m zid _ _ h _ _ (by omega) hbit]
    have hxor : (idx + 2 ^ c - 2 ^ h) ^^^ 2 ^ h = idx + 2 ^ c - 2 ^ (h + 1) := by
      rw [ex, add_half_xor _ _ hal]
    have hb1 : BAD_RANGE m zid (split_zone Z p idx c (d + 1))
        ((split_zone Z p idx c (d + 1)).offset + ((idx + 2 ^ c - 2 ^ h) ^^^ 2 ^ h)) = false := by
      rw [hxor]
      exact hrange _ (by omega) (by omega)
    have hb2 : BAD_RANGE m zid (split_zone Z p idx c (d + 1))
        ((split_zone Z p idx c (d + 1)).offset + (idx + 2 ^ c - 2 ^ h)) = false :=
      hrange _ (by omega) (by omega)
    rw [hb1, hb2]
    simp only [Bool.false_eq_true, if_false]
    have hmask : (idx + 2 ^ c - 2 ^ h) &&& (ULONG - 2 ^ (h + 1)) = idx + 2 ^ c - 2 ^ (h + 1) := by
      rw [and_mask _ _ (by omega) (by unfold MAX_ORDER at hc; omega), ex, add_half_block _ _ hal]
    have hzone : set_area (split_zone Z p idx c (d + 1)) h
        { free_list := ((split_zone Z p idx c (d + 1)).free_area h).free_list.erase
            ((split_zone Z p idx c (d + 1)).offset + ((idx + 2 ^ c - 2 ^ h) ^^^ 2 ^ h))
          map := change_bit ((idx + 2 ^ c - 2 ^ h) >>> (1 + h))
            ((split_zone Z p idx c (d + 1)).free_area h).map } = split_zone Z p idx c d := by
      rw [← split_zone_unsplit Z p idx c d h (by omega), harea, hxor, hindex]
      congr 1
      have e1 : (split_zone Z p idx c (d + 1)).offset + (idx + 2 ^ c - 2 ^ (h + 1)) =
          p + 2 ^ c - 2 ^ (h + 1) := by
        show Z.offset + _ = _
        omega
      simp only [e1, List.erase_cons_head, Nat.shiftRight_eq_div_pow, Nat.add_comm 1 h,
        change_bit_change_bit]
    have hidx2 : (idx + 2 ^ c - 2 ^ h) >>> (1 + h) >>> 1 =
        (idx + 2 ^ c - 2 ^ (h + 1)) >>> (1 + (h + 1)) := by
      rw [hindex]
      simp only [Nat.shiftRight_eq_div_pow, Nat.add_comm 1 (h + 1)]
      rw [Nat.div_div_eq_div_mul, pow_one, ← pow_succ]
    rw [hzone, hmask, hidx2]
    exact ih (h + 1) (by omega) (fun k h1 h2 => hbits k (by omega) h2)

theorem mod_of_dvd_top (idx c k : Nat) (hkc : k ≤ c) (ha : idx % 2 ^ c = 0) :
    (idx + 2 ^ c - 2 ^ k) % 2 ^ k = 0 := by
  have hd : 2 ^ k ∣ 2 ^ c := pow_dvd_pow 2 hkc
  have h1 : 2 ^ k ∣ idx := dvd_trans hd (Nat.dvd_of_mod_eq_zero ha)
  have h2 : 2 ^ k ∣ idx + 2 ^ c := Dvd.dvd.add h1 hd
  exact Nat.mod_eq_zero_of_dvd (Nat.dvd_sub' h2 (dvd_refl _))

theorem free_area_ext (a b : free_area_t) (h1 : a.free_list = b.free_list)
    (h2 : a.map = b.map) : a = b := by
  cases a; cases b; simp_all

theorem pair_bit_set_of_single (z : zone_t) (c idx : Nat) (hc : c < MAX_ORDER - 1)
    (ha : idx % 2 ^ c = 0) (hs : idx < z.size) (hp : pair_bit_ok z c) (hco : coalesced z)
    (hm : z.offset + idx ∈ (z.free_area c).free_list) :
    test_bit (idx / 2 ^ (c + 1)) (z.free_area c).map = true := by
  have hpos := Nat.two_pow_pos (c + 1)
  have hle : idx / 2 ^ (c + 1) * 2 ^ (c + 1) ≤ idx := Nat.div_mul_le_self _ _
  have hi : idx / 2 ^ (c + 1) < z.size := by
    have : idx / 2 ^ (c + 1) ≤ idx := Nat.div_le_self _ _
    omega
  have hpb := hp (idx / 2 ^ (c + 1)) hi (by omega)
  have hno := hco c hc (idx / 2 ^ (c + 1)) hi
  rw [hpb]
  rcases pair_split idx c ha with ⟨he, _⟩ | ⟨he, _⟩
  · rw [← he] at hno ⊢
    have : z.offset + (2 * (idx / 2 ^ (c + 1)) + 1) * 2 ^ c ∉ (z.free_area c).free_list :=
      fun h => hno ⟨hm, h⟩
    simp [hm, this]
  · rw [← he] at hno ⊢
    have : z.offset + (2 * (idx / 2 ^ (c + 1))) * 2 ^ c ∉ (z.free_area c).free_list :=
      fun h => hno ⟨h, hm⟩
    simp [hm, this]

theorem pair_bit_clear_of_empty (z : zone_t) (k x : Nat) (hs : x < z.size)
    (hp : pair_bit_ok z k) (hnil : (z.free_area k).free_list = []) :
    test_bit (x / 2 ^ (k + 1)) (z.free_area k).map = false := by
  have hle : x / 2 ^ (k + 1) * 2 ^ (k + 1) ≤ x := Nat.div_mul_le_self _ _
  have hi : x / 2 ^ (k + 1) < z.size := by
    have : x / 2 ^ (k + 1) ≤ x := Nat.div_le_self _ _
    omega
  have hpb := hp (x / 2 ^ (k + 1)) hi (by omega)
  rw [hpb, hnil]
  simp

/-- The zone after `rmqueue` has taken the block `p` of order `c` for a request of
order `k` and `__free_pages_ok` has released the returned run again: the original
zone, except that the pair bit of the block in the bitmap of order
`MAX_ORDER - 1` stays toggled when `c = MAX_ORDER - 1`. -/
theorem free_loop_restore (m : Nat → page) (zid : Nat) (z : zone_t) (k c p : Nat)
    (rest : List Nat) (fp' : Nat) (hkc : k ≤ c) (hc : c < MAX_ORDER)
    (hl : (z.free_area c).free_list = p :: rest)
    (hnil : ∀ j, k ≤ j → j < c → (z.free_area j).free_list = [])
    (hoff : z.offset ≤ p) (ha : (p - z.offset) % 2 ^ c = 0)
    (hin : p + 2 ^ c ≤ z.offset + z.size) (hw : z.offset + z.size < ULONG)
    (hrange : ∀ x, p ≤ x → x < p + 2 ^ c → BAD_RANGE m zid z x = false)
    (hpb : pair_bits_ok z (MAX_ORDER - 1)) (hco : coalesced z) :
    free_loop m zid (MAX_ORDER - k)
        { rmqueue_zone z k c p rest with free_pages := fp' } (ULONG - 2 ^ k) k
        ((p - z.offset + 2 ^ c - 2 ^ k) >>> (1 + k)) (p - z.offset + 2 ^ c - 2 ^ k) =
      some (if c = MAX_ORDER - 1 then
          { set_area z c (MARK_USED (p - z.offset) c (z.free_area c)) with free_pages := fp' }
        else { z with free_pages := fp' }) := by
  have hU : ULONG = 4294967296 := rfl
  have hpc := Nat.two_pow_pos c
  have hidxu : (p - z.offset) % ULONG = p - z.offset := Nat.mod_eq_of_lt (by omega)
  obtain ⟨Z, hZ⟩ : ∃ Z : zone_t, Z =
      { set_area z c (MARK_USED (p - z.offset) c { z.free_area c with free_list := rest }) with
        free_pages := fp' } := ⟨_, rfl⟩
  have hZo : Z.offset = z.offset := by rw [hZ]; rfl
  have hsplit : ({ rmqueue_zone z k c p rest with free_pages := fp' } : zone_t) =
      split_zone Z p (p - z.offset) c (c - k) := by
    rw [hZ]
    unfold rmqueue_zone
    rw [hidxu]
    rfl
  rw [hsplit, free_loop_undo_split m zid Z p (p - z.offset) c hc ha (by omega)
    (by rw [hZo]; omega)
    (fun x h1 h2 => by
      rw [hZ]
      exact hrange _ (by show p ≤ z.offset + x; omega) (by show z.offset + x < _; omega))
    (c - k) k (by omega)
    (fun j h1 h2 => by
      have hpj : 2 ^ (j + 1) ≤ 2 ^ c := Nat.pow_le_pow_right (by norm_num) (by omega)
      have hpj' := Nat.two_pow_pos (j + 1)
      have e : Z.free_area j = z.free_area j := by
        rw [hZ]
        exact set_area_other _ _ _ _ (by omega)
      rw [e]
      exact pair_bit_clear_of_empty z j _ (by omega) (hpb j (by omega)) (hnil j h1 h2))]
  subst hZ
  by_cases hc9 : c = MAX_ORDER - 1
  · subst hc9
    rw [if_pos rfl, free_loop_exit]
    congr 1
    apply zone_ext <;> try rfl
    intro j
    show (set_area (set_area z _ _) _ _).free_area j = (set_area z _ _).free_area j
    rw [set_area_set_area]
    simp only [set_area_free_area, MARK_USED]
    split_ifs
    · apply free_area_ext
      · show (z.offset + (p - z.offset)) :: rest = (z.free_area (MAX_ORDER - 1)).free_list
        rw [hl]; congr 1; omega
      · rfl
    · rfl
  · have hc8 : c < MAX_ORDER - 1 := by omega
    have hmem : z.offset + (p - z.offset) ∈ (z.free_area c).free_list := by
      rw [hl]
      have : z.offset + (p - z.offset) = p := by omega
      simp [this]
    have hbit := pair_bit_set_of_single z c (p - z.offset) hc8 ha (by omega) (hpb c hc8) hco hmem
    rw [if_neg hc9, free_loop_break m zid _ _ c _ _ hc8
      (by
        show test_bit _ ((set_area z c _).free_area c).map = false
        rw [set_area_same]
        simp only [MARK_USED, Nat.shiftRight_eq_div_pow, Nat.add_comm 1 c]
        rw [test_bit_change_bit, hbit]
        simp)]
    congr 1
    apply zone_ext <;> try rfl
    intro j
    show (set_area (set_area z _ _) _ _).free_area j = z.free_area j
    rw [set_area_set_area]
    simp only [set_area_free_area]
    split_ifs with hj
    · subst hj
      apply free_area_ext
      · show (z.offset + (p - z.offset)) :: rest = (z.free_area j).free_list
        rw [hl]; congr 1; omega
      · show change_bit ((p - z.offset) >>> (1 + j))
          (change_bit ((p - z.offset) >>> (1 + j)) (z.free_area j).map) = _
        rw [change_bit_change_bit]
    · rfl

theorem free_pages_ok_eq (cfg : config) (s : machine) (page order : Nat) (z' : zone_t)
    (ho : order < MAX_ORDER) (hclean : page_clean (s.mem_map page) = true)
    (hv : page < s.max_mapnr)
    (ha : (page - (s.node_zones (s.mem_map page).zone).offset) % 2 ^ order = 0)
    (hloop : free_loop s.mem_map (s.mem_map page).zone (MAX_ORDER - order)
        { s.node_zones (s.mem_map page).zone with
          free_pages := ((s.node_zones (s.mem_map page).zone).free_pages + ULONG
            - (ULONG - 2 ^ order)) % ULONG }
        (ULONG - 2 ^ order) order
        ((page - (s.node_zones (s.mem_map page).zone).offset) >>> (1 + order))
        (page - (s.node_zones (s.mem_map page).zone).offset) = some z') :
    __free_pages_ok cfg s page order =
      some { s with
        mem_map := Function.update s.mem_map page
          { s.mem_map page with referenced := false, dirty := false, age := cfg.PAGE_AGE_START }
        node_zones := Function.update s.node_zones (s.mem_map page).zone z'
        memory_pressure :=
          if s.memory_pressure > cfg.NR_CPUS then s.memory_pressure - 1
          else s.memory_pressure } := by
  simp only [page_clean, Bool.and_eq_true, Bool.not_eq_true'] at hclean
  obtain ⟨⟨⟨⟨⟨⟨⟨c1, c2⟩, c3⟩, c4⟩, c5⟩, c6⟩, c7⟩, c8⟩ := hclean
  have hvp : (!VALID_PAGE s page) = false := by simp [VALID_PAGE, hv]
  unfold __free_pages_ok
  dsimp only
  rw [mask_init order ho, mask_not order ho, Nat.and_pow_two_sub_one_eq_mod]
  rw [c1, c2, c3, c4, c5, c6, c7, c8, hvp]
  simp only [Bool.false_eq_true, if_false]
  rw [if_neg (by rw [ha]; simp), hloop]

/-- C2 (as amended). In a zone that satisfies the free-list invariant, the pair-bit
invariant below the top order and in which no two buddies are both free, let
`rmqueue(zone, k)` succeed and let `__free_pages` be called at once on the
returned frame with order `k` (the frame not being reserved).  Then the release
succeeds and `free_pages`, every free list (same frames, same order) and every
bitmap of an order other than `MAX_ORDER - 1` are what they were before the
allocation; and when the block was taken from a list of an order below
`MAX_ORDER - 1`, the zone state is restored exactly. -/
theorem alloc_free_restores (cfg : config) (s : machine) (zid k : Nat) (hk : k < MAX_ORDER)
    (hwf : zone_wf s zid) (hpb : pair_bits_ok (s.node_zones zid) (MAX_ORDER - 1))
    (hco : coalesced (s.node_zones zid)) (s1 : machine) (page : Nat)
    (h1 : rmqueue s zid k = some (s1, some page))
    (hres : (s.mem_map page).reserved = false) :
    ∃ s2, __free_pages cfg s1 page k = some s2 ∧
      (s2.node_zones zid).free_pages = (s.node_zones zid).free_pages ∧
      (∀ j, ((s2.node_zones zid).free_area j).free_list =
        ((s.node_zones zid).free_area j).free_list) ∧
      (∀ j, j ≠ MAX_ORDER - 1 →
        ((s2.node_zones zid).free_area j).map = ((s.node_zones zid).free_area j).map) ∧
      ((∃ j, k ≤ j ∧ j < MAX_ORDER - 1 ∧ ((s.node_zones zid).free_area j).free_list ≠ []) →
        s2.node_zones zid = s.node_zones zid) := by
  have hU : ULONG = 4294967296 := rfl
  obtain ⟨c, p, rest, hkc, hc, hnil, hl, hs1, hpage⟩ := rmqueue_some s zid k s1 page hk h1
  have hmem : p ∈ ((s.node_zones zid).free_area c).free_list := by rw [hl]; simp
  obtain ⟨hb1, hb2, hb3⟩ := hwf.blocks c hc p hmem
  have hv := hwf.valid
  obtain ⟨hw1, hw2⟩ := hwf.word
  have hpc := Nat.two_pow_pos c
  have hpk := Nat.two_pow_pos k
  have hpkc : 2 ^ k ≤ 2 ^ c := Nat.pow_le_pow_right (by norm_num) hkc
  have hzone : ∀ x, p ≤ x → x < p + 2 ^ c → (s.mem_map x).zone = zid := by
    intro x h1 h2
    have := hwf.backptr (x - (s.node_zones zid).offset) (by omega)
    rwa [Nat.add_sub_cancel' (by omega)] at this
  have hclean : page_clean (s.mem_map page) = true := by
    have := hwf.clean c hc p hmem (2 ^ c - 2 ^ k) (by omega)
    rwa [← Nat.add_sub_assoc hpkc, ← hpage] at this
  have hpz : (s.mem_map page).zone = zid := hzone page (by omega) (by omega)
  -- the state on which `__free_pages_ok` runs
  obtain ⟨s1', hs1'⟩ : ∃ s1' : machine, s1' =
      { s1 with
        mem_map := Function.update s1.mem_map page
          { s1.mem_map page with count := (s1.mem_map page).count - 1 } } := ⟨_, rfl⟩
  have hm1 : s1.mem_map page = { s.mem_map page with count := 1 } := by
    rw [hs1, hpage]; simp [rmqueue_state]
  have hfree : __free_pages cfg s1 page k = __free_pages_ok cfg s1' page k := by
    have hr : (s1.mem_map page).reserved = false := by rw [hm1]; exact hres
    have hcnt : (s1.mem_map page).count - 1 = 0 := by rw [hm1]; rfl
    simp [__free_pages, hr, hcnt, hs1']
  have hm1' : ∀ x, (s1'.mem_map x).zone = (s.mem_map x).zone := by
    intro x
    rw [hs1', hs1]
    by_cases hx : x = page
    · subst hx; simp [rmqueue_state, ← hpage]
    · simp [rmqueue_state, Function.update_noteq hx, ← hpage]
  have hpg' : page_clean (s1'.mem_map page) = true := by
    rw [hs1', hs1]
    simpa [rmqueue_state, ← hpage, page_clean] using hclean
  have hz1' : s1'.node_zones zid = rmqueue_zone (s.node_zones zid) k c p rest := by
    rw [hs1', hs1]; simp [rmqueue_state]
  have hmax : s1'.max_mapnr = s.max_mapnr := by rw [hs1', hs1]; rfl
  have hidx : page - (s.node_zones zid).offset = p - (s.node_zones zid).offset + 2 ^ c - 2 ^ k := by
    omega
  have hrestore := free_loop_restore s1'.mem_map zid (s.node_zones zid) k c p rest
    (((rmqueue_zone (s.node_zones zid) k c p rest).free_pages + ULONG - (ULONG - 2 ^ k)) % ULONG)
    hkc hc hl hnil hb1 hb3 hb2 (by omega)
    (fun x h1 h2 => BAD_RANGE_false _ _ _ _ (by rw [hm1']; exact hzone x h1 h2)
      (by omega) (by omega))
    hpb hco
  have hfp : ((rmqueue_zone (s.node_zones zid) k c p rest).free_pages + ULONG
      - (ULONG - 2 ^ k)) % ULONG = (s.node_zones zid).free_pages := by
    rw [rmqueue_zone_free_pages, one_shl_mod k hk]
    have hlt := two_pow_lt_ULONG k hk
    have e1 : ∀ y, y + ULONG - (ULONG - 2 ^ k) = y + 2 ^ k := by intro y; omega
    rw [e1, Nat.mod_add_mod]
    have e2 : (s.node_zones zid).free_pages + ULONG - 2 ^ k + 2 ^ k =
        (s.node_zones zid).free_pages + ULONG := by omega
    rw [e2, Nat.add_mod_right, Nat.mod_eq_of_lt hw2]
  rw [hfp] at hrestore
  have hok := free_pages_ok_eq cfg s1' page k _ hk hpg' (by rw [hmax]; omega)
    (by
      rw [hm1', hpz, hz1']
      show (page - (s.node_zones zid).offset) % 2 ^ k = 0
      rw [hidx]
      exact mod_of_dvd_top _ _ _ hkc hb3)
    (by
      rw [hm1', hpz, hz1']
      show free_loop s1'.mem_map zid (MAX_ORDER - k) _ (ULONG - 2 ^ k) k
        ((page - (s.node_zones zid).offset) >>> (1 + k)) (page - (s.node_zones zid).offset) = _
      rw [hidx]
      rw [hfp]
      exact hrestore)
  rw [hfree, hok]
  refine ⟨_, rfl, ?_⟩
  rw [hm1', hpz]
  simp only [Function.update_same]
  by_cases hc9 : c = MAX_ORDER - 1
  · rw [if_pos hc9]
    refine ⟨rfl, fun j => ?_, fun j hj => ?_, fun ⟨j, hj1, hj2, hj3⟩ => ?_⟩
    · show ((set_area _ _ _).free_area j).free_list = _
      rw [set_area_free_area]
      split_ifs with h
      · rw [h]; rfl
      · rfl
    · show ((set_area _ _ _).free_area j).map = _
      rw [set_area_other _ _ _ _ (by omega)]
    · exact absurd (hnil j hj1 (by omega)) hj3
  · rw [if_neg hc9]
    have e : ({ s.node_zones zid with free_pages := (s.node_zones zid).free_pages } : zone_t) =
        s.node_zones zid := rfl
    rw [e]
    exact ⟨rfl, fun _ => rfl, fun _ _ => rfl, fun _ => rfl⟩

theorem zone_top_wf : zone_wf machine_top 0 where
  blocks := by decide
  nodup := by decide
  backptr := by intro i _; rfl
  clean := by intro k _ p _ i _; rfl
  valid := by decide
  word := by decide

/-- Witness for C2: in `machine_ex` a request of order 1 is served from the order-3
block (pages 0..7), the frame returned is page 6, and releasing it at once gives
the zone back exactly. -/
theorem alloc_free_restores_witness :
    ∃ s2, __free_pages config_ex (rmqueue_state machine_ex 0 1 3 0 []) (0 + 2 ^ 3 - 2 ^ 1) 1
        = some s2 ∧
      s2.node_zones 0 = machine_ex.node_zones 0 :=
  let ⟨s2, h1, _, _, _, h5⟩ :=
    alloc_free_restores config_ex machine_ex 0 1 (by decide) zone_ex_wf (by decide) (by decide)
      (rmqueue_state machine_ex 0 1 3 0 []) (0 + 2 ^ 3 - 2 ^ 1)
      (rmqueue_found machine_ex 0 1 3 0 [] zone_ex_wf (by decide) (by decide)
        (by intro k h1 h2; interval_cases k <;> rfl) rfl)
      rfl
  ⟨s2, h1, h5 ⟨3, by decide, by decide, by decide⟩⟩

/-- Counterexample to C2 as stated (every per-order bitmap is restored): the zone
`zone_top` holds one free block of order `MAX_ORDER - 1` and satisfies the
free-list invariant, the pair-bit invariant at every order and has no two free
buddies; `rmqueue` of order 9 followed at once by `__free_pages` of the returned
frame leaves the bitmap of order 9 different from what it was (`rmqueue` toggles
the block's bit, the release never touches the bitmap of the top order). -/
theorem alloc_free_top_order_counterexample :
    zone_wf machine_top 0 ∧ pair_bits_ok (machine_top.node_zones 0) MAX_ORDER ∧
    coalesced (machine_top.node_zones 0) ∧
    ∃ s1 page s2, rmqueue machine_top 0 9 = some (s1, some page) ∧
      (machine_top.mem_map page).reserved = false ∧
      __free_pages config_ex s1 page 9 = some s2 ∧
      ((s2.node_zones 0).free_area 9).map ≠ ((machine_top.node_zones 0).free_area 9).map := by
  refine ⟨zone_top_wf, ?_, ?_, ?_⟩
  · intro k hk i h1 h2
    by_cases h9 : k = 9
    · subst h9
      have hi : i = 0 := by
        have : machine_top.node_zones 0 = zone_top := rfl
        rw [this] at h2
        simp only [zone_top] at h2
        omega
      subst hi
      decide
    · simp [machine_top, zone_top, test_bit, h9]
  · intro k hk i _ h
    have h9 : k ≠ 9 := by unfold MAX_ORDER at hk; omega
    simp [machine_top, zone_top, h9] at h
  · have hr := rmqueue_found machine_top 0 9 9 0 [] zone_top_wf (by decide) (by decide)
      (by intro k h1 h2; omega) rfl
    have h : (__free_pages config_ex (rmqueue_state machine_top 0 9 9 0 []) (0 + 2 ^ 9 - 2 ^ 9)
        9).map (fun s2 => ((s2.node_zones 0).free_area 9).map) = some 0 := by decide
    cases hs : __free_pages config_ex (rmqueue_state machine_top 0 9 9 0 []) (0 + 2 ^ 9 - 2 ^ 9)
        9 with
    | none => rw [hs] at h; cases h
    | some s2 =>
      rw [hs] at h
      simp only [Option.map_some', Option.some.injEq] at h
      refine ⟨_, _, s2, hr, rfl, hs, ?_⟩
      rw [h]
      decide

/-! ## Theorems: zone lists -/

theorem build_zonelist_eq (cfg : config) (node_zones : Nat → zone_t) (i : Nat)
    (hcfg : cfg.CONFIG_HIGHMEM = true ∨ (node_zones ZONE_HIGHMEM).size = 0) :
    build_zonelist cfg node_zones i =
      some { zones := zonelist_from node_zones (goal_zone cfg i), gfp_mask := i } := by
  unfold build_zonelist goal_zone zonelist_from fallback_order zonelist_put
  simp only [ZONE_HIGHMEM, ZONE_NORMAL, ZONE_DMA, MAX_NR_ZONES] at hcfg ⊢
  by_cases hd : i &&& cfg.GFP_DMA ≠ 0 <;> by_cases hh : i &&& cfg.GFP_HIGHMEM ≠ 0 <;>
    by_cases s0 : (node_zones 0).size ≠ 0 <;> by_cases s1 : (node_zones 1).size ≠ 0 <;>
    by_cases s2 : (node_zones 2).size ≠ 0 <;>
    rcases hcfg with hc | hc <;>
    simp [hd, hh, s0, s1, s2, hc, List.replicate, List.filter] <;>
    simp_all

theorem build_zonelists_loop_eq (cfg : config) (node_zones : Nat → zone_t)
    (hcfg : cfg.CONFIG_HIGHMEM = true ∨ (node_zones ZONE_HIGHMEM).size = 0) :
    ∀ (n i : Nat) (zl : Nat → zonelist_t),
      build_zonelists_loop cfg node_zones n i zl =
        some (fun j => if i ≤ j ∧ j < i + n then
            { zones := zonelist_from node_zones (goal_zone cfg j), gfp_mask := j }
          else zl j) := by
  intro n
  induction n with
  | zero =>
    intro i zl
    simp only [build_zonelists_loop, Option.some.injEq]
    funext j
    rw [if_neg (by omega)]
  | succ n ih =>
    intro i zl
    simp only [build_zonelists_loop, build_zonelist_eq cfg node_zones i hcfg]
    rw [ih]
    simp only [Option.some.injEq]
    funext j
    by_cases hj : j = i
    · subst hj
      rw [if_neg (by omega), if_pos (by omega), Function.update_same]
    · rw [Function.update_noteq hj]
      by_cases h : i + 1 ≤ j ∧ j < i + 1 + n
      · rw [if_pos h, if_pos (by omega)]
      · rw [if_neg h, if_neg (by omega)]

theorem build_zonelists_eq (cfg : config) (node_zones : Nat → zone_t)
    (node_zonelists : Nat → zonelist_t)
    (hcfg : cfg.CONFIG_HIGHMEM = true ∨ (node_zones ZONE_HIGHMEM).size = 0) :
    build_zonelists cfg node_zones node_zonelists =
      some (fun j => if 0 ≤ j ∧ j < 0 + NR_GFPINDEX then
          { zones := zonelist_from node_zones (goal_zone cfg j), gfp_mask := j }
        else node_zonelists j) :=
  build_zonelists_loop_eq cfg node_zones hcfg NR_GFPINDEX 0 node_zonelists

/-- C6 (as amended). `build_zonelists` (which traps only when a HighMem zone of
non-zero size exists without CONFIG_HIGHMEM): for every flag index `i` in
`[0, 256)`, zonelist `i` has `gfp_mask = i` and consists, NULL-terminated, of the
zones of non-zero size taken in the order HighMem, Normal, DMA starting from the
goal zone, where the goal is DMA when `__GFP_DMA` is set in `i`, otherwise
HighMem when `__GFP_HIGHMEM` is set in `i`, and Normal otherwise. -/
theorem build_zonelists_spec (cfg : config) (node_zones : Nat → zone_t)
    (node_zonelists : Nat → zonelist_t)
    (hcfg : cfg.CONFIG_HIGHMEM = true ∨ (node_zones ZONE_HIGHMEM).size = 0) :
    ∃ zl, build_zonelists cfg node_zones node_zonelists = some zl ∧
      ∀ i, i < NR_GFPINDEX →
        (zl i).gfp_mask = i ∧
        (zl i).zones = zonelist_from node_zones (goal_zone cfg i) := by
  refine ⟨_, build_zonelists_eq cfg node_zones node_zonelists hcfg, fun i hi => ?_⟩
  have h : 0 ≤ i ∧ i < 0 + NR_GFPINDEX := by omega
  rw [if_pos h]
  exact ⟨rfl, rfl⟩

/-- Witness for C6: with the three zones of `machine_ex` (all of non-zero size)
and both `__GFP_DMA` and `__GFP_HIGHMEM` set (`i = 0x18`), the zone list holds the
DMA zone only. -/
theorem build_zonelists_spec_witness :
    ∃ zl, build_zonelists config_ex machine_ex.node_zones (fun _ => ⟨[], 0⟩) = some zl ∧
      (zl 0x18).zones = [some ZONE_DMA, none, none, none] :=
  let ⟨zl, h1, h2⟩ := build_zonelists_spec config_ex machine_ex.node_zones (fun _ => ⟨[], 0⟩)
    (Or.inl rfl)
  ⟨zl, h1, (h2 0x18 (by decide)).2.trans (by decide)⟩

/-- Counterexample to C6 as stated (goal HighMem whenever `__GFP_HIGHMEM` is set):
for `i = 0x18`, where `__GFP_DMA` and `__GFP_HIGHMEM` are both set, and three
zones of non-zero size, the zone list built is the DMA zone alone and not the
list HighMem, Normal, DMA that starts from HighMem. -/
theorem build_zonelists_goal_counterexample :
    ∃ zl, build_zonelists config_ex machine_ex.node_zones (fun _ => ⟨[], 0⟩) = some zl ∧
      0x18 < NR_GFPINDEX ∧
      zonelist_from machine_ex.node_zones (spec_goal_zone config_ex 0x18) =
        [some ZONE_HIGHMEM, some ZONE_NORMAL, some ZONE_DMA, none] ∧
      (zl 0x18).zones = [some ZONE_DMA, none, none, none] ∧
      (zl 0x18).zones ≠ zonelist_from machine_ex.node_zones (spec_goal_zone config_ex 0x18) := by
  refine ⟨_, build_zonelists_eq config_ex machine_ex.node_zones _ (Or.inl rfl), by decide,
    by decide, ?_, ?_⟩
  · simp only [if_pos (show 0 ≤ 0x18 ∧ 0x18 < 0 + NR_GFPINDEX by decide)]
    decide
  · simp only [if_pos (show 0 ≤ 0x18 ∧ 0x18 < 0 + NR_GFPINDEX by decide)]
    decide

/-! ## Theorems: zone watermarks -/

/-- C7. `free_area_init_core`, for a zone of non-zero size (with holes no larger
than the zone and a non-zero balance ratio): `pages_min` is
`(size - holes) / ratio` in integer division clamped into
`[zone_balance_min, zone_balance_max] = [10, 255]`, `pages_low = 2 * pages_min`
and `pages_high = 3 * pages_min`; hence `pages_min ≤ pages_low ≤ pages_high` and
`10 ≤ pages_min ≤ 255`.  The default ratios are 32, 128, 128. -/
theorem free_area_init_watermarks (ratio : Nat → Int) (j : Nat) (zone : zone_t)
    (size holes offset : Nat) (hj : j < MAX_NR_ZONES) (hs : size ≠ 0) (hsz : size < ULONG)
    (hh : holes ≤ size) (hr : (ratio j % (ULONG : Int)).toNat ≠ 0) :
    ∃ z', free_area_init_zone ratio j zone size (some holes) offset = some z' ∧
      free_area_init_zone ratio j zone size none offset =
        free_area_init_zone ratio j zone size (some 0) offset ∧
      z'.pages_min =
        max (zone_balance_min j)
          (min ((size - holes) / (ratio j % (ULONG : Int)).toNat) (zone_balance_max j)) ∧
      z'.pages_low = 2 * z'.pages_min ∧ z'.pages_high = 3 * z'.pages_min ∧
      z'.pages_min ≤ z'.pages_low ∧ z'.pages_low ≤ z'.pages_high ∧
      10 ≤ z'.pages_min ∧ z'.pages_min ≤ 255 ∧
      zone_balance_min j = 10 ∧ zone_balance_max j = 255 ∧
      (zone_balance_ratio 0 = 32 ∧ zone_balance_ratio 1 = 128 ∧ zone_balance_ratio 2 = 128) := by
  have hU : ULONG = 4294967296 := rfl
  have hmin : zone_balance_min j = 10 := by
    unfold MAX_NR_ZONES at hj
    interval_cases j <;> rfl
  have hmax : zone_balance_max j = 255 := by
    unfold MAX_NR_ZONES at hj
    interval_cases j <;> rfl
  have hreal : (size + ULONG - holes % ULONG) % ULONG = size - holes := by
    have h1 : holes % ULONG = holes := Nat.mod_eq_of_lt (by omega)
    have h2 : size + ULONG - holes = (size - holes) + ULONG := by omega
    rw [h1, h2, Nat.add_mod_right]
    exact Nat.mod_eq_of_lt (by omega)
  have hnone : free_area_init_zone ratio j zone size none offset =
      free_area_init_zone ratio j zone size (some 0) offset := by
    have h0 : (size + ULONG - 0 % ULONG) % ULONG = size := by
      rw [Nat.zero_mod, Nat.sub_zero, Nat.add_mod_right]
      exact Nat.mod_eq_of_lt hsz
    simp only [free_area_init_zone, h0]
  simp only [free_area_init_zone, hs, hr, if_false, hreal, hmin, hmax]
  refine ⟨_, rfl, ?_, ?_⟩
  · simpa only [free_area_init_zone, hs, hr, if_false, hreal, hmin, hmax] using hnone
  · generalize (size - holes) / (ratio j % (ULONG : Int)).toNat = q
    have hmask : (if q < 10 then 10 else if q > 255 then 255 else q) = max 10 (min q 255) := by
      split_ifs <;> omega
    simp only [hmask]
    have hb : max 10 (min q 255) ≤ 255 := by omega
    have hb2 : 10 ≤ max 10 (min q 255) := by omega
    generalize max 10 (min q 255) = mk at hb hb2 ⊢
    have e2 : mk * 2 % ULONG = 2 * mk := by
      rw [Nat.mod_eq_of_lt (by omega)]; omega
    have e3 : mk * 3 % ULONG = 3 * mk := by
      rw [Nat.mod_eq_of_lt (by omega)]; omega
    simp only [e2, e3]
    refine ⟨trivial, trivial, trivial, by omega, by omega, hb2, hb, trivial, trivial, ?_⟩
    decide

/-- Witness for C7: a DMA zone (`j = 0`, default ratio 32) of 4096 pages without
holes gets `pages_min = 128`. -/
theorem free_area_init_watermarks_witness :
    ∃ z', free_area_init_zone zone_balance_ratio 0 zone_ex 4096 (some 0) 0 = some z' ∧
      z'.pages_min = 128 :=
  let ⟨z', h1, _, h3, _⟩ := free_area_init_watermarks zone_balance_ratio 0 zone_ex 4096 0 0
    (by decide) (by decide) (by decide) (by decide) (by decide)
  ⟨z', h1, h3.trans (by decide)⟩

/-! ## Theorems: the first pass of `__alloc_pages` -/

theorem rmqueue_take_wakeups (s : machine) (w zid order c p : Nat) (rest : List Nat) :
    rmqueue_take { s with kreclaimd_wakeups := w } zid order c p rest =
      (rmqueue_take s zid order c p rest).map
        (fun x => ({ x.1 with kreclaimd_wakeups := w }, x.2)) := by
  unfold rmqueue_take
  dsimp only
  split
  · rfl
  · split
    · rfl
    · split
      · rfl
      · split
        · rfl
        · rfl

theorem rmqueue_loop_wakeups (s : machine) (w zid order : Nat) :
    ∀ (n curr : Nat),
      rmqueue_loop { s with kreclaimd_wakeups := w } zid order n curr =
        (rmqueue_loop s zid order n curr).map
          (fun x => ({ x.1 with kreclaimd_wakeups := w }, x.2)) := by
  intro n
  induction n with
  | zero =>
    intro curr
    cases hl : ((s.node_zones zid).free_area curr).free_list with
    | nil =>
      rw [rmqueue_loop_nil_zero s zid order curr hl,
        rmqueue_loop_nil_zero _ zid order curr (by exact hl)]
      rfl
    | cons p rest =>
      rw [rmqueue_loop_cons_eq s zid order 0 curr p rest hl,
        rmqueue_loop_cons_eq _ zid order 0 curr p rest (by exact hl)]
      exact rmqueue_take_wakeups s w zid order curr p rest
  | succ n ih =>
    intro curr
    cases hl : ((s.node_zones zid).free_area curr).free_list with
    | nil =>
      rw [rmqueue_loop_nil_succ s zid order n curr hl,
        rmqueue_loop_nil_succ _ zid order n curr (by exact hl)]
      exact ih (curr + 1)
    | cons p rest =>
      rw [rmqueue_loop_cons_eq s zid order (n + 1) curr p rest hl,
        rmqueue_loop_cons_eq _ zid order (n + 1) curr p rest (by exact hl)]
      exact rmqueue_take_wakeups s w zid order curr p rest

theorem rmqueue_wakeups (s : machine) (w zid order : Nat) :
    rmqueue { s with kreclaimd_wakeups := w } zid order =
      (rmqueue s zid order).map (fun x => ({ x.1 with kreclaimd_wakeups := w }, x.2)) :=
  rmqueue_loop_wakeups s w zid order _ order

theorem rmqueue_null_state (s : machine) (zid order : Nat) (s' : machine)
    (h : rmqueue s zid order = some (s', none)) : s' = s :=
  (rmqueue_loop_null s zid order _ order s' h).1

theorem first_pass_inv (order : Nat) (s : machine) :
    ∀ (zones : List (Option Nat)) (w : Nat) (s' : machine) (r : Option Nat)
      (log : List pass_event),
      alloc_pages_first_pass order zones { s with kreclaimd_wakeups := w } = some (s', r, log) →
      (log.map (fun e => some e.zone)) <+: zones ∧
      (∀ e ∈ log, (e = pass_event.tried e.zone ↔
        (s.node_zones e.zone).free_pages ≥ (s.node_zones e.zone).pages_low)) ∧
      (∀ e ∈ log, (e = pass_event.woke e.zone ↔
        (s.node_zones e.zone).free_pages < (s.node_zones e.zone).pages_low ∧
        (s.node_zones e.zone).free_pages < (s.node_zones e.zone).pages_min ∧
        s.kreclaimd_waiting = true)) ∧
      (∀ page, r = some page → ∃ pre z s1, log = pre ++ [pass_event.tried z] ∧
        rmqueue s z order = some (s1, some page) ∧
        s' = { s1 with kreclaimd_wakeups := w + wake_count log } ∧
        ∀ e ∈ pre, e = pass_event.tried e.zone → rmqueue s e.zone order = some (s, none)) ∧
      (r = none → s' = { s with kreclaimd_wakeups := w + wake_count log }) := by
  intro zones
  induction zones with
  | nil =>
    intro w s' r log h
    simp only [alloc_pages_first_pass, Option.some.injEq, Prod.mk.injEq] at h
    obtain ⟨h1, h2, h3⟩ := h
    subst h1 h2 h3
    simp [wake_count]
  | cons z0 rest ih =>
    intro w s' r log h
    cases z0 with
    | none =>
      simp only [alloc_pages_first_pass, Option.some.injEq, Prod.mk.injEq] at h
      obtain ⟨h1, h2, h3⟩ := h
      subst h1 h2 h3
      simp [wake_count]
    | some z =>
      rw [alloc_pages_first_pass] at h
      dsimp only at h
      split at h
      · cases h
      · split at h
        · rename_i hlow
          rw [rmqueue_wakeups] at h
          cases hq : rmqueue s z order with
          | none => rw [hq] at h; cases h
          | some x =>
            obtain ⟨s1, r1⟩ := x
            rw [hq] at h
            cases r1 with
            | some page =>
              simp only [Option.map_some', Option.some.injEq, Prod.mk.injEq] at h
              obtain ⟨h1, h2, h3⟩ := h
              subst h1 h2 h3
              refine ⟨?_, ?_, ?_, ?_, ?_⟩
              · simp [pass_event.zone]
              · intro e he
                simp only [List.mem_singleton] at he
                subst he
                simpa [pass_event.zone] using hlow
              · intro e he
                simp only [List.mem_singleton] at he
                subst he
                exact ⟨fun hw => (by cases hw), fun hw => absurd hlow (by
                  have := hw.1
                  simp only [pass_event.zone] at this
                  omega)⟩
              · intro page' hp
                simp only [Option.some.injEq] at hp
                subst hp
                exact ⟨[], z, s1, rfl, hq, by simp [wake_count], by simp⟩
              · intro hn; cases hn
            | none =>
              have hs1 := rmqueue_null_state s z order s1 hq
              subst hs1
              simp only [Option.map_some'] at h
              cases hrec : alloc_pages_first_pass order rest
                  { s1 with kreclaimd_wakeups := w } with
              | none => rw [hrec] at h; cases h
              | some y =>
                obtain ⟨s2, r2, log2⟩ := y
                rw [hrec] at h
                simp only [Option.some.injEq, Prod.mk.injEq] at h
                obtain ⟨h1, h2, h3⟩ := h
                subst h1 h2 h3
                obtain ⟨i1, i2, i3, i4, i5⟩ := ih w s2 r2 log2 hrec
                refine ⟨?_, ?_, ?_, ?_, ?_⟩
                · simpa [pass_event.zone] using i1
                · intro e he
                  rcases List.mem_cons.mp he with he | he
                  · subst he
                    simpa [pass_event.zone] using hlow
                  · exact i2 e he
                · intro e he
                  rcases List.mem_cons.mp he with he | he
                  · subst he
                    exact ⟨fun hw => (by cases hw), fun hw => absurd hlow (by
                      have := hw.1
                      simp only [pass_event.zone] at this
                      omega)⟩
                  · exact i3 e he
                · intro page hp
                  obtain ⟨pre, z', s1', j1, j2, j3, j4⟩ := i4 page hp
                  refine ⟨pass_event.tried z :: pre, z', s1', by rw [j1]; rfl, j2,
                    by rw [j3]; simp [wake_count], ?_⟩
                  intro e he ht
                  rcases List.mem_cons.mp he with he | he
                  · subst he; exact hq
                  · exact j4 e he ht
                · intro hn
                  rw [i5 hn]
                  simp [wake_count]
        · rename_i hlow
          split at h
          · rename_i hwake
            cases hrec : alloc_pages_first_pass order rest
                { s with kreclaimd_wakeups := w + 1 } with
            | none =>
              rw [show ({ ({ s with kreclaimd_wakeups := w } : machine) with
                  kreclaimd_wakeups := ({ s with kreclaimd_wakeups := w } : machine).kreclaimd_wakeups
                    + 1 } : machine) = { s with kreclaimd_wakeups := w + 1 } from rfl, hrec] at h
              cases h
            | some y =>
              obtain ⟨s2, r2, log2⟩ := y
              rw [show ({ ({ s with kreclaimd_wakeups := w } : machine) with
                  kreclaimd_wakeups := ({ s with kreclaimd_wakeups := w } : machine).kreclaimd_wakeups
                    + 1 } : machine) = { s with kreclaimd_wakeups := w + 1 } from rfl, hrec] at h
              simp only [Option.some.injEq, Prod.mk.injEq] at h
              obtain ⟨h1, h2, h3⟩ := h
              subst h1 h2 h3
              obtain ⟨i1, i2, i3, i4, i5⟩ := ih (w + 1) s2 r2 log2 hrec
              refine ⟨?_, ?_, ?_, ?_, ?_⟩
              · simpa [pass_event.zone] using i1
              · intro e he
                rcases List.mem_cons.mp he with he | he
                · subst he
                  simpa [pass_event.zone] using hlow
                · exact i2 e he
              · intro e he
                rcases List.mem_cons.mp he with he | he
                · subst he
                  exact ⟨fun _ => ⟨by
                    simp only [pass_event.zone]
                    simp only [ge_iff_le, not_le] at hlow
                    exact hlow, hwake.1, hwake.2⟩, fun _ => rfl⟩
                · exact i3 e he
              · intro page hp
                obtain ⟨pre, z', s1', j1, j2, j3, j4⟩ := i4 page hp
                refine ⟨pass_event.woke z :: pre, z', s1', by rw [j1]; rfl, j2,
                  by rw [j3]; simp [wake_count]; omega, ?_⟩
                intro e he ht
                rcases List.mem_cons.mp he with he | he
                · subst he; cases ht
                · exact j4 e he ht
              · intro hn
                rw [i5 hn]
                simp [wake_count]; omega
          · rename_i hwake
            cases hrec : alloc_pages_first_pass order rest { s with kreclaimd_wakeups := w } with
            | none => rw [hrec] at h; cases h
            | some y =>
              obtain ⟨s2, r2, log2⟩ := y
              rw [hrec] at h
              simp only [Option.some.injEq, Prod.mk.injEq] at h
              obtain ⟨h1, h2, h3⟩ := h
              subst h1 h2 h3
              obtain ⟨i1, i2, i3, i4, i5⟩ := ih w s2 r2 log2 hrec
              refine ⟨?_, ?_, ?_, ?_, ?_⟩
              · simpa [pass_event.zone] using i1
              · intro e he
                rcases List.mem_cons.mp he with he | he
                · subst he
                  simpa [pass_event.zone] using hlow
                · exact i2 e he
              · intro e he
                rcases List.mem_cons.mp he with he | he
                · subst he
                  exact ⟨fun hw => (by cases hw), fun hw => absurd ⟨hw.2.1, hw.2.2⟩ hwake⟩
                · exact i3 e he
              · intro page hp
                obtain ⟨pre, z', s1', j1, j2, j3, j4⟩ := i4 page hp
                refine ⟨pass_event.passed z :: pre, z', s1', by rw [j1]; rfl, j2,
                  by rw [j3]; simp [wake_count], ?_⟩
                intro e he ht
                rcases List.mem_cons.mp he with he | he
                · subst he; cases ht
                · exact j4 e he ht
              · intro hn
                rw [i5 hn]
                simp [wake_count]

theorem rmqueue_total (s : machine) (zid order : Nat) (ho : order < MAX_ORDER)
    (hwf : zone_wf s zid) : ∃ x, rmqueue s zid order = some x := by
  by_cases h : ∀ k, order ≤ k → k < MAX_ORDER →
      ((s.node_zones zid).free_area k).free_list = []
  · exact ⟨_, rmqueue_loop_all_nil s zid order _ order (fun k h1 h2 => h k h1 (by omega))⟩
  · have hex : ∃ k, order ≤ k ∧ k < MAX_ORDER ∧
        ((s.node_zones zid).free_area k).free_list ≠ [] := by
      by_contra hc
      apply h
      intro k h1 h2
      by_contra h3
      exact hc ⟨k, h1, h2, h3⟩
    classical
    obtain ⟨h1, h2, h3⟩ := Nat.find_spec hex
    cases hl : ((s.node_zones zid).free_area (Nat.find hex)).free_list with
    | nil => exact absurd hl h3
    | cons p rest =>
      refine ⟨_, rmqueue_found s zid order (Nat.find hex) p rest hwf h1 h2 ?_ hl⟩
      intro k hk1 hk2
      by_contra hk3
      exact Nat.find_min hex hk2 ⟨hk1, by omega, hk3⟩

theorem first_pass_total (order : Nat) (s : machine) (ho : order < MAX_ORDER) :
    ∀ (zones : List (Option Nat)) (w : Nat),
      (∀ z, some z ∈ zones → zone_wf s z ∧ (s.node_zones z).size ≠ 0) →
      ∃ x, alloc_pages_first_pass order zones { s with kreclaimd_wakeups := w } = some x := by
  intro zones
  induction zones with
  | nil => intro w _; exact ⟨_, rfl⟩
  | cons z0 rest ih =>
    intro w hz
    cases z0 with
    | none => exact ⟨_, rfl⟩
    | some z =>
      obtain ⟨hwf, hsize⟩ := hz z (List.mem_cons_self _ _)
      have hrest : ∀ z, some z ∈ rest → zone_wf s z ∧ (s.node_zones z).size ≠ 0 :=
        fun z' h' => hz z' (List.mem_cons_of_mem _ h')
      rw [alloc_pages_first_pass]
      dsimp only
      rw [if_neg hsize]
      split
      · rw [rmqueue_wakeups]
        obtain ⟨x, hx⟩ := rmqueue_total s z order ho hwf
        obtain ⟨s1, r1⟩ := x
        rw [hx]
        cases r1 with
        | some page => exact ⟨_, rfl⟩
        | none =>
          have hs1 := rmqueue_null_state s z order s1 hx
          subst hs1
          obtain ⟨y, hy⟩ := ih w hrest
          simp only [Option.map_some']
          rw [hy]
          exact ⟨_, rfl⟩
      · split
        · obtain ⟨y, hy⟩ := ih (w + 1) hrest
          rw [show ({ ({ s with kreclaimd_wakeups := w } : machine) with
              kreclaimd_wakeups := ({ s with kreclaimd_wakeups := w } : machine).kreclaimd_wakeups
                + 1 } : machine) = { s with kreclaimd_wakeups := w + 1 } from rfl, hy]
          exact ⟨_, rfl⟩
        · obtain ⟨y, hy⟩ := ih w hrest
          rw [hy]
          exact ⟨_, rfl⟩

/-! ## Theorems: the sanity checks of `kmem_cache_create` -/

theorem or_tail {A B C D E F G : Prop} :
    ((A ∨ B ∨ C ∨ D ∨ E ∨ F) ∨ G) ↔ (A ∨ B ∨ C ∨ D ∨ E ∨ F ∨ G) := by
  tauto

theorem or_listed {N A B C D E F G A0 D0 : Prop} (hA : A0 → A) (hD : D0 → D)
    (h : A0 ∨ B ∨ C ∨ D0 ∨ E) : N ∨ A ∨ B ∨ C ∨ D ∨ E ∨ F ∨ G := by
  tauto

/-- C9 (amended): `kmem_cache_create` traps in its sanity checks exactly when
the name pointer is NULL, or `strlen(name) ≥ CACHE_NAMELEN - 1`, or the caller
is in interrupt context, or `size < BYTES_PER_WORD`, or
`size > (1<<MAX_OBJ_ORDER)*PAGE_SIZE`, or a destructor comes without a
constructor, or `offset > size`, or a flag outside `CREATE_MASK` is set; so
every fault the specification lists is trapped, and a request that passes
keeps its flags.  An empty string is a legal name, and `CACHE_NAMELEN - 1` is
19: the longest name accepted has 18 characters. -/
theorem kmem_cache_create_sanity (cfg : slab_config) (name : Option String)
    (size offset flags : Nat) (ctor dtor : Bool) ( in_interrupt : Bool) :
    (kmem_cache_create_checks cfg name size offset flags ctor dtor in_interrupt = none ↔
      (name = none ∨
        (∃ nm, name = some nm ∧ nm.length ≥ CACHE_NAMELEN - 1) ∨
        in_interrupt = true ∨
        size < BYTES_PER_WORD ∨
        size > ((1 <<< MAX_OBJ_ORDER) * cfg.PAGE_SIZE) % ULONG ∨
        (dtor = true ∧ ctor = false) ∨
        offset > size ∨
        flags &&& ((ULONG - 1) ^^^ (CREATE_MASK cfg % ULONG)) ≠ 0)) ∧
    (spec_create_fault cfg name size ctor dtor in_interrupt →
      kmem_cache_create_checks cfg name size offset flags ctor dtor in_interrupt = none) ∧
    (kmem_cache_create_checks cfg name size offset flags ctor dtor in_interrupt = none ∨
      kmem_cache_create_checks cfg name size offset flags ctor dtor in_interrupt = some flags) ∧
    (kmem_cache_create_checks cfg (some "") size offset flags ctor dtor in_interrupt =
      kmem_cache_create_checks cfg (some "a") size offset flags ctor dtor in_interrupt) ∧
    CACHE_NAMELEN - 1 = 19 := by
  have hiff : kmem_cache_create_checks cfg name size offset flags ctor dtor in_interrupt = none ↔
      (name = none ∨
        (∃ nm, name = some nm ∧ nm.length ≥ CACHE_NAMELEN - 1) ∨
        in_interrupt = true ∨
        size < BYTES_PER_WORD ∨
        size > ((1 <<< MAX_OBJ_ORDER) * cfg.PAGE_SIZE) % ULONG ∨
        (dtor = true ∧ ctor = false) ∨
        offset > size ∨
        flags &&& ((ULONG - 1) ^^^ (CREATE_MASK cfg % ULONG)) ≠ 0) := by
    cases name with
    | none => simp [kmem_cache_create_checks]
    | some nm =>
      have hname : (∃ nm', some nm = some nm' ∧ nm'.length ≥ CACHE_NAMELEN - 1) ↔
          nm.length ≥ CACHE_NAMELEN - 1 :=
        ⟨fun ⟨nm', e, h⟩ => by cases e; exact h, fun h => ⟨nm, rfl, h⟩⟩
      have hsome : ¬ (some nm = (none : Option String)) := fun e => by cases e
      refine Iff.trans ?_ (or_iff_right hsome).symm
      rw [hname]
      refine Iff.trans ?_ or_tail
      simp only [kmem_cache_create_checks]
      by_cases h1 : nm.length ≥ CACHE_NAMELEN - 1 ∨ in_interrupt = true ∨
          size < BYTES_PER_WORD ∨ size > ((1 <<< MAX_OBJ_ORDER) * cfg.PAGE_SIZE) % ULONG ∨
          (dtor = true ∧ ctor = false) ∨ offset > size
      · rw [if_pos h1]
        exact ⟨fun _ => Or.inl h1, fun _ => rfl⟩
      · rw [if_neg h1]
        by_cases h2 : flags &&& ((ULONG - 1) ^^^ (CREATE_MASK cfg % ULONG)) ≠ 0
        · rw [if_pos h2]
          exact ⟨fun _ => Or.inr h2, fun _ => rfl⟩
        · rw [if_neg h2]
          exact ⟨fun h => (by cases h),
            fun h => h.elim (fun a => absurd a h1) (fun a => absurd a h2)⟩
  refine ⟨hiff, ?_, ?_, ?_, rfl⟩
  · intro hf
    rw [hiff]
    unfold spec_create_fault at hf
    cases name with
    | none => left; rfl
    | some nm =>
      have hlen : nm.length + 1 > CACHE_NAMELEN → nm.length ≥ CACHE_NAMELEN - 1 := by
        unfold CACHE_NAMELEN
        omega
      have hsz : size > 2 ^ MAX_OBJ_ORDER * cfg.PAGE_SIZE →
          size > ((1 <<< MAX_OBJ_ORDER) * cfg.PAGE_SIZE) % ULONG := by
        intro h
        rw [Nat.one_shiftLeft]
        exact lt_of_le_of_lt (Nat.mod_le _ _) h
      have hname : nm.length + 1 > CACHE_NAMELEN →
          ∃ nm', some nm = some nm' ∧ nm'.length ≥ CACHE_NAMELEN - 1 :=
        fun h => ⟨nm, rfl, hlen h⟩
      exact or_listed hname hsz hf
  · cases name with
    | none => exact Or.inl rfl
    | some nm =>
      simp only [kmem_cache_create_checks]
      split
      · exact Or.inl rfl
      · split
        · exact Or.inl rfl
        · exact Or.inr rfl
  · have e1 : ¬ "".length ≥ CACHE_NAMELEN - 1 := by decide
    have e2 : ¬ "a".length ≥ CACHE_NAMELEN - 1 := by decide
    simp only [kmem_cache_create_checks, e1, e2, false_or]

/-- Counterexample to C9 as stated: a request whose name has 19 characters, and
so fits the `CACHE_NAMELEN`-byte field together with its terminator, which has
none of the faults the specification lists, legal flags and `offset ≤ size`,
is rejected by the sanity checks. -/
theorem kmem_cache_create_name_counterexample :
    ¬ spec_create_fault slab_config_ex (some "abcdefghijklmnopqrs") 128 false false false ∧
    "abcdefghijklmnopqrs".length + 1 ≤ CACHE_NAMELEN ∧
    0x2000 &&& ((ULONG - 1) ^^^ (CREATE_MASK slab_config_ex % ULONG)) = 0 ∧
    (0 : Nat) ≤ 128 ∧
    kmem_cache_create_checks slab_config_ex (some "abcdefghijklmnopqrs") 128 0 0x2000
      false false false = none := by
  refine ⟨by decide, by decide, by decide, by decide, by decide⟩

/-! ## Theorems: `kmem_cache_estimate` -/

theorem spec_align_ge (cfg : slab_config) (x : Nat) (hL : 0 < cfg.L1_CACHE_BYTES) :
    x ≤ spec_align cfg x := by
  unfold spec_align
  have h1 := Nat.div_add_mod (x + (cfg.L1_CACHE_BYTES - 1)) cfg.L1_CACHE_BYTES
  have h2 := Nat.mod_lt (x + (cfg.L1_CACHE_BYTES - 1)) hL
  rw [Nat.mul_comm] at h1
  omega

theorem spec_align_lt (cfg : slab_config) (x : Nat) (hL : 0 < cfg.L1_CACHE_BYTES) :
    spec_align cfg x < x + cfg.L1_CACHE_BYTES := by
  unfold spec_align
  have h1 := Nat.div_add_mod (x + (cfg.L1_CACHE_BYTES - 1)) cfg.L1_CACHE_BYTES
  rw [Nat.mul_comm] at h1
  omega

theorem spec_align_mono (cfg : slab_config) (x y : Nat) (h : x ≤ y) :
    spec_align cfg x ≤ spec_align cfg y := by
  unfold spec_align
  exact Nat.mul_le_mul_right _ (Nat.div_le_div_right (by omega))

theorem L1_CACHE_ALIGN_eq (cfg : slab_config) (x : Nat)
    (h : x + (cfg.L1_CACHE_BYTES - 1) < ULONG) : L1_CACHE_ALIGN cfg x = spec_align cfg x := by
  unfold L1_CACHE_ALIGN spec_align
  rw [Nat.mod_eq_of_lt h]

theorem spec_fits_antitone (cfg : slab_config) (order size flags a b : Nat) (hab : a ≤ b)
    (h : spec_fits cfg order size flags b) : spec_fits cfg order size flags a := by
  unfold spec_fits at *
  have h1 : a * size ≤ b * size := Nat.mul_le_mul_right _ hab
  have h2 : a * spec_slot flags ≤ b * spec_slot flags := Nat.mul_le_mul_right _ hab
  have h3 := spec_align_mono cfg (spec_header flags + a * spec_slot flags)
    (spec_header flags + b * spec_slot flags) (by omega)
  omega

theorem estimate_cond_eq (cfg : slab_config) (order size flags i : Nat)
    (h1 : i * size < ULONG) (h2 : i * spec_slot flags < ULONG)
    (h3 : spec_header flags + i * spec_slot flags + (cfg.L1_CACHE_BYTES - 1) < ULONG)
    (h4 : i * size + spec_align cfg (spec_header flags + i * spec_slot flags) < ULONG) :
    estimate_cond cfg size (spec_header flags) (spec_slot flags) (cfg.PAGE_SIZE * 2 ^ order) i =
      decide (spec_fits cfg order size flags i) := by
  unfold estimate_cond spec_fits
  rw [Nat.mod_eq_of_lt h1, Nat.mod_eq_of_lt h2,
    Nat.mod_eq_of_lt (show spec_header flags + i * spec_slot flags < ULONG by omega),
    L1_CACHE_ALIGN_eq cfg _ h3, Nat.mod_eq_of_lt h4]

theorem estimate_loop_find (cfg : slab_config) (size base extra wastage : Nat) :
    ∀ (k n i : Nat),
      (∀ j, i ≤ j → j < i + k → estimate_cond cfg size base extra wastage j = true) →
      estimate_cond cfg size base extra wastage (i + k) = false →
      k < n →
      estimate_loop cfg size base extra wastage n i = some (i + k) := by
  intro k
  induction k with
  | zero =>
    intro n i _ hstop hn
    obtain ⟨n', rfl⟩ : ∃ n', n = n' + 1 := ⟨n - 1, by omega⟩
    rw [estimate_loop, if_neg (by rw [show i = i + 0 from rfl, hstop]; decide)]
    rfl
  | succ k ih =>
    intro n i hall hstop hn
    obtain ⟨n', rfl⟩ : ∃ n', n = n' + 1 := ⟨n - 1, by omega⟩
    rw [estimate_loop, if_pos (hall i (le_refl _) (by omega))]
    rw [ih n' (i + 1) (fun j h1 h2 => hall j (by omega) (by omega))
      (by rw [show i + 1 + k = i + (k + 1) by omega]; exact hstop) (by omega)]
    congr 1
    omega

theorem spec_header_le (flags : Nat) : spec_header flags ≤ sizeof_slab_t := by
  unfold spec_header; split <;> simp [sizeof_slab_t]

theorem spec_slot_le (flags : Nat) : spec_slot flags ≤ sizeof_kmem_bufctl_t := by
  unfold spec_slot; split <;> simp [sizeof_kmem_bufctl_t]

theorem kmem_cache_estimate_unfold (cfg : slab_config) (order size flags i : Nat)
    (hW : cfg.PAGE_SIZE * 2 ^ order < ULONG)
    (h : estimate_loop cfg size (spec_header flags) (spec_slot flags)
      (cfg.PAGE_SIZE * 2 ^ order) (INT_MAX + 1) 0 = some i) :
    kmem_cache_estimate cfg order size flags =
      some ((((cfg.PAGE_SIZE * 2 ^ order + ULONG -
          ((if (if i > 0 then i - 1 else i) % ULONG > SLAB_LIMIT then SLAB_LIMIT
            else (if i > 0 then i - 1 else i)) * size) % ULONG) % ULONG + ULONG -
          L1_CACHE_ALIGN cfg ((spec_header flags +
            ((if (if i > 0 then i - 1 else i) % ULONG > SLAB_LIMIT then SLAB_LIMIT
              else (if i > 0 then i - 1 else i)) * spec_slot flags) % ULONG) % ULONG)) % ULONG),
        (if (if i > 0 then i - 1 else i) % ULONG > SLAB_LIMIT then SLAB_LIMIT
          else (if i > 0 then i - 1 else i))) := by
  unfold kmem_cache_estimate
  unfold spec_header spec_slot at h
  simp only [Nat.shiftLeft_eq, Nat.mod_eq_of_lt hW]
  rw [h]
  rfl

theorem kmem_cache_estimate_fits (cfg : slab_config) (order size flags : Nat)
    (hsize : 1 ≤ size) (hL : 0 < cfg.L1_CACHE_BYTES)
    (hbound : cfg.PAGE_SIZE * 2 ^ order + size + sizeof_kmem_bufctl_t +
      cfg.L1_CACHE_BYTES ≤ 2 ^ 31)
    (hfit0 : spec_fits cfg order size flags 0) :
    ∃ num left_over, kmem_cache_estimate cfg order size flags = some (left_over, num) ∧
      spec_fits cfg order size flags num ∧
      (∀ N, spec_fits cfg order size flags N → N ≤ num) ∧
      num ≤ SLAB_LIMIT ∧
      left_over = cfg.PAGE_SIZE * 2 ^ order - num * size -
        spec_align cfg (spec_header flags + num * spec_slot flags) := by
  have hU : ULONG = 4294967296 := rfl
  have hb4 : sizeof_kmem_bufctl_t = 4 := rfl
  have hslot := spec_slot_le flags
  obtain ⟨W, hWdef⟩ : ∃ W, W = cfg.PAGE_SIZE * 2 ^ order := ⟨_, rfl⟩
  rw [← hWdef] at hbound
  have hfitW : ∀ N, spec_fits cfg order size flags N ↔
      N * size + spec_align cfg (spec_header flags + N * spec_slot flags) ≤ W := by
    intro N; rw [hWdef]; rfl
  -- some count does not fit
  have hex : ∃ i, ¬ spec_fits cfg order size flags i := by
    refine ⟨W + 1, ?_⟩
    rw [hfitW]
    have : W + 1 ≤ (W + 1) * size := Nat.le_mul_of_pos_right _ hsize
    omega
  classical
  obtain ⟨m, hm⟩ : ∃ m, m = Nat.find hex := ⟨_, rfl⟩
  have hmspec : ¬ spec_fits cfg order size flags m := by rw [hm]; exact Nat.find_spec hex
  have hmmin : ∀ j, j < m → spec_fits cfg order size flags j := by
    intro j hj
    by_contra hc
    rw [hm] at hj
    exact Nat.find_min hex hj hc
  have hm0 : m ≠ 0 := by
    intro h0
    rw [h0] at hmspec
    exact hmspec hfit0
  obtain ⟨N, hN⟩ : ∃ N, m = N + 1 := ⟨m - 1, by omega⟩
  -- bounds on every count the loop looks at
  have hbnd : ∀ j, j ≤ m → j * size ≤ W + size ∧
      spec_header flags + j * spec_slot flags ≤ W + spec_slot flags := by
    intro j hj
    cases j with
    | zero =>
      have h0 := (hfitW 0).mp hfit0
      have h1 := spec_align_ge cfg (spec_header flags + 0 * spec_slot flags) hL
      simp only [Nat.zero_mul, Nat.add_zero] at h0 h1 ⊢
      omega
    | succ j =>
      have hf := (hfitW j).mp (hmmin j (by omega))
      have h1 := spec_align_ge cfg (spec_header flags + j * spec_slot flags) hL
      rw [Nat.succ_mul, Nat.succ_mul]
      omega
  have hcond : ∀ j, j ≤ m →
      estimate_cond cfg size (spec_header flags) (spec_slot flags) W j =
        decide (spec_fits cfg order size flags j) := by
    intro j hj
    obtain ⟨b1, b2⟩ := hbnd j hj
    have b3 := spec_align_lt cfg (spec_header flags + j * spec_slot flags) hL
    rw [hWdef]
    apply estimate_cond_eq <;> omega
  have hNfit : spec_fits cfg order size flags N := hmmin N (by omega)
  have hNW : N ≤ W := by
    have h1 := (hfitW N).mp hNfit
    have h2 : N ≤ N * size := Nat.le_mul_of_pos_right _ hsize
    omega
  have hloop : estimate_loop cfg size (spec_header flags) (spec_slot flags) W (INT_MAX + 1) 0 =
      some m := by
    have h := estimate_loop_find cfg size (spec_header flags) (spec_slot flags) W m
      (INT_MAX + 1) 0
      (fun j _ h2 => by
        rw [hcond j (by omega)]
        exact decide_eq_true (hmmin j (by omega)))
      (by
        rw [Nat.zero_add, hcond m (le_refl _)]
        exact decide_eq_false hmspec)
      (by
        have : INT_MAX + 1 = 2147483648 := rfl
        omega)
    rw [Nat.zero_add] at h
    exact h
  have hWU : cfg.PAGE_SIZE * 2 ^ order < ULONG := by rw [← hWdef]; omega
  rw [hWdef] at hloop
  have hres := kmem_cache_estimate_unfold cfg order size flags m hWU hloop
  have e1 : (if m > 0 then m - 1 else m) = N := by
    rw [if_pos (by omega)]; omega
  have e2 : (if N % ULONG > SLAB_LIMIT then SLAB_LIMIT else N) = N := by
    rw [if_neg]
    rw [Nat.mod_eq_of_lt (by omega)]
    have : SLAB_LIMIT = 4294967294 := rfl
    omega
  rw [e1, e2, ← hWdef] at hres
  have hf := (hfitW N).mp hNfit
  have a1 := spec_align_ge cfg (spec_header flags + N * spec_slot flags) hL
  have hNs : N * size ≤ W := by omega
  have hNe : spec_header flags + N * spec_slot flags ≤ W := by omega
  rw [Nat.mod_eq_of_lt (show N * size < ULONG by omega),
    Nat.mod_eq_of_lt (show N * spec_slot flags < ULONG by omega),
    Nat.mod_eq_of_lt (show spec_header flags + N * spec_slot flags < ULONG by omega),
    L1_CACHE_ALIGN_eq cfg _ (by omega)] at hres
  have e3 : (W + ULONG - N * size) % ULONG = W - N * size := by
    rw [show W + ULONG - N * size = (W - N * size) + ULONG by omega, Nat.add_mod_right]
    exact Nat.mod_eq_of_lt (by omega)
  rw [e3] at hres
  have e4 : (W - N * size + ULONG -
      spec_align cfg (spec_header flags + N * spec_slot flags)) % ULONG =
      W - N * size - spec_align cfg (spec_header flags + N * spec_slot flags) := by
    rw [show W - N * size + ULONG - spec_align cfg (spec_header flags + N * spec_slot flags) =
      (W - N * size - spec_align cfg (spec_header flags + N * spec_slot flags)) + ULONG by omega,
      Nat.add_mod_right]
    exact Nat.mod_eq_of_lt (by omega)
  rw [e4] at hres
  refine ⟨N, _, hres, hNfit, ?_, ?_, by rw [hWdef]⟩
  · intro K hK
    by_contra hc
    exact hmspec (spec_fits_antitone cfg order size flags m K (by omega) hK)
  · have : SLAB_LIMIT = 4294967294 := rfl
    omega

/-- C10 (amended): for `size ≥ 1`, when no step of the `int` and `size_t`
arithmetic wraps (`PAGE_SIZE * 2^order + size + sizeof(kmem_bufctl_t) +
L1_CACHE_BYTES ≤ 2^31`) and the aligned header alone fits into the slab,
`kmem_cache_estimate` returns, `num` is the largest `N` with
`N*size + L1_CACHE_ALIGN(header + N*slot) ≤ PAGE_SIZE * 2^order` (it fits, and
every `N` that fits is at most `num`), `num` is below `SLAB_LIMIT`, and
`left_over = PAGE_SIZE * 2^order - num*size - L1_CACHE_ALIGN(header + num*slot)`,
where header and slot are `sizeof(slab_t)` and `sizeof(kmem_bufctl_t)` on-slab
and 0 when `CFLGS_OFF_SLAB` is set. -/
theorem kmem_cache_estimate_spec (cfg : slab_config) (order size flags : Nat)
    (hsize : 1 ≤ size) (hL : 0 < cfg.L1_CACHE_BYTES)
    (hbound : cfg.PAGE_SIZE * 2 ^ order + size + sizeof_kmem_bufctl_t +
      cfg.L1_CACHE_BYTES ≤ 2 ^ 31)
    (hfit0 : spec_fits cfg order size flags 0) :
    ∃ num left_over, kmem_cache_estimate cfg order size flags = some (left_over, num) ∧
      spec_fits cfg order size flags num ∧
      (∀ N, spec_fits cfg order size flags N → N ≤ num) ∧
      num ≤ SLAB_LIMIT ∧
      left_over = cfg.PAGE_SIZE * 2 ^ order - num * size -
        spec_align cfg (spec_header flags + num * spec_slot flags) :=
  kmem_cache_estimate_fits cfg order size flags hsize hL hbound hfit0

/-- Witness for C10: with 4 KiB pages and 32-byte cache lines, a one-page
on-slab slab of 128-byte objects holds 30 objects and leaves 96 bytes. -/
theorem kmem_cache_estimate_spec_witness :
    ∃ num left_over, kmem_cache_estimate slab_config_ex 0 128 0 = some (left_over, num) ∧
      spec_fits slab_config_ex 0 128 0 num ∧
      (∀ N, spec_fits slab_config_ex 0 128 0 N → N ≤ num) ∧
      num ≤ SLAB_LIMIT ∧
      left_over = slab_config_ex.PAGE_SIZE * 2 ^ 0 - num * 128 -
        spec_align slab_config_ex (spec_header 0 + num * spec_slot 0) :=
  kmem_cache_estimate_spec slab_config_ex 0 128 0 (by decide) (by decide) (by decide)
    (by decide)

/-- Counterexample to C10 as stated (for every `size ≥ 1`): with 4 KiB pages
and 32-byte cache lines, for an on-slab cache of objects of `2^32 - 32` bytes
and order 0 the function returns `num = 1` and `left_over = 4096`, although
one object does not fit (`1*size + L1_CACHE_ALIGN(24 + 4)` is `2^32`, far above
4096): the sum wraps to 0 in `size_t` arithmetic.  The largest `N` that fits is
0, and the claimed `left_over` for `num = 1` is not 4096 either. -/
theorem kmem_cache_estimate_wrap_counterexample :
    (1 : Nat) ≤ 4294967264 ∧ 4294967264 < ULONG ∧
    kmem_cache_estimate slab_config_ex 0 4294967264 0 = some (4096, 1) ∧
    spec_fits slab_config_ex 0 4294967264 0 0 ∧
    ¬ spec_fits slab_config_ex 0 4294967264 0 1 ∧
    slab_config_ex.PAGE_SIZE * 2 ^ 0 - 1 * 4294967264 -
      spec_align slab_config_ex (spec_header 0 + 1 * spec_slot 0) ≠ 4096 := by
  refine ⟨by decide, by decide, by decide, by decide, by decide, by decide⟩

/-! ## Theorems: the free list of a slab -/

@[simp]
theorem upd_same {α : Type} (f : Nat → α) (a : Nat) (v : α) : upd f a v a = v := by
  simp [upd]

theorem upd_other {α : Type} (f : Nat → α) (a b : Nat) (v : α) (h : b ≠ a) :
    upd f a v b = f b := by
  simp [upd, h]

theorem is_chain_unique (bufctl : Nat → Nat) :
    ∀ (l1 l2 : List Nat) (f : Nat), is_chain bufctl f l1 → is_chain bufctl f l2 → l1 = l2 := by
  intro l1
  induction l1 with
  | nil =>
    intro l2 f h1 h2
    cases l2 with
    | nil => rfl
    | cons j l2 =>
      simp only [is_chain] at h1 h2
      exact absurd (h2.1 ▸ h1) h2.2.1
  | cons i l1 ih =>
    intro l2 f h1 h2
    cases l2 with
    | nil =>
      simp only [is_chain] at h1 h2
      exact absurd (h1.1 ▸ h2) h1.2.1
    | cons j l2 =>
      simp only [is_chain] at h1 h2
      have hij : i = j := h1.1.symm.trans h2.1
      subst hij
      rw [ih l2 (bufctl i) h1.2.2 h2.2.2]

theorem is_chain_upd (bufctl : Nat → Nat) (k v : Nat) :
    ∀ (l : List Nat) (f : Nat), k ∉ l → is_chain bufctl f l → is_chain (upd bufctl k v) f l := by
  intro l
  induction l with
  | nil => intro f _ h; exact h
  | cons i l ih =>
    intro f hk h
    simp only [is_chain] at h ⊢
    have hik : i ≠ k := fun e => hk (e ▸ List.mem_cons_self _ _)
    rw [upd_other _ _ _ _ hik]
    exact ⟨h.1, h.2.1, ih _ (fun hm => hk (List.mem_cons_of_mem _ hm)) h.2.2⟩

theorem nodup_bound_length (N : Nat) (l : List Nat) (hn : l.Nodup) (hb : ∀ i ∈ l, i < N) :
    l.length ≤ N := by
  have h := (hn.subperm (fun i hi => List.mem_range.mpr (hb i hi))).length_le
  rw [List.length_range] at h
  exact h

theorem init_objs_loop_spec (n : Nat) :
    ∀ (b : Nat → Nat) (i k : Nat),
      init_objs_loop b n i k = if i ≤ k ∧ k < i + n then (k + 1) % ULONG else b k := by
  induction n with
  | zero =>
    intro b i k
    simp only [init_objs_loop]
    rw [if_neg (by omega)]
  | succ n ih =>
    intro b i k
    simp only [init_objs_loop]
    rw [ih]
    by_cases h1 : i + 1 ≤ k ∧ k < i + 1 + n
    · rw [if_pos h1, if_pos (by omega)]
    · rw [if_neg h1]
      by_cases h2 : k = i
      · rw [h2, upd_same, if_pos (by omega)]
      · rw [upd_other _ _ _ _ h2, if_neg (by omega)]

theorem is_chain_range (b : Nat → Nat) (N : Nat) (hN : N ≤ SLAB_LIMIT)
    (hb : ∀ i, i + 1 < N → b i = i + 1) (hlast : 0 < N → b (N - 1) = BUFCTL_END) :
    ∀ (n f : Nat), f + n = N → 0 < n → is_chain b f (List.range' f n) := by
  have hS : SLAB_LIMIT = 4294967294 := rfl
  have hE : BUFCTL_END = 4294967295 := rfl
  intro n
  induction n with
  | zero =>
    intro f _ h0
    omega
  | succ n ih =>
    intro f hf _
    simp only [List.range', is_chain]
    refine ⟨trivial, by omega, ?_⟩
    by_cases hn : n = 0
    · subst hn
      have : b f = BUFCTL_END := by
        have := hlast (by omega)
        rwa [show N - 1 = f by omega] at this
      rw [this]
      simp [List.range', is_chain]
    · rw [hb f (by omega)]
      exact ih (f + 1) (by omega) (by omega)

theorem kmem_cache_grow_eq (alloc : kmem_state → Nat → Nat → Option (kmem_state × Nat))
    (env : slab_env) (s : kmem_state) (cachep flags : Nat) (hf : grow_flags_ok env flags)
    (hp : s.getpages s.getpages_calls ≠ 0) :
    kmem_cache_grow alloc env s cachep flags =
      match kmem_cache_slabmgmt alloc env (grow_start s cachep) cachep
          (s.getpages s.getpages_calls) (grow_offset s cachep)
          (flags &&& env.SLAB_LEVEL_MASK) with
      | none => none
      | some (s2, slabp) =>
        if slabp = 0 then
          some ({ kmem_freepages env s2 cachep (s.getpages s.getpages_calls) with
            cache := upd (kmem_freepages env s2 cachep (s.getpages s.getpages_calls)).cache
              cachep
              { (kmem_freepages env s2 cachep (s.getpages s.getpages_calls)).cache cachep with
                growing := (((kmem_freepages env s2 cachep
                  (s.getpages s.getpages_calls)).cache cachep).growing + ULONG - 1) % ULONG } },
            0)
        else some (grow_finish env s2 cachep slabp (s.getpages s.getpages_calls), 1) := by
  obtain ⟨h1, h2, h3⟩ := hf
  unfold kmem_cache_grow
  rw [if_neg (by rw [h1]; exact fun h => h rfl), if_neg (by rw [h2]; exact fun h => h rfl),
    if_neg h3]
  simp only [kmem_getpages]
  rw [if_neg hp]
  rfl

theorem kmem_cache_grow_success (alloc : kmem_state → Nat → Nat → Option (kmem_state × Nat))
    (env : slab_env) (s : kmem_state) (cachep flags : Nat) (s' : kmem_state)
    (h : kmem_cache_grow alloc env s cachep flags = some (s', 1)) :
    grow_flags_ok env flags ∧ s.getpages s.getpages_calls ≠ 0 ∧
    ∃ s2 slabp, slabp ≠ 0 ∧
      kmem_cache_slabmgmt alloc env (grow_start s cachep) cachep
        (s.getpages s.getpages_calls) (grow_offset s cachep)
        (flags &&& env.SLAB_LEVEL_MASK) = some (s2, slabp) ∧
      s' = grow_finish env s2 cachep slabp (s.getpages s.getpages_calls) := by
  by_cases h1 : flags &&& ((ULONG - 1) ^^^
      ((env.SLAB_DMA ||| env.SLAB_LEVEL_MASK ||| env.SLAB_NO_GROW) % ULONG)) ≠ 0
  · unfold kmem_cache_grow at h
    rw [if_pos h1] at h
    cases h
  by_cases h2 : flags &&& env.SLAB_NO_GROW ≠ 0
  · unfold kmem_cache_grow at h
    rw [if_neg h1, if_pos h2] at h
    simp only [Option.some.injEq, Prod.mk.injEq] at h
    exact absurd h.2 (by decide)
  by_cases h3 : env.in_interrupt = true ∧ flags &&& env.SLAB_LEVEL_MASK ≠ env.SLAB_ATOMIC
  · unfold kmem_cache_grow at h
    rw [if_neg h1, if_neg h2, if_pos h3] at h
    cases h
  have hf : grow_flags_ok env flags := ⟨not_not.mp h1, not_not.mp h2, h3⟩
  by_cases hp : s.getpages s.getpages_calls = 0
  · unfold kmem_cache_grow at h
    rw [if_neg h1, if_neg h2, if_neg h3] at h
    simp only [kmem_getpages] at h
    rw [if_pos hp] at h
    simp only [Option.some.injEq, Prod.mk.injEq] at h
    exact absurd h.2 (by decide)
  refine ⟨hf, hp, ?_⟩
  rw [kmem_cache_grow_eq alloc env s cachep flags hf hp] at h
  cases hm : kmem_cache_slabmgmt alloc env (grow_start s cachep) cachep
      (s.getpages s.getpages_calls) (grow_offset s cachep)
      (flags &&& env.SLAB_LEVEL_MASK) with
  | none => rw [hm] at h; cases h
  | some x =>
    obtain ⟨s2, slabp⟩ := x
    rw [hm] at h
    dsimp only at h
    by_cases hz : slabp = 0
    · rw [if_pos hz] at h
      simp only [Option.some.injEq, Prod.mk.injEq] at h
      exact absurd h.2 (by decide)
    · rw [if_neg hz] at h
      simp only [Option.some.injEq, Prod.mk.injEq, and_true] at h
      exact ⟨s2, slabp, hz, rfl, h.symm⟩

theorem kmem_cache_slabmgmt_inuse (alloc : kmem_state → Nat → Nat → Option (kmem_state × Nat))
    (env : slab_env) (s : kmem_state) (cachep objp off lf : Nat) (s2 : kmem_state) (slabp : Nat)
    (h : kmem_cache_slabmgmt alloc env s cachep objp off lf = some (s2, slabp))
    (hz : slabp ≠ 0) : (s2.slab slabp).inuse = 0 := by
  unfold kmem_cache_slabmgmt at h
  by_cases ho : (s.cache cachep).flags &&& CFLGS_OFF_SLAB ≠ 0
  · rw [if_pos ho] at h
    cases ha : alloc s (s.cache cachep).slabp_cache lf with
    | none => rw [ha] at h; cases h
    | some x =>
      obtain ⟨s1, r⟩ := x
      rw [ha] at h
      dsimp only at h
      by_cases hr : r = 0
      · rw [if_pos hr] at h
        simp only [Option.some.injEq, Prod.mk.injEq] at h
        exact absurd h.2.symm hz
      · rw [if_neg hr] at h
        simp only [Option.some.injEq, Prod.mk.injEq] at h
        obtain ⟨h1, h2⟩ := h
        subst h2
        rw [← h1]
        simp only [upd_same]
  · rw [if_neg ho] at h
    simp only [Option.some.injEq, Prod.mk.injEq] at h
    obtain ⟨h1, h2⟩ := h
    rw [← h1, ← h2]
    simp only [upd_same]

theorem set_pages_loop_cache (cachep slabp : Nat) :
    ∀ (n : Nat) (s : kmem_state) (page : Nat),
      (set_pages_loop cachep slabp s n page).cache = s.cache ∧
      (set_pages_loop cachep slabp s n page).slab = s.slab ∧
      (set_pages_loop cachep slabp s n page).grown = s.grown := by
  intro n
  induction n with
  | zero => intro s page; exact ⟨rfl, rfl, rfl⟩
  | succ n ih =>
    intro s page
    simp only [set_pages_loop]
    rw [(ih _ _).1, (ih _ _).2.1, (ih _ _).2.2]
    exact ⟨rfl, rfl, rfl⟩

theorem set_pages_loop_pages (cachep slabp : Nat) :
    ∀ (n : Nat) (s : kmem_state) (page q : Nat),
      (set_pages_loop cachep slabp s n page).page_cache q =
        (if page ≤ q ∧ q < page + n then cachep else s.page_cache q) ∧
      (set_pages_loop cachep slabp s n page).page_slab q =
        (if page ≤ q ∧ q < page + n then slabp else s.page_slab q) ∧
      (set_pages_loop cachep slabp s n page).PageSlab q =
        (if page ≤ q ∧ q < page + n then true else s.PageSlab q) := by
  intro n
  induction n with
  | zero =>
    intro s page q
    simp only [set_pages_loop]
    rw [if_neg (by omega), if_neg (by omega), if_neg (by omega)]
    exact ⟨rfl, rfl, rfl⟩
  | succ n ih =>
    intro s page q
    simp only [set_pages_loop]
    rw [(ih _ _ _).1, (ih _ _ _).2.1, (ih _ _ _).2.2]
    by_cases h1 : page + 1 ≤ q ∧ q < page + 1 + n
    · rw [if_pos h1, if_pos h1, if_pos h1, if_pos (by omega), if_pos (by omega),
        if_pos (by omega)]
      exact ⟨rfl, rfl, rfl⟩
    · rw [if_neg h1, if_neg h1, if_neg h1]
      by_cases h2 : q = page
      · subst h2
        rw [if_pos (by omega), if_pos (by omega), if_pos (by omega)]
        refine ⟨?_, ?_, ?_⟩ <;> simp only [upd_same]
      · rw [if_neg (by omega), if_neg (by omega), if_neg (by omega)]
        refine ⟨?_, ?_, ?_⟩ <;> simp only [upd_other _ _ _ _ h2]

theorem grow_finish_cache (env : slab_env) (s2 : kmem_state) (cachep slabp objp : Nat) :
    (grow_finish env s2 cachep slabp objp).cache cachep =
      { s2.cache cachep with
        growing := ((s2.cache cachep).growing + ULONG - 1) % ULONG
        slabs := (s2.cache cachep).slabs ++ [slabp]
        firstnotfull := if (s2.cache cachep).firstnotfull = none then some slabp
          else (s2.cache cachep).firstnotfull
        failures := 0 } ∧
    ∀ x, x ≠ cachep → (grow_finish env s2 cachep slabp objp).cache x = s2.cache x := by
  unfold grow_finish kmem_cache_init_objs
  simp only [(set_pages_loop_cache cachep slabp _ _ _).1, upd_same, list_add_tail]
  refine ⟨trivial, fun x hx => ?_⟩
  rw [upd_other _ _ _ _ hx]

theorem grow_finish_slab (env : slab_env) (s2 : kmem_state) (cachep slabp objp : Nat) :
    (grow_finish env s2 cachep slabp objp).slab slabp =
      { s2.slab slabp with
        bufctl := if (s2.cache cachep).num = 0 then
            init_objs_loop (s2.slab slabp).bufctl (s2.cache cachep).num 0
          else upd (init_objs_loop (s2.slab slabp).bufctl (s2.cache cachep).num 0)
            ((s2.cache cachep).num - 1) BUFCTL_END
        free := 0 } ∧
    ∀ x, x ≠ slabp → (grow_finish env s2 cachep slabp objp).slab x = s2.slab x := by
  unfold grow_finish kmem_cache_init_objs
  simp only [(set_pages_loop_cache cachep slabp _ _ _).1,
    (set_pages_loop_cache cachep slabp _ _ _).2.1, upd_same]
  refine ⟨trivial, fun x hx => ?_⟩
  rw [upd_other _ _ _ _ hx]

theorem grow_bufctl (b : Nat → Nat) (N : Nat) (h1 : 1 ≤ N) (h2 : N ≤ SLAB_LIMIT) :
    (∀ i, i + 1 < N → upd (init_objs_loop b N 0) (N - 1) BUFCTL_END i = i + 1) ∧
    upd (init_objs_loop b N 0) (N - 1) BUFCTL_END (N - 1) = BUFCTL_END := by
  have hS : SLAB_LIMIT = 4294967294 := rfl
  have hU : ULONG = 4294967296 := rfl
  refine ⟨fun i hi => ?_, upd_same _ _ _⟩
  rw [upd_other _ _ _ _ (by omega), init_objs_loop_spec, if_pos (by omega)]
  exact Nat.mod_eq_of_lt (by omega)

theorem grow_slab_free_ok (sl : slab_t) (N : Nat) (h1 : 1 ≤ N) (h2 : N ≤ SLAB_LIMIT)
    (hi : sl.inuse = 0) (hf : sl.free = 0)
    (hb : ∀ i, i + 1 < N → sl.bufctl i = i + 1) (hl : sl.bufctl (N - 1) = BUFCTL_END) :
    is_chain sl.bufctl sl.free (List.range' 0 N) ∧ slab_free_ok N sl := by
  have hc : is_chain sl.bufctl sl.free (List.range' 0 N) := by
    rw [hf]
    exact is_chain_range sl.bufctl N h2 hb (fun _ => hl) N 0 (by omega) (by omega)
  refine ⟨hc, List.range' 0 N, hc, List.nodup_range' 0 N, fun i hi' => ?_, ?_⟩
  · have := List.mem_range'_1.mp hi'
    omega
  · rw [List.length_range', hi]; rfl

theorem alloc_slab_free_ok (N : Nat) (sl : slab_t) (h : slab_free_ok N sl)
    (hfull : sl.inuse < N) (hN : N ≤ SLAB_LIMIT) :
    sl.free < N ∧
    slab_free_ok N { sl with inuse := (sl.inuse + 1) % ULONG, free := sl.bufctl sl.free } := by
  have hS : SLAB_LIMIT = 4294967294 := rfl
  have hU : ULONG = 4294967296 := rfl
  obtain ⟨l, hc, hn, hb, hlen⟩ := h
  cases l with
  | nil => simp only [List.length_nil] at hlen; omega
  | cons i l =>
    simp only [is_chain] at hc
    obtain ⟨hfi, _, hc'⟩ := hc
    refine ⟨by rw [hfi]; exact hb i (List.mem_cons_self _ _), l, ?_, (List.nodup_cons.mp hn).2,
      fun j hj => hb j (List.mem_cons_of_mem _ hj), ?_⟩
    · rw [hfi]; exact hc'
    · simp only [List.length_cons] at hlen
      show l.length + (sl.inuse + 1) % ULONG = N
      rw [Nat.mod_eq_of_lt (by omega)]
      omega

theorem free_slab_free_ok (N : Nat) (sl : slab_t) (i : Nat) (h : slab_free_ok N sl)
    (hi : i < N) (hnot : ∀ l, is_chain sl.bufctl sl.free l → i ∉ l) (hN : N ≤ SLAB_LIMIT) :
    1 ≤ sl.inuse ∧
    slab_free_ok N { sl with
      bufctl := upd sl.bufctl i sl.free
      free := i
      inuse := (sl.inuse + ULONG - 1) % ULONG } := by
  have hS : SLAB_LIMIT = 4294967294 := rfl
  have hU : ULONG = 4294967296 := rfl
  have hE : BUFCTL_END = 4294967295 := rfl
  obtain ⟨l, hc, hn, hb, hlen⟩ := h
  have hil : i ∉ l := hnot l hc
  have hn' : (i :: l).Nodup := List.nodup_cons.mpr ⟨hil, hn⟩
  have hb' : ∀ j ∈ i :: l, j < N := by
    intro j hj
    rcases List.mem_cons.mp hj with e | e
    · rw [e]; exact hi
    · exact hb j e
  have hle := nodup_bound_length N (i :: l) hn' hb'
  simp only [List.length_cons] at hle
  have hin : 1 ≤ sl.inuse := by omega
  refine ⟨hin, i :: l, ?_, hn', hb', ?_⟩
  · simp only [is_chain, upd_same]
    exact ⟨trivial, by omega, is_chain_upd sl.bufctl i sl.free l sl.free hil hc⟩
  · simp only [List.length_cons]
    show l.length + 1 + (sl.inuse + ULONG - 1) % ULONG = N
    rw [show sl.inuse + ULONG - 1 = (sl.inuse - 1) + ULONG by omega, Nat.add_mod_right,
      Nat.mod_eq_of_lt (by omega)]
    omega

theorem cache_same_refl (c : kmem_cache_t) : cache_same c c :=
  ⟨rfl, rfl, rfl, rfl, rfl, rfl, rfl, rfl, rfl, rfl, rfl, rfl, rfl⟩

theorem cache_same_trans (a b c : kmem_cache_t) (h1 : cache_same a b) (h2 : cache_same b c) :
    cache_same a c := by
  obtain ⟨a1, a2, a3, a4, a5, a6, a7, a8, a9, a10, a11, a12, a13⟩ := h1
  obtain ⟨b1, b2, b3, b4, b5, b6, b7, b8, b9, b10, b11, b12, b13⟩ := h2
  exact ⟨b1.trans a1, b2.trans a2, b3.trans a3, b4.trans a4, b5.trans a5, b6.trans a6,
    b7.trans a7, b8.trans a8, b9.trans a9, b10.trans a10, b11.trans a11, b12.trans a12,
    b13.trans a13⟩

theorem cache_same_upd (cache : Nat → kmem_cache_t) (cachep : Nat) (c : kmem_cache_t)
    (h : cache_same (cache cachep) c) : ∀ x, cache_same (cache x) (upd cache cachep c x) := by
  intro x
  by_cases hx : x = cachep
  · subst hx; rw [upd_same]; exact h
  · rw [upd_other _ _ _ _ hx]; exact cache_same_refl _

theorem alloc_one_tail_cache (s : kmem_state) (cachep slabp : Nat) :
    ((kmem_cache_alloc_one_tail s cachep slabp).1.cache cachep =
        { s.cache cachep with
          firstnotfull := if (s.slab slabp).bufctl (s.slab slabp).free = BUFCTL_END then
              list_next (s.cache cachep).slabs (some slabp)
            else (s.cache cachep).firstnotfull }) ∧
    (∀ x, x ≠ cachep → (kmem_cache_alloc_one_tail s cachep slabp).1.cache x = s.cache x) ∧
    ((kmem_cache_alloc_one_tail s cachep slabp).1.slab slabp =
        { s.slab slabp with
          inuse := ((s.slab slabp).inuse + 1) % ULONG
          free := (s.slab slabp).bufctl (s.slab slabp).free }) ∧
    (∀ x, x ≠ slabp → (kmem_cache_alloc_one_tail s cachep slabp).1.slab x = s.slab x) ∧
    (kmem_cache_alloc_one_tail s cachep slabp).2 =
      ((s.slab slabp).s_mem + ((s.slab slabp).free * (s.cache cachep).objsize) % ULONG)
        % ULONG := by
  unfold kmem_cache_alloc_one_tail
  by_cases h : (s.slab slabp).bufctl (s.slab slabp).free = BUFCTL_END
  · simp only [h, if_true, upd_same]
    refine ⟨trivial, fun x hx => ?_, trivial, fun x hx => ?_, trivial⟩
    · rw [upd_other _ _ _ _ hx]
    · rw [upd_other _ _ _ _ hx]
  · simp only [h, if_false, upd_same]
    refine ⟨trivial, fun x hx => trivial, trivial, fun x hx => ?_, trivial⟩
    rw [upd_other _ _ _ _ hx]

theorem upd_self {α : Type} (f : Nat → α) (a : Nat) : upd f a (f a) = f := by
  funext b
  by_cases h : b = a
  · subst h; rw [upd_same]
  · rw [upd_other _ _ _ _ h]

theorem state_same_refl (s : kmem_state) : state_same s s := fun _ => cache_same_refl _

theorem state_same_trans (a b c : kmem_state) (h1 : state_same a b) (h2 : state_same b c) :
    state_same a c := fun x => cache_same_trans _ _ _ (h1 x) (h2 x)

theorem alloc_one_tail_form (s : kmem_state) (cachep slabp : Nat) :
    ∃ fnf, (kmem_cache_alloc_one_tail s cachep slabp).1 =
      { s with
        slab := upd s.slab slabp
          { s.slab slabp with
            inuse := ((s.slab slabp).inuse + 1) % ULONG
            free := (s.slab slabp).bufctl (s.slab slabp).free }
        cache := upd s.cache cachep { s.cache cachep with firstnotfull := fnf } } := by
  unfold kmem_cache_alloc_one_tail
  by_cases h : (s.slab slabp).bufctl (s.slab slabp).free = BUFCTL_END
  · simp only [h, if_true]
    exact ⟨_, rfl⟩
  · simp only [h, if_false]
    refine ⟨(s.cache cachep).firstnotfull, ?_⟩
    rw [upd_self]

theorem free_one_form (env : slab_env) (s : kmem_state) (cachep objp : Nat) (s' : kmem_state)
    (h : kmem_cache_free_one env s cachep objp = some s') :
    (s.cache cachep).objsize % ULONG ≠ 0 ∧
    ∃ slabs fnf, s' =
      { s with
        slab := upd s.slab (s.page_slab (virt_to_page env objp)) (free_slab env s cachep objp)
        cache := upd s.cache cachep
          { s.cache cachep with slabs := slabs, firstnotfull := fnf } } ∧
      (slabs = (s.cache cachep).slabs ∨
        slabs = list_add_tail (list_del (s.cache cachep).slabs
          (s.page_slab (virt_to_page env objp))) (s.page_slab (virt_to_page env objp))
          (s.cache cachep).firstnotfull ∨
        slabs = list_add_tail (list_del (s.cache cachep).slabs
          (s.page_slab (virt_to_page env objp))) (s.page_slab (virt_to_page env objp)) none) := by
  unfold kmem_cache_free_one at h
  by_cases h0 : (s.cache cachep).objsize % ULONG = 0
  · rw [if_pos h0] at h; cases h
  refine ⟨h0, ?_⟩
  rw [if_neg h0] at h
  by_cases h1 : (s.slab (s.page_slab (virt_to_page env objp))).inuse = (s.cache cachep).num
  · rw [if_pos h1] at h
    by_cases h2 : list_next (s.cache cachep).slabs (some (s.page_slab (virt_to_page env objp))) =
        (s.cache cachep).firstnotfull
    · rw [if_pos h2] at h
      simp only [Option.some.injEq] at h
      exact ⟨_, _, h.symm, Or.inl rfl⟩
    · rw [if_neg h2] at h
      simp only [Option.some.injEq] at h
      exact ⟨_, _, h.symm, Or.inr (Or.inl rfl)⟩
  · rw [if_neg h1] at h
    by_cases h3 : ((s.slab (s.page_slab (virt_to_page env objp))).inuse + ULONG - 1) % ULONG = 0
    · rw [if_pos h3] at h
      by_cases h4 : (s.cache cachep).firstnotfull = some (s.page_slab (virt_to_page env objp))
      · rw [if_pos h4] at h
        simp only [Option.some.injEq] at h
        exact ⟨_, _, h.symm, Or.inr (Or.inr rfl)⟩
      · rw [if_neg h4] at h
        simp only [Option.some.injEq] at h
        exact ⟨_, _, h.symm, Or.inr (Or.inr rfl)⟩
    · rw [if_neg h3] at h
      simp only [Option.some.injEq] at h
      refine ⟨(s.cache cachep).slabs, (s.cache cachep).firstnotfull, ?_, Or.inl rfl⟩
      rw [← h, upd_self]
      rfl

theorem free_one_total (env : slab_env) (s : kmem_state) (cachep objp : Nat)
    (h0 : (s.cache cachep).objsize % ULONG ≠ 0) :
    ∃ s', kmem_cache_free_one env s cachep objp = some s' := by
  unfold kmem_cache_free_one
  rw [if_neg h0]
  dsimp only
  split
  · split
    · exact ⟨_, rfl⟩
    · exact ⟨_, rfl⟩
  · split
    · split
      · exact ⟨_, rfl⟩
      · exact ⟨_, rfl⟩
    · exact ⟨_, rfl⟩

theorem list_add_tail_perm (l : List Nat) (y : Nat) (t : Option Nat) :
    (list_add_tail l y t).Perm (y :: l) := by
  cases t with
  | none => exact List.perm_append_singleton y l
  | some t =>
    simp only [list_add_tail]
    have h := @List.perm_middle _ y (l.takeWhile (fun z => decide (z ≠ t)))
      (l.dropWhile (fun z => decide (z ≠ t)))
    rw [List.takeWhile_append_dropWhile] at h
    exact h

theorem move_perm (l : List Nat) (y : Nat) (t : Option Nat) (hy : y ∈ l) :
    (list_add_tail (list_del l y) y t).Perm l :=
  (list_add_tail_perm _ y t).trans (List.perm_cons_erase hy).symm

theorem free_objnr_eq (env : slab_env) (s : kmem_state) (cachep objp i : Nat)
    (hs : 0 < (s.cache cachep).objsize) (hs2 : (s.cache cachep).objsize < ULONG)
    (ho : objp = (s.slab (s.page_slab (virt_to_page env objp))).s_mem +
      i * (s.cache cachep).objsize)
    (hb : objp < ULONG) : free_objnr env s cachep objp = i := by
  have hU : ULONG = 4294967296 := rfl
  unfold free_objnr
  obtain ⟨sm, hsm⟩ : ∃ sm, sm = (s.slab (s.page_slab (virt_to_page env objp))).s_mem := ⟨_, rfl⟩
  rw [← hsm] at ho ⊢
  obtain ⟨p, hp⟩ : ∃ p, p = i * (s.cache cachep).objsize := ⟨_, rfl⟩
  rw [← hp] at ho
  rw [Nat.mod_eq_of_lt (show sm < ULONG by omega), Nat.mod_eq_of_lt hs2,
    show objp + ULONG - sm = p + ULONG by omega, Nat.add_mod_right,
    Nat.mod_eq_of_lt (show p < ULONG by omega), hp]
  exact Nat.mul_div_cancel i hs

theorem kmem_cache_grow_cases (alloc : kmem_state → Nat → Nat → Option (kmem_state × Nat))
    (env : slab_env) (s : kmem_state) (cachep flags : Nat) (s' : kmem_state) (r : Nat)
    (h : kmem_cache_grow alloc env s cachep flags = some (s', r)) :
    (s' = s ∧ r = 0) ∨
    (s.getpages s.getpages_calls = 0 ∧ s' = grow_failed (grow_start s cachep) cachep ∧ r = 0) ∨
    (grow_flags_ok env flags ∧ s.getpages s.getpages_calls ≠ 0 ∧
      ∃ s2 slabp, kmem_cache_slabmgmt alloc env (grow_start s cachep) cachep
          (s.getpages s.getpages_calls) (grow_offset s cachep)
          (flags &&& env.SLAB_LEVEL_MASK) = some (s2, slabp) ∧
        ((slabp = 0 ∧ r = 0 ∧
            s' = grow_failed (kmem_freepages env s2 cachep (s.getpages s.getpages_calls))
              cachep) ∨
          (slabp ≠ 0 ∧ r = 1 ∧
            s' = grow_finish env s2 cachep slabp (s.getpages s.getpages_calls)))) := by
  by_cases h1 : flags &&& ((ULONG - 1) ^^^
      ((env.SLAB_DMA ||| env.SLAB_LEVEL_MASK ||| env.SLAB_NO_GROW) % ULONG)) ≠ 0
  · unfold kmem_cache_grow at h
    rw [if_pos h1] at h
    cases h
  by_cases h2 : flags &&& env.SLAB_NO_GROW ≠ 0
  · unfold kmem_cache_grow at h
    rw [if_neg h1, if_pos h2] at h
    simp only [Option.some.injEq, Prod.mk.injEq] at h
    exact Or.inl ⟨h.1.symm, h.2.symm⟩
  by_cases h3 : env.in_interrupt = true ∧ flags &&& env.SLAB_LEVEL_MASK ≠ env.SLAB_ATOMIC
  · unfold kmem_cache_grow at h
    rw [if_neg h1, if_neg h2, if_pos h3] at h
    cases h
  have hf : grow_flags_ok env flags := ⟨not_not.mp h1, not_not.mp h2, h3⟩
  by_cases hp : s.getpages s.getpages_calls = 0
  · unfold kmem_cache_grow at h
    rw [if_neg h1, if_neg h2, if_neg h3] at h
    simp only [kmem_getpages] at h
    rw [if_pos hp] at h
    simp only [Option.some.injEq, Prod.mk.injEq] at h
    exact Or.inr (Or.inl ⟨hp, h.1.symm, h.2.symm⟩)
  refine Or.inr (Or.inr ⟨hf, hp, ?_⟩)
  rw [kmem_cache_grow_eq alloc env s cachep flags hf hp] at h
  cases hm : kmem_cache_slabmgmt alloc env (grow_start s cachep) cachep
      (s.getpages s.getpages_calls) (grow_offset s cachep)
      (flags &&& env.SLAB_LEVEL_MASK) with
  | none => rw [hm] at h; cases h
  | some x =>
    obtain ⟨s2, slabp⟩ := x
    rw [hm] at h
    dsimp only at h
    refine ⟨s2, slabp, rfl, ?_⟩
    by_cases hz : slabp = 0
    · rw [if_pos hz] at h
      simp only [Option.some.injEq, Prod.mk.injEq] at h
      exact Or.inl ⟨hz, h.2.symm, h.1.symm⟩
    · rw [if_neg hz] at h
      simp only [Option.some.injEq, Prod.mk.injEq] at h
      exact Or.inr ⟨hz, h.2.symm, h.1.symm⟩

theorem kmem_cache_slabmgmt_cases
    (alloc : kmem_state → Nat → Nat → Option (kmem_state × Nat))
    (env : slab_env) (s : kmem_state) (cachep objp off lf : Nat) (s2 : kmem_state) (slabp : Nat)
    (h : kmem_cache_slabmgmt alloc env s cachep objp off lf = some (s2, slabp)) :
    ∃ s1, ((s.cache cachep).flags &&& CFLGS_OFF_SLAB ≠ 0 ∧
          alloc s (s.cache cachep).slabp_cache lf = some (s1, slabp) ∨
        (s.cache cachep).flags &&& CFLGS_OFF_SLAB = 0 ∧ s1 = s ∧
          slabp = (objp + off) % ULONG) ∧
      ((slabp = 0 ∧ s2 = s1) ∨
        ∃ co, s2 = { s1 with
          slab := upd s1.slab slabp
            { s1.slab slabp with
              inuse := 0
              colouroff := co
              s_mem := (objp + co) % ULONG } } ∧
          (co = off ∧ (s.cache cachep).flags &&& CFLGS_OFF_SLAB ≠ 0 ∨
            co = (off + L1_CACHE_ALIGN env.cfg
              ((((s.cache cachep).num * sizeof_kmem_bufctl_t) % ULONG
                + sizeof_slab_t) % ULONG)) % ULONG ∧
              (s.cache cachep).flags &&& CFLGS_OFF_SLAB = 0)) := by
  unfold kmem_cache_slabmgmt at h
  by_cases ho : (s.cache cachep).flags &&& CFLGS_OFF_SLAB ≠ 0
  · rw [if_pos ho] at h
    cases ha : alloc s (s.cache cachep).slabp_cache lf with
    | none => rw [ha] at h; cases h
    | some x =>
      obtain ⟨s1, r⟩ := x
      rw [ha] at h
      dsimp only at h
      by_cases hr : r = 0
      · rw [if_pos hr] at h
        simp only [Option.some.injEq, Prod.mk.injEq] at h
        obtain ⟨e1, e2⟩ := h
        subst e1 e2
        exact ⟨s1, Or.inl ⟨ho, by rw [hr]⟩, Or.inl ⟨rfl, rfl⟩⟩
      · rw [if_neg hr] at h
        simp only [Option.some.injEq, Prod.mk.injEq] at h
        obtain ⟨e1, e2⟩ := h
        subst e2
        exact ⟨s1, Or.inl ⟨ho, rfl⟩, Or.inr ⟨off, e1.symm, Or.inl ⟨rfl, ho⟩⟩⟩
  · rw [if_neg ho] at h
    simp only [Option.some.injEq, Prod.mk.injEq] at h
    obtain ⟨e1, e2⟩ := h
    subst e2
    exact ⟨s, Or.inr ⟨not_not.mp ho, rfl, rfl⟩,
      Or.inr ⟨_, e1.symm, Or.inr ⟨rfl, not_not.mp ho⟩⟩⟩

theorem state_same_upd (s : kmem_state) (cachep : Nat) (c : kmem_cache_t) (s2 : kmem_state)
    (hc : s2.cache = upd s.cache cachep c) (h : cache_same (s.cache cachep) c) :
    state_same s s2 := by
  intro x
  rw [hc]
  exact cache_same_upd s.cache cachep c h x

theorem alloc_one_tail_same (s : kmem_state) (cachep slabp : Nat) :
    state_same s (kmem_cache_alloc_one_tail s cachep slabp).1 := by
  obtain ⟨fnf, h⟩ := alloc_one_tail_form s cachep slabp
  rw [h]
  exact state_same_upd s cachep _ _ rfl (cache_same_refl _)

theorem alloc_batch_loop_same (cachep cc : Nat) :
    ∀ (n : Nat) (s : kmem_state), state_same s (alloc_batch_loop cachep cc n s) := by
  intro n
  induction n with
  | zero => intro s; exact state_same_refl s
  | succ n ih =>
    intro s
    simp only [alloc_batch_loop]
    cases hf : (s.cache cachep).firstnotfull with
    | none => exact state_same_refl s
    | some slabp =>
      dsimp only
      refine state_same_trans _ _ _ ?_ (ih _)
      exact alloc_one_tail_same s cachep slabp

theorem alloc_batch_same (env : slab_env) (s : kmem_state) (cachep : Nat) (s' : kmem_state)
    (r : Nat) (h : kmem_cache_alloc_batch env s cachep = some (s', r)) : state_same s s' := by
  unfold kmem_cache_alloc_batch at h
  by_cases hb : (s.cache cachep).batchcount > INT_MAX
  · rw [if_pos hb] at h; cases h
  · rw [if_neg hb] at h
    dsimp only at h
    split at h
    · simp only [Option.some.injEq, Prod.mk.injEq] at h
      rw [← h.1]
      exact alloc_batch_loop_same cachep _ _ s
    · simp only [Option.some.injEq, Prod.mk.injEq] at h
      rw [← h.1]
      exact alloc_batch_loop_same cachep _ _ s

theorem alloc_pass_same (env : slab_env) (s : kmem_state) (cachep : Nat) (s' : kmem_state)
    (r : Option Nat) (h : alloc_pass env s cachep = some (s', r)) : state_same s s' := by
  unfold alloc_pass at h
  by_cases hcc : (s.cache cachep).cpudata env.cpu ≠ 0
  · rw [if_pos hcc] at h
    dsimp only at h
    by_cases ha : (s.cpucache ((s.cache cachep).cpudata env.cpu)).avail ≠ 0
    · rw [if_pos ha] at h
      simp only [Option.some.injEq, Prod.mk.injEq] at h
      rw [← h.1]
      exact state_same_refl s
    · rw [if_neg ha] at h
      cases hb : kmem_cache_alloc_batch env s cachep with
      | none => rw [hb] at h; cases h
      | some x =>
        obtain ⟨s1, objp⟩ := x
        rw [hb] at h
        dsimp only at h
        have hs := alloc_batch_same env s cachep s1 objp hb
        split at h
        · simp only [Option.some.injEq, Prod.mk.injEq] at h
          rw [← h.1]; exact hs
        · simp only [Option.some.injEq, Prod.mk.injEq] at h
          rw [← h.1]; exact hs
  · rw [if_neg hcc] at h
    unfold kmem_cache_alloc_one at h
    cases hf : (s.cache cachep).firstnotfull with
    | none =>
      rw [hf] at h
      simp only [Option.some.injEq, Prod.mk.injEq] at h
      rw [← h.1]
      exact state_same_refl s
    | some slabp =>
      rw [hf] at h
      simp only [Option.some.injEq, Prod.mk.injEq] at h
      rw [← h.1]
      exact alloc_one_tail_same s cachep slabp

theorem grow_start_same (s : kmem_state) (cachep : Nat) : state_same s (grow_start s cachep) :=
  state_same_upd s cachep _ _ rfl ⟨rfl, rfl, rfl, rfl, rfl, rfl, rfl, rfl, rfl, rfl, rfl, rfl, rfl⟩

theorem grow_failed_same (s : kmem_state) (cachep : Nat) :
    state_same s (grow_failed s cachep) :=
  state_same_upd s cachep _ _ rfl ⟨rfl, rfl, rfl, rfl, rfl, rfl, rfl, rfl, rfl, rfl, rfl, rfl, rfl⟩

theorem grow_finish_same (env : slab_env) (s : kmem_state) (cachep slabp objp : Nat) :
    state_same s (grow_finish env s cachep slabp objp) := by
  intro x
  by_cases hx : x = cachep
  · subst hx
    rw [(grow_finish_cache env s x slabp objp).1]
    exact ⟨rfl, rfl, rfl, rfl, rfl, rfl, rfl, rfl, rfl, rfl, rfl, rfl, rfl⟩
  · rw [(grow_finish_cache env s cachep slabp objp).2 x hx]
    exact cache_same_refl _

theorem slabmgmt_same (alloc : kmem_state → Nat → Nat → Option (kmem_state × Nat))
    (halloc : ∀ s c f s' r, alloc s c f = some (s', r) → state_same s s')
    (env : slab_env) (s : kmem_state) (cachep objp off lf : Nat) (s2 : kmem_state) (slabp : Nat)
    (h : kmem_cache_slabmgmt alloc env s cachep objp off lf = some (s2, slabp)) :
    state_same s s2 := by
  obtain ⟨s1, h1, h2⟩ := kmem_cache_slabmgmt_cases alloc env s cachep objp off lf s2 slabp h
  have hs1 : state_same s s1 := by
    rcases h1 with ⟨_, ha⟩ | ⟨_, e, _⟩
    · exact halloc _ _ _ _ _ ha
    · rw [e]; exact state_same_refl s
  rcases h2 with ⟨_, e⟩ | ⟨co, e, _⟩
  · rw [e]; exact hs1
  · rw [e]; exact hs1

theorem grow_same (alloc : kmem_state → Nat → Nat → Option (kmem_state × Nat))
    (halloc : ∀ s c f s' r, alloc s c f = some (s', r) → state_same s s')
    (env : slab_env) (s : kmem_state) (cachep flags : Nat) (s' : kmem_state) (r : Nat)
    (h : kmem_cache_grow alloc env s cachep flags = some (s', r)) : state_same s s' := by
  rcases kmem_cache_grow_cases alloc env s cachep flags s' r h with
    ⟨e, _⟩ | ⟨_, e, _⟩ | ⟨_, _, s2, slabp, hm, hc⟩
  · rw [e]; exact state_same_refl s
  · rw [e]
    exact state_same_trans _ _ _ (grow_start_same s cachep) (grow_failed_same _ cachep)
  · have h2 : state_same s s2 :=
      state_same_trans _ _ _ (grow_start_same s cachep)
        (slabmgmt_same alloc halloc env _ cachep _ _ _ s2 slabp hm)
    rcases hc with ⟨_, _, e⟩ | ⟨_, _, e⟩
    · rw [e]
      refine state_same_trans _ _ _ h2 (state_same_trans _ _ _ ?_ (grow_failed_same _ cachep))
      exact state_same_refl _
    · rw [e]
      exact state_same_trans _ _ _ h2 (grow_finish_same env s2 cachep slabp _)

theorem alloc_same (env : slab_env) :
    ∀ (n : Nat) (s : kmem_state) (cachep flags : Nat) (s' : kmem_state) (r : Nat),
      __kmem_cache_alloc env n s cachep flags = some (s', r) → state_same s s' := by
  intro n
  induction n with
  | zero => intro s cachep flags s' r h; rw [__kmem_cache_alloc] at h; cases h
  | succ n ih =>
    intro s cachep flags s' r h
    rw [__kmem_cache_alloc] at h
    cases hp : alloc_pass env s cachep with
    | none => rw [hp] at h; cases h
    | some x =>
      obtain ⟨s1, ro⟩ := x
      rw [hp] at h
      have hs1 := alloc_pass_same env s cachep s1 ro hp
      cases ro with
      | some objp =>
        simp only [Option.some.injEq, Prod.mk.injEq] at h
        rw [← h.1]; exact hs1
      | none =>
        dsimp only at h
        cases hg : kmem_cache_grow (__kmem_cache_alloc env n) env s1 cachep flags with
        | none => rw [hg] at h; cases h
        | some y =>
          obtain ⟨s2, grew⟩ := y
          rw [hg] at h
          dsimp only at h
          have hs2 := grow_same (__kmem_cache_alloc env n) ih env s1 cachep flags s2 grew hg
          by_cases hgr : grew ≠ 0
          · rw [if_pos hgr] at h
            exact state_same_trans _ _ _ hs1
              (state_same_trans _ _ _ hs2 (ih s2 cachep flags s' r h))
          · rw [if_neg hgr] at h
            simp only [Option.some.injEq, Prod.mk.injEq] at h
            rw [← h.1]
            exact state_same_trans _ _ _ hs1 hs2

theorem option_map_snd {α β : Type} (o : Option (α × β)) (b : β)
    (h : o.map Prod.snd = some b) : ∃ a, o = some (a, b) := by
  cases o with
  | none => cases h
  | some x =>
    obtain ⟨a, b'⟩ := x
    simp only [Option.map_some', Option.some.injEq] at h
    exact ⟨a, by rw [h]⟩

/-- C11. Slab free-list invariant (`slab_free_ok`): from `free` the index chain
reaches `BUFCTL_END` after exactly `num - inuse` distinct indices, all below
`num`.  For a cache with `1 ≤ num ≤ SLAB_LIMIT`: when `kmem_cache_grow`
returns 1, the new slab (the last of the list) has `inuse = 0`, `free = 0`, the
index array `[1, 2, ..., num-1, BUFCTL_END]` and the chain `0, 1, ..., num-1`,
so the invariant holds for it; `kmem_cache_alloc_one_tail` on a slab that is
not full keeps the invariant of every slab of the cache; and
`kmem_cache_free_one` of an object that is allocated from a slab of the cache
returns and keeps the invariant of every slab of the cache. -/
theorem slab_free_list_invariant (env : slab_env) (s : kmem_state) (cachep : Nat)
    (hN1 : 1 ≤ (s.cache cachep).num) (hN2 : (s.cache cachep).num ≤ SLAB_LIMIT) :
    (∀ n flags s',
      kmem_cache_grow (__kmem_cache_alloc env n) env s cachep flags = some (s', 1) →
      ∃ slabp, (s'.cache cachep).slabs.getLast? = some slabp ∧
        (s'.cache cachep).num = (s.cache cachep).num ∧
        (s'.slab slabp).inuse = 0 ∧ (s'.slab slabp).free = 0 ∧
        (∀ i, i + 1 < (s.cache cachep).num → (s'.slab slabp).bufctl i = i + 1) ∧
        (s'.slab slabp).bufctl ((s.cache cachep).num - 1) = BUFCTL_END ∧
        is_chain (s'.slab slabp).bufctl (s'.slab slabp).free
          (List.range' 0 (s.cache cachep).num) ∧
        slab_free_ok (s'.cache cachep).num (s'.slab slabp)) ∧
    (cache_free_ok s cachep → ∀ slabp, (s.slab slabp).inuse < (s.cache cachep).num →
      cache_free_ok (kmem_cache_alloc_one_tail s cachep slabp).1 cachep) ∧
    (cache_free_ok s cachep → ∀ objp,
      s.page_slab (virt_to_page env objp) ∈ (s.cache cachep).slabs →
      0 < (s.cache cachep).objsize → (s.cache cachep).objsize < ULONG →
      slab_obj_allocated (s.cache cachep).num (s.slab (s.page_slab (virt_to_page env objp)))
        (s.cache cachep).objsize objp →
      ∃ s', kmem_cache_free_one env s cachep objp = some s' ∧ cache_free_ok s' cachep) := by
  refine ⟨?_, ?_, ?_⟩
  · intro n flags s' h
    obtain ⟨_, _, s2, slabp, hz, hm, hs'⟩ :=
      kmem_cache_grow_success (__kmem_cache_alloc env n) env s cachep flags s' h
    have hsame := grow_same (__kmem_cache_alloc env n) (alloc_same env n) env s cachep flags
      s' 1 h cachep
    have hsame2 : (s2.cache cachep).num = (s.cache cachep).num :=
      (state_same_trans _ _ _ (grow_start_same s cachep)
        (slabmgmt_same _ (alloc_same env n) env _ cachep _ _ _ s2 slabp hm) cachep).2.1
    have hin := kmem_cache_slabmgmt_inuse _ env _ cachep _ _ _ s2 slabp hm hz
    obtain ⟨hc1, _⟩ := grow_finish_cache env s2 cachep slabp (s.getpages s.getpages_calls)
    obtain ⟨hsl, _⟩ := grow_finish_slab env s2 cachep slabp (s.getpages s.getpages_calls)
    rw [← hs'] at hc1 hsl
    rw [hsame2, if_neg (by omega)] at hsl
    obtain ⟨hb1, hb2⟩ := grow_bufctl (s2.slab slabp).bufctl (s.cache cachep).num hN1 hN2
    have e1 : (s'.slab slabp).inuse = 0 := by rw [hsl]; exact hin
    have e2 : (s'.slab slabp).free = 0 := by rw [hsl]
    have e3 : ∀ i, i + 1 < (s.cache cachep).num → (s'.slab slabp).bufctl i = i + 1 := by
      intro i hi; rw [hsl]; exact hb1 i hi
    have e4 : (s'.slab slabp).bufctl ((s.cache cachep).num - 1) = BUFCTL_END := by
      rw [hsl]; exact hb2
    obtain ⟨e5, e6⟩ := grow_slab_free_ok (s'.slab slabp) (s.cache cachep).num hN1 hN2 e1 e2 e3 e4
    refine ⟨slabp, ?_, hsame.2.1, e1, e2, e3, e4, e5, ?_⟩
    · rw [hc1]
      simp only [List.getLast?_append, List.getLast?_singleton]
      rfl
    · rw [hsame.2.1]; exact e6
  · intro hinv slabp hfull x hx
    obtain ⟨hc, _, hsl, hoth, _⟩ := alloc_one_tail_cache s cachep slabp
    rw [hc] at hx ⊢
    have hx' : x ∈ (s.cache cachep).slabs := hx
    show slab_free_ok (s.cache cachep).num _
    by_cases e : x = slabp
    · subst e
      rw [hsl]
      exact (alloc_slab_free_ok _ _ (hinv x hx') hfull hN2).2
    · rw [hoth x e]
      exact hinv x hx'
  · intro hinv objp hmem hs1 hs2 hobj
    have hU : ULONG = 4294967296 := rfl
    obtain ⟨s', hs'⟩ := free_one_total env s cachep objp
      (by rw [Nat.mod_eq_of_lt hs2]; omega)
    refine ⟨s', hs', ?_⟩
    obtain ⟨_, slabs, fnf, hform, hslabs⟩ := free_one_form env s cachep objp s' hs'
    obtain ⟨i, hi, ho, hb, hnot⟩ := hobj
    have hnr := free_objnr_eq env s cachep objp i hs1 hs2 ho hb
    have hsub : ∀ x ∈ slabs, x ∈ (s.cache cachep).slabs := by
      intro x hx
      rcases hslabs with e | e | e
      · rw [e] at hx; exact hx
      · rw [e] at hx; exact (move_perm _ _ _ hmem).mem_iff.mp hx
      · rw [e] at hx; exact (move_perm _ _ _ hmem).mem_iff.mp hx
    intro x hx
    rw [hform] at hx ⊢
    simp only [upd_same] at hx ⊢
    by_cases e : x = s.page_slab (virt_to_page env objp)
    · rw [e, upd_same]
      unfold free_slab
      rw [hnr]
      exact (free_slab_free_ok _ _ i (hinv _ hmem) hi hnot hN2).2
    · rw [upd_other _ _ _ _ e]
      exact hinv x (hsub x hx)

/-- Witness for C11: growing the empty cache of `kmem_state_ex` (15 objects
per slab) gives a slab whose chain is `0, 1, ..., 14`. -/
theorem slab_free_list_invariant_witness :
    ∃ s' slabp,
      kmem_cache_grow (__kmem_cache_alloc slab_env_ex 1) slab_env_ex kmem_state_ex 0 0x07 =
        some (s', 1) ∧
      (s'.slab slabp).inuse = 0 ∧
      is_chain (s'.slab slabp).bufctl (s'.slab slabp).free (List.range' 0 15) ∧
      slab_free_ok (s'.cache 0).num (s'.slab slabp) := by
  obtain ⟨s', h⟩ := option_map_snd
    (kmem_cache_grow (__kmem_cache_alloc slab_env_ex 1) slab_env_ex kmem_state_ex 0 0x07) 1
    (by decide)
  obtain ⟨slabp, _, _, h3, _, _, _, h7, h8⟩ :=
    (slab_free_list_invariant slab_env_ex kmem_state_ex 0 (by decide) (by decide)).1 1 0x07 s' h
  exact ⟨s', slabp, h, h3, h7, h8⟩

/-! ## Theorems: the order of the slab list -/

theorem dropWhile_ne_append (a b : List Nat) (x : Nat) (h : x ∉ a) :
    (a ++ x :: b).dropWhile (fun y => decide (y ≠ x)) = x :: b := by
  induction a with
  | nil => simp [List.dropWhile]
  | cons y a ih =>
    have hy : y ≠ x := fun e => h (e ▸ List.mem_cons_self _ _)
    simp only [List.cons_append, List.dropWhile_cons, hy, ne_eq, not_false_eq_true,
      decide_True, if_true]
    exact ih (fun hm => h (List.mem_cons_of_mem _ hm))

theorem takeWhile_ne_append (a b : List Nat) (x : Nat) (h : x ∉ a) :
    (a ++ x :: b).takeWhile (fun y => decide (y ≠ x)) = a := by
  induction a with
  | nil => simp [List.takeWhile]
  | cons y a ih =>
    have hy : y ≠ x := fun e => h (e ▸ List.mem_cons_self _ _)
    simp only [List.cons_append, List.takeWhile_cons, hy, ne_eq, not_false_eq_true,
      decide_True, if_true]
    rw [ih (fun hm => h (List.mem_cons_of_mem _ hm))]

theorem list_next_mid (a b : List Nat) (x : Nat) (h : x ∉ a) :
    list_next (a ++ x :: b) (some x) = b.head? := by
  simp only [list_next, dropWhile_ne_append a b x h]
  cases b <;> rfl

theorem list_prev_mid (a b : List Nat) (x : Nat) (h : x ∉ a) :
    list_prev (a ++ x :: b) (some x) = a.getLast? := by
  simp only [list_prev, takeWhile_ne_append a b x h]

theorem list_del_mid (a b : List Nat) (x : Nat) (h : x ∉ a) :
    list_del (a ++ x :: b) x = a ++ b := by
  unfold list_del
  rw [List.erase_append_right _ h, List.erase_cons_head]

theorem list_add_tail_mid (a b : List Nat) (x t : Nat) (h : t ∉ a) :
    list_add_tail (a ++ t :: b) x (some t) = a ++ x :: t :: b := by
  simp only [list_add_tail, takeWhile_ne_append a b t h, dropWhile_ne_append a b t h]

theorem getLast_snoc (l : List Nat) (z : Nat) : (l ++ [z]).getLast? = some z := by
  simp

theorem list_nil_or_snoc (l : List Nat) : l = [] ∨ ∃ a z, l = a ++ [z] := by
  rcases List.eq_nil_or_concat l with h | ⟨a, z, h⟩
  · exact Or.inl h
  · exact Or.inr ⟨a, z, by rw [h, List.concat_eq_append]⟩

theorem nodup_snoc_not_mem (a : List Nat) (z : Nat) (h : (a ++ [z]).Nodup) : z ∉ a := by
  intro hm
  have := List.nodup_append.mp h
  exact this.2.2 hm (List.mem_singleton_self _)

theorem slab_unlink_order (s : kmem_state) (cachep slabp : Nat)
    (hN : 1 ≤ (s.cache cachep).num)
    (hlast : (s.cache cachep).slabs.getLast? = some slabp)
    (hempty : (s.slab slabp).inuse = 0)
    (h : slab_order_ok s cachep) : slab_order_ok (slab_unlink s cachep slabp) cachep := by
  obtain ⟨hnd, full, part, emp, hl, hf, hp, he, hfn⟩ := h
  -- the last slab is the last empty slab
  have hemp : ∃ e, emp = e ++ [slabp] := by
    rcases list_nil_or_snoc emp with e0 | ⟨e, z, e1⟩
    · subst e0
      rw [List.append_nil] at hl
      rcases list_nil_or_snoc part with p0 | ⟨p, z, p1⟩
      · subst p0
        rw [List.append_nil] at hl
        rcases list_nil_or_snoc full with f0 | ⟨f, z, f1⟩
        · subst f0; rw [hl] at hlast; cases hlast
        · subst f1
          rw [hl, getLast_snoc] at hlast
          simp only [Option.some.injEq] at hlast
          subst hlast
          have := hf z (by simp)
          omega
      · subst p1
        rw [hl, ← List.append_assoc, getLast_snoc] at hlast
        simp only [Option.some.injEq] at hlast
        subst hlast
        exact absurd hempty (hp z (by simp)).1
    · subst e1
      rw [hl, ← List.append_assoc, ← List.append_assoc, getLast_snoc] at hlast
      simp only [Option.some.injEq] at hlast
      subst hlast
      exact ⟨e, rfl⟩
  obtain ⟨e, he1⟩ := hemp
  subst he1
  have hl2 : (s.cache cachep).slabs = (full ++ (part ++ e)) ++ [slabp] := by
    rw [hl]; simp only [List.append_assoc]
  have hnotin : slabp ∉ full ++ (part ++ e) := by
    rw [hl2] at hnd
    exact nodup_snoc_not_mem _ _ hnd
  have hcache : (slab_unlink s cachep slabp).cache cachep =
      { s.cache cachep with
        slabs := full ++ (part ++ e)
        firstnotfull := if (s.cache cachep).firstnotfull = some slabp then none
          else (s.cache cachep).firstnotfull } := by
    simp only [slab_unlink, upd_same]
    rw [hl2, list_del_mid _ _ _ hnotin, List.append_nil]
  have hslab : (slab_unlink s cachep slabp).slab = s.slab := rfl
  refine ⟨?_, full, part, e, ?_, ?_, ?_, ?_, ?_⟩
  · rw [hcache]
    rw [hl2] at hnd
    exact (List.nodup_append.mp hnd).1
  · rw [hcache]
  · intro x hx; rw [hslab, hcache]; exact hf x hx
  · intro x hx; rw [hslab, hcache]; exact hp x hx
  · intro x hx; rw [hslab]; exact he x (List.mem_append_left _ hx)
  · rw [hcache]
    show (if (s.cache cachep).firstnotfull = some slabp then none
      else (s.cache cachep).firstnotfull) = (part ++ e).head?
    rw [hfn]
    cases hpe : part ++ e with
    | nil =>
      have h1 : part = [] := (List.append_eq_nil.mp hpe).1
      have h2 : e = [] := (List.append_eq_nil.mp hpe).2
      subst h1 h2
      simp
    | cons y r =>
      have hy : y ∈ part ++ e := by rw [hpe]; exact List.mem_cons_self _ _
      have hne : y ≠ slabp := fun e2 => hnotin (e2 ▸ List.mem_append_right _ hy)
      have : (part ++ (e ++ [slabp])).head? = some y := by
        rw [← List.append_assoc, hpe]; rfl
      rw [this, if_neg (by simp only [Option.some.injEq]; exact hne)]
      rfl

theorem slab_order_congr (s s2 : kmem_state) (cachep : Nat)
    (h1 : (s2.cache cachep).slabs = (s.cache cachep).slabs)
    (h2 : (s2.cache cachep).firstnotfull = (s.cache cachep).firstnotfull)
    (h3 : (s2.cache cachep).num = (s.cache cachep).num)
    (h4 : ∀ x ∈ (s.cache cachep).slabs, (s2.slab x).inuse = (s.slab x).inuse)
    (h : slab_order_ok s cachep) : slab_order_ok s2 cachep := by
  obtain ⟨hnd, full, part, emp, hl, hf, hp, he, hfn⟩ := h
  have hin : ∀ x, x ∈ full ∨ x ∈ part ∨ x ∈ emp → x ∈ (s.cache cachep).slabs := by
    intro x hx
    rw [hl]
    simp only [List.mem_append]
    tauto
  refine ⟨by rw [h1]; exact hnd, full, part, emp, by rw [h1]; exact hl, ?_, ?_, ?_,
    by rw [h2]; exact hfn⟩
  · intro x hx; rw [h4 x (hin x (Or.inl hx)), h3]; exact hf x hx
  · intro x hx; rw [h4 x (hin x (Or.inr (Or.inl hx))), h3]; exact hp x hx
  · intro x hx; rw [h4 x (hin x (Or.inr (Or.inr hx)))]; exact he x hx

theorem grow_finish_order (env : slab_env) (s2 : kmem_state) (cachep slabp objp : Nat)
    (hfresh : slabp ∉ (s2.cache cachep).slabs) (hin : (s2.slab slabp).inuse = 0)
    (h : slab_order_ok s2 cachep) :
    slab_order_ok (grow_finish env s2 cachep slabp objp) cachep := by
  obtain ⟨hnd, full, part, emp, hl, hf, hp, he, hfn⟩ := h
  obtain ⟨hc, _⟩ := grow_finish_cache env s2 cachep slabp objp
  obtain ⟨hs1, hs2⟩ := grow_finish_slab env s2 cachep slabp objp
  have hinuse : ∀ x ∈ (s2.cache cachep).slabs,
      ((grow_finish env s2 cachep slabp objp).slab x).inuse = (s2.slab x).inuse := by
    intro x hx
    have : x ≠ slabp := fun e => hfresh (e ▸ hx)
    rw [hs2 x this]
  have hmem : ∀ x, x ∈ full ∨ x ∈ part ∨ x ∈ emp → x ∈ (s2.cache cachep).slabs := by
    intro x hx
    rw [hl]
    simp only [List.mem_append]
    tauto
  refine ⟨?_, full, part, emp ++ [slabp], ?_, ?_, ?_, ?_, ?_⟩
  · rw [hc]
    show ((s2.cache cachep).slabs ++ [slabp]).Nodup
    refine List.nodup_append.mpr ⟨hnd, List.nodup_singleton _, ?_⟩
    intro a ha hb
    rw [List.mem_singleton] at hb
    subst hb
    exact hfresh ha
  · rw [hc]
    show (s2.cache cachep).slabs ++ [slabp] = full ++ (part ++ (emp ++ [slabp]))
    rw [hl]; simp only [List.append_assoc]
  · intro x hx
    rw [hinuse x (hmem x (Or.inl hx)), hc]
    exact hf x hx
  · intro x hx
    rw [hinuse x (hmem x (Or.inr (Or.inl hx))), hc]
    exact hp x hx
  · intro x hx
    rcases List.mem_append.mp hx with h1 | h1
    · rw [hinuse x (hmem x (Or.inr (Or.inr h1)))]
      exact he x h1
    · rw [List.mem_singleton] at h1
      subst h1
      rw [hs1]
      exact hin
  · rw [hc]
    show (if (s2.cache cachep).firstnotfull = none then some slabp
      else (s2.cache cachep).firstnotfull) = (part ++ (emp ++ [slabp])).head?
    rw [hfn, ← List.append_assoc]
    cases hpe : part ++ emp with
    | nil => rfl
    | cons y r => rfl

theorem head_append_cases (part emp : List Nat) (x : Nat) (rest : List Nat)
    (h : part ++ emp = x :: rest) :
    (∃ p, part = x :: p ∧ rest = p ++ emp) ∨ (part = [] ∧ emp = x :: rest) := by
  cases part with
  | nil => exact Or.inr ⟨rfl, h⟩
  | cons y p =>
    simp only [List.cons_append, List.cons.injEq] at h
    exact Or.inl ⟨p, by rw [h.1], h.2.symm⟩

theorem alloc_free_end (N : Nat) (sl : slab_t) (h : slab_free_ok N sl) (hfull : sl.inuse < N) :
    (sl.bufctl sl.free = BUFCTL_END ↔ sl.inuse + 1 = N) := by
  obtain ⟨l, hc, hn, hb, hlen⟩ := h
  cases l with
  | nil => simp only [List.length_nil] at hlen; omega
  | cons i l =>
    simp only [is_chain] at hc
    obtain ⟨hfi, _, hc'⟩ := hc
    rw [hfi]
    simp only [List.length_cons] at hlen
    cases l with
    | nil =>
      simp only [is_chain] at hc'
      simp only [List.length_nil] at hlen
      exact ⟨fun _ => by omega, fun _ => hc'⟩
    | cons j l =>
      simp only [is_chain] at hc'
      simp only [List.length_cons] at hlen
      exact ⟨fun e => absurd (hc'.1.symm.trans e ▸ rfl) hc'.2.1, fun _ => by omega⟩

theorem alloc_one_tail_free_ok (s : kmem_state) (cachep slabp : Nat)
    (hN2 : (s.cache cachep).num ≤ SLAB_LIMIT)
    (hfull : (s.slab slabp).inuse < (s.cache cachep).num) (hinv : cache_free_ok s cachep) :
    cache_free_ok (kmem_cache_alloc_one_tail s cachep slabp).1 cachep := by
  intro x hx
  obtain ⟨hc, _, hsl, hoth, _⟩ := alloc_one_tail_cache s cachep slabp
  rw [hc] at hx ⊢
  have hx' : x ∈ (s.cache cachep).slabs := hx
  show slab_free_ok (s.cache cachep).num _
  by_cases e : x = slabp
  · subst e
    rw [hsl]
    exact (alloc_slab_free_ok _ _ (hinv x hx') hfull hN2).2
  · rw [hoth x e]
    exact hinv x hx'

theorem alloc_one_tail_order (s : kmem_state) (cachep slabp : Nat)
    (hN1 : 1 ≤ (s.cache cachep).num) (hN2 : (s.cache cachep).num ≤ SLAB_LIMIT)
    (hfn : (s.cache cachep).firstnotfull = some slabp)
    (ho : slab_order_ok s cachep) (hfr : cache_free_ok s cachep) :
    (s.slab slabp).inuse < (s.cache cachep).num ∧
    slab_order_ok (kmem_cache_alloc_one_tail s cachep slabp).1 cachep := by
  have hS : SLAB_LIMIT = 4294967294 := rfl
  have hU : ULONG = 4294967296 := rfl
  obtain ⟨hnd, full, part, emp, hl, hf, hp, he, hfnf⟩ := ho
  rw [hfn] at hfnf
  obtain ⟨rest, hrest⟩ : ∃ rest, part ++ emp = slabp :: rest := by
    cases hpe : part ++ emp with
    | nil => rw [hpe] at hfnf; cases hfnf
    | cons y r =>
      rw [hpe] at hfnf
      simp only [List.head?_cons, Option.some.injEq] at hfnf
      exact ⟨r, by rw [hfnf]⟩
  have hl2 : (s.cache cachep).slabs = full ++ slabp :: rest := by rw [hl, hrest]
  have hmemx : slabp ∈ (s.cache cachep).slabs := by rw [hl2]; simp
  have hxfull : slabp ∉ full := by
    rw [hl2] at hnd
    have := List.nodup_append.mp hnd
    exact fun hm => this.2.2 hm (List.mem_cons_self _ _)
  have hxrest : slabp ∉ rest := by
    rw [hl2] at hnd
    have := (List.nodup_append.mp hnd).2.1
    exact (List.nodup_cons.mp this).1
  have hok := hfr slabp hmemx
  have hle : (s.slab slabp).inuse ≤ (s.cache cachep).num := by
    obtain ⟨l, _, _, _, hlen⟩ := hok
    omega
  have hnotfull : (s.slab slabp).inuse ≠ (s.cache cachep).num := by
    rcases head_append_cases part emp slabp rest hrest with ⟨p, hp1, _⟩ | ⟨_, he1⟩
    · exact (hp slabp (by rw [hp1]; exact List.mem_cons_self _ _)).2
    · have h0 := he slabp (by rw [he1]; exact List.mem_cons_self _ _)
      omega
  have hlt : (s.slab slabp).inuse < (s.cache cachep).num := by omega
  refine ⟨hlt, ?_⟩
  obtain ⟨hc, _, hsl, hoth, _⟩ := alloc_one_tail_cache s cachep slabp
  have hend := alloc_free_end _ _ hok hlt
  have hinuse' : ((kmem_cache_alloc_one_tail s cachep slabp).1.slab slabp).inuse =
      (s.slab slabp).inuse + 1 := by
    rw [hsl]
    show ((s.slab slabp).inuse + 1) % ULONG = _
    exact Nat.mod_eq_of_lt (by omega)
  have hother : ∀ y, y ≠ slabp →
      ((kmem_cache_alloc_one_tail s cachep slabp).1.slab y).inuse = (s.slab y).inuse := by
    intro y hy; rw [hoth y hy]
  have hnum' : ((kmem_cache_alloc_one_tail s cachep slabp).1.cache cachep).num =
      (s.cache cachep).num := by rw [hc]
  have hslabs' : ((kmem_cache_alloc_one_tail s cachep slabp).1.cache cachep).slabs =
      (s.cache cachep).slabs := by rw [hc]
  have hfull' : ∀ y ∈ full,
      ((kmem_cache_alloc_one_tail s cachep slabp).1.slab y).inuse =
        ((kmem_cache_alloc_one_tail s cachep slabp).1.cache cachep).num := by
    intro y hy
    rw [hother y (fun e => hxfull (e ▸ hy)), hnum']
    exact hf y hy
  by_cases hbecomes : (s.slab slabp).inuse + 1 = (s.cache cachep).num
  · -- the slab becomes full
    have hfnf' : ((kmem_cache_alloc_one_tail s cachep slabp).1.cache cachep).firstnotfull =
        rest.head? := by
      rw [hc]
      show (if _ then _ else _) = _
      rw [if_pos (hend.mpr hbecomes), hl2, list_next_mid _ _ _ hxfull]
    rcases head_append_cases part emp slabp rest hrest with ⟨p, hp1, hr1⟩ | ⟨hp1, he1⟩
    · refine ⟨by rw [hslabs']; exact hnd, full ++ [slabp], p, emp, ?_, ?_, ?_, ?_, ?_⟩
      · rw [hslabs', hl2, hr1]; simp
      · intro y hy
        rcases List.mem_append.mp hy with h1 | h1
        · exact hfull' y h1
        · rw [List.mem_singleton] at h1
          subst h1
          rw [hinuse', hnum']; exact hbecomes
      · intro y hy
        have hyne : y ≠ slabp := fun e => hxrest (by rw [hr1]; exact e ▸ List.mem_append_left _ hy)
        rw [hother y hyne, hnum']
        exact hp y (by rw [hp1]; exact List.mem_cons_of_mem _ hy)
      · intro y hy
        have hyne : y ≠ slabp :=
          fun e => hxrest (by rw [hr1]; exact e ▸ List.mem_append_right _ hy)
        rw [hother y hyne]
        exact he y hy
      · rw [hfnf', hr1]
    · refine ⟨by rw [hslabs']; exact hnd, full ++ [slabp], [], rest, ?_, ?_, ?_, ?_, ?_⟩
      · rw [hslabs', hl2]; simp
      · intro y hy
        rcases List.mem_append.mp hy with h1 | h1
        · exact hfull' y h1
        · rw [List.mem_singleton] at h1
          subst h1
          rw [hinuse', hnum']; exact hbecomes
      · intro y hy; cases hy
      · intro y hy
        have hyne : y ≠ slabp := fun e => hxrest (e ▸ hy)
        rw [hother y hyne]
        exact he y (by rw [he1]; exact List.mem_cons_of_mem _ hy)
      · rw [hfnf']; rfl
  · -- the slab stays on the partial part
    have hfnf' : ((kmem_cache_alloc_one_tail s cachep slabp).1.cache cachep).firstnotfull =
        some slabp := by
      rw [hc]
      show (if _ then _ else _) = _
      rw [if_neg (fun e => hbecomes (hend.mp e)), hfn]
    have hxpart : ((kmem_cache_alloc_one_tail s cachep slabp).1.slab slabp).inuse ≠ 0 ∧
        ((kmem_cache_alloc_one_tail s cachep slabp).1.slab slabp).inuse ≠
          ((kmem_cache_alloc_one_tail s cachep slabp).1.cache cachep).num := by
      rw [hinuse', hnum']
      exact ⟨by omega, hbecomes⟩
    rcases head_append_cases part emp slabp rest hrest with ⟨p, hp1, hr1⟩ | ⟨hp1, he1⟩
    · refine ⟨by rw [hslabs']; exact hnd, full, slabp :: p, emp, ?_, hfull', ?_, ?_, ?_⟩
      · rw [hslabs', hl2, hr1]; simp
      · intro y hy
        rcases List.mem_cons.mp hy with h1 | h1
        · rw [h1]; exact hxpart
        · have hyne : y ≠ slabp :=
            fun e => hxrest (by rw [hr1]; exact e ▸ List.mem_append_left _ h1)
          rw [hother y hyne, hnum']
          exact hp y (by rw [hp1]; exact List.mem_cons_of_mem _ h1)
      · intro y hy
        have hyne : y ≠ slabp :=
          fun e => hxrest (by rw [hr1]; exact e ▸ List.mem_append_right _ hy)
        rw [hother y hyne]
        exact he y hy
      · rw [hfnf']; rfl
    · refine ⟨by rw [hslabs']; exact hnd, full, [slabp], rest, ?_, hfull', ?_, ?_, ?_⟩
      · rw [hslabs', hl2]; simp
      · intro y hy
        rw [List.mem_singleton] at hy
        rw [hy]; exact hxpart
      · intro y hy
        have hyne : y ≠ slabp := fun e => hxrest (e ▸ hy)
        rw [hother y hyne]
        exact he y (by rw [he1]; exact List.mem_cons_of_mem _ hy)
      · rw [hfnf']; rfl

theorem free_one_eq (env : slab_env) (s : kmem_state) (cachep objp x : Nat)
    (hx : s.page_slab (virt_to_page env objp) = x)
    (h0 : (s.cache cachep).objsize % ULONG ≠ 0) :
    kmem_cache_free_one env s cachep objp =
      some { s with
        slab := upd s.slab x (free_slab env s cachep objp)
        cache := upd s.cache cachep
          (if (s.slab x).inuse = (s.cache cachep).num then
            (if list_next (s.cache cachep).slabs (some x) = (s.cache cachep).firstnotfull then
              { s.cache cachep with firstnotfull := some x }
            else
              { s.cache cachep with
                firstnotfull := some x
                slabs := list_add_tail (list_del (s.cache cachep).slabs x) x
                  (s.cache cachep).firstnotfull })
          else if ((s.slab x).inuse + ULONG - 1) % ULONG = 0 then
            (if (s.cache cachep).firstnotfull = some x then
              { s.cache cachep with
                slabs := list_add_tail (list_del (s.cache cachep).slabs x) x none
                firstnotfull := list_next
                  (list_add_tail (list_del (s.cache cachep).slabs x) x none)
                  (list_prev (s.cache cachep).slabs (s.cache cachep).firstnotfull) }
            else
              { s.cache cachep with
                slabs := list_add_tail (list_del (s.cache cachep).slabs x) x none })
          else s.cache cachep) } := by
  subst hx
  unfold kmem_cache_free_one
  rw [if_neg h0]
  dsimp only
  by_cases h1 : (s.slab (s.page_slab (virt_to_page env objp))).inuse = (s.cache cachep).num
  · rw [if_pos h1, if_pos h1]
    by_cases h2 : list_next (s.cache cachep).slabs (some (s.page_slab (virt_to_page env objp))) =
        (s.cache cachep).firstnotfull
    · rw [if_pos h2, if_pos h2]; rfl
    · rw [if_neg h2, if_neg h2]; rfl
  · rw [if_neg h1, if_neg h1]
    by_cases h3 : ((s.slab (s.page_slab (virt_to_page env objp))).inuse + ULONG - 1) % ULONG = 0
    · rw [if_pos h3, if_pos h3]
      by_cases h4 : (s.cache cachep).firstnotfull = some (s.page_slab (virt_to_page env objp))
      · rw [if_pos h4, if_pos h4]; rfl
      · rw [if_neg h4, if_neg h4]; rfl
    · rw [if_neg h3, if_neg h3, upd_self]
      rfl

theorem mem_split_nodup (l : List Nat) (x : Nat) (hx : x ∈ l) (hn : l.Nodup) :
    ∃ a b, l = a ++ x :: b ∧ x ∉ a ∧ x ∉ b := by
  obtain ⟨a, b, hab⟩ := List.append_of_mem hx
  subst hab
  have h1 := List.nodup_append.mp hn
  exact ⟨a, b, rfl, fun hm => h1.2.2 hm (List.mem_cons_self _ _), (List.nodup_cons.mp h1.2.1).1⟩

theorem free_one_order (env : slab_env) (s : kmem_state) (cachep objp : Nat)
    (hN1 : 1 ≤ (s.cache cachep).num) (hN2 : (s.cache cachep).num ≤ SLAB_LIMIT)
    (h0 : (s.cache cachep).objsize % ULONG ≠ 0)
    (hmem : s.page_slab (virt_to_page env objp) ∈ (s.cache cachep).slabs)
    (hin1 : 1 ≤ (s.slab (s.page_slab (virt_to_page env objp))).inuse)
    (hle : ∀ y ∈ (s.cache cachep).slabs, (s.slab y).inuse ≤ (s.cache cachep).num)
    (ho : slab_order_ok s cachep) :
    ∃ s', kmem_cache_free_one env s cachep objp = some s' ∧ slab_order_ok s' cachep := by
  have hS : SLAB_LIMIT = 4294967294 := rfl
  have hU : ULONG = 4294967296 := rfl
  obtain ⟨x, hx⟩ : ∃ x, s.page_slab (virt_to_page env objp) = x := ⟨_, rfl⟩
  rw [hx] at hmem hin1
  refine ⟨_, free_one_eq env s cachep objp x hx h0, ?_⟩
  obtain ⟨hnd, full, part, emp, hl, hf, hp, he, hfn⟩ := ho
  have hxle := hle x hmem
  have hinuse' : (free_slab env s cachep objp).inuse = (s.slab x).inuse - 1 := by
    unfold free_slab
    rw [hx]
    show ((s.slab x).inuse + ULONG - 1) % ULONG = _
    rw [show (s.slab x).inuse + ULONG - 1 = ((s.slab x).inuse - 1) + ULONG by omega,
      Nat.add_mod_right]
    exact Nat.mod_eq_of_lt (by omega)
  have hmod : ((s.slab x).inuse + ULONG - 1) % ULONG = (s.slab x).inuse - 1 := by
    rw [show (s.slab x).inuse + ULONG - 1 = ((s.slab x).inuse - 1) + ULONG by omega,
      Nat.add_mod_right]
    exact Nat.mod_eq_of_lt (by omega)
  have hndl := hnd
  rw [hl] at hndl
  have hd1 := List.nodup_append.mp hndl
  have hd2 := List.nodup_append.mp hd1.2.1
  by_cases hfullx : (s.slab x).inuse = (s.cache cachep).num
  · -- the slab was full
    have hxf : x ∈ full := by
      rw [hl] at hmem
      rcases List.mem_append.mp hmem with h1 | h1
      · exact h1
      · rcases List.mem_append.mp h1 with h2 | h2
        · exact absurd hfullx (hp x h2).2
        · have := he x h2; omega
    obtain ⟨a, b, hab, hxa, hxb⟩ := mem_split_nodup full x hxf hd1.1
    have hxpe : x ∉ part ++ emp := fun hm => hd1.2.2 hxf hm
    have hpart_nil : (s.cache cachep).num = 1 → part = [] := by
      intro h1
      cases part with
      | nil => rfl
      | cons y p =>
        have hy := hp y (List.mem_cons_self _ _)
        have := hle y (by rw [hl]; simp)
        omega
    -- in both branches the new list is `a ++ b ++ x :: (part ++ emp)`
    have hnew : (if list_next (s.cache cachep).slabs (some x) = (s.cache cachep).firstnotfull
        then ({ s.cache cachep with firstnotfull := some x } : kmem_cache_t)
        else
          { s.cache cachep with
            firstnotfull := some x
            slabs := list_add_tail (list_del (s.cache cachep).slabs x) x
              (s.cache cachep).firstnotfull }) =
        { s.cache cachep with
          firstnotfull := some x
          slabs := (a ++ b) ++ x :: (part ++ emp) } := by
      have hl3 : (s.cache cachep).slabs = a ++ x :: (b ++ (part ++ emp)) := by
        rw [hl, hab]; simp
      have hnext : list_next (s.cache cachep).slabs (some x) = (b ++ (part ++ emp)).head? := by
        rw [hl3, list_next_mid _ _ _ hxa]
      by_cases hc : list_next (s.cache cachep).slabs (some x) = (s.cache cachep).firstnotfull
      · rw [if_pos hc]
        rw [hnext, hfn] at hc
        have hb : b = [] := by
          cases b with
          | nil => rfl
          | cons b0 b1 =>
            exfalso
            simp only [List.cons_append, List.head?_cons] at hc
            cases hpe : part ++ emp with
            | nil => rw [hpe] at hc; cases hc
            | cons y r =>
              rw [hpe] at hc
              simp only [List.head?_cons, Option.some.injEq] at hc
              have h1 : b0 ∈ full := by rw [hab]; simp
              have h2 : b0 ∈ part ++ emp := by rw [hpe, hc]; exact List.mem_cons_self _ _
              exact hd1.2.2 h1 h2
        subst hb
        have : (s.cache cachep).slabs = (a ++ []) ++ x :: (part ++ emp) := by
          rw [hl3]; simp
        rw [← this]
      · rw [if_neg hc]
        have hdel : list_del (s.cache cachep).slabs x = (a ++ b) ++ (part ++ emp) := by
          rw [hl3, list_del_mid _ _ _ hxa]; simp
        rw [hdel, hfn]
        cases hpe : part ++ emp with
        | nil =>
          simp only [List.head?_nil, list_add_tail, List.append_nil]
        | cons y r =>
          have hy : y ∉ a ++ b := by
            intro hm
            have h1 : y ∈ full := by
              rw [hab]
              rcases List.mem_append.mp hm with h | h
              · exact List.mem_append_left _ h
              · exact List.mem_append_right _ (List.mem_cons_of_mem _ h)
            have h2 : y ∈ part ++ emp := by rw [hpe]; exact List.mem_cons_self _ _
            exact hd1.2.2 h1 h2
          simp only [List.head?_cons]
          rw [list_add_tail_mid _ _ _ _ hy]
    rw [if_pos hfullx, hnew]
    have hfull' : ∀ y ∈ a ++ b, y ≠ x ∧ y ∈ full := by
      intro y hy
      rcases List.mem_append.mp hy with h | h
      · exact ⟨fun e => hxa (e ▸ h), by rw [hab]; exact List.mem_append_left _ h⟩
      · exact ⟨fun e => hxb (e ▸ h),
          by rw [hab]; exact List.mem_append_right _ (List.mem_cons_of_mem _ h)⟩
    have hndnew : ((a ++ b) ++ x :: (part ++ emp)).Nodup := by
      have hperm : ((a ++ b) ++ x :: (part ++ emp)).Perm (full ++ (part ++ emp)) := by
        rw [hab]
        have h1 : ((a ++ b) ++ x :: (part ++ emp)).Perm (x :: ((a ++ b) ++ (part ++ emp))) :=
          List.perm_middle
        have h2 : ((a ++ x :: b) ++ (part ++ emp)).Perm (x :: ((a ++ b) ++ (part ++ emp))) := by
          rw [List.append_assoc, List.cons_append, List.append_assoc]
          exact List.perm_middle
        exact h1.trans h2.symm
      exact hperm.nodup_iff.mpr hndl
    by_cases hone : (s.cache cachep).num = 1
    · have hpn := hpart_nil hone
      subst hpn
      refine ⟨by simp only [upd_same]; exact hndnew, a ++ b, [], x :: emp, ?_, ?_, ?_, ?_, ?_⟩
      · simp only [upd_same, List.nil_append]
      · intro y hy
        obtain ⟨hyx, hyf⟩ := hfull' y hy
        simp only [upd_same, upd_other _ _ _ _ hyx]
        exact hf y hyf
      · intro y hy; cases hy
      · intro y hy
        rcases List.mem_cons.mp hy with h | h
        · rw [h]
          simp only [upd_same]
          rw [hinuse']; omega
        · have hyx : y ≠ x := fun e => hxpe (e ▸ List.mem_append_right _ h)
          simp only [upd_other _ _ _ _ hyx]
          exact he y h
      · simp only [upd_same, List.nil_append, List.head?_cons]
    · refine ⟨by simp only [upd_same]; exact hndnew, a ++ b, x :: part, emp, ?_, ?_, ?_, ?_, ?_⟩
      · simp only [upd_same, List.cons_append]
      · intro y hy
        obtain ⟨hyx, hyf⟩ := hfull' y hy
        simp only [upd_same, upd_other _ _ _ _ hyx]
        exact hf y hyf
      · intro y hy
        rcases List.mem_cons.mp hy with h | h
        · rw [h]
          simp only [upd_same]
          rw [hinuse']
          exact ⟨by omega, by omega⟩
        · have hyx : y ≠ x := fun e => hxpe (e ▸ List.mem_append_left _ h)
          simp only [upd_same, upd_other _ _ _ _ hyx]
          exact hp y h
      · intro y hy
        have hyx : y ≠ x := fun e => hxpe (e ▸ List.mem_append_right _ hy)
        simp only [upd_other _ _ _ _ hyx]
        exact he y hy
      · simp only [upd_same, List.cons_append, List.head?_cons]
  · -- the slab was partially used
    have hxp : x ∈ part := by
      rw [hl] at hmem
      rcases List.mem_append.mp hmem with h1 | h1
      · exact absurd (hf x h1) hfullx
      · rcases List.mem_append.mp h1 with h2 | h2
        · exact h2
        · have := he x h2; omega
    obtain ⟨a, b, hab, hxa, hxb⟩ := mem_split_nodup part x hxp hd2.1
    have hxfull : x ∉ full := fun hm => hd1.2.2 hm (List.mem_append_left _ hxp)
    have hxemp : x ∉ emp := fun hm => hd2.2.2 hxp hm
    rw [if_neg hfullx, hmod]
    by_cases hzero : (s.slab x).inuse - 1 = 0
    · -- now empty: the slab goes to the end of the list
      rw [if_pos hzero]
      have hl3 : (s.cache cachep).slabs = (full ++ a) ++ x :: (b ++ emp) := by
        rw [hl, hab]; simp
      have hxfa : x ∉ full ++ a := by
        intro hm
        rcases List.mem_append.mp hm with h | h
        · exact hxfull h
        · exact hxa h
      have hdel : list_add_tail (list_del (s.cache cachep).slabs x) x none =
          full ++ ((a ++ b) ++ (emp ++ [x])) := by
        rw [hl3, list_del_mid _ _ _ hxfa]
        simp [list_add_tail]
      have hndnew : (full ++ ((a ++ b) ++ (emp ++ [x]))).Nodup := by
        rw [← hdel]
        exact (move_perm _ x none hmem).nodup_iff.mpr hnd
      have hfnf : (if (s.cache cachep).firstnotfull = some x then
            ({ s.cache cachep with
              slabs := list_add_tail (list_del (s.cache cachep).slabs x) x none
              firstnotfull := list_next
                (list_add_tail (list_del (s.cache cachep).slabs x) x none)
                (list_prev (s.cache cachep).slabs (s.cache cachep).firstnotfull) } :
              kmem_cache_t)
          else
            { s.cache cachep with
              slabs := list_add_tail (list_del (s.cache cachep).slabs x) x none }) =
          { s.cache cachep with
            slabs := full ++ ((a ++ b) ++ (emp ++ [x]))
            firstnotfull := ((a ++ b) ++ (emp ++ [x])).head? } := by
        rw [hdel]
        by_cases hc : (s.cache cachep).firstnotfull = some x
        · rw [if_pos hc]
          have ha : a = [] := by
            cases a with
            | nil => rfl
            | cons a0 a1 =>
              exfalso
              rw [hfn, hab] at hc
              simp only [List.cons_append, List.head?_cons, Option.some.injEq] at hc
              exact hxa (hc ▸ List.mem_cons_self _ _)
          subst ha
          rw [hc]
          have hprev : list_prev (s.cache cachep).slabs (some x) = full.getLast? := by
            rw [hl3, list_prev_mid _ _ _ hxfa, List.append_nil]
          rw [hprev]
          rcases list_nil_or_snoc full with hf0 | ⟨f, z, hf1⟩
          · subst hf0
            simp only [List.getLast?_nil, list_next, List.nil_append]
          · subst hf1
            rw [getLast_snoc]
            have hz : z ∉ f := nodup_snoc_not_mem f z hd1.1
            have : (f ++ [z]) ++ (([] ++ b) ++ (emp ++ [x])) =
                f ++ z :: (([] ++ b) ++ (emp ++ [x])) := by simp
            rw [this, list_next_mid _ _ _ hz]
        · rw [if_neg hc]
          have ha : (a ++ b ++ (emp ++ [x])).head? = (s.cache cachep).firstnotfull := by
            rw [hfn, hab]
            cases a with
            | nil =>
              exfalso
              apply hc
              rw [hfn, hab]
              rfl
            | cons a0 a1 => rfl
          rw [ha]
      rw [hfnf]
      refine ⟨by simp only [upd_same]; exact hndnew, full, a ++ b, emp ++ [x], ?_, ?_, ?_,
        ?_, ?_⟩
      · simp only [upd_same]
      · intro y hy
        have hyx : y ≠ x := fun e => hxfull (e ▸ hy)
        simp only [upd_same, upd_other _ _ _ _ hyx]
        exact hf y hy
      · intro y hy
        have hyp : y ∈ part ∧ y ≠ x := by
          rcases List.mem_append.mp hy with h | h
          · exact ⟨by rw [hab]; exact List.mem_append_left _ h, fun e => hxa (e ▸ h)⟩
          · exact ⟨by rw [hab]; exact List.mem_append_right _ (List.mem_cons_of_mem _ h),
              fun e => hxb (e ▸ h)⟩
        simp only [upd_same, upd_other _ _ _ _ hyp.2]
        exact hp y hyp.1
      · intro y hy
        rcases List.mem_append.mp hy with h | h
        · have hyx : y ≠ x := fun e => hxemp (e ▸ h)
          simp only [upd_other _ _ _ _ hyx]
          exact he y h
        · rw [List.mem_singleton] at h
          rw [h]
          simp only [upd_same]
          rw [hinuse']; exact hzero
      · simp only [upd_same]
    · -- still partially used: nothing moves
      rw [if_neg hzero]
      refine ⟨by simp only [upd_same]; exact hnd, full, part, emp, ?_, ?_, ?_, ?_, ?_⟩
      · simp only [upd_same]; exact hl
      · intro y hy
        have hyx : y ≠ x := fun e => hxfull (e ▸ hy)
        simp only [upd_same, upd_other _ _ _ _ hyx]
        exact hf y hy
      · intro y hy
        by_cases hyx : y = x
        · rw [hyx]
          simp only [upd_same]
          rw [hinuse']
          exact ⟨hzero, by omega⟩
        · simp only [upd_same, upd_other _ _ _ _ hyx]
          exact hp y hy
      · intro y hy
        have hyx : y ≠ x := fun e => hxemp (e ▸ hy)
        simp only [upd_other _ _ _ _ hyx]
        exact he y hy
      · simp only [upd_same]; exact hfn

theorem alloc_batch_loop_order (cachep cc : Nat) :
    ∀ (n : Nat) (s : kmem_state),
      1 ≤ (s.cache cachep).num → (s.cache cachep).num ≤ SLAB_LIMIT →
      slab_order_ok s cachep → cache_free_ok s cachep →
      slab_order_ok (alloc_batch_loop cachep cc n s) cachep ∧
      cache_free_ok (alloc_batch_loop cachep cc n s) cachep := by
  intro n
  induction n with
  | zero => intro s _ _ ho hfr; exact ⟨ho, hfr⟩
  | succ n ih =>
    intro s hN1 hN2 ho hfr
    simp only [alloc_batch_loop]
    cases hf : (s.cache cachep).firstnotfull with
    | none => exact ⟨ho, hfr⟩
    | some slabp =>
      dsimp only
      obtain ⟨hlt, ho1⟩ := alloc_one_tail_order s cachep slabp hN1 hN2 hf ho hfr
      have hfr1 := alloc_one_tail_free_ok s cachep slabp hN2 hlt hfr
      have hnum : ((kmem_cache_alloc_one_tail s cachep slabp).1.cache cachep).num =
          (s.cache cachep).num := (alloc_one_tail_same s cachep slabp cachep).2.1
      have h1 : 1 ≤ ((kmem_cache_alloc_one_tail s cachep slabp).1.cache cachep).num := by
        rw [hnum]; exact hN1
      have h2 : ((kmem_cache_alloc_one_tail s cachep slabp).1.cache cachep).num ≤ SLAB_LIMIT := by
        rw [hnum]; exact hN2
      exact ih _ h1 h2 ho1 hfr1

/-- C12. Slab-list order invariant (`slab_order_ok`): the full slabs come
first, then the partially used ones, then the empty ones, and `firstnotfull`
points at the first slab that is not full (at the list head when there is
none).  In a cache with `1 ≤ num ≤ SLAB_LIMIT` whose slabs satisfy the
free-list invariant, the order invariant is kept by a `kmem_cache_grow` that
returns 1 and links a slab that was not on the list (for an off-slab cache:
provided the allocation of the slab descriptor left the list and the `inuse`
counts of this cache alone), by `kmem_cache_alloc_one_tail` on the slab
`firstnotfull` points at and by the refill loop of `kmem_cache_alloc_batch`, by
`kmem_cache_free_one` of an object allocated from a slab of the cache, and by
the removal of the last slab, when that has no object in use, as
`__kmem_cache_shrink` and `kmem_cache_reap` do it. -/
theorem slab_list_order_invariant (env : slab_env) (s : kmem_state) (cachep : Nat)
    (hN1 : 1 ≤ (s.cache cachep).num) (hN2 : (s.cache cachep).num ≤ SLAB_LIMIT)
    (ho : slab_order_ok s cachep) (hfr : cache_free_ok s cachep) :
    (∀ n flags s',
      kmem_cache_grow (__kmem_cache_alloc env n) env s cachep flags = some (s', 1) →
      ((s.cache cachep).flags &&& CFLGS_OFF_SLAB ≠ 0 → ∀ s1 r,
        __kmem_cache_alloc env n (grow_start s cachep) (s.cache cachep).slabp_cache
          (flags &&& env.SLAB_LEVEL_MASK) = some (s1, r) →
        (s1.cache cachep).slabs = (s.cache cachep).slabs ∧
        (s1.cache cachep).firstnotfull = (s.cache cachep).firstnotfull ∧
        ∀ x ∈ (s.cache cachep).slabs, (s1.slab x).inuse = (s.slab x).inuse) →
      (∀ slabp, (s'.cache cachep).slabs.getLast? = some slabp →
        slabp ∉ (s.cache cachep).slabs) →
      slab_order_ok s' cachep) ∧
    (∀ slabp, (s.cache cachep).firstnotfull = some slabp →
      slab_order_ok (kmem_cache_alloc_one_tail s cachep slabp).1 cachep) ∧
    (∀ cc n, slab_order_ok (alloc_batch_loop cachep cc n s) cachep) ∧
    (∀ objp, s.page_slab (virt_to_page env objp) ∈ (s.cache cachep).slabs →
      0 < (s.cache cachep).objsize → (s.cache cachep).objsize < ULONG →
      slab_obj_allocated (s.cache cachep).num (s.slab (s.page_slab (virt_to_page env objp)))
        (s.cache cachep).objsize objp →
      ∃ s', kmem_cache_free_one env s cachep objp = some s' ∧ slab_order_ok s' cachep) ∧
    (∀ slabp, shrink_next s cachep = some slabp →
      slab_order_ok (slab_unlink s cachep slabp) cachep) := by
  refine ⟨?_, ?_, ?_, ?_, ?_⟩
  · intro n flags s' h hframe hfresh
    obtain ⟨_, _, s2, slabp, hz, hm, hs'⟩ :=
      kmem_cache_grow_success (__kmem_cache_alloc env n) env s cachep flags s' h
    have hin := kmem_cache_slabmgmt_inuse _ env _ cachep _ _ _ s2 slabp hm hz
    have hnum2 : (s2.cache cachep).num = (s.cache cachep).num :=
      (state_same_trans _ _ _ (grow_start_same s cachep)
        (slabmgmt_same _ (alloc_same env n) env _ cachep _ _ _ s2 slabp hm) cachep).2.1
    -- the state in which the slab descriptor is there agrees with `s` on the list
    have hagree : (s2.cache cachep).slabs = (s.cache cachep).slabs ∧
        (s2.cache cachep).firstnotfull = (s.cache cachep).firstnotfull ∧
        ∀ x ∈ (s.cache cachep).slabs, x ≠ slabp → (s2.slab x).inuse = (s.slab x).inuse := by
      obtain ⟨s1, h1, h2⟩ := kmem_cache_slabmgmt_cases _ env _ cachep _ _ _ s2 slabp hm
      have hgs : ((grow_start s cachep).cache cachep).slabs = (s.cache cachep).slabs ∧
          ((grow_start s cachep).cache cachep).firstnotfull = (s.cache cachep).firstnotfull ∧
          ((grow_start s cachep).cache cachep).flags = (s.cache cachep).flags ∧
          ((grow_start s cachep).cache cachep).slabp_cache = (s.cache cachep).slabp_cache ∧
          (grow_start s cachep).slab = s.slab := by
        simp only [grow_start, kmem_getpages, upd_same]
        exact ⟨trivial, trivial, trivial, trivial, trivial⟩
      have hs1 : (s1.cache cachep).slabs = (s.cache cachep).slabs ∧
          (s1.cache cachep).firstnotfull = (s.cache cachep).firstnotfull ∧
          ∀ x ∈ (s.cache cachep).slabs, (s1.slab x).inuse = (s.slab x).inuse := by
        rcases h1 with ⟨hoff, ha⟩ | ⟨_, e, _⟩
        · rw [hgs.2.2.1] at hoff
          rw [hgs.2.2.2.1] at ha
          exact hframe hoff s1 slabp ha
        · rw [e]
          exact ⟨hgs.1, hgs.2.1, fun x _ => by rw [hgs.2.2.2.2]⟩
      rcases h2 with ⟨hz0, _⟩ | ⟨co, e, _⟩
      · exact absurd hz0 hz
      · rw [e]
        refine ⟨hs1.1, hs1.2.1, fun x hx hne => ?_⟩
        show ((upd s1.slab slabp _) x).inuse = _
        rw [upd_other _ _ _ _ hne]
        exact hs1.2.2 x hx
    have hlast : (s'.cache cachep).slabs.getLast? = some slabp := by
      rw [hs', (grow_finish_cache env s2 cachep slabp _).1]
      exact getLast_snoc _ _
    have hfr' : slabp ∉ (s.cache cachep).slabs := hfresh slabp hlast
    have ho2 : slab_order_ok s2 cachep :=
      slab_order_congr s s2 cachep hagree.1 hagree.2.1 hnum2
        (fun x hx => hagree.2.2 x hx (fun e => hfr' (e ▸ hx))) ho
    rw [hs']
    exact grow_finish_order env s2 cachep slabp _ (by rw [hagree.1]; exact hfr') hin ho2
  · intro slabp hfn
    exact (alloc_one_tail_order s cachep slabp hN1 hN2 hfn ho hfr).2
  · intro cc n
    exact (alloc_batch_loop_order cachep cc n s hN1 hN2 ho hfr).1
  · intro objp hmem hs1 hs2 hobj
    have hU : ULONG = 4294967296 := rfl
    obtain ⟨i, hi, _, _, hnot⟩ := hobj
    have hin1 := (free_slab_free_ok _ _ i (hfr _ hmem) hi hnot hN2).1
    refine free_one_order env s cachep objp hN1 hN2
      (by rw [Nat.mod_eq_of_lt hs2]; omega) hmem hin1 ?_ ho
    intro y hy
    obtain ⟨l, _, _, _, hlen⟩ := hfr y hy
    omega
  · intro slabp hnext
    unfold shrink_next at hnext
    by_cases hg : (s.cache cachep).growing ≠ 0
    · rw [if_pos hg] at hnext; cases hnext
    · rw [if_neg hg] at hnext
      cases hl : list_prev (s.cache cachep).slabs none with
      | none => rw [hl] at hnext; cases hnext
      | some y =>
        rw [hl] at hnext
        dsimp only at hnext
        by_cases hi : (s.slab y).inuse ≠ 0
        · rw [if_pos hi] at hnext; cases hnext
        · rw [if_neg hi] at hnext
          simp only [Option.some.injEq] at hnext
          subst hnext
          exact slab_unlink_order s cachep y hN1 hl (not_not.mp hi) ho

theorem kmem_state_ex_order : slab_order_ok kmem_state_ex 0 := by
  refine ⟨List.nodup_nil, [], [], [], rfl, ?_, ?_, ?_, rfl⟩
  · intro x hx; cases hx
  · intro x hx; cases hx
  · intro x hx; cases hx

theorem kmem_state_ex_free_ok : cache_free_ok kmem_state_ex 0 := by
  intro x hx
  cases hx

/-- Witness for C12: growing the empty cache of `kmem_state_ex` gives a state
in which the order invariant holds. -/
theorem slab_list_order_invariant_witness :
    ∃ s', kmem_cache_grow (__kmem_cache_alloc slab_env_ex 1) slab_env_ex kmem_state_ex 0 0x07 =
        some (s', 1) ∧ slab_order_ok s' 0 := by
  obtain ⟨s', h⟩ := option_map_snd
    (kmem_cache_grow (__kmem_cache_alloc slab_env_ex 1) slab_env_ex kmem_state_ex 0 0x07) 1
    (by decide)
  exact ⟨s', h, (slab_list_order_invariant slab_env_ex kmem_state_ex 0 (by decide) (by decide)
    kmem_state_ex_order kmem_state_ex_free_ok).1 1 0x07 s' h
    (fun hoff => absurd hoff (by decide)) (fun _ _ hm => (by cases hm))⟩

/-! ## Theorems: allocation followed by release -/

theorem alloc_hit_eq (env : slab_env) (n : Nat) (s : kmem_state) (cachep flags : Nat)
    (hcc : (s.cache cachep).cpudata env.cpu ≠ 0)
    (ha : (s.cpucache ((s.cache cachep).cpudata env.cpu)).avail ≠ 0) :
    __kmem_cache_alloc env (n + 1) s cachep flags =
      some ({ s with
        cpucache := upd s.cpucache ((s.cache cachep).cpudata env.cpu)
          { s.cpucache ((s.cache cachep).cpudata env.cpu) with
            avail := ((s.cpucache ((s.cache cachep).cpudata env.cpu)).avail + ULONG - 1)
              % ULONG } },
        (s.cpucache ((s.cache cachep).cpudata env.cpu)).entry
          (((s.cpucache ((s.cache cachep).cpudata env.cpu)).avail + ULONG - 1) % ULONG)) := by
  rw [__kmem_cache_alloc]
  unfold alloc_pass
  rw [if_pos hcc]
  dsimp only
  rw [if_pos ha]

theorem alloc_direct_eq (env : slab_env) (n : Nat) (s : kmem_state) (cachep flags slabp : Nat)
    (hcc : (s.cache cachep).cpudata env.cpu = 0)
    (hf : (s.cache cachep).firstnotfull = some slabp) :
    __kmem_cache_alloc env (n + 1) s cachep flags =
      some (kmem_cache_alloc_one_tail s cachep slabp) := by
  rw [__kmem_cache_alloc]
  unfold alloc_pass
  rw [if_neg (not_not.mpr hcc)]
  unfold kmem_cache_alloc_one
  rw [hf]

theorem free_hit_eq (env : slab_env) (s : kmem_state) (cachep objp : Nat)
    (hcc : (s.cache cachep).cpudata env.cpu ≠ 0)
    (ha : (s.cpucache ((s.cache cachep).cpudata env.cpu)).avail <
      (s.cpucache ((s.cache cachep).cpudata env.cpu)).limit) :
    __kmem_cache_free env s cachep objp =
      some { s with
        cpucache := upd s.cpucache ((s.cache cachep).cpudata env.cpu)
          { s.cpucache ((s.cache cachep).cpudata env.cpu) with
            entry := upd (s.cpucache ((s.cache cachep).cpudata env.cpu)).entry
              (s.cpucache ((s.cache cachep).cpudata env.cpu)).avail objp
            avail := ((s.cpucache ((s.cache cachep).cpudata env.cpu)).avail + 1) % ULONG } } := by
  unfold __kmem_cache_free
  rw [if_pos hcc]
  dsimp only
  rw [if_pos ha]

theorem free_direct_eq (env : slab_env) (s : kmem_state) (cachep objp : Nat)
    (hcc : (s.cache cachep).cpudata env.cpu = 0) :
    __kmem_cache_free env s cachep objp = kmem_cache_free_one env s cachep objp := by
  unfold __kmem_cache_free
  rw [if_neg (not_not.mpr hcc)]
  unfold free_block
  rw [if_neg (by decide)]
  simp only [__free_block]
  cases kmem_cache_free_one env s cachep objp <;> rfl

theorem upd_upd {α : Type} (f : Nat → α) (a : Nat) (v w : α) :
    upd (upd f a v) a w = upd f a w := by
  funext b
  by_cases h : b = a
  · subst h; rw [upd_same, upd_same]
  · rw [upd_other _ _ _ _ h, upd_other _ _ _ _ h, upd_other _ _ _ _ h]

theorem slab_t_ext (a b : slab_t) (h1 : a.colouroff = b.colouroff) (h2 : a.s_mem = b.s_mem)
    (h3 : a.inuse = b.inuse) (h4 : a.free = b.free) (h5 : a.bufctl = b.bufctl) : a = b := by
  cases a; cases b
  simp only at h1 h2 h3 h4 h5
  subst h1 h2 h3 h4 h5
  rfl

theorem cpucache_t_ext (a b : cpucache_t) (h1 : a.avail = b.avail) (h2 : a.limit = b.limit)
    (h3 : a.entry = b.entry) : a = b := by
  cases a; cases b
  simp only at h1 h2 h3
  subst h1 h2 h3
  rfl

theorem hit_roundtrip (env : slab_env) (n : Nat) (s : kmem_state) (cachep flags : Nat)
    (hcc : (s.cache cachep).cpudata env.cpu ≠ 0)
    (ha : (s.cpucache ((s.cache cachep).cpudata env.cpu)).avail ≠ 0)
    (hlt : (s.cpucache ((s.cache cachep).cpudata env.cpu)).avail < ULONG)
    (hroom : (s.cpucache ((s.cache cachep).cpudata env.cpu)).avail - 1 <
      (s.cpucache ((s.cache cachep).cpudata env.cpu)).limit) :
    ∃ s1, kmem_cache_alloc env (n + 1) s cachep flags =
        some (s1, (s.cpucache ((s.cache cachep).cpudata env.cpu)).entry
          ((s.cpucache ((s.cache cachep).cpudata env.cpu)).avail - 1)) ∧
      s1.grown = s.grown ∧ s1.slab = s.slab ∧ s1.cache = s.cache ∧
      kmem_cache_free env s1 cachep
        ((s.cpucache ((s.cache cachep).cpudata env.cpu)).entry
          ((s.cpucache ((s.cache cachep).cpudata env.cpu)).avail - 1)) = some s := by
  have hU : ULONG = 4294967296 := rfl
  obtain ⟨cc, hccdef⟩ : ∃ cc, (s.cache cachep).cpudata env.cpu = cc := ⟨_, rfl⟩
  have halloc := alloc_hit_eq env n s cachep flags hcc ha
  rw [hccdef] at hcc ha hlt hroom halloc ⊢
  have hav : ((s.cpucache cc).avail + ULONG - 1) % ULONG = (s.cpucache cc).avail - 1 := by
    rw [show (s.cpucache cc).avail + ULONG - 1 = ((s.cpucache cc).avail - 1) + ULONG by omega,
      Nat.add_mod_right]
    exact Nat.mod_eq_of_lt (by omega)
  rw [hav] at halloc
  obtain ⟨s1, hs1⟩ : ∃ s1, s1 = ({ s with
      cpucache := upd s.cpucache cc
        { s.cpucache cc with avail := (s.cpucache cc).avail - 1 } } : kmem_state) := ⟨_, rfl⟩
  rw [← hs1] at halloc
  have hc1 : s1.cache = s.cache := by rw [hs1]
  have hcc1 : (s1.cache cachep).cpudata env.cpu = cc := by rw [hc1]; exact hccdef
  have hv1 : s1.cpucache cc = { s.cpucache cc with avail := (s.cpucache cc).avail - 1 } := by
    rw [hs1]; exact upd_same _ _ _
  refine ⟨s1, halloc, by rw [hs1], by rw [hs1], hc1, ?_⟩
  unfold kmem_cache_free
  have hfree := free_hit_eq env s1 cachep
    ((s.cpucache cc).entry ((s.cpucache cc).avail - 1))
    (by rw [hcc1]; exact hcc) (by rw [hcc1, hv1]; exact hroom)
  rw [hfree, hcc1, hv1]
  have hval : ({ ({ s.cpucache cc with avail := (s.cpucache cc).avail - 1 } : cpucache_t) with
      entry := upd ({ s.cpucache cc with avail := (s.cpucache cc).avail - 1 } : cpucache_t).entry
        ({ s.cpucache cc with avail := (s.cpucache cc).avail - 1 } : cpucache_t).avail
        ((s.cpucache cc).entry ((s.cpucache cc).avail - 1))
      avail := (({ s.cpucache cc with avail := (s.cpucache cc).avail - 1 } : cpucache_t).avail
        + 1) % ULONG } : cpucache_t) = s.cpucache cc := by
    apply cpucache_t_ext
    · show ((s.cpucache cc).avail - 1 + 1) % ULONG = (s.cpucache cc).avail
      rw [show (s.cpucache cc).avail - 1 + 1 = (s.cpucache cc).avail by omega]
      exact Nat.mod_eq_of_lt hlt
    · rfl
    · show upd (s.cpucache cc).entry ((s.cpucache cc).avail - 1)
        ((s.cpucache cc).entry ((s.cpucache cc).avail - 1)) = (s.cpucache cc).entry
      exact upd_self _ _
  rw [hval, hs1]
  show some ({ s with cpucache := upd (upd s.cpucache cc _) cc (s.cpucache cc) } : kmem_state)
    = some s
  rw [upd_upd, upd_self]

/-- C13. When `kmem_cache_alloc` is served from the CPU's array (the array is
there and not empty) and the release finds room in it, `kmem_cache_free` of
the object returned gives back the state there was before the allocation.
When the CPU has no array and the allocation is served by the slab that
`firstnotfull` points at, a slab of the list whose pages point back to it,
`kmem_cache_free` of the object returned restores every slab descriptor
(`inuse`, `free` and the index array) and leaves the cache with the same slabs
on its list, possibly in another order; no cache has grown, and the other
caches and the CPU arrays are as before. -/
theorem alloc_free_counters (env : slab_env) (n : Nat) (s : kmem_state) (cachep flags : Nat) :
    ((s.cache cachep).cpudata env.cpu ≠ 0 →
      (s.cpucache ((s.cache cachep).cpudata env.cpu)).avail ≠ 0 →
      (s.cpucache ((s.cache cachep).cpudata env.cpu)).avail < ULONG →
      (s.cpucache ((s.cache cachep).cpudata env.cpu)).avail - 1 <
        (s.cpucache ((s.cache cachep).cpudata env.cpu)).limit →
      ∃ s1, kmem_cache_alloc env (n + 1) s cachep flags =
          some (s1, (s.cpucache ((s.cache cachep).cpudata env.cpu)).entry
            ((s.cpucache ((s.cache cachep).cpudata env.cpu)).avail - 1)) ∧
        s1.grown = s.grown ∧ s1.slab = s.slab ∧ s1.cache = s.cache ∧
        kmem_cache_free env s1 cachep
          ((s.cpucache ((s.cache cachep).cpudata env.cpu)).entry
            ((s.cpucache ((s.cache cachep).cpudata env.cpu)).avail - 1)) = some s) ∧
    ((s.cache cachep).cpudata env.cpu = 0 → ∀ slabp,
      (s.cache cachep).firstnotfull = some slabp → slabp ∈ (s.cache cachep).slabs →
      0 < (s.cache cachep).objsize → (s.cache cachep).objsize < ULONG →
      (s.slab slabp).s_mem + (s.slab slabp).free * (s.cache cachep).objsize < ULONG →
      (s.slab slabp).inuse + 1 < ULONG →
      s.page_slab (virt_to_page env
        ((s.slab slabp).s_mem + (s.slab slabp).free * (s.cache cachep).objsize)) = slabp →
      ∃ s1 s2, kmem_cache_alloc env (n + 1) s cachep flags =
          some (s1, (s.slab slabp).s_mem + (s.slab slabp).free * (s.cache cachep).objsize) ∧
        s1.grown = s.grown ∧ (s1.slab slabp).inuse = (s.slab slabp).inuse + 1 ∧
        kmem_cache_free env s1 cachep
          ((s.slab slabp).s_mem + (s.slab slabp).free * (s.cache cachep).objsize) = some s2 ∧
        s2.slab = s.slab ∧
        (s2.cache cachep).slabs.Perm (s.cache cachep).slabs ∧
        (s2.cache cachep).slabs.length = (s.cache cachep).slabs.length ∧
        (∀ x, x ≠ cachep → s2.cache x = s.cache x) ∧
        s2.cpucache = s.cpucache ∧ s2.grown = s.grown) := by
  have hU : ULONG = 4294967296 := rfl
  refine ⟨?_, ?_⟩
  · intro hcc ha hlt hroom
    exact hit_roundtrip env n s cachep flags hcc ha hlt hroom
  · intro hcc slabp hf hmem hs1 hs2 hwrap hin hback
    obtain ⟨p, hp⟩ : ∃ p, p = (s.slab slabp).s_mem + (s.slab slabp).free * (s.cache cachep).objsize :=
      ⟨_, rfl⟩
    rw [← hp] at hwrap hback ⊢
    have halloc := alloc_direct_eq env n s cachep flags slabp hcc hf
    obtain ⟨hc1, hc1o, hsl1, hsl1o, hobj⟩ := alloc_one_tail_cache s cachep slabp
    obtain ⟨fnf, hform⟩ := alloc_one_tail_form s cachep slabp
    have hpe : (kmem_cache_alloc_one_tail s cachep slabp).2 = p := by
      rw [hobj, Nat.mod_eq_of_lt (show (s.slab slabp).free * (s.cache cachep).objsize < ULONG by
        omega), ← hp]
      exact Nat.mod_eq_of_lt hwrap
    obtain ⟨s1, hs1def⟩ : ∃ s1, s1 = (kmem_cache_alloc_one_tail s cachep slabp).1 := ⟨_, rfl⟩
    have halloc' : kmem_cache_alloc env (n + 1) s cachep flags = some (s1, p) := by
      unfold kmem_cache_alloc
      rw [halloc, hs1def, ← hpe]
    rw [← hs1def] at hc1 hc1o hsl1 hsl1o hform
    have hobjsize : (s1.cache cachep).objsize = (s.cache cachep).objsize := by rw [hc1]
    have hcc1 : (s1.cache cachep).cpudata env.cpu = 0 := by rw [hc1]; exact hcc
    have hpage : s1.page_slab = s.page_slab := by rw [hform]
    have h0 : (s1.cache cachep).objsize % ULONG ≠ 0 := by
      rw [hobjsize, Nat.mod_eq_of_lt hs2]; omega
    obtain ⟨s2, hs2def⟩ := free_one_total env s1 cachep p h0
    obtain ⟨_, slabs, fnf2, hform2, hslabs⟩ := free_one_form env s1 cachep p s2 hs2def
    have hback1 : s1.page_slab (virt_to_page env p) = slabp := by rw [hpage]; exact hback
    have hnr : free_objnr env s1 cachep p = (s.slab slabp).free := by
      apply free_objnr_eq env s1 cachep p
      · rw [hobjsize]; exact hs1
      · rw [hobjsize]; exact hs2
      · rw [hback1, hsl1, hobjsize]; exact hp
      · exact hwrap
    have hfs : free_slab env s1 cachep p = s.slab slabp := by
      unfold free_slab
      rw [hnr, hback1, hsl1]
      apply slab_t_ext
      · rfl
      · rfl
      · show (((s.slab slabp).inuse + 1) % ULONG + ULONG - 1) % ULONG = (s.slab slabp).inuse
        rw [Nat.mod_eq_of_lt hin,
          show (s.slab slabp).inuse + 1 + ULONG - 1 = (s.slab slabp).inuse + ULONG by omega,
          Nat.add_mod_right]
        exact Nat.mod_eq_of_lt (by omega)
      · rfl
      · show upd (s.slab slabp).bufctl (s.slab slabp).free
          ((s.slab slabp).bufctl (s.slab slabp).free) = (s.slab slabp).bufctl
        exact upd_self _ _
    have hslab2 : s2.slab = s.slab := by
      rw [hform2]
      show upd s1.slab (s1.page_slab (virt_to_page env p)) _ = s.slab
      rw [hback1, hfs, hform]
      show upd (upd s.slab slabp _) slabp (s.slab slabp) = s.slab
      rw [upd_upd, upd_self]
    have hslabs1 : (s1.cache cachep).slabs = (s.cache cachep).slabs := by rw [hc1]
    have hperm : (s2.cache cachep).slabs.Perm (s.cache cachep).slabs := by
      rw [hform2]
      show (upd s1.cache cachep _ cachep).slabs.Perm _
      rw [upd_same]
      show slabs.Perm _
      rw [hback1, hslabs1] at hslabs
      rcases hslabs with e | e | e
      · rw [e]
      · rw [e]; exact move_perm _ _ _ hmem
      · rw [e]; exact move_perm _ _ _ hmem
    refine ⟨s1, s2, halloc', by rw [hform], ?_, ?_, hslab2, hperm, hperm.length_eq, ?_, ?_, ?_⟩
    · rw [hsl1]
      show ((s.slab slabp).inuse + 1) % ULONG = _
      exact Nat.mod_eq_of_lt hin
    · unfold kmem_cache_free
      rw [free_direct_eq env s1 cachep p hcc1]
      exact hs2def
    · intro x hx
      rw [hform2]
      show upd s1.cache cachep _ x = _
      rw [upd_other _ _ _ _ hx, hc1o x hx]
    · rw [hform2, hform]
    · rw [hform2, hform]

/-- Witness for C13: in `kmem_state_ex1` the CPU has no array and the first
object of the only slab is handed out and taken back. -/
theorem alloc_free_counters_witness :
    ∃ s1 s2, kmem_cache_alloc slab_env_ex 1 kmem_state_ex1 0 0x07 = some (s1, 0xC1000060) ∧
      kmem_cache_free slab_env_ex s1 0 0xC1000060 = some s2 ∧
      s2.slab = kmem_state_ex1.slab ∧
      (s2.cache 0).slabs.length = (kmem_state_ex1.cache 0).slabs.length := by
  obtain ⟨s1, s2, h1, _, _, h4, h5, _, h7, _⟩ :=
    (alloc_free_counters slab_env_ex 0 kmem_state_ex1 0 0x07).2 (by decide) 0xC1000000
      (by decide) (by decide) (by decide) (by decide) (by decide) (by decide) (by decide)
  exact ⟨s1, s2, h1, h4, h5, h7⟩

/-! ## Theorems: the per-CPU array is a stack -/

theorem free_one_same (env : slab_env) (s : kmem_state) (cachep objp : Nat) (s' : kmem_state)
    (h : kmem_cache_free_one env s cachep objp = some s') :
    state_same s s' ∧ s'.cpucache = s.cpucache := by
  obtain ⟨_, slabs, fnf, hform, _⟩ := free_one_form env s cachep objp s' h
  rw [hform]
  exact ⟨state_same_upd s cachep _ _ rfl
    ⟨rfl, rfl, rfl, rfl, rfl, rfl, rfl, rfl, rfl, rfl, rfl, rfl, rfl⟩, rfl⟩

theorem free_block_loop_total (env : slab_env) (cachep : Nat) (objpp : Nat → Nat) :
    ∀ (len i : Nat) (s : kmem_state), (s.cache cachep).objsize % ULONG ≠ 0 →
      ∃ s', __free_block env cachep objpp len i s = some s' ∧ state_same s s' ∧
        s'.cpucache = s.cpucache := by
  intro len
  induction len with
  | zero => intro i s _; exact ⟨s, rfl, state_same_refl s, rfl⟩
  | succ len ih =>
    intro i s h0
    obtain ⟨s1, hs1⟩ := free_one_total env s cachep (objpp i) h0
    obtain ⟨hsame, hcpu⟩ := free_one_same env s cachep (objpp i) s1 hs1
    obtain ⟨s', hs', hsame', hcpu'⟩ := ih (i + 1) s1 (by rw [(hsame cachep).1]; exact h0)
    refine ⟨s', ?_, state_same_trans _ _ _ hsame hsame', by rw [hcpu', hcpu]⟩
    simp only [__free_block, hs1]
    exact hs'

theorem free_block_total (env : slab_env) (s : kmem_state) (cachep : Nat) (objpp : Nat → Nat)
    (len : Nat) (h0 : (s.cache cachep).objsize % ULONG ≠ 0) :
    ∃ s', free_block env s cachep objpp len = some s' ∧ state_same s s' ∧
      s'.cpucache = s.cpucache := by
  unfold free_block
  by_cases h : len > INT_MAX
  · rw [if_pos h]; exact ⟨s, rfl, state_same_refl s, rfl⟩
  · rw [if_neg h]; exact free_block_loop_total env cachep objpp len 0 s h0

theorem kmem_cache_free_total (env : slab_env) (s : kmem_state) (cachep p : Nat)
    (hcc : (s.cache cachep).cpudata env.cpu ≠ 0)
    (h0 : (s.cache cachep).objsize % ULONG ≠ 0) :
    ∃ s2 a, kmem_cache_free env s cachep p = some s2 ∧ state_same s s2 ∧
      (s2.cpucache ((s.cache cachep).cpudata env.cpu)).limit =
        (s.cpucache ((s.cache cachep).cpudata env.cpu)).limit ∧
      (s2.cpucache ((s.cache cachep).cpudata env.cpu)).entry a = p ∧
      (s2.cpucache ((s.cache cachep).cpudata env.cpu)).avail = (a + 1) % ULONG ∧
      (a = (s.cpucache ((s.cache cachep).cpudata env.cpu)).avail ∧
          (s.cpucache ((s.cache cachep).cpudata env.cpu)).avail <
            (s.cpucache ((s.cache cachep).cpudata env.cpu)).limit ∨
        a = ((s.cpucache ((s.cache cachep).cpudata env.cpu)).avail + ULONG -
            (s.cache cachep).batchcount % ULONG) % ULONG ∧
          ¬ (s.cpucache ((s.cache cachep).cpudata env.cpu)).avail <
            (s.cpucache ((s.cache cachep).cpudata env.cpu)).limit) := by
  obtain ⟨cc, hccdef⟩ : ∃ cc, (s.cache cachep).cpudata env.cpu = cc := ⟨_, rfl⟩
  by_cases ha : (s.cpucache ((s.cache cachep).cpudata env.cpu)).avail <
      (s.cpucache ((s.cache cachep).cpudata env.cpu)).limit
  · refine ⟨_, (s.cpucache ((s.cache cachep).cpudata env.cpu)).avail,
      free_hit_eq env s cachep p hcc ha, state_same_refl s, ?_, ?_, ?_, Or.inl ⟨rfl, ha⟩⟩
    · simp only [upd_same]
    · simp only [upd_same]
    · simp only [upd_same]
  · unfold kmem_cache_free __kmem_cache_free
    rw [if_pos hcc]
    dsimp only
    rw [if_neg ha, hccdef]
    rw [hccdef] at ha
    obtain ⟨a, hadef⟩ : ∃ a, a = ((s.cpucache cc).avail + ULONG -
      (s.cache cachep).batchcount % ULONG) % ULONG := ⟨_, rfl⟩
    rw [← hadef]
    obtain ⟨s1, hs1, hsame, hcpu⟩ := free_block_total env
      { s with cpucache := upd s.cpucache cc { s.cpucache cc with avail := a } } cachep
      (fun i => (s.cpucache cc).entry (a + i)) ((s.cache cachep).batchcount % ULONG) h0
    rw [hs1]
    dsimp only
    have hv : s1.cpucache cc = { s.cpucache cc with avail := a } := by
      rw [hcpu]; exact upd_same _ _ _
    refine ⟨_, a, rfl, hsame, ?_, ?_, ?_, Or.inr ⟨rfl, ha⟩⟩
    · simp only [upd_same]; rw [hv]
    · simp only [upd_same]; rw [hv]; exact upd_same _ _ _
    · simp only [upd_same]; rw [hv]

theorem lifo_round (env : slab_env) (n : Nat) (s : kmem_state) (cachep flags p : Nat)
    (h : magazine_ok env s cachep) :
    ∃ s2 s3, kmem_cache_free env s cachep p = some s2 ∧
      kmem_cache_alloc env (n + 1) s2 cachep flags = some (s3, p) ∧
      magazine_ok env s3 cachep ∧
      ((s.cpucache ((s.cache cachep).cpudata env.cpu)).avail <
          (s.cpucache ((s.cache cachep).cpudata env.cpu)).limit →
        (s2.cpucache ((s.cache cachep).cpudata env.cpu)).avail =
          (s.cpucache ((s.cache cachep).cpudata env.cpu)).avail + 1) ∧
      ((s.cpucache ((s.cache cachep).cpudata env.cpu)).avail =
          (s.cpucache ((s.cache cachep).cpudata env.cpu)).limit →
        (s2.cpucache ((s.cache cachep).cpudata env.cpu)).avail =
          (s.cpucache ((s.cache cachep).cpudata env.cpu)).limit -
            (s.cache cachep).batchcount + 1) := by
  have hU : ULONG = 4294967296 := rfl
  obtain ⟨hcc, hl0, hlU, hav, hb1, hb2, h0⟩ := h
  obtain ⟨s2, a, hfree, hsame, hlim2, hent, hav2, hcase⟩ :=
    kmem_cache_free_total env s cachep p hcc h0
  obtain ⟨cc, hccdef⟩ : ∃ cc, (s.cache cachep).cpudata env.cpu = cc := ⟨_, rfl⟩
  rw [hccdef] at hcc hl0 hlU hav hb2 hlim2 hent hav2 hcase ⊢
  have hcc2 : (s2.cache cachep).cpudata env.cpu = cc := by
    rw [(hsame cachep).2.2.2.2.2.2.2.2.2.2.2.2]; exact hccdef
  have ha : a + 1 ≤ (s.cpucache cc).limit ∧
      (a = (s.cpucache cc).avail ∧ (s.cpucache cc).avail < (s.cpucache cc).limit ∨
        a = (s.cpucache cc).limit - (s.cache cachep).batchcount ∧
          (s.cpucache cc).avail = (s.cpucache cc).limit) := by
    rcases hcase with ⟨e, hlt⟩ | ⟨e, hge⟩
    · exact ⟨by omega, Or.inl ⟨e, hlt⟩⟩
    · have e1 : (s.cpucache cc).avail = (s.cpucache cc).limit := by omega
      have e2 : (s.cache cachep).batchcount % ULONG = (s.cache cachep).batchcount :=
        Nat.mod_eq_of_lt (by omega)
      rw [e2, e1, show (s.cpucache cc).limit + ULONG - (s.cache cachep).batchcount =
        ((s.cpucache cc).limit - (s.cache cachep).batchcount) + ULONG by omega,
        Nat.add_mod_right, Nat.mod_eq_of_lt (by omega)] at e
      exact ⟨by omega, Or.inr ⟨e, e1⟩⟩
  have hav2' : (s2.cpucache cc).avail = a + 1 := by
    rw [hav2]; exact Nat.mod_eq_of_lt (by omega)
  have halloc := alloc_hit_eq env n s2 cachep flags (by rw [hcc2]; exact hcc)
    (by rw [hcc2, hav2']; omega)
  rw [hcc2, hav2', show a + 1 + ULONG - 1 = a + ULONG by omega, Nat.add_mod_right,
    Nat.mod_eq_of_lt (show a < ULONG by omega), hent] at halloc
  refine ⟨s2, _, hfree, halloc, ?_, ?_, ?_⟩
  · have hc3 : ∀ x, cache_same (s.cache x) (s2.cache x) := hsame
    refine ⟨?_, ?_, ?_, ?_, ?_, ?_, ?_⟩
    · show (s2.cache cachep).cpudata env.cpu ≠ 0
      rw [hcc2]; exact hcc
    · show 0 < ((upd s2.cpucache cc _) ((s2.cache cachep).cpudata env.cpu)).limit
      rw [hcc2, upd_same]
      show 0 < (s2.cpucache cc).limit
      rw [hlim2]; exact hl0
    · show ((upd s2.cpucache cc _) ((s2.cache cachep).cpudata env.cpu)).limit < ULONG
      rw [hcc2, upd_same]
      show (s2.cpucache cc).limit < ULONG
      rw [hlim2]; exact hlU
    · show ((upd s2.cpucache cc _) ((s2.cache cachep).cpudata env.cpu)).avail ≤
        ((upd s2.cpucache cc _) ((s2.cache cachep).cpudata env.cpu)).limit
      rw [hcc2, upd_same]
      show a ≤ (s2.cpucache cc).limit
      rw [hlim2]; omega
    · show 1 ≤ (s2.cache cachep).batchcount
      rw [(hc3 cachep).2.2.2.1]; exact hb1
    · show (s2.cache cachep).batchcount ≤
        ((upd s2.cpucache cc _) ((s2.cache cachep).cpudata env.cpu)).limit
      rw [hcc2, upd_same]
      show _ ≤ (s2.cpucache cc).limit
      rw [hlim2, (hc3 cachep).2.2.2.1]; exact hb2
    · show (s2.cache cachep).objsize % ULONG ≠ 0
      rw [(hc3 cachep).1]; exact h0
  · intro hlt
    rw [hav2']
    rcases ha.2 with ⟨e, _⟩ | ⟨_, e⟩
    · rw [e]
    · omega
  · intro heq
    rw [hav2']
    rcases ha.2 with ⟨_, e⟩ | ⟨e, _⟩
    · omega
    · rw [e]

/-- C14. Magazine LIFO law.  On a cache whose array for this CPU is in order
(`magazine_ok`: present, `0 < limit`, at most `limit` objects in it,
`1 ≤ batchcount ≤ limit`), for any pointer `p`: `kmem_cache_free` of `p`
followed by `kmem_cache_alloc` on the same CPU returns `p`, also when the array
was full and `batchcount` entries were flushed first (the array then holds
`limit - batchcount + 1` objects before the allocation), the array is in order
again afterwards, and so any number of repetitions gives `p` each time. -/
theorem magazine_lifo (env : slab_env) (n : Nat) (s : kmem_state) (cachep flags p : Nat)
    (h : magazine_ok env s cachep) :
    (∃ s2 s3, kmem_cache_free env s cachep p = some s2 ∧
      kmem_cache_alloc env (n + 1) s2 cachep flags = some (s3, p) ∧
      magazine_ok env s3 cachep ∧
      ((s.cpucache ((s.cache cachep).cpudata env.cpu)).avail =
          (s.cpucache ((s.cache cachep).cpudata env.cpu)).limit →
        (s2.cpucache ((s.cache cachep).cpudata env.cpu)).avail =
          (s.cpucache ((s.cache cachep).cpudata env.cpu)).limit -
            (s.cache cachep).batchcount + 1)) ∧
    ∀ k, ∃ s', lifo_iter env (n + 1) cachep flags p k s = some s' ∧
      magazine_ok env s' cachep := by
  refine ⟨?_, ?_⟩
  · obtain ⟨s2, s3, h1, h2, h3, _, h5⟩ := lifo_round env n s cachep flags p h
    exact ⟨s2, s3, h1, h2, h3, h5⟩
  · intro k
    induction k generalizing s with
    | zero => exact ⟨s, rfl, h⟩
    | succ k ih =>
      obtain ⟨s2, s3, h1, h2, h3, _, _⟩ := lifo_round env n s cachep flags p h
      obtain ⟨s', hs', hok⟩ := ih s3 h3
      refine ⟨s', ?_, hok⟩
      simp only [lifo_iter, h1, h2, if_true]
      exact hs'

/-- Witness for C14: in `kmem_state_ex2` the array is full; the release of the
third object flushes one entry, and the allocation that follows returns the
third object again. -/
theorem magazine_lifo_witness :
    ∃ s2 s3, kmem_cache_free slab_env_ex kmem_state_ex2 0 0xC1000260 = some s2 ∧
      kmem_cache_alloc slab_env_ex 1 s2 0 0x07 = some (s3, 0xC1000260) ∧
      (s2.cpucache 0xC0400000).avail = 2 := by
  obtain ⟨s2, s3, h1, h2, _, h4⟩ :=
    (magazine_lifo slab_env_ex 0 kmem_state_ex2 0 0x07 0xC1000260 (by decide)).1
  exact ⟨s2, s3, h1, h2, h4 (by decide)⟩
theorem alloc_quiet_refl (s : kmem_state) (cachep : Nat) : alloc_quiet s s cachep :=
  ⟨rfl, rfl, rfl, rfl, cache_same_refl _⟩

theorem alloc_quiet_trans (a b c : kmem_state) (cachep : Nat) (h1 : alloc_quiet a b cachep)
    (h2 : alloc_quiet b c cachep) : alloc_quiet a c cachep :=
  ⟨h2.1.trans h1.1, h2.2.1.trans h1.2.1, h2.2.2.1.trans h1.2.2.1,
    h2.2.2.2.1.trans h1.2.2.2.1, cache_same_trans _ _ _ h1.2.2.2.2 h2.2.2.2.2⟩

theorem alloc_one_tail_quiet (s : kmem_state) (cachep slabp : Nat) :
    alloc_quiet s (kmem_cache_alloc_one_tail s cachep slabp).1 cachep ∧
    (kmem_cache_alloc_one_tail s cachep slabp).1.cpucache = s.cpucache := by
  obtain ⟨fnf, hf⟩ := alloc_one_tail_form s cachep slabp
  rw [hf]
  refine ⟨⟨rfl, rfl, rfl, ?_, ?_⟩, rfl⟩
  · simp only [upd_same]
  · simp only [upd_same]
    exact ⟨rfl, rfl, rfl, rfl, rfl, rfl, rfl, rfl, rfl, rfl, rfl, rfl, rfl⟩

theorem alloc_one_tail_open (s : kmem_state) (cachep : Nat) (pre : List Nat) (slabp u : Nat)
    (hN2 : (s.cache cachep).num ≤ SLAB_LIMIT)
    (h : open_slab s cachep pre slabp u) (hu : u < (s.cache cachep).num) :
    open_slab (kmem_cache_alloc_one_tail s cachep slabp).1 cachep pre slabp (u + 1) ∧
    (kmem_cache_alloc_one_tail s cachep slabp).2 ≠ 0 := by
  obtain ⟨hsl, hpre, hfn, hok, hin, hm0, hm1⟩ := h
  obtain ⟨hc, -, hs, -, hobj⟩ := alloc_one_tail_cache s cachep slabp
  have hlt : (s.slab slabp).inuse < (s.cache cachep).num := by rw [hin]; exact hu
  obtain ⟨hfree, hok2⟩ := alloc_slab_free_ok _ _ hok hlt hN2
  have hend := alloc_free_end _ _ hok hlt
  have hS : SLAB_LIMIT = 4294967294 := rfl
  have hU : ULONG = 4294967296 := rfl
  have hmul : (s.slab slabp).free * (s.cache cachep).objsize ≤
      (s.cache cachep).num * (s.cache cachep).objsize :=
    Nat.mul_le_mul_right _ (Nat.le_of_lt hfree)
  refine ⟨⟨?_, hpre, ?_, ?_, ?_, ?_, ?_⟩, ?_⟩
  · rw [hc]; exact hsl
  · rw [hc]
    show (if (s.slab slabp).bufctl (s.slab slabp).free = BUFCTL_END then
        list_next (s.cache cachep).slabs (some slabp) else (s.cache cachep).firstnotfull) =
      (if u + 1 < (s.cache cachep).num then some slabp else none)
    by_cases he : (s.slab slabp).bufctl (s.slab slabp).free = BUFCTL_END
    · rw [if_pos he, hsl, list_next_mid pre [] slabp hpre]
      have := hend.1 he
      rw [if_neg (by omega)]; rfl
    · rw [if_neg he, hfn, if_pos hu]
      have : ¬ (s.slab slabp).inuse + 1 = (s.cache cachep).num := fun e => he (hend.2 e)
      rw [if_pos (by omega)]
  · rw [hc, hs]; exact hok2
  · rw [hs]
    show ((s.slab slabp).inuse + 1) % ULONG = u + 1
    rw [hin, Nat.mod_eq_of_lt (by omega)]
  · rw [hs]; exact hm0
  · rw [hs, hc]; exact hm1
  · rw [hobj]
    have e1 : ((s.slab slabp).free * (s.cache cachep).objsize) % ULONG =
        (s.slab slabp).free * (s.cache cachep).objsize := Nat.mod_eq_of_lt (by omega)
    rw [e1, Nat.mod_eq_of_lt (by omega)]
    omega
theorem mag_ok_push (s : kmem_state) (cc a objp : Nat) (h : mag_ok s cc a) (ho : objp ≠ 0)
    (ha : a + 1 < ULONG) :
    mag_ok { s with
      cpucache := upd s.cpucache cc
        { s.cpucache cc with
          entry := upd (s.cpucache cc).entry (s.cpucache cc).avail objp
          avail := ((s.cpucache cc).avail + 1) % ULONG } } cc (a + 1) := by
  obtain ⟨h1, h2⟩ := h
  unfold mag_ok
  simp only [upd_same]
  refine ⟨?_, ?_⟩
  · rw [h1, Nat.mod_eq_of_lt ha]
  · intro i hi
    by_cases hia : i = a
    · rw [h1, hia, upd_same]; exact ho
    · rw [h1, upd_other _ _ _ _ hia]
      exact h2 i (by omega)

theorem alloc_batch_loop_open (cachep cc : Nat) (pre : List Nat) (slabp : Nat) :
    ∀ (b : Nat) (s : kmem_state) (u a : Nat),
      (s.cache cachep).num ≤ SLAB_LIMIT →
      open_slab s cachep pre slabp u → mag_ok s cc a → a + b < ULONG →
      ∃ t, t ≤ b ∧ (t = 0 → b = 0 ∨ ¬ u < (s.cache cachep).num) ∧
        open_slab (alloc_batch_loop cachep cc b s) cachep pre slabp (u + t) ∧
        mag_ok (alloc_batch_loop cachep cc b s) cc (a + t) ∧
        alloc_quiet s (alloc_batch_loop cachep cc b s) cachep := by
  intro b
  induction b with
  | zero =>
    intro s u a _ ho hm _
    exact ⟨0, Nat.le_refl _, fun _ => Or.inl rfl, ho, hm, alloc_quiet_refl _ _⟩
  | succ b ih =>
    intro s u a hN2 ho hm hab
    by_cases hu : u < (s.cache cachep).num
    · have hfn : (s.cache cachep).firstnotfull = some slabp := by
        rw [ho.2.2.1, if_pos hu]
      obtain ⟨ho1, hobj⟩ := alloc_one_tail_open s cachep pre slabp u hN2 ho hu
      obtain ⟨hq, hcc⟩ := alloc_one_tail_quiet s cachep slabp
      have hm1 : mag_ok (kmem_cache_alloc_one_tail s cachep slabp).1 cc a := by
        unfold mag_ok; rw [hcc]; exact hm
      obtain ⟨S2, hS2⟩ : ∃ S2, S2 = { (kmem_cache_alloc_one_tail s cachep slabp).1 with
          cpucache := upd (kmem_cache_alloc_one_tail s cachep slabp).1.cpucache cc
            { (kmem_cache_alloc_one_tail s cachep slabp).1.cpucache cc with
              entry := upd ((kmem_cache_alloc_one_tail s cachep slabp).1.cpucache cc).entry
                ((kmem_cache_alloc_one_tail s cachep slabp).1.cpucache cc).avail
                (kmem_cache_alloc_one_tail s cachep slabp).2
              avail := (((kmem_cache_alloc_one_tail s cachep slabp).1.cpucache cc).avail + 1)
                % ULONG } } := ⟨_, rfl⟩
      have hstep : alloc_batch_loop cachep cc (b + 1) s = alloc_batch_loop cachep cc b S2 := by
        rw [alloc_batch_loop]; simp only [hfn]; rw [hS2]
      have hm2 : mag_ok S2 cc (a + 1) := by
        rw [hS2]; exact mag_ok_push _ cc a _ hm1 hobj (by omega)
      have ho2 : open_slab S2 cachep pre slabp (u + 1) := by rw [hS2]; exact ho1
      have hq2 : alloc_quiet s S2 cachep := by rw [hS2]; exact hq
      have hN2b : (S2.cache cachep).num ≤ SLAB_LIMIT := by
        rw [hq2.2.2.2.2.2.1]; exact hN2
      obtain ⟨t, ht, -, ho3, hm3, hq3⟩ := ih S2 (u + 1) (a + 1) hN2b ho2 hm2 (by omega)
      rw [hstep]
      refine ⟨t + 1, by omega, fun h0 => absurd h0 (by omega), ?_, ?_, ?_⟩
      · rw [show u + (t + 1) = u + 1 + t by omega]; exact ho3
      · rw [show a + (t + 1) = a + 1 + t by omega]; exact hm3
      · exact alloc_quiet_trans _ _ _ _ hq2 hq3
    · have hfn : (s.cache cachep).firstnotfull = none := by
        rw [ho.2.2.1, if_neg hu]
      refine ⟨0, Nat.zero_le _, fun _ => Or.inr hu, ?_, ?_, ?_⟩
      · rw [alloc_batch_loop]; simp only [hfn]; exact ho
      · rw [alloc_batch_loop]; simp only [hfn]; exact hm
      · rw [alloc_batch_loop]; simp only [hfn]; exact alloc_quiet_refl _ _
theorem alloc_pass_miss (env : slab_env) (s : kmem_state) (cachep : Nat) (L : kmem_state)
    (hcc : (s.cache cachep).cpudata env.cpu ≠ 0)
    (ha : (s.cpucache ((s.cache cachep).cpudata env.cpu)).avail = 0)
    (hb : (s.cache cachep).batchcount ≤ INT_MAX)
    (hL : L = alloc_batch_loop cachep ((s.cache cachep).cpudata env.cpu)
      (s.cache cachep).batchcount s)
    (hav : (L.cpucache ((s.cache cachep).cpudata env.cpu)).avail ≠ 0)
    (hent : (L.cpucache ((s.cache cachep).cpudata env.cpu)).entry
      (((L.cpucache ((s.cache cachep).cpudata env.cpu)).avail + ULONG - 1) % ULONG) ≠ 0) :
    alloc_pass env s cachep =
      some ({ L with
        cpucache := upd L.cpucache ((s.cache cachep).cpudata env.cpu)
          { L.cpucache ((s.cache cachep).cpudata env.cpu) with
            avail := ((L.cpucache ((s.cache cachep).cpudata env.cpu)).avail + ULONG - 1)
              % ULONG } },
        some ((L.cpucache ((s.cache cachep).cpudata env.cpu)).entry
          (((L.cpucache ((s.cache cachep).cpudata env.cpu)).avail + ULONG - 1) % ULONG))) := by
  unfold alloc_pass
  rw [if_pos hcc]
  dsimp only
  rw [if_neg (not_not.mpr ha)]
  unfold kmem_cache_alloc_batch
  dsimp only
  rw [if_neg (Nat.not_lt.mpr hb), ← hL, if_pos hav]
  dsimp only
  rw [if_neg hent]

theorem alloc_batch_loop_none (cachep cc : Nat) (b : Nat) (s : kmem_state)
    (h : (s.cache cachep).firstnotfull = none) : alloc_batch_loop cachep cc b s = s := by
  cases b with
  | zero => rfl
  | succ b => rw [alloc_batch_loop]; simp only [h]

theorem alloc_pass_none (env : slab_env) (s : kmem_state) (cachep : Nat)
    (hfn : (s.cache cachep).firstnotfull = none)
    (hm : (s.cache cachep).cpudata env.cpu ≠ 0 →
      (s.cpucache ((s.cache cachep).cpudata env.cpu)).avail = 0 ∧
      (s.cache cachep).batchcount ≤ INT_MAX) :
    alloc_pass env s cachep = some (s, none) := by
  unfold alloc_pass
  by_cases hcc : (s.cache cachep).cpudata env.cpu = 0
  · rw [if_neg (not_not.mpr hcc)]
    unfold kmem_cache_alloc_one
    rw [hfn]
  · obtain ⟨ha, hb⟩ := hm hcc
    rw [if_pos hcc]
    dsimp only
    rw [if_neg (not_not.mpr ha)]
    unfold kmem_cache_alloc_batch
    dsimp only
    rw [if_neg (Nat.not_lt.mpr hb), alloc_batch_loop_none _ _ _ _ hfn, if_neg (not_not.mpr ha)]
    rfl

theorem alloc_miss_eq (env : slab_env) (n : Nat) (s : kmem_state) (cachep flags : Nat)
    (L : kmem_state) (hcc : (s.cache cachep).cpudata env.cpu ≠ 0)
    (ha : (s.cpucache ((s.cache cachep).cpudata env.cpu)).avail = 0)
    (hb : (s.cache cachep).batchcount ≤ INT_MAX)
    (hL : L = alloc_batch_loop cachep ((s.cache cachep).cpudata env.cpu)
      (s.cache cachep).batchcount s)
    (hav : (L.cpucache ((s.cache cachep).cpudata env.cpu)).avail ≠ 0)
    (hent : (L.cpucache ((s.cache cachep).cpudata env.cpu)).entry
      (((L.cpucache ((s.cache cachep).cpudata env.cpu)).avail + ULONG - 1) % ULONG) ≠ 0) :
    __kmem_cache_alloc env (n + 1) s cachep flags =
      some ({ L with
        cpucache := upd L.cpucache ((s.cache cachep).cpudata env.cpu)
          { L.cpucache ((s.cache cachep).cpudata env.cpu) with
            avail := ((L.cpucache ((s.cache cachep).cpudata env.cpu)).avail + ULONG - 1)
              % ULONG } },
        (L.cpucache ((s.cache cachep).cpudata env.cpu)).entry
          (((L.cpucache ((s.cache cachep).cpudata env.cpu)).avail + ULONG - 1) % ULONG)) := by
  rw [__kmem_cache_alloc, alloc_pass_miss env s cachep L hcc ha hb hL hav hent]
theorem cache_same_cpudata (c c2 : kmem_cache_t) (h : cache_same c c2) :
    c2.cpudata = c.cpudata ∧ c2.batchcount = c.batchcount ∧ c2.num = c.num ∧
      c2.flags = c.flags ∧ c2.colour = c.colour ∧ c2.colour_off = c.colour_off ∧
      c2.objsize = c.objsize := by
  obtain ⟨h1, h2, h3, h4, -, -, h7, h8, -, -, -, -, h13⟩ := h
  exact ⟨h13, h4, h2, h3, h7, h8, h1⟩

theorem open_slab_le (s : kmem_state) (cachep : Nat) (pre : List Nat) (slabp u : Nat)
    (h : open_slab s cachep pre slabp u) : u ≤ (s.cache cachep).num := by
  obtain ⟨-, -, -, ⟨l, -, -, -, hl⟩, hin, -, -⟩ := h
  omega

theorem run_inv_intro (env : slab_env) (s s' : kmem_state) (cachep : Nat) (pre : List Nat)
    (slabp j u a : Nat) (hq : cache_same (s.cache cachep) (s'.cache cachep))
    (ho : open_slab s' cachep pre slabp u) (hu : u = j + a)
    (hm : if (s.cache cachep).cpudata env.cpu = 0 then a = 0
      else mag_ok s' ((s.cache cachep).cpudata env.cpu) a ∧
        1 ≤ (s.cache cachep).batchcount ∧ (s.cache cachep).batchcount ≤ INT_MAX) :
    run_inv env s' cachep pre slabp j := by
  obtain ⟨h1, h2, -⟩ := cache_same_cpudata _ _ hq
  refine ⟨u, a, ho, hu, ?_⟩
  rw [h1, h2]; exact hm

theorem alloc_step (env : slab_env) (n : Nat) (s : kmem_state) (cachep flags : Nat)
    (pre : List Nat) (slabp j : Nat) (hN2 : (s.cache cachep).num ≤ SLAB_LIMIT)
    (h : run_inv env s cachep pre slabp j) (hj : j < (s.cache cachep).num) :
    ∃ s' p, __kmem_cache_alloc env (n + 1) s cachep flags = some (s', p) ∧ p ≠ 0 ∧
      run_inv env s' cachep pre slabp (j + 1) ∧ alloc_quiet s s' cachep := by
  obtain ⟨u, a, ho, hu, hm⟩ := h
  have hS : SLAB_LIMIT = 4294967294 := rfl
  have hU : ULONG = 4294967296 := rfl
  have hI : INT_MAX = 2147483647 := rfl
  have hle := open_slab_le _ _ _ _ _ ho
  by_cases hcc : (s.cache cachep).cpudata env.cpu = 0
  · rw [if_pos hcc] at hm
    have huN : u < (s.cache cachep).num := by omega
    have hfn : (s.cache cachep).firstnotfull = some slabp := by rw [ho.2.2.1, if_pos huN]
    obtain ⟨ho1, hobj⟩ := alloc_one_tail_open s cachep pre slabp u hN2 ho huN
    obtain ⟨hq, -⟩ := alloc_one_tail_quiet s cachep slabp
    refine ⟨_, _, alloc_direct_eq env n s cachep flags slabp hcc hfn, hobj, ?_, hq⟩
    refine run_inv_intro env s _ cachep pre slabp (j + 1) (u + 1) 0 hq.2.2.2.2 ho1 (by omega) ?_
    rw [if_pos hcc]
  · rw [if_neg hcc] at hm
    obtain ⟨hmag, hb1, hb2⟩ := hm
    by_cases ha : a = 0
    · have huN : u < (s.cache cachep).num := by omega
      obtain ⟨t, ht, hz, ho3, hm3, hq3⟩ := alloc_batch_loop_open cachep
        ((s.cache cachep).cpudata env.cpu) pre slabp (s.cache cachep).batchcount s u a hN2 ho
        hmag (by omega)
      have ht0 : t ≠ 0 := by
        intro h0
        rcases hz h0 with h1 | h1
        · omega
        · exact h1 huN
      obtain ⟨L, hL⟩ : ∃ L, L = alloc_batch_loop cachep ((s.cache cachep).cpudata env.cpu)
        (s.cache cachep).batchcount s := ⟨_, rfl⟩
      rw [← hL] at ho3 hm3 hq3
      have hav : (L.cpucache ((s.cache cachep).cpudata env.cpu)).avail = t := by
        rw [hm3.1]; omega
      have hpop : ((L.cpucache ((s.cache cachep).cpudata env.cpu)).avail + ULONG - 1) % ULONG
          = t - 1 := by
        rw [hav, show t + ULONG - 1 = (t - 1) + ULONG by omega, Nat.add_mod_right,
          Nat.mod_eq_of_lt (by omega)]
      have hent : (L.cpucache ((s.cache cachep).cpudata env.cpu)).entry
          (((L.cpucache ((s.cache cachep).cpudata env.cpu)).avail + ULONG - 1) % ULONG) ≠ 0 := by
        rw [hpop]; exact hm3.2 _ (by omega)
      refine ⟨_, _, alloc_miss_eq env n s cachep flags L hcc (by rw [hmag.1]; exact ha) hb2 hL
        (by rw [hav]; exact ht0) hent, hent, ?_, ?_⟩
      · refine run_inv_intro env s _ cachep pre slabp (j + 1) (u + t) (t - 1) hq3.2.2.2.2 ho3
          (by omega) ?_
        rw [if_neg hcc]
        refine ⟨⟨?_, ?_⟩, hb1, hb2⟩
        · simp only [upd_same]; exact hpop
        · intro i hi
          simp only [upd_same]
          exact hm3.2 i (by omega)
      · exact hq3
    · have hav : (s.cpucache ((s.cache cachep).cpudata env.cpu)).avail ≠ 0 := by
        rw [hmag.1]; exact ha
      have hpop : ((s.cpucache ((s.cache cachep).cpudata env.cpu)).avail + ULONG - 1) % ULONG
          = a - 1 := by
        rw [hmag.1, show a + ULONG - 1 = (a - 1) + ULONG by omega, Nat.add_mod_right,
          Nat.mod_eq_of_lt (by omega)]
      refine ⟨_, _, alloc_hit_eq env n s cachep flags hcc hav, ?_, ?_, ?_⟩
      · rw [hpop]; exact hmag.2 _ (by omega)
      · refine run_inv_intro env s _ cachep pre slabp (j + 1) u (a - 1) (cache_same_refl _) ho
          (by omega) ?_
        rw [if_neg hcc]
        refine ⟨⟨?_, ?_⟩, hb1, hb2⟩
        · simp only [upd_same]; exact hpop
        · intro i hi
          simp only [upd_same]
          exact hmag.2 i (by omega)
      · exact alloc_quiet_refl _ _
theorem slabmgmt_onslab_eq (alloc : kmem_state → Nat → Nat → Option (kmem_state × Nat))
    (env : slab_env) (s : kmem_state) (cachep objp off lf : Nat)
    (hon : (s.cache cachep).flags &&& CFLGS_OFF_SLAB = 0) :
    kmem_cache_slabmgmt alloc env s cachep objp off lf =
      some (onslab_mgmt env s cachep objp off, (objp + off) % ULONG) := by
  unfold kmem_cache_slabmgmt
  rw [if_neg (not_not.mpr hon)]
  rfl

theorem grow_start_cache (s : kmem_state) (cachep : Nat) :
    (grow_start s cachep).cache cachep =
      { s.cache cachep with
        colour_next := if ((s.cache cachep).colour_next + 1) % ULONG ≥ (s.cache cachep).colour
          then 0 else ((s.cache cachep).colour_next + 1) % ULONG
        dflags := (s.cache cachep).dflags ||| DFLGS_GROWN
        growing := ((s.cache cachep).growing + 1) % ULONG } ∧
    (grow_start s cachep).slab = s.slab ∧ (grow_start s cachep).cpucache = s.cpucache ∧
    (grow_start s cachep).grown = s.grown ∧ (grow_start s cachep).getpages = s.getpages ∧
    (grow_start s cachep).getpages_calls = s.getpages_calls + 1 := by
  unfold grow_start kmem_getpages
  refine ⟨?_, rfl, rfl, rfl, rfl, rfl⟩
  simp only [upd_same]

theorem grow_onslab_eq (alloc : kmem_state → Nat → Nat → Option (kmem_state × Nat))
    (env : slab_env) (s : kmem_state) (cachep flags : Nat) (hf : grow_flags_ok env flags)
    (hp : s.getpages s.getpages_calls ≠ 0)
    (hon : (s.cache cachep).flags &&& CFLGS_OFF_SLAB = 0)
    (hz : (s.getpages s.getpages_calls + grow_offset s cachep) % ULONG ≠ 0) :
    kmem_cache_grow alloc env s cachep flags =
      some (grow_finish env
        (onslab_mgmt env (grow_start s cachep) cachep (s.getpages s.getpages_calls)
          (grow_offset s cachep)) cachep
        ((s.getpages s.getpages_calls + grow_offset s cachep) % ULONG)
        (s.getpages s.getpages_calls), 1) := by
  rw [kmem_cache_grow_eq alloc env s cachep flags hf hp,
    slabmgmt_onslab_eq alloc env _ cachep _ _ _ (by rw [(grow_start_cache s cachep).1]; exact hon)]
  simp only []
  rw [if_neg hz]
theorem set_pages_loop_frame (cachep slabp : Nat) :
    ∀ (n : Nat) (s : kmem_state) (page : Nat),
      (set_pages_loop cachep slabp s n page).getpages = s.getpages ∧
      (set_pages_loop cachep slabp s n page).getpages_calls = s.getpages_calls ∧
      (set_pages_loop cachep slabp s n page).cpucache = s.cpucache ∧
      (set_pages_loop cachep slabp s n page).cache_chain = s.cache_chain ∧
      (set_pages_loop cachep slabp s n page).cache_sizes = s.cache_sizes := by
  intro n
  induction n with
  | zero => intro s page; exact ⟨rfl, rfl, rfl, rfl, rfl⟩
  | succ n ih =>
    intro s page
    rw [set_pages_loop]
    exact ih _ _

theorem grow_finish_frame (env : slab_env) (s2 : kmem_state) (cachep slabp objp : Nat) :
    (grow_finish env s2 cachep slabp objp).grown = cachep :: s2.grown ∧
    (grow_finish env s2 cachep slabp objp).getpages = s2.getpages ∧
    (grow_finish env s2 cachep slabp objp).getpages_calls = s2.getpages_calls ∧
    (grow_finish env s2 cachep slabp objp).cpucache = s2.cpucache ∧
    (grow_finish env s2 cachep slabp objp).cache_chain = s2.cache_chain ∧
    (grow_finish env s2 cachep slabp objp).cache_sizes = s2.cache_sizes := by
  obtain ⟨h1, h2, h3, h4, h5⟩ := set_pages_loop_frame cachep slabp
    ((1 <<< (s2.cache cachep).gfporder) % ULONG) s2 (virt_to_page env objp)
  obtain ⟨-, -, h6⟩ := set_pages_loop_cache cachep slabp
    ((1 <<< (s2.cache cachep).gfporder) % ULONG) s2 (virt_to_page env objp)
  unfold grow_finish kmem_cache_init_objs
  exact ⟨congrArg _ h6, h1, h2, h3, h4, h5⟩

theorem onslab_mgmt_fields (env : slab_env) (s : kmem_state) (cachep objp off : Nat) :
    (onslab_mgmt env s cachep objp off).cache = s.cache ∧
    (onslab_mgmt env s cachep objp off).grown = s.grown ∧
    (onslab_mgmt env s cachep objp off).getpages = s.getpages ∧
    (onslab_mgmt env s cachep objp off).getpages_calls = s.getpages_calls ∧
    (onslab_mgmt env s cachep objp off).cpucache = s.cpucache ∧
    ((onslab_mgmt env s cachep objp off).slab ((objp + off) % ULONG)).inuse = 0 ∧
    ((onslab_mgmt env s cachep objp off).slab ((objp + off) % ULONG)).s_mem =
      (objp + (off + L1_CACHE_ALIGN env.cfg
        (((((s.cache cachep).num * sizeof_kmem_bufctl_t) % ULONG) + sizeof_slab_t) % ULONG))
        % ULONG) % ULONG ∧
    ∀ x, x ≠ (objp + off) % ULONG → (onslab_mgmt env s cachep objp off).slab x = s.slab x := by
  unfold onslab_mgmt
  refine ⟨rfl, rfl, rfl, rfl, rfl, ?_, ?_, ?_⟩
  · simp only [upd_same]
  · simp only [upd_same]
  · intro x hx
    simp only [upd_other _ _ _ _ hx]
theorem grow_open (alloc : kmem_state → Nat → Nat → Option (kmem_state × Nat))
    (env : slab_env) (s : kmem_state) (cachep flags m : Nat)
    (hN1 : 1 ≤ (s.cache cachep).num) (hN2 : (s.cache cachep).num ≤ SLAB_LIMIT)
    (hon : (s.cache cachep).flags &&& CFLGS_OFF_SLAB = 0) (hf : grow_flags_ok env flags)
    (hcn : (s.cache cachep).colour_next ≤ m)
    (hp0 : 0 < s.getpages s.getpages_calls)
    (hp1 : s.getpages s.getpages_calls + slab_extent env (s.cache cachep) m < ULONG)
    (hfn : (s.cache cachep).firstnotfull = none)
    (hfresh : s.getpages s.getpages_calls +
      (s.cache cachep).colour_next * (s.cache cachep).colour_off ∉ (s.cache cachep).slabs) :
    ∃ s', kmem_cache_grow alloc env s cachep flags = some (s', 1) ∧
      open_slab s' cachep (s.cache cachep).slabs (s.getpages s.getpages_calls +
        (s.cache cachep).colour_next * (s.cache cachep).colour_off) 0 ∧
      s'.grown = cachep :: s.grown ∧ s'.getpages = s.getpages ∧
      s'.getpages_calls = s.getpages_calls + 1 ∧ s'.cpucache = s.cpucache ∧
      cache_same (s.cache cachep) (s'.cache cachep) ∧
      (s'.cache cachep).colour_next =
        (if ((s.cache cachep).colour_next + 1) % ULONG ≥ (s.cache cachep).colour then 0
          else ((s.cache cachep).colour_next + 1) % ULONG) := by
  have hU : ULONG = 4294967296 := rfl
  have hmul : (s.cache cachep).colour_next * (s.cache cachep).colour_off ≤
      m * (s.cache cachep).colour_off := Nat.mul_le_mul_right _ hcn
  unfold slab_extent at hp1
  have hoff : grow_offset s cachep =
      (s.cache cachep).colour_next * (s.cache cachep).colour_off := by
    unfold grow_offset; exact Nat.mod_eq_of_lt (by omega)
  have hslabp : (s.getpages s.getpages_calls + grow_offset s cachep) % ULONG =
      s.getpages s.getpages_calls +
        (s.cache cachep).colour_next * (s.cache cachep).colour_off := by
    rw [hoff]; exact Nat.mod_eq_of_lt (by omega)
  have heq := grow_onslab_eq alloc env s cachep flags hf (by omega) hon
    (by rw [hslabp]; omega)
  obtain ⟨hgc, hgsl, hgcc, hggr, hggp, hggc⟩ := grow_start_cache s cachep
  obtain ⟨hmc, hmgr, hmgp, hmgc, hmcc, hmin, hmsm, -⟩ := onslab_mgmt_fields env
    (grow_start s cachep) cachep (s.getpages s.getpages_calls) (grow_offset s cachep)
  obtain ⟨S2, hS2⟩ : ∃ S2, S2 = onslab_mgmt env (grow_start s cachep) cachep
    (s.getpages s.getpages_calls) (grow_offset s cachep) := ⟨_, rfl⟩
  rw [← hS2] at heq hmc hmgr hmgp hmgc hmcc hmin hmsm
  rw [hslabp] at heq hmin hmsm
  have hS2c : S2.cache cachep = _ := (congrFun hmc cachep).trans hgc
  obtain ⟨hfc, -⟩ := grow_finish_cache env S2 cachep (s.getpages s.getpages_calls +
    (s.cache cachep).colour_next * (s.cache cachep).colour_off) (s.getpages s.getpages_calls)
  obtain ⟨hfs, -⟩ := grow_finish_slab env S2 cachep (s.getpages s.getpages_calls +
    (s.cache cachep).colour_next * (s.cache cachep).colour_off) (s.getpages s.getpages_calls)
  obtain ⟨hf1, hf2, hf3, hf4, -, -⟩ := grow_finish_frame env S2 cachep (s.getpages s.getpages_calls +
    (s.cache cachep).colour_next * (s.cache cachep).colour_off) (s.getpages s.getpages_calls)
  obtain ⟨G, hG⟩ : ∃ G, G = grow_finish env S2 cachep (s.getpages s.getpages_calls +
    (s.cache cachep).colour_next * (s.cache cachep).colour_off) (s.getpages s.getpages_calls) :=
    ⟨_, rfl⟩
  rw [← hG] at heq hfc hfs hf1 hf2 hf3 hf4
  rw [hS2c] at hfc
  have hnum2 : (S2.cache cachep).num = (s.cache cachep).num := by rw [hS2c]
  rw [hnum2, if_neg (by omega)] at hfs
  obtain ⟨hb1, hb2⟩ := grow_bufctl (S2.slab (s.getpages s.getpages_calls +
    (s.cache cachep).colour_next * (s.cache cachep).colour_off)).bufctl
    (s.cache cachep).num hN1 hN2
  have hnumG : (G.cache cachep).num = (s.cache cachep).num := by rw [hfc]
  have hosG : (G.cache cachep).objsize = (s.cache cachep).objsize := by rw [hfc]
  have e1 : (G.slab (s.getpages s.getpages_calls +
      (s.cache cachep).colour_next * (s.cache cachep).colour_off)).inuse = 0 := by
    rw [hfs]; exact hmin
  have e2 : (G.slab (s.getpages s.getpages_calls +
      (s.cache cachep).colour_next * (s.cache cachep).colour_off)).free = 0 := by rw [hfs]
  have e3 : ∀ i, i + 1 < (s.cache cachep).num → (G.slab (s.getpages s.getpages_calls +
      (s.cache cachep).colour_next * (s.cache cachep).colour_off)).bufctl i = i + 1 := by
    intro i hi; rw [hfs]; exact hb1 i hi
  have e4 : (G.slab (s.getpages s.getpages_calls +
      (s.cache cachep).colour_next * (s.cache cachep).colour_off)).bufctl
      ((s.cache cachep).num - 1) = BUFCTL_END := by rw [hfs]; exact hb2
  obtain ⟨-, e6⟩ := grow_slab_free_ok _ (s.cache cachep).num hN1 hN2 e1 e2 e3 e4
  have e7 : (G.slab (s.getpages s.getpages_calls +
      (s.cache cachep).colour_next * (s.cache cachep).colour_off)).s_mem =
      s.getpages s.getpages_calls +
        (s.cache cachep).colour_next * (s.cache cachep).colour_off +
        L1_CACHE_ALIGN env.cfg
          (((((s.cache cachep).num * sizeof_kmem_bufctl_t) % ULONG) + sizeof_slab_t) % ULONG) := by
    rw [hfs]
    show (S2.slab _).s_mem = _
    rw [hmsm, hgc, hoff]
    show (_ + (_ + L1_CACHE_ALIGN env.cfg
      (((((s.cache cachep).num * sizeof_kmem_bufctl_t) % ULONG) + sizeof_slab_t) % ULONG))
        % ULONG) % ULONG = _
    have l1 : (s.cache cachep).colour_next * (s.cache cachep).colour_off + L1_CACHE_ALIGN env.cfg
      (((((s.cache cachep).num * sizeof_kmem_bufctl_t) % ULONG) + sizeof_slab_t) % ULONG)
        < ULONG := by omega
    rw [Nat.mod_eq_of_lt l1]
    have l2 : s.getpages s.getpages_calls + ((s.cache cachep).colour_next *
      (s.cache cachep).colour_off + L1_CACHE_ALIGN env.cfg
      (((((s.cache cachep).num * sizeof_kmem_bufctl_t) % ULONG) + sizeof_slab_t) % ULONG))
        < ULONG := by omega
    rw [Nat.mod_eq_of_lt l2]
    omega
  refine ⟨G, heq, ⟨?_, hfresh, ?_, ?_, e1, ?_, ?_⟩, ?_, ?_, ?_, ?_, ?_, ?_⟩
  · rw [hfc]
  · rw [hfc]
    show (if (s.cache cachep).firstnotfull = none then some _ else _) = _
    rw [if_pos hfn, if_pos (show 0 < (s.cache cachep).num from hN1)]
  · rw [hnumG]; exact e6
  · rw [e7]; omega
  · rw [e7, hnumG, hosG]; omega
  · rw [hf1, hmgr, hggr]
  · rw [hf2, hmgp, hggp]
  · rw [hf3, hmgc, hggc]
  · rw [hf4, hmcc, hgcc]
  · rw [hfc]; exact ⟨rfl, rfl, rfl, rfl, rfl, rfl, rfl, rfl, rfl, rfl, rfl, rfl, rfl⟩
  · rw [hfc]
theorem alloc_grow (env : slab_env) (n : Nat) (s : kmem_state) (cachep flags m : Nat)
    (hN1 : 1 ≤ (s.cache cachep).num) (hN2 : (s.cache cachep).num ≤ SLAB_LIMIT)
    (hon : (s.cache cachep).flags &&& CFLGS_OFF_SLAB = 0) (hf : grow_flags_ok env flags)
    (hcn : (s.cache cachep).colour_next ≤ m)
    (hp0 : 0 < s.getpages s.getpages_calls)
    (hp1 : s.getpages s.getpages_calls + slab_extent env (s.cache cachep) m < ULONG)
    (hfn : (s.cache cachep).firstnotfull = none)
    (hfresh : s.getpages s.getpages_calls +
      (s.cache cachep).colour_next * (s.cache cachep).colour_off ∉ (s.cache cachep).slabs)
    (hmag : (s.cache cachep).cpudata env.cpu ≠ 0 →
      (s.cpucache ((s.cache cachep).cpudata env.cpu)).avail = 0 ∧
      1 ≤ (s.cache cachep).batchcount ∧ (s.cache cachep).batchcount ≤ INT_MAX) :
    ∃ s' p, __kmem_cache_alloc env (n + 2) s cachep flags = some (s', p) ∧ p ≠ 0 ∧
      run_inv env s' cachep (s.cache cachep).slabs (s.getpages s.getpages_calls +
        (s.cache cachep).colour_next * (s.cache cachep).colour_off) 1 ∧
      s'.grown = cachep :: s.grown ∧ s'.getpages = s.getpages ∧
      s'.getpages_calls = s.getpages_calls + 1 ∧
      cache_same (s.cache cachep) (s'.cache cachep) ∧
      (s'.cache cachep).colour_next =
        (if ((s.cache cachep).colour_next + 1) % ULONG ≥ (s.cache cachep).colour then 0
          else ((s.cache cachep).colour_next + 1) % ULONG) := by
  obtain ⟨G, hG, hoG, hgr, hgp, hgc, hcc, hsame, hcol⟩ := grow_open
    (__kmem_cache_alloc env (n + 1)) env s cachep flags m hN1 hN2 hon hf hcn hp0 hp1 hfn hfresh
  obtain ⟨e1, e2, e3, -⟩ := cache_same_cpudata _ _ hsame
  have hinv : run_inv env G cachep (s.cache cachep).slabs (s.getpages s.getpages_calls +
      (s.cache cachep).colour_next * (s.cache cachep).colour_off) 0 := by
    refine run_inv_intro env s G cachep _ _ 0 0 0 hsame hoG rfl ?_
    by_cases h0 : (s.cache cachep).cpudata env.cpu = 0
    · rw [if_pos h0]
    · rw [if_neg h0]
      obtain ⟨ha, hb1, hb2⟩ := hmag h0
      refine ⟨⟨?_, fun i hi => absurd hi (Nat.not_lt_zero _)⟩, hb1, hb2⟩
      rw [hcc]; exact ha
  obtain ⟨s', p, hal, hp, hinv', hq⟩ := alloc_step env n G cachep flags _ _ 0
    (by rw [e3]; exact hN2) hinv (by rw [e3]; exact hN1)
  refine ⟨s', p, ?_, hp, hinv', ?_, ?_, ?_, ?_, ?_⟩
  · rw [__kmem_cache_alloc, alloc_pass_none env s cachep hfn
      (fun h => ⟨(hmag h).1, (hmag h).2.2⟩)]
    simp only []
    rw [hG]
    simp only []
    rw [if_pos (by decide)]
    exact hal
  · rw [hq.1, hgr]
  · rw [hq.2.1, hgp]
  · rw [hq.2.2.1, hgc]
  · exact cache_same_trans _ _ _ hsame hq.2.2.2.2
  · rw [hq.2.2.2.1, hcol]

theorem alloc_iter_run (env : slab_env) (n cachep flags : Nat) (pre : List Nat) (slabp : Nat) :
    ∀ (k j : Nat) (s : kmem_state), (s.cache cachep).num ≤ SLAB_LIMIT →
      run_inv env s cachep pre slabp j → j + k ≤ (s.cache cachep).num →
      ∃ s', alloc_iter env (n + 1) cachep flags k s = some s' ∧
        run_inv env s' cachep pre slabp (j + k) ∧ alloc_quiet s s' cachep := by
  intro k
  induction k with
  | zero =>
    intro j s _ h _
    exact ⟨s, rfl, h, alloc_quiet_refl _ _⟩
  | succ k ih =>
    intro j s hN2 h hjk
    obtain ⟨s1, p, hal, hp, hinv, hq⟩ := alloc_step env n s cachep flags pre slabp j hN2 h
      (by omega)
    obtain ⟨-, -, e3, -⟩ := cache_same_cpudata _ _ hq.2.2.2.2
    obtain ⟨s', hit, hinv', hq'⟩ := ih (j + 1) s1 (by rw [e3]; exact hN2) hinv
      (by rw [e3]; omega)
    refine ⟨s', ?_, ?_, alloc_quiet_trans _ _ _ _ hq hq'⟩
    · rw [alloc_iter]
      unfold kmem_cache_alloc
      rw [hal]
      simp only []
      rw [if_neg hp]
      exact hit
    · rw [show j + (k + 1) = j + 1 + k by omega]; exact hinv'
theorem alloc_iter_snoc (env : slab_env) (n cachep flags : Nat) :
    ∀ (k : Nat) (s s1 s2 : kmem_state), alloc_iter env n cachep flags k s = some s1 →
      alloc_iter env n cachep flags 1 s1 = some s2 →
      alloc_iter env n cachep flags (k + 1) s = some s2 := by
  intro k
  induction k with
  | zero =>
    intro s s1 s2 h1 h2
    rw [alloc_iter] at h1
    cases h1
    exact h2
  | succ k ih =>
    intro s s1 s2 h1 h2
    rw [alloc_iter] at h1 ⊢
    cases ha : kmem_cache_alloc env n s cachep flags with
    | none => rw [ha] at h1; cases h1
    | some r =>
      obtain ⟨t, p⟩ := r
      rw [ha] at h1
      simp only [] at h1 ⊢
      by_cases hp : p = 0
      · rw [if_pos hp] at h1; cases h1
      · rw [if_neg hp] at h1 ⊢
        exact ih t s1 s2 h1 h2

theorem slab_extent_same (env : slab_env) (c c2 : kmem_cache_t) (m : Nat)
    (h : cache_same c c2) : slab_extent env c2 m = slab_extent env c m := by
  obtain ⟨-, -, e3, -, -, e6, e7⟩ := cache_same_cpudata _ _ h
  unfold slab_extent
  rw [e3, e6, e7]

theorem run_inv_full (env : slab_env) (s : kmem_state) (cachep : Nat) (pre : List Nat)
    (slabp : Nat) (h : run_inv env s cachep pre slabp (s.cache cachep).num) :
    (s.cache cachep).slabs = pre ++ [slabp] ∧ (s.cache cachep).firstnotfull = none ∧
    ((s.cache cachep).cpudata env.cpu ≠ 0 →
      (s.cpucache ((s.cache cachep).cpudata env.cpu)).avail = 0 ∧
      1 ≤ (s.cache cachep).batchcount ∧ (s.cache cachep).batchcount ≤ INT_MAX) := by
  obtain ⟨u, a, ho, hu, hm⟩ := h
  have hle := open_slab_le _ _ _ _ _ ho
  have ha : a = 0 := by omega
  refine ⟨ho.1, ?_, ?_⟩
  · rw [ho.2.2.1, if_neg (by omega)]
  · intro hcc
    rw [if_neg hcc] at hm
    exact ⟨by rw [hm.1.1]; exact ha, hm.2⟩
theorem alloc_num_grows (env : slab_env) (n : Nat) (s : kmem_state) (cachep flags : Nat)
    (hslabs : (s.cache cachep).slabs = []) (hfn : (s.cache cachep).firstnotfull = none)
    (hmag : (s.cache cachep).cpudata env.cpu ≠ 0 →
      (s.cpucache ((s.cache cachep).cpudata env.cpu)).avail = 0 ∧
      1 ≤ (s.cache cachep).batchcount ∧ (s.cache cachep).batchcount ≤ INT_MAX)
    (hN1 : 1 ≤ (s.cache cachep).num) (hN2 : (s.cache cachep).num ≤ SLAB_LIMIT)
    (hos : 0 < (s.cache cachep).objsize)
    (hon : (s.cache cachep).flags &&& CFLGS_OFF_SLAB = 0) (hf : grow_flags_ok env flags)
    (hp : pages_ok env s cachep (max (s.cache cachep).colour_next (s.cache cachep).colour)) :
    ∃ sN, alloc_iter env (n + 2) cachep flags (s.cache cachep).num s = some sN ∧
      sN.grown = cachep :: s.grown ∧ (sN.cache cachep).slabs.length = 1 ∧
      ∃ sM, alloc_iter env (n + 2) cachep flags 1 sN = some sM ∧
        alloc_iter env (n + 2) cachep flags ((s.cache cachep).num + 1) s = some sM ∧
        sM.grown = cachep :: cachep :: s.grown ∧ (sM.cache cachep).slabs.length = 2 := by
  have hU : ULONG = 4294967296 := rfl
  obtain ⟨hp0, hp1, hp2, hp3, hp4⟩ := hp
  obtain ⟨s1, p, hal, hpz, hinv1, hgr1, hgp1, hgc1, hsame1, hcol1⟩ := alloc_grow env n s cachep
    flags _ hN1 hN2 hon hf (Nat.le_max_left _ _) hp0 hp1 hfn (by rw [hslabs]; simp) hmag
  rw [hslabs] at hinv1
  obtain ⟨k, hk⟩ : ∃ k, (s.cache cachep).num = 1 + k := ⟨(s.cache cachep).num - 1, by omega⟩
  obtain ⟨-, -, e3, e4, e5, e6, e7⟩ := cache_same_cpudata _ _ hsame1
  obtain ⟨sN, hit, hinvN, hqN⟩ := alloc_iter_run env (n + 1) cachep flags [] _ k 1 s1
    (by rw [e3]; exact hN2) hinv1 (by rw [e3]; omega)
  have hsameN := cache_same_trans _ _ _ hsame1 hqN.2.2.2.2
  obtain ⟨-, -, f3, f4, f5, f6, f7⟩ := cache_same_cpudata _ _ hsameN
  rw [← hk, ← f3] at hinvN
  obtain ⟨hslN, hfnN, hmagN⟩ := run_inv_full env sN cachep _ _ hinvN
  have hitN : alloc_iter env (n + 2) cachep flags (s.cache cachep).num s = some sN := by
    rw [hk, Nat.add_comm 1 k, alloc_iter]
    unfold kmem_cache_alloc
    rw [hal]
    simp only []
    rw [if_neg hpz]
    exact hit
  have hext := slab_extent_same env _ _ (max (s.cache cachep).colour_next (s.cache cachep).colour)
    hsameN
  have hcolN : (sN.cache cachep).colour_next ≤
      max (s.cache cachep).colour_next (s.cache cachep).colour := by
    rw [hqN.2.2.2.1, hcol1]
    by_cases hc : ((s.cache cachep).colour_next + 1) % ULONG ≥ (s.cache cachep).colour
    · rw [if_pos hc]; exact Nat.zero_le _
    · rw [if_neg hc]
      exact Nat.le_trans (Nat.le_of_lt (Nat.not_le.mp hc)) (Nat.le_max_right _ _)
  have hm1 : (s.cache cachep).colour_next * (s.cache cachep).colour_off ≤
      max (s.cache cachep).colour_next (s.cache cachep).colour * (s.cache cachep).colour_off :=
    Nat.mul_le_mul_right _ (Nat.le_max_left _ _)
  have hm2 : (sN.cache cachep).colour_next * (s.cache cachep).colour_off ≤
      max (s.cache cachep).colour_next (s.cache cachep).colour * (s.cache cachep).colour_off :=
    Nat.mul_le_mul_right _ hcolN
  have hm3 : 0 < (s.cache cachep).num * (s.cache cachep).objsize := Nat.mul_pos hN1 hos
  have hgpN : sN.getpages = s.getpages := hqN.2.1.trans hgp1
  have hgcN : sN.getpages_calls = s.getpages_calls + 1 := hqN.2.2.1.trans hgc1
  obtain ⟨sM, q, halM, hqz, hinvM, hgrM, -, -, -, -⟩ := alloc_grow env n sN cachep flags
    (max (s.cache cachep).colour_next (s.cache cachep).colour)
    (by rw [f3]; exact hN1) (by rw [f3]; exact hN2) (by rw [f4]; exact hon) hf hcolN
    (by rw [hgpN, hgcN]; exact hp2) (by rw [hgpN, hgcN, hext]; exact hp3) hfnN
    (by
      rw [hslN, hgpN, hgcN, f6]
      unfold slab_extent at hp1 hp3 hp4
      simp only [List.nil_append, List.mem_singleton]
      omega) hmagN
  have hit1 : alloc_iter env (n + 2) cachep flags 1 sN = some sM := by
    rw [alloc_iter]
    unfold kmem_cache_alloc
    rw [halM]
    simp only []
    rw [if_neg hqz]
    rfl
  refine ⟨sN, hitN, ?_, ?_, sM, hit1, alloc_iter_snoc env (n + 2) cachep flags _ s sN sM hitN hit1,
    ?_, ?_⟩
  · rw [hqN.1, hgr1]
  · rw [hslN]; rfl
  · rw [hgrM, hqN.1, hgr1]
  · obtain ⟨u, a, ho, -, -⟩ := hinvM
    rw [ho.1, hslN]; rfl
/-! ## Theorems: the choice of the general cache by kmalloc -/

theorem kmalloc_cachep_first (env : slab_env) (size flags : Nat) (z : cache_sizes_t)
    (hz : z.cs_size = 0) :
    ∀ la : List cache_sizes_t, (la.map cache_sizes_t.cs_size).Pairwise (fun a b => a < b) →
      (∀ e ∈ la, e.cs_size ≠ 0) →
      ((∀ e ∈ la, e.cs_size < size) ∧ kmalloc_cachep env size flags (la ++ [z]) = none) ∨
      (∃ e ∈ la, size ≤ e.cs_size ∧
        (∀ e2 ∈ la, size ≤ e2.cs_size → e.cs_size ≤ e2.cs_size) ∧
        kmalloc_cachep env size flags (la ++ [z]) =
          some (if flags &&& env.GFP_DMA ≠ 0 then e.cs_dmacachep else e.cs_cachep)) := by
  intro la
  induction la with
  | nil =>
    intro _ _
    refine Or.inl ⟨fun e he => absurd he (List.not_mem_nil e), ?_⟩
    simp only [List.nil_append, kmalloc_cachep, hz, if_true]
  | cons e la ih =>
    intro hp hnz
    rw [List.map_cons, List.pairwise_cons] at hp
    have he0 : e.cs_size ≠ 0 := hnz e (List.mem_cons_self _ _)
    by_cases hgt : size > e.cs_size
    · have hk : kmalloc_cachep env size flags ((e :: la) ++ [z]) =
          kmalloc_cachep env size flags (la ++ [z]) := by
        rw [List.cons_append, kmalloc_cachep, if_neg he0, if_pos hgt]
      rw [hk]
      rcases ih hp.2 (fun x hx => hnz x (List.mem_cons_of_mem _ hx)) with ⟨h1, h2⟩ | ⟨e1, h1, h2, h3, h4⟩
      · refine Or.inl ⟨?_, h2⟩
        intro x hx
        rcases List.mem_cons.mp hx with rfl | hx
        · exact hgt
        · exact h1 x hx
      · refine Or.inr ⟨e1, List.mem_cons_of_mem _ h1, h2, ?_, h4⟩
        intro x hx hsx
        rcases List.mem_cons.mp hx with rfl | hx
        · omega
        · exact h3 x hx hsx
    · refine Or.inr ⟨e, List.mem_cons_self _ _, Nat.not_lt.mp hgt, ?_, ?_⟩
      · intro x hx _
        rcases List.mem_cons.mp hx with rfl | hx
        · exact Nat.le_refl _
        · exact Nat.le_of_lt (hp.1 _ (List.mem_map_of_mem _ hx))
      · rw [List.cons_append, kmalloc_cachep, if_neg he0, if_neg hgt]
theorem list_nil_or_snoc_sizes (l : List cache_sizes_t) : l = [] ∨ ∃ a z, l = a ++ [z] := by
  induction l with
  | nil => exact Or.inl rfl
  | cons x l ih =>
    rcases ih with rfl | ⟨a, z, rfl⟩
    · exact Or.inr ⟨[], x, rfl⟩
    · exact Or.inr ⟨x :: a, z, rfl⟩
theorem cache_sizes_split (cfg : slab_config) :
    ∃ a : List Nat, (cache_sizes cfg).map cache_sizes_t.cs_size = a ++ [0] ∧
      a.Pairwise (fun x y => x < y) ∧ (∀ x ∈ a, x ≠ 0 ∧ x ≤ 131072) ∧
      128 ∈ a ∧ 256 ∈ a ∧ 131072 ∈ a ∧
      ∀ x ∈ a, x ≤ 64 ∨ x = 128 ∨ x = 256 ∨ 512 ≤ x := by
  by_cases h : cfg.PAGE_SIZE = 4096
  · refine ⟨[32, 64, 128, 256, 512, 1024, 2048, 4096, 8192, 16384, 32768, 65536, 131072],
      ?_, by decide, by decide, by decide, by decide, by decide, by decide⟩
    unfold cache_sizes
    rw [if_pos h]
    rfl
  · refine ⟨[64, 128, 256, 512, 1024, 2048, 4096, 8192, 16384, 32768, 65536, 131072],
      ?_, by decide, by decide, by decide, by decide, by decide, by decide⟩
    unfold cache_sizes
    rw [if_neg h]
    rfl

theorem map_eq_snoc (l : List cache_sizes_t) (a : List Nat) (x : Nat)
    (h : l.map cache_sizes_t.cs_size = a ++ [x]) :
    ∃ la z, l = la ++ [z] ∧ la.map cache_sizes_t.cs_size = a ∧ z.cs_size = x := by
  rcases list_nil_or_snoc_sizes l with rfl | ⟨la, z, rfl⟩
  · simp at h
  · refine ⟨la, z, rfl, ?_⟩
    rw [List.map_append, List.map_singleton] at h
    have h1 := List.append_inj' h rfl
    exact ⟨h1.1, by simpa using h1.2⟩
/-- C16. In a state whose table `cache_sizes` has the sizes of the source's
table, `kmalloc(size, flags)` with `size ≤ 131072` is `__kmem_cache_alloc` on
the cache of an entry `e` of the table with the smallest `cs_size ≥ size` (the
entry ending the table apart), its DMA variant exactly when `flags & GFP_DMA`
is set: `cs_size = 128` for the sizes 100 and 128, and 256 for the size 129.
With `size > 131072` it traps. -/
theorem kmalloc_selects (env : slab_env) (n : Nat) (s : kmem_state) (size flags : Nat)
    (htab : s.cache_sizes.map cache_sizes_t.cs_size =
      (cache_sizes env.cfg).map cache_sizes_t.cs_size) :
    (size ≤ 131072 → ∃ e ∈ s.cache_sizes, e.cs_size ≠ 0 ∧ size ≤ e.cs_size ∧
      (∀ e2 ∈ s.cache_sizes, e2.cs_size ≠ 0 → size ≤ e2.cs_size → e.cs_size ≤ e2.cs_size) ∧
      kmalloc_cachep env size flags s.cache_sizes =
        some (if flags &&& env.GFP_DMA ≠ 0 then e.cs_dmacachep else e.cs_cachep) ∧
      kmalloc env n s size flags = __kmem_cache_alloc env n s
        (if flags &&& env.GFP_DMA ≠ 0 then e.cs_dmacachep else e.cs_cachep) flags ∧
      (size = 100 → e.cs_size = 128) ∧ (size = 128 → e.cs_size = 128) ∧
      (size = 129 → e.cs_size = 256)) ∧
    (131072 < size → kmalloc env n s size flags = none) := by
  obtain ⟨a, ha, hpw, hrange, h128, h256, hmax, hgap⟩ := cache_sizes_split env.cfg
  rw [ha] at htab
  obtain ⟨la, z, hl, hla, hz⟩ := map_eq_snoc _ _ _ htab
  have hmem : ∀ e ∈ la, e.cs_size ∈ a := fun e he => by
    rw [← hla]; exact List.mem_map_of_mem _ he
  have hnz : ∀ e ∈ la, e.cs_size ≠ 0 := fun e he => (hrange _ (hmem e he)).1
  have hget : ∀ x ∈ a, ∃ e ∈ la, e.cs_size = x := fun x hx => by
    rw [← hla] at hx
    obtain ⟨e, he, hex⟩ := List.mem_map.mp hx
    exact ⟨e, he, hex⟩
  have hfirst := kmalloc_cachep_first env size flags z hz la (by rw [hla]; exact hpw) hnz
  refine ⟨?_, ?_⟩
  · intro hs
    rcases hfirst with ⟨h1, -⟩ | ⟨e, he, h2, h3, h4⟩
    · obtain ⟨e, he, hex⟩ := hget 131072 hmax
      have := h1 e he
      omega
    · rw [← hl] at h4
      have hmin : ∀ e2 ∈ s.cache_sizes, e2.cs_size ≠ 0 → size ≤ e2.cs_size →
          e.cs_size ≤ e2.cs_size := by
        intro e2 he2 hne hse
        rw [hl] at he2
        rcases List.mem_append.mp he2 with h | h
        · exact h3 e2 h hse
        · rw [List.mem_singleton] at h
          rw [h] at hne
          exact absurd hz hne
      have hg := hgap _ (hmem e he)
      refine ⟨e, by rw [hl]; exact List.mem_append_left _ he, hnz e he, h2, hmin, h4, ?_, ?_, ?_, ?_⟩
      · unfold kmalloc
        rw [h4]
      · intro h100
        obtain ⟨e2, he2, hex⟩ := hget 128 h128
        have := h3 e2 he2 (by omega)
        omega
      · intro h100
        obtain ⟨e2, he2, hex⟩ := hget 128 h128
        have := h3 e2 he2 (by omega)
        omega
      · intro h100
        obtain ⟨e2, he2, hex⟩ := hget 256 h256
        have := h3 e2 he2 (by omega)
        omega
  · intro hs
    rcases hfirst with ⟨-, h2⟩ | ⟨e, he, h2, -, -⟩
    · unfold kmalloc
      rw [hl, h2]
    · have := (hrange _ (hmem e he)).2
      omega

/-- Witness for C16: with the table of `kmem_state_ex3`, `kmalloc(100)` goes
to the cache of size 128 and `kmalloc(200000)` traps. -/
theorem kmalloc_selects_witness :
    kmalloc_cachep slab_env_ex 100 0x07 kmem_state_ex3.cache_sizes = some (0xC0310000 + 128) ∧
    kmalloc slab_env_ex 1 kmem_state_ex3 200000 0x07 = none :=
  ⟨by decide, (kmalloc_selects slab_env_ex 1 kmem_state_ex3 200000 0x07 (by decide)).2
    (by decide)⟩
/-! ## Theorems: tuning the per-CPU arrays -/

/-- C17. `kmem_tune_cpucache(cachep, limit, batchcount)` returns `-EINVAL`,
with the state as it was (so `batchcount` and the per-CPU arrays of the cache
are untouched), when `limit < 0`, `batchcount < 0`, `batchcount > limit` or
`limit != 0 && batchcount == 0`; in every other case a call that returns
returns 0 or `-ENOMEM`, which are not `-EINVAL`. -/
theorem kmem_tune_cpucache_einval (env : slab_env) (n : Nat) (s : kmem_state) (cachep : Nat)
    (limit batchcount : Int) :
    ((limit < 0 ∨ batchcount < 0 ∨ batchcount > limit ∨ (limit ≠ 0 ∧ batchcount = 0)) →
      kmem_tune_cpucache env n s cachep limit batchcount = some (s, -EINVAL)) ∧
    (¬ (limit < 0 ∨ batchcount < 0 ∨ batchcount > limit ∨ (limit ≠ 0 ∧ batchcount = 0)) →
      ∀ s2 r, kmem_tune_cpucache env n s cachep limit batchcount = some (s2, r) →
        (r = 0 ∨ r = -ENOMEM) ∧ r ≠ -EINVAL) ∧
    (∀ s2 r, kmem_tune_cpucache env n s cachep limit batchcount = some (s2, r) →
      (r = -EINVAL ↔
        (limit < 0 ∨ batchcount < 0 ∨ batchcount > limit ∨ (limit ≠ 0 ∧ batchcount = 0)))) := by
  have hpos : (limit < 0 ∨ batchcount < 0 ∨ batchcount > limit ∨
      (limit ≠ 0 ∧ batchcount = 0)) →
      kmem_tune_cpucache env n s cachep limit batchcount = some (s, -EINVAL) := by
    intro h
    unfold kmem_tune_cpucache
    by_cases h1 : limit < 0
    · rw [if_pos h1]
    rw [if_neg h1]
    by_cases h2 : batchcount < 0
    · rw [if_pos h2]
    rw [if_neg h2]
    by_cases h3 : batchcount > limit
    · rw [if_pos h3]
    rw [if_neg h3]
    by_cases h4 : limit ≠ 0 ∧ batchcount = 0
    · rw [if_pos h4]
    · rcases h with h | h | h | h
      · exact absurd h h1
      · exact absurd h h2
      · exact absurd h h3
      · exact absurd h h4
  have hneg : ¬ (limit < 0 ∨ batchcount < 0 ∨ batchcount > limit ∨
      (limit ≠ 0 ∧ batchcount = 0)) →
      ∀ s2 r, kmem_tune_cpucache env n s cachep limit batchcount = some (s2, r) →
        (r = 0 ∨ r = -ENOMEM) ∧ r ≠ -EINVAL := by
    intro h s2 r hr
    have h1 : ¬ limit < 0 := fun x => h (Or.inl x)
    have h2 : ¬ batchcount < 0 := fun x => h (Or.inr (Or.inl x))
    have h3 : ¬ batchcount > limit := fun x => h (Or.inr (Or.inr (Or.inl x)))
    have h4 : ¬ (limit ≠ 0 ∧ batchcount = 0) := fun x => h (Or.inr (Or.inr (Or.inr x)))
    unfold kmem_tune_cpucache at hr
    rw [if_neg h1, if_neg h2, if_neg h3, if_neg h4] at hr
    have key : r = 0 ∨ r = -ENOMEM := by
      cases hm : (if limit ≠ 0 then
          tune_alloc_loop env n limit.toNat env.smp_num_cpus 0 (fun _ => 0) s
        else some (s, fun _ => 0, none)) with
      | none => rw [hm] at hr; cases hr
      | some v =>
        obtain ⟨s1, new, o⟩ := v
        rw [hm] at hr
        cases o with
        | some i =>
          simp only [] at hr
          cases ho : tune_oom_loop env new i s1 with
          | none => rw [ho] at hr; cases hr
          | some s3 =>
            rw [ho] at hr
            simp only [Option.some.injEq, Prod.mk.injEq] at hr
            exact Or.inr hr.2.symm
        | none =>
          simp only [] at hr
          cases hf : tune_free_loop env cachep
            (smp_call_function_all_cpus env cachep env.smp_num_cpus 0
              ({ s1 with
                cache := upd s1.cache cachep
                  { s1.cache cachep with batchcount := batchcount.toNat } }, new)).2
            env.smp_num_cpus 0
            (smp_call_function_all_cpus env cachep env.smp_num_cpus 0
              ({ s1 with
                cache := upd s1.cache cachep
                  { s1.cache cachep with batchcount := batchcount.toNat } }, new)).1 with
          | none => rw [hf] at hr; cases hr
          | some s3 =>
            rw [hf] at hr
            simp only [Option.some.injEq, Prod.mk.injEq] at hr
            exact Or.inl hr.2.symm
    refine ⟨key, ?_⟩
    rcases key with k | k
    · rw [k]; decide
    · rw [k]; decide
  refine ⟨hpos, hneg, ?_⟩
  intro s2 r hr
  constructor
  · intro hre
    by_contra hc
    exact (hneg hc s2 r hr).2 hre
  · intro hc
    rw [hpos hc] at hr
    simp only [Option.some.injEq, Prod.mk.injEq] at hr
    exact hr.2.symm

/-- Witness for C17: a negative limit is refused and the state is as it was. -/
theorem kmem_tune_cpucache_einval_witness :
    ((-1 : Int) < 0 ∨ (0 : Int) < 0 ∨ (0 : Int) > -1 ∨ ((-1 : Int) ≠ 0 ∧ (0 : Int) = 0)) ∧
    kmem_tune_cpucache slab_env_ex 1 kmem_state_ex 0 (-1) 0 = some (kmem_state_ex, -EINVAL) :=
  ⟨by decide, (kmem_tune_cpucache_einval slab_env_ex 1 kmem_state_ex 0 (-1) 0).1 (by decide)⟩
/-! ## Theorems: destroying a cache -/

theorem free_frame_refl (s : kmem_state) : free_frame s s :=
  ⟨state_same_refl s, fun _ => rfl, rfl⟩

theorem free_frame_trans (a b c : kmem_state) (h1 : free_frame a b) (h2 : free_frame b c) :
    free_frame a c :=
  ⟨state_same_trans _ _ _ h1.1 h2.1, fun x => (h2.2.1 x).trans (h1.2.1 x), h2.2.2.trans h1.2.2⟩

theorem free_one_frame (env : slab_env) (s : kmem_state) (cachep objp : Nat) (s' : kmem_state)
    (h : kmem_cache_free_one env s cachep objp = some s') :
    free_frame s s' ∧ s'.cpucache = s.cpucache := by
  obtain ⟨hsame, hcpu⟩ := free_one_same env s cachep objp s' h
  obtain ⟨_, slabs, fnf, hform, _⟩ := free_one_form env s cachep objp s' h
  refine ⟨⟨hsame, ?_, ?_⟩, hcpu⟩
  · intro x
    rw [hform]
    by_cases hx : x = cachep
    · rw [hx]; simp only [upd_same]
    · simp only [upd_other _ _ _ _ hx]
  · rw [hform]

theorem free_block_loop_frame (env : slab_env) (cachep : Nat) (objpp : Nat → Nat) :
    ∀ (len i : Nat) (s : kmem_state), (s.cache cachep).objsize % ULONG ≠ 0 →
      ∃ s', __free_block env cachep objpp len i s = some s' ∧ free_frame s s' ∧
        s'.cpucache = s.cpucache := by
  intro len
  induction len with
  | zero => intro i s _; exact ⟨s, rfl, free_frame_refl s, rfl⟩
  | succ len ih =>
    intro i s h0
    obtain ⟨s1, hs1⟩ := free_one_total env s cachep (objpp i) h0
    obtain ⟨hfr, hcpu⟩ := free_one_frame env s cachep (objpp i) s1 hs1
    obtain ⟨s', hs', hfr', hcpu'⟩ := ih (i + 1) s1 (by rw [(hfr.1 cachep).1]; exact h0)
    refine ⟨s', ?_, free_frame_trans _ _ _ hfr hfr', by rw [hcpu', hcpu]⟩
    simp only [__free_block, hs1]
    exact hs'

theorem free_block_frame (env : slab_env) (s : kmem_state) (cachep : Nat) (objpp : Nat → Nat)
    (len : Nat) (h0 : (s.cache cachep).objsize % ULONG ≠ 0) :
    ∃ s', free_block env s cachep objpp len = some s' ∧ free_frame s s' ∧
      s'.cpucache = s.cpucache := by
  unfold free_block
  by_cases h : len > INT_MAX
  · rw [if_pos h]; exact ⟨s, rfl, free_frame_refl s, rfl⟩
  · rw [if_neg h]; exact free_block_loop_frame env cachep objpp len 0 s h0

theorem cache_free_frame (env : slab_env) (s : kmem_state) (cachep p : Nat)
    (h0 : (s.cache cachep).objsize % ULONG ≠ 0) :
    ∃ s', __kmem_cache_free env s cachep p = some s' ∧ free_frame s s' := by
  unfold __kmem_cache_free
  by_cases hcc : (s.cache cachep).cpudata env.cpu ≠ 0
  · rw [if_pos hcc]
    dsimp only
    by_cases ha : (s.cpucache ((s.cache cachep).cpudata env.cpu)).avail <
        (s.cpucache ((s.cache cachep).cpudata env.cpu)).limit
    · rw [if_pos ha]
      exact ⟨_, rfl, state_same_refl s, fun _ => rfl, rfl⟩
    · rw [if_neg ha]
      obtain ⟨s1, hs1, hfr, -⟩ := free_block_frame env
        { s with
          cpucache := upd s.cpucache ((s.cache cachep).cpudata env.cpu)
            { s.cpucache ((s.cache cachep).cpudata env.cpu) with
              avail := ((s.cpucache ((s.cache cachep).cpudata env.cpu)).avail + ULONG -
                (s.cache cachep).batchcount % ULONG) % ULONG } } cachep
        (fun i => (s.cpucache ((s.cache cachep).cpudata env.cpu)).entry
          (((s.cpucache ((s.cache cachep).cpudata env.cpu)).avail + ULONG -
            (s.cache cachep).batchcount % ULONG) % ULONG + i))
        ((s.cache cachep).batchcount % ULONG) h0
      rw [hs1]
      exact ⟨_, rfl, hfr.1, hfr.2.1, hfr.2.2⟩
  · rw [if_neg hcc]
    obtain ⟨s1, hs1, hfr, -⟩ := free_block_frame env s cachep (fun _ => p) 1 h0
    exact ⟨s1, hs1, hfr⟩

theorem kfree_frame (env : slab_env) (s : kmem_state) (p : Nat)
    (h0 : ∀ x, (s.cache x).objsize % ULONG ≠ 0) :
    ∃ s', kfree env s p = some s' ∧ free_frame s s' := by
  unfold kfree
  by_cases hp : p = 0
  · rw [if_pos hp]; exact ⟨s, rfl, free_frame_refl s⟩
  · rw [if_neg hp]; exact cache_free_frame env s _ p (h0 _)

theorem objsize_frame (s s2 : kmem_state) (h : free_frame s s2)
    (h0 : ∀ x, (s.cache x).objsize % ULONG ≠ 0) : ∀ x, (s2.cache x).objsize % ULONG ≠ 0 := by
  intro x
  rw [(h.1 x).1]; exact h0 x
theorem drain_loop_frame (env : slab_env) (cachep : Nat) :
    ∀ (n i : Nat) (s : kmem_state), (s.cache cachep).objsize % ULONG ≠ 0 →
      ∃ s', drain_loop env cachep n i s = some s' ∧ free_frame s s' := by
  intro n
  induction n with
  | zero => intro i s _; exact ⟨s, rfl, free_frame_refl s⟩
  | succ n ih =>
    intro i s h0
    rw [drain_loop]
    dsimp only
    by_cases hc : (s.cache cachep).cpudata (env.cpu_logical_map i) = 0 ∨
        (s.cpucache ((s.cache cachep).cpudata (env.cpu_logical_map i))).avail = 0
    · rw [if_pos hc]; exact ih (i + 1) s h0
    · rw [if_neg hc]
      obtain ⟨s1, hs1, hfr, -⟩ := free_block_frame env s cachep
        (s.cpucache ((s.cache cachep).cpudata (env.cpu_logical_map i))).entry
        ((s.cpucache ((s.cache cachep).cpudata (env.cpu_logical_map i))).avail % ULONG) h0
      rw [hs1]
      dsimp only
      obtain ⟨s', hs', hfr'⟩ := ih (i + 1)
        { s1 with
          cpucache := upd s1.cpucache ((s.cache cachep).cpudata (env.cpu_logical_map i))
            { s1.cpucache ((s.cache cachep).cpudata (env.cpu_logical_map i)) with avail := 0 } }
        (by rw [(hfr.1 cachep).1]; exact h0)
      exact ⟨s', hs', free_frame_trans _ _ _ hfr hfr'⟩

theorem destroy_kfree_loop_frame (env : slab_env) (cachep : Nat) :
    ∀ (n i : Nat) (s : kmem_state), (∀ x, (s.cache x).objsize % ULONG ≠ 0) →
      ∃ s', destroy_kfree_loop env cachep n i s = some s' ∧ free_frame s s' := by
  intro n
  induction n with
  | zero => intro i s _; exact ⟨s, rfl, free_frame_refl s⟩
  | succ n ih =>
    intro i s h0
    rw [destroy_kfree_loop]
    obtain ⟨s1, hs1, hfr⟩ := kfree_frame env s ((s.cache cachep).cpudata i) h0
    rw [hs1]
    dsimp only
    obtain ⟨s', hs', hfr'⟩ := ih (i + 1) s1 (objsize_frame _ _ hfr h0)
    exact ⟨s', hs', free_frame_trans _ _ _ hfr hfr'⟩

theorem shrink_loop_onslab (env : slab_env) (cachep : Nat) :
    ∀ (fuel : Nat) (s : kmem_state), (s.cache cachep).flags &&& CFLGS_OFF_SLAB = 0 →
      (s.cache cachep).growing = 0 → (s.cache cachep).slabs.length ≤ fuel →
      ∃ s', shrink_loop env cachep fuel s = some s' ∧ s'.slab = s.slab ∧
        s'.cache_chain = s.cache_chain ∧ (∀ x, (s'.cache x).objsize = (s.cache x).objsize) ∧
        (∀ x ∈ (s.cache cachep).slabs, (s.slab x).inuse ≠ 0 → x ∈ (s'.cache cachep).slabs) ∧
        (∀ x ∈ (s'.cache cachep).slabs, x ∈ (s.cache cachep).slabs) ∧
        ((∀ x ∈ (s.cache cachep).slabs, (s.slab x).inuse = 0) →
          (s'.cache cachep).slabs = []) := by
  intro fuel
  induction fuel with
  | zero =>
    intro s _ _ hlen
    have hnil : (s.cache cachep).slabs = [] := List.length_eq_zero.mp (Nat.le_zero.mp hlen)
    have hnext : shrink_next s cachep = none := by
      unfold shrink_next
      rw [hnil]
      simp [list_prev]
    refine ⟨s, ?_, rfl, rfl, fun _ => rfl, fun x hx _ => hx, fun x hx => hx, fun _ => hnil⟩
    rw [shrink_loop, hnext]
  | succ fuel ih =>
    intro s hon hg hlen
    cases hnext : shrink_next s cachep with
    | none =>
      refine ⟨s, ?_, rfl, rfl, fun _ => rfl, fun x hx _ => hx, fun x hx => hx, ?_⟩
      · rw [shrink_loop, hnext]
      · intro hall
        unfold shrink_next at hnext
        rw [if_neg (not_not.mpr hg)] at hnext
        rcases list_nil_or_snoc (s.cache cachep).slabs with hnil | ⟨a, z, hz⟩
        · exact hnil
        · rw [hz] at hnext
          simp only [list_prev, getLast_snoc] at hnext
          have := hall z (by rw [hz]; simp)
          rw [if_neg (not_not.mpr this)] at hnext
          cases hnext
    | some slabp =>
      have hinfo : slabp ∈ (s.cache cachep).slabs ∧ (s.slab slabp).inuse = 0 := by
        unfold shrink_next at hnext
        rw [if_neg (not_not.mpr hg)] at hnext
        rcases list_nil_or_snoc (s.cache cachep).slabs with hnil | ⟨a, z, hz⟩
        · rw [hnil] at hnext
          simp [list_prev] at hnext
        · rw [hz] at hnext ⊢
          simp only [list_prev, getLast_snoc] at hnext
          by_cases hin : (s.slab z).inuse ≠ 0
          · rw [if_pos hin] at hnext; cases hnext
          · rw [if_neg hin] at hnext
            simp only [Option.some.injEq] at hnext
            rw [← hnext]
            exact ⟨by simp, not_not.mp hin⟩
      obtain ⟨hmem, hin0⟩ := hinfo
      have hdes : kmem_slab_destroy env (slab_unlink s cachep slabp) cachep slabp =
          some (kmem_freepages env (slab_unlink s cachep slabp) cachep
            ((((slab_unlink s cachep slabp).slab slabp).s_mem + ULONG -
              ((slab_unlink s cachep slabp).slab slabp).colouroff % ULONG) % ULONG)) := by
        unfold kmem_slab_destroy
        dsimp only
        rw [if_neg]
        simp only [slab_unlink, upd_same]
        exact not_not.mpr hon
      obtain ⟨S1, hS1⟩ : ∃ S1, S1 = kmem_freepages env (slab_unlink s cachep slabp) cachep
          ((((slab_unlink s cachep slabp).slab slabp).s_mem + ULONG -
            ((slab_unlink s cachep slabp).slab slabp).colouroff % ULONG) % ULONG) := ⟨_, rfl⟩
      rw [← hS1] at hdes
      have hc1 : S1.cache cachep = { s.cache cachep with
          slabs := list_del (s.cache cachep).slabs slabp
          firstnotfull := if (s.cache cachep).firstnotfull = some slabp then none
            else (s.cache cachep).firstnotfull } := by
        rw [hS1]; simp only [kmem_freepages, slab_unlink, upd_same]
      have hco : ∀ x, (S1.cache x).objsize = (s.cache x).objsize := by
        intro x
        by_cases hx : x = cachep
        · rw [hx, hc1]
        · rw [hS1]; simp only [kmem_freepages, slab_unlink, upd_other _ _ _ _ hx]
      have hsl1 : S1.slab = s.slab := by rw [hS1]; rfl
      have hch1 : S1.cache_chain = s.cache_chain := by rw [hS1]; rfl
      have hlen1 : (S1.cache cachep).slabs.length ≤ fuel := by
        rw [hc1]
        show (list_del (s.cache cachep).slabs slabp).length ≤ fuel
        unfold list_del
        rw [List.length_erase_of_mem hmem]
        omega
      obtain ⟨s', hs', h1, h2, h3, h4, h5, h6⟩ := ih S1 (by rw [hc1]; exact hon)
        (by rw [hc1]; exact hg) hlen1
      have hsub : ∀ x ∈ (S1.cache cachep).slabs, x ∈ (s.cache cachep).slabs := by
        intro x hx
        rw [hc1] at hx
        exact List.mem_of_mem_erase hx
      refine ⟨s', ?_, h1.trans hsl1, h2.trans hch1, fun x => (h3 x).trans (hco x), ?_, ?_, ?_⟩
      · rw [shrink_loop, hnext]
        dsimp only
        rw [hdes]
        exact hs'
      · intro x hx hxin
        apply h4 x
        · rw [hc1]
          show x ∈ (s.cache cachep).slabs.erase slabp
          exact (List.mem_erase_of_ne (fun e => hxin (by rw [e]; exact hin0))).mpr hx
        · rw [hsl1]; exact hxin
      · intro x hx
        exact hsub x (h5 x hx)
      · intro hall
        apply h6
        intro x hx
        rw [hsl1]
        exact hall x (hsub x hx)
/-! ## Theorems: the back-pointers of the pages of a slab -/

theorem grow_finish_pages (env : slab_env) (s2 : kmem_state) (cachep slabp objp q : Nat) :
    (grow_finish env s2 cachep slabp objp).page_cache q =
      (if virt_to_page env objp ≤ q ∧
          q < virt_to_page env objp + (1 <<< (s2.cache cachep).gfporder) % ULONG
        then cachep else s2.page_cache q) ∧
    (grow_finish env s2 cachep slabp objp).page_slab q =
      (if virt_to_page env objp ≤ q ∧
          q < virt_to_page env objp + (1 <<< (s2.cache cachep).gfporder) % ULONG
        then slabp else s2.page_slab q) ∧
    (grow_finish env s2 cachep slabp objp).PageSlab q =
      (if virt_to_page env objp ≤ q ∧
          q < virt_to_page env objp + (1 <<< (s2.cache cachep).gfporder) % ULONG
        then true else s2.PageSlab q) := by
  unfold grow_finish kmem_cache_init_objs
  exact set_pages_loop_pages cachep slabp ((1 <<< (s2.cache cachep).gfporder) % ULONG) s2
    (virt_to_page env objp) q

theorem grow_finish_s_mem (env : slab_env) (s2 : kmem_state) (cachep slabp objp x : Nat) :
    ((grow_finish env s2 cachep slabp objp).slab x).s_mem = (s2.slab x).s_mem := by
  obtain ⟨h1, h2⟩ := grow_finish_slab env s2 cachep slabp objp
  by_cases hx : x = slabp
  · rw [hx, h1]
  · rw [h2 x hx]

theorem grow_finish_pages_ok (env : slab_env) (s2 : kmem_state) (cachep slabp objp : Nat)
    (hinv : slab_pages_ok env s2 cachep)
    (hfresh : ∀ x ∈ (s2.cache cachep).slabs, ∀ i, i < (s2.cache cachep).num →
      ¬ (virt_to_page env objp ≤
          virt_to_page env ((s2.slab x).s_mem + i * (s2.cache cachep).objsize) ∧
        virt_to_page env ((s2.slab x).s_mem + i * (s2.cache cachep).objsize) <
          virt_to_page env objp + (1 <<< (s2.cache cachep).gfporder) % ULONG))
    (hlay : ∀ i, i < (s2.cache cachep).num →
      virt_to_page env objp ≤
          virt_to_page env ((s2.slab slabp).s_mem + i * (s2.cache cachep).objsize) ∧
        virt_to_page env ((s2.slab slabp).s_mem + i * (s2.cache cachep).objsize) <
          virt_to_page env objp + (1 <<< (s2.cache cachep).gfporder) % ULONG) :
    slab_pages_ok env (grow_finish env s2 cachep slabp objp) cachep := by
  obtain ⟨hc, -⟩ := grow_finish_cache env s2 cachep slabp objp
  intro x hx i hi
  rw [hc] at hx hi ⊢
  have hx' : x ∈ (s2.cache cachep).slabs ++ [slabp] := hx
  have hi' : i < (s2.cache cachep).num := hi
  show (grow_finish env s2 cachep slabp objp).PageSlab
      (virt_to_page env (((grow_finish env s2 cachep slabp objp).slab x).s_mem +
        i * (s2.cache cachep).objsize)) = true ∧
    (grow_finish env s2 cachep slabp objp).page_cache
      (virt_to_page env (((grow_finish env s2 cachep slabp objp).slab x).s_mem +
        i * (s2.cache cachep).objsize)) = cachep ∧
    (grow_finish env s2 cachep slabp objp).page_slab
      (virt_to_page env (((grow_finish env s2 cachep slabp objp).slab x).s_mem +
        i * (s2.cache cachep).objsize)) = x
  rw [grow_finish_s_mem]
  obtain ⟨p1, p2, p3⟩ := grow_finish_pages env s2 cachep slabp objp
    (virt_to_page env ((s2.slab x).s_mem + i * (s2.cache cachep).objsize))
  rw [p1, p2, p3]
  rcases List.mem_append.mp hx' with hold | hnew
  · have hn := hfresh x hold i hi'
    rw [if_neg hn, if_neg hn, if_neg hn]
    exact hinv x hold i hi'
  · rw [List.mem_singleton] at hnew
    rw [hnew]
    have hy := hlay i hi'
    rw [if_pos hy, if_pos hy, if_pos hy]
    exact ⟨rfl, rfl, rfl⟩
theorem free_slab_s_mem (env : slab_env) (s : kmem_state) (cachep objp : Nat) :
    (free_slab env s cachep objp).s_mem =
      (s.slab (s.page_slab (virt_to_page env objp))).s_mem := by
  unfold free_slab
  rfl

theorem alloc_one_tail_pages_ok (env : slab_env) (s : kmem_state) (cachep slabp : Nat)
    (hinv : slab_pages_ok env s cachep) :
    slab_pages_ok env (kmem_cache_alloc_one_tail s cachep slabp).1 cachep := by
  obtain ⟨fnf, hf⟩ := alloc_one_tail_form s cachep slabp
  rw [hf]
  intro x hx i hi
  simp only [upd_same] at hx hi ⊢
  have hs : ((upd s.slab slabp { s.slab slabp with
      inuse := ((s.slab slabp).inuse + 1) % ULONG
      free := (s.slab slabp).bufctl (s.slab slabp).free }) x).s_mem = (s.slab x).s_mem := by
    by_cases e : x = slabp
    · rw [e, upd_same]
    · rw [upd_other _ _ _ _ e]
  rw [hs]
  exact hinv x hx i hi

theorem free_one_pages_ok (env : slab_env) (s : kmem_state) (cachep objp : Nat)
    (hinv : slab_pages_ok env s cachep)
    (hmem : s.page_slab (virt_to_page env objp) ∈ (s.cache cachep).slabs)
    (h0 : (s.cache cachep).objsize % ULONG ≠ 0) :
    ∃ s', kmem_cache_free_one env s cachep objp = some s' ∧ slab_pages_ok env s' cachep := by
  obtain ⟨s', hs'⟩ := free_one_total env s cachep objp h0
  refine ⟨s', hs', ?_⟩
  obtain ⟨_, slabs, fnf, hform, hslabs⟩ := free_one_form env s cachep objp s' hs'
  have hsub : ∀ x ∈ slabs, x ∈ (s.cache cachep).slabs := by
    intro x hx
    rcases hslabs with e | e | e
    · rw [e] at hx; exact hx
    · rw [e] at hx; exact (move_perm _ _ _ hmem).mem_iff.mp hx
    · rw [e] at hx; exact (move_perm _ _ _ hmem).mem_iff.mp hx
  rw [hform]
  intro x hx i hi
  simp only [upd_same] at hx hi ⊢
  have hs : ((upd s.slab (s.page_slab (virt_to_page env objp))
      (free_slab env s cachep objp)) x).s_mem = (s.slab x).s_mem := by
    by_cases e : x = s.page_slab (virt_to_page env objp)
    · rw [e, upd_same]; exact free_slab_s_mem env s cachep objp
    · rw [upd_other _ _ _ _ e]
  rw [hs]
  exact hinv x (hsub x hx) i hi

theorem kfree_same_cache (env : slab_env) (s : kmem_state) (cachep : Nat)
    (hinv : slab_pages_ok env s cachep) (slabp : Nat) (hx : slabp ∈ (s.cache cachep).slabs)
    (i : Nat) (hi : i < (s.cache cachep).num)
    (hp : (s.slab slabp).s_mem + i * (s.cache cachep).objsize ≠ 0) :
    s.PageSlab (virt_to_page env ((s.slab slabp).s_mem + i * (s.cache cachep).objsize)) = true ∧
    s.page_cache (virt_to_page env ((s.slab slabp).s_mem + i * (s.cache cachep).objsize)) =
      cachep ∧
    s.page_slab (virt_to_page env ((s.slab slabp).s_mem + i * (s.cache cachep).objsize)) =
      slabp ∧
    kfree env s ((s.slab slabp).s_mem + i * (s.cache cachep).objsize) =
      __kmem_cache_free env s cachep ((s.slab slabp).s_mem + i * (s.cache cachep).objsize) := by
  obtain ⟨h1, h2, h3⟩ := hinv slabp hx i hi
  refine ⟨h1, h2, h3, ?_⟩
  unfold kfree
  rw [if_neg hp, h2]

theorem virt_to_page_range (env : slab_env) (objp p k : Nat)
    (hps : 0 < env.cfg.PAGE_SIZE) (hpo : env.PAGE_OFFSET ≤ objp)
    (hal : (objp - env.PAGE_OFFSET) % env.cfg.PAGE_SIZE = 0)
    (h1 : objp ≤ p) (h2 : p < objp + env.cfg.PAGE_SIZE * k)
    (h3 : objp + env.cfg.PAGE_SIZE * k ≤ ULONG) :
    virt_to_page env objp ≤ virt_to_page env p ∧
    virt_to_page env p < virt_to_page env objp + k := by
  have hU : ULONG = 4294967296 := rfl
  have hv : ∀ a, env.PAGE_OFFSET ≤ a → a < ULONG →
      virt_to_page env a = (a - env.PAGE_OFFSET) / env.cfg.PAGE_SIZE := by
    intro a ha hb
    unfold virt_to_page
    rw [Nat.mod_eq_of_lt (show env.PAGE_OFFSET < ULONG by omega),
      show a + ULONG - env.PAGE_OFFSET = (a - env.PAGE_OFFSET) + ULONG by omega,
      Nat.add_mod_right, Nat.mod_eq_of_lt (by omega)]
  have hk : 0 < k := by
    rcases Nat.eq_zero_or_pos k with h | h
    · rw [h] at h2; omega
    · exact h
  have hpk : env.cfg.PAGE_SIZE ≤ env.cfg.PAGE_SIZE * k := Nat.le_mul_of_pos_right _ hk
  rw [hv objp hpo (by omega), hv p (by omega) (by omega)]
  obtain ⟨m, hm⟩ : ∃ m, objp - env.PAGE_OFFSET = env.cfg.PAGE_SIZE * m :=
    ⟨_, (Nat.eq_mul_of_div_eq_right (Nat.dvd_of_mod_eq_zero hal) rfl)⟩
  rw [hm, Nat.mul_div_cancel_left _ hps]
  constructor
  · rw [Nat.le_div_iff_mul_le hps, Nat.mul_comm]
    omega
  · rw [Nat.div_lt_iff_lt_mul hps, Nat.add_mul, Nat.mul_comm m, Nat.mul_comm k]
    omega
theorem grow_success_onslab (alloc : kmem_state → Nat → Nat → Option (kmem_state × Nat))
    (env : slab_env) (s : kmem_state) (cachep flags : Nat) (s' : kmem_state)
    (h : kmem_cache_grow alloc env s cachep flags = some (s', 1))
    (hon : (s.cache cachep).flags &&& CFLGS_OFF_SLAB = 0) :
    s' = grow_finish env
      (onslab_mgmt env (grow_start s cachep) cachep (s.getpages s.getpages_calls)
        (grow_offset s cachep)) cachep
      ((s.getpages s.getpages_calls + grow_offset s cachep) % ULONG)
      (s.getpages s.getpages_calls) := by
  obtain ⟨-, -, s2, slabp, -, hm, hs'⟩ := kmem_cache_grow_success alloc env s cachep flags s' h
  rw [slabmgmt_onslab_eq alloc env _ cachep _ _ _
    (by rw [(grow_start_cache s cachep).1]; exact hon)] at hm
  simp only [Option.some.injEq, Prod.mk.injEq] at hm
  rw [hs', ← hm.1, ← hm.2]

theorem onslab_start_pages_ok (env : slab_env) (s : kmem_state) (cachep objp off : Nat)
    (hinv : slab_pages_ok env s cachep)
    (hfd : (objp + off) % ULONG ∉ (s.cache cachep).slabs) :
    slab_pages_ok env (onslab_mgmt env (grow_start s cachep) cachep objp off) cachep := by
  obtain ⟨hgc, hgsl, -⟩ := grow_start_cache s cachep
  obtain ⟨hmc, -, -, -, -, -, -, hmo⟩ := onslab_mgmt_fields env (grow_start s cachep) cachep
    objp off
  intro x hx i hi
  rw [hmc, hgc] at hx hi ⊢
  have hx' : x ∈ (s.cache cachep).slabs := hx
  have hne : x ≠ (objp + off) % ULONG := fun e => hfd (e ▸ hx')
  rw [hmo x hne, hgsl]
  exact hinv x hx' i hi
/-! ## Theorems: the object size of a new cache -/

theorem and_not_low (x k : Nat) (hx : x < 2 ^ 32) (hk : k ≤ 32) :
    x &&& ((2 ^ 32 - 1) ^^^ (2 ^ k - 1)) = x / 2 ^ k * 2 ^ k := by
  apply Nat.eq_of_testBit_eq
  intro i
  rw [Nat.testBit_and, Nat.testBit_xor, Nat.testBit_two_pow_sub_one,
    Nat.testBit_two_pow_sub_one, Nat.mul_comm, Nat.testBit_mul_pow_two,
    ← Nat.shiftRight_eq_div_pow, Nat.testBit_shiftRight]
  by_cases h1 : i < k
  · have h2 : i < 32 := by omega
    simp [h1, h2]
  · by_cases h2 : i < 32
    · have h3 : k + (i - k) = i := by omega
      simp [h1, h2, h3, Nat.not_lt.mp h1]
    · have h3 : k + (i - k) = i := by omega
      have h4 : x.testBit i = false :=
        Nat.testBit_lt_two_pow (Nat.lt_of_lt_of_le hx
          (Nat.pow_le_pow_right (by decide) (Nat.not_lt.mp h2)))
      simp [h1, h2, h3, h4]

theorem round_up_mask (x k : Nat) (hk : k ≤ 31) (hx : x + 2 ^ k ≤ ULONG) :
    ((x + 2 ^ k + ULONG - 1) % ULONG) &&& ((ULONG - 1) ^^^ ((2 ^ k + ULONG - 1) % ULONG)) =
      (x + 2 ^ k - 1) / 2 ^ k * 2 ^ k := by
  have hU : ULONG = 2 ^ 32 := rfl
  have hp : 0 < 2 ^ k := Nat.two_pow_pos k
  have hkU : 2 ^ k < 2 ^ 32 := Nat.pow_lt_pow_right (by decide) (by omega)
  have e1 : (x + 2 ^ k + ULONG - 1) % ULONG = x + 2 ^ k - 1 := by
    rw [show x + 2 ^ k + ULONG - 1 = (x + 2 ^ k - 1) + ULONG by omega, Nat.add_mod_right]
    exact Nat.mod_eq_of_lt (by omega)
  have e2 : (2 ^ k + ULONG - 1) % ULONG = 2 ^ k - 1 := by
    rw [show 2 ^ k + ULONG - 1 = (2 ^ k - 1) + ULONG by omega, Nat.add_mod_right]
    exact Nat.mod_eq_of_lt (by omega)
  rw [e1, e2, hU]
  exact and_not_low _ k (by omega) (by omega)

theorem create_word_align_eq (size : Nat) (h : size + 3 < ULONG) :
    create_word_align size = (size + 3) / 4 * 4 := by
  have hU : ULONG = 2 ^ 32 := rfl
  unfold create_word_align
  have hb : BYTES_PER_WORD - 1 = 2 ^ 2 - 1 := rfl
  rw [hb, Nat.and_pow_two_sub_one_eq_mod]
  by_cases hm : size % 2 ^ 2 ≠ 0
  · rw [if_pos hm, Nat.mod_eq_of_lt (show size + (2 ^ 2 - 1) < ULONG from h), hU]
    exact and_not_low _ 2 (by omega) (by decide)
  · rw [if_neg hm]
    have : size % 4 = 0 := not_not.mp hm
    omega
theorem create_align_loop_spec (w : Nat) :
    ∀ (fuel j : Nat), j < fuel →
      ∃ i, i ≤ j ∧ create_align_loop w fuel (2 ^ j) = 2 ^ i ∧ (i = j ∨ w < 2 ^ i) ∧
        2 ^ i / 2 ≤ w := by
  intro fuel
  induction fuel with
  | zero => intro j hj; omega
  | succ f ih =>
    intro j hj
    rw [create_align_loop]
    by_cases hc : w < 2 ^ j / 2
    · rw [if_pos hc]
      have hj1 : 1 ≤ j := by
        rcases Nat.eq_zero_or_pos j with h | h
        · rw [h] at hc; simp at hc
        · exact h
      have hhalf : 2 ^ j / 2 = 2 ^ (j - 1) := by
        obtain ⟨m, rfl⟩ : ∃ m, j = m + 1 := ⟨j - 1, by omega⟩
        rw [Nat.pow_succ, Nat.mul_div_cancel _ (by decide : 0 < 2), Nat.add_sub_cancel]
      rw [hhalf] at hc ⊢
      obtain ⟨i, hi, he, hor, hle⟩ := ih (j - 1) (by omega)
      refine ⟨i, by omega, he, Or.inr ?_, hle⟩
      rcases hor with h | h
      · rw [h]; exact hc
      · exact h
    · rw [if_neg hc]
      exact ⟨j, Nat.le_refl _, rfl, Or.inl rfl, Nat.not_lt.mp hc⟩

theorem or_and_mask (a b c : Nat) (h : c &&& b = 0) : (a ||| b) &&& c = a &&& c := by
  apply Nat.eq_of_testBit_eq
  intro i
  have hi : (c &&& b).testBit i = false := by rw [h]; exact Nat.zero_testBit i
  rw [Nat.testBit_and] at hi
  rw [Nat.testBit_and, Nat.testBit_and, Nat.testBit_or]
  cases ha : a.testBit i <;> cases hb : b.testBit i <;> cases hc : c.testBit i <;>
    simp_all

theorem create_flags_hw (cfg : slab_config) (size flags : Nat)
    (hmask : cfg.SLAB_HWCACHE_ALIGN &&& CFLGS_OFF_SLAB = 0) :
    create_flags cfg size flags &&& cfg.SLAB_HWCACHE_ALIGN = flags &&& cfg.SLAB_HWCACHE_ALIGN := by
  unfold create_flags
  by_cases h : create_word_align size ≥ cfg.PAGE_SIZE >>> 3
  · rw [if_pos h]; exact or_and_mask _ _ _ hmask
  · rw [if_neg h]
theorem round_up_ge (w A : Nat) (hA : 0 < A) : w ≤ (w + A - 1) / A * A := by
  have h1 := Nat.div_add_mod (w + A - 1) A
  have h2 := Nat.mod_lt (w + A - 1) hA
  rw [Nat.mul_comm]
  omega

theorem create_objsize_round (cfg : slab_config) (size flags k : Nat)
    (hL : cfg.L1_CACHE_BYTES = 2 ^ k) (hk : k ≤ 31)
    (hmask : cfg.SLAB_HWCACHE_ALIGN &&& CFLGS_OFF_SLAB = 0)
    (hsize : size + cfg.L1_CACHE_BYTES + 3 < ULONG) :
    size ≤ create_objsize cfg size flags ∧
    create_objsize cfg size flags % BYTES_PER_WORD = 0 ∧
    (flags &&& cfg.SLAB_HWCACHE_ALIGN = 0 →
      create_objsize cfg size flags = (size + 3) / 4 * 4) ∧
    (flags &&& cfg.SLAB_HWCACHE_ALIGN ≠ 0 →
      ∃ i, i ≤ k ∧ create_align cfg size flags = 2 ^ i ∧
        (i = k ∨ (size + 3) / 4 * 4 < 2 ^ i) ∧ 2 ^ i / 2 ≤ (size + 3) / 4 * 4 ∧
        create_objsize cfg size flags = ((size + 3) / 4 * 4 + 2 ^ i - 1) / 2 ^ i * 2 ^ i ∧
        (cfg.L1_CACHE_BYTES / 2 ≤ (size + 3) / 4 * 4 →
          create_objsize cfg size flags % cfg.L1_CACHE_BYTES = 0)) := by
  have hU : ULONG = 4294967296 := rfl
  have hB : BYTES_PER_WORD = 4 := rfl
  have hLpos : 0 < cfg.L1_CACHE_BYTES := by rw [hL]; exact Nat.two_pow_pos k
  have hw := create_word_align_eq size (by omega)
  obtain ⟨w, hwdef⟩ : ∃ w, w = (size + 3) / 4 * 4 := ⟨_, rfl⟩
  rw [← hwdef] at hw ⊢
  have hw1 : size ≤ w := by omega
  have hw2 : w ≤ size + 3 := by omega
  have hw3 : w % 4 = 0 := by omega
  have hflag := create_flags_hw cfg size flags hmask
  by_cases hf : flags &&& cfg.SLAB_HWCACHE_ALIGN = 0
  · have hobj : create_objsize cfg size flags = w := by
      unfold create_objsize
      rw [hflag, if_neg (not_not.mpr hf), hw]
    rw [hobj, hB]
    exact ⟨hw1, hw3, fun _ => rfl, fun h => absurd hf h⟩
  · have hal : create_align cfg size flags =
        create_align_loop w cfg.L1_CACHE_BYTES cfg.L1_CACHE_BYTES := by
      unfold create_align
      rw [hflag, if_pos hf, if_pos hf, hw]
    obtain ⟨i, hi, he, hor, hle⟩ := create_align_loop_spec w (2 ^ k) k (Nat.lt_two_pow k)
    rw [← hL] at he
    have hpi : 0 < 2 ^ i := Nat.two_pow_pos i
    have hik : 2 ^ i ≤ cfg.L1_CACHE_BYTES := by
      rw [hL]; exact Nat.pow_le_pow_right (by decide) hi
    have hobj : create_objsize cfg size flags = (w + 2 ^ i - 1) / 2 ^ i * 2 ^ i := by
      unfold create_objsize
      rw [hflag, if_pos hf, hw, hal, he]
      exact round_up_mask w i (by omega) (by omega)
    have hge := round_up_ge w (2 ^ i) hpi
    have hmod4 : ((w + 2 ^ i - 1) / 2 ^ i * 2 ^ i) % 4 = 0 := by
      by_cases h2 : 2 ≤ i
      · obtain ⟨m, rfl⟩ : ∃ m, i = m + 2 := ⟨i - 2, by omega⟩
        rw [Nat.pow_add, ← Nat.mul_assoc]
        exact Nat.mul_mod_left _ _
      · have h01 : i = 0 ∨ i = 1 := by omega
        rcases h01 with h | h
        · rw [h]; simp; exact hw3
        · rw [h]; simp
          omega
    rw [hobj, hB]
    refine ⟨by omega, hmod4, fun h => absurd h hf, fun _ => ⟨i, hi, hal.trans he, hor, hle, rfl, ?_⟩⟩
    intro hhalf
    have hik2 : i = k := by
      rcases Nat.lt_or_ge i k with hlt | hge2
      · exfalso
        rcases hor with h | h
        · omega
        · obtain ⟨m, rfl⟩ : ∃ m, k = m + 1 := ⟨k - 1, by omega⟩
          have h3 : 2 ^ i ≤ 2 ^ m := Nat.pow_le_pow_right (by decide) (by omega)
          rw [hL, Nat.pow_succ, Nat.mul_div_cancel _ (by decide : 0 < 2)] at hhalf
          omega
      · omega
    rw [hik2, ← hL]
    exact Nat.mul_mod_left _ _
/-! ## Theorems: what allocation and release leave alone -/

theorem globals_same_refl (s : kmem_state) : globals_same s s := ⟨rfl, rfl, rfl, rfl, rfl⟩

theorem globals_same_trans (a b c : kmem_state) (h1 : globals_same a b)
    (h2 : globals_same b c) : globals_same a c :=
  ⟨h2.1.trans h1.1, h2.2.1.trans h1.2.1, h2.2.2.1.trans h1.2.2.1,
    h2.2.2.2.1.trans h1.2.2.2.1, h2.2.2.2.2.trans h1.2.2.2.2⟩

theorem geom_same_refl (c : kmem_cache_t) : geom_same c c :=
  ⟨rfl, rfl, rfl, rfl, rfl, rfl, rfl, rfl, rfl, rfl, rfl⟩

theorem geom_same_trans (a b c : kmem_cache_t) (h1 : geom_same a b) (h2 : geom_same b c) :
    geom_same a c := by
  obtain ⟨a1, a2, a3, a4, a5, a6, a7, a8, a9, a10, a11⟩ := h1
  obtain ⟨b1, b2, b3, b4, b5, b6, b7, b8, b9, b10, b11⟩ := h2
  exact ⟨b1.trans a1, b2.trans a2, b3.trans a3, b4.trans a4, b5.trans a5, b6.trans a6,
    b7.trans a7, b8.trans a8, b9.trans a9, b10.trans a10, b11.trans a11⟩

theorem geom_of_cache_same (c c2 : kmem_cache_t) (h : cache_same c c2) : geom_same c c2 := by
  obtain ⟨h1, h2, h3, -, h5, h6, h7, h8, h9, h10, h11, h12, -⟩ := h
  exact ⟨h1, h2, h3, h5, h6, h7, h8, h9, h10, h11, h12⟩

theorem create_frame_refl (s : kmem_state) : create_frame s s :=
  ⟨fun _ => geom_same_refl _, globals_same_refl s⟩

theorem create_frame_trans (a b c : kmem_state) (h1 : create_frame a b)
    (h2 : create_frame b c) : create_frame a c :=
  ⟨fun x => geom_same_trans _ _ _ (h1.1 x) (h2.1 x), globals_same_trans _ _ _ h1.2 h2.2⟩

theorem alloc_one_tail_globals (s : kmem_state) (cachep slabp : Nat) :
    globals_same s (kmem_cache_alloc_one_tail s cachep slabp).1 := by
  obtain ⟨fnf, hf⟩ := alloc_one_tail_form s cachep slabp
  rw [hf]
  exact ⟨rfl, rfl, rfl, rfl, rfl⟩

theorem alloc_batch_loop_globals (cachep cc : Nat) :
    ∀ (n : Nat) (s : kmem_state), globals_same s (alloc_batch_loop cachep cc n s) := by
  intro n
  induction n with
  | zero => intro s; exact globals_same_refl s
  | succ n ih =>
    intro s
    rw [alloc_batch_loop]
    cases hf : (s.cache cachep).firstnotfull with
    | none => exact globals_same_refl s
    | some slabp =>
      simp only []
      exact globals_same_trans _ _ _ (alloc_one_tail_globals s cachep slabp) (ih _)

theorem alloc_pass_globals (env : slab_env) (s : kmem_state) (cachep : Nat) (s' : kmem_state)
    (r : Option Nat) (h : alloc_pass env s cachep = some (s', r)) : globals_same s s' := by
  unfold alloc_pass at h
  by_cases hcc : (s.cache cachep).cpudata env.cpu ≠ 0
  · rw [if_pos hcc] at h
    dsimp only at h
    by_cases ha : (s.cpucache ((s.cache cachep).cpudata env.cpu)).avail ≠ 0
    · rw [if_pos ha] at h
      simp only [Option.some.injEq, Prod.mk.injEq] at h
      rw [← h.1]
      exact ⟨rfl, rfl, rfl, rfl, rfl⟩
    · rw [if_neg ha] at h
      unfold kmem_cache_alloc_batch at h
      dsimp only at h
      by_cases hb : (s.cache cachep).batchcount > INT_MAX
      · rw [if_pos hb] at h; cases h
      · rw [if_neg hb] at h
        have hl := alloc_batch_loop_globals cachep ((s.cache cachep).cpudata env.cpu)
          (s.cache cachep).batchcount s
        by_cases hv : ((alloc_batch_loop cachep ((s.cache cachep).cpudata env.cpu)
            (s.cache cachep).batchcount s).cpucache
            ((s.cache cachep).cpudata env.cpu)).avail ≠ 0
        · rw [if_pos hv] at h
          dsimp only at h
          split at h
          · simp only [Option.some.injEq, Prod.mk.injEq] at h
            rw [← h.1]; exact hl
          · simp only [Option.some.injEq, Prod.mk.injEq] at h
            rw [← h.1]; exact hl
        · rw [if_neg hv] at h
          dsimp only at h
          rw [if_pos rfl] at h
          simp only [Option.some.injEq, Prod.mk.injEq] at h
          rw [← h.1]; exact hl
  · rw [if_neg hcc] at h
    unfold kmem_cache_alloc_one at h
    cases hf : (s.cache cachep).firstnotfull with
    | none =>
      rw [hf] at h
      simp only [Option.some.injEq, Prod.mk.injEq] at h
      rw [← h.1]; exact globals_same_refl s
    | some slabp =>
      rw [hf] at h
      simp only [Option.some.injEq, Prod.mk.injEq] at h
      rw [← h.1]; exact alloc_one_tail_globals s cachep slabp
theorem set_pages_loop_globals (cachep slabp : Nat) :
    ∀ (n : Nat) (s : kmem_state) (page : Nat),
      globals_same s (set_pages_loop cachep slabp s n page) := by
  intro n
  induction n with
  | zero => intro s page; exact globals_same_refl s
  | succ n ih =>
    intro s page
    rw [set_pages_loop]
    exact globals_same_trans _ _ _ ⟨rfl, rfl, rfl, rfl, rfl⟩ (ih _ _)

theorem grow_finish_globals (env : slab_env) (s2 : kmem_state) (cachep slabp objp : Nat) :
    globals_same s2 (grow_finish env s2 cachep slabp objp) := by
  have h := set_pages_loop_globals cachep slabp
    ((1 <<< (s2.cache cachep).gfporder) % ULONG) s2 (virt_to_page env objp)
  unfold grow_finish kmem_cache_init_objs
  exact h

theorem grow_start_globals (s : kmem_state) (cachep : Nat) :
    globals_same s (grow_start s cachep) := by
  unfold grow_start kmem_getpages
  exact ⟨rfl, rfl, rfl, rfl, rfl⟩

theorem slabmgmt_globals (alloc : kmem_state → Nat → Nat → Option (kmem_state × Nat))
    (halloc : ∀ s c f s' r, alloc s c f = some (s', r) → globals_same s s')
    (env : slab_env) (s : kmem_state) (cachep objp off lf : Nat) (s2 : kmem_state)
    (slabp : Nat) (h : kmem_cache_slabmgmt alloc env s cachep objp off lf = some (s2, slabp)) :
    globals_same s s2 := by
  obtain ⟨s1, h1, h2⟩ := kmem_cache_slabmgmt_cases alloc env s cachep objp off lf s2 slabp h
  have hs1 : globals_same s s1 := by
    rcases h1 with ⟨-, ha⟩ | ⟨-, he, -⟩
    · exact halloc _ _ _ _ _ ha
    · rw [he]; exact globals_same_refl s
  rcases h2 with ⟨-, he⟩ | ⟨co, he, -⟩
  · rw [he]; exact hs1
  · rw [he]; exact hs1

theorem grow_globals (alloc : kmem_state → Nat → Nat → Option (kmem_state × Nat))
    (halloc : ∀ s c f s' r, alloc s c f = some (s', r) → globals_same s s')
    (env : slab_env) (s : kmem_state) (cachep flags : Nat) (s' : kmem_state) (r : Nat)
    (h : kmem_cache_grow alloc env s cachep flags = some (s', r)) : globals_same s s' := by
  rcases kmem_cache_grow_cases alloc env s cachep flags s' r h with
    ⟨he, -⟩ | ⟨-, he, -⟩ | ⟨-, -, s2, slabp, hm, hc⟩
  · rw [he]; exact globals_same_refl s
  · rw [he]
    exact globals_same_trans _ _ _ (grow_start_globals s cachep) ⟨rfl, rfl, rfl, rfl, rfl⟩
  · have h2 := globals_same_trans _ _ _ (grow_start_globals s cachep)
      (slabmgmt_globals alloc halloc env _ cachep _ _ _ s2 slabp hm)
    rcases hc with ⟨-, -, he⟩ | ⟨-, -, he⟩
    · rw [he]
      exact globals_same_trans _ _ _ h2 ⟨rfl, rfl, rfl, rfl, rfl⟩
    · rw [he]
      exact globals_same_trans _ _ _ h2 (grow_finish_globals env s2 cachep slabp _)

theorem alloc_globals (env : slab_env) :
    ∀ (n : Nat) (s : kmem_state) (cachep flags : Nat) (s' : kmem_state) (r : Nat),
      __kmem_cache_alloc env n s cachep flags = some (s', r) → globals_same s s' := by
  intro n
  induction n with
  | zero => intro s cachep flags s' r h; rw [__kmem_cache_alloc] at h; cases h
  | succ n ih =>
    intro s cachep flags s' r h
    rw [__kmem_cache_alloc] at h
    cases hp : alloc_pass env s cachep with
    | none => rw [hp] at h; cases h
    | some v =>
      obtain ⟨s1, o⟩ := v
      rw [hp] at h
      have h1 := alloc_pass_globals env s cachep s1 o hp
      cases o with
      | some objp =>
        simp only [Option.some.injEq, Prod.mk.injEq] at h
        rw [← h.1]; exact h1
      | none =>
        simp only [] at h
        cases hg : kmem_cache_grow (__kmem_cache_alloc env n) env s1 cachep flags with
        | none => rw [hg] at h; cases h
        | some w =>
          obtain ⟨s2, grew⟩ := w
          rw [hg] at h
          have h2 := grow_globals _ (ih) env s1 cachep flags s2 grew hg
          simp only [] at h
          by_cases hgz : grew ≠ 0
          · rw [if_pos hgz] at h
            exact globals_same_trans _ _ _ (globals_same_trans _ _ _ h1 h2) (ih _ _ _ _ _ h)
          · rw [if_neg hgz] at h
            simp only [Option.some.injEq, Prod.mk.injEq] at h
            rw [← h.1]
            exact globals_same_trans _ _ _ h1 h2

theorem alloc_create_frame (env : slab_env) (n : Nat) (s : kmem_state) (cachep flags : Nat)
    (s' : kmem_state) (r : Nat) (h : __kmem_cache_alloc env n s cachep flags = some (s', r)) :
    create_frame s s' :=
  ⟨fun x => geom_of_cache_same _ _ (alloc_same env n s cachep flags s' r h x),
    alloc_globals env n s cachep flags s' r h⟩
theorem free_one_create_frame (env : slab_env) (s : kmem_state) (cachep objp : Nat)
    (s' : kmem_state) (h : kmem_cache_free_one env s cachep objp = some s') :
    create_frame s s' := by
  obtain ⟨hsame, -⟩ := free_one_same env s cachep objp s' h
  obtain ⟨_, slabs, fnf, hform, _⟩ := free_one_form env s cachep objp s' h
  refine ⟨fun x => geom_of_cache_same _ _ (hsame x), ?_⟩
  rw [hform]
  exact ⟨rfl, rfl, rfl, rfl, rfl⟩

theorem free_block_loop_create_frame (env : slab_env) (cachep : Nat) (objpp : Nat → Nat) :
    ∀ (len i : Nat) (s s' : kmem_state), __free_block env cachep objpp len i s = some s' →
      create_frame s s' := by
  intro len
  induction len with
  | zero =>
    intro i s s' h
    rw [__free_block] at h
    simp only [Option.some.injEq] at h
    rw [← h]; exact create_frame_refl s
  | succ len ih =>
    intro i s s' h
    rw [__free_block] at h
    cases h1 : kmem_cache_free_one env s cachep (objpp i) with
    | none => rw [h1] at h; cases h
    | some s1 =>
      rw [h1] at h
      exact create_frame_trans _ _ _ (free_one_create_frame env s cachep _ s1 h1)
        (ih _ _ _ h)

theorem free_block_create_frame (env : slab_env) (s : kmem_state) (cachep : Nat)
    (objpp : Nat → Nat) (len : Nat) (s' : kmem_state)
    (h : free_block env s cachep objpp len = some s') : create_frame s s' := by
  unfold free_block at h
  by_cases hl : len > INT_MAX
  · rw [if_pos hl] at h
    simp only [Option.some.injEq] at h
    rw [← h]; exact create_frame_refl s
  · rw [if_neg hl] at h
    exact free_block_loop_create_frame env cachep objpp len 0 s s' h

theorem cache_free_create_frame (env : slab_env) (s : kmem_state) (cachep p : Nat)
    (s' : kmem_state) (h : __kmem_cache_free env s cachep p = some s') :
    create_frame s s' := by
  unfold __kmem_cache_free at h
  by_cases hcc : (s.cache cachep).cpudata env.cpu ≠ 0
  · rw [if_pos hcc] at h
    dsimp only at h
    by_cases ha : (s.cpucache ((s.cache cachep).cpudata env.cpu)).avail <
        (s.cpucache ((s.cache cachep).cpudata env.cpu)).limit
    · rw [if_pos ha] at h
      simp only [Option.some.injEq] at h
      rw [← h]
      exact ⟨fun _ => geom_same_refl _, rfl, rfl, rfl, rfl, rfl⟩
    · rw [if_neg ha] at h
      cases hb : free_block env
          { s with
            cpucache := upd s.cpucache ((s.cache cachep).cpudata env.cpu)
              { s.cpucache ((s.cache cachep).cpudata env.cpu) with
                avail := ((s.cpucache ((s.cache cachep).cpudata env.cpu)).avail + ULONG -
                  (s.cache cachep).batchcount % ULONG) % ULONG } } cachep
          (fun i => (s.cpucache ((s.cache cachep).cpudata env.cpu)).entry
            (((s.cpucache ((s.cache cachep).cpudata env.cpu)).avail + ULONG -
              (s.cache cachep).batchcount % ULONG) % ULONG + i))
          ((s.cache cachep).batchcount % ULONG) with
      | none => rw [hb] at h; cases h
      | some s1 =>
        rw [hb] at h
        simp only [Option.some.injEq] at h
        have h1 := free_block_create_frame env _ cachep _ _ s1 hb
        rw [← h]
        exact ⟨h1.1, h1.2⟩
  · rw [if_neg hcc] at h
    exact free_block_create_frame env s cachep _ 1 s' h

theorem kfree_create_frame (env : slab_env) (s : kmem_state) (p : Nat) (s' : kmem_state)
    (h : kfree env s p = some s') : create_frame s s' := by
  unfold kfree at h
  by_cases hp : p = 0
  · rw [if_pos hp] at h
    simp only [Option.some.injEq] at h
    rw [← h]; exact create_frame_refl s
  · rw [if_neg hp] at h
    exact cache_free_create_frame env s _ p s' h

theorem kmalloc_create_frame (env : slab_env) (n : Nat) (s : kmem_state) (size flags : Nat)
    (s' : kmem_state) (r : Nat) (h : kmalloc env n s size flags = some (s', r)) :
    create_frame s s' := by
  unfold kmalloc at h
  cases hk : kmalloc_cachep env size flags s.cache_sizes with
  | none => rw [hk] at h; cases h
  | some c =>
    rw [hk] at h
    exact alloc_create_frame env n s c flags s' r h
/-! ## Theorems: the limits of the per-CPU arrays -/

theorem limits_same_refl (s : kmem_state) : limits_same s s := fun _ => rfl

theorem limits_same_trans (a b c : kmem_state) (h1 : limits_same a b) (h2 : limits_same b c) :
    limits_same a c := fun x => (h2 x).trans (h1 x)

theorem limits_same_of_eq (s s2 : kmem_state) (h : s2.cpucache = s.cpucache) :
    limits_same s s2 := fun a => by rw [h]

theorem limits_same_avail (s : kmem_state) (cc : Nat) (v : cpucache_t)
    (hv : v.limit = (s.cpucache cc).limit) :
    limits_same s { s with cpucache := upd s.cpucache cc v } := by
  intro a
  by_cases h : a = cc
  · rw [h]; simp only [upd_same]; exact hv
  · simp only [upd_other _ _ _ _ h]

theorem alloc_batch_loop_limits (cachep cc : Nat) :
    ∀ (n : Nat) (s : kmem_state), limits_same s (alloc_batch_loop cachep cc n s) := by
  intro n
  induction n with
  | zero => intro s; exact limits_same_refl s
  | succ n ih =>
    intro s
    rw [alloc_batch_loop]
    cases hf : (s.cache cachep).firstnotfull with
    | none => exact limits_same_refl s
    | some slabp =>
      simp only []
      refine limits_same_trans _ _ _ ?_ (ih _)
      intro a
      have hcpu := (alloc_one_tail_quiet s cachep slabp).2
      by_cases h : a = cc
      · rw [h]; simp only [upd_same]; rw [hcpu]
      · simp only [upd_other _ _ _ _ h]; rw [hcpu]

theorem alloc_pass_limits (env : slab_env) (s : kmem_state) (cachep : Nat) (s' : kmem_state)
    (r : Option Nat) (h : alloc_pass env s cachep = some (s', r)) : limits_same s s' := by
  unfold alloc_pass at h
  by_cases hcc : (s.cache cachep).cpudata env.cpu ≠ 0
  · rw [if_pos hcc] at h
    dsimp only at h
    by_cases ha : (s.cpucache ((s.cache cachep).cpudata env.cpu)).avail ≠ 0
    · rw [if_pos ha] at h
      simp only [Option.some.injEq, Prod.mk.injEq] at h
      rw [← h.1]
      exact limits_same_avail _ _ _ rfl
    · rw [if_neg ha] at h
      unfold kmem_cache_alloc_batch at h
      dsimp only at h
      by_cases hb : (s.cache cachep).batchcount > INT_MAX
      · rw [if_pos hb] at h; cases h
      · rw [if_neg hb] at h
        have hl := alloc_batch_loop_limits cachep ((s.cache cachep).cpudata env.cpu)
          (s.cache cachep).batchcount s
        by_cases hv : ((alloc_batch_loop cachep ((s.cache cachep).cpudata env.cpu)
            (s.cache cachep).batchcount s).cpucache
            ((s.cache cachep).cpudata env.cpu)).avail ≠ 0
        · rw [if_pos hv] at h
          dsimp only at h
          split at h
          · simp only [Option.some.injEq, Prod.mk.injEq] at h
            rw [← h.1]
            exact limits_same_trans _ _ _ hl (limits_same_avail _ _ _ rfl)
          · simp only [Option.some.injEq, Prod.mk.injEq] at h
            rw [← h.1]
            exact limits_same_trans _ _ _ hl (limits_same_avail _ _ _ rfl)
        · rw [if_neg hv] at h
          dsimp only at h
          rw [if_pos rfl] at h
          simp only [Option.some.injEq, Prod.mk.injEq] at h
          rw [← h.1]; exact hl
  · rw [if_neg hcc] at h
    unfold kmem_cache_alloc_one at h
    cases hf : (s.cache cachep).firstnotfull with
    | none =>
      rw [hf] at h
      simp only [Option.some.injEq, Prod.mk.injEq] at h
      rw [← h.1]; exact limits_same_refl s
    | some slabp =>
      rw [hf] at h
      simp only [Option.some.injEq, Prod.mk.injEq] at h
      rw [← h.1]
      exact limits_same_of_eq _ _ (alloc_one_tail_quiet s cachep slabp).2

theorem slabmgmt_limits (alloc : kmem_state → Nat → Nat → Option (kmem_state × Nat))
    (halloc : ∀ s c f s' r, alloc s c f = some (s', r) → limits_same s s')
    (env : slab_env) (s : kmem_state) (cachep objp off lf : Nat) (s2 : kmem_state)
    (slabp : Nat) (h : kmem_cache_slabmgmt alloc env s cachep objp off lf = some (s2, slabp)) :
    limits_same s s2 := by
  obtain ⟨s1, h1, h2⟩ := kmem_cache_slabmgmt_cases alloc env s cachep objp off lf s2 slabp h
  have hs1 : limits_same s s1 := by
    rcases h1 with ⟨-, ha⟩ | ⟨-, he, -⟩
    · exact halloc _ _ _ _ _ ha
    · rw [he]; exact limits_same_refl s
  rcases h2 with ⟨-, he⟩ | ⟨co, he, -⟩
  · rw [he]; exact hs1
  · rw [he]; exact hs1

theorem grow_limits (alloc : kmem_state → Nat → Nat → Option (kmem_state × Nat))
    (halloc : ∀ s c f s' r, alloc s c f = some (s', r) → limits_same s s')
    (env : slab_env) (s : kmem_state) (cachep flags : Nat) (s' : kmem_state) (r : Nat)
    (h : kmem_cache_grow alloc env s cachep flags = some (s', r)) : limits_same s s' := by
  have hgs : limits_same s (grow_start s cachep) :=
    limits_same_of_eq _ _ (grow_start_cache s cachep).2.2.1
  rcases kmem_cache_grow_cases alloc env s cachep flags s' r h with
    ⟨he, -⟩ | ⟨-, he, -⟩ | ⟨-, -, s2, slabp, hm, hc⟩
  · rw [he]; exact limits_same_refl s
  · rw [he]
    exact limits_same_trans _ _ _ hgs (fun _ => rfl)
  · have h2 := limits_same_trans _ _ _ hgs
      (slabmgmt_limits alloc halloc env _ cachep _ _ _ s2 slabp hm)
    rcases hc with ⟨-, -, he⟩ | ⟨-, -, he⟩
    · rw [he]
      exact limits_same_trans _ _ _ h2 (fun _ => rfl)
    · rw [he]
      exact limits_same_trans _ _ _ h2
        (limits_same_of_eq _ _ (grow_finish_frame env s2 cachep slabp _).2.2.2.1)

theorem alloc_limits (env : slab_env) :
    ∀ (n : Nat) (s : kmem_state) (cachep flags : Nat) (s' : kmem_state) (r : Nat),
      __kmem_cache_alloc env n s cachep flags = some (s', r) → limits_same s s' := by
  intro n
  induction n with
  | zero => intro s cachep flags s' r h; rw [__kmem_cache_alloc] at h; cases h
  | succ n ih =>
    intro s cachep flags s' r h
    rw [__kmem_cache_alloc] at h
    cases hp : alloc_pass env s cachep with
    | none => rw [hp] at h; cases h
    | some v =>
      obtain ⟨s1, o⟩ := v
      rw [hp] at h
      have h1 := alloc_pass_limits env s cachep s1 o hp
      cases o with
      | some objp =>
        simp only [Option.some.injEq, Prod.mk.injEq] at h
        rw [← h.1]; exact h1
      | none =>
        simp only [] at h
        cases hg : kmem_cache_grow (__kmem_cache_alloc env n) env s1 cachep flags with
        | none => rw [hg] at h; cases h
        | some w =>
          obtain ⟨s2, grew⟩ := w
          rw [hg] at h
          have h2 := grow_limits _ (ih) env s1 cachep flags s2 grew hg
          simp only [] at h
          by_cases hgz : grew ≠ 0
          · rw [if_pos hgz] at h
            exact limits_same_trans _ _ _ (limits_same_trans _ _ _ h1 h2) (ih _ _ _ _ _ h)
          · rw [if_neg hgz] at h
            simp only [Option.some.injEq, Prod.mk.injEq] at h
            rw [← h.1]
            exact limits_same_trans _ _ _ h1 h2
theorem free_block_loop_limits (env : slab_env) (cachep : Nat) (objpp : Nat → Nat) :
    ∀ (len i : Nat) (s s' : kmem_state), __free_block env cachep objpp len i s = some s' →
      state_same s s' ∧ s'.cpucache = s.cpucache := by
  intro len
  induction len with
  | zero =>
    intro i s s' h
    rw [__free_block] at h
    simp only [Option.some.injEq] at h
    rw [← h]; exact ⟨state_same_refl s, rfl⟩
  | succ len ih =>
    intro i s s' h
    rw [__free_block] at h
    cases h1 : kmem_cache_free_one env s cachep (objpp i) with
    | none => rw [h1] at h; cases h
    | some s1 =>
      rw [h1] at h
      obtain ⟨a1, a2⟩ := free_one_same env s cachep _ s1 h1
      obtain ⟨b1, b2⟩ := ih _ _ _ h
      exact ⟨state_same_trans _ _ _ a1 b1, b2.trans a2⟩

theorem free_block_limits (env : slab_env) (s : kmem_state) (cachep : Nat)
    (objpp : Nat → Nat) (len : Nat) (s' : kmem_state)
    (h : free_block env s cachep objpp len = some s') :
    state_same s s' ∧ s'.cpucache = s.cpucache := by
  unfold free_block at h
  by_cases hl : len > INT_MAX
  · rw [if_pos hl] at h
    simp only [Option.some.injEq] at h
    rw [← h]; exact ⟨state_same_refl s, rfl⟩
  · rw [if_neg hl] at h
    exact free_block_loop_limits env cachep objpp len 0 s s' h

theorem cache_free_limits (env : slab_env) (s : kmem_state) (cachep p : Nat)
    (s' : kmem_state) (h : __kmem_cache_free env s cachep p = some s') :
    state_same s s' ∧ limits_same s s' := by
  unfold __kmem_cache_free at h
  by_cases hcc : (s.cache cachep).cpudata env.cpu ≠ 0
  · rw [if_pos hcc] at h
    dsimp only at h
    by_cases ha : (s.cpucache ((s.cache cachep).cpudata env.cpu)).avail <
        (s.cpucache ((s.cache cachep).cpudata env.cpu)).limit
    · rw [if_pos ha] at h
      simp only [Option.some.injEq] at h
      rw [← h]
      exact ⟨state_same_refl s, limits_same_avail _ _ _ rfl⟩
    · rw [if_neg ha] at h
      cases hb : free_block env
          { s with
            cpucache := upd s.cpucache ((s.cache cachep).cpudata env.cpu)
              { s.cpucache ((s.cache cachep).cpudata env.cpu) with
                avail := ((s.cpucache ((s.cache cachep).cpudata env.cpu)).avail + ULONG -
                  (s.cache cachep).batchcount % ULONG) % ULONG } } cachep
          (fun i => (s.cpucache ((s.cache cachep).cpudata env.cpu)).entry
            (((s.cpucache ((s.cache cachep).cpudata env.cpu)).avail + ULONG -
              (s.cache cachep).batchcount % ULONG) % ULONG + i))
          ((s.cache cachep).batchcount % ULONG) with
      | none => rw [hb] at h; cases h
      | some s1 =>
        rw [hb] at h
        simp only [Option.some.injEq] at h
        obtain ⟨h1, h2⟩ := free_block_limits env _ cachep _ _ s1 hb
        rw [← h]
        refine ⟨h1, ?_⟩
        intro a
        by_cases e : a = (s.cache cachep).cpudata env.cpu
        · rw [e]; simp only [upd_same]; rw [h2]; simp only [upd_same]
        · simp only [upd_other _ _ _ _ e]; rw [h2]; simp only [upd_other _ _ _ _ e]
  · rw [if_neg hcc] at h
    obtain ⟨h1, h2⟩ := free_block_limits env s cachep _ 1 s' h
    exact ⟨h1, limits_same_of_eq _ _ h2⟩

theorem kfree_limits (env : slab_env) (s : kmem_state) (p : Nat) (s' : kmem_state)
    (h : kfree env s p = some s') : state_same s s' ∧ limits_same s s' := by
  unfold kfree at h
  by_cases hp : p = 0
  · rw [if_pos hp] at h
    simp only [Option.some.injEq] at h
    rw [← h]; exact ⟨state_same_refl s, limits_same_refl s⟩
  · rw [if_neg hp] at h
    exact cache_free_limits env s _ p s' h

theorem kmalloc_limits (env : slab_env) (n : Nat) (s : kmem_state) (size flags : Nat)
    (s' : kmem_state) (r : Nat) (h : kmalloc env n s size flags = some (s', r)) :
    state_same s s' ∧ limits_same s s' := by
  unfold kmalloc at h
  cases hk : kmalloc_cachep env size flags s.cache_sizes with
  | none => rw [hk] at h; cases h
  | some c =>
    rw [hk] at h
    exact ⟨alloc_same env n s c flags s' r h, alloc_limits env n s c flags s' r h⟩
/-! ## Theorems: what tuning leaves alone -/

theorem tune_alloc_loop_frame (env : slab_env) (n limit : Nat) :
    ∀ (k i : Nat) (new : Nat → Nat) (s s' : kmem_state) (new' : Nat → Nat) (o : Option Nat),
      tune_alloc_loop env n limit k i new s = some (s', new', o) → create_frame s s' := by
  intro k
  induction k with
  | zero =>
    intro i new s s' new' o h
    rw [tune_alloc_loop] at h
    simp only [Option.some.injEq, Prod.mk.injEq] at h
    rw [← h.1]; exact create_frame_refl s
  | succ k ih =>
    intro i new s s' new' o h
    rw [tune_alloc_loop] at h
    cases hk : kmalloc env n s
        (((sizeof_void_p * limit) % ULONG + sizeof_cpucache_t) % ULONG) env.GFP_KERNEL with
    | none => rw [hk] at h; cases h
    | some v =>
      obtain ⟨s1, ccnew⟩ := v
      rw [hk] at h
      have h1 := kmalloc_create_frame env n s _ _ s1 ccnew hk
      simp only [] at h
      by_cases hz : ccnew = 0
      · rw [if_pos hz] at h
        simp only [Option.some.injEq, Prod.mk.injEq] at h
        rw [← h.1]; exact h1
      · rw [if_neg hz] at h
        have h2 := ih _ _ _ _ _ _ h
        exact create_frame_trans _ _ _ h1 ⟨h2.1, h2.2⟩

theorem tune_oom_loop_frame (env : slab_env) (new : Nat → Nat) :
    ∀ (k : Nat) (s s' : kmem_state), tune_oom_loop env new k s = some s' →
      create_frame s s' := by
  intro k
  induction k with
  | zero =>
    intro s s' h
    rw [tune_oom_loop] at h
    simp only [Option.some.injEq] at h
    rw [← h]; exact create_frame_refl s
  | succ k ih =>
    intro s s' h
    rw [tune_oom_loop] at h
    cases hk : kfree env s (new (env.cpu_logical_map k)) with
    | none => rw [hk] at h; cases h
    | some s1 =>
      rw [hk] at h
      exact create_frame_trans _ _ _ (kfree_create_frame env s _ s1 hk) (ih _ _ h)

theorem do_ccupdate_local_frame (s : kmem_state) (cachep : Nat) (new : Nat → Nat) (cpu : Nat) :
    create_frame s (do_ccupdate_local s cachep new cpu).1 := by
  unfold do_ccupdate_local
  refine ⟨?_, rfl, rfl, rfl, rfl, rfl⟩
  intro x
  by_cases hx : x = cachep
  · rw [hx]; simp only [upd_same]
    exact ⟨rfl, rfl, rfl, rfl, rfl, rfl, rfl, rfl, rfl, rfl, rfl⟩
  · simp only [upd_other _ _ _ _ hx]
    exact geom_same_refl _

theorem smp_call_frame (env : slab_env) (cachep : Nat) :
    ∀ (k i : Nat) (r : kmem_state × (Nat → Nat)),
      create_frame r.1 (smp_call_function_all_cpus env cachep k i r).1 := by
  intro k
  induction k with
  | zero => intro i r; exact create_frame_refl _
  | succ k ih =>
    intro i r
    rw [smp_call_function_all_cpus]
    exact create_frame_trans _ _ _ (do_ccupdate_local_frame r.1 cachep r.2 _) (ih _ _)

theorem tune_free_loop_frame (env : slab_env) (cachep : Nat) (new : Nat → Nat) :
    ∀ (k i : Nat) (s s' : kmem_state), tune_free_loop env cachep new k i s = some s' →
      create_frame s s' := by
  intro k
  induction k with
  | zero =>
    intro i s s' h
    rw [tune_free_loop] at h
    simp only [Option.some.injEq] at h
    rw [← h]; exact create_frame_refl s
  | succ k ih =>
    intro i s s' h
    rw [tune_free_loop] at h
    by_cases hz : new (env.cpu_logical_map i) = 0
    · rw [if_pos hz] at h
      exact ih _ _ _ h
    · rw [if_neg hz] at h
      cases hb : free_block env s cachep (s.cpucache (new (env.cpu_logical_map i))).entry
          ((s.cpucache (new (env.cpu_logical_map i))).avail % ULONG) with
      | none => rw [hb] at h; cases h
      | some s1 =>
        rw [hb] at h
        simp only [] at h
        cases hk : kfree env s1 (new (env.cpu_logical_map i)) with
        | none => rw [hk] at h; cases h
        | some s2 =>
          rw [hk] at h
          exact create_frame_trans _ _ _ (free_block_create_frame env s cachep _ _ s1 hb)
            (create_frame_trans _ _ _ (kfree_create_frame env s1 _ s2 hk) (ih _ _ _ h))
theorem tune_frame (env : slab_env) (n : Nat) (s : kmem_state) (cachep : Nat)
    (limit batchcount : Int) (s' : kmem_state) (r : Int)
    (h : kmem_tune_cpucache env n s cachep limit batchcount = some (s', r)) :
    create_frame s s' := by
  unfold kmem_tune_cpucache at h
  by_cases h1 : limit < 0
  · rw [if_pos h1] at h
    simp only [Option.some.injEq, Prod.mk.injEq] at h
    rw [← h.1]; exact create_frame_refl s
  rw [if_neg h1] at h
  by_cases h2 : batchcount < 0
  · rw [if_pos h2] at h
    simp only [Option.some.injEq, Prod.mk.injEq] at h
    rw [← h.1]; exact create_frame_refl s
  rw [if_neg h2] at h
  by_cases h3 : batchcount > limit
  · rw [if_pos h3] at h
    simp only [Option.some.injEq, Prod.mk.injEq] at h
    rw [← h.1]; exact create_frame_refl s
  rw [if_neg h3] at h
  by_cases h4 : limit ≠ 0 ∧ batchcount = 0
  · rw [if_pos h4] at h
    simp only [Option.some.injEq, Prod.mk.injEq] at h
    rw [← h.1]; exact create_frame_refl s
  rw [if_neg h4] at h
  cases hm : (if limit ≠ 0 then
      tune_alloc_loop env n limit.toNat env.smp_num_cpus 0 (fun _ => 0) s
    else some (s, fun _ => 0, none)) with
  | none => rw [hm] at h; cases h
  | some v =>
    obtain ⟨s1, new, o⟩ := v
    rw [hm] at h
    have hs1 : create_frame s s1 := by
      by_cases hl : limit ≠ 0
      · rw [if_pos hl] at hm
        exact tune_alloc_loop_frame env n _ _ _ _ s s1 new o hm
      · rw [if_neg hl] at hm
        simp only [Option.some.injEq, Prod.mk.injEq] at hm
        rw [← hm.1]; exact create_frame_refl s
    cases o with
    | some i =>
      simp only [] at h
      cases ho : tune_oom_loop env new i s1 with
      | none => rw [ho] at h; cases h
      | some s3 =>
        rw [ho] at h
        simp only [Option.some.injEq, Prod.mk.injEq] at h
        rw [← h.1]
        exact create_frame_trans _ _ _ hs1 (tune_oom_loop_frame env new i s1 s3 ho)
    | none =>
      simp only [] at h
      obtain ⟨S2, hS2⟩ : ∃ S2, S2 = ({ s1 with
          cache := upd s1.cache cachep
            { s1.cache cachep with batchcount := batchcount.toNat } } : kmem_state) := ⟨_, rfl⟩
      rw [← hS2] at h
      have hS2f : create_frame s1 S2 := by
        rw [hS2]
        refine ⟨?_, rfl, rfl, rfl, rfl, rfl⟩
        intro x
        by_cases hx : x = cachep
        · rw [hx]; simp only [upd_same]
          exact ⟨rfl, rfl, rfl, rfl, rfl, rfl, rfl, rfl, rfl, rfl, rfl⟩
        · simp only [upd_other _ _ _ _ hx]
          exact geom_same_refl _
      have hsw := smp_call_frame env cachep env.smp_num_cpus 0 (S2, new)
      cases hf : tune_free_loop env cachep
          (smp_call_function_all_cpus env cachep env.smp_num_cpus 0 (S2, new)).2
          env.smp_num_cpus 0
          (smp_call_function_all_cpus env cachep env.smp_num_cpus 0 (S2, new)).1 with
      | none => rw [hf] at h; cases h
      | some s3 =>
        rw [hf] at h
        simp only [Option.some.injEq, Prod.mk.injEq] at h
        rw [← h.1]
        exact create_frame_trans _ _ _ hs1 (create_frame_trans _ _ _ hS2f
          (create_frame_trans _ _ _ hsw (tune_free_loop_frame env cachep _ _ _ _ s3 hf)))

theorem enable_frame (env : slab_env) (n : Nat) (s : kmem_state) (cachep : Nat)
    (s' : kmem_state) (h : enable_cpucache env n s cachep = some s') : create_frame s s' := by
  unfold enable_cpucache at h
  by_cases hp : (s.cache cachep).objsize > env.cfg.PAGE_SIZE
  · rw [if_pos hp] at h
    simp only [Option.some.injEq] at h
    rw [← h]; exact create_frame_refl s
  · rw [if_neg hp] at h
    dsimp only at h
    cases ht : kmem_tune_cpucache env n s cachep
        (if (s.cache cachep).objsize > 1024 then 60
          else if (s.cache cachep).objsize > 256 then 124 else 252)
        ((if (s.cache cachep).objsize > 1024 then 60
          else if (s.cache cachep).objsize > 256 then 124 else 252) / 2) with
    | none => rw [ht] at h; cases h
    | some v =>
      obtain ⟨s1, r⟩ := v
      rw [ht] at h
      simp only [Option.some.injEq] at h
      rw [← h]
      exact tune_frame env n s cachep _ _ s1 r ht
/-! ## Theorems: kmem_cache_create -/

theorem create_checks_flags (cfg : slab_config) (name : Option String) (size offset flags : Nat)
    (ctor dtor : Bool) (ii : Bool) (f : Nat)
    (h : kmem_cache_create_checks cfg name size offset flags ctor dtor ii = some f) :
    f = flags := by
  unfold kmem_cache_create_checks at h
  cases name with
  | none => cases h
  | some nm =>
    simp only [] at h
    split at h
    · cases h
    · split at h
      · cases h
      · simp only [Option.some.injEq] at h
        exact h.symm

theorem create_success (env : slab_env) (n : Nat) (s : kmem_state) (nm : String)
    (size offset flags : Nat) (ctor dtor : Bool) (s' : kmem_state) (c : Nat)
    (h : kmem_cache_create env n s (some nm) size offset flags ctor dtor = some (s', c))
    (hc : c ≠ 0) :
    ∃ s1 s3 g l num desc,
      kmem_cache_create_checks env.cfg (some nm) size offset flags ctor dtor env.in_interrupt =
        some flags ∧
      kmem_cache_alloc env n s env.cache_cache env.SLAB_KERNEL = some (s1, c) ∧
      create_order_loop env.cfg s1.offslab_limit s1.slab_break_gfp_order
        (create_objsize env.cfg size flags) (create_flags env.cfg size flags)
        (MAX_GFP_ORDER + 2) 0 = some (g, l, num) ∧
      num ≠ 0 ∧
      create_descriptor env s1.cache_sizes nm size offset flags ctor dtor g l num = some desc ∧
      (if s1.g_cpucache_up = true then
          enable_cpucache env n { s1 with cache := upd s1.cache c desc } c
        else some { s1 with cache := upd s1.cache c desc }) = some s3 ∧
      (∀ pc ∈ s3.cache_chain, (s3.cache pc).name ≠ nm) ∧
      s' = { s3 with cache_chain := list_add s3.cache_chain c } := by
  unfold kmem_cache_create at h
  simp only [] at h
  cases hk : kmem_cache_create_checks env.cfg (some nm) size offset flags ctor dtor
      env.in_interrupt with
  | none => rw [hk] at h; cases h
  | some f =>
    have hf := create_checks_flags _ _ _ _ _ _ _ _ f hk
    rw [hk] at h
    simp only [] at h
    subst hf
    cases ha : kmem_cache_alloc env n s env.cache_cache env.SLAB_KERNEL with
    | none => rw [ha] at h; cases h
    | some v =>
      obtain ⟨s1, cachep⟩ := v
      rw [ha] at h
      simp only [] at h
      by_cases hz : cachep = 0
      · rw [if_pos hz] at h
        simp only [Option.some.injEq, Prod.mk.injEq] at h
        exact absurd h.2.symm hc
      · rw [if_neg hz] at h
        cases ho : create_order_loop env.cfg s1.offslab_limit s1.slab_break_gfp_order
            (create_objsize env.cfg size f) (create_flags env.cfg size f)
            (MAX_GFP_ORDER + 2) 0 with
        | none => rw [ho] at h; cases h
        | some w =>
          obtain ⟨g, l, num⟩ := w
          rw [ho] at h
          simp only [] at h
          by_cases hn : num = 0
          · rw [if_pos hn] at h
            split at h
            · cases h
            · simp only [Option.some.injEq, Prod.mk.injEq] at h
              exact absurd h.2.symm hc
          · rw [if_neg hn] at h
            cases hd : create_descriptor env s1.cache_sizes nm size offset f ctor dtor g l num
              with
            | none => rw [hd] at h; cases h
            | some desc =>
              rw [hd] at h
              simp only [] at h
              cases he : (if s1.g_cpucache_up = true then
                  enable_cpucache env n { s1 with cache := upd s1.cache cachep desc } cachep
                else some { s1 with cache := upd s1.cache cachep desc }) with
              | none => rw [he] at h; cases h
              | some s3 =>
                rw [he] at h
                simp only [] at h
                by_cases hx : ∃ pc ∈ s3.cache_chain, (s3.cache pc).name = nm
                · rw [if_pos hx] at h; cases h
                · rw [if_neg hx] at h
                  simp only [Option.some.injEq, Prod.mk.injEq] at h
                  obtain ⟨h1, h2⟩ := h
                  subst h2
                  refine ⟨s1, s3, g, l, num, desc, rfl, rfl, ho, hn, hd, he, ?_, h1.symm⟩
                  intro pc hpc hname
                  exact hx ⟨pc, hpc, hname⟩
theorem ite_none_some {α : Type} (c : Prop) [Decidable c] (v d : α)
    (h : (if c then none else some v) = some d) : d = v := by
  by_cases hc : c
  · rw [if_pos hc] at h; cases h
  · rw [if_neg hc] at h
    simp only [Option.some.injEq] at h
    exact h.symm

theorem create_descriptor_fields (env : slab_env) (sizes : List cache_sizes_t) (nm : String)
    (size offset flags : Nat) (ctor dtor : Bool) (g l num : Nat) (desc : kmem_cache_t)
    (h : create_descriptor env sizes nm size offset flags ctor dtor g l num = some desc) :
    desc.objsize = create_objsize env.cfg size flags ∧ desc.num = num ∧ desc.gfporder = g ∧
    desc.name = nm ∧ desc.slabs = [] ∧ desc.firstnotfull = none ∧ desc.growing = 0 ∧
    desc.cpudata = (fun _ => 0) ∧ desc.colour_next = 0 := by
  unfold create_descriptor at h
  dsimp only at h
  have hd := ite_none_some _ _ _ h
  rw [hd]
  exact ⟨rfl, rfl, rfl, rfl, rfl, rfl, rfl, rfl, rfl⟩

theorem create_result (env : slab_env) (n : Nat) (s : kmem_state) (nm : String)
    (size offset flags : Nat) (ctor dtor : Bool) (s' : kmem_state) (c : Nat)
    (h : kmem_cache_create env n s (some nm) size offset flags ctor dtor = some (s', c))
    (hc : c ≠ 0) :
    s'.cache_chain = c :: s.cache_chain ∧ c ∉ s.cache_chain ∧
    (∀ x ∈ s.cache_chain, (s.cache x).name ≠ nm) ∧
    (∀ x, x ≠ c → geom_same (s.cache x) (s'.cache x)) ∧
    (s'.cache c).name = nm ∧
    (s'.cache c).objsize = create_objsize env.cfg size flags ∧
    (s'.cache c).num ≠ 0 ∧
    (∃ l, create_order_loop env.cfg s.offslab_limit s.slab_break_gfp_order
      (create_objsize env.cfg size flags) (create_flags env.cfg size flags)
      (MAX_GFP_ORDER + 2) 0 = some ((s'.cache c).gfporder, l, (s'.cache c).num) ∧
      ∃ desc, create_descriptor env s.cache_sizes nm size offset flags ctor dtor
        (s'.cache c).gfporder l (s'.cache c).num = some desc ∧
        geom_same desc (s'.cache c)) := by
  obtain ⟨s1, s3, g, l, num, desc, -, ha, ho, hn, hd, he, hx, hs'⟩ :=
    create_success env n s nm size offset flags ctor dtor s' c h hc
  obtain ⟨d1, d2, d3, d4, -⟩ := create_descriptor_fields _ _ _ _ _ _ _ _ _ _ _ _ hd
  have hf1 : create_frame s s1 := alloc_create_frame env n s _ _ s1 c ha
  have hf3 : create_frame { s1 with cache := upd s1.cache c desc } s3 := by
    by_cases hu : s1.g_cpucache_up = true
    · rw [if_pos hu] at he
      exact enable_frame env n _ c s3 he
    · rw [if_neg hu] at he
      simp only [Option.some.injEq] at he
      rw [← he]; exact create_frame_refl _
  have hchain3 : s3.cache_chain = s.cache_chain := hf3.2.1.trans hf1.2.1
  have hgc : geom_same desc (s3.cache c) := by
    have := hf3.1 c
    simp only [upd_same] at this
    exact this
  have hgx : ∀ x, x ≠ c → geom_same (s.cache x) (s3.cache x) := by
    intro x hxc
    have := hf3.1 x
    simp only [upd_other _ _ _ _ hxc] at this
    exact geom_same_trans _ _ _ (hf1.1 x) this
  have hname3 : (s3.cache c).name = nm := hgc.2.2.2.2.2.2.2.2.2.2.trans d4
  have hnotin : c ∉ s.cache_chain := by
    intro hm
    exact hx c (by rw [hchain3]; exact hm) hname3
  have hcache' : s'.cache = s3.cache := by rw [hs']
  rw [hcache']
  refine ⟨?_, hnotin, ?_, hgx, hname3, hgc.1.trans d1, ?_, ?_⟩
  · rw [hs']
    show list_add s3.cache_chain c = c :: s.cache_chain
    rw [hchain3]; rfl
  · intro x hxm hname
    have hxc : x ≠ c := fun e => hnotin (e ▸ hxm)
    exact hx x (by rw [hchain3]; exact hxm)
      ((hgx x hxc).2.2.2.2.2.2.2.2.2.2.trans hname)
  · rw [hgc.2.1, d2]; exact hn
  · refine ⟨l, ?_, desc, ?_, hgc⟩
    · rw [hgc.2.1, d2, hgc.2.2.2.1, d3, ← hf1.2.2.2.1, ← hf1.2.2.2.2.1]
      exact ho
    · rw [hgc.2.1, d2, hgc.2.2.2.1, d3, ← hf1.2.2.1]
      exact hd
/-- What the name check of `kmem_cache_create` does ensure.  The function
links a cache only behind the head of the chain and only if no cache linked
there has the requested name: when it returns a cache `c`, `c` is the new first
entry of `cache_chain`, it was not on it, no cache that was on it has the name,
the caches that were on it keep their names, and the names on `cache_chain`
are pairwise distinct if they were.  A request with the name of a cache on
`cache_chain` never returns a cache.  (The head of the chain is the node of
`cache_cache`, whose name is not compared.) -/
theorem kmem_cache_create_names (env : slab_env) (n : Nat) (s : kmem_state) (nm : String)
    (size offset flags : Nat) (ctor dtor : Bool) :
    (∀ s' c, kmem_cache_create env n s (some nm) size offset flags ctor dtor = some (s', c) →
      c ≠ 0 →
      s'.cache_chain = c :: s.cache_chain ∧ c ∉ s.cache_chain ∧ (s'.cache c).name = nm ∧
      (∀ x ∈ s.cache_chain, (s.cache x).name ≠ nm ∧ (s'.cache x).name = (s.cache x).name) ∧
      ((s.cache_chain.map (fun x => (s.cache x).name)).Nodup →
        (s'.cache_chain.map (fun x => (s'.cache x).name)).Nodup)) ∧
    ((∃ x ∈ s.cache_chain, (s.cache x).name = nm) →
      ∀ s' c, kmem_cache_create env n s (some nm) size offset flags ctor dtor = some (s', c) →
        c = 0) := by
  have main : ∀ s' c,
      kmem_cache_create env n s (some nm) size offset flags ctor dtor = some (s', c) → c ≠ 0 →
      s'.cache_chain = c :: s.cache_chain ∧ c ∉ s.cache_chain ∧ (s'.cache c).name = nm ∧
      (∀ x ∈ s.cache_chain, (s.cache x).name ≠ nm ∧ (s'.cache x).name = (s.cache x).name) := by
    intro s' c h hc
    obtain ⟨h1, h2, h3, h4, h5, -⟩ := create_result env n s nm size offset flags ctor dtor s' c h hc
    refine ⟨h1, h2, h5, ?_⟩
    intro x hx
    have hxc : x ≠ c := fun e => h2 (e ▸ hx)
    exact ⟨h3 x hx, (h4 x hxc).2.2.2.2.2.2.2.2.2.2⟩
  refine ⟨?_, ?_⟩
  · intro s' c h hc
    obtain ⟨h1, h2, h3, h4⟩ := main s' c h hc
    refine ⟨h1, h2, h3, h4, ?_⟩
    intro hnd
    rw [h1, List.map_cons, List.nodup_cons]
    have hmap : s.cache_chain.map (fun x => (s'.cache x).name) =
        s.cache_chain.map (fun x => (s.cache x).name) :=
      List.map_congr_left (fun x hx => (h4 x hx).2)
    rw [hmap]
    refine ⟨?_, hnd⟩
    intro hm
    obtain ⟨x, hx, hxn⟩ := List.mem_map.mp hm
    exact (h4 x hx).1 (hxn.trans h3)
  · intro hex s' c h
    by_contra hc
    obtain ⟨x, hx, hxn⟩ := hex
    exact ((main s' c h hc).2.2.2 x hx).1 hxn

/-- Example: a cache created in `kmem_state_ex`, whose chain is empty, becomes
the only entry of the chain. -/
theorem kmem_cache_create_names_example :
    ∃ s', kmem_cache_create slab_env_ex 2 kmem_state_ex (some "inode_cache") 96 0 0x2000 false
        false = some (s', 0xC1000060) ∧
      s'.cache_chain = [0xC1000060] ∧ (s'.cache 0xC1000060).name = "inode_cache" := by
  obtain ⟨s', h⟩ := option_map_snd
    (kmem_cache_create slab_env_ex 2 kmem_state_ex (some "inode_cache") 96 0 0x2000 false false)
    0xC1000060 (by decide)
  obtain ⟨h1, -, h3, -⟩ := (kmem_cache_create_names slab_env_ex 2 kmem_state_ex "inode_cache" 96
    0 0x2000 false false).1 s' 0xC1000060 h (by decide)
  exact ⟨s', h, h1, h3⟩

/-- C20: the name check of `kmem_cache_create` passes over `cache_cache`.  In
`kmem_state_ex6` the cache "inode_cache" is linked behind the head of the
chain: a second request for that name traps, and a request for another name
returns a cache.  In `kmem_state_ex5`, where `cache_cache` has its name
`"kmem_cache"`, a request for a cache named `"kmem_cache"` does not trap: the
new cache, which is not `cache_cache`, is linked, and two caches of the chain
that starts at `cache_cache` have the same name. -/
theorem kmem_cache_create_head_name_unchecked :
    (kmem_cache_create slab_env_ex 2 kmem_state_ex6 (some "inode_cache") 96 0 0x2000 false
        false).isNone = true ∧
    (kmem_cache_create slab_env_ex 2 kmem_state_ex6 (some "dentry_cache") 96 0 0x2000 false
        false).map (fun r => (r.2, r.1.cache_chain)) =
      some (0xC1000160, [0xC1000160, 0xC1000060]) ∧
    (kmem_cache_create slab_env_ex 2 kmem_state_ex5 (some "kmem_cache") 96 0 0x2000 false
        false).map
      (fun r => (r.2, r.1.cache_chain, (r.1.cache r.2).name,
        (r.1.cache slab_env_ex.cache_cache).name)) =
      some (0xC1000060, [0xC1000060], "kmem_cache", "kmem_cache") ∧
    (0xC1000060 : Nat) ≠ slab_env_ex.cache_cache := by
  refine ⟨by decide, by decide, by decide, by decide⟩
/-! ## Theorems: the page order of a new cache -/

theorem estimate_total (cfg : slab_config) (order size flags : Nat) (ho : order ≤ 5)
    (hsize : 1 ≤ size) (hL : 0 < cfg.L1_CACHE_BYTES)
    (hb : cfg.PAGE_SIZE * 2 ^ 5 + size + sizeof_kmem_bufctl_t + cfg.L1_CACHE_BYTES ≤ 2 ^ 31)
    (hhead : spec_align cfg sizeof_slab_t ≤ cfg.PAGE_SIZE) :
    ∃ l num, kmem_cache_estimate cfg order size flags = some (l, num) := by
  have hpow : 2 ^ order ≤ 2 ^ 5 := Nat.pow_le_pow_right (by decide) ho
  have hmul : cfg.PAGE_SIZE * 2 ^ order ≤ cfg.PAGE_SIZE * 2 ^ 5 := Nat.mul_le_mul_left _ hpow
  have hone : cfg.PAGE_SIZE ≤ cfg.PAGE_SIZE * 2 ^ order :=
    Nat.le_mul_of_pos_right _ (Nat.two_pow_pos order)
  have hfit0 : spec_fits cfg order size flags 0 := by
    unfold spec_fits
    have h1 : spec_align cfg (spec_header flags + 0 * spec_slot flags) ≤
        spec_align cfg sizeof_slab_t :=
      spec_align_mono cfg _ _ (by have := spec_header_le flags; omega)
    omega
  obtain ⟨num, l, h, -⟩ := kmem_cache_estimate_fits cfg order size flags hsize hL
    (by omega) hfit0
  exact ⟨l, num, h⟩

theorem align_zero (cfg : slab_config) (hL : 0 < cfg.L1_CACHE_BYTES)
    (hLU : cfg.L1_CACHE_BYTES ≤ ULONG) : L1_CACHE_ALIGN cfg 0 = 0 := by
  unfold L1_CACHE_ALIGN
  rw [Nat.zero_add, Nat.mod_eq_of_lt (by omega), Nat.div_eq_of_lt (by omega), Nat.zero_mul]

theorem shift_wrap (p k : Nat) (hk : 32 ≤ k) : (p <<< k) % ULONG = 0 := by
  rw [Nat.shiftLeft_eq]
  have h : (2 : Nat) ^ 32 ∣ 2 ^ k := Nat.pow_dvd_pow 2 hk
  exact Nat.mod_eq_zero_of_dvd (Dvd.dvd.mul_left h _)

theorem estimate_wrapped (cfg : slab_config) (size flags : Nat)
    (hoff : flags &&& CFLGS_OFF_SLAB ≠ 0) (hs1 : 1 ≤ size) (hs2 : size < ULONG)
    (hL : 0 < cfg.L1_CACHE_BYTES) (hLU : cfg.L1_CACHE_BYTES ≤ ULONG) :
    kmem_cache_estimate cfg (ULONG - 1) size flags = some (0, 0) := by
  have hU : ULONG = 4294967296 := rfl
  have hw : (cfg.PAGE_SIZE <<< (ULONG - 1)) % ULONG = 0 :=
    shift_wrap cfg.PAGE_SIZE (ULONG - 1) (by decide)
  have ha := align_zero cfg hL hLU
  have hloop : estimate_loop cfg size 0 0 0 (INT_MAX + 1) 0 = some 1 := by
    have := estimate_loop_find cfg size 0 0 0 1 (INT_MAX + 1) 0
      (by
        intro j hj1 hj2
        have hj : j = 0 := by omega
        rw [hj]
        unfold estimate_cond
        simp only [Nat.zero_mul, Nat.zero_mod, Nat.add_zero, ha]
        decide)
      (by
        unfold estimate_cond
        simp only [Nat.zero_add, Nat.one_mul, Nat.mul_zero, Nat.zero_mod, ha, Nat.add_zero,
          Nat.mod_mod, Nat.mod_eq_of_lt hs2]
        exact decide_eq_false (by omega))
      (by decide)
    exact this
  unfold kmem_cache_estimate
  simp only [hw, if_neg hoff, hloop]
  have e : (if (if 1 > 0 then 1 - 1 else 1) % ULONG > SLAB_LIMIT then SLAB_LIMIT
      else if 1 > 0 then 1 - 1 else 1) = 0 := by decide
  simp only [e, Nat.zero_mul, Nat.zero_mod, Nat.add_zero, ha]
  decide
theorem create_order_loop_total (cfg : slab_config) (ol br size flags : Nat)
    (hsize : 1 ≤ size) (hL : 0 < cfg.L1_CACHE_BYTES)
    (hb : cfg.PAGE_SIZE * 2 ^ 5 + size + sizeof_kmem_bufctl_t + cfg.L1_CACHE_BYTES ≤ 2 ^ 31)
    (hhead : spec_align cfg sizeof_slab_t ≤ cfg.PAGE_SIZE) :
    ∀ (fuel g : Nat), g ≤ 5 → 5 - g < fuel →
      ∃ g2 l num, create_order_loop cfg ol br size flags fuel g = some (g2, l, num) ∧
        (g2 ≤ 5 ∨ (num = 0 ∧ flags &&& CFLGS_OFF_SLAB ≠ 0 ∧
          ∃ l0 n0, kmem_cache_estimate cfg 0 size flags = some (l0, n0) ∧ n0 > ol)) := by
  have hU : ULONG = 4294967296 := rfl
  have hM : MAX_GFP_ORDER = 5 := rfl
  intro fuel
  induction fuel with
  | zero => intro g _ h; omega
  | succ f ih =>
    intro g hg hf
    obtain ⟨l, num, he⟩ := estimate_total cfg g size flags hg hsize hL hb hhead
    rw [create_order_loop, he]
    simp only []
    by_cases h1 : g ≥ MAX_GFP_ORDER
    · rw [if_pos h1]
      exact ⟨g, l, num, rfl, Or.inl hg⟩
    rw [if_neg h1]
    have hg5 : g < 5 := by omega
    have hnext : (g + 1) % ULONG = g + 1 := Nat.mod_eq_of_lt (by omega)
    by_cases h2 : num = 0
    · rw [if_pos h2, hnext]
      exact ih (g + 1) (by omega) (by omega)
    rw [if_neg h2]
    by_cases h3 : flags &&& CFLGS_OFF_SLAB ≠ 0 ∧ num > ol
    · rw [if_pos h3]
      by_cases hg0 : g = 0
      · rw [hg0] at he ⊢
        have hw : (0 + ULONG - 1) % ULONG = ULONG - 1 := by decide
        rw [hw, estimate_wrapped cfg size flags h3.1 hsize
          (by have : sizeof_kmem_bufctl_t = 4 := rfl; omega) hL (by omega)]
        exact ⟨ULONG - 1, 0, 0, rfl, Or.inr ⟨rfl, h3.1, l, num, he, h3.2⟩⟩
      · have hd : (g + ULONG - 1) % ULONG = g - 1 := by
          rw [show g + ULONG - 1 = (g - 1) + ULONG by omega, Nat.add_mod_right]
          exact Nat.mod_eq_of_lt (by omega)
        obtain ⟨l2, num2, he2⟩ := estimate_total cfg (g - 1) size flags (by omega) hsize hL hb
          hhead
        rw [hd, he2]
        exact ⟨g - 1, l2, num2, rfl, Or.inl (by omega)⟩
    rw [if_neg h3]
    by_cases h4 : g ≥ br
    · rw [if_pos h4]
      exact ⟨g, l, num, rfl, Or.inl hg⟩
    rw [if_neg h4]
    by_cases h5 : (l * 8) % ULONG ≤ (cfg.PAGE_SIZE <<< g) % ULONG
    · rw [if_pos h5]
      exact ⟨g, l, num, rfl, Or.inl hg⟩
    · rw [if_neg h5, hnext]
      exact ih (g + 1) (by omega) (by omega)
theorem create_objsize_le (cfg : slab_config) (size flags k : Nat)
    (hL : cfg.L1_CACHE_BYTES = 2 ^ k) (hk : k ≤ 31)
    (hmask : cfg.SLAB_HWCACHE_ALIGN &&& CFLGS_OFF_SLAB = 0)
    (hsize : size + cfg.L1_CACHE_BYTES + 3 < ULONG) :
    size ≤ create_objsize cfg size flags ∧
    create_objsize cfg size flags ≤ size + cfg.L1_CACHE_BYTES + 2 := by
  obtain ⟨h1, -, h3, h4⟩ := create_objsize_round cfg size flags k hL hk hmask hsize
  refine ⟨h1, ?_⟩
  have hLpos : 0 < cfg.L1_CACHE_BYTES := by rw [hL]; exact Nat.two_pow_pos k
  by_cases hf : flags &&& cfg.SLAB_HWCACHE_ALIGN = 0
  · rw [h3 hf]; omega
  · obtain ⟨i, hi, -, -, -, he, -⟩ := h4 hf
    have hik : 2 ^ i ≤ cfg.L1_CACHE_BYTES := by
      rw [hL]; exact Nat.pow_le_pow_right (by decide) hi
    have hpi : 0 < 2 ^ i := Nat.two_pow_pos i
    have := Nat.div_mul_le_self ((size + 3) / 4 * 4 + 2 ^ i - 1) (2 ^ i)
    rw [he]
    omega

theorem create_checks_size (cfg : slab_config) (nm : String) (size offset flags : Nat)
    (ctor dtor : Bool) (ii : Bool) (f : Nat)
    (h : kmem_cache_create_checks cfg (some nm) size offset flags ctor dtor ii = some f) :
    BYTES_PER_WORD ≤ size ∧ size ≤ 32 * cfg.PAGE_SIZE := by
  unfold kmem_cache_create_checks at h
  simp only [] at h
  by_cases hc : nm.length ≥ CACHE_NAMELEN - 1 ∨ ii = true ∨ size < BYTES_PER_WORD ∨
      size > ((1 <<< MAX_OBJ_ORDER) * cfg.PAGE_SIZE) % ULONG ∨ (dtor = true ∧ ctor = false) ∨
      offset > size
  · rw [if_pos hc] at h; cases h
  · have h3 : ¬ size < BYTES_PER_WORD := fun x => hc (Or.inr (Or.inr (Or.inl x)))
    have h4 : ¬ size > ((1 <<< MAX_OBJ_ORDER) * cfg.PAGE_SIZE) % ULONG :=
      fun x => hc (Or.inr (Or.inr (Or.inr (Or.inl x))))
    have h5 : ((1 <<< MAX_OBJ_ORDER) * cfg.PAGE_SIZE) % ULONG ≤ 32 * cfg.PAGE_SIZE :=
      Nat.mod_le _ _
    exact ⟨Nat.not_lt.mp h3, Nat.le_trans (Nat.not_lt.mp h4) h5⟩

/-- What the order loop does ensure.  With a cache line of `2^k` bytes, a page size for which the
arithmetic of `kmem_cache_estimate` does not wrap and in which the slab
descriptor fits, for every request that passes the sanity checks of
`kmem_cache_create`: the order loop returns, whatever `offslab_limit` and
`slab_break_gfp_order` are; its order is at most `MAX_GFP_ORDER` whenever
`num` is not 0, and also whenever the step `gfporder--` is not taken at order
0 (the cache is on-slab, or an off-slab cache has at most `offslab_limit`
objects at order 0); and a cache that `kmem_cache_create` returns has
`gfporder ≤ MAX_GFP_ORDER` and `num ≥ 1`. -/
theorem create_order_bounded (env : slab_env) (nm : String) (size offset flags : Nat)
    (ctor dtor : Bool) (k : Nat) (hL : env.cfg.L1_CACHE_BYTES = 2 ^ k) (hk : k ≤ 31)
    (hmask : env.cfg.SLAB_HWCACHE_ALIGN &&& CFLGS_OFF_SLAB = 0)
    (hcfg : 64 * env.cfg.PAGE_SIZE + 2 * env.cfg.L1_CACHE_BYTES + 7 ≤ 2 ^ 31)
    (hhead : spec_align env.cfg sizeof_slab_t ≤ env.cfg.PAGE_SIZE)
    (hacc : kmem_cache_create_checks env.cfg (some nm) size offset flags ctor dtor
      env.in_interrupt = some flags) :
    (∀ ol br, ∃ g l num,
      create_order_loop env.cfg ol br (create_objsize env.cfg size flags)
        (create_flags env.cfg size flags) (MAX_GFP_ORDER + 2) 0 = some (g, l, num) ∧
      (num ≠ 0 → g ≤ MAX_GFP_ORDER) ∧
      ((create_flags env.cfg size flags &&& CFLGS_OFF_SLAB ≠ 0 →
          ∀ l0 n0, kmem_cache_estimate env.cfg 0 (create_objsize env.cfg size flags)
            (create_flags env.cfg size flags) = some (l0, n0) → n0 ≤ ol) →
        g ≤ MAX_GFP_ORDER)) ∧
    (∀ n s s' c,
      kmem_cache_create env n s (some nm) size offset flags ctor dtor = some (s', c) → c ≠ 0 →
      (s'.cache c).gfporder ≤ MAX_GFP_ORDER ∧ 1 ≤ (s'.cache c).num) := by
  have hU : ULONG = 4294967296 := rfl
  have hB : BYTES_PER_WORD = 4 := rfl
  have hb4 : sizeof_kmem_bufctl_t = 4 := rfl
  have hM : MAX_GFP_ORDER = 5 := rfl
  obtain ⟨hs1, hs2⟩ := create_checks_size _ _ _ _ _ _ _ _ _ hacc
  obtain ⟨ho1, ho2⟩ := create_objsize_le env.cfg size flags k hL hk hmask (by omega)
  have hLpos : 0 < env.cfg.L1_CACHE_BYTES := by rw [hL]; exact Nat.two_pow_pos k
  have hloop : ∀ ol br, ∃ g l num,
      create_order_loop env.cfg ol br (create_objsize env.cfg size flags)
        (create_flags env.cfg size flags) (MAX_GFP_ORDER + 2) 0 = some (g, l, num) ∧
      (g ≤ 5 ∨ (num = 0 ∧ create_flags env.cfg size flags &&& CFLGS_OFF_SLAB ≠ 0 ∧
        ∃ l0 n0, kmem_cache_estimate env.cfg 0 (create_objsize env.cfg size flags)
          (create_flags env.cfg size flags) = some (l0, n0) ∧ n0 > ol)) :=
    fun ol br => create_order_loop_total env.cfg ol br _ _ (by omega) hLpos (by omega) hhead
      (MAX_GFP_ORDER + 2) 0 (by omega) (by omega)
  refine ⟨?_, ?_⟩
  · intro ol br
    obtain ⟨g, l, num, hg, hor⟩ := hloop ol br
    refine ⟨g, l, num, hg, ?_, ?_⟩
    · intro hn
      rcases hor with h | ⟨h, -⟩
      · rw [hM]; exact h
      · exact absurd h hn
    · intro hno
      rcases hor with h | ⟨-, hoff, l0, n0, he, hgt⟩
      · rw [hM]; exact h
      · have := hno hoff l0 n0 he
        omega
  · intro n s s' c h hc
    obtain ⟨-, -, -, -, -, -, hnum, l, hl, -⟩ :=
      create_result env n s nm size offset flags ctor dtor s' c h hc
    obtain ⟨g, l2, num, hg, hor⟩ := hloop s.offslab_limit s.slab_break_gfp_order
    rw [hl] at hg
    simp only [Option.some.injEq, Prod.mk.injEq] at hg
    obtain ⟨e1, -, e3⟩ := hg
    refine ⟨?_, Nat.one_le_iff_ne_zero.mpr hnum⟩
    rcases hor with h5 | ⟨h0, -⟩
    · rw [e1, hM]; exact h5
    · exact absurd (e3.trans h0) hnum

/-- Example: a cache of 96-byte objects created in `kmem_state_ex`
has order 0. -/
theorem create_order_bounded_example :
    ∃ s', kmem_cache_create slab_env_ex 2 kmem_state_ex (some "inode_cache") 96 0 0x2000 false
        false = some (s', 0xC1000060) ∧
      (s'.cache 0xC1000060).gfporder ≤ MAX_GFP_ORDER ∧ 1 ≤ (s'.cache 0xC1000060).num := by
  obtain ⟨s', h⟩ := option_map_snd
    (kmem_cache_create slab_env_ex 2 kmem_state_ex (some "inode_cache") 96 0 0x2000 false false)
    0xC1000060 (by decide)
  exact ⟨s', h, (create_order_bounded slab_env_ex "inode_cache" 96 0 0x2000 false false 5
    (by decide) (by decide) (by decide) (by decide) (by decide) (by decide)).2 2 kmem_state_ex
    s' 0xC1000060 h (by decide)⟩
/-- C22. For a cache returned by `kmem_cache_create` (cache line `2^k`
bytes, no wrap of `size + L1_CACHE_BYTES + 3`): the stored `objsize` is at
least the requested size and a multiple of the word size; without
`SLAB_HWCACHE_ALIGN` it is the size rounded up to a word; with
`SLAB_HWCACHE_ALIGN` it is the word-rounded size `w` rounded up to a multiple
of `2^i`, the cache line halved as long as `w` is below half of it, which is a
multiple of the whole cache line only when `w` is at least half a line. -/
theorem create_objsize_rounding (env : slab_env) (n : Nat) (s : kmem_state) (nm : String)
    (size offset flags : Nat) (ctor dtor : Bool) (s' : kmem_state) (c k : Nat)
    (hL : env.cfg.L1_CACHE_BYTES = 2 ^ k) (hk : k ≤ 31)
    (hmask : env.cfg.SLAB_HWCACHE_ALIGN &&& CFLGS_OFF_SLAB = 0)
    (hsize : size + env.cfg.L1_CACHE_BYTES + 3 < ULONG)
    (h : kmem_cache_create env n s (some nm) size offset flags ctor dtor = some (s', c))
    (hc : c ≠ 0) :
    size ≤ (s'.cache c).objsize ∧
    (s'.cache c).objsize % BYTES_PER_WORD = 0 ∧
    (flags &&& env.cfg.SLAB_HWCACHE_ALIGN = 0 →
      (s'.cache c).objsize = (size + 3) / 4 * 4) ∧
    (flags &&& env.cfg.SLAB_HWCACHE_ALIGN ≠ 0 →
      ∃ i, i ≤ k ∧ (i = k ∨ (size + 3) / 4 * 4 < 2 ^ i) ∧ 2 ^ i / 2 ≤ (size + 3) / 4 * 4 ∧
        (s'.cache c).objsize = ((size + 3) / 4 * 4 + 2 ^ i - 1) / 2 ^ i * 2 ^ i ∧
        (env.cfg.L1_CACHE_BYTES / 2 ≤ (size + 3) / 4 * 4 →
          (s'.cache c).objsize % env.cfg.L1_CACHE_BYTES = 0)) := by
  obtain ⟨-, -, -, -, -, ho, -⟩ :=
    create_result env n s nm size offset flags ctor dtor s' c h hc
  obtain ⟨h1, h2, h3, h4⟩ := create_objsize_round env.cfg size flags k hL hk hmask hsize
  rw [ho]
  refine ⟨h1, h2, h3, ?_⟩
  intro hf
  obtain ⟨i, a1, -, a3, a4, a5, a6⟩ := h4 hf
  exact ⟨i, a1, a3, a4, a5, a6⟩

/-- Witness for C22: 96 bytes with `SLAB_HWCACHE_ALIGN` in `kmem_state_ex`. -/
theorem create_objsize_rounding_witness :
    ∃ s', kmem_cache_create slab_env_ex 2 kmem_state_ex (some "inode_cache") 96 0 0x2000 false
        false = some (s', 0xC1000060) ∧
      96 ≤ (s'.cache 0xC1000060).objsize ∧
      (s'.cache 0xC1000060).objsize % BYTES_PER_WORD = 0 := by
  obtain ⟨s', h⟩ := option_map_snd
    (kmem_cache_create slab_env_ex 2 kmem_state_ex (some "inode_cache") 96 0 0x2000 false false)
    0xC1000060 (by decide)
  have r := create_objsize_rounding slab_env_ex 2 kmem_state_ex "inode_cache" 96 0 0x2000 false
    false s' 0xC1000060 5 (by decide) (by decide) (by decide) (by decide) h (by decide)
  exact ⟨s', h, r.1, r.2.1⟩

/-- Counterexample to C22 as stated: with 32-byte cache lines a request of
12 bytes with `SLAB_HWCACHE_ALIGN` yields `objsize = 16`, which is not a
multiple of the cache line size. -/
theorem create_objsize_small_counterexample :
    (kmem_cache_create slab_env_ex 2 kmem_state_ex (some "small") 12 0
        slab_config_ex.SLAB_HWCACHE_ALIGN false false).map
      (fun r => (r.2, (r.1.cache r.2).objsize,
        (r.1.cache r.2).objsize % slab_config_ex.L1_CACHE_BYTES)) =
      some (0xC1000060, 16, 16) := by
  decide
theorem estimate_flags_congr (cfg : slab_config) (g size f1 f2 : Nat)
    (h : f1 &&& CFLGS_OFF_SLAB = f2 &&& CFLGS_OFF_SLAB) :
    kmem_cache_estimate cfg g size f1 = kmem_cache_estimate cfg g size f2 := by
  unfold kmem_cache_estimate
  rw [h]

theorem create_checks_mask (cfg : slab_config) (nm : String) (size offset flags : Nat)
    (ctor dtor : Bool) (ii : Bool) (f : Nat)
    (h : kmem_cache_create_checks cfg (some nm) size offset flags ctor dtor ii = some f) :
    flags &&& ((ULONG - 1) ^^^ (CREATE_MASK cfg % ULONG)) = 0 := by
  unfold kmem_cache_create_checks at h
  simp only [] at h
  split at h
  · cases h
  · split at h
    · cases h
    · rename_i h2
      exact Classical.not_not.mp h2

theorem create_checks_of_some (env : slab_env) (n : Nat) (s : kmem_state) (nm : String)
    (size offset flags : Nat) (ctor dtor : Bool) (r : kmem_state × Nat)
    (h : kmem_cache_create env n s (some nm) size offset flags ctor dtor = some r) :
    kmem_cache_create_checks env.cfg (some nm) size offset flags ctor dtor
      env.in_interrupt = some flags := by
  unfold kmem_cache_create at h
  simp only [] at h
  cases hch : kmem_cache_create_checks env.cfg (some nm) size offset flags ctor dtor
      env.in_interrupt with
  | none => rw [hch] at h; cases h
  | some f => rw [create_checks_flags _ _ _ _ _ _ _ _ _ hch]

theorem create_descriptor_onslab (env : slab_env) (sizes : List cache_sizes_t) (nm : String)
    (size offset flags : Nat) (ctor dtor : Bool) (g l num : Nat) (desc : kmem_cache_t)
    (h : create_descriptor env sizes nm size offset flags ctor dtor g l num = some desc)
    (hoff : create_flags env.cfg size flags &&& CFLGS_OFF_SLAB = 0) :
    desc.flags &&& CFLGS_OFF_SLAB = 0 := by
  unfold create_descriptor at h
  dsimp only at h
  have hd := ite_none_some _ _ _ h
  rw [hd]
  show (if g = 0 ∧ _ then _ else _) &&& CFLGS_OFF_SLAB = 0
  have hm : ¬ (create_flags env.cfg size flags &&& CFLGS_OFF_SLAB ≠ 0 ∧
      l ≥ L1_CACHE_ALIGN env.cfg
        ((((num * sizeof_kmem_bufctl_t) % ULONG) + sizeof_slab_t) % ULONG)) :=
    fun x => x.1 hoff
  rw [if_neg hm]
  split
  · rw [or_and_mask _ _ _ (by decide)]; exact hoff
  · exact hoff
theorem create_order_loop_96 (ol br flags : Nat) (hoff : flags &&& CFLGS_OFF_SLAB = 0) :
    create_order_loop slab_config_ex ol br 96 flags (MAX_GFP_ORDER + 2) 0 = some (0, 64, 40) := by
  have he : kmem_cache_estimate slab_config_ex 0 96 flags = some (64, 40) := by
    rw [estimate_flags_congr slab_config_ex 0 96 flags 0 (by rw [hoff]; rfl)]
    decide
  show create_order_loop slab_config_ex ol br 96 flags (6 + 1) 0 = some (0, 64, 40)
  unfold create_order_loop
  rw [he]
  dsimp only
  rw [if_neg (by decide), if_neg (by decide), if_neg (fun x => x.1 hoff)]
  by_cases hb : 0 ≥ br
  · rw [if_pos hb]
  · rw [if_neg hb, if_pos (by decide)]

theorem create_96_geometry (env : slab_env) (n : Nat) (s : kmem_state) (nm : String)
    (offset flags : Nat) (ctor dtor : Bool) (s' : kmem_state) (c : Nat)
    (hcfg : env.cfg = slab_config_ex)
    (hw : flags &&& slab_config_ex.SLAB_HWCACHE_ALIGN ≠ 0)
    (h : kmem_cache_create env n s (some nm) 96 offset flags ctor dtor = some (s', c))
    (hc : c ≠ 0) :
    (s'.cache c).gfporder = 0 ∧ 32 ≤ (s'.cache c).num ∧ (s'.cache c).num = 40 ∧
    (s'.cache c).flags &&& CFLGS_OFF_SLAB = 0 ∧ (s'.cache c).objsize = 96 := by
  have hch := create_checks_of_some env n s nm 96 offset flags ctor dtor _ h
  have hm := create_checks_mask _ _ _ _ _ _ _ _ _ hch
  rw [hcfg] at hm
  have hoff : flags &&& CFLGS_OFF_SLAB = 0 := by
    have e : CFLGS_OFF_SLAB =
        ((ULONG - 1) ^^^ (CREATE_MASK slab_config_ex % ULONG)) &&& CFLGS_OFF_SLAB := by decide
    rw [e, ← Nat.land_assoc, hm]
    exact Nat.zero_and _
  have hfl : create_flags slab_config_ex 96 flags = flags := by
    unfold create_flags
    rw [if_neg (by decide)]
  obtain ⟨-, -, -, -, -, ho, -, l, hl, desc, hd, hg⟩ :=
    create_result env n s nm 96 offset flags ctor dtor s' c h hc
  rw [hcfg] at ho hl
  rw [hfl] at hl
  have hsz : create_objsize slab_config_ex 96 flags = 96 := by
    obtain ⟨-, -, -, h4⟩ := create_objsize_round slab_config_ex 96 flags 5 (by decide)
      (by decide) (by decide) (by decide)
    obtain ⟨i, hi, -, hik, -, he, -⟩ := h4 hw
    have hi5 : i = 5 := by
      rcases hik with e | e
      · exact e
      · have : 2 ^ i ≤ 2 ^ 5 := Nat.pow_le_pow_right (by decide) hi
        omega
    rw [he, hi5]
    decide
  rw [hsz] at hl ho
  rw [create_order_loop_96 _ _ flags hoff] at hl
  simp only [Option.some.injEq, Prod.mk.injEq] at hl
  obtain ⟨e1, -, e3⟩ := hl
  have hdo := create_descriptor_onslab env _ nm 96 offset flags ctor dtor _ _ _ desc hd
    (by rw [hcfg, hfl]; exact hoff)
  have hgf : desc.flags = (s'.cache c).flags := hg.2.2.1.symm
  refine ⟨e1.symm, ?_, e3.symm, ?_, ho⟩
  · rw [← e3]; decide
  · rw [← hgf]; exact hdo

/-- C29. With 4 KiB pages and 32-byte cache lines (`slab_config_ex`, 32-bit
words), a cache returned by `kmem_cache_create` for size 96 with
`SLAB_HWCACHE_ALIGN` has `gfporder = 0`, 40 objects per slab (so at least 32),
object size 96 and `CFLGS_OFF_SLAB` clear, in every state. -/
theorem create_96_hwalign (env : slab_env) (n : Nat) (s : kmem_state) (nm : String)
    (offset flags : Nat) (ctor dtor : Bool) (s' : kmem_state) (c : Nat)
    (hcfg : env.cfg = slab_config_ex)
    (hw : flags &&& slab_config_ex.SLAB_HWCACHE_ALIGN ≠ 0)
    (h : kmem_cache_create env n s (some nm) 96 offset flags ctor dtor = some (s', c))
    (hc : c ≠ 0) :
    (s'.cache c).gfporder = 0 ∧ 32 ≤ (s'.cache c).num ∧ (s'.cache c).num = 40 ∧
    (s'.cache c).flags &&& CFLGS_OFF_SLAB = 0 ∧ (s'.cache c).objsize = 96 :=
  create_96_geometry env n s nm offset flags ctor dtor s' c hcfg hw h hc

/-- Witness for C29: the cache "inode_cache" created in `kmem_state_ex`. -/
theorem create_96_hwalign_witness :
    ∃ s', kmem_cache_create slab_env_ex 2 kmem_state_ex (some "inode_cache") 96 0 0x2000 false
        false = some (s', 0xC1000060) ∧
      (s'.cache 0xC1000060).gfporder = 0 ∧ 32 ≤ (s'.cache 0xC1000060).num ∧
      (s'.cache 0xC1000060).flags &&& CFLGS_OFF_SLAB = 0 := by
  obtain ⟨s', h⟩ := option_map_snd
    (kmem_cache_create slab_env_ex 2 kmem_state_ex (some "inode_cache") 96 0 0x2000 false false)
    0xC1000060 (by decide)
  have r := create_96_hwalign slab_env_ex 2 kmem_state_ex "inode_cache" 0 0x2000 false
    false s' 0xC1000060 rfl (by decide) h (by decide)
  exact ⟨s', h, r.1, r.2.1, r.2.2.2.1⟩
theorem alloc_first_slab (env : slab_env) (n : Nat) (s : kmem_state) (cachep flags : Nat)
    (hslabs : (s.cache cachep).slabs = []) (hfn : (s.cache cachep).firstnotfull = none)
    (hmag : (s.cache cachep).cpudata env.cpu ≠ 0 →
      (s.cpucache ((s.cache cachep).cpudata env.cpu)).avail = 0 ∧
      1 ≤ (s.cache cachep).batchcount ∧ (s.cache cachep).batchcount ≤ INT_MAX)
    (hN2 : (s.cache cachep).num ≤ SLAB_LIMIT)
    (hon : (s.cache cachep).flags &&& CFLGS_OFF_SLAB = 0) (hf : grow_flags_ok env flags)
    (hp : pages_ok env s cachep (max (s.cache cachep).colour_next (s.cache cachep).colour))
    (k : Nat) (hk : 1 + k ≤ (s.cache cachep).num) :
    ∃ sK, alloc_iter env (n + 2) cachep flags (k + 1) s = some sK ∧
      sK.grown = cachep :: s.grown ∧ (sK.cache cachep).slabs.length = 1 := by
  obtain ⟨hp0, hp1, -, -, -⟩ := hp
  obtain ⟨s1, p, hal, hpz, hinv1, hgr1, -, -, hsame1, -⟩ := alloc_grow env n s cachep
    flags _ (by omega) hN2 hon hf (Nat.le_max_left _ _) hp0 hp1 hfn (by rw [hslabs]; simp) hmag
  rw [hslabs] at hinv1
  obtain ⟨-, -, e3, -⟩ := cache_same_cpudata _ _ hsame1
  obtain ⟨sK, hit, hinvK, hqK⟩ := alloc_iter_run env (n + 1) cachep flags [] _ k 1 s1
    (by rw [e3]; exact hN2) hinv1 (by rw [e3]; exact hk)
  refine ⟨sK, ?_, ?_, ?_⟩
  · rw [alloc_iter]
    unfold kmem_cache_alloc
    rw [hal]
    simp only []
    rw [if_neg hpz]
    exact hit
  · rw [hqK.1, hgr1]
  · obtain ⟨u, a, ho, -, -⟩ := hinvK
    rw [ho.1]; rfl

theorem kmem_state_ex6_created :
    kmem_cache_create slab_env_ex 2 kmem_state_ex (some "inode_cache") 96 0 0x2000 false
      false = some (kmem_state_ex6, 0xC1000060) := by
  obtain ⟨s', h⟩ := option_map_snd
    (kmem_cache_create slab_env_ex 2 kmem_state_ex (some "inode_cache") 96 0 0x2000 false false)
    0xC1000060 (by decide)
  have e : kmem_state_ex6 = s' := by
    unfold kmem_state_ex6
    rw [h]
  rw [e]
  exact h

/-- C30. For a cache returned by `kmem_cache_create` for size 96 with
`SLAB_HWCACHE_ALIGN` on 4 KiB pages with 32-byte cache lines, which has no
slab and an empty per-CPU array (or none), the page allocator answering the
next two calls with blocks apart from each other in which a slab fits: each of
the first 40 successive calls of `kmem_cache_alloc` returns an object, and
after any number `j` of them, `1 ≤ j ≤ 40` (so also after 32 and after 33),
`kmem_cache_grow` has returned 1 exactly once for the cache, which has one
slab; the 41st call returns an object after `kmem_cache_grow` has returned 1 a
second time, and the cache has two slabs. -/
theorem alloc_96_grows_at_41 (env : slab_env) (n n2 : Nat) (s : kmem_state) (nm : String)
    (offset flags aflags : Nat) (ctor dtor : Bool) (s' : kmem_state) (c : Nat)
    (hcfg : env.cfg = slab_config_ex)
    (hw : flags &&& slab_config_ex.SLAB_HWCACHE_ALIGN ≠ 0)
    (h : kmem_cache_create env n s (some nm) 96 offset flags ctor dtor = some (s', c))
    (hc : c ≠ 0)
    (hslabs : (s'.cache c).slabs = []) (hfn : (s'.cache c).firstnotfull = none)
    (hmag : (s'.cache c).cpudata env.cpu ≠ 0 →
      (s'.cpucache ((s'.cache c).cpudata env.cpu)).avail = 0 ∧
      1 ≤ (s'.cache c).batchcount ∧ (s'.cache c).batchcount ≤ INT_MAX)
    (hf : grow_flags_ok env aflags)
    (hp : pages_ok env s' c (max (s'.cache c).colour_next (s'.cache c).colour)) :
    (s'.cache c).num = 40 ∧
    (∀ j, 1 ≤ j → j ≤ 40 →
      ∃ sj, alloc_iter env (n2 + 2) c aflags j s' = some sj ∧
        sj.grown = c :: s'.grown ∧ (sj.cache c).slabs.length = 1) ∧
    ∃ sM, alloc_iter env (n2 + 2) c aflags 41 s' = some sM ∧
      sM.grown = c :: c :: s'.grown ∧ (sM.cache c).slabs.length = 2 := by
  obtain ⟨-, -, hnum, hon, hos⟩ :=
    create_96_geometry env n s nm offset flags ctor dtor s' c hcfg hw h hc
  have hN2 : (s'.cache c).num ≤ SLAB_LIMIT := by rw [hnum]; decide
  refine ⟨hnum, ?_, ?_⟩
  · intro j hj1 hj2
    obtain ⟨k, hk⟩ : ∃ k, j = k + 1 := ⟨j - 1, by omega⟩
    rw [hk]
    exact alloc_first_slab env n2 s' c aflags hslabs hfn hmag hN2 hon hf hp k
      (by rw [hnum]; omega)
  · obtain ⟨sN, -, -, -, sM, -, hM, hg, hl⟩ := alloc_num_grows env n2 s' c aflags hslabs hfn
      hmag (by rw [hnum]; decide) hN2 (by rw [hos]; decide) hon hf hp
    rw [hnum] at hM
    exact ⟨sM, hM, hg, hl⟩

/-- Witness for C30: the cache "inode_cache" of `kmem_state_ex6`. -/
theorem alloc_96_grows_at_41_witness :
    (kmem_state_ex6.cache 0xC1000060).num = 40 ∧
    (∀ j, 1 ≤ j → j ≤ 40 →
      ∃ sj, alloc_iter slab_env_ex 2 0xC1000060 0x07 j kmem_state_ex6 = some sj ∧
        sj.grown = 0xC1000060 :: kmem_state_ex6.grown ∧
        (sj.cache 0xC1000060).slabs.length = 1) ∧
    ∃ sM, alloc_iter slab_env_ex 2 0xC1000060 0x07 41 kmem_state_ex6 = some sM ∧
      sM.grown = 0xC1000060 :: 0xC1000060 :: kmem_state_ex6.grown ∧
      (sM.cache 0xC1000060).slabs.length = 2 :=
  alloc_96_grows_at_41 slab_env_ex 2 0 kmem_state_ex "inode_cache" 0 0x2000 0x07 false false
    kmem_state_ex6 0xC1000060 rfl (by decide) kmem_state_ex6_created (by decide) (by decide)
    (by decide) (by decide) (by decide) (by decide)

/-- Counterexample to C30 as stated: in `kmem_state_ex6`, where the cache
"inode_cache" (size 96, `SLAB_HWCACHE_ALIGN`, 4 KiB pages) has just been
created and has no slab, 33 successive calls of `kmem_cache_alloc` all return
an object, and afterwards `kmem_cache_grow` has returned 1 only once for the
cache (the other entry of the record is the growth of `cache_cache` during the
creation) and the cache still has one slab. -/
theorem alloc_96_no_grow_at_33_counterexample :
    kmem_cache_create slab_env_ex 2 kmem_state_ex (some "inode_cache") 96 0
      slab_config_ex.SLAB_HWCACHE_ALIGN false false = some (kmem_state_ex6, 0xC1000060) ∧
    (kmem_state_ex6.cache 0xC1000060).slabs = [] ∧
    ∃ s33, alloc_iter slab_env_ex 2 0xC1000060 slab_env_ex.GFP_KERNEL 33 kmem_state_ex6 =
        some s33 ∧
      s33.grown = [0xC1000060, 0xC0300000] ∧ (s33.cache 0xC1000060).slabs.length = 1 := by
  refine ⟨kmem_state_ex6_created, by decide, ?_⟩
  obtain ⟨s33, h1, h2, h3⟩ := alloc_first_slab slab_env_ex 0 kmem_state_ex6 0xC1000060 0x07
    (by decide) (by decide) (by decide) (by decide) (by decide) (by decide) (by decide) 32
    (by decide)
  refine ⟨s33, h1, ?_, h3⟩
  rw [h2]
  have e : kmem_state_ex6.grown = [0xC0300000] := by decide
  rw [e]
theorem tune_alloc_loop_inst (env : slab_env) (n limit : Nat) :
    ∀ (k i : Nat) (new : Nat → Nat) (s s1 : kmem_state) (new1 : Nat → Nat),
      (∀ a b, a < i + k → b < i + k → env.cpu_logical_map a = env.cpu_logical_map b → a = b) →
      tune_alloc_loop env n limit k i new s = some (s1, new1, none) →
      state_same s s1 ∧
      (∀ a, (s.cpucache a).limit = limit → (s1.cpucache a).limit = limit) ∧
      (∀ j, i ≤ j → j < i + k → new1 (env.cpu_logical_map j) ≠ 0 ∧
        (s1.cpucache (new1 (env.cpu_logical_map j))).limit = limit) ∧
      (∀ c, (∀ j, i ≤ j → j < i + k → c ≠ env.cpu_logical_map j) → new1 c = new c) := by
  intro k
  induction k with
  | zero =>
    intro i new s s1 new1 _ h
    rw [tune_alloc_loop] at h
    simp only [Option.some.injEq, Prod.mk.injEq, and_true] at h
    obtain ⟨e1, e2⟩ := h
    rw [← e1, ← e2]
    exact ⟨state_same_refl s, fun _ h => h, fun j h1 h2 => absurd h2 (by omega), fun _ _ => rfl⟩
  | succ k ih =>
    intro i new s s1 new1 hinj h
    rw [tune_alloc_loop] at h
    cases hk : kmalloc env n s
        (((sizeof_void_p * limit) % ULONG + sizeof_cpucache_t) % ULONG) env.GFP_KERNEL with
    | none => rw [hk] at h; cases h
    | some r =>
      obtain ⟨sa, cc⟩ := r
      rw [hk] at h
      simp only [] at h
      by_cases hz : cc = 0
      · rw [if_pos hz] at h
        simp only [Option.some.injEq, Prod.mk.injEq] at h
        exact absurd h.2.2 (by simp)
      · rw [if_neg hz] at h
        obtain ⟨hsa, hla⟩ := kmalloc_limits env n s _ _ sa cc hk
        obtain ⟨S2, hS2⟩ : ∃ S2, S2 = { sa with
            cpucache := upd sa.cpucache cc
              { sa.cpucache cc with limit := limit, avail := 0 } } := ⟨_, rfl⟩
        rw [← hS2] at h
        have hc2 : S2.cache = sa.cache := by rw [hS2]
        have hl2 : (S2.cpucache cc).limit = limit := by rw [hS2]; simp only [upd_same]
        have hl3 : ∀ a, a ≠ cc → (S2.cpucache a).limit = (sa.cpucache a).limit := by
          intro a ha; rw [hS2]; simp only [upd_other _ _ _ _ ha]
        obtain ⟨i1, i2, i3, i4⟩ := ih (i + 1) (upd new (env.cpu_logical_map i) cc) S2 s1 new1
          (fun a b ha hb => hinj a b (by omega) (by omega)) h
        have hnew : new1 (env.cpu_logical_map i) = cc := by
          rw [i4 (env.cpu_logical_map i) (fun j h1 h2 e => by
            have := hinj i j (by omega) (by omega) e
            omega)]
          exact upd_same _ _ _
        refine ⟨?_, ?_, ?_, ?_⟩
        · intro x
          have h1 := i1 x
          rw [hc2] at h1
          exact cache_same_trans _ _ _ (hsa x) h1
        · intro a ha
          apply i2
          by_cases hac : a = cc
          · rw [hac]; exact hl2
          · rw [hl3 a hac, hla a]; exact ha
        · intro j h1 h2
          by_cases hj : j = i
          · rw [hj, hnew]
            exact ⟨hz, i2 cc hl2⟩
          · exact i3 j (by omega) (by omega)
        · intro c hc
          rw [i4 c (fun j h1 h2 => hc j (by omega) (by omega))]
          exact upd_other _ _ _ _ (hc i (Nat.le_refl _) (by omega))

theorem smp_call_inst (env : slab_env) (cachep : Nat) :
    ∀ (k i : Nat) (r : kmem_state × (Nat → Nat)),
      (∀ a b, a < i + k → b < i + k → env.cpu_logical_map a = env.cpu_logical_map b → a = b) →
      (smp_call_function_all_cpus env cachep k i r).1.cpucache = r.1.cpucache ∧
      ((smp_call_function_all_cpus env cachep k i r).1.cache cachep).batchcount =
        (r.1.cache cachep).batchcount ∧
      (∀ j, i ≤ j → j < i + k →
        ((smp_call_function_all_cpus env cachep k i r).1.cache cachep).cpudata
          (env.cpu_logical_map j) = r.2 (env.cpu_logical_map j)) ∧
      (∀ c, (∀ j, i ≤ j → j < i + k → c ≠ env.cpu_logical_map j) →
        ((smp_call_function_all_cpus env cachep k i r).1.cache cachep).cpudata c =
          (r.1.cache cachep).cpudata c ∧
        (smp_call_function_all_cpus env cachep k i r).2 c = r.2 c) := by
  intro k
  induction k with
  | zero =>
    intro i r _
    rw [smp_call_function_all_cpus]
    exact ⟨rfl, rfl, fun j h1 h2 => absurd h2 (by omega), fun _ _ => ⟨rfl, rfl⟩⟩
  | succ k ih =>
    intro i r hinj
    rw [smp_call_function_all_cpus]
    obtain ⟨R, hR⟩ : ∃ R, R = do_ccupdate_local r.1 cachep r.2 (env.cpu_logical_map i) :=
      ⟨_, rfl⟩
    rw [← hR]
    have hR1 : R.1.cpucache = r.1.cpucache := by rw [hR]; rfl
    have hR2 : (R.1.cache cachep).batchcount = (r.1.cache cachep).batchcount := by
      rw [hR]; unfold do_ccupdate_local; simp only [upd_same]
    have hR3 : (R.1.cache cachep).cpudata =
        upd (r.1.cache cachep).cpudata (env.cpu_logical_map i) (r.2 (env.cpu_logical_map i)) := by
      rw [hR]; unfold do_ccupdate_local; simp only [upd_same]
    have hR4 : R.2 = upd r.2 (env.cpu_logical_map i)
        ((r.1.cache cachep).cpudata (env.cpu_logical_map i)) := by
      rw [hR]; rfl
    obtain ⟨i1, i2, i3, i4⟩ := ih (i + 1) R
      (fun a b ha hb => hinj a b (by omega) (by omega))
    refine ⟨i1.trans hR1, i2.trans hR2, ?_, ?_⟩
    · intro j h1 h2
      by_cases hj : j = i
      · rw [hj, (i4 (env.cpu_logical_map i) (fun j h1 h2 e => by
          have := hinj i j (by omega) (by omega) e
          omega)).1, hR3]
        exact upd_same _ _ _
      · rw [i3 j (by omega) (by omega), hR4]
        exact upd_other _ _ _ _ (fun e => hj (hinj j i (by omega) (by omega) e))
    · intro c hc
      obtain ⟨a1, a2⟩ := i4 c (fun j h1 h2 => hc j (by omega) (by omega))
      have hci := hc i (Nat.le_refl _) (by omega)
      refine ⟨?_, ?_⟩
      · rw [a1, hR3]; exact upd_other _ _ _ _ hci
      · rw [a2, hR4]; exact upd_other _ _ _ _ hci

theorem tune_free_loop_same (env : slab_env) (cachep : Nat) (new : Nat → Nat) :
    ∀ (k i : Nat) (s s' : kmem_state), tune_free_loop env cachep new k i s = some s' →
      state_same s s' ∧ limits_same s s' := by
  intro k
  induction k with
  | zero =>
    intro i s s' h
    rw [tune_free_loop] at h
    simp only [Option.some.injEq] at h
    rw [← h]; exact ⟨state_same_refl s, limits_same_refl s⟩
  | succ k ih =>
    intro i s s' h
    rw [tune_free_loop] at h
    by_cases hz : new (env.cpu_logical_map i) = 0
    · rw [if_pos hz] at h
      exact ih (i + 1) s s' h
    · rw [if_neg hz] at h
      cases hb : free_block env s cachep (s.cpucache (new (env.cpu_logical_map i))).entry
          ((s.cpucache (new (env.cpu_logical_map i))).avail % ULONG) with
      | none => rw [hb] at h; cases h
      | some s1 =>
        rw [hb] at h
        simp only [] at h
        cases hf : kfree env s1 (new (env.cpu_logical_map i)) with
        | none => rw [hf] at h; cases h
        | some s2 =>
          rw [hf] at h
          simp only [] at h
          obtain ⟨b1, b2⟩ := free_block_limits env s cachep _ _ s1 hb
          obtain ⟨f1, f2⟩ := kfree_limits env s1 _ s2 hf
          obtain ⟨g1, g2⟩ := ih (i + 1) s2 s' h
          exact ⟨state_same_trans _ _ _ (state_same_trans _ _ _ b1 f1) g1,
            limits_same_trans _ _ _
              (limits_same_trans _ _ _ (limits_same_of_eq _ _ b2) f2) g2⟩
theorem tune_installs (env : slab_env) (n : Nat) (s : kmem_state) (cachep : Nat)
    (limit batchcount : Int) (s' : kmem_state) (hl : 0 < limit)
    (hinj : ∀ a b, a < env.smp_num_cpus → b < env.smp_num_cpus →
      env.cpu_logical_map a = env.cpu_logical_map b → a = b)
    (h : kmem_tune_cpucache env n s cachep limit batchcount = some (s', 0)) :
    (s'.cache cachep).batchcount = batchcount.toNat ∧
    ∀ j, j < env.smp_num_cpus →
      (s'.cache cachep).cpudata (env.cpu_logical_map j) ≠ 0 ∧
      (s'.cpucache ((s'.cache cachep).cpudata (env.cpu_logical_map j))).limit =
        limit.toNat := by
  have hE : ¬ (-EINVAL = (0 : Int)) := by decide
  have hM : ¬ (-ENOMEM = (0 : Int)) := by decide
  unfold kmem_tune_cpucache at h
  by_cases h1 : limit < 0
  · rw [if_pos h1] at h
    simp only [Option.some.injEq, Prod.mk.injEq] at h
    exact absurd h.2 hE
  rw [if_neg h1] at h
  by_cases h2 : batchcount < 0
  · rw [if_pos h2] at h
    simp only [Option.some.injEq, Prod.mk.injEq] at h
    exact absurd h.2 hE
  rw [if_neg h2] at h
  by_cases h3 : batchcount > limit
  · rw [if_pos h3] at h
    simp only [Option.some.injEq, Prod.mk.injEq] at h
    exact absurd h.2 hE
  rw [if_neg h3] at h
  by_cases h4 : limit ≠ 0 ∧ batchcount = 0
  · rw [if_pos h4] at h
    simp only [Option.some.injEq, Prod.mk.injEq] at h
    exact absurd h.2 hE
  rw [if_neg h4] at h
  have hl0 : limit ≠ 0 := by omega
  rw [if_pos hl0] at h
  cases hta : tune_alloc_loop env n limit.toNat env.smp_num_cpus 0 (fun _ => 0) s with
  | none => rw [hta] at h; cases h
  | some r0 =>
    obtain ⟨s1, new, o⟩ := r0
    rw [hta] at h
    cases o with
    | some i =>
      simp only [] at h
      cases ho : tune_oom_loop env new i s1 with
      | none => rw [ho] at h; cases h
      | some s2 =>
        rw [ho] at h
        simp only [Option.some.injEq, Prod.mk.injEq] at h
        exact absurd h.2 hM
    | none =>
      simp only [] at h
      obtain ⟨S2, hS2⟩ : ∃ S2, S2 = { s1 with
          cache := upd s1.cache cachep
            { s1.cache cachep with batchcount := batchcount.toNat } } := ⟨_, rfl⟩
      rw [← hS2] at h
      obtain ⟨-, -, a3, -⟩ := tune_alloc_loop_inst env n limit.toNat env.smp_num_cpus 0
        (fun _ => 0) s s1 new (fun a b ha hb => hinj a b (by omega) (by omega)) hta
      obtain ⟨c1, c2, c3, -⟩ := smp_call_inst env cachep env.smp_num_cpus 0 (S2, new)
        (fun a b ha hb => hinj a b (by omega) (by omega))
      cases hfl : tune_free_loop env cachep
          (smp_call_function_all_cpus env cachep env.smp_num_cpus 0 (S2, new)).2
          env.smp_num_cpus 0
          (smp_call_function_all_cpus env cachep env.smp_num_cpus 0 (S2, new)).1 with
      | none => rw [hfl] at h; cases h
      | some s3 =>
        rw [hfl] at h
        simp only [Option.some.injEq, Prod.mk.injEq, and_true] at h
        obtain ⟨f1, f2⟩ := tune_free_loop_same env cachep _ _ _ _ _ hfl
        obtain ⟨e1, e2, -⟩ := cache_same_cpudata _ _ (f1 cachep)
        rw [← h]
        have hb : (S2.cache cachep).batchcount = batchcount.toNat := by
          rw [hS2]; simp only [upd_same]
        have hcp : S2.cpucache = s1.cpucache := by rw [hS2]
        refine ⟨by rw [e2, c2]; exact hb, ?_⟩
        intro j hj
        obtain ⟨n1, n2⟩ := a3 j (Nat.zero_le _) (by omega)
        have hcd := c3 j (Nat.zero_le _) (by omega)
        rw [e1, hcd]
        refine ⟨n1, ?_⟩
        rw [f2, c1]
        show (S2.cpucache (new (env.cpu_logical_map j))).limit = limit.toNat
        rw [hcp]; exact n2
theorem tune_result (env : slab_env) (n : Nat) (s : kmem_state) (cachep : Nat)
    (limit batchcount : Int) (s' : kmem_state) (r : Int)
    (h1 : ¬ limit < 0) (h2 : ¬ batchcount < 0) (h3 : ¬ batchcount > limit)
    (h4 : ¬ (limit ≠ 0 ∧ batchcount = 0))
    (h : kmem_tune_cpucache env n s cachep limit batchcount = some (s', r)) :
    r = 0 ∨ r = -ENOMEM := by
  unfold kmem_tune_cpucache at h
  rw [if_neg h1, if_neg h2, if_neg h3, if_neg h4] at h
  cases hta : (if limit ≠ 0 then
      tune_alloc_loop env n limit.toNat env.smp_num_cpus 0 (fun _ => 0) s
    else some (s, fun _ => 0, none)) with
  | none => rw [hta] at h; cases h
  | some r0 =>
    obtain ⟨s1, new, o⟩ := r0
    rw [hta] at h
    cases o with
    | some i =>
      simp only [] at h
      cases ho : tune_oom_loop env new i s1 with
      | none => rw [ho] at h; cases h
      | some s2 =>
        rw [ho] at h
        simp only [Option.some.injEq, Prod.mk.injEq] at h
        exact Or.inr h.2.symm
    | none =>
      simp only [] at h
      split at h
      · cases h
      · simp only [Option.some.injEq, Prod.mk.injEq] at h
        exact Or.inl h.2.symm

/-- C23. Default sizing of the per-CPU arrays by `enable_cpucache`, the
CPUs having distinct numbers.  For a cache whose objects are larger than a
page it returns without a change, so no array is installed.  Otherwise it is
the call of `kmem_tune_cpucache` with `limit = 60` for objects above 1024
bytes, `124` above 256 bytes and `252` otherwise, and `batchcount = limit / 2`,
which returns 0 or `-ENOMEM`; when it returns 0 the cache has
`batchcount = limit / 2` and every CPU has an array with this `limit`. -/
theorem enable_cpucache_sizing (env : slab_env) (n : Nat) (s : kmem_state) (cachep : Nat)
    (s' : kmem_state)
    (hinj : ∀ a b, a < env.smp_num_cpus → b < env.smp_num_cpus →
      env.cpu_logical_map a = env.cpu_logical_map b → a = b)
    (h : enable_cpucache env n s cachep = some s') :
    ((s.cache cachep).objsize > env.cfg.PAGE_SIZE → s' = s) ∧
    ((s.cache cachep).objsize ≤ env.cfg.PAGE_SIZE →
      ∃ (L : Nat) (r : Int),
        L = (if (s.cache cachep).objsize > 1024 then 60
          else if (s.cache cachep).objsize > 256 then 124 else 252) ∧
        kmem_tune_cpucache env n s cachep (L : Int) ((L : Int) / 2) = some (s', r) ∧
        (r = 0 ∨ r = -ENOMEM) ∧
        (r = 0 → (s'.cache cachep).batchcount = L / 2 ∧
          ∀ j, j < env.smp_num_cpus →
            (s'.cache cachep).cpudata (env.cpu_logical_map j) ≠ 0 ∧
            (s'.cpucache ((s'.cache cachep).cpudata (env.cpu_logical_map j))).limit = L)) := by
  unfold enable_cpucache at h
  refine ⟨?_, ?_⟩
  · intro hp
    rw [if_pos hp] at h
    simp only [Option.some.injEq] at h
    exact h.symm
  · intro hp
    rw [if_neg (by omega)] at h
    dsimp only at h
    obtain ⟨L, hL⟩ : ∃ L : Nat, L = (if (s.cache cachep).objsize > 1024 then 60
        else if (s.cache cachep).objsize > 256 then 124 else 252) := ⟨_, rfl⟩
    have hLi : (if (s.cache cachep).objsize > 1024 then (60 : Int)
        else if (s.cache cachep).objsize > 256 then 124 else 252) = (L : Int) := by
      rw [hL]
      split
      · rfl
      · split <;> rfl
    rw [hLi] at h
    have hLv : L = 60 ∨ L = 124 ∨ L = 252 := by
      rw [hL]
      split
      · exact Or.inl rfl
      · split
        · exact Or.inr (Or.inl rfl)
        · exact Or.inr (Or.inr rfl)
    cases ht : kmem_tune_cpucache env n s cachep (L : Int) ((L : Int) / 2) with
    | none => rw [ht] at h; cases h
    | some x =>
      obtain ⟨s1, r⟩ := x
      rw [ht] at h
      simp only [Option.some.injEq] at h
      rw [h] at ht
      refine ⟨L, r, hL, ht, ?_, ?_⟩
      · exact tune_result env n s cachep _ _ s' r (by omega) (by omega) (by omega) (by omega) ht
      · intro hr
        rw [hr] at ht
        obtain ⟨t1, t2⟩ := tune_installs env n s cachep _ _ s' (by omega) hinj ht
        refine ⟨?_, ?_⟩
        · rw [t1]; omega
        · intro j hj
          obtain ⟨u1, u2⟩ := t2 j hj
          exact ⟨u1, by rw [u2]; rfl⟩

set_option maxHeartbeats 1000000 in
/-- Witness for C23: the cache at `0xC0310100` of `kmem_state_ex8`, with
objects of 256 bytes, gets an array of 252 entries and `batchcount = 126`. -/
theorem enable_cpucache_sizing_witness :
    ∃ s', enable_cpucache slab_env_ex 2 kmem_state_ex8 0xC0310100 = some s' ∧
      (s'.cache 0xC0310100).batchcount = 126 ∧
      (s'.cache 0xC0310100).cpudata 0 ≠ 0 ∧
      (s'.cpucache ((s'.cache 0xC0310100).cpudata 0)).limit = 252 := by
  obtain ⟨s', h⟩ := Option.isSome_iff_exists.mp
    (show (enable_cpucache slab_env_ex 2 kmem_state_ex8 0xC0310100).isSome = true by decide)
  obtain ⟨L, r, hL, ht, -, hr⟩ := (enable_cpucache_sizing slab_env_ex 2 kmem_state_ex8
    0xC0310100 s' (fun a b ha hb _ => by
      have h1 : a < 1 := ha
      have h2 : b < 1 := hb
      omega) h).2 (by decide)
  have hL2 : L = 252 := by rw [hL]; decide
  rw [hL2] at ht hr
  have h0 : (kmem_tune_cpucache slab_env_ex 2 kmem_state_ex8 0xC0310100 252 126).map
      Prod.snd = some 0 := by decide
  have ht2 : kmem_tune_cpucache slab_env_ex 2 kmem_state_ex8 0xC0310100 252 126 =
      some (s', r) := ht
  rw [ht2] at h0
  simp only [Option.map_some', Option.some.injEq] at h0
  obtain ⟨b, c⟩ := hr h0
  exact ⟨s', h, b, (c 0 (by decide)).1, (c 0 (by decide)).2⟩

/-- Counterexample to C23 as stated: for the cache of 8192-byte objects of
`kmem_state_ex7` (pages of 4096 bytes), `enable_cpucache` returns with the
CPU's array pointer still NULL and `batchcount` still 0, and no memory was
requested. -/
theorem enable_cpucache_large_counterexample :
    (kmem_state_ex7.cache 0xC0312000).objsize = 8192 ∧
    (enable_cpucache slab_env_ex 2 kmem_state_ex7 0xC0312000).map
      (fun s' => ((s'.cache 0xC0312000).cpudata 0, (s'.cache 0xC0312000).batchcount,
        s'.getpages_calls)) = some (0, 0, 0) := by
  decide
/-! ## The buddy allocator: what `expand` and `rmqueue` leave behind -/

theorem expand_loop_step (m : Nat → page) (zid n : Nat) (zone : zone_t) (page index h : Nat)
    (hb : BAD_RANGE m zid zone page = false) :
    expand_loop m zid (n + 1) zone page index (h + 1) (h + 1) (2 ^ (h + 1)) =
      expand_loop m zid n
        (set_area zone h
          (MARK_USED index h
            { zone.free_area h with free_list := page :: (zone.free_area h).free_list }))
        (page + 2 ^ h) (index + 2 ^ h) h h (2 ^ h) := by
  have h2 := two_pow_succ_sub h
  have hs : (2 ^ (h + 1)) >>> 1 = 2 ^ h := by
    rw [Nat.shiftRight_eq_div_pow]; omega
  simp only [expand_loop, hb, Bool.false_eq_true, if_false, Nat.add_sub_cancel, hs]

theorem split_zone_area (zone : zone_t) (page index high n k : Nat) :
    (split_zone zone page index high n).free_area k =
      if high - n ≤ k ∧ k < high then
        { free_list := (page + 2 ^ high - 2 ^ (k + 1)) :: (zone.free_area k).free_list
          map := change_bit ((index + 2 ^ high - 2 ^ (k + 1)) >>> (1 + k))
            (zone.free_area k).map }
      else zone.free_area k := rfl

/-- C24. `expand(zone, page, index, low, high, area)` on a run of order `high`
that lies in the zone halves it `high - low` times (`rmqueue` calls it with
`low = order` and `high` the order of the block found).  One halving of the run
of order `h + 1` at `page` puts its lower half, which starts at `page`, at the
head of the free list of order `h`, toggles bit `index >> (1 + h)` of that
order, and goes on with the upper half at `page + 2^h`.  So the halving number
`i` leaves the lower half `page + 2^high - 2^(high - i)` of its run on list
`high - i - 1`, no other list changes, and the page returned is the uppermost
run `page + 2^high - 2^low`. -/
theorem expand_halves (m : Nat → page) (zid : Nat) (zone : zone_t)
    (page index low high : Nat) (hlh : low ≤ high)
    (hr : ∀ x, page ≤ x → x < page + 2 ^ high → BAD_RANGE m zid zone x = false) :
    (∀ n z pg ix h, BAD_RANGE m zid z pg = false →
      expand_loop m zid (n + 1) z pg ix (h + 1) (h + 1) (2 ^ (h + 1)) =
        expand_loop m zid n
          (set_area z h
            { free_list := pg :: (z.free_area h).free_list
              map := change_bit (ix >>> (1 + h)) (z.free_area h).map })
          (pg + 2 ^ h) (ix + 2 ^ h) h h (2 ^ h)) ∧
    ∃ z', expand m zid zone page index low high high =
        some (z', page + 2 ^ high - 2 ^ low) ∧
      expand_loop m zid (high - low) zone page index high high (2 ^ high) =
        some (z', page + 2 ^ high - 2 ^ low) ∧
      (∀ i, i < high - low →
        (z'.free_area (high - i - 1)).free_list =
          (page + 2 ^ high - 2 ^ (high - i)) :: (zone.free_area (high - i - 1)).free_list ∧
        (z'.free_area (high - i - 1)).map =
          change_bit ((index + 2 ^ high - 2 ^ (high - i)) >>> (high - i))
            (zone.free_area (high - i - 1)).map) ∧
      (∀ k, ¬ (low ≤ k ∧ k < high) → z'.free_area k = zone.free_area k) := by
  refine ⟨fun n z pg ix h hb => expand_loop_step m zid n z pg ix h hb, ?_⟩
  have he := expand_loop_eq m zid (high - low) zone page index high (by omega) hr
  have e : high - (high - low) = low := by omega
  rw [e] at he
  refine ⟨_, ?_, he, ?_, ?_⟩
  · unfold expand
    rw [Nat.one_shiftLeft]
    exact he
  · intro i hi
    rw [split_zone_area, if_pos (by omega)]
    have e1 : high - i - 1 + 1 = high - i := by omega
    have e2 : 1 + (high - i - 1) = high - i := by omega
    rw [e1, e2]
    exact ⟨rfl, rfl⟩
  · intro k hk
    rw [split_zone_area, if_neg (by omega)]

/-- Witness for C24: the order-3 block of `zone_ex` split for a request of
order 1: the lower halves 0 (order 2) and 4 (order 1) stay and page 6 is
returned. -/
theorem expand_halves_witness :
    ∃ z', expand machine_ex.mem_map 0 zone_ex 0 0 1 3 3 = some (z', 6) ∧
      (z'.free_area 2).free_list = [0] ∧ (z'.free_area 1).free_list = [4] := by
  obtain ⟨z', h1, -, h3, -⟩ := (expand_halves machine_ex.mem_map 0 zone_ex 0 0 1 3 (by decide)
    (by decide)).2
  exact ⟨z', h1, (h3 0 (by decide)).1, (h3 1 (by decide)).1⟩

/-- Counterexample to C24 as stated: in `machine_ex`, whose only free block is
the order-3 block of the pages 0..7, `rmqueue` of order 2 returns page 4, the
first page of the upper half, and leaves the lower half, page 0, on the list
of order 2. -/
theorem expand_lower_half_counterexample :
    (rmqueue machine_ex 0 2).map
      (fun r => (r.2, ((r.1.node_zones 0).free_area 2).free_list)) = some (some 4, [0]) := by
  decide
theorem zone_ex5_wf : zone_wf machine_ex5 0 where
  blocks := by unfold block_in_zone; decide
  nodup := by decide
  backptr := by decide
  clean := by decide
  valid := by decide
  word := by decide

theorem split_index_aligned_le (idx c k : Nat) (ha : idx % 2 ^ c = 0) (hk : k ≤ c) :
    (idx + 2 ^ c - 2 ^ k) % 2 ^ k = 0 := by
  rcases Nat.eq_zero_or_pos k with h0 | hpos
  · rw [h0]; simp [Nat.mod_one]
  · obtain ⟨k', rfl⟩ : ∃ k', k = k' + 1 := ⟨k - 1, by omega⟩
    exact split_index_aligned idx c k' ha (by omega)

/-- C39. `rmqueue(zone, k)` on a well-formed zone takes the block at the
head of the first non-empty list, of order `c ≥ k`; let `b` be its zone
index, a multiple of `2^c`.  The frame returned is the one at zone index
`b + 2^c - 2^k`, a multiple of `2^k`, and on every list `j` with `k ≤ j < c`
the run put there starts at zone index `b + 2^c - 2^(j+1)`, a multiple of
`2^j`. -/
theorem rmqueue_split_layout (s : machine) (zid k c p : Nat) (rest : List Nat)
    (hwf : zone_wf s zid) (hkc : k ≤ c) (hc : c < MAX_ORDER)
    (hnil : ∀ j, k ≤ j → j < c → ((s.node_zones zid).free_area j).free_list = [])
    (hl : ((s.node_zones zid).free_area c).free_list = p :: rest) :
    (s.node_zones zid).offset ≤ p ∧
    (p - (s.node_zones zid).offset) % 2 ^ c = 0 ∧
    ∃ s', rmqueue s zid k = some (s', some ((s.node_zones zid).offset +
        ((p - (s.node_zones zid).offset) + 2 ^ c - 2 ^ k))) ∧
      ((p - (s.node_zones zid).offset) + 2 ^ c - 2 ^ k) % 2 ^ k = 0 ∧
      ∀ j, k ≤ j → j < c →
        ((s'.node_zones zid).free_area j).free_list = [(s.node_zones zid).offset +
          ((p - (s.node_zones zid).offset) + 2 ^ c - 2 ^ (j + 1))] ∧
        ((p - (s.node_zones zid).offset) + 2 ^ c - 2 ^ (j + 1)) % 2 ^ j = 0 := by
  have hmem : p ∈ ((s.node_zones zid).free_area c).free_list := by rw [hl]; simp
  obtain ⟨hb1, -, hb3⟩ := hwf.blocks c hc p hmem
  have hf := rmqueue_found s zid k c p rest hwf hkc hc hnil hl
  have hpk : 2 ^ k ≤ 2 ^ c := Nat.pow_le_pow_right (by decide) hkc
  refine ⟨hb1, hb3, rmqueue_state s zid k c p rest, ?_,
    split_index_aligned_le _ c k hb3 hkc, ?_⟩
  · rw [hf]
    have e : p + 2 ^ c - 2 ^ k = (s.node_zones zid).offset +
        ((p - (s.node_zones zid).offset) + 2 ^ c - 2 ^ k) := by omega
    rw [e]
  · intro j hj1 hj2
    have hpj : 2 ^ (j + 1) ≤ 2 ^ c := Nat.pow_le_pow_right (by decide) (by omega)
    rw [rmqueue_state_zone, rmqueue_zone_free_list _ _ _ _ _ _ hkc, if_neg (by omega),
      if_pos ⟨hj1, hj2⟩, hnil j hj1 hj2]
    refine ⟨?_, mod_of_mod_succ _ _ (split_index_aligned _ c j hb3 hj2)⟩
    have e : p + 2 ^ c - 2 ^ (j + 1) = (s.node_zones zid).offset +
        ((p - (s.node_zones zid).offset) + 2 ^ c - 2 ^ (j + 1)) := by omega
    rw [e]

/-- Witness for C39: in `machine_ex5` a request of order 3 is served from
the order-5 block at 0 with page 24, and the runs at 16 (order 3) and 0
(order 4) stay. -/
theorem rmqueue_split_layout_witness :
    ∃ s', rmqueue machine_ex5 0 3 = some (s', some 24) ∧
      ((s'.node_zones 0).free_area 3).free_list = [16] ∧
      ((s'.node_zones 0).free_area 4).free_list = [0] := by
  obtain ⟨-, -, s', h1, -, h3⟩ := rmqueue_split_layout machine_ex5 0 3 5 0 [] zone_ex5_wf
    (by decide) (by decide) (by intro j h1 h2; interval_cases j <;> rfl) rfl
  exact ⟨s', h1, (h3 3 (by decide) (by decide)).1, (h3 4 (by decide) (by decide)).1⟩

/-- C27. `rmqueue(zone, k)` on a well-formed zone with the pair-bit
invariant, served from the block at the head of list `c > k` or `c = k`, the
lists of the orders `k..c-1` being empty: afterwards each of the lists
`k, ..., c-1` holds exactly one run, of whose pair the bit at that order was 0
and is 1; list `c` has lost its head; and the list of every other order is
what it was. -/
theorem rmqueue_split_lists (s : machine) (zid k c p : Nat) (rest : List Nat)
    (hwf : zone_wf s zid) (hpb : pair_bits_ok (s.node_zones zid) (MAX_ORDER - 1))
    (hkc : k ≤ c) (hc : c < MAX_ORDER)
    (hnil : ∀ j, k ≤ j → j < c → ((s.node_zones zid).free_area j).free_list = [])
    (hl : ((s.node_zones zid).free_area c).free_list = p :: rest) :
    ∃ s' page, rmqueue s zid k = some (s', some page) ∧
      (∀ j, k ≤ j → j < c →
        ∃ run, ((s'.node_zones zid).free_area j).free_list = [run] ∧
          (s.node_zones zid).offset ≤ run ∧
          test_bit ((run - (s.node_zones zid).offset) / 2 ^ (j + 1))
            ((s.node_zones zid).free_area j).map = false ∧
          test_bit ((run - (s.node_zones zid).offset) / 2 ^ (j + 1))
            ((s'.node_zones zid).free_area j).map = true) ∧
      ((s'.node_zones zid).free_area c).free_list = rest ∧
      (∀ j, ¬ (k ≤ j ∧ j ≤ c) →
        ((s'.node_zones zid).free_area j).free_list =
          ((s.node_zones zid).free_area j).free_list) := by
  have hU : ULONG = 4294967296 := rfl
  have hmem : p ∈ ((s.node_zones zid).free_area c).free_list := by rw [hl]; simp
  obtain ⟨hb1, hb2, hb3⟩ := hwf.blocks c hc p hmem
  have hv := hwf.valid
  have hw := hwf.word.1
  have hpc := Nat.two_pow_pos c
  have hf := rmqueue_found s zid k c p rest hwf hkc hc hnil hl
  have hmu : (p - (s.node_zones zid).offset) % ULONG = p - (s.node_zones zid).offset :=
    Nat.mod_eq_of_lt (by omega)
  refine ⟨_, _, hf, ?_, ?_, ?_⟩
  · intro j hj1 hj2
    have hpj : 2 ^ (j + 1) ≤ 2 ^ c := Nat.pow_le_pow_right (by decide) (by omega)
    have hpj0 := Nat.two_pow_pos (j + 1)
    refine ⟨p + 2 ^ c - 2 ^ (j + 1), ?_, by omega, ?_, ?_⟩
    · rw [rmqueue_state_zone, rmqueue_zone_free_list _ _ _ _ _ _ hkc, if_neg (by omega),
        if_pos ⟨hj1, hj2⟩, hnil j hj1 hj2]
    · exact pair_bit_clear_of_empty _ j _ (by omega) (hpb j (by omega)) (hnil j hj1 hj2)
    · rw [rmqueue_state_zone, rmqueue_zone_map _ _ _ _ _ _ hkc, if_neg (by omega),
        if_pos ⟨hj1, hj2⟩, test_bit_change_bit,
        pair_bit_clear_of_empty _ j _ (by omega) (hpb j (by omega)) (hnil j hj1 hj2), hmu,
        Nat.shiftRight_eq_div_pow]
      have e : p + 2 ^ c - 2 ^ (j + 1) - (s.node_zones zid).offset =
          p - (s.node_zones zid).offset + 2 ^ c - 2 ^ (j + 1) := by omega
      rw [e, Nat.add_comm 1 j]
      simp
  · rw [rmqueue_state_zone, rmqueue_zone_free_list _ _ _ _ _ _ hkc, if_pos rfl]
  · intro j hj
    rw [rmqueue_state_zone, rmqueue_zone_free_list _ _ _ _ _ _ hkc, if_neg (by omega),
      if_neg (by omega)]

/-- Witness for C27: order 3 taken from the lone order-5 run of `machine_ex5`
leaves one run of order 3 and one of order 4, and the other lists empty. -/
theorem rmqueue_split_lists_witness :
    ∃ s' page, rmqueue machine_ex5 0 3 = some (s', some page) ∧
      ((s'.node_zones 0).free_area 3).free_list.length = 1 ∧
      ((s'.node_zones 0).free_area 4).free_list.length = 1 ∧
      ((s'.node_zones 0).free_area 5).free_list = [] ∧
      ((s'.node_zones 0).free_area 2).free_list = [] := by
  obtain ⟨s', page, h1, h2, h3, h4⟩ := rmqueue_split_lists machine_ex5 0 3 5 0 [] zone_ex5_wf
    (by decide) (by decide) (by decide) (by intro j h1 h2; interval_cases j <;> rfl) rfl
  obtain ⟨r3, e3, -⟩ := h2 3 (by decide) (by decide)
  obtain ⟨r4, e4, -⟩ := h2 4 (by decide) (by decide)
  refine ⟨s', page, h1, by rw [e3]; rfl, by rw [e4]; rfl, h3, ?_⟩
  rw [h4 2 (by decide)]; rfl
/-! ## The buddy allocator: the closed form of a release -/

theorem block_of_div_ge (x a k : Nat) (h : a ≤ k + 1) :
    block_of x a / 2 ^ (k + 1) = x / 2 ^ (k + 1) := by
  unfold block_of
  obtain ⟨d, hd⟩ : ∃ d, k + 1 = a + d := ⟨k + 1 - a, by omega⟩
  have hp := Nat.two_pow_pos a
  have h1 : x - x % 2 ^ a = 2 ^ a * (x / 2 ^ a) := by
    have := Nat.div_add_mod x (2 ^ a); omega
  rw [h1, hd, pow_add, Nat.mul_div_mul_left _ _ hp, Nat.div_div_eq_div_mul]

theorem merge_zone_area (zone : zone_t) (idx j m k : Nat) :
    (merge_zone zone idx j m).free_area k =
      if j ≤ k ∧ k < m then
        { free_list := (zone.free_area k).free_list.erase
            (zone.offset + (block_of idx k ^^^ 2 ^ k))
          map := change_bit (idx / 2 ^ (k + 1)) (zone.free_area k).map }
      else if k = m then
        { free_list := (zone.offset + block_of idx m) :: (zone.free_area m).free_list
          map := if m < MAX_ORDER - 1 then change_bit (idx / 2 ^ (m + 1)) (zone.free_area m).map
            else (zone.free_area m).map }
      else zone.free_area k := rfl

theorem merge_zone_self (zone : zone_t) (idx j : Nat) (ha : idx % 2 ^ j = 0)
    (hj : j < MAX_ORDER - 1) :
    set_area zone j
      { free_list := (zone.offset + idx) :: (zone.free_area j).free_list
        map := change_bit (idx / 2 ^ (j + 1)) (zone.free_area j).map } =
      merge_zone zone idx j j := by
  apply zone_ext <;> try rfl
  intro k
  rw [merge_zone_area, if_neg (by omega)]
  by_cases hk : k = j
  · subst hk
    rw [if_pos rfl, if_pos hj, set_area_same, block_of_self idx k ha]
  · rw [if_neg hk, set_area_other _ _ _ _ hk]

theorem merge_zone_top (zone : zone_t) (idx : Nat) (ha : idx % 2 ^ (MAX_ORDER - 1) = 0) :
    set_area zone (MAX_ORDER - 1)
      { free_list := (zone.offset + idx) :: (zone.free_area (MAX_ORDER - 1)).free_list
        map := (zone.free_area (MAX_ORDER - 1)).map } =
      merge_zone zone idx (MAX_ORDER - 1) (MAX_ORDER - 1) := by
  apply zone_ext <;> try rfl
  intro k
  rw [merge_zone_area, if_neg (by omega)]
  by_cases hk : k = MAX_ORDER - 1
  · subst hk
    rw [if_pos rfl, if_neg (by omega), set_area_same, block_of_self idx _ ha]
  · rw [if_neg hk, set_area_other _ _ _ _ hk]

theorem merge_zone_step (zone : zone_t) (idx j m : Nat) (ha : idx % 2 ^ j = 0)
    (hjm : j + 1 ≤ m) :
    merge_zone
      (set_area zone j
        { free_list := (zone.free_area j).free_list.erase (zone.offset + (idx ^^^ 2 ^ j))
          map := change_bit (idx / 2 ^ (j + 1)) (zone.free_area j).map })
      (block_of idx (j + 1)) (j + 1) m = merge_zone zone idx j m := by
  apply zone_ext <;> try rfl
  intro k
  rw [merge_zone_area, merge_zone_area]
  by_cases hk : k = j
  · subst hk
    rw [if_neg (by omega), if_neg (by omega), if_pos ⟨Nat.le_refl _, by omega⟩, set_area_same,
      block_of_self idx k ha]
  · rw [set_area_offset]
    by_cases h1 : j + 1 ≤ k ∧ k < m
    · have h3 : j ≤ k ∧ k < m := ⟨Nat.le_of_succ_le h1.1, h1.2⟩
      rw [if_pos h1, if_pos h3, set_area_other _ _ _ _ hk,
        block_of_block_of _ _ _ h1.1, block_of_div_ge _ _ _ (Nat.le_succ_of_le h1.1)]
    · have h3 : ¬ (j ≤ k ∧ k < m) := fun h => h1 ⟨by have := h.1; omega, h.2⟩
      rw [if_neg h1, if_neg h3]
      by_cases h2 : k = m
      · rw [if_pos h2, if_pos h2, set_area_other _ _ _ _ (by omega),
          block_of_block_of _ _ _ hjm]
        obtain ⟨m', rfl⟩ : ∃ m', m = m' + 1 := ⟨m - 1, by omega⟩
        rw [block_of_div_ge _ _ _ (by omega)]
      · rw [if_neg h2, if_neg h2, set_area_other _ _ _ _ hk]
theorem free_loop_char (m : Nat → page) (zid : Nat) :
    ∀ (n : Nat) (zone : zone_t) (j idx index : Nat),
      j + n = MAX_ORDER → 0 < n → idx % 2 ^ j = 0 → idx < zone.size →
      zone.offset + zone.size < ULONG → index = idx / 2 ^ (j + 1) →
      (∀ k, j ≤ k → k < MAX_ORDER - 1 → pair_bit_ok zone k) →
      (∀ k, k < MAX_ORDER → j ≤ k →
        zone.offset + block_of idx k ∉ (zone.free_area k).free_list) →
      (∀ i, i < zone.size → (m (zone.offset + i)).zone = zid) →
      (∀ k, j ≤ k → k < MAX_ORDER → ∀ p ∈ (zone.free_area k).free_list,
        zone.offset ≤ p ∧ p < zone.offset + zone.size) →
      ∃ mo, j ≤ mo ∧ mo ≤ MAX_ORDER - 1 ∧
        (∀ k, j ≤ k → k < mo →
          test_bit (idx / 2 ^ (k + 1)) (zone.free_area k).map = true ∧
          zone.offset + (block_of idx k ^^^ 2 ^ k) ∈ (zone.free_area k).free_list) ∧
        (mo < MAX_ORDER - 1 →
          test_bit (idx / 2 ^ (mo + 1)) (zone.free_area mo).map = false) ∧
        free_loop m zid n zone (ULONG - 2 ^ j) j index idx =
          some (merge_zone zone idx j mo) := by
  intro n
  induction n with
  | zero =>
    intro zone j idx index _ hn
    exact absurd hn (Nat.lt_irrefl 0)
  | succ n ih =>
    intro zone j idx index hjn _ ha hs hu hidx hpb hnf hback hblk
    have hjm : j < MAX_ORDER := by omega
    by_cases hj9 : j = MAX_ORDER - 1
    · subst hj9
      refine ⟨MAX_ORDER - 1, Nat.le_refl _, Nat.le_refl _, ?_, ?_, ?_⟩
      · intro k h1 h2; omega
      · intro h; omega
      · rw [free_loop_exit, merge_zone_top zone idx ha]
    · have hj : j < MAX_ORDER - 1 := by omega
      cases hb : test_bit index (zone.free_area j).map with
      | false =>
        refine ⟨j, Nat.le_refl _, by omega, ?_, ?_, ?_⟩
        · intro k h1 h2; omega
        · intro _; rw [← hidx]; exact hb
        · rw [free_loop_break m zid _ zone j index idx hj hb, hidx,
            merge_zone_self zone idx j ha hj]
      | true =>
        have hself : zone.offset + idx ∉ (zone.free_area j).free_list := by
          have := hnf j hjm (le_refl _)
          rwa [block_of_self idx j ha] at this
        have hbud := buddy_on_list zone j idx ha hs (hpb j (le_refl _) hj)
          (by rw [← hidx]; exact hb) hself
        obtain ⟨hr1, hr2⟩ := hblk j (le_refl _) hjm _ hbud
        have hb1 : BAD_RANGE m zid zone (zone.offset + (idx ^^^ 2 ^ j)) = false := by
          apply BAD_RANGE_false _ _ _ _ _ hr1 hr2
          have := hback (idx ^^^ 2 ^ j) (by omega)
          exact this
        have hb2 : BAD_RANGE m zid zone (zone.offset + idx) = false :=
          BAD_RANGE_false _ _ _ _ (hback idx hs) (by omega) (by omega)
        have hU : ULONG = 4294967296 := rfl
        have hidxu : idx < ULONG := by omega
        have hbo : block_of idx (j + 1) ≤ idx := block_of_le _ _
        obtain ⟨mo, m1, m2, m3, m4, m5⟩ := ih
          (set_area zone j
            { free_list := (zone.free_area j).free_list.erase (zone.offset + (idx ^^^ 2 ^ j))
              map := change_bit index (zone.free_area j).map })
          (j + 1) (block_of idx (j + 1)) (index >>> 1) (by omega) (by omega)
          (block_of_mod _ _) (by rw [set_area_size]; omega)
          (by rw [set_area_offset, set_area_size]; exact hu)
          (by rw [block_of_div, hidx, Nat.shiftRight_eq_div_pow])
          (fun k h1 h2 => by
            intro i hi1 hi2
            have := hpb k (by omega) h2 i hi1 hi2
            rwa [set_area_other _ _ _ _ (by omega)])
          (fun k h1 h2 => by
            rw [block_of_block_of _ _ _ h2, set_area_other _ _ _ _ (by omega)]
            exact hnf k h1 (by omega))
          (fun i hi => hback i hi)
          (fun k h1 h2 p hp => by
            rw [set_area_other _ _ _ _ (by omega)] at hp
            exact hblk k (by omega) h2 p hp)
        refine ⟨mo, by omega, m2, ?_, ?_, ?_⟩
        · intro k h1 h2
          by_cases hkj : k = j
          · subst hkj
            rw [block_of_self idx k ha]
            exact ⟨by rw [← hidx]; exact hb, hbud⟩
          · obtain ⟨t1, t2⟩ := m3 k (by omega) h2
            rw [set_area_other _ _ _ _ hkj, block_of_div_ge _ _ _ (by omega)] at t1
            rw [set_area_other _ _ _ _ hkj, set_area_offset,
              block_of_block_of _ _ _ (by omega)] at t2
            exact ⟨t1, t2⟩
        · intro h
          have t := m4 h
          obtain ⟨mo', rfl⟩ : ∃ mo', mo = mo' + 1 := ⟨mo - 1, by omega⟩
          rw [set_area_other _ _ _ _ (by omega), block_of_div_ge _ _ _ (by omega)] at t
          exact t
        · rw [free_loop_merge m zid n zone j index idx hj hb]
          simp only [hb1, hb2, Bool.false_eq_true, if_false]
          rw [and_mask idx (j + 1) hidxu (by unfold MAX_ORDER at hjm; omega), m5, hidx,
            merge_zone_step zone idx j mo ha m1]
theorem zone_ex6_wf : zone_wf machine_ex6 0 where
  blocks := by unfold block_in_zone; decide
  nodup := by decide
  backptr := by decide
  clean := by decide
  valid := by decide
  word := by decide

theorem free_pages_ok_merge_zone (cfg : config) (s : machine) (zid page order : Nat)
    (ho : order < MAX_ORDER) (hwf : zone_wf s zid)
    (hpb : pair_bits_ok (s.node_zones zid) (MAX_ORDER - 1))
    (hz : (s.mem_map page).zone = zid) (hclean : page_clean (s.mem_map page) = true)
    (hlo : (s.node_zones zid).offset ≤ page)
    (hhi : page < (s.node_zones zid).offset + (s.node_zones zid).size)
    (ha : (page - (s.node_zones zid).offset) % 2 ^ order = 0)
    (hnf : not_free (s.node_zones zid) page order) :
    ∃ mo s', order ≤ mo ∧ mo ≤ MAX_ORDER - 1 ∧
      (∀ k, order ≤ k → k < mo →
        test_bit ((page - (s.node_zones zid).offset) / 2 ^ (k + 1))
          ((s.node_zones zid).free_area k).map = true ∧
        (s.node_zones zid).offset + (block_of (page - (s.node_zones zid).offset) k ^^^ 2 ^ k) ∈
          ((s.node_zones zid).free_area k).free_list) ∧
      (mo < MAX_ORDER - 1 →
        test_bit ((page - (s.node_zones zid).offset) / 2 ^ (mo + 1))
          ((s.node_zones zid).free_area mo).map = false) ∧
      __free_pages_ok cfg s page order = some s' ∧
      ∀ k, (s'.node_zones zid).free_area k =
        (merge_zone (s.node_zones zid) (page - (s.node_zones zid).offset) order mo).free_area
          k := by
  have hv := hwf.valid
  obtain ⟨hw1, hw2⟩ := hwf.word
  obtain ⟨mo, m1, m2, m3, m4, m5⟩ := free_loop_char s.mem_map zid (MAX_ORDER - order)
    { s.node_zones zid with
      free_pages := ((s.node_zones zid).free_pages + ULONG - (ULONG - 2 ^ order)) % ULONG }
    order (page - (s.node_zones zid).offset)
    ((page - (s.node_zones zid).offset) >>> (1 + order))
    (by omega) (by omega) ha
    (show page - (s.node_zones zid).offset < (s.node_zones zid).size by omega)
    (show (s.node_zones zid).offset + (s.node_zones zid).size < ULONG by omega)
    (by rw [Nat.shiftRight_eq_div_pow, Nat.add_comm])
    (fun k _ h2 => hpb k h2) hnf (fun i hi => hwf.backptr i hi)
    (fun k _ h2 p hp => by
      obtain ⟨b1, b2, -⟩ := hwf.blocks k h2 p hp
      have := Nat.two_pow_pos k
      exact ⟨b1, show p < (s.node_zones zid).offset + (s.node_zones zid).size by omega⟩)
  have heq := free_pages_ok_eq cfg s page order _ ho hclean (by omega)
    (by rw [hz]; exact ha) (by rw [hz]; exact m5)
  refine ⟨mo, _, m1, m2, m3, m4, heq, ?_⟩
  intro k
  have e : ∀ (z : zone_t), Function.update s.node_zones (s.mem_map page).zone z zid = z := by
    intro z
    rw [hz]
    exact Function.update_same _ _ _
  show (Function.update s.node_zones (s.mem_map page).zone _ zid).free_area k = _
  rw [e]
  rfl

/-- C25. `__free_pages_ok(page, order)` for a page of a well-formed zone
with the pair-bit invariant, whose zone index `idx` is a multiple of
`2^order`, whose descriptor passes the checks and whose run is not free
already.  Let `m` be the smallest order `≥ order` at which the bit of the pair
of the block that contains `idx` is 0, or `MAX_ORDER - 1` if there is none
below it.  The call returns, one block has been added: the block of order `m`
that starts at `idx` with its low `m` bits cleared is at the head of list `m`;
at every order `j` in `[order, m)` the buddy, at index (`idx` with its low `j`
bits cleared) XOR `2^j`, was on list `j` and has been unlinked, and the bit of
the pair is 0 now; the bit at order `m` is 1 now when `m < MAX_ORDER - 1` and
the bitmap of order `m` is untouched otherwise; the other orders are
unchanged. -/
theorem free_pages_ok_merges (cfg : config) (s : machine) (zid page order : Nat)
    (ho : order < MAX_ORDER) (hwf : zone_wf s zid)
    (hpb : pair_bits_ok (s.node_zones zid) (MAX_ORDER - 1))
    (hz : (s.mem_map page).zone = zid) (hclean : page_clean (s.mem_map page) = true)
    (hlo : (s.node_zones zid).offset ≤ page)
    (hhi : page < (s.node_zones zid).offset + (s.node_zones zid).size)
    (ha : (page - (s.node_zones zid).offset) % 2 ^ order = 0)
    (hnf : not_free (s.node_zones zid) page order) :
    ∃ mo s', order ≤ mo ∧ mo ≤ MAX_ORDER - 1 ∧
      (∀ k, order ≤ k → k < mo →
        test_bit ((page - (s.node_zones zid).offset) / 2 ^ (k + 1))
          ((s.node_zones zid).free_area k).map = true) ∧
      (mo < MAX_ORDER - 1 →
        test_bit ((page - (s.node_zones zid).offset) / 2 ^ (mo + 1))
          ((s.node_zones zid).free_area mo).map = false) ∧
      __free_pages_ok cfg s page order = some s' ∧
      ((s'.node_zones zid).free_area mo).free_list =
        ((s.node_zones zid).offset + block_of (page - (s.node_zones zid).offset) mo) ::
          ((s.node_zones zid).free_area mo).free_list ∧
      (∀ k, order ≤ k → k < mo →
        (s.node_zones zid).offset + (block_of (page - (s.node_zones zid).offset) k ^^^ 2 ^ k) ∈
          ((s.node_zones zid).free_area k).free_list ∧
        ((s'.node_zones zid).free_area k).free_list =
          ((s.node_zones zid).free_area k).free_list.erase
            ((s.node_zones zid).offset +
              (block_of (page - (s.node_zones zid).offset) k ^^^ 2 ^ k)) ∧
        test_bit ((page - (s.node_zones zid).offset) / 2 ^ (k + 1))
          ((s'.node_zones zid).free_area k).map = false) ∧
      (mo < MAX_ORDER - 1 →
        test_bit ((page - (s.node_zones zid).offset) / 2 ^ (mo + 1))
          ((s'.node_zones zid).free_area mo).map = true) ∧
      (mo = MAX_ORDER - 1 →
        ((s'.node_zones zid).free_area mo).map = ((s.node_zones zid).free_area mo).map) ∧
      (∀ k, ¬ (order ≤ k ∧ k ≤ mo) →
        (s'.node_zones zid).free_area k = (s.node_zones zid).free_area k) := by
  obtain ⟨mo, s', m1, m2, m3, m4, m5, m6⟩ := free_pages_ok_merge_zone cfg s zid page order ho
    hwf hpb hz hclean hlo hhi ha hnf
  refine ⟨mo, s', m1, m2, fun k h1 h2 => (m3 k h1 h2).1, m4, m5, ?_, ?_, ?_, ?_, ?_⟩
  · rw [m6, merge_zone_area, if_neg (by omega), if_pos rfl]
  · intro k h1 h2
    obtain ⟨t1, t2⟩ := m3 k h1 h2
    refine ⟨t2, ?_, ?_⟩
    · rw [m6, merge_zone_area, if_pos ⟨h1, h2⟩]
    · rw [m6, merge_zone_area, if_pos ⟨h1, h2⟩]
      show test_bit _ (change_bit _ _) = false
      rw [test_bit_change_bit, t1]
      simp
  · intro h
    rw [m6, merge_zone_area, if_neg (by omega), if_pos rfl, if_pos h]
    show test_bit _ (change_bit _ _) = true
    rw [test_bit_change_bit, m4 h]
    simp
  · intro h
    rw [m6, merge_zone_area, if_neg (by omega), if_pos rfl, if_neg (by omega)]
  · intro k hk
    rw [m6, merge_zone_area, if_neg (fun h => hk ⟨h.1, Nat.le_of_lt h.2⟩),
      if_neg (fun h => hk ⟨by omega, by omega⟩)]

/-- Witness for C25: page 0 of `machine_ex6` released at order 0 ends as
the order-2 block at page 0. -/
theorem free_pages_ok_merges_witness :
    ∃ mo s', __free_pages_ok config_ex machine_ex6 0 0 = some s' ∧
      ((s'.node_zones 0).free_area mo).free_list =
        (0 + block_of (0 - 0) mo) :: ((machine_ex6.node_zones 0).free_area mo).free_list := by
  obtain ⟨mo, s', -, -, -, -, h1, h2, -⟩ := free_pages_ok_merges config_ex machine_ex6 0 0 0
    (by decide) zone_ex6_wf (by decide) (by decide) (by decide) (by decide) (by decide)
    (by decide) (by decide)
  exact ⟨mo, s', h1, h2⟩
theorem pair_bit_value (z : zone_t) (k x : Nat) (hx : x % 2 ^ k = 0) (hs : x < z.size)
    (hp : pair_bit_ok z k) :
    test_bit (x / 2 ^ (k + 1)) (z.free_area k).map =
      xor (decide (z.offset + x ∈ (z.free_area k).free_list))
        (decide (z.offset + (x ^^^ 2 ^ k) ∈ (z.free_area k).free_list)) := by
  have hpos := Nat.two_pow_pos (k + 1)
  have hle : x / 2 ^ (k + 1) * 2 ^ (k + 1) ≤ x := Nat.div_mul_le_self _ _
  have hi : x / 2 ^ (k + 1) < z.size := by
    have : x / 2 ^ (k + 1) ≤ x := Nat.div_le_self _ _
    omega
  have hpb := hp (x / 2 ^ (k + 1)) hi (by omega)
  rcases pair_split x k hx with ⟨he, _⟩ | ⟨he, _⟩
  · have hxx : x ^^^ 2 ^ k = (2 * (x / 2 ^ (k + 1)) + 1) * 2 ^ k := by
      conv_lhs => rw [he]
      exact xor_pow_even _ _
    rw [hxx, hpb, ← he]
  · have hxx : x ^^^ 2 ^ k = (2 * (x / 2 ^ (k + 1))) * 2 ^ k := by
      conv_lhs => rw [he]
      exact xor_pow_odd _ _
    rw [hxx, hpb, ← he, Bool.xor_comm]

/-- C26. `__free_pages_ok` of an order-0 page of a well-formed zone with
the pair-bit invariant, the page not being free already, whose order-0 buddy
is on list 0 and whose order-1 buddy is on list 1 while the order-2 buddy is
not on list 2: the call returns after two merges; the order-2 block that
contains the page is at the head of list 2, both buddies are off their lists
and neither the page nor its order-1 block is on a list; the pair bits of the
orders 0 and 1 are 0 and the pair bit of order 2 is 1. -/
theorem free_double_merge (cfg : config) (s : machine) (zid page : Nat)
    (hwf : zone_wf s zid) (hpb : pair_bits_ok (s.node_zones zid) (MAX_ORDER - 1))
    (hz : (s.mem_map page).zone = zid) (hclean : page_clean (s.mem_map page) = true)
    (hlo : (s.node_zones zid).offset ≤ page)
    (hhi : page < (s.node_zones zid).offset + (s.node_zones zid).size)
    (hnf : not_free (s.node_zones zid) page 0)
    (hb0 : (s.node_zones zid).offset + ((page - (s.node_zones zid).offset) ^^^ 2 ^ 0) ∈
      ((s.node_zones zid).free_area 0).free_list)
    (hb1 : (s.node_zones zid).offset +
      (block_of (page - (s.node_zones zid).offset) 1 ^^^ 2 ^ 1) ∈
        ((s.node_zones zid).free_area 1).free_list)
    (hb2 : (s.node_zones zid).offset +
      (block_of (page - (s.node_zones zid).offset) 2 ^^^ 2 ^ 2) ∉
        ((s.node_zones zid).free_area 2).free_list) :
    ∃ s', __free_pages_ok cfg s page 0 = some s' ∧
      ((s'.node_zones zid).free_area 2).free_list =
        ((s.node_zones zid).offset + block_of (page - (s.node_zones zid).offset) 2) ::
          ((s.node_zones zid).free_area 2).free_list ∧
      ((s'.node_zones zid).free_area 0).free_list =
        ((s.node_zones zid).free_area 0).free_list.erase
          ((s.node_zones zid).offset + ((page - (s.node_zones zid).offset) ^^^ 2 ^ 0)) ∧
      ((s'.node_zones zid).free_area 1).free_list =
        ((s.node_zones zid).free_area 1).free_list.erase
          ((s.node_zones zid).offset +
            (block_of (page - (s.node_zones zid).offset) 1 ^^^ 2 ^ 1)) ∧
      (s.node_zones zid).offset + ((page - (s.node_zones zid).offset) ^^^ 2 ^ 0) ∉
        ((s'.node_zones zid).free_area 0).free_list ∧
      page ∉ ((s'.node_zones zid).free_area 0).free_list ∧
      (s.node_zones zid).offset + (block_of (page - (s.node_zones zid).offset) 1 ^^^ 2 ^ 1) ∉
        ((s'.node_zones zid).free_area 1).free_list ∧
      (s.node_zones zid).offset + block_of (page - (s.node_zones zid).offset) 1 ∉
        ((s'.node_zones zid).free_area 1).free_list ∧
      test_bit ((page - (s.node_zones zid).offset) / 2 ^ 1)
        ((s'.node_zones zid).free_area 0).map = false ∧
      test_bit ((page - (s.node_zones zid).offset) / 2 ^ 2)
        ((s'.node_zones zid).free_area 1).map = false ∧
      test_bit ((page - (s.node_zones zid).offset) / 2 ^ 3)
        ((s'.node_zones zid).free_area 2).map = true := by
  have hM : MAX_ORDER = 10 := rfl
  have hs : page - (s.node_zones zid).offset < (s.node_zones zid).size := by omega
  have hbo := block_of_le (page - (s.node_zones zid).offset) 2
  obtain ⟨mo, s', m1, m2, m3, m4, m5, m6⟩ := free_pages_ok_merge_zone cfg s zid page 0
    (by decide) hwf hpb hz hclean hlo hhi (by simp [Nat.mod_one]) hnf
  have hself2 := hnf 2 (by decide) (by decide)
  have hself1 := hnf 1 (by decide) (by decide)
  have hself0 := hnf 0 (by decide) (by decide)
  rw [block_of_self _ 0 (by simp [Nat.mod_one])] at hself0
  have hbo1 := block_of_le (page - (s.node_zones zid).offset) 1
  have v0 := pair_bit_value (s.node_zones zid) 0 (page - (s.node_zones zid).offset)
    (by simp [Nat.mod_one]) hs (hpb 0 (by decide))
  have v1 := pair_bit_value (s.node_zones zid) 1
    (block_of (page - (s.node_zones zid).offset) 1) (block_of_mod _ 1) (by omega)
    (hpb 1 (by decide))
  have v2 := pair_bit_value (s.node_zones zid) 2
    (block_of (page - (s.node_zones zid).offset) 2) (block_of_mod _ 2) (by omega)
    (hpb 2 (by decide))
  rw [block_of_div_ge _ _ _ (by decide)] at v1 v2
  rw [decide_eq_false hself0, decide_eq_true hb0] at v0
  rw [decide_eq_false hself1, decide_eq_true hb1] at v1
  rw [decide_eq_false hself2, decide_eq_false hb2] at v2
  have hbit2 : test_bit ((page - (s.node_zones zid).offset) / 2 ^ 3)
      ((s.node_zones zid).free_area 2).map = false := v2
  have hmo : mo = 2 := by
    by_cases h0 : mo = 0
    · have t := m4 (by omega)
      rw [h0] at t
      rw [t] at v0
      exact absurd v0 (by decide)
    · by_cases h1 : mo = 1
      · have t := m4 (by omega)
        rw [h1] at t
        rw [t] at v1
        exact absurd v1 (by decide)
      · by_cases h3 : 2 < mo
        · have t := (m3 2 (by decide) h3).1
          rw [hbit2] at t
          cases t
        · omega
  subst hmo
  have hnd0 := hwf.nodup 0 (by decide)
  have hnd1 := hwf.nodup 1 (by decide)
  rw [Nat.add_sub_cancel' hlo] at hself0
  have e0 : ((s'.node_zones zid).free_area 0).free_list =
      ((s.node_zones zid).free_area 0).free_list.erase
        ((s.node_zones zid).offset + ((page - (s.node_zones zid).offset) ^^^ 2 ^ 0)) := by
    rw [m6, merge_zone_area, if_pos (by decide),
      block_of_self _ 0 (by simp [Nat.mod_one])]
  have e1 : ((s'.node_zones zid).free_area 1).free_list =
      ((s.node_zones zid).free_area 1).free_list.erase
        ((s.node_zones zid).offset +
          (block_of (page - (s.node_zones zid).offset) 1 ^^^ 2 ^ 1)) := by
    rw [m6, merge_zone_area, if_pos (by decide)]
  refine ⟨s', m5, ?_, e0, e1, ?_, ?_, ?_, ?_, ?_, ?_, ?_⟩
  · rw [m6, merge_zone_area, if_neg (by decide), if_pos rfl]
  · rw [e0]; exact fun h => (List.Nodup.mem_erase_iff hnd0).mp h |>.1 rfl
  · rw [e0]; exact fun h => hself0 (List.mem_of_mem_erase h)
  · rw [e1]; exact fun h => (List.Nodup.mem_erase_iff hnd1).mp h |>.1 rfl
  · rw [e1]; exact fun h => hself1 (List.mem_of_mem_erase h)
  · rw [m6, merge_zone_area, if_pos (by decide)]
    show test_bit _ (change_bit _ _) = false
    rw [test_bit_change_bit, (m3 0 (by decide) (by decide)).1]
    simp
  · rw [m6, merge_zone_area, if_pos (by decide)]
    show test_bit _ (change_bit _ _) = false
    rw [test_bit_change_bit, (m3 1 (by decide) (by decide)).1]
    simp
  · rw [m6, merge_zone_area, if_neg (by decide), if_pos rfl, if_pos (by decide)]
    show test_bit _ (change_bit _ _) = true
    rw [test_bit_change_bit, hbit2]
    simp

/-- Witness for C26: page 0 of `machine_ex6`. -/
theorem free_double_merge_witness :
    ∃ s', __free_pages_ok config_ex machine_ex6 0 0 = some s' ∧
      ((s'.node_zones 0).free_area 2).free_list = [0] ∧
      ((s'.node_zones 0).free_area 0).free_list = [] ∧
      ((s'.node_zones 0).free_area 1).free_list = [] := by
  obtain ⟨s', h1, h2, h3, h4, -⟩ := free_double_merge config_ex machine_ex6 0 0 zone_ex6_wf
    (by decide) (by decide) (by decide) (by decide) (by decide) (by decide) (by decide)
    (by decide) (by decide)
  exact ⟨s', h1, h2, h3, h4⟩

/-- Counterexample to C26 as stated: page 0 of `machine_ex6` is released at
order 0 while page 1 (its order-0 buddy) and the pages 2..3 (its order-1
buddy) are free and the pages 4..7 are not.  The lists of the orders 0 and 1
end up empty and list 2 holds the block at page 0; bit 0 of the bitmaps of
the orders 0 and 1 is 0, but bit 0 of the bitmap of order 2 is 1. -/
theorem free_double_merge_bit_counterexample :
    (__free_pages_ok config_ex machine_ex6 0 0).map
      (fun s' => (((s'.node_zones 0).free_area 0).free_list,
        ((s'.node_zones 0).free_area 1).free_list, ((s'.node_zones 0).free_area 2).free_list,
        test_bit 0 ((s'.node_zones 0).free_area 0).map,
        test_bit 0 ((s'.node_zones 0).free_area 1).map,
        test_bit 0 ((s'.node_zones 0).free_area 2).map)) =
      some ([], [], [0], false, false, true) := by
  decide
/-! ## The final phase of `__alloc_pages` -/

theorem final_scan_general (order : Nat) (pf dr : Bool)
    (rp : machine → Nat → machine × Option Nat) :
    ∀ (zones : List (Option Nat)) (s s' : machine) (r : Option Nat) (log : List final_event),
      alloc_pages_final_scan order pf dr rp zones s = some (s', r, log) →
      (pf = true → ∀ e ∈ log, e ≠ final_event.skipped e.zone) ∧
      (r = none → log.map (fun e => some e.zone) = zones.takeWhile Option.isSome ∧
        ∀ e ∈ log, e = final_event.skipped e.zone ∨ e = final_event.tried e.zone) := by
  intro zones
  induction zones with
  | nil =>
    intro s s' r log h
    rw [alloc_pages_final_scan] at h
    simp only [Option.some.injEq, Prod.mk.injEq] at h
    obtain ⟨-, -, h3⟩ := h
    rw [← h3]
    exact ⟨fun _ e he => absurd he (List.not_mem_nil e), fun _ => ⟨rfl, fun e he =>
      absurd he (List.not_mem_nil e)⟩⟩
  | cons z0 rest ih =>
    intro s s' r log h
    cases z0 with
    | none =>
      rw [alloc_pages_final_scan] at h
      simp only [Option.some.injEq, Prod.mk.injEq] at h
      obtain ⟨-, -, h3⟩ := h
      rw [← h3]
      exact ⟨fun _ e he => absurd he (List.not_mem_nil e), fun _ => ⟨rfl, fun e he =>
        absurd he (List.not_mem_nil e)⟩⟩
    | some z =>
      rw [alloc_pages_final_scan] at h
      by_cases hsz : (s.node_zones z).size = 0
      · rw [if_pos hsz] at h; cases h
      rw [if_neg hsz] at h
      dsimp only at h
      obtain ⟨R, hR⟩ : ∃ R, R = (if dr = true then rp s z else (s, none)) := ⟨_, rfl⟩
      rw [← hR] at h
      cases hr2 : R.2 with
      | some page =>
        rw [hr2] at h
        simp only [Option.some.injEq, Prod.mk.injEq] at h
        obtain ⟨-, h2, h3⟩ := h
        rw [← h3, ← h2]
        refine ⟨fun _ e he => ?_, fun hn => by cases hn⟩
        rw [List.mem_singleton] at he
        rw [he]
        exact fun hc => by cases hc
      | none =>
        rw [hr2] at h
        simp only [] at h
        by_cases hskip : (R.1.node_zones z).free_pages < (R.1.node_zones z).pages_min / 4 ∧
            pf = false
        · rw [if_pos hskip] at h
          cases hrec : alloc_pages_final_scan order pf dr rp rest R.1 with
          | none => rw [hrec] at h; cases h
          | some x =>
            obtain ⟨s2, r2, log2⟩ := x
            rw [hrec] at h
            simp only [Option.some.injEq, Prod.mk.injEq] at h
            obtain ⟨-, h2, h3⟩ := h
            obtain ⟨i1, i2⟩ := ih R.1 s2 r2 log2 hrec
            rw [← h3, ← h2]
            refine ⟨fun hp => ?_, fun hn => ?_⟩
            · rw [hskip.2] at hp; cases hp
            · obtain ⟨j1, j2⟩ := i2 hn
              refine ⟨?_, ?_⟩
              · rw [List.map_cons, j1]; rfl
              · intro e he
                rcases List.mem_cons.mp he with he | he
                · rw [he]; exact Or.inl rfl
                · exact j2 e he
        · rw [if_neg hskip] at h
          cases hrm : rmqueue R.1 z order with
          | none => rw [hrm] at h; cases h
          | some y =>
            obtain ⟨s1, r1⟩ := y
            rw [hrm] at h
            cases r1 with
            | some page =>
              simp only [Option.some.injEq, Prod.mk.injEq] at h
              obtain ⟨-, h2, h3⟩ := h
              rw [← h3, ← h2]
              refine ⟨fun _ e he => ?_, fun hn => by cases hn⟩
              rw [List.mem_singleton] at he
              rw [he]
              exact fun hc => by cases hc
            | none =>
              simp only [] at h
              cases hrec : alloc_pages_final_scan order pf dr rp rest s1 with
              | none => rw [hrec] at h; cases h
              | some x =>
                obtain ⟨s2, r2, log2⟩ := x
                rw [hrec] at h
                simp only [Option.some.injEq, Prod.mk.injEq] at h
                obtain ⟨-, h2, h3⟩ := h
                obtain ⟨i1, i2⟩ := ih s1 s2 r2 log2 hrec
                rw [← h3, ← h2]
                refine ⟨fun hp e he => ?_, fun hn => ?_⟩
                · rcases List.mem_cons.mp he with he | he
                  · rw [he]; exact fun hc => by cases hc
                  · exact i1 hp e he
                · obtain ⟨j1, j2⟩ := i2 hn
                  refine ⟨?_, ?_⟩
                  · rw [List.map_cons, j1]; rfl
                  · intro e he
                    rcases List.mem_cons.mp he with he | he
                    · rw [he]; exact Or.inr rfl
                    · exact j2 e he
theorem final_scan_plain (order : Nat) (pf : Bool)
    (rp : machine → Nat → machine × Option Nat) (s : machine) (ho : order < MAX_ORDER) :
    ∀ (zones : List (Option Nat)),
      (∀ z, some z ∈ zones → zone_wf s z ∧ (s.node_zones z).size ≠ 0) →
      ∃ s' r log, alloc_pages_final_scan order pf false rp zones s = some (s', r, log) ∧
        (log.map (fun e => some e.zone)) <+: zones ∧
        (∀ e ∈ log, (e = final_event.skipped e.zone ↔
          ((s.node_zones e.zone).free_pages < (s.node_zones e.zone).pages_min / 4 ∧
            pf = false)) ∧
          (e = final_event.tried e.zone ↔
            ¬ ((s.node_zones e.zone).free_pages < (s.node_zones e.zone).pages_min / 4 ∧
              pf = false))) ∧
        (∀ page, r = some page → ∃ pre z, log = pre ++ [final_event.tried z] ∧
          rmqueue s z order = some (s', some page) ∧
          ∀ e ∈ pre, e = final_event.tried e.zone → rmqueue s e.zone order = some (s, none)) ∧
        (r = none → s' = s ∧
          ∀ e ∈ log, e = final_event.tried e.zone →
            rmqueue s e.zone order = some (s, none)) := by
  intro zones
  induction zones with
  | nil =>
    intro _
    refine ⟨s, none, [], rfl, List.nil_prefix, fun e he => absurd he (List.not_mem_nil e),
      fun page hp => (by cases hp), fun _ => ⟨rfl, fun e he => absurd he (List.not_mem_nil e)⟩⟩
  | cons z0 rest ih =>
    intro hz
    cases z0 with
    | none =>
      refine ⟨s, none, [], rfl, List.nil_prefix, fun e he => absurd he (List.not_mem_nil e),
        fun page hp => (by cases hp), fun _ => ⟨rfl, fun e he => absurd he (List.not_mem_nil e)⟩⟩
    | some z =>
      obtain ⟨hwf, hsize⟩ := hz z (List.mem_cons_self _ _)
      have hrest : ∀ z, some z ∈ rest → zone_wf s z ∧ (s.node_zones z).size ≠ 0 :=
        fun z' h' => hz z' (List.mem_cons_of_mem _ h')
      obtain ⟨s2, r2, log2, hrec, i1, i2, i3, i4⟩ := ih hrest
      rw [alloc_pages_final_scan]
      rw [if_neg hsize]
      dsimp only
      rw [if_neg (by decide)]
      dsimp only
      by_cases hskip : (s.node_zones z).free_pages < (s.node_zones z).pages_min / 4 ∧ pf = false
      · rw [if_pos hskip, hrec]
        refine ⟨s2, r2, final_event.skipped z :: log2, rfl, ?_, ?_, ?_, ?_⟩
        · rw [List.map_cons]
          exact List.prefix_cons_inj _ |>.mpr i1
        · intro e he
          rcases List.mem_cons.mp he with he | he
          · rw [he]
            exact ⟨⟨fun _ => hskip, fun _ => rfl⟩, ⟨fun hc => (by cases hc), fun hc => absurd hskip hc⟩⟩
          · exact i2 e he
        · intro page hp
          obtain ⟨pre, z', e1, e2, e3⟩ := i3 page hp
          refine ⟨final_event.skipped z :: pre, z', by rw [e1]; rfl, e2, ?_⟩
          intro e he ht
          rcases List.mem_cons.mp he with he | he
          · rw [he] at ht; cases ht
          · exact e3 e he ht
        · intro hn
          obtain ⟨j1, j2⟩ := i4 hn
          refine ⟨j1, ?_⟩
          intro e he ht
          rcases List.mem_cons.mp he with he | he
          · rw [he] at ht; cases ht
          · exact j2 e he ht
      · rw [if_neg hskip]
        obtain ⟨x, hx⟩ := rmqueue_total s z order ho hwf
        obtain ⟨s1, r1⟩ := x
        rw [hx]
        cases r1 with
        | some page =>
          refine ⟨s1, some page, [final_event.tried z], rfl, ?_, ?_, ?_, ?_⟩
          · exact List.prefix_cons_inj _ |>.mpr List.nil_prefix
          · intro e he
            rw [List.mem_singleton] at he
            rw [he]
            exact ⟨⟨fun hc => (by cases hc), fun hc => absurd hc hskip⟩, ⟨fun _ => hskip, fun _ => rfl⟩⟩
          · intro page' hp
            simp only [Option.some.injEq] at hp
            rw [← hp]
            exact ⟨[], z, rfl, hx, fun e he => absurd he (List.not_mem_nil e)⟩
          · intro hn; cases hn
        | none =>
          have hs1 := rmqueue_null_state s z order s1 hx
          subst hs1
          dsimp only
          rw [hrec]
          refine ⟨s2, r2, final_event.tried z :: log2, rfl, ?_, ?_, ?_, ?_⟩
          · rw [List.map_cons]
            exact List.prefix_cons_inj _ |>.mpr i1
          · intro e he
            rcases List.mem_cons.mp he with he | he
            · rw [he]
              exact ⟨⟨fun hc => (by cases hc), fun hc => absurd hc hskip⟩,
                ⟨fun _ => hskip, fun _ => rfl⟩⟩
            · exact i2 e he
          · intro page hp
            obtain ⟨pre, z', e1, e2, e3⟩ := i3 page hp
            refine ⟨final_event.tried z :: pre, z', by rw [e1]; rfl, e2, ?_⟩
            intro e he ht
            rcases List.mem_cons.mp he with he | he
            · rw [he]; exact hx
            · exact e3 e he ht
          · intro hn
            obtain ⟨j1, j2⟩ := i4 hn
            refine ⟨j1, ?_⟩
            intro e he ht
            rcases List.mem_cons.mp he with he | he
            · rw [he]; exact hx
            · exact j2 e he ht
theorem zone_ex7_wf : zone_wf machine_ex7 0 where
  blocks := by unfold block_in_zone; decide
  nodup := by decide
  backptr := by decide
  clean := by decide
  valid := by decide
  word := by decide

/-- C28. The final loop of `__alloc_pages` over a zonelist whose zones are
well formed and of non-zero size, for `order < MAX_ORDER`.  Without direct
reclaim it runs to completion; the zones it visits are a prefix of the
zonelist; a visited zone is passed over, and `rmqueue` not called, exactly when
`free_pages < pages_min / 4` and the caller does not have `PF_MEMALLOC`, and
`rmqueue` is called on every other visited zone; a page returned is the result
of `rmqueue` on the last visited zone, every earlier call having returned
NULL; NULL is returned with the state unchanged, after every zone up to the
NULL entry was passed over or had `rmqueue` return NULL.  With or without
direct reclaim, a caller with `PF_MEMALLOC` passes over no zone, and NULL is
returned only after every zone up to the NULL entry was passed over or
tried. -/
theorem alloc_pages_final_scan_spec (s : machine) (order : Nat) (zones : List (Option Nat))
    (pf : Bool) (rp : machine → Nat → machine × Option Nat) (ho : order < MAX_ORDER)
    (hz : ∀ z, some z ∈ zones → zone_wf s z ∧ (s.node_zones z).size ≠ 0) :
    (∃ s' r log, alloc_pages_final_scan order pf false rp zones s = some (s', r, log) ∧
      (log.map (fun e => some e.zone)) <+: zones ∧
      (∀ e ∈ log, (e = final_event.skipped e.zone ↔
        ((s.node_zones e.zone).free_pages < (s.node_zones e.zone).pages_min / 4 ∧
          pf = false)) ∧
        (e = final_event.tried e.zone ↔
          ¬ ((s.node_zones e.zone).free_pages < (s.node_zones e.zone).pages_min / 4 ∧
            pf = false))) ∧
      (∀ page, r = some page → ∃ pre z, log = pre ++ [final_event.tried z] ∧
        rmqueue s z order = some (s', some page) ∧
        ∀ e ∈ pre, e = final_event.tried e.zone → rmqueue s e.zone order = some (s, none)) ∧
      (r = none → s' = s ∧
        log.map (fun e => some e.zone) = zones.takeWhile Option.isSome ∧
        ∀ e ∈ log, e = final_event.tried e.zone →
          rmqueue s e.zone order = some (s, none))) ∧
    (∀ dr s' r log, alloc_pages_final_scan order pf dr rp zones s = some (s', r, log) →
      (pf = true → ∀ e ∈ log, e ≠ final_event.skipped e.zone) ∧
      (r = none → log.map (fun e => some e.zone) = zones.takeWhile Option.isSome ∧
        ∀ e ∈ log, e = final_event.skipped e.zone ∨ e = final_event.tried e.zone)) := by
  refine ⟨?_, fun dr s' r log h => final_scan_general order pf dr rp zones s s' r log h⟩
  obtain ⟨s', r, log, h, a1, a2, a3, a4⟩ := final_scan_plain order pf rp s ho zones hz
  obtain ⟨-, g2⟩ := final_scan_general order pf false rp zones s s' r log h
  exact ⟨s', r, log, h, a1, a2, a3, fun hn => ⟨(a4 hn).1, (g2 hn).1, (a4 hn).2⟩⟩

/-- Witness for C28: in `machine_ex7` (8 free pages, `pages_min = 40`) the
final loop over `[zone 0, NULL]` for an order-1 request of a caller with
`PF_MEMALLOC` passes over no zone. -/
theorem alloc_pages_final_scan_witness :
    ∃ s' r log, alloc_pages_final_scan 1 true false (fun s _ => (s, none)) [some 0, none]
        machine_ex7 = some (s', r, log) ∧
      ∀ e ∈ log, e ≠ final_event.skipped e.zone := by
  have hspec := alloc_pages_final_scan_spec machine_ex7 1 [some 0, none] true
    (fun s _ => (s, none)) (by decide) (by
      intro z hz
      simp only [List.mem_cons, Option.some.injEq, List.mem_singleton, reduceCtorEq,
        or_false, List.mem_nil_iff] at hz
      subst hz
      exact ⟨zone_ex7_wf, by decide⟩)
  obtain ⟨s', r, log, h1, -⟩ := hspec.1
  exact ⟨s', r, log, h1, (hspec.2 false s' r log h1).1 rfl⟩
/-! ## Zone lists: the DMA lists and the size of the array -/

theorem zonelist_from_bound (node_zones : Nat → zone_t) (cfg : config) (i : Nat) :
    (zonelist_from node_zones (goal_zone cfg i)).length = MAX_NR_ZONES + 1 ∧
    ((zonelist_from node_zones (goal_zone cfg i)).takeWhile Option.isSome).length ≤
      MAX_NR_ZONES ∧
    (zonelist_from node_zones (goal_zone cfg i))[((zonelist_from node_zones
      (goal_zone cfg i)).takeWhile Option.isSome).length]? = some none := by
  unfold goal_zone zonelist_from fallback_order
  simp only [ZONE_HIGHMEM, ZONE_NORMAL, ZONE_DMA, MAX_NR_ZONES]
  by_cases hd : i &&& cfg.GFP_DMA ≠ 0 <;> by_cases hh : i &&& cfg.GFP_HIGHMEM ≠ 0 <;>
    by_cases s0 : (node_zones 0).size ≠ 0 <;> by_cases s1 : (node_zones 1).size ≠ 0 <;>
    by_cases s2 : (node_zones 2).size ≠ 0 <;>
    simp [hd, hh, s0, s1, s2, List.replicate, List.filter, List.takeWhile] <;>
    simp_all [List.takeWhile]

theorem zonelist_from_dma (node_zones : Nat → zone_t) :
    zonelist_from node_zones ZONE_DMA =
      if (node_zones ZONE_DMA).size ≠ 0 then [some ZONE_DMA, none, none, none]
      else [none, none, none, none] := by
  unfold zonelist_from fallback_order
  simp only [ZONE_HIGHMEM, ZONE_NORMAL, ZONE_DMA, MAX_NR_ZONES]
  by_cases s0 : (node_zones 0).size ≠ 0 <;>
    simp [s0, List.replicate, List.filter]

/-- C40. `build_zonelists` (which traps only when a HighMem zone of
non-zero size exists without CONFIG_HIGHMEM): for every flag index `i` below
`NR_GFPINDEX` in which `__GFP_DMA` is set, whether or not `__GFP_HIGHMEM` is
set too, the zonelist holds no zone other than `ZONE_DMA`: it is that zone
followed by NULL entries, or NULL entries alone when the zone has size 0.
Every zonelist is an array of `MAX_NR_ZONES + 1` entries with at most
`MAX_NR_ZONES` zones before a NULL entry. -/
theorem build_zonelists_dma (cfg : config) (node_zones : Nat → zone_t)
    (node_zonelists : Nat → zonelist_t)
    (hcfg : cfg.CONFIG_HIGHMEM = true ∨ (node_zones ZONE_HIGHMEM).size = 0) :
    ∃ zl, build_zonelists cfg node_zones node_zonelists = some zl ∧
      ∀ i, i < NR_GFPINDEX →
        (i &&& cfg.GFP_DMA ≠ 0 →
          (∀ z, some z ∈ (zl i).zones → z = ZONE_DMA) ∧
          ((node_zones ZONE_DMA).size ≠ 0 →
            (zl i).zones = [some ZONE_DMA, none, none, none]) ∧
          ((node_zones ZONE_DMA).size = 0 → (zl i).zones = [none, none, none, none])) ∧
        (zl i).zones.length = MAX_NR_ZONES + 1 ∧
        ((zl i).zones.takeWhile Option.isSome).length ≤ MAX_NR_ZONES ∧
        (zl i).zones[((zl i).zones.takeWhile Option.isSome).length]? = some none := by
  refine ⟨_, build_zonelists_eq cfg node_zones node_zonelists hcfg, fun i hi => ?_⟩
  have h : 0 ≤ i ∧ i < 0 + NR_GFPINDEX := by omega
  rw [if_pos h]
  refine ⟨?_, zonelist_from_bound node_zones cfg i⟩
  intro hd
  have hg : goal_zone cfg i = ZONE_DMA := by
    unfold goal_zone
    rw [if_pos hd]
  show (∀ z, some z ∈ zonelist_from node_zones (goal_zone cfg i) → z = ZONE_DMA) ∧
    ((node_zones ZONE_DMA).size ≠ 0 →
      zonelist_from node_zones (goal_zone cfg i) = [some ZONE_DMA, none, none, none]) ∧
    ((node_zones ZONE_DMA).size = 0 →
      zonelist_from node_zones (goal_zone cfg i) = [none, none, none, none])
  rw [hg, zonelist_from_dma]
  by_cases s0 : (node_zones ZONE_DMA).size ≠ 0
  · rw [if_pos s0]
    refine ⟨?_, fun _ => rfl, fun hc => absurd hc s0⟩
    intro z hz
    simp only [List.mem_cons, Option.some.injEq, reduceCtorEq, List.mem_nil_iff,
      or_false] at hz
    exact hz
  · rw [if_neg s0]
    refine ⟨?_, fun hc => absurd hc s0, fun _ => rfl⟩
    intro z hz
    simp only [List.mem_cons, reduceCtorEq, List.mem_nil_iff, or_false] at hz

/-- Witness for C40: with the zones of `machine_ex` the list for
`__GFP_DMA | __GFP_HIGHMEM` (`i = 0x18`) holds the DMA zone alone. -/
theorem build_zonelists_dma_witness :
    ∃ zl, build_zonelists config_ex machine_ex.node_zones (fun _ => ⟨[], 0⟩) = some zl ∧
      (∀ z, some z ∈ (zl 0x18).zones → z = ZONE_DMA) ∧
      (zl 0x18).zones.length = MAX_NR_ZONES + 1 :=
  let ⟨zl, h1, h2⟩ := build_zonelists_dma config_ex machine_ex.node_zones (fun _ => ⟨[], 0⟩)
    (Or.inl rfl)
  ⟨zl, h1, ((h2 0x18 (by decide)).1 (by decide)).1, (h2 0x18 (by decide)).2.1⟩
/-! ## Releasing an object of a full slab -/

theorem free_one_full_list (c : kmem_cache_t) (x : Nat) (a b rest : List Nat)
    (hl : c.slabs = a ++ x :: (b ++ rest)) (hfn : c.firstnotfull = rest.head?)
    (hxa : x ∉ a) (hd : ∀ y ∈ b, y ∉ rest) (hr : ∀ y ∈ rest, y ∉ a ++ b) :
    (if list_next c.slabs (some x) = c.firstnotfull
      then ({ c with firstnotfull := some x } : kmem_cache_t)
      else
        { c with
          firstnotfull := some x
          slabs := list_add_tail (list_del c.slabs x) x c.firstnotfull }) =
      { c with
        firstnotfull := some x
        slabs := (a ++ b) ++ x :: rest } := by
  have hnext : list_next c.slabs (some x) = (b ++ rest).head? := by
    rw [hl, list_next_mid _ _ _ hxa]
  by_cases hc : list_next c.slabs (some x) = c.firstnotfull
  · rw [if_pos hc]
    rw [hnext, hfn] at hc
    have hb : b = [] := by
      cases b with
      | nil => rfl
      | cons b0 b1 =>
        exfalso
        simp only [List.cons_append, List.head?_cons] at hc
        cases hpe : rest with
        | nil => rw [hpe] at hc; cases hc
        | cons y r =>
          rw [hpe] at hc
          simp only [List.head?_cons, Option.some.injEq] at hc
          exact hd b0 (List.mem_cons_self _ _) (by rw [hpe, hc]; exact List.mem_cons_self _ _)
    subst hb
    have : c.slabs = (a ++ []) ++ x :: rest := by
      rw [hl]; simp
    rw [← this]
  · rw [if_neg hc]
    have hdel : list_del c.slabs x = (a ++ b) ++ rest := by
      rw [hl, list_del_mid _ _ _ hxa]; simp
    rw [hdel, hfn]
    cases hpe : rest with
    | nil =>
      simp only [List.head?_nil, list_add_tail, List.append_nil]
    | cons y r =>
      have hy : y ∉ a ++ b := hr y (by rw [hpe]; exact List.mem_cons_self _ _)
      simp only [List.head?_cons]
      rw [list_add_tail_mid _ _ _ _ hy]

/-- C31. `kmem_cache_free_one` on an object of a slab `S` of the list that
is full (`inuse = num`), in a cache with the list-order invariant whose
`1 ≤ num ≤ SLAB_LIMIT` objects have a size that is not 0.  The list is
`a ++ S :: b ++ rest`, where `a` and `b` are full slabs and `rest` starts at
the slab `firstnotfull` points at (it is empty when there is none).  The call
returns; the list is `a ++ b ++ S :: rest`, so `S` stands right before what
`firstnotfull` pointed at, or at the tail; `firstnotfull` points at `S`, which
has `num - 1` objects in use; every slab before `S` is still full; no other
slab descriptor has changed and the other slabs keep their order. -/
theorem free_one_from_full (env : slab_env) (s : kmem_state) (cachep objp : Nat)
    (hN1 : 1 ≤ (s.cache cachep).num) (hN2 : (s.cache cachep).num ≤ SLAB_LIMIT)
    (h0 : (s.cache cachep).objsize % ULONG ≠ 0)
    (hmem : s.page_slab (virt_to_page env objp) ∈ (s.cache cachep).slabs)
    (hfull : (s.slab (s.page_slab (virt_to_page env objp))).inuse = (s.cache cachep).num)
    (ho : slab_order_ok s cachep) :
    ∃ a b rest s',
      (s.cache cachep).slabs = a ++ s.page_slab (virt_to_page env objp) :: (b ++ rest) ∧
      rest.head? = (s.cache cachep).firstnotfull ∧
      (∀ y ∈ a ++ b, (s.slab y).inuse = (s.cache cachep).num) ∧
      kmem_cache_free_one env s cachep objp = some s' ∧
      (s'.cache cachep).slabs = (a ++ b) ++ s.page_slab (virt_to_page env objp) :: rest ∧
      (s'.cache cachep).firstnotfull = some (s.page_slab (virt_to_page env objp)) ∧
      (s'.cache cachep).num = (s.cache cachep).num ∧
      (s'.slab (s.page_slab (virt_to_page env objp))).inuse = (s.cache cachep).num - 1 ∧
      (∀ y ∈ a ++ b, (s'.slab y).inuse = (s'.cache cachep).num) ∧
      (∀ y, y ≠ s.page_slab (virt_to_page env objp) → s'.slab y = s.slab y) ∧
      (s'.cache cachep).slabs.erase (s.page_slab (virt_to_page env objp)) =
        (s.cache cachep).slabs.erase (s.page_slab (virt_to_page env objp)) := by
  have hS : SLAB_LIMIT = 4294967294 := rfl
  have hU : ULONG = 4294967296 := rfl
  obtain ⟨x, hx⟩ : ∃ x, s.page_slab (virt_to_page env objp) = x := ⟨_, rfl⟩
  rw [hx] at hmem hfull ⊢
  obtain ⟨hnd, full, part, emp, hl, hf, hp, he, hfn⟩ := ho
  have hndl := hnd
  rw [hl] at hndl
  have hd1 := List.nodup_append.mp hndl
  have hxf : x ∈ full := by
    rw [hl] at hmem
    rcases List.mem_append.mp hmem with h1 | h1
    · exact h1
    · rcases List.mem_append.mp h1 with h2 | h2
      · exact absurd hfull (hp x h2).2
      · have := he x h2; omega
  obtain ⟨a, b, hab, hxa, hxb⟩ := mem_split_nodup full x hxf hd1.1
  have hxpe : x ∉ part ++ emp := fun hm => hd1.2.2 hxf hm
  have hl3 : (s.cache cachep).slabs = a ++ x :: (b ++ (part ++ emp)) := by
    rw [hl, hab]; simp
  have hfull' : ∀ y ∈ a ++ b, y ≠ x ∧ y ∈ full := by
    intro y hy
    rcases List.mem_append.mp hy with h | h
    · exact ⟨fun e => hxa (e ▸ h), by rw [hab]; exact List.mem_append_left _ h⟩
    · exact ⟨fun e => hxb (e ▸ h),
        by rw [hab]; exact List.mem_append_right _ (List.mem_cons_of_mem _ h)⟩
  have hnew := free_one_full_list (s.cache cachep) x a b (part ++ emp) hl3 hfn hxa
    (fun y hy hm => hd1.2.2 (by rw [hab]; simp [hy]) hm)
    (fun y hy hm => hd1.2.2 (hfull' y hm).2 hy)
  have heq := free_one_eq env s cachep objp x hx h0
  rw [if_pos hfull, hnew] at heq
  refine ⟨a, b, part ++ emp, _, hl3, hfn.symm, fun y hy => hf y (hfull' y hy).2, heq, ?_, ?_,
    ?_, ?_, ?_, ?_, ?_⟩
  · simp only [upd_same]
  · simp only [upd_same]
  · simp only [upd_same]
  · simp only [upd_same]
    unfold free_slab
    rw [hx]
    show ((s.slab x).inuse + ULONG - 1) % ULONG = _
    rw [hfull, show (s.cache cachep).num + ULONG - 1 = ((s.cache cachep).num - 1) + ULONG by
      omega, Nat.add_mod_right]
    exact Nat.mod_eq_of_lt (by omega)
  · intro y hy
    obtain ⟨hyx, hyf⟩ := hfull' y hy
    simp only [upd_same, upd_other _ _ _ _ hyx]
    exact hf y hyf
  · intro y hy
    simp only [upd_other _ _ _ _ hy]
  · simp only [upd_same]
    rw [hl3]
    have hxab : x ∉ a ++ b := fun hm => (hfull' x hm).1 rfl
    rw [List.erase_append_right _ hxab, List.erase_cons_head,
      List.erase_append_right _ hxa, List.erase_cons_head, List.append_assoc]
theorem kmem_state_ex9_order : slab_order_ok kmem_state_ex9 0xC0300100 := by
  refine ⟨by decide, [0xC1000000], [0xC1001000], [], rfl, ?_, ?_, ?_, rfl⟩
  · decide
  · decide
  · intro x hx; cases hx

/-- Witness for C31: the first object of the full slab at `0xC1000000` of
`kmem_state_ex9` is released; the list keeps its order and `firstnotfull`
points at that slab. -/
theorem free_one_from_full_witness :
    ∃ s', kmem_cache_free_one slab_env_ex kmem_state_ex9 0xC0300100 0xC1000060 = some s' ∧
      (s'.cache 0xC0300100).firstnotfull = some 0xC1000000 ∧
      (s'.slab 0xC1000000).inuse = 14 := by
  obtain ⟨a, b, rest, s', -, -, -, h4, -, h6, -, h8, -⟩ := free_one_from_full slab_env_ex
    kmem_state_ex9 0xC0300100 0xC1000060 (by decide) (by decide) (by decide) (by decide)
    (by decide) kmem_state_ex9_order
  exact ⟨s', h4, h6, h8⟩
/-! ## Slab colouring -/

theorem kmem_cache_grow_nopages (alloc : kmem_state → Nat → Nat → Option (kmem_state × Nat))
    (env : slab_env) (s : kmem_state) (cachep flags : Nat) (hf : grow_flags_ok env flags)
    (hp : s.getpages s.getpages_calls = 0) :
    kmem_cache_grow alloc env s cachep flags =
      some (grow_failed (grow_start s cachep) cachep, 0) := by
  obtain ⟨h1, h2, h3⟩ := hf
  unfold kmem_cache_grow
  rw [if_neg (by rw [h1]; exact fun h => h rfl), if_neg (by rw [h2]; exact fun h => h rfl),
    if_neg h3]
  simp only [kmem_getpages]
  rw [if_pos hp]
  rfl

theorem grow_onslab_step (alloc : kmem_state → Nat → Nat → Option (kmem_state × Nat))
    (env : slab_env) (s : kmem_state) (cachep flags : Nat) (hf : grow_flags_ok env flags)
    (hon : (s.cache cachep).flags &&& CFLGS_OFF_SLAB = 0) :
    ∃ s' r, kmem_cache_grow alloc env s cachep flags = some (s', r) ∧
      (s'.cache cachep).colour_next =
        (if ((s.cache cachep).colour_next + 1) % ULONG ≥ (s.cache cachep).colour then 0
          else ((s.cache cachep).colour_next + 1) % ULONG) ∧
      (s'.cache cachep).colour = (s.cache cachep).colour ∧
      (s'.cache cachep).colour_off = (s.cache cachep).colour_off ∧
      (s'.cache cachep).flags = (s.cache cachep).flags ∧
      (s'.cache cachep).num = (s.cache cachep).num ∧
      (r = 1 →
        (s'.cache cachep).slabs = (s.cache cachep).slabs ++
          [(s.getpages s.getpages_calls + grow_offset s cachep) % ULONG] ∧
        (s'.slab ((s.getpages s.getpages_calls + grow_offset s cachep) % ULONG)).s_mem =
          (s.getpages s.getpages_calls + (grow_offset s cachep + L1_CACHE_ALIGN env.cfg
            (((((s.cache cachep).num * sizeof_kmem_bufctl_t) % ULONG) + sizeof_slab_t) %
              ULONG)) % ULONG) % ULONG) := by
  obtain ⟨g1, -⟩ := grow_start_cache s cachep
  by_cases hp : s.getpages s.getpages_calls = 0
  · refine ⟨_, _, kmem_cache_grow_nopages alloc env s cachep flags hf hp, ?_⟩
    unfold grow_failed
    simp only [upd_same]
    rw [g1]
    exact ⟨rfl, rfl, rfl, rfl, rfl, fun h => by cases h⟩
  · have hon2 : ((grow_start s cachep).cache cachep).flags &&& CFLGS_OFF_SLAB = 0 := by
      rw [g1]; exact hon
    have heq := kmem_cache_grow_eq alloc env s cachep flags hf hp
    rw [slabmgmt_onslab_eq alloc env _ cachep _ _ _ hon2] at heq
    simp only [] at heq
    obtain ⟨o1, -⟩ := onslab_mgmt_fields env (grow_start s cachep) cachep
      (s.getpages s.getpages_calls) (grow_offset s cachep)
    by_cases hz : (s.getpages s.getpages_calls + grow_offset s cachep) % ULONG = 0
    · rw [if_pos hz] at heq
      refine ⟨_, _, heq, ?_⟩
      simp only [upd_same]
      unfold kmem_freepages
      simp only []
      rw [o1, g1]
      exact ⟨rfl, rfl, rfl, rfl, rfl, fun h => by cases h⟩
    · rw [if_neg hz] at heq
      refine ⟨_, _, heq, ?_⟩
      obtain ⟨f1, -⟩ := grow_finish_cache env
        (onslab_mgmt env (grow_start s cachep) cachep (s.getpages s.getpages_calls)
          (grow_offset s cachep)) cachep
        ((s.getpages s.getpages_calls + grow_offset s cachep) % ULONG)
        (s.getpages s.getpages_calls)
      obtain ⟨k1, -⟩ := grow_finish_slab env
        (onslab_mgmt env (grow_start s cachep) cachep (s.getpages s.getpages_calls)
          (grow_offset s cachep)) cachep
        ((s.getpages s.getpages_calls + grow_offset s cachep) % ULONG)
        (s.getpages s.getpages_calls)
      obtain ⟨-, -, -, -, -, -, m7, -⟩ := onslab_mgmt_fields env (grow_start s cachep) cachep
        (s.getpages s.getpages_calls) (grow_offset s cachep)
      rw [f1, k1, o1, g1]
      refine ⟨rfl, rfl, rfl, rfl, rfl, fun _ => ⟨rfl, ?_⟩⟩
      show ((onslab_mgmt env (grow_start s cachep) cachep (s.getpages s.getpages_calls)
        (grow_offset s cachep)).slab _).s_mem = _
      rw [m7, g1]
theorem colour_next_step (n C k : Nat) (hC : C < ULONG) (hn : n < C ∨ n = 0) :
    ((if (n + 1) % ULONG ≥ C then 0 else (n + 1) % ULONG) < C ∨
      (if (n + 1) % ULONG ≥ C then 0 else (n + 1) % ULONG) = 0) ∧
    (if C = 0 then 0 else ((if (n + 1) % ULONG ≥ C then 0 else (n + 1) % ULONG) + k) % C) =
      (if C = 0 then 0 else (n + (k + 1)) % C) := by
  have hU : ULONG = 4294967296 := rfl
  by_cases h0 : C = 0
  · subst h0
    rw [if_pos (Nat.zero_le _)]
    exact ⟨Or.inr rfl, rfl⟩
  · have hnC : n < C := by omega
    have hm : (n + 1) % ULONG = n + 1 := Nat.mod_eq_of_lt (by omega)
    rw [hm, if_neg h0, if_neg h0]
    by_cases hw : n + 1 ≥ C
    · rw [if_pos hw]
      have e : n + (k + 1) = C + k := by omega
      rw [e, Nat.zero_add, Nat.add_mod_left]
      exact ⟨Or.inr rfl, rfl⟩
    · rw [if_neg hw]
      have e : n + 1 + k = n + (k + 1) := by omega
      rw [e]
      exact ⟨Or.inl (by omega), rfl⟩

theorem grow_colour_cycle (alloc : kmem_state → Nat → Nat → Option (kmem_state × Nat))
    (env : slab_env) (cachep flags : Nat) (hf : grow_flags_ok env flags) :
    ∀ (k : Nat) (s : kmem_state), (s.cache cachep).flags &&& CFLGS_OFF_SLAB = 0 →
      (s.cache cachep).colour < ULONG →
      ((s.cache cachep).colour_next < (s.cache cachep).colour ∨
        (s.cache cachep).colour_next = 0) →
      ∃ sk, grow_iter alloc env cachep flags k s = some sk ∧
        (sk.cache cachep).colour_next =
          (if (s.cache cachep).colour = 0 then 0
            else ((s.cache cachep).colour_next + k) % (s.cache cachep).colour) ∧
        (sk.cache cachep).colour = (s.cache cachep).colour ∧
        (sk.cache cachep).colour_off = (s.cache cachep).colour_off ∧
        (sk.cache cachep).flags = (s.cache cachep).flags ∧
        (sk.cache cachep).num = (s.cache cachep).num := by
  intro k
  induction k with
  | zero =>
    intro s _ hC hn
    refine ⟨s, rfl, ?_, rfl, rfl, rfl, rfl⟩
    by_cases h0 : (s.cache cachep).colour = 0
    · rw [if_pos h0]; omega
    · rw [if_neg h0, Nat.add_zero]
      exact (Nat.mod_eq_of_lt (by omega)).symm
  | succ k ih =>
    intro s hon hC hn
    obtain ⟨s1, r, hg, c1, c2, c3, c4, c5, -⟩ := grow_onslab_step alloc env s cachep flags hf hon
    obtain ⟨n1, n2⟩ := colour_next_step (s.cache cachep).colour_next (s.cache cachep).colour k
      hC hn
    obtain ⟨sk, hk, d1, d2, d3, d4, d5⟩ := ih s1 (by rw [c4]; exact hon) (by rw [c2]; exact hC)
      (by rw [c1, c2]; exact n1)
    refine ⟨sk, ?_, ?_, d2.trans c2, d3.trans c3, d4.trans c4, d5.trans c5⟩
    · rw [grow_iter, hg]
      exact hk
    · rw [d1, c1, c2]
      exact n2

theorem create_align_pow (cfg : slab_config) (size flags k : Nat)
    (hL : cfg.L1_CACHE_BYTES = 2 ^ k) (hk : k ≤ 31)
    (hmask : cfg.SLAB_HWCACHE_ALIGN &&& CFLGS_OFF_SLAB = 0)
    (hsize : size + cfg.L1_CACHE_BYTES + 3 < ULONG) :
    ∃ i, i ≤ 31 ∧ create_align cfg size flags = 2 ^ i := by
  by_cases hf : flags &&& cfg.SLAB_HWCACHE_ALIGN = 0
  · refine ⟨2, by decide, ?_⟩
    unfold create_align
    rw [create_flags_hw cfg size flags hmask, if_neg (not_not.mpr hf), if_neg (not_not.mpr hf)]
    rfl
  · obtain ⟨-, -, -, h4⟩ := create_objsize_round cfg size flags k hL hk hmask hsize
    obtain ⟨i, hi, he, -⟩ := h4 hf
    exact ⟨i, by omega, he⟩

theorem create_descriptor_colour (env : slab_env) (sizes : List cache_sizes_t) (nm : String)
    (size offset flags : Nat) (ctor dtor : Bool) (g l num : Nat) (desc : kmem_cache_t) (i : Nat)
    (hi : i ≤ 31) (hal : create_align env.cfg size flags = 2 ^ i)
    (hoff : offset + 2 ^ i ≤ ULONG)
    (h : create_descriptor env sizes nm size offset flags ctor dtor g l num = some desc) :
    desc.colour_off = (if (offset + 2 ^ i - 1) / 2 ^ i * 2 ^ i = 0 then env.cfg.L1_CACHE_BYTES
      else (offset + 2 ^ i - 1) / 2 ^ i * 2 ^ i) ∧
    desc.colour = (if create_flags env.cfg size flags &&& CFLGS_OFF_SLAB ≠ 0 ∧
        l ≥ L1_CACHE_ALIGN env.cfg
          ((((num * sizeof_kmem_bufctl_t) % ULONG) + sizeof_slab_t) % ULONG)
      then l - L1_CACHE_ALIGN env.cfg
        ((((num * sizeof_kmem_bufctl_t) % ULONG) + sizeof_slab_t) % ULONG)
      else l) / desc.colour_off ∧
    desc.colour_next = 0 := by
  unfold create_descriptor at h
  dsimp only at h
  have hd := ite_none_some _ _ _ h
  rw [hal, round_up_mask offset i hi hoff] at hd
  rw [hd]
  exact ⟨rfl, rfl, rfl⟩
theorem estimate_left_lt (cfg : slab_config) (g size flags l num : Nat)
    (h : kmem_cache_estimate cfg g size flags = some (l, num)) : l < ULONG := by
  unfold kmem_cache_estimate at h
  dsimp only at h
  split at h
  · cases h
  · simp only [Option.some.injEq, Prod.mk.injEq] at h
    rw [← h.1]
    exact Nat.mod_lt _ (by decide)

theorem create_order_loop_left_lt (cfg : slab_config) (ol br size flags : Nat) :
    ∀ (fuel g g2 l num : Nat),
      create_order_loop cfg ol br size flags fuel g = some (g2, l, num) → l < ULONG := by
  intro fuel
  induction fuel with
  | zero =>
    intro g g2 l num h
    rw [create_order_loop] at h
    cases h
  | succ n ih =>
    intro g g2 l num h
    rw [create_order_loop] at h
    cases he : kmem_cache_estimate cfg g size flags with
    | none => rw [he] at h; cases h
    | some x =>
      obtain ⟨l1, n1⟩ := x
      rw [he] at h
      dsimp only at h
      have hl1 := estimate_left_lt cfg g size flags l1 n1 he
      split at h
      · simp only [Option.some.injEq, Prod.mk.injEq] at h
        rw [← h.2.1]; exact hl1
      · split at h
        · exact ih _ _ _ _ h
        · split at h
          · cases he2 : kmem_cache_estimate cfg ((g + ULONG - 1) % ULONG) size flags with
            | none => rw [he2] at h; cases h
            | some y =>
              obtain ⟨l2, n2⟩ := y
              rw [he2] at h
              simp only [Option.some.injEq, Prod.mk.injEq] at h
              rw [← h.2.1]
              exact estimate_left_lt cfg _ size flags l2 n2 he2
          · split at h
            · simp only [Option.some.injEq, Prod.mk.injEq] at h
              rw [← h.2.1]; exact hl1
            · split at h
              · simp only [Option.some.injEq, Prod.mk.injEq] at h
                rw [← h.2.1]; exact hl1
              · exact ih _ _ _ _ h

theorem create_checks_offset (cfg : slab_config) (nm : String) (size offset flags : Nat)
    (ctor dtor : Bool) (ii : Bool) (f : Nat)
    (h : kmem_cache_create_checks cfg (some nm) size offset flags ctor dtor ii = some f) :
    offset ≤ size := by
  unfold kmem_cache_create_checks at h
  simp only [] at h
  by_cases hc : nm.length ≥ CACHE_NAMELEN - 1 ∨ ii = true ∨ size < BYTES_PER_WORD ∨
      size > ((1 <<< MAX_OBJ_ORDER) * cfg.PAGE_SIZE) % ULONG ∨ (dtor = true ∧ ctor = false) ∨
      offset > size
  · rw [if_pos hc] at h; cases h
  · by_contra hlt
    exact hc (by
      right; right; right; right; right
      exact Nat.not_le.mp hlt)
/-! ## The bound of the per-CPU arrays -/

theorem shrink_next_some (s : kmem_state) (cachep slabp : Nat)
    (h : shrink_next s cachep = some slabp) :
    (s.cache cachep).growing = 0 ∧ (s.slab slabp).inuse = 0 ∧
      ∃ a, (s.cache cachep).slabs = a ++ [slabp] := by
  unfold shrink_next at h
  by_cases hg : (s.cache cachep).growing ≠ 0
  · rw [if_pos hg] at h; cases h
  · rw [if_neg hg] at h
    rcases list_nil_or_snoc (s.cache cachep).slabs with hnil | ⟨a, z, hz⟩
    · rw [hnil] at h
      simp [list_prev] at h
    · rw [hz] at h
      simp only [list_prev, getLast_snoc] at h
      by_cases hin : (s.slab z).inuse ≠ 0
      · rw [if_pos hin] at h; cases h
      · rw [if_neg hin] at h
        simp only [Option.some.injEq] at h
        subst h
        exact ⟨not_not.mp hg, not_not.mp hin, a, hz⟩

theorem shrink_next_none (s : kmem_state) (cachep : Nat)
    (hg : (s.cache cachep).growing = 0) (h : shrink_next s cachep = none) :
    ∀ z, (s.cache cachep).slabs.getLast? = some z → (s.slab z).inuse ≠ 0 := by
  intro z hz
  unfold shrink_next at h
  rw [if_neg (not_not.mpr hg)] at h
  simp only [list_prev, hz] at h
  by_cases hin : (s.slab z).inuse ≠ 0
  · exact hin
  · rw [if_neg hin] at h; cases h

theorem list_del_snoc (a : List Nat) (z : Nat) (h : z ∉ a) : list_del (a ++ [z]) z = a := by
  unfold list_del
  rw [List.erase_append_right _ h]
  simp

theorem shrink_loop_char (env : slab_env) (cachep : Nat) (L0 : List Nat)
    (P : kmem_state → Prop)
    (hstep : ∀ t slabp, P t → slabp ∈ L0 →
      ∃ t', kmem_slab_destroy env (slab_unlink t cachep slabp) cachep slabp = some t' ∧
        t'.cache cachep = (slab_unlink t cachep slabp).cache cachep ∧
        (∀ x ∈ L0, t'.slab x = t.slab x) ∧
        t'.pages_freed =
          (((t.slab slabp).s_mem + ULONG - (t.slab slabp).colouroff % ULONG) % ULONG,
            (t.cache cachep).gfporder) :: t.pages_freed ∧
        P t') :
    ∀ (fuel : Nat) (s : kmem_state), P s → (s.cache cachep).growing = 0 →
      (s.cache cachep).slabs.Nodup → (s.cache cachep).slabs.length ≤ fuel →
      (∀ x ∈ (s.cache cachep).slabs, x ∈ L0) →
      ∃ s' keep gone, shrink_loop env cachep fuel s = some s' ∧
        (s.cache cachep).slabs = keep ++ gone ∧
        (∀ x ∈ gone, (s.slab x).inuse = 0) ∧
        (∀ z, keep.getLast? = some z → (s.slab z).inuse ≠ 0) ∧
        (s'.cache cachep).slabs = keep ∧
        (s'.cache cachep).growing = 0 ∧
        (∀ x ∈ L0, s'.slab x = s.slab x) ∧
        s'.pages_freed = gone.map (fun x =>
          (((s.slab x).s_mem + ULONG - (s.slab x).colouroff % ULONG) % ULONG,
            (s.cache cachep).gfporder)) ++ s.pages_freed ∧
        P s' := by
  intro fuel
  induction fuel with
  | zero =>
    intro s hP hg _ hlen _
    have hnil : (s.cache cachep).slabs = [] := List.length_eq_zero.mp (Nat.le_zero.mp hlen)
    have hnext : shrink_next s cachep = none := by
      unfold shrink_next
      rw [hnil]
      simp [list_prev]
    refine ⟨s, [], [], ?_, (by rw [hnil]; rfl), fun x hx => (by cases hx),
      fun z hz => (by cases hz), hnil, hg, fun _ _ => rfl, rfl, hP⟩
    rw [shrink_loop, hnext]
  | succ fuel ih =>
    intro s hP hg hnd hlen hsub
    cases hnext : shrink_next s cachep with
    | none =>
      refine ⟨s, (s.cache cachep).slabs, [], ?_, (List.append_nil _).symm,
        fun x hx => (by cases hx), shrink_next_none s cachep hg hnext, rfl, hg,
        fun _ _ => rfl, rfl, hP⟩
      rw [shrink_loop, hnext]
    | some slabp =>
      obtain ⟨_, hin0, a, ha⟩ := shrink_next_some s cachep slabp hnext
      have hna : slabp ∉ a := nodup_snoc_not_mem a slabp (ha ▸ hnd)
      have hmem : slabp ∈ L0 := hsub slabp (by rw [ha]; simp)
      obtain ⟨t', hd, hc, hsl, hpf, hP'⟩ := hstep s slabp hP hmem
      have hc1 : t'.cache cachep = { s.cache cachep with
          slabs := a
          firstnotfull := if (s.cache cachep).firstnotfull = some slabp then none
            else (s.cache cachep).firstnotfull } := by
        rw [hc]
        simp only [slab_unlink, upd_same]
        rw [ha, list_del_snoc a slabp hna]
      have hsuba : ∀ x ∈ a, x ∈ L0 := fun x hx => hsub x (by rw [ha]; simp [hx])
      have hnda : a.Nodup := by
        rw [ha] at hnd
        exact (List.nodup_append.mp hnd).1
      have hlena : a.length ≤ fuel := by
        rw [ha] at hlen
        simp at hlen
        omega
      obtain ⟨s', keep, gone, hs', h1, h2, h3, h4, h5, h6, h7, h8⟩ := ih t' hP'
        (by rw [hc1]; exact hg) (by rw [hc1]; exact hnda) (by rw [hc1]; exact hlena)
        (by rw [hc1]; exact hsuba)
      rw [hc1] at h1 h7
      have h1a : a = keep ++ gone := h1
      have hgsub : ∀ x ∈ gone, x ∈ L0 := fun x hx => hsuba x (by rw [h1a]; simp [hx])
      refine ⟨s', keep, gone ++ [slabp], ?_, ?_, ?_, ?_, h4, h5, ?_, ?_, h8⟩
      · rw [shrink_loop, hnext]
        dsimp only
        rw [hd]
        exact hs'
      · rw [ha, h1a, List.append_assoc]
      · intro x hx
        rcases List.mem_append.mp hx with hx | hx
        · rw [← hsl x (hgsub x hx)]
          exact h2 x hx
        · rw [List.mem_singleton.mp hx]
          exact hin0
      · intro z hz
        rw [← hsl z (hsuba z (by rw [h1a]; exact List.mem_append_left _ (List.mem_of_mem_getLast? hz)))]
        exact h3 z hz
      · intro x hx
        rw [h6 x hx, hsl x hx]
      · rw [h7, hpf, List.map_append, List.append_assoc]
        congr 1
        · apply List.map_congr_left
          intro x hx
          rw [hsl x (hgsub x hx)]
theorem apart_frame_refl (cachep : Nat) (L0 : List Nat) (s : kmem_state) :
    apart_frame cachep L0 s s :=
  ⟨state_same_refl s, rfl, fun _ _ => rfl, rfl, rfl⟩

theorem apart_frame_trans (cachep : Nat) (L0 : List Nat) (a b c : kmem_state)
    (h1 : apart_frame cachep L0 a b) (h2 : apart_frame cachep L0 b c) :
    apart_frame cachep L0 a c :=
  ⟨state_same_trans _ _ _ h1.1 h2.1, h2.2.1.trans h1.2.1,
    fun x hx => (h2.2.2.1 x hx).trans (h1.2.2.1 x hx), h2.2.2.2.1.trans h1.2.2.2.1,
    h2.2.2.2.2.trans h1.2.2.2.2⟩

theorem free_one_apart (env : slab_env) (s : kmem_state) (sc objp cachep : Nat)
    (L0 : List Nat) (h0 : (s.cache sc).objsize % ULONG ≠ 0) (hne : sc ≠ cachep)
    (hp : s.page_slab (virt_to_page env objp) ∉ L0) :
    ∃ s', kmem_cache_free_one env s sc objp = some s' ∧ apart_frame cachep L0 s s' ∧
      s'.cpucache = s.cpucache := by
  obtain ⟨s', hs'⟩ := free_one_total env s sc objp h0
  obtain ⟨hsame, hcpu⟩ := free_one_same env s sc objp s' hs'
  obtain ⟨_, slabs, fnf, hform, _⟩ := free_one_form env s sc objp s' hs'
  refine ⟨s', hs', ⟨hsame, ?_, ?_, ?_, ?_⟩, hcpu⟩
  · rw [hform]
    exact upd_other _ _ _ _ (fun e => hne e.symm)
  · intro x hx
    rw [hform]
    exact upd_other _ _ _ _ (fun e => hp (e ▸ hx))
  · rw [hform]
  · rw [hform]

theorem free_block_loop_apart (env : slab_env) (sc cachep : Nat) (L0 : List Nat)
    (objpp : Nat → Nat) (hne : sc ≠ cachep) :
    ∀ (len i : Nat) (s : kmem_state), (s.cache sc).objsize % ULONG ≠ 0 →
      (∀ j, s.page_slab (virt_to_page env (objpp j)) ∉ L0) →
      ∃ s', __free_block env sc objpp len i s = some s' ∧ apart_frame cachep L0 s s' ∧
        s'.cpucache = s.cpucache := by
  intro len
  induction len with
  | zero => intro i s _ _; exact ⟨s, rfl, apart_frame_refl cachep L0 s, rfl⟩
  | succ len ih =>
    intro i s h0 hp
    obtain ⟨s1, hs1, hfr, hcpu⟩ := free_one_apart env s sc (objpp i) cachep L0 h0 hne (hp i)
    obtain ⟨s', hs', hfr', hcpu'⟩ := ih (i + 1) s1 (by rw [(hfr.1 sc).1]; exact h0)
      (by rw [hfr.2.2.2.1]; exact hp)
    refine ⟨s', ?_, apart_frame_trans _ _ _ _ _ hfr hfr', by rw [hcpu', hcpu]⟩
    simp only [__free_block, hs1]
    exact hs'

theorem free_block_apart (env : slab_env) (s : kmem_state) (sc cachep : Nat) (L0 : List Nat)
    (objpp : Nat → Nat) (len : Nat) (hne : sc ≠ cachep)
    (h0 : (s.cache sc).objsize % ULONG ≠ 0)
    (hp : ∀ j, s.page_slab (virt_to_page env (objpp j)) ∉ L0) :
    ∃ s', free_block env s sc objpp len = some s' ∧ apart_frame cachep L0 s s' ∧
      s'.cpucache = s.cpucache := by
  unfold free_block
  by_cases h : len > INT_MAX
  · rw [if_pos h]; exact ⟨s, rfl, apart_frame_refl cachep L0 s, rfl⟩
  · rw [if_neg h]; exact free_block_loop_apart env sc cachep L0 objpp hne len 0 s h0 hp
theorem cache_free_apart (env : slab_env) (s : kmem_state) (sc p cachep : Nat) (L0 : List Nat)
    (hne : sc ≠ cachep) (h0 : (s.cache sc).objsize % ULONG ≠ 0)
    (hp : s.page_slab (virt_to_page env p) ∉ L0)
    (hent : (s.cache sc).cpudata env.cpu ≠ 0 →
      ∀ i, s.page_slab (virt_to_page env
        ((s.cpucache ((s.cache sc).cpudata env.cpu)).entry i)) ∉ L0) :
    ∃ s', __kmem_cache_free env s sc p = some s' ∧ apart_frame cachep L0 s s' ∧
      ((s.cache sc).cpudata env.cpu ≠ 0 →
        ∀ i, s'.page_slab (virt_to_page env
          ((s'.cpucache ((s.cache sc).cpudata env.cpu)).entry i)) ∉ L0) := by
  unfold __kmem_cache_free
  by_cases hcc : (s.cache sc).cpudata env.cpu ≠ 0
  · rw [if_pos hcc]
    dsimp only
    by_cases ha : (s.cpucache ((s.cache sc).cpudata env.cpu)).avail <
        (s.cpucache ((s.cache sc).cpudata env.cpu)).limit
    · rw [if_pos ha]
      refine ⟨_, rfl, ⟨state_same_refl s, rfl, fun _ _ => rfl, rfl, rfl⟩, ?_⟩
      intro _ i
      simp only [upd_same]
      by_cases hi : i = (s.cpucache ((s.cache sc).cpudata env.cpu)).avail
      · rw [hi, upd_same]; exact hp
      · rw [upd_other _ _ _ _ hi]; exact hent hcc i
    · rw [if_neg ha]
      obtain ⟨s1, hs1, hfr, hcpu⟩ := free_block_apart env
        { s with
          cpucache := upd s.cpucache ((s.cache sc).cpudata env.cpu)
            { s.cpucache ((s.cache sc).cpudata env.cpu) with
              avail := ((s.cpucache ((s.cache sc).cpudata env.cpu)).avail + ULONG -
                (s.cache sc).batchcount % ULONG) % ULONG } } sc cachep L0
        (fun i => (s.cpucache ((s.cache sc).cpudata env.cpu)).entry
          (((s.cpucache ((s.cache sc).cpudata env.cpu)).avail + ULONG -
            (s.cache sc).batchcount % ULONG) % ULONG + i))
        ((s.cache sc).batchcount % ULONG) hne h0 (fun j => hent hcc _)
      rw [hs1]
      refine ⟨_, rfl, ⟨hfr.1, hfr.2.1, hfr.2.2.1, hfr.2.2.2.1, hfr.2.2.2.2⟩, ?_⟩
      intro _ i
      simp only [upd_same]
      rw [hcpu]
      simp only [upd_same]
      rw [hfr.2.2.2.1]
      by_cases hi : i = ((s.cpucache ((s.cache sc).cpudata env.cpu)).avail + ULONG -
          (s.cache sc).batchcount % ULONG) % ULONG
      · rw [hi, upd_same]; exact hp
      · rw [upd_other _ _ _ _ hi]; exact hent hcc i
  · rw [if_neg hcc]
    obtain ⟨s1, hs1, hfr, _⟩ := free_block_apart env s sc cachep L0 (fun _ => p) 1 hne h0
      (fun _ => hp)
    exact ⟨s1, hs1, hfr, fun h => absurd h hcc⟩

theorem destroy_step_onslab (env : slab_env) (cachep : Nat) (t : kmem_state) (slabp : Nat)
    (hon : (t.cache cachep).flags &&& CFLGS_OFF_SLAB = 0) :
    ∃ t', kmem_slab_destroy env (slab_unlink t cachep slabp) cachep slabp = some t' ∧
      t'.cache cachep = (slab_unlink t cachep slabp).cache cachep ∧
      t'.slab = t.slab ∧
      t'.pages_freed =
        (((t.slab slabp).s_mem + ULONG - (t.slab slabp).colouroff % ULONG) % ULONG,
          (t.cache cachep).gfporder) :: t.pages_freed ∧
      (t'.cache cachep).flags &&& CFLGS_OFF_SLAB = 0 ∧
      t'.cpucache = t.cpucache ∧ (∀ x, x ≠ cachep → t'.cache x = t.cache x) := by
  refine ⟨kmem_freepages env (slab_unlink t cachep slabp) cachep
    ((((slab_unlink t cachep slabp).slab slabp).s_mem + ULONG -
      ((slab_unlink t cachep slabp).slab slabp).colouroff % ULONG) % ULONG), ?_, rfl, rfl, ?_,
    ?_, rfl, ?_⟩
  · unfold kmem_slab_destroy
    dsimp only
    rw [if_neg]
    simp only [slab_unlink, upd_same]
    exact not_not.mpr hon
  · simp only [kmem_freepages, slab_unlink, upd_same]
  · simp only [kmem_freepages, slab_unlink, upd_same]
    exact hon
  · intro x hx
    simp only [kmem_freepages, slab_unlink, upd_other _ _ _ _ hx]

theorem destroy_step_offslab (env : slab_env) (cachep : Nat) (L0 : List Nat) (t : kmem_state)
    (slabp : Nat) (hoff : (t.cache cachep).flags &&& CFLGS_OFF_SLAB ≠ 0)
    (hap : offslab_apart env t cachep L0) (hmem : slabp ∈ L0) :
    ∃ t', kmem_slab_destroy env (slab_unlink t cachep slabp) cachep slabp = some t' ∧
      t'.cache cachep = (slab_unlink t cachep slabp).cache cachep ∧
      (∀ x ∈ L0, t'.slab x = t.slab x) ∧
      t'.pages_freed =
        (((t.slab slabp).s_mem + ULONG - (t.slab slabp).colouroff % ULONG) % ULONG,
          (t.cache cachep).gfporder) :: t.pages_freed ∧
      ((t'.cache cachep).flags &&& CFLGS_OFF_SLAB ≠ 0 ∧ offslab_apart env t' cachep L0) := by
  obtain ⟨a1, a2, a3, a4⟩ := hap
  obtain ⟨S, hS⟩ : ∃ S, S = kmem_freepages env (slab_unlink t cachep slabp) cachep
    ((((slab_unlink t cachep slabp).slab slabp).s_mem + ULONG -
      ((slab_unlink t cachep slabp).slab slabp).colouroff % ULONG) % ULONG) := ⟨_, rfl⟩
  have hSo : ∀ x, x ≠ cachep → S.cache x = t.cache x := by
    intro x hx
    rw [hS]
    simp only [kmem_freepages, slab_unlink, upd_other _ _ _ _ hx]
  have hSc : S.cache cachep = (slab_unlink t cachep slabp).cache cachep := by rw [hS]; rfl
  have hSs : S.slab = t.slab := by rw [hS]; rfl
  have hSp : S.page_slab = t.page_slab := by rw [hS]; rfl
  have hSm : S.cpucache = t.cpucache := by rw [hS]; rfl
  have hSf : S.pages_freed =
      (((t.slab slabp).s_mem + ULONG - (t.slab slabp).colouroff % ULONG) % ULONG,
        (t.cache cachep).gfporder) :: t.pages_freed := by
    rw [hS]
    simp only [kmem_freepages, slab_unlink, upd_same]
  have hUc : ((slab_unlink t cachep slabp).cache cachep).slabp_cache =
      (t.cache cachep).slabp_cache := by
    simp only [slab_unlink, upd_same]
  have hUf : ((slab_unlink t cachep slabp).cache cachep).flags = (t.cache cachep).flags := by
    simp only [slab_unlink, upd_same]
  obtain ⟨t', ht', hfr, hent⟩ := cache_free_apart env S (t.cache cachep).slabp_cache slabp
    cachep L0 a1 (by rw [hSo _ a1]; exact a2) (by rw [hSp]; exact a3 slabp hmem)
    (by rw [hSo _ a1, hSm, hSp]; exact a4)
  rw [hSo _ a1] at hent
  refine ⟨t', ?_, hfr.2.1.trans hSc, fun x hx => (hfr.2.2.1 x hx).trans (by rw [hSs]),
    hfr.2.2.2.2.trans hSf, ?_, ?_, ?_, ?_, ?_⟩
  · unfold kmem_slab_destroy
    dsimp only
    rw [hUf, if_pos hoff, hUc, ← hS]
    exact ht'
  · rw [hfr.2.1, hSc, hUf]; exact hoff
  · rw [hfr.2.1, hSc, hUc]; exact a1
  · rw [hfr.2.1, hSc, hUc, (hfr.1 _).1, hSo _ a1]; exact a2
  · rw [hfr.2.2.2.1, hSp]; exact a3
  · rw [hfr.2.1, hSc, hUc, (hfr.1 _).2.2.2.2.2.2.2.2.2.2.2.2, hSo _ a1]
    exact hent
theorem list_add_tail_mem (l : List Nat) (x y : Nat) (t : Option Nat)
    (h : y = x ∨ y ∈ l) : y ∈ list_add_tail l x t := by
  cases t with
  | none =>
    simp only [list_add_tail, List.mem_append, List.mem_singleton]
    rcases h with h | h
    · exact Or.inr h
    · exact Or.inl h
  | some t =>
    simp only [list_add_tail, List.mem_append, List.mem_cons]
    rcases h with h | h
    · exact Or.inr (Or.inl h)
    · have := List.takeWhile_append_dropWhile (fun y => decide (y ≠ t)) l
      rw [← this] at h
      rcases List.mem_append.mp h with h | h
      · exact Or.inl h
      · exact Or.inr (Or.inr h)

theorem free_one_keeps (env : slab_env) (s : kmem_state) (cachep objp : Nat) (s' : kmem_state)
    (h : kmem_cache_free_one env s cachep objp = some s') :
    (∀ y ∈ (s.cache cachep).slabs, y ∈ (s'.cache cachep).slabs) ∧
      s'.pages_freed = s.pages_freed := by
  obtain ⟨_, slabs, fnf, hform, hcases⟩ := free_one_form env s cachep objp s' h
  have hmem : ∀ (t : Option Nat), ∀ y ∈ (s.cache cachep).slabs,
      y ∈ list_add_tail (list_del (s.cache cachep).slabs
        (s.page_slab (virt_to_page env objp))) (s.page_slab (virt_to_page env objp)) t := by
    intro t y hy
    apply list_add_tail_mem
    by_cases e : y = s.page_slab (virt_to_page env objp)
    · exact Or.inl e
    · exact Or.inr ((List.mem_erase_of_ne e).mpr hy)
  refine ⟨?_, by rw [hform]⟩
  intro y hy
  rw [hform]
  simp only [upd_same]
  rcases hcases with e | e | e
  · rw [e]; exact hy
  · rw [e]; exact hmem _ y hy
  · rw [e]; exact hmem _ y hy

theorem free_block_loop_keeps (env : slab_env) (cachep : Nat) (objpp : Nat → Nat) :
    ∀ (len i : Nat) (s s' : kmem_state), __free_block env cachep objpp len i s = some s' →
      (∀ y ∈ (s.cache cachep).slabs, y ∈ (s'.cache cachep).slabs) ∧
        s'.pages_freed = s.pages_freed := by
  intro len
  induction len with
  | zero =>
    intro i s s' h
    simp only [__free_block, Option.some.injEq] at h
    rw [← h]
    exact ⟨fun _ hy => hy, rfl⟩
  | succ len ih =>
    intro i s s' h
    rw [__free_block] at h
    cases h1 : kmem_cache_free_one env s cachep (objpp i) with
    | none => rw [h1] at h; cases h
    | some s1 =>
      rw [h1] at h
      obtain ⟨k1, k2⟩ := free_one_keeps env s cachep (objpp i) s1 h1
      obtain ⟨k3, k4⟩ := ih (i + 1) s1 s' h
      exact ⟨fun y hy => k3 y (k1 y hy), k4.trans k2⟩

theorem free_block_keeps (env : slab_env) (s : kmem_state) (cachep : Nat) (objpp : Nat → Nat)
    (len : Nat) (s' : kmem_state) (h : free_block env s cachep objpp len = some s') :
    (∀ y ∈ (s.cache cachep).slabs, y ∈ (s'.cache cachep).slabs) ∧
      s'.pages_freed = s.pages_freed := by
  unfold free_block at h
  by_cases hl : len > INT_MAX
  · rw [if_pos hl] at h
    simp only [Option.some.injEq] at h
    rw [← h]
    exact ⟨fun _ hy => hy, rfl⟩
  · rw [if_neg hl] at h
    exact free_block_loop_keeps env cachep objpp len 0 s s' h

theorem drain_loop_keeps (env : slab_env) (cachep : Nat) :
    ∀ (n i : Nat) (s s' : kmem_state), drain_loop env cachep n i s = some s' →
      (∀ y ∈ (s.cache cachep).slabs, y ∈ (s'.cache cachep).slabs) ∧
        s'.pages_freed = s.pages_freed := by
  intro n
  induction n with
  | zero =>
    intro i s s' h
    simp only [drain_loop, Option.some.injEq] at h
    rw [← h]
    exact ⟨fun _ hy => hy, rfl⟩
  | succ n ih =>
    intro i s s' h
    rw [drain_loop] at h
    dsimp only at h
    by_cases hc : (s.cache cachep).cpudata (env.cpu_logical_map i) = 0 ∨
        (s.cpucache ((s.cache cachep).cpudata (env.cpu_logical_map i))).avail = 0
    · rw [if_pos hc] at h; exact ih (i + 1) s s' h
    · rw [if_neg hc] at h
      cases h1 : free_block env s cachep
          (s.cpucache ((s.cache cachep).cpudata (env.cpu_logical_map i))).entry
          ((s.cpucache ((s.cache cachep).cpudata (env.cpu_logical_map i))).avail % ULONG) with
      | none => rw [h1] at h; cases h
      | some s1 =>
        rw [h1] at h
        dsimp only at h
        obtain ⟨k1, k2⟩ := free_block_keeps env s cachep _ _ s1 h1
        obtain ⟨k3, k4⟩ := ih (i + 1) _ s' h
        exact ⟨fun y hy => k3 y (k1 y hy), k4.trans k2⟩

theorem split_at_empties (p : Nat → Prop) (keep gone fp emp : List Nat)
    (h : keep ++ gone = fp ++ emp) (hemp : ∀ x ∈ emp, p x) (hfp : ∀ x ∈ fp, ¬ p x)
    (hgone : ∀ x ∈ gone, p x) (hlast : ∀ z, keep.getLast? = some z → ¬ p z) :
    keep = fp := by
  rcases List.append_eq_append_iff.mp h with ⟨a, h1, h2⟩ | ⟨c, h1, h2⟩
  · cases a with
    | nil => rw [h1, List.append_nil]
    | cons x a =>
      exfalso
      exact hfp x (by rw [h1]; simp) (hgone x (by rw [h2]; simp))
  · rcases list_nil_or_snoc c with hc | ⟨b, z, hz⟩
    · rw [h1, hc, List.append_nil]
    · exfalso
      apply hlast z
      · rw [h1, hz, ← List.append_assoc]
        exact getLast_snoc _ z
      · exact hemp z (by rw [h2, hz]; simp)
/-- C34. `__kmem_cache_shrink` on a cache with objects of non-zero size first
drains the per-CPU arrays, which gives the state `s1`, takes no slab off the
list and gives no page back.  If the cache is growing, that is all: the state
returned is `s1`.  If it is not growing (the list free of repetitions, and for
a cache with its descriptors off the slab these lying apart from its slabs),
the list of `s1` is `keep ++ gone`, where `gone`, the slabs without an object
in use at its end, are taken off and their pages given back, from the tail on,
and `keep` is empty or ends with a slab that has an object in use; the
descriptors of the slabs of the list are as in `s1`; the value returned is 0
if and only if the list is empty afterwards; and if the list of `s1` is in
order, with `num ≥ 1`, no slab without an object in use remains. -/
theorem kmem_cache_shrink_trailing (env : slab_env) (s : kmem_state) (cachep : Nat)
    (hos : (s.cache cachep).objsize % ULONG ≠ 0) :
    ∃ s1, drain_cpu_caches env s cachep = some s1 ∧
      (∀ x ∈ (s.cache cachep).slabs, x ∈ (s1.cache cachep).slabs) ∧
      s1.pages_freed = s.pages_freed ∧
      ((s.cache cachep).growing ≠ 0 →
        __kmem_cache_shrink env s cachep =
          some (s1, if (s1.cache cachep).slabs = [] then 0 else 1)) ∧
      ((s.cache cachep).growing = 0 → (s1.cache cachep).slabs.Nodup →
        ((s1.cache cachep).flags &&& CFLGS_OFF_SLAB ≠ 0 →
          offslab_apart env s1 cachep (s1.cache cachep).slabs) →
        ∃ s2 ret keep gone, __kmem_cache_shrink env s cachep = some (s2, ret) ∧
          (s1.cache cachep).slabs = keep ++ gone ∧
          (∀ x ∈ gone, (s1.slab x).inuse = 0) ∧
          (∀ z, keep.getLast? = some z → (s1.slab z).inuse ≠ 0) ∧
          (s2.cache cachep).slabs = keep ∧
          (∀ x ∈ (s1.cache cachep).slabs, s2.slab x = s1.slab x) ∧
          s2.pages_freed = gone.map (fun x =>
            (((s1.slab x).s_mem + ULONG - (s1.slab x).colouroff % ULONG) % ULONG,
              (s1.cache cachep).gfporder)) ++ s1.pages_freed ∧
          (ret = 0 ↔ (s2.cache cachep).slabs = []) ∧
          (slab_order_ok s1 cachep → 1 ≤ (s1.cache cachep).num →
            ∀ x ∈ (s2.cache cachep).slabs, (s2.slab x).inuse ≠ 0)) := by
  obtain ⟨s1, hs1, hfr⟩ := drain_loop_frame env cachep env.smp_num_cpus 0 s hos
  obtain ⟨k1, k2⟩ := drain_loop_keeps env cachep env.smp_num_cpus 0 s s1 hs1
  have hgrow : (s1.cache cachep).growing = (s.cache cachep).growing := hfr.2.1 cachep
  refine ⟨s1, hs1, k1, k2, ?_, ?_⟩
  · intro hg
    have hnext : shrink_next s1 cachep = none := by
      unfold shrink_next
      rw [if_pos (by rw [hgrow]; exact hg)]
    have hloop : shrink_loop env cachep (s1.cache cachep).slabs.length s1 = some s1 := by
      cases (s1.cache cachep).slabs.length with
      | zero => rw [shrink_loop, hnext]
      | succ n => rw [shrink_loop, hnext]
    unfold __kmem_cache_shrink
    rw [show drain_cpu_caches env s cachep = some s1 from hs1]
    dsimp only
    rw [hloop]
  · intro hg hnd hoff
    have hg1 : (s1.cache cachep).growing = 0 := hgrow.trans hg
    have hloop : ∃ s2 keep gone,
        shrink_loop env cachep (s1.cache cachep).slabs.length s1 = some s2 ∧
        (s1.cache cachep).slabs = keep ++ gone ∧
        (∀ x ∈ gone, (s1.slab x).inuse = 0) ∧
        (∀ z, keep.getLast? = some z → (s1.slab z).inuse ≠ 0) ∧
        (s2.cache cachep).slabs = keep ∧
        (∀ x ∈ (s1.cache cachep).slabs, s2.slab x = s1.slab x) ∧
        s2.pages_freed = gone.map (fun x =>
          (((s1.slab x).s_mem + ULONG - (s1.slab x).colouroff % ULONG) % ULONG,
            (s1.cache cachep).gfporder)) ++ s1.pages_freed := by
      by_cases hon : (s1.cache cachep).flags &&& CFLGS_OFF_SLAB = 0
      · obtain ⟨s2, keep, gone, h1, h2, h3, h4, h5, _, h7, h8, _⟩ :=
          shrink_loop_char env cachep (s1.cache cachep).slabs
            (fun t => (t.cache cachep).flags &&& CFLGS_OFF_SLAB = 0)
            (fun t slabp hP _ => by
              obtain ⟨t', a1, a2, a3, a4, a5, _⟩ := destroy_step_onslab env cachep t slabp hP
              exact ⟨t', a1, a2, fun x _ => by rw [a3], a4, a5⟩)
            (s1.cache cachep).slabs.length s1 hon hg1 hnd (Nat.le_refl _) (fun _ hx => hx)
        exact ⟨s2, keep, gone, h1, h2, h3, h4, h5, h7, h8⟩
      · obtain ⟨s2, keep, gone, h1, h2, h3, h4, h5, _, h7, h8, _⟩ :=
          shrink_loop_char env cachep (s1.cache cachep).slabs
            (fun t => (t.cache cachep).flags &&& CFLGS_OFF_SLAB ≠ 0 ∧
              offslab_apart env t cachep (s1.cache cachep).slabs)
            (fun t slabp hP hm =>
              destroy_step_offslab env cachep (s1.cache cachep).slabs t slabp hP.1 hP.2 hm)
            (s1.cache cachep).slabs.length s1 ⟨hon, hoff hon⟩ hg1 hnd (Nat.le_refl _)
            (fun _ hx => hx)
        exact ⟨s2, keep, gone, h1, h2, h3, h4, h5, h7, h8⟩
    obtain ⟨s2, keep, gone, h1, h2, h3, h4, h5, h7, h8⟩ := hloop
    refine ⟨s2, if (s2.cache cachep).slabs = [] then 0 else 1, keep, gone, ?_, h2, h3, h4, h5,
      h7, h8, ?_, ?_⟩
    · unfold __kmem_cache_shrink
      rw [show drain_cpu_caches env s cachep = some s1 from hs1]
      dsimp only
      rw [h1]
    · by_cases e : (s2.cache cachep).slabs = []
      · rw [if_pos e]; exact ⟨fun _ => e, fun _ => rfl⟩
      · rw [if_neg e]; exact ⟨fun h => absurd h (by decide), fun h => absurd h e⟩
    · intro ho hN x hx
      obtain ⟨_, full, part, emp, o1, o2, o3, o4, _⟩ := ho
      have hk : keep = full ++ part := by
        apply split_at_empties (fun x => (s1.slab x).inuse = 0) keep gone (full ++ part) emp
        · rw [← h2, o1, List.append_assoc]
        · exact o4
        · intro y hy
          rcases List.mem_append.mp hy with hy | hy
          · rw [o2 y hy]; omega
          · exact (o3 y hy).1
        · exact h3
        · exact h4
      have hx1 : x ∈ (s1.cache cachep).slabs := by
        rw [h2]; exact List.mem_append_left _ (h5 ▸ hx)
      rw [h7 x hx1]
      rw [h5, hk] at hx
      rcases List.mem_append.mp hx with hy | hy
      · rw [o2 x hy]; omega
      · exact (o3 x hy).1
/-- Witness for C34: the cache at `0xC0300100` of `kmem_state_ex11` has no
per-CPU array and the slabs full, partial, empty, empty; `__kmem_cache_shrink`
takes the two empty slabs off, gives their pages back and returns a value
other than 0. -/
theorem kmem_cache_shrink_trailing_witness :
    ∃ s2 ret, __kmem_cache_shrink slab_env_ex kmem_state_ex11 0xC0300100 = some (s2, ret) ∧
      (s2.cache 0xC0300100).slabs = [0xC1000000, 0xC1001000] ∧ ret ≠ 0 ∧
      s2.pages_freed = [(0xC1002000, 0), (0xC1003000, 0)] := by
  obtain ⟨s1, hs1, -, -, -, h⟩ := kmem_cache_shrink_trailing slab_env_ex kmem_state_ex11
    0xC0300100 (by decide)
  have e : s1 = kmem_state_ex11 := by
    have : drain_cpu_caches slab_env_ex kmem_state_ex11 0xC0300100 = some kmem_state_ex11 := rfl
    rw [this] at hs1
    exact (Option.some.inj hs1).symm
  subst e
  obtain ⟨s2, ret, keep, gone, h1, h2, h3, h4, h5, -, h7, h8, -⟩ := h (by decide) (by decide)
    (fun hoff => absurd hoff (by decide))
  have hk : keep = [0xC1000000, 0xC1001000] :=
    split_at_empties (fun x => (kmem_state_ex11.slab x).inuse = 0) keep gone
      [0xC1000000, 0xC1001000] [0xC1002000, 0xC1003000] h2.symm (by decide) (by decide) h3 h4
  have hgo : gone = [0xC1002000, 0xC1003000] := by
    rw [hk] at h2
    have h2a : [0xC1000000, 0xC1001000] ++ [0xC1002000, 0xC1003000] =
        [0xC1000000, 0xC1001000] ++ gone := h2
    exact (List.append_cancel_left h2a).symm
  refine ⟨s2, ret, h1, h5.trans hk, ?_, ?_⟩
  · intro h0
    have := h8.mp h0
    rw [h5, hk] at this
    cases this
  · rw [h7, hgo]
    rfl
/-! ## Theorems: `kmem_cache_reap` -/

theorem shrink_next_snoc (s : kmem_state) (cachep : Nat) (a : List Nat) (z : Nat)
    (hg : (s.cache cachep).growing = 0) (hl : (s.cache cachep).slabs = a ++ [z])
    (hz : (s.slab z).inuse = 0) : shrink_next s cachep = some z := by
  unfold shrink_next
  rw [if_neg (not_not.mpr hg), hl]
  simp only [list_prev, getLast_snoc]
  rw [if_neg (not_not.mpr hz)]

theorem reap_free_loop_char (env : slab_env) (cachep : Nat) (L0 : List Nat)
    (P : kmem_state → Prop)
    (hstep : ∀ t slabp, P t → slabp ∈ L0 →
      ∃ t', kmem_slab_destroy env (slab_unlink t cachep slabp) cachep slabp = some t' ∧
        t'.cache cachep = (slab_unlink t cachep slabp).cache cachep ∧
        (∀ x ∈ L0, t'.slab x = t.slab x) ∧
        t'.pages_freed =
          (((t.slab slabp).s_mem + ULONG - (t.slab slabp).colouroff % ULONG) % ULONG,
            (t.cache cachep).gfporder) :: t.pages_freed ∧
        P t') :
    ∀ (m : Nat) (s : kmem_state) (keep gone : List Nat), P s →
      (s.cache cachep).growing = 0 → (s.cache cachep).slabs = keep ++ gone →
      (s.cache cachep).slabs.Nodup → (∀ x ∈ gone, (s.slab x).inuse = 0) →
      m ≤ gone.length → (∀ x ∈ (s.cache cachep).slabs, x ∈ L0) →
      ∃ s', reap_free_loop env cachep m s = some s' ∧
        (s'.cache cachep).slabs = keep ++ gone.take (gone.length - m) ∧
        (∀ x ∈ L0, s'.slab x = s.slab x) ∧
        s'.pages_freed = (gone.drop (gone.length - m)).map (fun x =>
          (((s.slab x).s_mem + ULONG - (s.slab x).colouroff % ULONG) % ULONG,
            (s.cache cachep).gfporder)) ++ s.pages_freed := by
  intro m
  induction m with
  | zero =>
    intro s keep gone _ _ hl _ _ _ _
    refine ⟨s, rfl, ?_, fun _ _ => rfl, ?_⟩
    · rw [Nat.sub_zero, List.take_length]; exact hl
    · rw [Nat.sub_zero, List.drop_length]; rfl
  | succ m ih =>
    intro s keep gone hP hg hl hnd hgone hm hsub
    rcases list_nil_or_snoc gone with hnil | ⟨g, z, hz⟩
    · rw [hnil] at hm; simp at hm
    · subst hz
      have hl2 : (s.cache cachep).slabs = (keep ++ g) ++ [z] := by
        rw [hl, List.append_assoc]
      have hz0 : (s.slab z).inuse = 0 := hgone z (by simp)
      have hnext := shrink_next_snoc s cachep (keep ++ g) z hg hl2 hz0
      have hna : z ∉ keep ++ g := nodup_snoc_not_mem _ z (hl2 ▸ hnd)
      have hmem : z ∈ L0 := hsub z (by rw [hl2]; simp)
      obtain ⟨t', hd, hc, hsl, hpf, hP'⟩ := hstep s z hP hmem
      have hc1 : t'.cache cachep = { s.cache cachep with
          slabs := keep ++ g
          firstnotfull := if (s.cache cachep).firstnotfull = some z then none
            else (s.cache cachep).firstnotfull } := by
        rw [hc]
        simp only [slab_unlink, upd_same]
        rw [hl2, list_del_snoc _ z hna]
      have hsuba : ∀ x ∈ keep ++ g, x ∈ L0 := fun x hx => hsub x (by rw [hl2]; exact List.mem_append_left _ hx)
      have hnda : (keep ++ g).Nodup := by
        rw [hl2] at hnd
        exact (List.nodup_append.mp hnd).1
      have hlen : (g ++ [z]).length = g.length + 1 := by simp
      rw [hlen] at hm
      obtain ⟨s', hs', h1, h2, h3⟩ := ih t' keep g hP' (by rw [hc1]; exact hg)
        (by rw [hc1]) (by rw [hc1]; exact hnda)
        (fun x hx => by
          rw [hsl x (hsuba x (List.mem_append_right _ hx))]
          exact hgone x (List.mem_append_left _ hx))
        (by omega) (by rw [hc1]; exact hsuba)
      have hk : g.length + 1 - (m + 1) = g.length - m := by omega
      have hk2 : g.length - m ≤ g.length := Nat.sub_le _ _
      refine ⟨s', ?_, ?_, fun x hx => (h2 x hx).trans (hsl x hx), ?_⟩
      · rw [reap_free_loop, hnext]
        dsimp only
        rw [hd]
        exact hs'
      · rw [h1, hlen, hk, List.take_append_of_le_length hk2]
      · rw [h3, hpf, hlen, hk, List.drop_append_of_le_length hk2, List.map_append,
          List.append_assoc, hc1]
        congr 1
        apply List.map_congr_left
        intro x hx
        rw [hsl x (hsuba x (List.mem_append_right _ (List.mem_of_mem_drop hx)))]
/-- C36. At the label `perfect` of `kmem_cache_reap`, in the state `S` with
the chosen cache `best` not growing, its list free of repetitions and ending
with the `n` slabs `gone`, none with an object in use (for a cache with its
descriptors off the slab, these lying apart from its slabs): the loop takes
`(4 * n + 1) / 5` slabs off the tail of the list, one by one, and gives their
pages back.  The slabs before `gone` and the first `n - (4 * n + 1) / 5` of
`gone` stay on the list, so every slab with an object in use stays; the
descriptors of the slabs of the list are left as they are.  When the scan of
`kmem_cache_reap` ends in `S` with `best` and `n`, this is the state the
function returns. -/
theorem reap_destroys_four_fifths (env : slab_env) (S : kmem_state) (best n : Nat)
    (keep gone : List Nat) (gfp_mask : Nat)
    (hg : (S.cache best).growing = 0)
    (hl : (S.cache best).slabs = keep ++ gone)
    (hgone : ∀ x ∈ gone, (S.slab x).inuse = 0)
    (hn : gone.length = n)
    (hnd : (S.cache best).slabs.Nodup)
    (hoff : (S.cache best).flags &&& CFLGS_OFF_SLAB ≠ 0 →
      offslab_apart env S best (S.cache best).slabs)
    (hw : n * 4 + 1 < ULONG) :
    ∃ S2, reap_free_loop env best (((n * 4 + 1) % ULONG) / 5) S = some S2 ∧
      (S2.cache best).slabs = keep ++ gone.take (n - (4 * n + 1) / 5) ∧
      (S2.cache best).slabs.length + (4 * n + 1) / 5 = (S.cache best).slabs.length ∧
      S2.pages_freed = (gone.drop (n - (4 * n + 1) / 5)).map (fun x =>
        (((S.slab x).s_mem + ULONG - (S.slab x).colouroff % ULONG) % ULONG,
          (S.cache best).gfporder)) ++ S.pages_freed ∧
      (∀ x ∈ (S.cache best).slabs, S2.slab x = S.slab x) ∧
      (∀ x ∈ (S.cache best).slabs, (S.slab x).inuse ≠ 0 → x ∈ (S2.cache best).slabs) ∧
      (∀ s bp log, reap_scan env REAP_SCANLEN s.clock_searchp
          { best_cachep := none, best_len := 0, best_pages := 0 } s [] =
            some (S, { best_cachep := some best, best_len := n, best_pages := bp }, log) →
        kmem_cache_reap env s gfp_mask = some S2) := by
  have hm : ((n * 4 + 1) % ULONG) / 5 = (4 * n + 1) / 5 := by
    rw [Nat.mod_eq_of_lt hw, Nat.mul_comm]
  have hle : (4 * n + 1) / 5 ≤ gone.length := by rw [hn]; omega
  have hloop : ∃ S2, reap_free_loop env best ((4 * n + 1) / 5) S = some S2 ∧
      (S2.cache best).slabs = keep ++ gone.take (gone.length - (4 * n + 1) / 5) ∧
      (∀ x ∈ (S.cache best).slabs, S2.slab x = S.slab x) ∧
      S2.pages_freed = (gone.drop (gone.length - (4 * n + 1) / 5)).map (fun x =>
        (((S.slab x).s_mem + ULONG - (S.slab x).colouroff % ULONG) % ULONG,
          (S.cache best).gfporder)) ++ S.pages_freed := by
    by_cases hon : (S.cache best).flags &&& CFLGS_OFF_SLAB = 0
    · exact reap_free_loop_char env best (S.cache best).slabs
        (fun t => (t.cache best).flags &&& CFLGS_OFF_SLAB = 0)
        (fun t slabp hP _ => by
          obtain ⟨t', a1, a2, a3, a4, a5, _⟩ := destroy_step_onslab env best t slabp hP
          exact ⟨t', a1, a2, fun x _ => by rw [a3], a4, a5⟩)
        ((4 * n + 1) / 5) S keep gone hon hg hl hnd hgone hle (fun _ hx => hx)
    · exact reap_free_loop_char env best (S.cache best).slabs
        (fun t => (t.cache best).flags &&& CFLGS_OFF_SLAB ≠ 0 ∧
          offslab_apart env t best (S.cache best).slabs)
        (fun t slabp hP hm =>
          destroy_step_offslab env best (S.cache best).slabs t slabp hP.1 hP.2 hm)
        ((4 * n + 1) / 5) S keep gone ⟨hon, hoff hon⟩ hg hl hnd hgone hle (fun _ hx => hx)
  obtain ⟨S2, h1, h2, h3, h4⟩ := hloop
  rw [hn] at h2 h4
  refine ⟨S2, by rw [hm]; exact h1, h2, ?_, h4, h3, ?_, ?_⟩
  · rw [h2, hl, List.length_append, List.length_append, List.length_take, hn]
    omega
  · intro x hx hin
    rw [h2]
    rw [hl] at hx
    rcases List.mem_append.mp hx with hx | hx
    · exact List.mem_append_left _ hx
    · exact absurd (hgone x hx) hin
  · intro s bp log hscan
    unfold kmem_cache_reap
    rw [hscan]
    dsimp only
    rw [hm]
    exact h1
theorem kmem_state_ex12_scan :
    reap_scan slab_env_ex REAP_SCANLEN kmem_state_ex12.clock_searchp
      { best_cachep := none, best_len := 0, best_pages := 0 } kmem_state_ex12 [] =
      some (kmem_state_ex12, { best_cachep := some 0xC0300200, best_len := 7, best_pages := 7 },
        [(0xC0300000, none), (0xC0300100, some (5, 6)), (0xC0300200, some (7, 7))]) := by
  rfl

/-- Witness for C36: in `kmem_state_ex12` the scan chooses the cache at
`0xC0300200` with its seven free slabs; `kmem_cache_reap` takes
`(4 * 7 + 1) / 5 = 5` of them off the tail, and the first two stay. -/
theorem reap_destroys_four_fifths_witness :
    ∃ S2, kmem_cache_reap slab_env_ex kmem_state_ex12 0 = some S2 ∧
      (S2.cache 0xC0300200).slabs = [0xC1010000, 0xC1011000] ∧
      S2.pages_freed.length = 5 := by
  obtain ⟨S2, -, h2, -, h4, -, -, h7⟩ := reap_destroys_four_fifths slab_env_ex kmem_state_ex12
    0xC0300200 7 []
    [0xC1010000, 0xC1011000, 0xC1012000, 0xC1013000, 0xC1014000, 0xC1015000, 0xC1016000] 0
    (by decide) (by decide) (by decide) (by decide) (by decide)
    (fun hoff => absurd hoff (by decide)) (by decide)
  refine ⟨S2, h7 kmem_state_ex12 7 _ kmem_state_ex12_scan, h2, ?_⟩
  rw [h4]
  rfl
theorem chain_next_congr (env : slab_env) (s s2 : kmem_state)
    (h : s2.cache_chain = s.cache_chain) (x : Nat) : chain_next env s2 x = chain_next env s x := by
  unfold chain_next
  rw [h]

theorem reap_visit_grown (env : slab_env) (s : kmem_state) (x : Nat)
    (hG : reap_passes env (s.cache x) ∨ (s.cache x).dflags &&& DFLGS_GROWN ≠ 0) :
    (reap_passes env (s.cache x) ∧ reap_visit env s x = some (s, none)) ∨
    (¬ reap_passes env (s.cache x) ∧
      reap_visit env s x =
        some ({ s with cache := upd s.cache x (clear_grown (s.cache x)) }, none)) := by
  unfold reap_visit
  dsimp only
  by_cases h1 : (s.cache x).flags &&& env.cfg.SLAB_NO_REAP ≠ 0
  · rw [if_pos h1]; exact Or.inl ⟨Or.inl h1, rfl⟩
  · rw [if_neg h1]
    by_cases h2 : (s.cache x).growing ≠ 0
    · rw [if_pos h2]; exact Or.inl ⟨Or.inr h2, rfl⟩
    · rw [if_neg h2]
      have h3 : (s.cache x).dflags &&& DFLGS_GROWN ≠ 0 := by
        rcases hG with h | h
        · rcases h with h | h
          · exact absurd h h1
          · exact absurd h h2
        · exact h
      rw [if_pos h3]
      refine Or.inr ⟨?_, rfl⟩
      intro h
      rcases h with h | h
      · exact h1 h
      · exact h2 h
theorem reap_visit_grown_frame (env : slab_env) (t : kmem_state) (x : Nat)
    (hG : reap_passes env (t.cache x) ∨ (t.cache x).dflags &&& DFLGS_GROWN ≠ 0) :
    ∃ t1, reap_visit env t x = some (t1, none) ∧ t1.cache_chain = t.cache_chain ∧
      t1.clock_searchp = t.clock_searchp ∧ t1.slab = t.slab ∧
      t1.pages_freed = t.pages_freed ∧ t1.cpucache = t.cpucache ∧
      (∀ y, y ≠ x → t1.cache y = t.cache y) ∧
      (reap_passes env (t.cache x) → t1.cache x = t.cache x) ∧
      (¬ reap_passes env (t.cache x) → t1.cache x = clear_grown (t.cache x)) := by
  rcases reap_visit_grown env t x hG with ⟨hp, hv⟩ | ⟨hp, hv⟩
  · exact ⟨t, hv, rfl, rfl, rfl, rfl, rfl, fun _ _ => rfl, fun _ => rfl, fun h => absurd hp h⟩
  · refine ⟨_, hv, rfl, rfl, rfl, rfl, rfl, fun y hy => upd_other _ _ _ _ hy,
      fun h => absurd h hp, fun _ => upd_same _ _ _⟩

theorem reap_scan_grown (env : slab_env) (t0 : kmem_state) (b : reap_best) :
    ∀ (d N x : Nat) (t : kmem_state) (log : List (Nat × Option (Nat × Nat))),
      t.cache_chain = t0.cache_chain →
      (∀ j, j < d + 1 → reap_passes env (t.cache ((chain_next env t0)^[j] x)) ∨
        (t.cache ((chain_next env t0)^[j] x)).dflags &&& DFLGS_GROWN ≠ 0) →
      (∀ i j, i < j → j < d + 1 → (chain_next env t0)^[i] x ≠ (chain_next env t0)^[j] x) →
      (N ≤ d ∨ (chain_next env t0)^[d + 1] x = t.clock_searchp) →
      ∃ S k, 1 ≤ k ∧ k ≤ d + 1 ∧ k ≤ N + 1 ∧
        reap_scan env (N + 1) x b t log =
          some (S, b, log ++ (List.range k).map (fun j => ((chain_next env t0)^[j] x, none))) ∧
        S.clock_searchp = (chain_next env t0)^[k] x ∧
        (k = N + 1 ∨ (chain_next env t0)^[k] x = t.clock_searchp) ∧
        (∀ j, 1 ≤ j → j < k → (chain_next env t0)^[j] x ≠ t.clock_searchp) ∧
        S.slab = t.slab ∧ S.pages_freed = t.pages_freed ∧ S.cpucache = t.cpucache ∧
        S.cache_chain = t.cache_chain ∧
        (∀ j, j < k → reap_passes env (t.cache ((chain_next env t0)^[j] x)) →
          S.cache ((chain_next env t0)^[j] x) = t.cache ((chain_next env t0)^[j] x)) ∧
        (∀ j, j < k → ¬ reap_passes env (t.cache ((chain_next env t0)^[j] x)) →
          S.cache ((chain_next env t0)^[j] x) =
            clear_grown (t.cache ((chain_next env t0)^[j] x))) ∧
        (∀ y, (∀ j, j < k → y ≠ (chain_next env t0)^[j] x) → S.cache y = t.cache y) := by
  have hone : ∀ (N x : Nat) (t : kmem_state) (log : List (Nat × Option (Nat × Nat))) (d : Nat),
      t.cache_chain = t0.cache_chain →
      (reap_passes env (t.cache x) ∨ (t.cache x).dflags &&& DFLGS_GROWN ≠ 0) →
      (N = 0 ∨ chain_next env t0 x = t.clock_searchp) →
      ∃ S k, 1 ≤ k ∧ k ≤ d + 1 ∧ k ≤ N + 1 ∧
        reap_scan env (N + 1) x b t log =
          some (S, b, log ++ (List.range k).map (fun j => ((chain_next env t0)^[j] x, none))) ∧
        S.clock_searchp = (chain_next env t0)^[k] x ∧
        (k = N + 1 ∨ (chain_next env t0)^[k] x = t.clock_searchp) ∧
        (∀ j, 1 ≤ j → j < k → (chain_next env t0)^[j] x ≠ t.clock_searchp) ∧
        S.slab = t.slab ∧ S.pages_freed = t.pages_freed ∧ S.cpucache = t.cpucache ∧
        S.cache_chain = t.cache_chain ∧
        (∀ j, j < k → reap_passes env (t.cache ((chain_next env t0)^[j] x)) →
          S.cache ((chain_next env t0)^[j] x) = t.cache ((chain_next env t0)^[j] x)) ∧
        (∀ j, j < k → ¬ reap_passes env (t.cache ((chain_next env t0)^[j] x)) →
          S.cache ((chain_next env t0)^[j] x) =
            clear_grown (t.cache ((chain_next env t0)^[j] x))) ∧
        (∀ y, (∀ j, j < k → y ≠ (chain_next env t0)^[j] x) → S.cache y = t.cache y) := by
    intro N x t log d hch hG hstop
    obtain ⟨t1, hv, c1, c2, c3, c4, c5, c6, c7, c8⟩ := reap_visit_grown_frame env t x hG
    have hnx : chain_next env t1 x = chain_next env t0 x :=
      chain_next_congr env t0 t1 (c1.trans hch) x
    refine ⟨{ t1 with clock_searchp := chain_next env t1 x }, 1, Nat.le_refl _, by omega,
      by omega, ?_, ?_, ?_, ?_, c3, c4, c5, c1, ?_, ?_, ?_⟩
    · rw [reap_scan, hv]
      dsimp only
      rw [show reap_is_perfect (t1.cache x) none b = false from rfl]
      rw [if_neg (by decide), if_pos (by
        rcases hstop with h | h
        · exact Or.inl h
        · exact Or.inr (by rw [hnx, c2]; exact h))]
      rfl
    · show chain_next env t1 x = _
      rw [hnx]
      rfl
    · rcases hstop with h | h
      · exact Or.inl (by omega)
      · exact Or.inr h
    · intro j h1 h2; omega
    · intro j hj hp
      have : j = 0 := by omega
      subst this
      exact c7 hp
    · intro j hj hp
      have : j = 0 := by omega
      subst this
      exact c8 hp
    · intro y hy
      exact c6 y (hy 0 (Nat.lt_succ_self 0))
  intro d
  induction d with
  | zero =>
    intro N x t log hch hG _ hclose
    exact hone N x t log 0 hch (hG 0 (Nat.lt_succ_self 0)) (by
      rcases hclose with h | h
      · exact Or.inl (by omega)
      · exact Or.inr h)
  | succ d ih =>
    intro N x t log hch hG hdist hclose
    by_cases hstop : N = 0 ∨ chain_next env t0 x = t.clock_searchp
    · exact hone N x t log (d + 1) hch (hG 0 (Nat.succ_pos _)) hstop
    · obtain ⟨N', rfl⟩ : ∃ N', N = N' + 1 := ⟨N - 1, by
        have : N ≠ 0 := fun h => hstop (Or.inl h)
        omega⟩
      obtain ⟨t1, hv, c1, c2, c3, c4, c5, c6, c7, c8⟩ := reap_visit_grown_frame env t x
        (hG 0 (Nat.succ_pos _))
      have hnx : chain_next env t1 x = chain_next env t0 x :=
        chain_next_congr env t0 t1 (c1.trans hch) x
      have hne : ∀ j, j < d + 1 → (chain_next env t0)^[j] (chain_next env t0 x) ≠ x := by
        intro j hj e
        rw [← Function.iterate_succ_apply] at e
        exact hdist 0 (j + 1) (Nat.succ_pos _) (by omega) e.symm
      obtain ⟨S, k, k1, k2, k2b, k3, k4, k5, k6, k7, k8, k9, k10, k11, k12, k13⟩ :=
        ih N' (chain_next env t0 x) t1 (log ++ [(x, none)]) (c1.trans hch)
          (fun j hj => by
            rw [c6 _ (hne j hj), ← Function.iterate_succ_apply]
            exact hG (j + 1) (by omega))
          (fun i j hij hj => by
            rw [← Function.iterate_succ_apply, ← Function.iterate_succ_apply]
            exact hdist (i + 1) (j + 1) (by omega) (by omega))
          (by
            rcases hclose with h | h
            · exact Or.inl (by omega)
            · exact Or.inr (by rw [← Function.iterate_succ_apply, c2]; exact h))
      refine ⟨S, k + 1, by omega, by omega, by omega, ?_, ?_, ?_, ?_, k7.trans c3,
        k8.trans c4, k9.trans c5, k10.trans c1, ?_, ?_, ?_⟩
      · rw [reap_scan, hv]
        dsimp only
        rw [show reap_is_perfect (t1.cache x) none b = false from rfl]
        rw [if_neg (by decide), if_neg (by
          intro h
          rcases h with h | h
          · exact absurd h (Nat.succ_ne_zero N')
          · rw [hnx, c2] at h; exact hstop (Or.inr h))]
        rw [hnx]
        show reap_scan env (N' + 1) (chain_next env t0 x) b t1 (log ++ [(x, none)]) = _
        rw [k3, List.append_assoc, List.range_succ_eq_map, List.map_cons, List.map_map]
        rfl
      · rw [k4, Function.iterate_succ_apply]
      · rcases k5 with h | h
        · exact Or.inl (by omega)
        · exact Or.inr (by rw [Function.iterate_succ_apply, h, c2])
      · intro j h1 h2
        rcases Nat.eq_or_lt_of_le h1 with h | h
        · rw [← h]; exact fun e => hstop (Or.inr e)
        · obtain ⟨j', rfl⟩ : ∃ j', j = j' + 1 := ⟨j - 1, by omega⟩
          rw [Function.iterate_succ_apply, ← c2]
          exact k6 j' (by omega) (by omega)
      · intro j hj hp
        cases j with
        | zero =>
          show S.cache x = t.cache x
          rw [k13 x (fun j hj => (hne j (by omega)).symm)]
          exact c7 hp
        | succ j =>
          rw [Function.iterate_succ_apply] at hp ⊢
          rw [← c6 _ (hne j (by omega))] at hp ⊢
          exact k11 j (by omega) hp
      · intro j hj hp
        cases j with
        | zero =>
          show S.cache x = clear_grown (t.cache x)
          rw [k13 x (fun j hj => (hne j (by omega)).symm)]
          exact c8 hp
        | succ j =>
          rw [Function.iterate_succ_apply] at hp ⊢
          rw [← c6 _ (hne j (by omega))] at hp ⊢
          exact k12 j (by omega) hp
      · intro y hy
        rw [k13 y (fun j hj => by
          rw [← Function.iterate_succ_apply]
          exact hy (j + 1) (by omega))]
        exact c6 y (hy 0 (Nat.succ_pos _))
theorem chain_next_rot (env : slab_env) (s : kmem_state) (p q : List Nat) (x : Nat)
    (hR : env.cache_cache :: s.cache_chain = p ++ x :: q)
    (hnd : (env.cache_cache :: s.cache_chain).Nodup) :
    (q ++ p ++ [x]).head? = some (chain_next env s x) := by
  cases p with
  | nil =>
    simp only [List.nil_append, List.cons.injEq] at hR
    obtain ⟨hx, hq⟩ := hR
    subst hx
    unfold chain_next
    rw [if_pos rfl, hq]
    cases q <;> rfl
  | cons c p2 =>
    simp only [List.cons_append, List.cons.injEq] at hR
    obtain ⟨hc, hch⟩ := hR
    have hnc : env.cache_cache ∉ s.cache_chain := (List.nodup_cons.mp hnd).1
    have hnd2 : s.cache_chain.Nodup := (List.nodup_cons.mp hnd).2
    have hxm : x ∈ s.cache_chain := by rw [hch]; simp
    have hne : x ≠ env.cache_cache := fun e => hnc (e ▸ hxm)
    have hnot : x ∉ p2 := by
      intro h
      rw [hch] at hnd2
      exact (List.nodup_append.mp hnd2).2.2 h (List.mem_cons_self _ _)
    unfold chain_next
    rw [if_neg hne, hch, list_next_mid p2 q x hnot, ← hc]
    cases q <;> rfl

theorem chain_walk_rot (env : slab_env) (s : kmem_state)
    (hnd : (env.cache_cache :: s.cache_chain).Nodup) :
    ∀ (j : Nat) (p q : List Nat) (x : Nat), env.cache_cache :: s.cache_chain = p ++ x :: q →
      ((x :: (q ++ p)).rotate j).head? = some ((chain_next env s)^[j] x) := by
  intro j
  induction j with
  | zero => intro p q x _; rfl
  | succ j ih =>
    intro p q x hR
    have h1 := chain_next_rot env s p q x hR hnd
    have hrot : (x :: (q ++ p)).rotate (j + 1) = (q ++ p ++ [x]).rotate j := by
      rw [Nat.add_comm, ← List.rotate_rotate, List.rotate_cons_succ, List.rotate_zero]
    rw [Function.iterate_succ_apply, hrot]
    cases q with
    | nil =>
      cases p with
      | nil =>
        simp only [List.append_nil, List.nil_append, List.head?_cons, Option.some.injEq] at h1
        rw [← h1]
        exact ih [] [] x hR
      | cons y p2 =>
        simp only [List.nil_append, List.cons_append, List.head?_cons, Option.some.injEq] at h1
        rw [← h1]
        have := ih [] (p2 ++ [x]) y (by rw [hR]; simp)
        simpa using this
    | cons y q2 =>
      simp only [List.cons_append, List.head?_cons, Option.some.injEq] at h1
      rw [← h1]
      have := ih (p ++ [x]) q2 y (by rw [hR]; simp)
      simpa using this

theorem chain_walk_ring (env : slab_env) (s : kmem_state)
    (hnd : (env.cache_cache :: s.cache_chain).Nodup) (x : Nat)
    (hx : x ∈ env.cache_cache :: s.cache_chain) :
    (chain_next env s)^[s.cache_chain.length + 1] x = x ∧
    ∀ i j, i < j → j < s.cache_chain.length + 1 →
      (chain_next env s)^[i] x ≠ (chain_next env s)^[j] x := by
  obtain ⟨p, q, hR⟩ := List.append_of_mem hx
  have hlen : (x :: (q ++ p)).length = s.cache_chain.length + 1 := by
    have := congrArg List.length hR
    simp only [List.length_cons, List.length_append] at this ⊢
    omega
  have hndW : (x :: (q ++ p)).Nodup := by
    rw [hR] at hnd
    have hperm : (p ++ x :: q).Perm (x :: (q ++ p)) := by
      refine List.perm_middle.trans (List.Perm.cons x List.perm_append_comm)
    exact (List.Perm.nodup_iff hperm).mp hnd
  have hw := chain_walk_rot env s hnd
  refine ⟨?_, ?_⟩
  · have := hw (s.cache_chain.length + 1) p q x hR
    rw [← hlen, List.rotate_length] at this
    simp only [List.head?_cons, Option.some.injEq] at this
    rw [hlen] at this
    exact this.symm
  · intro i j hij hj e
    have hi := hw i p q x hR
    have hjj := hw j p q x hR
    rw [List.head?_rotate (by rw [hlen]; omega)] at hi hjj
    rw [e] at hi
    have h2 := hi.trans hjj.symm
    rw [List.getElem?_eq_getElem (by rw [hlen]; omega),
      List.getElem?_eq_getElem (by rw [hlen]; omega)] at h2
    have h3 := (List.Nodup.getElem_inj_iff hndW).mp (Option.some.inj h2)
    omega
theorem clear_grown_bit (c : kmem_cache_t) : (clear_grown c).dflags &&& DFLGS_GROWN = 0 := by
  show c.dflags &&& (ULONG - 1 - DFLGS_GROWN) &&& DFLGS_GROWN = 0
  rw [Nat.land_assoc, show (ULONG - 1 - DFLGS_GROWN) &&& DFLGS_GROWN = 0 from by decide]
  exact Nat.and_zero _

/-- C37. `kmem_cache_reap` in a state where `DFLGS_GROWN` is set on every
cache, the chain is free of repetitions and `clock_searchp` points at a cache
of the chain: the function returns; the scan visits the `k` caches that follow
one another from `clock_searchp` on, where `k` is `REAP_SCANLEN = 10` or the
number of caches, whichever is less, and it chooses none; no slab is taken
off a list or touched and no page is given back; of the caches visited, those
that are neither `SLAB_NO_REAP` nor growing have `DFLGS_GROWN` cleared and
those that are `SLAB_NO_REAP` or growing are left as they are, as are the
caches not visited; and `clock_searchp` ends `k` caches further on. -/
theorem reap_all_grown (env : slab_env) (s : kmem_state) (gfp_mask : Nat)
    (hG : ∀ x, (s.cache x).dflags &&& DFLGS_GROWN ≠ 0)
    (hnd : (env.cache_cache :: s.cache_chain).Nodup)
    (hc : s.clock_searchp ∈ env.cache_cache :: s.cache_chain) :
    ∃ S k, kmem_cache_reap env s gfp_mask = some S ∧
      1 ≤ k ∧ k ≤ REAP_SCANLEN ∧ k ≤ s.cache_chain.length + 1 ∧
      (k = REAP_SCANLEN ∨ k = s.cache_chain.length + 1) ∧
      (∃ b, reap_scan env REAP_SCANLEN s.clock_searchp
          { best_cachep := none, best_len := 0, best_pages := 0 } s [] =
            some (S, b, (List.range k).map
              (fun j => ((chain_next env s)^[j] s.clock_searchp, none))) ∧
        b.best_cachep = none) ∧
      (∀ i j, i < j → j < k →
        (chain_next env s)^[i] s.clock_searchp ≠ (chain_next env s)^[j] s.clock_searchp) ∧
      S.clock_searchp = (chain_next env s)^[k] s.clock_searchp ∧
      S.slab = s.slab ∧ S.pages_freed = s.pages_freed ∧ S.cpucache = s.cpucache ∧
      S.cache_chain = s.cache_chain ∧
      (∀ x, (S.cache x).slabs = (s.cache x).slabs) ∧
      (∀ j, j < k → ¬ reap_passes env (s.cache ((chain_next env s)^[j] s.clock_searchp)) →
        S.cache ((chain_next env s)^[j] s.clock_searchp) =
          clear_grown (s.cache ((chain_next env s)^[j] s.clock_searchp)) ∧
        (S.cache ((chain_next env s)^[j] s.clock_searchp)).dflags &&& DFLGS_GROWN = 0) ∧
      (∀ j, j < k → reap_passes env (s.cache ((chain_next env s)^[j] s.clock_searchp)) →
        S.cache ((chain_next env s)^[j] s.clock_searchp) =
          s.cache ((chain_next env s)^[j] s.clock_searchp)) ∧
      (∀ y, (∀ j, j < k → y ≠ (chain_next env s)^[j] s.clock_searchp) →
        S.cache y = s.cache y) := by
  obtain ⟨r1, r2⟩ := chain_walk_ring env s hnd s.clock_searchp hc
  obtain ⟨S, k, k1, k2, k2b, k3, k4, k5, k6, k7, k8, k9, k10, k11, k12, k13⟩ :=
    reap_scan_grown env s { best_cachep := none, best_len := 0, best_pages := 0 }
      s.cache_chain.length 9 s.clock_searchp s [] rfl (fun j _ => Or.inr (hG _)) r2
      (Or.inr r1)
  rw [List.nil_append] at k3
  have k3 : reap_scan env REAP_SCANLEN s.clock_searchp
      { best_cachep := none, best_len := 0, best_pages := 0 } s [] =
      some (S, { best_cachep := none, best_len := 0, best_pages := 0 },
        (List.range k).map (fun j => ((chain_next env s)^[j] s.clock_searchp, none))) := k3
  have hk : k = REAP_SCANLEN ∨ k = s.cache_chain.length + 1 := by
    rcases k5 with h | h
    · exact Or.inl h
    · refine Or.inr ?_
      rcases Nat.eq_or_lt_of_le k2 with e | e
      · exact e
      · exact absurd h.symm (r2 0 k (by omega) e)
  refine ⟨S, k, ?_, k1, k2b, k2, hk, ⟨_, k3, rfl⟩, fun i j hij hj => r2 i j hij (by omega),
    k4, k7, k8, k9, k10, ?_, ?_, k11, k13⟩
  · unfold kmem_cache_reap
    rw [k3]
  · intro x
    by_cases hx : ∃ j, j < k ∧ x = (chain_next env s)^[j] s.clock_searchp
    · obtain ⟨j, hj, e⟩ := hx
      rw [e]
      by_cases hp : reap_passes env (s.cache ((chain_next env s)^[j] s.clock_searchp))
      · rw [k11 j hj hp]
      · rw [k12 j hj hp]
        rfl
    · rw [k13 x (fun j hj e => hx ⟨j, hj, e⟩)]
  · intro j hj hp
    refine ⟨k12 j hj hp, ?_⟩
    rw [k12 j hj hp]
    exact clear_grown_bit _
theorem kmem_state_ex14_grown : ∀ x, (kmem_state_ex14.cache x).dflags &&& DFLGS_GROWN ≠ 0 := by
  intro x
  show 1 &&& DFLGS_GROWN ≠ 0
  decide

/-- Witness for C37: in `kmem_state_ex14` every cache has `DFLGS_GROWN` set;
`kmem_cache_reap` visits the three caches, gives no page back, clears the flag
of the cache at `0xC0300100`, leaves that of `cache_cache`, which is
`SLAB_NO_REAP`, and `clock_searchp` is back at `cache_cache`. -/
theorem reap_all_grown_witness :
    ∃ S, kmem_cache_reap slab_env_ex kmem_state_ex14 0 = some S ∧
      S.pages_freed = [] ∧ S.clock_searchp = 0xC0300000 ∧
      (S.cache 0xC0300100).dflags &&& DFLGS_GROWN = 0 ∧
      S.cache 0xC0300000 = kmem_state_ex14.cache 0xC0300000 := by
  obtain ⟨S, k, h1, h2, -, h4, h5, -, -, h8, -, h10, -, -, -, h14, h15, -⟩ :=
    reap_all_grown slab_env_ex kmem_state_ex14 0 kmem_state_ex14_grown (by decide) (by decide)
  have hk : k = 3 := by
    rcases h5 with h | h
    · rw [h] at h4
      exact absurd h4 (by decide)
    · exact h
  subst hk
  refine ⟨S, h1, h10, h8, ?_, ?_⟩
  · exact (h14 1 (by decide) (by unfold reap_passes; decide)).2
  · exact h15 0 (by decide) (by unfold reap_passes; decide)

/-- Counterexample for C37: in `kmem_state_ex14` every cache has `DFLGS_GROWN`
set; `kmem_cache_reap` visits `cache_cache` first, which is `SLAB_NO_REAP`,
and returns with `DFLGS_GROWN` still set on it. -/
theorem reap_no_reap_keeps_grown_counterexample :
    (∀ x, (kmem_state_ex14.cache x).dflags &&& DFLGS_GROWN ≠ 0) ∧
    (reap_scan slab_env_ex REAP_SCANLEN kmem_state_ex14.clock_searchp
      { best_cachep := none, best_len := 0, best_pages := 0 } kmem_state_ex14 []).map
        (fun r => r.2.2.map Prod.fst) = some [0xC0300000, 0xC0300100, 0xC0300200] ∧
    (kmem_cache_reap slab_env_ex kmem_state_ex14 0).map
      (fun S => ((S.cache 0xC0300000).dflags &&& DFLGS_GROWN,
        (S.cache 0xC0300100).dflags &&& DFLGS_GROWN)) = some (1, 0) := by
  refine ⟨?_, by decide, by decide⟩
  intro x
  show 1 &&& DFLGS_GROWN ≠ 0
  decide
/-! ## Theorems: the colour counter stays in order -/

theorem colour_keep_refl (s : kmem_state) : colour_keep s s := fun _ => ⟨rfl, id⟩

theorem colour_keep_trans (a b c : kmem_state) (h1 : colour_keep a b) (h2 : colour_keep b c) :
    colour_keep a c :=
  fun x => ⟨(h2 x).1.trans (h1 x).1, fun h => (h2 x).2 ((h1 x).2 h)⟩

theorem colour_keep_upd (s s2 : kmem_state) (cachep : Nat) (c : kmem_cache_t)
    (hc : s2.cache = upd s.cache cachep c) (h1 : c.colour = (s.cache cachep).colour)
    (h2 : c.colour_next = (s.cache cachep).colour_next) : colour_keep s s2 := by
  intro x
  rw [hc]
  by_cases hx : x = cachep
  · rw [hx, upd_same]
    refine ⟨h1, fun h => ?_⟩
    unfold colour_ok at h ⊢
    rw [h1, h2]
    exact h
  · rw [upd_other _ _ _ _ hx]
    exact ⟨rfl, id⟩

theorem alloc_one_tail_colour (s : kmem_state) (cachep slabp : Nat) :
    colour_keep s (kmem_cache_alloc_one_tail s cachep slabp).1 := by
  obtain ⟨fnf, hf⟩ := alloc_one_tail_form s cachep slabp
  rw [hf]
  exact colour_keep_upd s _ cachep _ rfl rfl rfl

theorem alloc_batch_loop_colour (cachep cc : Nat) :
    ∀ (n : Nat) (s : kmem_state), colour_keep s (alloc_batch_loop cachep cc n s) := by
  intro n
  induction n with
  | zero => intro s; exact colour_keep_refl s
  | succ n ih =>
    intro s
    rw [alloc_batch_loop]
    cases hf : (s.cache cachep).firstnotfull with
    | none => exact colour_keep_refl s
    | some slabp =>
      simp only []
      exact colour_keep_trans _ _ _ (alloc_one_tail_colour s cachep slabp) (ih _)

theorem alloc_pass_colour (env : slab_env) (s : kmem_state) (cachep : Nat) (s' : kmem_state)
    (r : Option Nat) (h : alloc_pass env s cachep = some (s', r)) : colour_keep s s' := by
  unfold alloc_pass at h
  by_cases hcc : (s.cache cachep).cpudata env.cpu ≠ 0
  · rw [if_pos hcc] at h
    dsimp only at h
    by_cases ha : (s.cpucache ((s.cache cachep).cpudata env.cpu)).avail ≠ 0
    · rw [if_pos ha] at h
      simp only [Option.some.injEq, Prod.mk.injEq] at h
      rw [← h.1]
      exact fun _ => ⟨rfl, id⟩
    · rw [if_neg ha] at h
      unfold kmem_cache_alloc_batch at h
      dsimp only at h
      by_cases hb : (s.cache cachep).batchcount > INT_MAX
      · rw [if_pos hb] at h; cases h
      · rw [if_neg hb] at h
        have hl := alloc_batch_loop_colour cachep ((s.cache cachep).cpudata env.cpu)
          (s.cache cachep).batchcount s
        by_cases hv : ((alloc_batch_loop cachep ((s.cache cachep).cpudata env.cpu)
            (s.cache cachep).batchcount s).cpucache
            ((s.cache cachep).cpudata env.cpu)).avail ≠ 0
        · rw [if_pos hv] at h
          dsimp only at h
          split at h
          · simp only [Option.some.injEq, Prod.mk.injEq] at h
            rw [← h.1]; exact hl
          · simp only [Option.some.injEq, Prod.mk.injEq] at h
            rw [← h.1]; exact hl
        · rw [if_neg hv] at h
          dsimp only at h
          rw [if_pos rfl] at h
          simp only [Option.some.injEq, Prod.mk.injEq] at h
          rw [← h.1]; exact hl
  · rw [if_neg hcc] at h
    unfold kmem_cache_alloc_one at h
    cases hf : (s.cache cachep).firstnotfull with
    | none =>
      rw [hf] at h
      simp only [Option.some.injEq, Prod.mk.injEq] at h
      rw [← h.1]; exact colour_keep_refl s
    | some slabp =>
      rw [hf] at h
      simp only [Option.some.injEq, Prod.mk.injEq] at h
      rw [← h.1]; exact alloc_one_tail_colour s cachep slabp

theorem grow_start_colour (s : kmem_state) (cachep : Nat) :
    colour_keep s (grow_start s cachep) := by
  obtain ⟨g1, -⟩ := grow_start_cache s cachep
  intro x
  by_cases hx : x = cachep
  · rw [hx, g1]
    refine ⟨rfl, fun h => ?_⟩
    obtain ⟨h1, h2⟩ := h
    exact ⟨h1, (colour_next_step (s.cache cachep).colour_next (s.cache cachep).colour 0 h1 h2).1⟩
  · have : (grow_start s cachep).cache x = s.cache x := by
      unfold grow_start kmem_getpages
      simp only [upd_other _ _ _ _ hx]
    rw [this]
    exact ⟨rfl, id⟩

theorem grow_failed_colour (s : kmem_state) (cachep : Nat) :
    colour_keep s (grow_failed s cachep) :=
  colour_keep_upd s _ cachep _ rfl rfl rfl

theorem grow_finish_colour (env : slab_env) (s2 : kmem_state) (cachep slabp objp : Nat) :
    colour_keep s2 (grow_finish env s2 cachep slabp objp) := by
  obtain ⟨hc, ho⟩ := grow_finish_cache env s2 cachep slabp objp
  intro x
  by_cases hx : x = cachep
  · rw [hx, hc]
    exact ⟨rfl, id⟩
  · rw [ho x hx]
    exact ⟨rfl, id⟩

theorem slabmgmt_colour (alloc : kmem_state → Nat → Nat → Option (kmem_state × Nat))
    (halloc : ∀ s c f s' r, alloc s c f = some (s', r) → colour_keep s s')
    (env : slab_env) (s : kmem_state) (cachep objp off lf : Nat) (s2 : kmem_state)
    (slabp : Nat) (h : kmem_cache_slabmgmt alloc env s cachep objp off lf = some (s2, slabp)) :
    colour_keep s s2 := by
  obtain ⟨s1, h1, h2⟩ := kmem_cache_slabmgmt_cases alloc env s cachep objp off lf s2 slabp h
  have hs1 : colour_keep s s1 := by
    rcases h1 with ⟨-, ha⟩ | ⟨-, he, -⟩
    · exact halloc _ _ _ _ _ ha
    · rw [he]; exact colour_keep_refl s
  rcases h2 with ⟨-, he⟩ | ⟨co, he, -⟩
  · rw [he]; exact hs1
  · rw [he]; exact hs1

theorem grow_colour (alloc : kmem_state → Nat → Nat → Option (kmem_state × Nat))
    (halloc : ∀ s c f s' r, alloc s c f = some (s', r) → colour_keep s s')
    (env : slab_env) (s : kmem_state) (cachep flags : Nat) (s' : kmem_state) (r : Nat)
    (h : kmem_cache_grow alloc env s cachep flags = some (s', r)) : colour_keep s s' := by
  rcases kmem_cache_grow_cases alloc env s cachep flags s' r h with
    ⟨he, -⟩ | ⟨-, he, -⟩ | ⟨-, -, s2, slabp, hm, hc⟩
  · rw [he]; exact colour_keep_refl s
  · rw [he]
    exact colour_keep_trans _ _ _ (grow_start_colour s cachep) (grow_failed_colour _ cachep)
  · have h2 := colour_keep_trans _ _ _ (grow_start_colour s cachep)
      (slabmgmt_colour alloc halloc env _ cachep _ _ _ s2 slabp hm)
    rcases hc with ⟨-, -, he⟩ | ⟨-, -, he⟩
    · rw [he]
      refine colour_keep_trans _ _ _ h2 (colour_keep_trans _ (kmem_freepages env s2 cachep _) _
        (fun _ => ⟨rfl, id⟩) (grow_failed_colour _ cachep))
    · rw [he]
      exact colour_keep_trans _ _ _ h2 (grow_finish_colour env s2 cachep slabp _)

theorem alloc_colour (env : slab_env) :
    ∀ (n : Nat) (s : kmem_state) (cachep flags : Nat) (s' : kmem_state) (r : Nat),
      __kmem_cache_alloc env n s cachep flags = some (s', r) → colour_keep s s' := by
  intro n
  induction n with
  | zero => intro s cachep flags s' r h; rw [__kmem_cache_alloc] at h; cases h
  | succ n ih =>
    intro s cachep flags s' r h
    rw [__kmem_cache_alloc] at h
    cases hp : alloc_pass env s cachep with
    | none => rw [hp] at h; cases h
    | some v =>
      obtain ⟨s1, o⟩ := v
      rw [hp] at h
      have h1 := alloc_pass_colour env s cachep s1 o hp
      cases o with
      | some objp =>
        simp only [Option.some.injEq, Prod.mk.injEq] at h
        rw [← h.1]; exact h1
      | none =>
        simp only [] at h
        cases hg : kmem_cache_grow (__kmem_cache_alloc env n) env s1 cachep flags with
        | none => rw [hg] at h; cases h
        | some w =>
          obtain ⟨s2, grew⟩ := w
          rw [hg] at h
          have h2 := grow_colour _ (ih) env s1 cachep flags s2 grew hg
          simp only [] at h
          by_cases hgz : grew ≠ 0
          · rw [if_pos hgz] at h
            exact colour_keep_trans _ _ _ (colour_keep_trans _ _ _ h1 h2) (ih _ _ _ _ _ h)
          · rw [if_neg hgz] at h
            simp only [Option.some.injEq, Prod.mk.injEq] at h
            rw [← h.1]
            exact colour_keep_trans _ _ _ h1 h2
theorem free_one_colour (env : slab_env) (s : kmem_state) (cachep objp : Nat)
    (s' : kmem_state) (h : kmem_cache_free_one env s cachep objp = some s') :
    colour_keep s s' := by
  obtain ⟨_, slabs, fnf, hform, _⟩ := free_one_form env s cachep objp s' h
  rw [hform]
  exact colour_keep_upd s _ cachep _ rfl rfl rfl

theorem free_block_loop_colour (env : slab_env) (cachep : Nat) (objpp : Nat → Nat) :
    ∀ (len i : Nat) (s s' : kmem_state), __free_block env cachep objpp len i s = some s' →
      colour_keep s s' := by
  intro len
  induction len with
  | zero =>
    intro i s s' h
    rw [__free_block] at h
    simp only [Option.some.injEq] at h
    rw [← h]; exact colour_keep_refl s
  | succ len ih =>
    intro i s s' h
    rw [__free_block] at h
    cases h1 : kmem_cache_free_one env s cachep (objpp i) with
    | none => rw [h1] at h; cases h
    | some s1 =>
      rw [h1] at h
      exact colour_keep_trans _ _ _ (free_one_colour env s cachep _ s1 h1) (ih _ _ _ h)

theorem free_block_colour (env : slab_env) (s : kmem_state) (cachep : Nat)
    (objpp : Nat → Nat) (len : Nat) (s' : kmem_state)
    (h : free_block env s cachep objpp len = some s') : colour_keep s s' := by
  unfold free_block at h
  by_cases hl : len > INT_MAX
  · rw [if_pos hl] at h
    simp only [Option.some.injEq] at h
    rw [← h]; exact colour_keep_refl s
  · rw [if_neg hl] at h
    exact free_block_loop_colour env cachep objpp len 0 s s' h

theorem cache_free_colour (env : slab_env) (s : kmem_state) (cachep p : Nat)
    (s' : kmem_state) (h : __kmem_cache_free env s cachep p = some s') :
    colour_keep s s' := by
  unfold __kmem_cache_free at h
  by_cases hcc : (s.cache cachep).cpudata env.cpu ≠ 0
  · rw [if_pos hcc] at h
    dsimp only at h
    by_cases ha : (s.cpucache ((s.cache cachep).cpudata env.cpu)).avail <
        (s.cpucache ((s.cache cachep).cpudata env.cpu)).limit
    · rw [if_pos ha] at h
      simp only [Option.some.injEq] at h
      rw [← h]
      exact fun _ => ⟨rfl, id⟩
    · rw [if_neg ha] at h
      cases hb : free_block env
          { s with
            cpucache := upd s.cpucache ((s.cache cachep).cpudata env.cpu)
              { s.cpucache ((s.cache cachep).cpudata env.cpu) with
                avail := ((s.cpucache ((s.cache cachep).cpudata env.cpu)).avail + ULONG -
                  (s.cache cachep).batchcount % ULONG) % ULONG } } cachep
          (fun i => (s.cpucache ((s.cache cachep).cpudata env.cpu)).entry
            (((s.cpucache ((s.cache cachep).cpudata env.cpu)).avail + ULONG -
              (s.cache cachep).batchcount % ULONG) % ULONG + i))
          ((s.cache cachep).batchcount % ULONG) with
      | none => rw [hb] at h; cases h
      | some s1 =>
        rw [hb] at h
        simp only [Option.some.injEq] at h
        have h1 := free_block_colour env _ cachep _ _ s1 hb
        rw [← h]
        exact fun x => h1 x
  · rw [if_neg hcc] at h
    exact free_block_colour env s cachep _ 1 s' h

theorem kfree_colour (env : slab_env) (s : kmem_state) (p : Nat) (s' : kmem_state)
    (h : kfree env s p = some s') : colour_keep s s' := by
  unfold kfree at h
  by_cases hp : p = 0
  · rw [if_pos hp] at h
    simp only [Option.some.injEq] at h
    rw [← h]; exact colour_keep_refl s
  · rw [if_neg hp] at h
    exact cache_free_colour env s _ p s' h

theorem kmalloc_colour (env : slab_env) (n : Nat) (s : kmem_state) (size flags : Nat)
    (s' : kmem_state) (r : Nat) (h : kmalloc env n s size flags = some (s', r)) :
    colour_keep s s' := by
  unfold kmalloc at h
  cases hk : kmalloc_cachep env size flags s.cache_sizes with
  | none => rw [hk] at h; cases h
  | some c =>
    rw [hk] at h
    exact alloc_colour env n s c flags s' r h

theorem tune_alloc_loop_colour (env : slab_env) (n limit : Nat) :
    ∀ (k i : Nat) (new : Nat → Nat) (s s' : kmem_state) (new' : Nat → Nat) (o : Option Nat),
      tune_alloc_loop env n limit k i new s = some (s', new', o) → colour_keep s s' := by
  intro k
  induction k with
  | zero =>
    intro i new s s' new' o h
    rw [tune_alloc_loop] at h
    simp only [Option.some.injEq, Prod.mk.injEq] at h
    rw [← h.1]; exact colour_keep_refl s
  | succ k ih =>
    intro i new s s' new' o h
    rw [tune_alloc_loop] at h
    cases hk : kmalloc env n s
        (((sizeof_void_p * limit) % ULONG + sizeof_cpucache_t) % ULONG) env.GFP_KERNEL with
    | none => rw [hk] at h; cases h
    | some v =>
      obtain ⟨s1, ccnew⟩ := v
      rw [hk] at h
      have h1 := kmalloc_colour env n s _ _ s1 ccnew hk
      simp only [] at h
      by_cases hz : ccnew = 0
      · rw [if_pos hz] at h
        simp only [Option.some.injEq, Prod.mk.injEq] at h
        rw [← h.1]; exact h1
      · rw [if_neg hz] at h
        have h2 := ih _ _ _ _ _ _ h
        exact colour_keep_trans _ _ _ h1 (fun x => h2 x)

theorem tune_oom_loop_colour (env : slab_env) (new : Nat → Nat) :
    ∀ (k : Nat) (s s' : kmem_state), tune_oom_loop env new k s = some s' →
      colour_keep s s' := by
  intro k
  induction k with
  | zero =>
    intro s s' h
    rw [tune_oom_loop] at h
    simp only [Option.some.injEq] at h
    rw [← h]; exact colour_keep_refl s
  | succ k ih =>
    intro s s' h
    rw [tune_oom_loop] at h
    cases hk : kfree env s (new (env.cpu_logical_map k)) with
    | none => rw [hk] at h; cases h
    | some s1 =>
      rw [hk] at h
      exact colour_keep_trans _ _ _ (kfree_colour env s _ s1 hk) (ih _ _ h)

theorem do_ccupdate_local_colour (s : kmem_state) (cachep : Nat) (new : Nat → Nat)
    (cpu : Nat) : colour_keep s (do_ccupdate_local s cachep new cpu).1 := by
  unfold do_ccupdate_local
  exact colour_keep_upd s _ cachep _ rfl rfl rfl

theorem smp_call_colour (env : slab_env) (cachep : Nat) :
    ∀ (k i : Nat) (r : kmem_state × (Nat → Nat)),
      colour_keep r.1 (smp_call_function_all_cpus env cachep k i r).1 := by
  intro k
  induction k with
  | zero => intro i r; exact colour_keep_refl _
  | succ k ih =>
    intro i r
    rw [smp_call_function_all_cpus]
    exact colour_keep_trans _ _ _ (do_ccupdate_local_colour r.1 cachep r.2 _) (ih _ _)

theorem tune_free_loop_colour (env : slab_env) (cachep : Nat) (new : Nat → Nat) :
    ∀ (k i : Nat) (s s' : kmem_state), tune_free_loop env cachep new k i s = some s' →
      colour_keep s s' := by
  intro k
  induction k with
  | zero =>
    intro i s s' h
    rw [tune_free_loop] at h
    simp only [Option.some.injEq] at h
    rw [← h]; exact colour_keep_refl s
  | succ k ih =>
    intro i s s' h
    rw [tune_free_loop] at h
    by_cases hz : new (env.cpu_logical_map i) = 0
    · rw [if_pos hz] at h
      exact ih _ _ _ h
    · rw [if_neg hz] at h
      cases hb : free_block env s cachep (s.cpucache (new (env.cpu_logical_map i))).entry
          ((s.cpucache (new (env.cpu_logical_map i))).avail % ULONG) with
      | none => rw [hb] at h; cases h
      | some s1 =>
        rw [hb] at h
        simp only [] at h
        cases hk : kfree env s1 (new (env.cpu_logical_map i)) with
        | none => rw [hk] at h; cases h
        | some s2 =>
          rw [hk] at h
          exact colour_keep_trans _ _ _ (free_block_colour env s cachep _ _ s1 hb)
            (colour_keep_trans _ _ _ (kfree_colour env s1 _ s2 hk) (ih _ _ _ h))

theorem tune_colour (env : slab_env) (n : Nat) (s : kmem_state) (cachep : Nat)
    (limit batchcount : Int) (s' : kmem_state) (r : Int)
    (h : kmem_tune_cpucache env n s cachep limit batchcount = some (s', r)) :
    colour_keep s s' := by
  unfold kmem_tune_cpucache at h
  by_cases h1 : limit < 0
  · rw [if_pos h1] at h
    simp only [Option.some.injEq, Prod.mk.injEq] at h
    rw [← h.1]; exact colour_keep_refl s
  rw [if_neg h1] at h
  by_cases h2 : batchcount < 0
  · rw [if_pos h2] at h
    simp only [Option.some.injEq, Prod.mk.injEq] at h
    rw [← h.1]; exact colour_keep_refl s
  rw [if_neg h2] at h
  by_cases h3 : batchcount > limit
  · rw [if_pos h3] at h
    simp only [Option.some.injEq, Prod.mk.injEq] at h
    rw [← h.1]; exact colour_keep_refl s
  rw [if_neg h3] at h
  by_cases h4 : limit ≠ 0 ∧ batchcount = 0
  · rw [if_pos h4] at h
    simp only [Option.some.injEq, Prod.mk.injEq] at h
    rw [← h.1]; exact colour_keep_refl s
  rw [if_neg h4] at h
  cases hm : (if limit ≠ 0 then
      tune_alloc_loop env n limit.toNat env.smp_num_cpus 0 (fun _ => 0) s
    else some (s, fun _ => 0, none)) with
  | none => rw [hm] at h; cases h
  | some v =>
    obtain ⟨s1, new, o⟩ := v
    rw [hm] at h
    have hs1 : colour_keep s s1 := by
      by_cases hl : limit ≠ 0
      · rw [if_pos hl] at hm
        exact tune_alloc_loop_colour env n _ _ _ _ s s1 new o hm
      · rw [if_neg hl] at hm
        simp only [Option.some.injEq, Prod.mk.injEq] at hm
        rw [← hm.1]; exact colour_keep_refl s
    cases o with
    | some i =>
      simp only [] at h
      cases ho : tune_oom_loop env new i s1 with
      | none => rw [ho] at h; cases h
      | some s3 =>
        rw [ho] at h
        simp only [Option.some.injEq, Prod.mk.injEq] at h
        rw [← h.1]
        exact colour_keep_trans _ _ _ hs1 (tune_oom_loop_colour env new i s1 s3 ho)
    | none =>
      simp only [] at h
      obtain ⟨S2, hS2⟩ : ∃ S2, S2 = ({ s1 with
          cache := upd s1.cache cachep
            { s1.cache cachep with batchcount := batchcount.toNat } } : kmem_state) := ⟨_, rfl⟩
      rw [← hS2] at h
      have hS2f : colour_keep s1 S2 := by
        rw [hS2]
        exact colour_keep_upd s1 _ cachep _ rfl rfl rfl
      have hsw := smp_call_colour env cachep env.smp_num_cpus 0 (S2, new)
      cases hf : tune_free_loop env cachep
          (smp_call_function_all_cpus env cachep env.smp_num_cpus 0 (S2, new)).2
          env.smp_num_cpus 0
          (smp_call_function_all_cpus env cachep env.smp_num_cpus 0 (S2, new)).1 with
      | none => rw [hf] at h; cases h
      | some s3 =>
        rw [hf] at h
        simp only [Option.some.injEq, Prod.mk.injEq] at h
        rw [← h.1]
        exact colour_keep_trans _ _ _ hs1 (colour_keep_trans _ _ _ hS2f
          (colour_keep_trans _ _ _ hsw (tune_free_loop_colour env cachep _ _ _ _ s3 hf)))

theorem enable_colour (env : slab_env) (n : Nat) (s : kmem_state) (cachep : Nat)
    (s' : kmem_state) (h : enable_cpucache env n s cachep = some s') : colour_keep s s' := by
  unfold enable_cpucache at h
  by_cases hp : (s.cache cachep).objsize > env.cfg.PAGE_SIZE
  · rw [if_pos hp] at h
    simp only [Option.some.injEq] at h
    rw [← h]; exact colour_keep_refl s
  · rw [if_neg hp] at h
    dsimp only at h
    cases ht : kmem_tune_cpucache env n s cachep
        (if (s.cache cachep).objsize > 1024 then 60
          else if (s.cache cachep).objsize > 256 then 124 else 252)
        ((if (s.cache cachep).objsize > 1024 then 60
          else if (s.cache cachep).objsize > 256 then 124 else 252) / 2) with
    | none => rw [ht] at h; cases h
    | some v =>
      obtain ⟨s1, r⟩ := v
      rw [ht] at h
      simp only [Option.some.injEq] at h
      rw [← h]
      exact tune_colour env n s cachep _ _ s1 r ht
/-! ## Theorems: a slab stays inside its pages -/

theorem create_order_loop_estimate (cfg : slab_config) (ol br size flags : Nat) :
    ∀ (fuel g g2 l num : Nat),
      create_order_loop cfg ol br size flags fuel g = some (g2, l, num) →
      kmem_cache_estimate cfg g2 size flags = some (l, num) := by
  intro fuel
  induction fuel with
  | zero =>
    intro g g2 l num h
    rw [create_order_loop] at h
    cases h
  | succ n ih =>
    intro g g2 l num h
    rw [create_order_loop] at h
    cases he : kmem_cache_estimate cfg g size flags with
    | none => rw [he] at h; cases h
    | some x =>
      obtain ⟨l1, n1⟩ := x
      rw [he] at h
      dsimp only at h
      split at h
      · simp only [Option.some.injEq, Prod.mk.injEq] at h
        rw [← h.1, ← h.2.1, ← h.2.2]; exact he
      · split at h
        · exact ih _ _ _ _ h
        · split at h
          · cases he2 : kmem_cache_estimate cfg ((g + ULONG - 1) % ULONG) size flags with
            | none => rw [he2] at h; cases h
            | some y =>
              obtain ⟨l2, n2⟩ := y
              rw [he2] at h
              simp only [Option.some.injEq, Prod.mk.injEq] at h
              rw [← h.1, ← h.2.1, ← h.2.2]
              exact he2
          · split at h
            · simp only [Option.some.injEq, Prod.mk.injEq] at h
              rw [← h.1, ← h.2.1, ← h.2.2]; exact he
            · split at h
              · simp only [Option.some.injEq, Prod.mk.injEq] at h
                rw [← h.1, ← h.2.1, ← h.2.2]; exact he
              · exact ih _ _ _ _ h

theorem estimate_layout (cfg : slab_config) (g size flags l num : Nat) (hg : g ≤ 5)
    (hsize : 1 ≤ size) (hL : 0 < cfg.L1_CACHE_BYTES)
    (hb : cfg.PAGE_SIZE * 2 ^ 5 + size + sizeof_kmem_bufctl_t + cfg.L1_CACHE_BYTES ≤ 2 ^ 31)
    (hhead : spec_align cfg sizeof_slab_t ≤ cfg.PAGE_SIZE)
    (h : kmem_cache_estimate cfg g size flags = some (l, num)) :
    num * size + spec_align cfg (spec_header flags + num * spec_slot flags) + l =
      cfg.PAGE_SIZE * 2 ^ g ∧ num ≤ cfg.PAGE_SIZE * 2 ^ g ∧
    cfg.PAGE_SIZE * 2 ^ g ≤ cfg.PAGE_SIZE * 2 ^ 5 := by
  have hpow : 2 ^ g ≤ 2 ^ 5 := Nat.pow_le_pow_right (by decide) hg
  have hmul : cfg.PAGE_SIZE * 2 ^ g ≤ cfg.PAGE_SIZE * 2 ^ 5 := Nat.mul_le_mul_left _ hpow
  have hone : cfg.PAGE_SIZE ≤ cfg.PAGE_SIZE * 2 ^ g :=
    Nat.le_mul_of_pos_right _ (Nat.two_pow_pos g)
  have hfit0 : spec_fits cfg g size flags 0 := by
    unfold spec_fits
    have h1 : spec_align cfg (spec_header flags + 0 * spec_slot flags) ≤
        spec_align cfg sizeof_slab_t :=
      spec_align_mono cfg _ _ (by have := spec_header_le flags; omega)
    omega
  obtain ⟨num2, l2, h2, hfit, -, -, hl⟩ := kmem_cache_estimate_fits cfg g size flags hsize hL
    (by omega) hfit0
  rw [h] at h2
  simp only [Option.some.injEq, Prod.mk.injEq] at h2
  obtain ⟨e1, e2⟩ := h2
  subst e1
  subst e2
  unfold spec_fits at hfit
  have hn : num ≤ num * size := Nat.le_mul_of_pos_right _ hsize
  refine ⟨by omega, by omega, hmul⟩

theorem ite_none_some_not {α : Type} (c : Prop) [Decidable c] (v d : α)
    (h : (if c then none else some v) = some d) : ¬ c ∧ d = v := by
  by_cases hc : c
  · rw [if_pos hc] at h; cases h
  · rw [if_neg hc] at h
    simp only [Option.some.injEq] at h
    exact ⟨hc, h.symm⟩

theorem and_clear_mask (x : Nat) :
    (x &&& ((ULONG - 1) ^^^ CFLGS_OFF_SLAB)) &&& CFLGS_OFF_SLAB = 0 := by
  rw [Nat.land_assoc, show ((ULONG - 1) ^^^ CFLGS_OFF_SLAB) &&& CFLGS_OFF_SLAB = 0 from by decide]
  exact Nat.and_zero _

theorem create_descriptor_layout (env : slab_env) (sizes : List cache_sizes_t) (nm : String)
    (size offset flags : Nat) (ctor dtor : Bool) (g l num : Nat) (desc : kmem_cache_t)
    (h : create_descriptor env sizes nm size offset flags ctor dtor g l num = some desc) :
    desc.objsize = create_objsize env.cfg size flags ∧ desc.num = num ∧ desc.gfporder = g ∧
    desc.colour_next = 0 ∧ desc.colour_off ≠ 0 ∧
    ((create_flags env.cfg size flags &&& CFLGS_OFF_SLAB ≠ 0 ∧
        l ≥ L1_CACHE_ALIGN env.cfg
          ((((num * sizeof_kmem_bufctl_t) % ULONG) + sizeof_slab_t) % ULONG)) →
      desc.flags &&& CFLGS_OFF_SLAB = 0 ∧
      desc.colour = (l - L1_CACHE_ALIGN env.cfg
        ((((num * sizeof_kmem_bufctl_t) % ULONG) + sizeof_slab_t) % ULONG)) / desc.colour_off) ∧
    (¬ (create_flags env.cfg size flags &&& CFLGS_OFF_SLAB ≠ 0 ∧
        l ≥ L1_CACHE_ALIGN env.cfg
          ((((num * sizeof_kmem_bufctl_t) % ULONG) + sizeof_slab_t) % ULONG)) →
      desc.flags &&& CFLGS_OFF_SLAB = create_flags env.cfg size flags &&& CFLGS_OFF_SLAB ∧
      desc.colour = l / desc.colour_off) := by
  unfold create_descriptor at h
  dsimp only at h
  obtain ⟨hoff, hd⟩ := ite_none_some_not _ _ _ h
  rw [hd]
  refine ⟨rfl, rfl, rfl, rfl, hoff, ?_, ?_⟩
  · intro hm
    dsimp only
    rw [if_pos hm, if_pos hm]
    refine ⟨?_, rfl⟩
    split
    · rw [or_and_mask _ _ _ (by decide)]; exact and_clear_mask _
    · exact and_clear_mask _
  · intro hm
    dsimp only
    rw [if_neg hm, if_neg hm]
    refine ⟨?_, rfl⟩
    split
    · rw [or_and_mask _ _ _ (by decide)]
    · rfl
theorem spec_align_zero (cfg : slab_config) (hL : 0 < cfg.L1_CACHE_BYTES) :
    spec_align cfg 0 = 0 := by
  unfold spec_align
  rw [Nat.zero_add, Nat.div_eq_of_lt (by omega), Nat.zero_mul]

theorem colour_mul_le (l off : Nat) : (l / off - 1) * off ≤ l :=
  Nat.le_trans (Nat.mul_le_mul_right _ (Nat.sub_le _ _)) (Nat.div_mul_le_self l off)

theorem create_descriptor_fits (env : slab_env) (sizes : List cache_sizes_t) (nm : String)
    (size offset flags : Nat) (ctor dtor : Bool) (g l num : Nat) (desc : kmem_cache_t) (k : Nat)
    (hL : env.cfg.L1_CACHE_BYTES = 2 ^ k) (hk : k ≤ 31)
    (hmask : env.cfg.SLAB_HWCACHE_ALIGN &&& CFLGS_OFF_SLAB = 0)
    (hcfg : 64 * env.cfg.PAGE_SIZE + 2 * env.cfg.L1_CACHE_BYTES + 7 ≤ 2 ^ 31)
    (hhead : spec_align env.cfg sizeof_slab_t ≤ env.cfg.PAGE_SIZE)
    (hs1 : BYTES_PER_WORD ≤ size) (hs2 : size ≤ 32 * env.cfg.PAGE_SIZE) (hg : g ≤ 5)
    (he : kmem_cache_estimate env.cfg g (create_objsize env.cfg size flags)
      (create_flags env.cfg size flags) = some (l, num))
    (hd : create_descriptor env sizes nm size offset flags ctor dtor g l num = some desc) :
    slab_fits env desc ∧ colour_ok desc ∧
    slab_mgmt env desc = (if desc.flags &&& CFLGS_OFF_SLAB ≠ 0 then 0
      else spec_align env.cfg (sizeof_slab_t + desc.num * sizeof_kmem_bufctl_t)) := by
  have hU : ULONG = 4294967296 := rfl
  have hB : BYTES_PER_WORD = 4 := rfl
  have hb4 : sizeof_kmem_bufctl_t = 4 := rfl
  have hs24 : sizeof_slab_t = 24 := rfl
  have hLpos : 0 < env.cfg.L1_CACHE_BYTES := by rw [hL]; exact Nat.two_pow_pos k
  obtain ⟨ho1, ho2⟩ := create_objsize_le env.cfg size flags k hL hk hmask (by omega)
  obtain ⟨E, hnW, hW⟩ := estimate_layout env.cfg g _ _ l num hg (by omega) hLpos (by omega)
    hhead he
  obtain ⟨d1, d2, d3, d4, d5, d6, d7⟩ := create_descriptor_layout env sizes nm size offset
    flags ctor dtor g l num desc hd
  have hn4 : num * 4 ≤ num * create_objsize env.cfg size flags :=
    Nat.mul_le_mul_left _ (by omega)
  have hM : L1_CACHE_ALIGN env.cfg ((((num * sizeof_kmem_bufctl_t) % ULONG) + sizeof_slab_t) %
      ULONG) = spec_align env.cfg (sizeof_slab_t + num * sizeof_kmem_bufctl_t) := by
    have e1 : (num * 4) % ULONG = num * 4 := Nat.mod_eq_of_lt (by omega)
    have e2 : (num * 4 + 24) % ULONG = num * 4 + 24 := Nat.mod_eq_of_lt (by omega)
    rw [hb4, hs24, e1, e2, L1_CACHE_ALIGN_eq env.cfg _ (by omega), Nat.add_comm]
  have hmg : slab_mgmt env desc = (if desc.flags &&& CFLGS_OFF_SLAB ≠ 0 then 0
      else spec_align env.cfg (sizeof_slab_t + desc.num * sizeof_kmem_bufctl_t)) := by
    unfold slab_mgmt
    rw [d2, hM]
  refine ⟨?_, ?_, hmg⟩
  · unfold slab_fits
    rw [hmg, d1, d2, d3]
    by_cases hm : create_flags env.cfg size flags &&& CFLGS_OFF_SLAB ≠ 0 ∧
        l ≥ L1_CACHE_ALIGN env.cfg
          ((((num * sizeof_kmem_bufctl_t) % ULONG) + sizeof_slab_t) % ULONG)
    · obtain ⟨f1, c1⟩ := d6 hm
      rw [hM] at c1
      rw [f1, c1, if_neg (fun h => h rfl)]
      have hh : spec_header (create_flags env.cfg size flags) = 0 := by
        unfold spec_header; rw [if_neg hm.1]
      have hsl : spec_slot (create_flags env.cfg size flags) = 0 := by
        unfold spec_slot; rw [if_neg hm.1]
      rw [hh, hsl, Nat.mul_zero, Nat.add_zero, spec_align_zero env.cfg hLpos] at E
      have hc := colour_mul_le (l - spec_align env.cfg
        (sizeof_slab_t + num * sizeof_kmem_bufctl_t)) desc.colour_off
      have hml := hm.2
      rw [hM] at hml
      omega
    · obtain ⟨f1, c1⟩ := d7 hm
      rw [f1, c1]
      have hc := colour_mul_le l desc.colour_off
      by_cases ho : create_flags env.cfg size flags &&& CFLGS_OFF_SLAB ≠ 0
      · rw [if_pos ho]
        have hh : spec_header (create_flags env.cfg size flags) = 0 := by
          unfold spec_header; rw [if_neg ho]
        have hsl : spec_slot (create_flags env.cfg size flags) = 0 := by
          unfold spec_slot; rw [if_neg ho]
        rw [hh, hsl, Nat.mul_zero, Nat.add_zero, spec_align_zero env.cfg hLpos] at E
        omega
      · rw [if_neg ho]
        have hh : spec_header (create_flags env.cfg size flags) = sizeof_slab_t := by
          unfold spec_header; rw [if_pos (not_not.mp ho)]
        have hsl : spec_slot (create_flags env.cfg size flags) = sizeof_kmem_bufctl_t := by
          unfold spec_slot; rw [if_pos (not_not.mp ho)]
        rw [hh, hsl] at E
        omega
  · refine ⟨?_, Or.inr d4⟩
    have hle : desc.colour ≤ l := by
      by_cases hm : create_flags env.cfg size flags &&& CFLGS_OFF_SLAB ≠ 0 ∧
          l ≥ L1_CACHE_ALIGN env.cfg
            ((((num * sizeof_kmem_bufctl_t) % ULONG) + sizeof_slab_t) % ULONG)
      · rw [(d6 hm).2]
        exact Nat.le_trans (Nat.div_le_self _ _) (Nat.sub_le _ _)
      · rw [(d7 hm).2]
        exact Nat.div_le_self _ _
    omega
theorem slab_fits_geom (env : slab_env) (c c2 : kmem_cache_t) (h : geom_same c c2)
    (hf : slab_fits env c) : slab_fits env c2 := by
  obtain ⟨h1, h2, h3, h4, -, h6, h7, -⟩ := h
  unfold slab_fits slab_mgmt at hf ⊢
  rw [h1, h2, h3, h4, h6, h7]
  exact hf

theorem create_layout (env : slab_env) (n : Nat) (s : kmem_state) (nm : String)
    (size offset flags : Nat) (ctor dtor : Bool) (s' : kmem_state) (c k : Nat)
    (hL : env.cfg.L1_CACHE_BYTES = 2 ^ k) (hk : k ≤ 31)
    (hmask : env.cfg.SLAB_HWCACHE_ALIGN &&& CFLGS_OFF_SLAB = 0)
    (hcfg : 64 * env.cfg.PAGE_SIZE + 2 * env.cfg.L1_CACHE_BYTES + 7 ≤ 2 ^ 31)
    (hhead : spec_align env.cfg sizeof_slab_t ≤ env.cfg.PAGE_SIZE)
    (h : kmem_cache_create env n s (some nm) size offset flags ctor dtor = some (s', c))
    (hc : c ≠ 0) :
    slab_fits env (s'.cache c) ∧ colour_ok (s'.cache c) ∧
    (s'.cache c).gfporder ≤ MAX_GFP_ORDER ∧ 1 ≤ (s'.cache c).num ∧
    slab_mgmt env (s'.cache c) = (if (s'.cache c).flags &&& CFLGS_OFF_SLAB ≠ 0 then 0
      else spec_align env.cfg (sizeof_slab_t + (s'.cache c).num * sizeof_kmem_bufctl_t)) ∧
    (∀ x, x ≠ c → (slab_fits env (s.cache x) → slab_fits env (s'.cache x)) ∧
      (colour_ok (s.cache x) → colour_ok (s'.cache x))) := by
  have hU : ULONG = 4294967296 := rfl
  have hB : BYTES_PER_WORD = 4 := rfl
  have hb4 : sizeof_kmem_bufctl_t = 4 := rfl
  have hLpos : 0 < env.cfg.L1_CACHE_BYTES := by rw [hL]; exact Nat.two_pow_pos k
  obtain ⟨s1, s3, g, l, num, desc, hch, ha, ho, hn, hd, he, -, hs'⟩ :=
    create_success env n s nm size offset flags ctor dtor s' c h hc
  obtain ⟨hs1, hs2⟩ := create_checks_size _ _ _ _ _ _ _ _ _ hch
  obtain ⟨ho1, ho2⟩ := create_objsize_le env.cfg size flags k hL hk hmask (by omega)
  obtain ⟨g2, l2, num2, hloop, hor⟩ := create_order_loop_total env.cfg s1.offslab_limit
    s1.slab_break_gfp_order (create_objsize env.cfg size flags)
    (create_flags env.cfg size flags) (by omega) hLpos (by omega) hhead (MAX_GFP_ORDER + 2) 0
    (by omega) (by decide)
  rw [ho] at hloop
  simp only [Option.some.injEq, Prod.mk.injEq] at hloop
  obtain ⟨e1, -, e3⟩ := hloop
  have hg5 : g ≤ 5 := by
    rcases hor with h5 | ⟨h0, -⟩
    · rw [e1]; exact h5
    · exact absurd (e3.trans h0) hn
  have hest := create_order_loop_estimate _ _ _ _ _ _ _ _ _ _ ho
  obtain ⟨f1, f2, f3⟩ := create_descriptor_fits env _ nm size offset flags ctor dtor g l num
    desc k hL hk hmask hcfg hhead hs1 hs2 hg5 hest hd
  obtain ⟨d1, d2, d3, -⟩ := create_descriptor_layout env _ nm size offset flags ctor dtor g l
    num desc hd
  have hk1 : colour_keep s s1 := alloc_colour env n s _ _ s1 c ha
  have hg1 : ∀ x, geom_same (s.cache x) (s1.cache x) :=
    fun x => geom_of_cache_same _ _ (alloc_same env n s _ _ s1 c ha x)
  have h3 : colour_keep { s1 with cache := upd s1.cache c desc } s3 ∧
      create_frame { s1 with cache := upd s1.cache c desc } s3 := by
    by_cases hu : s1.g_cpucache_up = true
    · rw [if_pos hu] at he
      exact ⟨enable_colour env n _ c s3 he, enable_frame env n _ c s3 he⟩
    · rw [if_neg hu] at he
      simp only [Option.some.injEq] at he
      rw [← he]
      exact ⟨colour_keep_refl _, create_frame_refl _⟩
  obtain ⟨hk3, hf3⟩ := h3
  have hcache : s'.cache = s3.cache := by rw [hs']
  have hgc : geom_same desc (s3.cache c) := by
    have := hf3.1 c
    simp only [upd_same] at this
    exact this
  have hkc : colour_ok desc → colour_ok (s3.cache c) := by
    have := (hk3 c).2
    simp only [upd_same] at this
    exact this
  rw [hcache]
  refine ⟨slab_fits_geom env _ _ hgc f1, hkc f2, ?_, ?_, ?_, ?_⟩
  · rw [hgc.2.2.2.1, d3]; exact hg5
  · rw [hgc.2.1, d2]; exact Nat.one_le_iff_ne_zero.mpr hn
  · have e : slab_mgmt env (s3.cache c) = slab_mgmt env desc := by
      unfold slab_mgmt
      rw [hgc.2.1, hgc.2.2.1]
    rw [e, f3, hgc.2.1, hgc.2.2.1]
  · intro x hx
    have hgx : geom_same (s1.cache x) (s3.cache x) := by
      have := hf3.1 x
      simp only [upd_other _ _ _ _ hx] at this
      exact this
    have hkx : colour_ok (s1.cache x) → colour_ok (s3.cache x) := by
      have := (hk3 x).2
      simp only [upd_other _ _ _ _ hx] at this
      exact this
    exact ⟨fun hf => slab_fits_geom env _ _ (geom_same_trans _ _ _ (hg1 x) hgx) hf,
      fun hcx => hkx ((hk1 x).2 hcx)⟩

theorem init_layout (env : slab_env) (s s' : kmem_state)
    (hLpos : 0 < env.cfg.L1_CACHE_BYTES)
    (hcfg : 64 * env.cfg.PAGE_SIZE + 2 * env.cfg.L1_CACHE_BYTES + 7 ≤ 2 ^ 31)
    (hhead : spec_align env.cfg sizeof_slab_t ≤ env.cfg.PAGE_SIZE)
    (hf : (s.cache env.cache_cache).flags &&& CFLGS_OFF_SLAB = 0)
    (hg : (s.cache env.cache_cache).gfporder = 0)
    (hs1 : 1 ≤ (s.cache env.cache_cache).objsize)
    (hs2 : (s.cache env.cache_cache).objsize ≤ 32 * env.cfg.PAGE_SIZE)
    (h : kmem_cache_init env s = some s') :
    slab_fits env (s'.cache env.cache_cache) ∧ colour_ok (s'.cache env.cache_cache) ∧
    1 ≤ (s'.cache env.cache_cache).num := by
  have hU : ULONG = 4294967296 := rfl
  have hb4 : sizeof_kmem_bufctl_t = 4 := rfl
  have hs24 : sizeof_slab_t = 24 := rfl
  unfold kmem_cache_init at h
  dsimp only at h
  cases he : kmem_cache_estimate env.cfg 0 (s.cache env.cache_cache).objsize 0 with
  | none => rw [he] at h; cases h
  | some v =>
    obtain ⟨l, num⟩ := v
    rw [he] at h
    dsimp only at h
    by_cases hn : num = 0
    · rw [if_pos hn] at h; cases h
    · rw [if_neg hn] at h
      by_cases hco : (s.cache env.cache_cache).colour_off = 0
      · rw [if_pos hco] at h; cases h
      · rw [if_neg hco] at h
        simp only [Option.some.injEq] at h
        obtain ⟨E, hnW, -⟩ := estimate_layout env.cfg 0 _ 0 l num (by decide) hs1 hLpos
          (by omega) hhead he
        have hh : spec_header 0 = sizeof_slab_t := rfl
        have hsl : spec_slot 0 = sizeof_kmem_bufctl_t := rfl
        rw [hh, hsl, Nat.pow_zero, Nat.mul_one] at E
        rw [Nat.pow_zero, Nat.mul_one] at hnW
        have e1 : (num * 4) % ULONG = num * 4 := Nat.mod_eq_of_lt (by omega)
        have e2 : (num * 4 + 24) % ULONG = num * 4 + 24 := Nat.mod_eq_of_lt (by omega)
        have hM : L1_CACHE_ALIGN env.cfg ((((num * sizeof_kmem_bufctl_t) % ULONG) +
            sizeof_slab_t) % ULONG) =
            spec_align env.cfg (sizeof_slab_t + num * sizeof_kmem_bufctl_t) := by
          rw [hb4, hs24, e1, e2, L1_CACHE_ALIGN_eq env.cfg _ (by omega), Nat.add_comm]
        have hc := colour_mul_le l (s.cache env.cache_cache).colour_off
        have hdiv : l / (s.cache env.cache_cache).colour_off ≤ l := Nat.div_le_self _ _
        rw [← h]
        simp only [upd_same]
        refine ⟨?_, ⟨?_, Or.inr rfl⟩, Nat.one_le_iff_ne_zero.mpr hn⟩
        · unfold slab_fits slab_mgmt
          dsimp only
          rw [if_neg (not_not.mpr hf), hM, hg, Nat.pow_zero, Nat.mul_one]
          omega
        · show l / (s.cache env.cache_cache).colour_off < ULONG
          omega
theorem slab_fits_same (env : slab_env) (c c2 : kmem_cache_t) (h : cache_same c c2)
    (hf : slab_fits env c) : slab_fits env c2 :=
  slab_fits_geom env c c2 (geom_of_cache_same c c2 h) hf

theorem grow_layout (env : slab_env) (n : Nat) (s : kmem_state) (cachep flags : Nat)
    (s' : kmem_state) (hfit : slab_fits env (s.cache cachep))
    (hcol : colour_ok (s.cache cachep))
    (hN : 1 ≤ (s.cache cachep).num) (hS : 1 ≤ (s.cache cachep).objsize)
    (hW : s.getpages s.getpages_calls +
      env.cfg.PAGE_SIZE * 2 ^ (s.cache cachep).gfporder ≤ ULONG)
    (h : kmem_cache_grow (__kmem_cache_alloc env n) env s cachep flags = some (s', 1)) :
    ∃ slabp, (s'.cache cachep).slabs.getLast? = some slabp ∧
      (s'.slab slabp).colouroff =
        (s.cache cachep).colour_next * (s.cache cachep).colour_off +
          slab_mgmt env (s.cache cachep) ∧
      (s'.slab slabp).s_mem = s.getpages s.getpages_calls + (s'.slab slabp).colouroff ∧
      (s'.slab slabp).colouroff + (s.cache cachep).num * (s.cache cachep).objsize ≤
        env.cfg.PAGE_SIZE * 2 ^ (s.cache cachep).gfporder ∧
      (∀ i, i < (s.cache cachep).num →
        s.getpages s.getpages_calls ≤ (s'.slab slabp).s_mem + i * (s.cache cachep).objsize ∧
        (s'.slab slabp).s_mem + i * (s.cache cachep).objsize + (s.cache cachep).objsize ≤
          s.getpages s.getpages_calls +
            env.cfg.PAGE_SIZE * 2 ^ (s.cache cachep).gfporder) ∧
      slab_fits env (s'.cache cachep) ∧ colour_ok (s'.cache cachep) := by
  have hU : ULONG = 4294967296 := rfl
  have hc1 : 1 ≤ (s.cache cachep).num * (s.cache cachep).objsize := Nat.mul_pos hN hS
  obtain ⟨-, hp, s2, slabp, hz, hm, hs'⟩ :=
    kmem_cache_grow_success (__kmem_cache_alloc env n) env s cachep flags s' h
  obtain ⟨g1, -⟩ := grow_start_cache s cachep
  obtain ⟨s1, -, h2⟩ := kmem_cache_slabmgmt_cases _ env _ cachep _ _ _ s2 slabp hm
  have hsame : state_same s s' := by
    rw [hs']
    exact state_same_trans _ _ _ (grow_start_same s cachep)
      (state_same_trans _ _ _ (slabmgmt_same _ (alloc_same env n) env _ cachep _ _ _ s2 slabp hm)
        (grow_finish_same env s2 cachep slabp _))
  have hkeep := grow_colour _ (alloc_colour env n) env s cachep flags s' 1 h
  -- the colour offset
  have hcn : (s.cache cachep).colour_next * (s.cache cachep).colour_off ≤
      ((s.cache cachep).colour - 1) * (s.cache cachep).colour_off := by
    apply Nat.mul_le_mul_right
    rcases hcol.2 with hlt | h0
    · omega
    · rw [h0]; exact Nat.zero_le _
  unfold slab_fits at hfit
  have hoff : grow_offset s cachep =
      (s.cache cachep).colour_next * (s.cache cachep).colour_off := by
    unfold grow_offset
    exact Nat.mod_eq_of_lt (by omega)
  rcases h2 with ⟨h0, -⟩ | ⟨co, he, hco⟩
  · exact absurd h0 hz
  · have gnum : ((grow_start s cachep).cache cachep).num = (s.cache cachep).num := by rw [g1]
    have gfl : ((grow_start s cachep).cache cachep).flags = (s.cache cachep).flags := by rw [g1]
    rw [gnum, gfl] at hco
    have hcoeq : co = (s.cache cachep).colour_next * (s.cache cachep).colour_off +
        slab_mgmt env (s.cache cachep) := by
      rcases hco with ⟨e, hf⟩ | ⟨e, hf⟩
      · unfold slab_mgmt
        rw [if_pos hf, e, hoff, Nat.add_zero]
      · have hmg : slab_mgmt env (s.cache cachep) = L1_CACHE_ALIGN env.cfg
            (((((s.cache cachep).num * sizeof_kmem_bufctl_t) % ULONG) + sizeof_slab_t) %
              ULONG) := by
          unfold slab_mgmt
          rw [if_neg (not_not.mpr hf)]
        rw [e, ← hmg, hoff]
        exact Nat.mod_eq_of_lt (by omega)
    have hcoW : co + (s.cache cachep).num * (s.cache cachep).objsize ≤
        env.cfg.PAGE_SIZE * 2 ^ (s.cache cachep).gfporder := by
      rw [hcoeq]; omega
    have hsl : (s'.slab slabp).colouroff = co ∧
        (s'.slab slabp).s_mem = (s.getpages s.getpages_calls + co) % ULONG := by
      rw [hs', (grow_finish_slab env s2 cachep slabp _).1, he]
      simp only [upd_same]
      exact ⟨trivial, trivial⟩
    have hmem : (s'.slab slabp).s_mem = s.getpages s.getpages_calls + co := by
      rw [hsl.2]
      exact Nat.mod_eq_of_lt (by omega)
    refine ⟨slabp, ?_, by rw [hsl.1, hcoeq], by rw [hmem, hsl.1], by rw [hsl.1]; exact hcoW, ?_,
      slab_fits_same env _ _ (hsame cachep) (by unfold slab_fits; exact hfit),
      (hkeep cachep).2 hcol⟩
    · rw [hs', (grow_finish_cache env s2 cachep slabp _).1]
      exact getLast_snoc _ _
    · intro i hi
      have hmul : (i + 1) * (s.cache cachep).objsize ≤
          (s.cache cachep).num * (s.cache cachep).objsize := Nat.mul_le_mul_right _ hi
      rw [Nat.add_mul, Nat.one_mul] at hmul
      rw [hmem]
      omega
/-- C38. Slab layout stays inside its backing pages.  With a cache line of
`2^k` bytes and a page size for which the arithmetic of `kmem_cache_create`
does not wrap: a cache that `kmem_cache_create` returns, promoted from
off-slab to on-slab or not, and `cache_cache` after `kmem_cache_init`, has
`slab_fits`, that is `(colour - 1) * colour_off`, the largest colour offset,
plus the management area `L1_CACHE_ALIGN(sizeof(slab_t) +
num*sizeof(kmem_bufctl_t))` (0 when off-slab) plus `num * objsize` is at most
`PAGE_SIZE * 2^gfporder`, and `colour_next` in order (`colour_ok`);
`kmem_cache_create`, `kmem_cache_alloc` and `kmem_cache_free` keep both for
every cache; and a slab that `kmem_cache_grow` builds for a cache that has
both, on pages that do not wrap the address space, has `colouroff =
colour_next * colour_off` plus the management area, `s_mem` at that offset
of its pages, and every object `s_mem + i * objsize`, `i < num`, inside the
`2^gfporder` pages. -/
theorem slab_layout_inside_pages (env : slab_env) (k : Nat)
    (hL : env.cfg.L1_CACHE_BYTES = 2 ^ k) (hk : k ≤ 31)
    (hmask : env.cfg.SLAB_HWCACHE_ALIGN &&& CFLGS_OFF_SLAB = 0)
    (hcfg : 64 * env.cfg.PAGE_SIZE + 2 * env.cfg.L1_CACHE_BYTES + 7 ≤ 2 ^ 31)
    (hhead : spec_align env.cfg sizeof_slab_t ≤ env.cfg.PAGE_SIZE) :
    (∀ n s nm size offset flags ctor dtor s' c,
      kmem_cache_create env n s (some nm) size offset flags ctor dtor = some (s', c) → c ≠ 0 →
      slab_fits env (s'.cache c) ∧ colour_ok (s'.cache c) ∧
      (s'.cache c).gfporder ≤ MAX_GFP_ORDER ∧ 1 ≤ (s'.cache c).num ∧
      slab_mgmt env (s'.cache c) = (if (s'.cache c).flags &&& CFLGS_OFF_SLAB ≠ 0 then 0
        else spec_align env.cfg (sizeof_slab_t + (s'.cache c).num * sizeof_kmem_bufctl_t)) ∧
      (∀ x, x ≠ c → (slab_fits env (s.cache x) → slab_fits env (s'.cache x)) ∧
        (colour_ok (s.cache x) → colour_ok (s'.cache x)))) ∧
    (∀ s s', kmem_cache_init env s = some s' →
      (s.cache env.cache_cache).flags &&& CFLGS_OFF_SLAB = 0 →
      (s.cache env.cache_cache).gfporder = 0 →
      1 ≤ (s.cache env.cache_cache).objsize →
      (s.cache env.cache_cache).objsize ≤ 32 * env.cfg.PAGE_SIZE →
      slab_fits env (s'.cache env.cache_cache) ∧ colour_ok (s'.cache env.cache_cache) ∧
      1 ≤ (s'.cache env.cache_cache).num) ∧
    (∀ n s cachep flags s' r, kmem_cache_alloc env n s cachep flags = some (s', r) →
      ∀ x, (slab_fits env (s.cache x) → slab_fits env (s'.cache x)) ∧
        (colour_ok (s.cache x) → colour_ok (s'.cache x))) ∧
    (∀ s cachep p s', kmem_cache_free env s cachep p = some s' →
      ∀ x, (slab_fits env (s.cache x) → slab_fits env (s'.cache x)) ∧
        (colour_ok (s.cache x) → colour_ok (s'.cache x))) ∧
    (∀ n s cachep flags s',
      kmem_cache_grow (__kmem_cache_alloc env n) env s cachep flags = some (s', 1) →
      slab_fits env (s.cache cachep) → colour_ok (s.cache cachep) →
      1 ≤ (s.cache cachep).num → 1 ≤ (s.cache cachep).objsize →
      s.getpages s.getpages_calls +
        env.cfg.PAGE_SIZE * 2 ^ (s.cache cachep).gfporder ≤ ULONG →
      ∃ slabp, (s'.cache cachep).slabs.getLast? = some slabp ∧
        (s'.slab slabp).colouroff =
          (s.cache cachep).colour_next * (s.cache cachep).colour_off +
            slab_mgmt env (s.cache cachep) ∧
        (s'.slab slabp).s_mem = s.getpages s.getpages_calls + (s'.slab slabp).colouroff ∧
        (s'.slab slabp).colouroff + (s.cache cachep).num * (s.cache cachep).objsize ≤
          env.cfg.PAGE_SIZE * 2 ^ (s.cache cachep).gfporder ∧
        (∀ i, i < (s.cache cachep).num →
          s.getpages s.getpages_calls ≤
            (s'.slab slabp).s_mem + i * (s.cache cachep).objsize ∧
          (s'.slab slabp).s_mem + i * (s.cache cachep).objsize + (s.cache cachep).objsize ≤
            s.getpages s.getpages_calls +
              env.cfg.PAGE_SIZE * 2 ^ (s.cache cachep).gfporder) ∧
        slab_fits env (s'.cache cachep) ∧ colour_ok (s'.cache cachep)) := by
  have hLpos : 0 < env.cfg.L1_CACHE_BYTES := by rw [hL]; exact Nat.two_pow_pos k
  refine ⟨?_, ?_, ?_, ?_, ?_⟩
  · intro n s nm size offset flags ctor dtor s' c h hc
    exact create_layout env n s nm size offset flags ctor dtor s' c k hL hk hmask hcfg hhead h hc
  · intro s s' h hf hg hs1 hs2
    exact init_layout env s s' hLpos hcfg hhead hf hg hs1 hs2 h
  · intro n s cachep flags s' r h x
    exact ⟨slab_fits_same env _ _ (alloc_same env n s cachep flags s' r h x),
      (alloc_colour env n s cachep flags s' r h x).2⟩
  · intro s cachep p s' h x
    exact ⟨slab_fits_same env _ _ ((cache_free_limits env s cachep p s' h).1 x),
      (cache_free_colour env s cachep p s' h x).2⟩
  · intro n s cachep flags s' h hfit hcol hN hS hW
    exact grow_layout env n s cachep flags s' hfit hcol hN hS hW h

/-- Witness for C38: the cache "inode_cache" of `kmem_state_ex6` (96-byte
objects, 40 to a page, 2 colours of 32 bytes) fits: `32 + 192 + 40 * 96 =
4064` is at most 4096. -/
theorem slab_layout_inside_pages_witness :
    slab_fits slab_env_ex (kmem_state_ex6.cache 0xC1000060) ∧
    colour_ok (kmem_state_ex6.cache 0xC1000060) ∧
    ((kmem_state_ex6.cache 0xC1000060).colour - 1) * (kmem_state_ex6.cache 0xC1000060).colour_off
      + slab_mgmt slab_env_ex (kmem_state_ex6.cache 0xC1000060)
      + (kmem_state_ex6.cache 0xC1000060).num * (kmem_state_ex6.cache 0xC1000060).objsize
      = 4064 := by
  have h := (slab_layout_inside_pages slab_env_ex 5 (by decide) (by decide) (by decide)
    (by decide) (by decide)).1 2 kmem_state_ex "inode_cache" 96 0 0x2000 false false
    kmem_state_ex6 0xC1000060 kmem_state_ex6_created (by decide)
  exact ⟨h.1, h.2.1, by decide⟩

/-! ## Theorems: the first pass of `__alloc_pages`, every zone visited -/

theorem first_pass_null (order : Nat) (s : machine) :
    ∀ (zones : List (Option Nat)) (w : Nat) (s' : machine) (log : List pass_event),
      alloc_pages_first_pass order zones { s with kreclaimd_wakeups := w } =
        some (s', none, log) →
      log.map (fun e => some e.zone) = zones.takeWhile Option.isSome ∧
      ∀ e ∈ log, e = pass_event.tried e.zone → rmqueue s e.zone order = some (s, none) := by
  intro zones
  induction zones with
  | nil =>
    intro w s' log h
    simp only [alloc_pages_first_pass, Option.some.injEq, Prod.mk.injEq] at h
    obtain ⟨-, -, h3⟩ := h
    subst h3
    exact ⟨rfl, fun e he => (by cases he)⟩
  | cons z0 rest ih =>
    intro w s' log h
    cases z0 with
    | none =>
      simp only [alloc_pages_first_pass, Option.some.injEq, Prod.mk.injEq] at h
      obtain ⟨-, -, h3⟩ := h
      subst h3
      exact ⟨rfl, fun e he => (by cases he)⟩
    | some z =>
      rw [alloc_pages_first_pass] at h
      dsimp only at h
      split at h
      · cases h
      · split at h
        · rw [rmqueue_wakeups] at h
          cases hq : rmqueue s z order with
          | none => rw [hq] at h; cases h
          | some x =>
            obtain ⟨s1, r1⟩ := x
            rw [hq] at h
            cases r1 with
            | some page =>
              simp only [Option.map_some', Option.some.injEq, Prod.mk.injEq] at h
              exact absurd h.2.1 (by simp)
            | none =>
              have hs1 := rmqueue_null_state s z order s1 hq
              subst hs1
              simp only [Option.map_some'] at h
              cases hrest : alloc_pages_first_pass order rest
                  { s1 with kreclaimd_wakeups := w } with
              | none => rw [hrest] at h; cases h
              | some y =>
                obtain ⟨s2, r2, log2⟩ := y
                rw [hrest] at h
                simp only [Option.some.injEq, Prod.mk.injEq] at h
                obtain ⟨-, h2, h3⟩ := h
                subst h2 h3
                obtain ⟨i1, i2⟩ := ih w s2 log2 hrest
                refine ⟨?_, ?_⟩
                · rw [List.map_cons, i1]
                  rfl
                · intro e he hte
                  rcases List.mem_cons.mp he with he | he
                  · subst he
                    exact hq
                  · exact i2 e he hte
        · split at h
          · cases hrest : alloc_pages_first_pass order rest
                { ({ s with kreclaimd_wakeups := w } : machine) with
                  kreclaimd_wakeups :=
                    ({ s with kreclaimd_wakeups := w } : machine).kreclaimd_wakeups + 1 } with
            | none => rw [hrest] at h; cases h
            | some y =>
              obtain ⟨s2, r2, log2⟩ := y
              rw [hrest] at h
              simp only [Option.some.injEq, Prod.mk.injEq] at h
              obtain ⟨-, h2, h3⟩ := h
              subst h2 h3
              obtain ⟨i1, i2⟩ := ih (w + 1) s2 log2 hrest
              refine ⟨?_, ?_⟩
              · rw [List.map_cons, i1]
                rfl
              · intro e he hte
                rcases List.mem_cons.mp he with he | he
                · subst he
                  cases hte
                · exact i2 e he hte
          · cases hrest : alloc_pages_first_pass order rest
                { s with kreclaimd_wakeups := w } with
            | none => rw [hrest] at h; cases h
            | some y =>
              obtain ⟨s2, r2, log2⟩ := y
              rw [hrest] at h
              simp only [Option.some.injEq, Prod.mk.injEq] at h
              obtain ⟨-, h2, h3⟩ := h
              subst h2 h3
              obtain ⟨i1, i2⟩ := ih w s2 log2 hrest
              refine ⟨?_, ?_⟩
              · rw [List.map_cons, i1]
                rfl
              · intro e he hte
                rcases List.mem_cons.mp he with he | he
                · subst he
                  cases hte
                · exact i2 e he hte

theorem zone_ex8_wf : zone_wf machine_ex8 0 where
  blocks := by unfold block_in_zone; decide
  nodup := by decide
  backptr := by decide
  clean := by decide
  valid := by decide
  word := by decide

/-- C8: the first pass of `__alloc_pages` over a zonelist whose zones are
well formed and of non-zero size runs to completion, and: the zones it visits
are a prefix of the zonelist, in order; `rmqueue` is attempted on a visited
zone exactly when `free_pages ≥ pages_low`; the reclaim daemon is woken for a
visited zone exactly when `free_pages < pages_low`, `free_pages < pages_min`
and the wait queue is non-empty; a returned page is the result of `rmqueue` on
the last visited zone, every zone tried before it having returned NULL, and
nothing but the wake-up count differs from that `rmqueue`'s state; NULL is
returned only after every zone of the zonelist up to its NULL entry was
visited, `rmqueue` having returned NULL on each zone tried, and then only the
wake-up count has changed. -/
theorem alloc_pages_first_pass_spec (s : machine) (order : Nat) (zones : List (Option Nat))
    (ho : order < MAX_ORDER)
    (hz : ∀ z, some z ∈ zones → zone_wf s z ∧ (s.node_zones z).size ≠ 0) :
    ∃ s' r log, alloc_pages_first_pass order zones s = some (s', r, log) ∧
      (log.map (fun e => some e.zone)) <+: zones ∧
      (∀ e ∈ log, (e = pass_event.tried e.zone ↔
        (s.node_zones e.zone).free_pages ≥ (s.node_zones e.zone).pages_low)) ∧
      (∀ e ∈ log, (e = pass_event.woke e.zone ↔
        (s.node_zones e.zone).free_pages < (s.node_zones e.zone).pages_low ∧
        (s.node_zones e.zone).free_pages < (s.node_zones e.zone).pages_min ∧
        s.kreclaimd_waiting = true)) ∧
      (∀ page, r = some page → ∃ pre z s1, log = pre ++ [pass_event.tried z] ∧
        rmqueue s z order = some (s1, some page) ∧
        s' = { s1 with kreclaimd_wakeups := s.kreclaimd_wakeups + wake_count log } ∧
        ∀ e ∈ pre, e = pass_event.tried e.zone → rmqueue s e.zone order = some (s, none)) ∧
      (r = none →
        s' = { s with kreclaimd_wakeups := s.kreclaimd_wakeups + wake_count log } ∧
        log.map (fun e => some e.zone) = zones.takeWhile Option.isSome ∧
        ∀ e ∈ log, e = pass_event.tried e.zone → rmqueue s e.zone order = some (s, none)) := by
  obtain ⟨x, hx⟩ := first_pass_total order s ho zones s.kreclaimd_wakeups hz
  obtain ⟨s', r, log⟩ := x
  obtain ⟨a1, a2, a3, a4, a5⟩ := first_pass_inv order s zones s.kreclaimd_wakeups s' r log hx
  refine ⟨s', r, log, hx, a1, a2, a3, a4, ?_⟩
  intro hn
  subst hn
  obtain ⟨b1, b2⟩ := first_pass_null order s zones s.kreclaimd_wakeups s' log hx
  exact ⟨a5 rfl, b1, b2⟩

/-- Witness for C8: in `machine_ex8` the zone is below `pages_low` and
`pages_min` and the daemon waits, so the first pass over `[zone 0, NULL]`
visits the zone, wakes the daemon once, calls `rmqueue` on no zone and ends
without a page. -/
theorem alloc_pages_first_pass_witness :
    ∃ s' log, alloc_pages_first_pass 1 [some 0, none] machine_ex8 = some (s', none, log) ∧
      log = [pass_event.woke 0] ∧
      s' = { machine_ex8 with kreclaimd_wakeups := 1 } := by
  obtain ⟨s', r, log, h1, -, h3, h4, h5, h6⟩ := alloc_pages_first_pass_spec machine_ex8 1
    [some 0, none] (by decide) (by
      intro z hz
      simp only [List.mem_cons, Option.some.injEq, List.mem_singleton, reduceCtorEq,
        or_false, List.mem_nil_iff] at hz
      subst hz
      exact ⟨zone_ex8_wf, by decide⟩)
  have hr : r = none := by
    cases r with
    | none => rfl
    | some page =>
      obtain ⟨pre, z, s1, e1, -⟩ := h5 page rfl
      have hm : pass_event.tried z ∈ log := by rw [e1]; simp
      have h80 : (8 : Nat) ≥ 80 := (h3 _ hm).mp rfl
      exact absurd h80 (by decide)
  subst hr
  obtain ⟨e1, e2, -⟩ := h6 rfl
  have hlog : log = [pass_event.woke 0] := by
    match log, e2, h4 with
    | [e], e2, h4 =>
      have hz0 : e.zone = 0 := by
        have := e2
        simp only [List.map_cons, List.map_nil, List.takeWhile_cons, Option.isSome_some,
          if_true, Option.isSome_none, List.takeWhile_nil, List.cons.injEq, Option.some.injEq,
          and_true] at this
        simpa using this
      have := (h4 e (List.mem_singleton.mpr rfl)).mpr (by rw [hz0]; decide)
      rw [this, hz0]
    | [], e2, _ => simp at e2
    | _ :: _ :: _, e2, _ => simp at e2
  refine ⟨s', log, h1, hlog, ?_⟩
  rw [e1, hlog]
  rfl

/-! ## Theorems: the order loop of `kmem_cache_create` below order 0 -/

theorem slab_unlink_free_frame (t : kmem_state) (cachep slabp : Nat) :
    free_frame t (slab_unlink t cachep slabp) := by
  refine ⟨?_, ?_, rfl⟩
  · intro x
    by_cases hx : x = cachep
    · subst hx
      simp only [slab_unlink, upd_same]
      exact ⟨rfl, rfl, rfl, rfl, rfl, rfl, rfl, rfl, rfl, rfl, rfl, rfl, rfl⟩
    · simp only [slab_unlink, upd_other _ _ _ _ hx]
      exact ⟨rfl, rfl, rfl, rfl, rfl, rfl, rfl, rfl, rfl, rfl, rfl, rfl, rfl⟩
  · intro x
    by_cases hx : x = cachep
    · subst hx
      simp only [slab_unlink, upd_same]
    · simp only [slab_unlink, upd_other _ _ _ _ hx]

theorem slab_destroy_free_frame (env : slab_env) (cachep : Nat) (t : kmem_state) (slabp : Nat)
    (t' : kmem_state)
    (h0 : (t.cache cachep).flags &&& CFLGS_OFF_SLAB ≠ 0 →
      (t.cache (t.cache cachep).slabp_cache).objsize % ULONG ≠ 0)
    (h : kmem_slab_destroy env (slab_unlink t cachep slabp) cachep slabp = some t') :
    free_frame t t' := by
  have hu := slab_unlink_free_frame t cachep slabp
  have hUc : ((slab_unlink t cachep slabp).cache cachep).slabp_cache =
      (t.cache cachep).slabp_cache := by
    simp only [slab_unlink, upd_same]
  have hUf : ((slab_unlink t cachep slabp).cache cachep).flags = (t.cache cachep).flags := by
    simp only [slab_unlink, upd_same]
  unfold kmem_slab_destroy at h
  dsimp only at h
  rw [hUf, hUc] at h
  by_cases hoff : (t.cache cachep).flags &&& CFLGS_OFF_SLAB ≠ 0
  · rw [if_pos hoff] at h
    obtain ⟨s', hs', hfr⟩ := cache_free_frame env
      (kmem_freepages env (slab_unlink t cachep slabp) cachep
        ((((slab_unlink t cachep slabp).slab slabp).s_mem + ULONG -
          ((slab_unlink t cachep slabp).slab slabp).colouroff % ULONG) % ULONG))
      (t.cache cachep).slabp_cache slabp (by
        show ((slab_unlink t cachep slabp).cache (t.cache cachep).slabp_cache).objsize
          % ULONG ≠ 0
        rw [(hu.1 _).1]
        exact h0 hoff)
    unfold kmem_cache_free at h
    rw [hs'] at h
    rw [← Option.some.inj h]
    exact free_frame_trans _ _ _ hu hfr
  · rw [if_neg hoff] at h
    rw [← Option.some.inj h]
    exact hu

/-- C18. `kmem_cache_destroy`, called as it must be (not NULL, not in
interrupt, the cache not growing), no cache having objects of size 0 and the
chain being free of repetitions.  The per-CPU arrays are drained with the cache
off the chain, which gives the state `s1`.  For a cache with its descriptors
off the slab let the slab list of `s1` be free of repetitions and the
descriptors lie apart from the slabs.  If a slab of the cache then has an
object in use, the function returns 1, the cache is on the chain again, the
descriptors of its slabs are as in `s1` (all slab descriptors, for an on-slab
cache), every slab with an object in use is still on the list of the cache and
no slab has joined it.  If no slab has an object in use, it returns 0 and the
cache is not on the chain. -/
theorem kmem_cache_destroy_refuses (env : slab_env) (s : kmem_state) (cachep : Nat)
    (hc : cachep ≠ 0) (hi : env.in_interrupt = false) (hg : (s.cache cachep).growing = 0)
    (hos : ∀ x, (s.cache x).objsize % ULONG ≠ 0)
    (hnd : s.cache_chain.Nodup) :
    ∃ s1, drain_cpu_caches env (destroy_unlink env s cachep) cachep = some s1 ∧
      (((s1.cache cachep).flags &&& CFLGS_OFF_SLAB ≠ 0 →
          (s1.cache cachep).slabs.Nodup ∧
          offslab_apart env s1 cachep (s1.cache cachep).slabs) →
        ((∃ x ∈ (s1.cache cachep).slabs, (s1.slab x).inuse ≠ 0) →
          ∃ s', kmem_cache_destroy env s cachep = some (s', 1) ∧ cachep ∈ s'.cache_chain ∧
            (∀ x ∈ (s1.cache cachep).slabs, s'.slab x = s1.slab x) ∧
            ((s1.cache cachep).flags &&& CFLGS_OFF_SLAB = 0 → s'.slab = s1.slab) ∧
            (∀ x ∈ (s1.cache cachep).slabs, (s1.slab x).inuse ≠ 0 →
              x ∈ (s'.cache cachep).slabs) ∧
            (∀ x ∈ (s'.cache cachep).slabs, x ∈ (s1.cache cachep).slabs)) ∧
        ((∀ x ∈ (s1.cache cachep).slabs, (s1.slab x).inuse = 0) →
          ∃ s', kmem_cache_destroy env s cachep = some (s', 0) ∧
            cachep ∉ s'.cache_chain)) := by
  have hguard : ¬ (cachep = 0 ∨ env.in_interrupt = true ∨ (s.cache cachep).growing ≠ 0) := by
    intro h
    rcases h with h | h | h
    · exact hc h
    · rw [hi] at h; cases h
    · exact h hg
  obtain ⟨s1, hs1, hfr⟩ := drain_loop_frame env cachep env.smp_num_cpus 0
    (destroy_unlink env s cachep) (hos cachep)
  have hgrow : (s1.cache cachep).growing = 0 := (hfr.2.1 cachep).trans hg
  have hos1 : ∀ x, (s1.cache x).objsize % ULONG ≠ 0 :=
    objsize_frame (destroy_unlink env s cachep) s1 hfr hos
  refine ⟨s1, hs1, ?_⟩
  intro hoffhyp
  -- the loop of `__kmem_cache_shrink`
  have hloop : ∃ s2, shrink_loop env cachep (s1.cache cachep).slabs.length s1 = some s2 ∧
      s2.cache_chain = s1.cache_chain ∧
      (∀ x, (s2.cache x).objsize = (s1.cache x).objsize) ∧
      (∀ x ∈ (s1.cache cachep).slabs, s2.slab x = s1.slab x) ∧
      ((s1.cache cachep).flags &&& CFLGS_OFF_SLAB = 0 → s2.slab = s1.slab) ∧
      (∀ x ∈ (s1.cache cachep).slabs, (s1.slab x).inuse ≠ 0 → x ∈ (s2.cache cachep).slabs) ∧
      (∀ x ∈ (s2.cache cachep).slabs, x ∈ (s1.cache cachep).slabs) ∧
      ((∀ x ∈ (s1.cache cachep).slabs, (s1.slab x).inuse = 0) →
        (s2.cache cachep).slabs = []) := by
    by_cases hon : (s1.cache cachep).flags &&& CFLGS_OFF_SLAB = 0
    · obtain ⟨s2, k1, k2, k3, k4, k5, k6, k7⟩ := shrink_loop_onslab env cachep
        (s1.cache cachep).slabs.length s1 hon hgrow (Nat.le_refl _)
      exact ⟨s2, k1, k3, k4, fun x _ => by rw [k2], fun _ => k2, k5, k6, k7⟩
    · obtain ⟨hnd1, hap⟩ := hoffhyp hon
      obtain ⟨s2, keep, gone, k1, k2, k3, k4, k5, -, k7, -, k9⟩ :=
        shrink_loop_char env cachep (s1.cache cachep).slabs
          (fun t => ((t.cache cachep).flags &&& CFLGS_OFF_SLAB ≠ 0 ∧
            offslab_apart env t cachep (s1.cache cachep).slabs) ∧ free_frame s1 t)
          (fun t slabp hP hm => by
            obtain ⟨t', a1, a2, a3, a4, a5⟩ := destroy_step_offslab env cachep
              (s1.cache cachep).slabs t slabp hP.1.1 hP.1.2 hm
            exact ⟨t', a1, a2, a3, a4, a5, free_frame_trans _ _ _ hP.2
              (slab_destroy_free_frame env cachep t slabp t' (fun _ => hP.1.2.2.1) a1)⟩)
          (s1.cache cachep).slabs.length s1 ⟨⟨hon, hap⟩, free_frame_refl s1⟩ hgrow hnd1
          (Nat.le_refl _) (fun _ hx => hx)
      refine ⟨s2, k1, k9.2.2.2, fun x => (k9.2.1 x).1, k7, fun h => absurd h hon, ?_, ?_, ?_⟩
      · intro x hx hin
        rw [k2] at hx
        rw [k5]
        rcases List.mem_append.mp hx with h | h
        · exact h
        · exact absurd (k3 x h) hin
      · intro x hx
        rw [k5] at hx
        rw [k2]
        exact List.mem_append_left _ hx
      · intro hall
        rw [k5]
        rcases list_nil_or_snoc keep with hk | ⟨a, z, hz⟩
        · exact hk
        · exfalso
          have hzl : keep.getLast? = some z := by rw [hz]; exact getLast_snoc _ _
          apply k4 z hzl
          apply hall
          rw [k2, hz]
          simp
  obtain ⟨s2, hs2, h2, h3, h1, h1on, h4, h5, h6⟩ := hloop
  have hshr : __kmem_cache_shrink env (destroy_unlink env s cachep) cachep =
      some (s2, if (s2.cache cachep).slabs = [] then 0 else 1) := by
    unfold __kmem_cache_shrink drain_cpu_caches
    rw [hs1]
    dsimp only
    rw [hs2]
  have hdes : kmem_cache_destroy env s cachep =
      match __kmem_cache_shrink env (destroy_unlink env s cachep) cachep with
      | none => none
      | some (s1, ret) =>
        if ret ≠ 0 then some ({ s1 with cache_chain := list_add s1.cache_chain cachep }, 1)
        else
          match destroy_kfree_loop env cachep env.NR_CPUS 0 s1 with
          | none => none
          | some s2 =>
            match kmem_cache_free env s2 env.cache_cache cachep with
            | none => none
            | some s3 => some (s3, 0) := by
    unfold kmem_cache_destroy
    rw [if_neg hguard]
    rfl
  refine ⟨?_, ?_⟩
  · intro hex
    obtain ⟨x, hx, hxin⟩ := hex
    have hne : (s2.cache cachep).slabs ≠ [] := by
      intro e
      have := h4 x hx hxin
      rw [e] at this
      exact absurd this (List.not_mem_nil x)
    refine ⟨{ s2 with cache_chain := list_add s2.cache_chain cachep }, ?_, ?_, h1, h1on, h4,
      h5⟩
    · rw [hdes, hshr]
      dsimp only
      rw [if_neg hne, if_pos (by decide)]
    · exact List.mem_cons_self _ _
  · intro hall
    have he := h6 hall
    obtain ⟨s3, hs3, hfr3⟩ := destroy_kfree_loop_frame env cachep env.NR_CPUS 0 s2
      (fun x => by rw [h3 x]; exact hos1 x)
    obtain ⟨s4, hs4, hfr4⟩ := cache_free_frame env s3 env.cache_cache cachep
      (by rw [(hfr3.1 _).1, h3]; exact hos1 _)
    refine ⟨s4, ?_, ?_⟩
    · rw [hdes, hshr]
      dsimp only
      rw [if_pos he, if_neg (by decide), hs3]
      dsimp only
      unfold kmem_cache_free
      rw [hs4]
    · rw [hfr4.2.2, hfr3.2.2, h2, hfr.2.2]
      show cachep ∉ list_del s.cache_chain cachep
      unfold list_del
      intro hmem
      exact ((List.Nodup.mem_erase_iff hnd).mp hmem).1 rfl

theorem kmem_state_ex15_objsize : ∀ y, (kmem_state_ex15.cache y).objsize % ULONG ≠ 0 := by
  intro y
  show (upd (upd kmem_state_ex.cache 0xC0300200 _) 0xC0300100 _ y).objsize % ULONG ≠ 0
  unfold upd
  split
  · decide
  · split
    · decide
    · show (256 : Nat) % ULONG ≠ 0
      decide

/-- Witness for C18: the off-slab cache at `0xC0300100` of `kmem_state_ex15`
has a slab with an object in use and an empty one.  `kmem_cache_destroy` gives
the pages of the empty slab back, puts its descriptor back into the cache at
`0xC0300200`, returns 1 and leaves the cache first on the chain with the slab
in use on its list. -/
theorem kmem_cache_destroy_refuses_witness :
    (kmem_state_ex15.cache 0xC0300100).flags &&& CFLGS_OFF_SLAB ≠ 0 ∧
    ∃ s', kmem_cache_destroy slab_env_ex kmem_state_ex15 0xC0300100 = some (s', 1) ∧
      0xC0300100 ∈ s'.cache_chain ∧ 0xC0F00100 ∈ (s'.cache 0xC0300100).slabs ∧
      (∀ x ∈ (s'.cache 0xC0300100).slabs, x = 0xC0F00100 ∨ x = 0xC0F00140) := by
  refine ⟨by decide, ?_⟩
  obtain ⟨s1, hs1, h⟩ := kmem_cache_destroy_refuses slab_env_ex kmem_state_ex15 0xC0300100
    (by decide) (by decide) (by decide) kmem_state_ex15_objsize (by decide)
  have e : s1 = destroy_unlink slab_env_ex kmem_state_ex15 0xC0300100 := by
    have : drain_cpu_caches slab_env_ex (destroy_unlink slab_env_ex kmem_state_ex15 0xC0300100)
        0xC0300100 = some (destroy_unlink slab_env_ex kmem_state_ex15 0xC0300100) := rfl
    rw [this] at hs1
    exact (Option.some.inj hs1).symm
  subst e
  obtain ⟨ha, -⟩ := h (fun _ => ⟨by decide, by decide, by decide, by decide,
    fun hcc => absurd hcc (by decide)⟩)
  obtain ⟨s', k1, k2, -, -, k4, k5⟩ := ha ⟨0xC0F00100, by decide, by decide⟩
  refine ⟨s', k1, k2, k4 0xC0F00100 (by decide) (by decide), ?_⟩
  intro x hx
  have := k5 x hx
  simpa [destroy_unlink, kmem_state_ex15, upd] using this

/-! ## Theorems: what an allocation leaves alone in other caches -/

theorem alloc_apart_refl (A cc : Nat) (s : kmem_state) : alloc_apart A cc s s :=
  ⟨rfl, rfl, rfl⟩

theorem alloc_apart_trans (A cc : Nat) (a b c : kmem_state) (h1 : alloc_apart A cc a b)
    (h2 : alloc_apart A cc b c) : alloc_apart A cc a c :=
  ⟨h2.1.trans h1.1, h2.2.1.trans h1.2.1, h2.2.2.trans h1.2.2⟩

theorem desc_chain_same (s t : kmem_state) (h : state_same s t) :
    ∀ (k x : Nat), desc_chain t k x = desc_chain s k x := by
  intro k
  induction k with
  | zero => intro x; rfl
  | succ k ih =>
    intro x
    rw [desc_chain, desc_chain, (h x).2.2.2.2.2.2.2.2.1]
    exact ih _

theorem alloc_one_tail_apart (s : kmem_state) (X slabp A cc : Nat) (hA : X ≠ A) :
    alloc_apart A cc s (kmem_cache_alloc_one_tail s X slabp).1 := by
  obtain ⟨fnf, hf⟩ := alloc_one_tail_form s X slabp
  rw [hf]
  refine ⟨?_, rfl, rfl⟩
  show upd s.cache X _ A = s.cache A
  rw [upd_other _ _ _ _ (Ne.symm hA)]

theorem alloc_batch_loop_apart (X ccx A cc : Nat) (hA : X ≠ A) (hcc : ccx ≠ cc) :
    ∀ (n : Nat) (s : kmem_state), alloc_apart A cc s (alloc_batch_loop X ccx n s) := by
  intro n
  induction n with
  | zero => intro s; exact alloc_apart_refl A cc s
  | succ n ih =>
    intro s
    rw [alloc_batch_loop]
    cases hf : (s.cache X).firstnotfull with
    | none => exact alloc_apart_refl A cc s
    | some slabp =>
      simp only []
      refine alloc_apart_trans A cc _ _ _ ?_ (ih _)
      obtain ⟨a1, a2, a3⟩ := alloc_one_tail_apart s X slabp A cc hA
      refine ⟨a1, ?_, a3⟩
      show upd (kmem_cache_alloc_one_tail s X slabp).1.cpucache ccx _ cc = _
      rw [upd_other _ _ _ _ (Ne.symm hcc)]
      exact a2

theorem alloc_pass_apart (env : slab_env) (s : kmem_state) (X : Nat) (s' : kmem_state)
    (r : Option Nat) (A cc : Nat) (hA : X ≠ A) (hcc : (s.cache X).cpudata env.cpu ≠ cc)
    (h : alloc_pass env s X = some (s', r)) : alloc_apart A cc s s' := by
  unfold alloc_pass at h
  by_cases hc0 : (s.cache X).cpudata env.cpu ≠ 0
  · rw [if_pos hc0] at h
    dsimp only at h
    by_cases ha : (s.cpucache ((s.cache X).cpudata env.cpu)).avail ≠ 0
    · rw [if_pos ha] at h
      simp only [Option.some.injEq, Prod.mk.injEq] at h
      rw [← h.1]
      refine ⟨rfl, ?_, rfl⟩
      show upd s.cpucache _ _ cc = _
      rw [upd_other _ _ _ _ (Ne.symm hcc)]
    · rw [if_neg ha] at h
      unfold kmem_cache_alloc_batch at h
      dsimp only at h
      by_cases hb : (s.cache X).batchcount > INT_MAX
      · rw [if_pos hb] at h; cases h
      · rw [if_neg hb] at h
        have hl := alloc_batch_loop_apart X ((s.cache X).cpudata env.cpu) A cc hA hcc
          (s.cache X).batchcount s
        by_cases hv : ((alloc_batch_loop X ((s.cache X).cpudata env.cpu)
            (s.cache X).batchcount s).cpucache ((s.cache X).cpudata env.cpu)).avail ≠ 0
        · rw [if_pos hv] at h
          dsimp only at h
          have hl2 : alloc_apart A cc s
              { alloc_batch_loop X ((s.cache X).cpudata env.cpu) (s.cache X).batchcount s with
                cpucache := upd (alloc_batch_loop X ((s.cache X).cpudata env.cpu)
                    (s.cache X).batchcount s).cpucache ((s.cache X).cpudata env.cpu)
                  { (alloc_batch_loop X ((s.cache X).cpudata env.cpu)
                      (s.cache X).batchcount s).cpucache ((s.cache X).cpudata env.cpu) with
                    avail := (((alloc_batch_loop X ((s.cache X).cpudata env.cpu)
                      (s.cache X).batchcount s).cpucache
                      ((s.cache X).cpudata env.cpu)).avail + ULONG - 1) % ULONG } } := by
            refine ⟨hl.1, ?_, hl.2.2⟩
            show upd _ _ _ cc = _
            rw [upd_other _ _ _ _ (Ne.symm hcc)]
            exact hl.2.1
          split at h
          · simp only [Option.some.injEq, Prod.mk.injEq] at h
            rw [← h.1]; exact hl2
          · simp only [Option.some.injEq, Prod.mk.injEq] at h
            rw [← h.1]; exact hl2
        · rw [if_neg hv] at h
          dsimp only at h
          rw [if_pos rfl] at h
          simp only [Option.some.injEq, Prod.mk.injEq] at h
          rw [← h.1]; exact hl
  · rw [if_neg hc0] at h
    unfold kmem_cache_alloc_one at h
    cases hf : (s.cache X).firstnotfull with
    | none =>
      rw [hf] at h
      simp only [Option.some.injEq, Prod.mk.injEq] at h
      rw [← h.1]; exact alloc_apart_refl A cc s
    | some slabp =>
      rw [hf] at h
      simp only [Option.some.injEq, Prod.mk.injEq] at h
      rw [← h.1]; exact alloc_one_tail_apart s X slabp A cc hA

theorem grow_start_apart (s : kmem_state) (X A cc : Nat) (hA : X ≠ A) :
    alloc_apart A cc s (grow_start s X) := by
  obtain ⟨-, -, g3, g4, -, -⟩ := grow_start_cache s X
  refine ⟨?_, by rw [g3], by rw [g4]⟩
  unfold grow_start kmem_getpages
  simp only [upd_other _ _ _ _ (Ne.symm hA)]

theorem grow_failed_apart (s : kmem_state) (X A cc : Nat) (hA : X ≠ A) :
    alloc_apart A cc s (grow_failed s X) := by
  refine ⟨?_, rfl, rfl⟩
  unfold grow_failed
  simp only [upd_other _ _ _ _ (Ne.symm hA)]

theorem grow_finish_apart (env : slab_env) (s2 : kmem_state) (X slabp objp A cc : Nat)
    (hA : X ≠ A) : alloc_apart A cc s2 (grow_finish env s2 X slabp objp) := by
  obtain ⟨-, ho⟩ := grow_finish_cache env s2 X slabp objp
  obtain ⟨f1, -, -, f4, -, -⟩ := grow_finish_frame env s2 X slabp objp
  refine ⟨ho A (Ne.symm hA), by rw [f4], ?_⟩
  rw [f1, List.count_cons_of_ne (Ne.symm hA)]

theorem slabmgmt_apart (alloc : kmem_state → Nat → Nat → Option (kmem_state × Nat))
    (env : slab_env) (s : kmem_state) (X objp off lf : Nat) (s2 : kmem_state) (slabp A cc : Nat)
    (halloc : ∀ s1 r1, alloc s (s.cache X).slabp_cache lf = some (s1, r1) →
      alloc_apart A cc s s1)
    (h : kmem_cache_slabmgmt alloc env s X objp off lf = some (s2, slabp)) :
    alloc_apart A cc s s2 := by
  obtain ⟨s1, h1, h2⟩ := kmem_cache_slabmgmt_cases alloc env s X objp off lf s2 slabp h
  have hs1 : alloc_apart A cc s s1 := by
    rcases h1 with ⟨-, ha⟩ | ⟨-, he, -⟩
    · exact halloc _ _ ha
    · rw [he]; exact alloc_apart_refl A cc s
  rcases h2 with ⟨-, he⟩ | ⟨co, he, -⟩
  · rw [he]; exact hs1
  · rw [he]; exact hs1

theorem grow_apart (alloc : kmem_state → Nat → Nat → Option (kmem_state × Nat))
    (env : slab_env) (s : kmem_state) (X flags : Nat) (s' : kmem_state) (r A cc : Nat)
    (hA : X ≠ A)
    (halloc : ∀ s1 r1, alloc (grow_start s X) (s.cache X).slabp_cache
      (flags &&& env.SLAB_LEVEL_MASK) = some (s1, r1) → alloc_apart A cc (grow_start s X) s1)
    (h : kmem_cache_grow alloc env s X flags = some (s', r)) : alloc_apart A cc s s' := by
  have hsp : ((grow_start s X).cache X).slabp_cache = (s.cache X).slabp_cache :=
    (grow_start_same s X X).2.2.2.2.2.2.2.2.1
  rcases kmem_cache_grow_cases alloc env s X flags s' r h with
    ⟨he, -⟩ | ⟨-, he, -⟩ | ⟨-, -, s2, slabp, hm, hc⟩
  · rw [he]; exact alloc_apart_refl A cc s
  · rw [he]
    exact alloc_apart_trans A cc _ _ _ (grow_start_apart s X A cc hA)
      (grow_failed_apart _ X A cc hA)
  · have h2 := alloc_apart_trans A cc _ _ _ (grow_start_apart s X A cc hA)
      (slabmgmt_apart alloc env _ X _ _ _ s2 slabp A cc (by rw [hsp]; exact halloc) hm)
    rcases hc with ⟨-, -, he⟩ | ⟨-, -, he⟩
    · rw [he]
      refine alloc_apart_trans A cc _ _ _ h2 (alloc_apart_trans A cc _
        (kmem_freepages env s2 X _) _ ⟨rfl, rfl, rfl⟩ (grow_failed_apart _ X A cc hA))
    · rw [he]
      exact alloc_apart_trans A cc _ _ _ h2 (grow_finish_apart env s2 X slabp _ A cc hA)

theorem alloc_other (env : slab_env) :
    ∀ (n : Nat) (s : kmem_state) (X flags : Nat) (s' : kmem_state) (r A cc : Nat),
      __kmem_cache_alloc env n s X flags = some (s', r) →
      (∀ k, k < n → desc_chain s k X ≠ A) →
      (∀ k, k < n → (s.cache (desc_chain s k X)).cpudata env.cpu ≠ cc) →
      alloc_apart A cc s s' := by
  intro n
  induction n with
  | zero => intro s X flags s' r A cc h; rw [__kmem_cache_alloc] at h; cases h
  | succ n ih =>
    intro s X flags s' r A cc h hA hcc
    have hXA : X ≠ A := hA 0 (Nat.succ_pos n)
    have hXc : (s.cache X).cpudata env.cpu ≠ cc := hcc 0 (Nat.succ_pos n)
    rw [__kmem_cache_alloc] at h
    cases hp : alloc_pass env s X with
    | none => rw [hp] at h; cases h
    | some v =>
      obtain ⟨s1, o⟩ := v
      rw [hp] at h
      have h1 := alloc_pass_apart env s X s1 o A cc hXA hXc hp
      have hs1 := alloc_pass_same env s X s1 o hp
      cases o with
      | some objp =>
        simp only [Option.some.injEq, Prod.mk.injEq] at h
        rw [← h.1]; exact h1
      | none =>
        simp only [] at h
        cases hg : kmem_cache_grow (__kmem_cache_alloc env n) env s1 X flags with
        | none => rw [hg] at h; cases h
        | some w =>
          obtain ⟨s2, grew⟩ := w
          rw [hg] at h
          have hss : state_same s (grow_start s1 X) :=
            state_same_trans _ _ _ hs1 (grow_start_same s1 X)
          have hsp : (s1.cache X).slabp_cache = (s.cache X).slabp_cache :=
            (hs1 X).2.2.2.2.2.2.2.2.1
          have h2 : alloc_apart A cc s1 s2 := by
            refine grow_apart _ env s1 X flags s2 grew A cc hXA ?_ hg
            intro t1 r1 ha
            refine ih _ _ _ _ _ A cc ha ?_ ?_
            · intro k hk
              rw [desc_chain_same s _ hss, hsp]
              exact hA (k + 1) (Nat.succ_lt_succ hk)
            · intro k hk
              rw [desc_chain_same s _ hss, hsp,
                (hss _).2.2.2.2.2.2.2.2.2.2.2.2]
              exact hcc (k + 1) (Nat.succ_lt_succ hk)
          have hs2 : state_same s s2 := state_same_trans _ _ _ hs1
            (grow_same _ (alloc_same env n) env s1 X flags s2 grew hg)
          simp only [] at h
          by_cases hgz : grew ≠ 0
          · rw [if_pos hgz] at h
            refine alloc_apart_trans A cc _ _ _ (alloc_apart_trans A cc _ _ _ h1 h2) ?_
            refine ih _ _ _ _ _ A cc h ?_ ?_
            · intro k hk
              rw [desc_chain_same s _ hs2]
              exact hA k (Nat.lt_succ_of_lt hk)
            · intro k hk
              rw [desc_chain_same s _ hs2, (hs2 _).2.2.2.2.2.2.2.2.2.2.2.2]
              exact hcc k (Nat.lt_succ_of_lt hk)
          · rw [if_neg hgz] at h
            simp only [Option.some.injEq, Prod.mk.injEq] at h
            rw [← h.1]
            exact alloc_apart_trans A cc _ _ _ h1 h2

/-! ## Theorems: the colour counter of one cache through `enable_cpucache` -/

theorem desc_chain_congr (s t : kmem_state)
    (h : ∀ x, (t.cache x).slabp_cache = (s.cache x).slabp_cache) :
    ∀ (k x : Nat), desc_chain t k x = desc_chain s k x := by
  intro k
  induction k with
  | zero => intro x; rfl
  | succ k ih =>
    intro x
    rw [desc_chain, desc_chain, h x]
    exact ih _

theorem desc_chain_upd (s t : kmem_state) (c : Nat)
    (h : ∀ x, x ≠ c → (t.cache x).slabp_cache = (s.cache x).slabp_cache) :
    ∀ (k x : Nat), (∀ j, j < k → desc_chain s j x ≠ c) → desc_chain t k x = desc_chain s k x := by
  intro k
  induction k with
  | zero => intro x _; rfl
  | succ k ih =>
    intro x hx
    rw [desc_chain, desc_chain, h x (hx 0 (Nat.succ_pos k))]
    exact ih _ (fun j hj => hx (j + 1) (Nat.succ_lt_succ hj))

theorem sizes_apart_frame (s t : kmem_state) (n c : Nat) (h : create_frame s t)
    (ha : sizes_apart s n c) : sizes_apart t n c := by
  intro e he k hk
  rw [h.2.2.1] at he
  have hc := desc_chain_congr s t (fun x => (h.1 x).2.2.2.2.2.2.2.1)
  rw [hc, hc]
  exact ha e he k hk

theorem kmalloc_cachep_mem (env : slab_env) (size flags : Nat) :
    ∀ (l : List cache_sizes_t) (G : Nat), kmalloc_cachep env size flags l = some G →
      ∃ e ∈ l, G = e.cs_cachep ∨ G = e.cs_dmacachep := by
  intro l
  induction l with
  | nil => intro G h; rw [kmalloc_cachep] at h; cases h
  | cons e rest ih =>
    intro G h
    rw [kmalloc_cachep] at h
    by_cases h0 : e.cs_size = 0
    · rw [if_pos h0] at h; cases h
    · rw [if_neg h0] at h
      by_cases hs : size > e.cs_size
      · rw [if_pos hs] at h
        obtain ⟨e', he', hG⟩ := ih G h
        exact ⟨e', List.mem_cons_of_mem _ he', hG⟩
      · rw [if_neg hs] at h
        simp only [Option.some.injEq] at h
        refine ⟨e, List.mem_cons_self _ _, ?_⟩
        by_cases hd : flags &&& env.GFP_DMA ≠ 0
        · rw [if_pos hd] at h; exact Or.inr h.symm
        · rw [if_neg hd] at h; exact Or.inl h.symm

theorem fresh_value (f : Nat → Nat) (n : Nat) : ∃ cc, ∀ k, k < n → f k ≠ cc := by
  refine ⟨(Finset.range n).sum f + 1, ?_⟩
  intro k hk
  have hle : f k ≤ (Finset.range n).sum f :=
    Finset.single_le_sum (f := f) (s := Finset.range n) (fun i _ => Nat.zero_le _)
      (Finset.mem_range.mpr hk)
  exact Nat.ne_of_lt (Nat.lt_succ_of_le hle)

theorem alloc_other_cache (env : slab_env) (n : Nat) (s : kmem_state) (X flags : Nat)
    (s' : kmem_state) (r A : Nat) (h : __kmem_cache_alloc env n s X flags = some (s', r))
    (hA : ∀ k, k < n → desc_chain s k X ≠ A) :
    s'.cache A = s.cache A ∧ s'.grown.count A = s.grown.count A := by
  obtain ⟨cc, hcc⟩ := fresh_value (fun k => (s.cache (desc_chain s k X)).cpudata env.cpu) n
  obtain ⟨a1, -, a3⟩ := alloc_other env n s X flags s' r A cc h hA hcc
  exact ⟨a1, a3⟩

theorem kmalloc_other (env : slab_env) (n : Nat) (s : kmem_state) (size flags : Nat)
    (s' : kmem_state) (r c : Nat) (h : kmalloc env n s size flags = some (s', r))
    (ha : sizes_apart s n c) : s'.cache c = s.cache c := by
  unfold kmalloc at h
  cases hk : kmalloc_cachep env size flags s.cache_sizes with
  | none => rw [hk] at h; cases h
  | some G =>
    rw [hk] at h
    obtain ⟨e, he, hG⟩ := kmalloc_cachep_mem env size flags _ G hk
    refine (alloc_other_cache env n s G flags s' r c h ?_).1
    intro k hk'
    rcases hG with hG | hG
    · rw [hG]; exact (ha e he k hk').1
    · rw [hG]; exact (ha e he k hk').2

theorem free_one_cnext (env : slab_env) (s : kmem_state) (cachep objp : Nat)
    (s' : kmem_state) (h : kmem_cache_free_one env s cachep objp = some s') (c : Nat) :
    (s'.cache c).colour_next = (s.cache c).colour_next := by
  obtain ⟨_, slabs, fnf, hform, _⟩ := free_one_form env s cachep objp s' h
  rw [hform]
  show (upd s.cache cachep _ c).colour_next = _
  by_cases hx : c = cachep
  · rw [hx, upd_same]
  · rw [upd_other _ _ _ _ hx]

theorem free_block_loop_cnext (env : slab_env) (cachep : Nat) (objpp : Nat → Nat) (c : Nat) :
    ∀ (len i : Nat) (s s' : kmem_state), __free_block env cachep objpp len i s = some s' →
      (s'.cache c).colour_next = (s.cache c).colour_next := by
  intro len
  induction len with
  | zero =>
    intro i s s' h
    rw [__free_block] at h
    simp only [Option.some.injEq] at h
    rw [← h]
  | succ len ih =>
    intro i s s' h
    rw [__free_block] at h
    cases h1 : kmem_cache_free_one env s cachep (objpp i) with
    | none => rw [h1] at h; cases h
    | some s1 =>
      rw [h1] at h
      exact (ih _ _ _ h).trans (free_one_cnext env s cachep _ s1 h1 c)

theorem free_block_cnext (env : slab_env) (s : kmem_state) (cachep : Nat)
    (objpp : Nat → Nat) (len : Nat) (s' : kmem_state)
    (h : free_block env s cachep objpp len = some s') (c : Nat) :
    (s'.cache c).colour_next = (s.cache c).colour_next := by
  unfold free_block at h
  by_cases hl : len > INT_MAX
  · rw [if_pos hl] at h
    simp only [Option.some.injEq] at h
    rw [← h]
  · rw [if_neg hl] at h
    exact free_block_loop_cnext env cachep objpp c len 0 s s' h

theorem cache_free_cnext (env : slab_env) (s : kmem_state) (cachep p : Nat)
    (s' : kmem_state) (h : __kmem_cache_free env s cachep p = some s') (c : Nat) :
    (s'.cache c).colour_next = (s.cache c).colour_next := by
  unfold __kmem_cache_free at h
  by_cases hcc : (s.cache cachep).cpudata env.cpu ≠ 0
  · rw [if_pos hcc] at h
    dsimp only at h
    by_cases ha : (s.cpucache ((s.cache cachep).cpudata env.cpu)).avail <
        (s.cpucache ((s.cache cachep).cpudata env.cpu)).limit
    · rw [if_pos ha] at h
      simp only [Option.some.injEq] at h
      rw [← h]
    · rw [if_neg ha] at h
      cases hb : free_block env
          { s with
            cpucache := upd s.cpucache ((s.cache cachep).cpudata env.cpu)
              { s.cpucache ((s.cache cachep).cpudata env.cpu) with
                avail := ((s.cpucache ((s.cache cachep).cpudata env.cpu)).avail + ULONG -
                  (s.cache cachep).batchcount % ULONG) % ULONG } } cachep
          (fun i => (s.cpucache ((s.cache cachep).cpudata env.cpu)).entry
            (((s.cpucache ((s.cache cachep).cpudata env.cpu)).avail + ULONG -
              (s.cache cachep).batchcount % ULONG) % ULONG + i))
          ((s.cache cachep).batchcount % ULONG) with
      | none => rw [hb] at h; cases h
      | some s1 =>
        rw [hb] at h
        simp only [Option.some.injEq] at h
        have h1 := free_block_cnext env _ cachep _ _ s1 hb c
        rw [← h]
        exact h1
  · rw [if_neg hcc] at h
    exact free_block_cnext env s cachep _ 1 s' h c

theorem kfree_cnext (env : slab_env) (s : kmem_state) (p : Nat) (s' : kmem_state)
    (h : kfree env s p = some s') (c : Nat) :
    (s'.cache c).colour_next = (s.cache c).colour_next := by
  unfold kfree at h
  by_cases hp : p = 0
  · rw [if_pos hp] at h
    simp only [Option.some.injEq] at h
    rw [← h]
  · rw [if_neg hp] at h
    exact cache_free_cnext env s _ p s' h c

theorem tune_alloc_loop_cnext (env : slab_env) (n limit c : Nat) :
    ∀ (k i : Nat) (new : Nat → Nat) (s s' : kmem_state) (new' : Nat → Nat) (o : Option Nat),
      tune_alloc_loop env n limit k i new s = some (s', new', o) → sizes_apart s n c →
      (s'.cache c).colour_next = (s.cache c).colour_next := by
  intro k
  induction k with
  | zero =>
    intro i new s s' new' o h _
    rw [tune_alloc_loop] at h
    simp only [Option.some.injEq, Prod.mk.injEq] at h
    rw [← h.1]
  | succ k ih =>
    intro i new s s' new' o h ha
    rw [tune_alloc_loop] at h
    cases hk : kmalloc env n s
        (((sizeof_void_p * limit) % ULONG + sizeof_cpucache_t) % ULONG) env.GFP_KERNEL with
    | none => rw [hk] at h; cases h
    | some v =>
      obtain ⟨s1, ccnew⟩ := v
      rw [hk] at h
      have h1 := kmalloc_other env n s _ _ s1 ccnew c hk ha
      have hf1 := kmalloc_create_frame env n s _ _ s1 ccnew hk
      simp only [] at h
      by_cases hz : ccnew = 0
      · rw [if_pos hz] at h
        simp only [Option.some.injEq, Prod.mk.injEq] at h
        rw [← h.1, h1]
      · rw [if_neg hz] at h
        have h2 := ih _ _ _ _ _ _ h (sizes_apart_frame s _ n c
          (create_frame_trans _ _ _ hf1 ⟨fun _ => geom_same_refl _, ⟨rfl, rfl, rfl, rfl, rfl⟩⟩)
          ha)
        rw [h2]
        show (s1.cache c).colour_next = _
        rw [h1]

theorem tune_oom_loop_cnext (env : slab_env) (new : Nat → Nat) (c : Nat) :
    ∀ (k : Nat) (s s' : kmem_state), tune_oom_loop env new k s = some s' →
      (s'.cache c).colour_next = (s.cache c).colour_next := by
  intro k
  induction k with
  | zero =>
    intro s s' h
    rw [tune_oom_loop] at h
    simp only [Option.some.injEq] at h
    rw [← h]
  | succ k ih =>
    intro s s' h
    rw [tune_oom_loop] at h
    cases hk : kfree env s (new (env.cpu_logical_map k)) with
    | none => rw [hk] at h; cases h
    | some s1 =>
      rw [hk] at h
      exact (ih _ _ h).trans (kfree_cnext env s _ s1 hk c)

theorem do_ccupdate_local_cnext (s : kmem_state) (cachep : Nat) (new : Nat → Nat)
    (cpu c : Nat) :
    ((do_ccupdate_local s cachep new cpu).1.cache c).colour_next = (s.cache c).colour_next := by
  unfold do_ccupdate_local
  show (upd s.cache cachep _ c).colour_next = _
  by_cases hx : c = cachep
  · rw [hx, upd_same]
  · rw [upd_other _ _ _ _ hx]

theorem smp_call_cnext (env : slab_env) (cachep c : Nat) :
    ∀ (k i : Nat) (r : kmem_state × (Nat → Nat)),
      ((smp_call_function_all_cpus env cachep k i r).1.cache c).colour_next =
        (r.1.cache c).colour_next := by
  intro k
  induction k with
  | zero => intro i r; rfl
  | succ k ih =>
    intro i r
    rw [smp_call_function_all_cpus]
    exact (ih _ _).trans (do_ccupdate_local_cnext r.1 cachep r.2 _ c)

theorem tune_free_loop_cnext (env : slab_env) (cachep : Nat) (new : Nat → Nat) (c : Nat) :
    ∀ (k i : Nat) (s s' : kmem_state), tune_free_loop env cachep new k i s = some s' →
      (s'.cache c).colour_next = (s.cache c).colour_next := by
  intro k
  induction k with
  | zero =>
    intro i s s' h
    rw [tune_free_loop] at h
    simp only [Option.some.injEq] at h
    rw [← h]
  | succ k ih =>
    intro i s s' h
    rw [tune_free_loop] at h
    by_cases hz : new (env.cpu_logical_map i) = 0
    · rw [if_pos hz] at h
      exact ih _ _ _ h
    · rw [if_neg hz] at h
      cases hb : free_block env s cachep (s.cpucache (new (env.cpu_logical_map i))).entry
          ((s.cpucache (new (env.cpu_logical_map i))).avail % ULONG) with
      | none => rw [hb] at h; cases h
      | some s1 =>
        rw [hb] at h
        simp only [] at h
        cases hk : kfree env s1 (new (env.cpu_logical_map i)) with
        | none => rw [hk] at h; cases h
        | some s2 =>
          rw [hk] at h
          exact ((ih _ _ _ h).trans (kfree_cnext env s1 _ s2 hk c)).trans
            (free_block_cnext env s cachep _ _ s1 hb c)

theorem tune_cnext (env : slab_env) (n : Nat) (s : kmem_state) (cachep : Nat)
    (limit batchcount : Int) (s' : kmem_state) (r : Int) (c : Nat)
    (h : kmem_tune_cpucache env n s cachep limit batchcount = some (s', r))
    (ha : sizes_apart s n c) :
    (s'.cache c).colour_next = (s.cache c).colour_next := by
  unfold kmem_tune_cpucache at h
  by_cases h1 : limit < 0
  · rw [if_pos h1] at h
    simp only [Option.some.injEq, Prod.mk.injEq] at h
    rw [← h.1]
  rw [if_neg h1] at h
  by_cases h2 : batchcount < 0
  · rw [if_pos h2] at h
    simp only [Option.some.injEq, Prod.mk.injEq] at h
    rw [← h.1]
  rw [if_neg h2] at h
  by_cases h3 : batchcount > limit
  · rw [if_pos h3] at h
    simp only [Option.some.injEq, Prod.mk.injEq] at h
    rw [← h.1]
  rw [if_neg h3] at h
  by_cases h4 : limit ≠ 0 ∧ batchcount = 0
  · rw [if_pos h4] at h
    simp only [Option.some.injEq, Prod.mk.injEq] at h
    rw [← h.1]
  rw [if_neg h4] at h
  cases hm : (if limit ≠ 0 then
      tune_alloc_loop env n limit.toNat env.smp_num_cpus 0 (fun _ => 0) s
    else some (s, fun _ => 0, none)) with
  | none => rw [hm] at h; cases h
  | some v =>
    obtain ⟨s1, new, o⟩ := v
    rw [hm] at h
    have hs1 : (s1.cache c).colour_next = (s.cache c).colour_next := by
      by_cases hl : limit ≠ 0
      · rw [if_pos hl] at hm
        exact tune_alloc_loop_cnext env n _ c _ _ _ s s1 new o hm ha
      · rw [if_neg hl] at hm
        simp only [Option.some.injEq, Prod.mk.injEq] at hm
        rw [← hm.1]
    cases o with
    | some i =>
      simp only [] at h
      cases ho : tune_oom_loop env new i s1 with
      | none => rw [ho] at h; cases h
      | some s3 =>
        rw [ho] at h
        simp only [Option.some.injEq, Prod.mk.injEq] at h
        rw [← h.1]
        exact (tune_oom_loop_cnext env new c i s1 s3 ho).trans hs1
    | none =>
      simp only [] at h
      obtain ⟨S2, hS2⟩ : ∃ S2, S2 = ({ s1 with
          cache := upd s1.cache cachep
            { s1.cache cachep with batchcount := batchcount.toNat } } : kmem_state) := ⟨_, rfl⟩
      rw [← hS2] at h
      have hS2f : (S2.cache c).colour_next = (s1.cache c).colour_next := by
        rw [hS2]
        show (upd s1.cache cachep _ c).colour_next = _
        by_cases hx : c = cachep
        · rw [hx, upd_same]
        · rw [upd_other _ _ _ _ hx]
      have hsw := smp_call_cnext env cachep c env.smp_num_cpus 0 (S2, new)
      cases hf : tune_free_loop env cachep
          (smp_call_function_all_cpus env cachep env.smp_num_cpus 0 (S2, new)).2
          env.smp_num_cpus 0
          (smp_call_function_all_cpus env cachep env.smp_num_cpus 0 (S2, new)).1 with
      | none => rw [hf] at h; cases h
      | some s3 =>
        rw [hf] at h
        simp only [Option.some.injEq, Prod.mk.injEq] at h
        rw [← h.1]
        exact (((tune_free_loop_cnext env cachep _ c _ _ _ s3 hf).trans hsw).trans hS2f).trans
          hs1

theorem enable_cnext (env : slab_env) (n : Nat) (s : kmem_state) (cachep : Nat)
    (s' : kmem_state) (c : Nat) (h : enable_cpucache env n s cachep = some s')
    (ha : sizes_apart s n c) :
    (s'.cache c).colour_next = (s.cache c).colour_next := by
  unfold enable_cpucache at h
  by_cases hp : (s.cache cachep).objsize > env.cfg.PAGE_SIZE
  · rw [if_pos hp] at h
    simp only [Option.some.injEq] at h
    rw [← h]
  · rw [if_neg hp] at h
    dsimp only at h
    cases ht : kmem_tune_cpucache env n s cachep
        (if (s.cache cachep).objsize > 1024 then 60
          else if (s.cache cachep).objsize > 256 then 124 else 252)
        ((if (s.cache cachep).objsize > 1024 then 60
          else if (s.cache cachep).objsize > 256 then 124 else 252) / 2) with
    | none => rw [ht] at h; cases h
    | some v =>
      obtain ⟨s1, r⟩ := v
      rw [ht] at h
      simp only [Option.some.injEq] at h
      rw [← h]
      exact tune_cnext env n s cachep _ _ s1 r c ht ha

theorem create_colour_next (env : slab_env) (n : Nat) (s : kmem_state) (nm : String)
    (size offset flags : Nat) (ctor dtor : Bool) (s' : kmem_state) (c : Nat)
    (h : kmem_cache_create env n s (some nm) size offset flags ctor dtor = some (s', c))
    (hc : c ≠ 0) (ha : s.g_cpucache_up = true → sizes_apart s n c) :
    (s'.cache c).colour_next = 0 := by
  obtain ⟨s1, s3, g, l, num, desc, -, hal, -, -, hd, he, -, hs'⟩ :=
    create_success env n s nm size offset flags ctor dtor s' c h hc
  obtain ⟨-, -, -, -, -, -, -, -, d9⟩ := create_descriptor_fields _ _ _ _ _ _ _ _ _ _ _ _ hd
  have hf1 : create_frame s s1 := alloc_create_frame env n s _ _ s1 c hal
  rw [hs']
  show (s3.cache c).colour_next = 0
  by_cases hu : s1.g_cpucache_up = true
  · rw [if_pos hu] at he
    have hup : s.g_cpucache_up = true := by rw [← hf1.2.2.2.2.2]; exact hu
    have ha1 := sizes_apart_frame s s1 n c hf1 (ha hup)
    have ha0 : sizes_apart { s1 with cache := upd s1.cache c desc } n c := by
      intro e hmem k hk
      have hu1 := desc_chain_upd s1 { s1 with cache := upd s1.cache c desc } c
        (fun x hx => by
          show (upd s1.cache c desc x).slabp_cache = _
          rw [upd_other _ _ _ _ hx])
      rw [hu1 k _ (fun j hj => (ha1 e hmem j (Nat.lt_trans hj hk)).1),
        hu1 k _ (fun j hj => (ha1 e hmem j (Nat.lt_trans hj hk)).2)]
      exact ha1 e hmem k hk
    rw [enable_cnext env n _ c s3 c he ha0]
    show (upd s1.cache c desc c).colour_next = 0
    rw [upd_same]
    exact d9
  · rw [if_neg hu] at he
    simp only [Option.some.injEq] at he
    rw [← he]
    show (upd s1.cache c desc c).colour_next = 0
    rw [upd_same]
    exact d9
/-! ## Slab colouring for caches of either kind -/

theorem slabmgmt_offslab_eq (alloc : kmem_state → Nat → Nat → Option (kmem_state × Nat))
    (env : slab_env) (s : kmem_state) (cachep objp off lf : Nat)
    (hoff : (s.cache cachep).flags &&& CFLGS_OFF_SLAB ≠ 0) :
    kmem_cache_slabmgmt alloc env s cachep objp off lf =
      match alloc s (s.cache cachep).slabp_cache lf with
      | none => none
      | some (s1, slabp) =>
        if slabp = 0 then some (s1, 0)
        else
          some ({ s1 with
            slab := upd s1.slab slabp
              { s1.slab slabp with
                inuse := 0
                colouroff := off
                s_mem := (objp + off) % ULONG } }, slabp) := by
  unfold kmem_cache_slabmgmt
  simp only []
  exact if_pos hoff

/-- One call of `kmem_cache_grow` on a cache of either kind, the nested
allocation of an off-slab descriptor being the allocator itself with fuel
`m`: when the descriptor cache chain stays clear of `cachep` and the nested
call returns, the call returns, advances `colour_next` by one step of the
cycle and leaves the geometry alone, and a successful call appends the slab
whose objects start at the colour offset (behind the descriptor when that is
in the slab). -/
theorem grow_any_step (env : slab_env) (m : Nat) (s : kmem_state) (cachep flags : Nat)
    (hf : grow_flags_ok env flags)
    (hsep : (s.cache cachep).flags &&& CFLGS_OFF_SLAB ≠ 0 →
      ∀ k, k < m → desc_chain s k (s.cache cachep).slabp_cache ≠ cachep)
    (hret : (s.cache cachep).flags &&& CFLGS_OFF_SLAB ≠ 0 →
      s.getpages s.getpages_calls ≠ 0 →
      (__kmem_cache_alloc env m (grow_start s cachep) (s.cache cachep).slabp_cache
        (flags &&& env.SLAB_LEVEL_MASK)).isSome = true) :
    ∃ s' r, kmem_cache_grow (__kmem_cache_alloc env m) env s cachep flags = some (s', r) ∧
      (s'.cache cachep).colour_next =
        (if ((s.cache cachep).colour_next + 1) % ULONG ≥ (s.cache cachep).colour then 0
          else ((s.cache cachep).colour_next + 1) % ULONG) ∧
      (s'.cache cachep).colour = (s.cache cachep).colour ∧
      (s'.cache cachep).colour_off = (s.cache cachep).colour_off ∧
      (s'.cache cachep).flags = (s.cache cachep).flags ∧
      (s'.cache cachep).num = (s.cache cachep).num ∧
      state_same s s' ∧
      (r = 1 → ∃ slabp, slabp ≠ 0 ∧
        (s'.cache cachep).slabs = (s.cache cachep).slabs ++ [slabp] ∧
        ((s.cache cachep).flags &&& CFLGS_OFF_SLAB = 0 →
          slabp = (s.getpages s.getpages_calls + grow_offset s cachep) % ULONG ∧
          (s'.slab slabp).s_mem =
            (s.getpages s.getpages_calls + (grow_offset s cachep + L1_CACHE_ALIGN env.cfg
              (((((s.cache cachep).num * sizeof_kmem_bufctl_t) % ULONG) + sizeof_slab_t) %
                ULONG)) % ULONG) % ULONG) ∧
        ((s.cache cachep).flags &&& CFLGS_OFF_SLAB ≠ 0 →
          (s'.slab slabp).s_mem =
            (s.getpages s.getpages_calls + grow_offset s cachep) % ULONG)) := by
  obtain ⟨g1, -⟩ := grow_start_cache s cachep
  by_cases hon : (s.cache cachep).flags &&& CFLGS_OFF_SLAB = 0
  · obtain ⟨s', r, hg, c1, c2, c3, c4, c5, c6⟩ :=
      grow_onslab_step (__kmem_cache_alloc env m) env s cachep flags hf hon
    refine ⟨s', r, hg, c1, c2, c3, c4, c5,
      grow_same _ (alloc_same env m) env s cachep flags s' r hg, fun h1 => ?_⟩
    obtain ⟨r1, r2⟩ := c6 h1
    have hp : s.getpages s.getpages_calls ≠ 0 := by
      intro hp
      rw [kmem_cache_grow_nopages _ env s cachep flags hf hp] at hg
      simp only [Option.some.injEq, Prod.mk.injEq] at hg
      rw [h1] at hg
      exact absurd hg.2 (by decide)
    have hz : (s.getpages s.getpages_calls + grow_offset s cachep) % ULONG ≠ 0 := by
      intro hz
      have hon2 : ((grow_start s cachep).cache cachep).flags &&& CFLGS_OFF_SLAB = 0 := by
        rw [g1]; exact hon
      have heq := kmem_cache_grow_eq (__kmem_cache_alloc env m) env s cachep flags hf hp
      rw [slabmgmt_onslab_eq _ env _ cachep _ _ _ hon2] at heq
      simp only [] at heq
      rw [if_pos hz, hg] at heq
      simp only [Option.some.injEq, Prod.mk.injEq] at heq
      rw [h1] at heq
      exact absurd heq.2 (by decide)
    exact ⟨_, hz, r1, fun _ => ⟨rfl, r2⟩, fun h => absurd hon h⟩
  · by_cases hp : s.getpages s.getpages_calls = 0
    · have hg := kmem_cache_grow_nopages (__kmem_cache_alloc env m) env s cachep flags hf hp
      have hsm := grow_same _ (alloc_same env m) env s cachep flags _ _ hg
      refine ⟨_, _, hg, ?_, ?_, ?_, ?_, ?_, hsm, fun h => by cases h⟩ <;>
        (unfold grow_failed; simp only [upd_same]; rw [g1])
    · have hoff2 : ((grow_start s cachep).cache cachep).flags &&& CFLGS_OFF_SLAB ≠ 0 := by
        rw [g1]; exact hon
      have hsl : ((grow_start s cachep).cache cachep).slabp_cache =
          (s.cache cachep).slabp_cache := by rw [g1]
      have heq := kmem_cache_grow_eq (__kmem_cache_alloc env m) env s cachep flags hf hp
      rw [slabmgmt_offslab_eq _ env _ cachep _ _ _ hoff2, hsl] at heq
      have hr := hret hon hp
      cases ha : __kmem_cache_alloc env m (grow_start s cachep) (s.cache cachep).slabp_cache
          (flags &&& env.SLAB_LEVEL_MASK) with
      | none => rw [ha] at hr; cases hr
      | some x =>
        obtain ⟨t, d⟩ := x
        rw [ha] at heq
        simp only [] at heq
        have hch : ∀ k, k < m →
            desc_chain (grow_start s cachep) k (s.cache cachep).slabp_cache ≠ cachep := by
          intro k hk
          rw [desc_chain_same s _ (grow_start_same s cachep)]
          exact hsep hon k hk
        obtain ⟨a1, -⟩ := alloc_other_cache env m _ _ _ t d cachep ha hch
        by_cases hd : d = 0
        · rw [if_pos hd] at heq
          simp only [if_true] at heq
          have hsm := grow_same _ (alloc_same env m) env s cachep flags _ _ heq
          refine ⟨_, _, heq, ?_, ?_, ?_, ?_, ?_, hsm, fun h => by cases h⟩ <;>
            (simp only [upd_same]; unfold kmem_freepages; simp only []; rw [a1, g1])
        · rw [if_neg hd] at heq
          simp only [if_neg hd] at heq
          have hsm := grow_same _ (alloc_same env m) env s cachep flags _ _ heq
          refine ⟨_, _, heq, ?_⟩
          obtain ⟨f1, -⟩ := grow_finish_cache env
            { t with
              slab := upd t.slab d
                { t.slab d with
                  inuse := 0
                  colouroff := grow_offset s cachep
                  s_mem := (s.getpages s.getpages_calls + grow_offset s cachep) % ULONG } }
            cachep d (s.getpages s.getpages_calls)
          obtain ⟨k1, -⟩ := grow_finish_slab env
            { t with
              slab := upd t.slab d
                { t.slab d with
                  inuse := 0
                  colouroff := grow_offset s cachep
                  s_mem := (s.getpages s.getpages_calls + grow_offset s cachep) % ULONG } }
            cachep d (s.getpages s.getpages_calls)
          rw [f1]
          simp only []
          rw [a1, g1]
          refine ⟨rfl, rfl, rfl, rfl, rfl, hsm, fun _ => ⟨d, hd, rfl, fun h => absurd h hon,
            fun _ => ?_⟩⟩
          rw [k1]
          simp only [upd_same]
theorem grow_any_cycle (env : slab_env) (m cachep flags : Nat) (hf : grow_flags_ok env flags) :
    ∀ (k : Nat) (s : kmem_state),
      (s.cache cachep).colour < ULONG →
      ((s.cache cachep).colour_next < (s.cache cachep).colour ∨
        (s.cache cachep).colour_next = 0) →
      ((s.cache cachep).flags &&& CFLGS_OFF_SLAB ≠ 0 →
        ∀ q, q < m → desc_chain s q (s.cache cachep).slabp_cache ≠ cachep) →
      ((s.cache cachep).flags &&& CFLGS_OFF_SLAB ≠ 0 →
        ∀ i, i < k → ∀ si, grow_iter (__kmem_cache_alloc env m) env cachep flags i s = some si →
          si.getpages si.getpages_calls ≠ 0 →
          (__kmem_cache_alloc env m (grow_start si cachep) (si.cache cachep).slabp_cache
            (flags &&& env.SLAB_LEVEL_MASK)).isSome = true) →
      ∃ sk, grow_iter (__kmem_cache_alloc env m) env cachep flags k s = some sk ∧
        (sk.cache cachep).colour_next =
          (if (s.cache cachep).colour = 0 then 0
            else ((s.cache cachep).colour_next + k) % (s.cache cachep).colour) ∧
        (sk.cache cachep).colour = (s.cache cachep).colour ∧
        (sk.cache cachep).colour_off = (s.cache cachep).colour_off ∧
        (sk.cache cachep).flags = (s.cache cachep).flags ∧
        (sk.cache cachep).num = (s.cache cachep).num ∧
        state_same s sk := by
  intro k
  induction k with
  | zero =>
    intro s hC hn _ _
    refine ⟨s, rfl, ?_, rfl, rfl, rfl, rfl, state_same_refl s⟩
    by_cases h0 : (s.cache cachep).colour = 0
    · rw [if_pos h0]; omega
    · rw [if_neg h0, Nat.add_zero]
      exact (Nat.mod_eq_of_lt (by omega)).symm
  | succ k ih =>
    intro s hC hn hsep hret
    obtain ⟨s1, r, hg, c1, c2, c3, c4, c5, c6, -⟩ := grow_any_step env m s cachep flags hf hsep
      (fun ho hp => hret ho 0 (Nat.succ_pos k) s rfl hp)
    obtain ⟨n1, n2⟩ := colour_next_step (s.cache cachep).colour_next (s.cache cachep).colour k
      hC hn
    have hsl : (s1.cache cachep).slabp_cache = (s.cache cachep).slabp_cache :=
      (c6 cachep).2.2.2.2.2.2.2.2.1
    obtain ⟨sk, hk, d1, d2, d3, d4, d5, d6⟩ := ih s1 (by rw [c2]; exact hC)
      (by rw [c1, c2]; exact n1)
      (fun ho q hq => by
        rw [c4] at ho
        rw [hsl, desc_chain_same s s1 c6]
        exact hsep ho q hq)
      (fun ho i hi si hsi hp => by
        rw [c4] at ho
        refine hret ho (i + 1) (Nat.succ_lt_succ hi) si ?_ hp
        rw [grow_iter, hg]
        exact hsi)
    refine ⟨sk, ?_, ?_, d2.trans c2, d3.trans c3, d4.trans c4, d5.trans c5,
      state_same_trans _ _ _ c6 d6⟩
    · rw [grow_iter, hg]
      exact hk
    · rw [d1, c1, c2]
      exact n2

/-- C32. Colouring.  For a cache returned by `kmem_cache_create` (cache
line `2^k` bytes, no wrap of `size + L1_CACHE_BYTES + 3`), whether its slab
descriptors are kept in the slab or off it: `colour_off` is the caller's
offset rounded up to a multiple of the alignment `2^i` the function ends up
with, or `L1_CACHE_BYTES` when that is 0; `colour` is `left_over / colour_off`,
where `left_over` is what the order loop left, less the slab descriptor when
the cache was moved on-slab; and `colour_next` is 0 (the descriptor of the new
cache being none of the general caches that `enable_cpucache` draws on, nor a
descriptor cache of one).  Then successive calls of `kmem_cache_grow`, with
flags that pass its checks and `kmem_cache_alloc` itself (any fuel `m`) for
the off-slab descriptors, all return, provided for an off-slab cache that its
descriptor caches are other caches and that the allocation of the descriptor
returns in the states reached; the call number `j` (from 0), successful or
not, finds `colour_next = j mod colour` (0 when `colour = 0`) and uses the
colour offset `(j mod colour) * colour_off`, and a successful one appends a
slab whose objects start at that offset in the pages, behind the descriptor
when the descriptor is in the slab. -/
theorem slab_colouring (env : slab_env) (n m : Nat) (s : kmem_state) (nm : String)
    (size offset flags : Nat) (ctor dtor : Bool) (s' : kmem_state) (c k gflags : Nat)
    (hL : env.cfg.L1_CACHE_BYTES = 2 ^ k) (hk : k ≤ 31)
    (hmask : env.cfg.SLAB_HWCACHE_ALIGN &&& CFLGS_OFF_SLAB = 0)
    (hsize : size + env.cfg.L1_CACHE_BYTES + 3 < ULONG)
    (h : kmem_cache_create env n s (some nm) size offset flags ctor dtor = some (s', c))
    (hc : c ≠ 0)
    (hgen : s.g_cpucache_up = true → sizes_apart s n c)
    (hdesc : (s'.cache c).flags &&& CFLGS_OFF_SLAB ≠ 0 →
      ∀ q, q < m → desc_chain s' q (s'.cache c).slabp_cache ≠ c)
    (hf : grow_flags_ok env gflags) :
    ∃ i l, create_align env.cfg size flags = 2 ^ i ∧
      create_order_loop env.cfg s.offslab_limit s.slab_break_gfp_order
        (create_objsize env.cfg size flags) (create_flags env.cfg size flags)
        (MAX_GFP_ORDER + 2) 0 = some ((s'.cache c).gfporder, l, (s'.cache c).num) ∧
      (s'.cache c).colour_off =
        (if (offset + 2 ^ i - 1) / 2 ^ i * 2 ^ i = 0 then env.cfg.L1_CACHE_BYTES
          else (offset + 2 ^ i - 1) / 2 ^ i * 2 ^ i) ∧
      (s'.cache c).colour =
        (if create_flags env.cfg size flags &&& CFLGS_OFF_SLAB ≠ 0 ∧
            l ≥ L1_CACHE_ALIGN env.cfg
              (((((s'.cache c).num * sizeof_kmem_bufctl_t) % ULONG) + sizeof_slab_t) % ULONG)
          then l - L1_CACHE_ALIGN env.cfg
            (((((s'.cache c).num * sizeof_kmem_bufctl_t) % ULONG) + sizeof_slab_t) % ULONG)
          else l) / (s'.cache c).colour_off ∧
      (s'.cache c).colour_next = 0 ∧
      ∀ j,
        ((s'.cache c).flags &&& CFLGS_OFF_SLAB ≠ 0 →
          ∀ i, i ≤ j → ∀ si,
            grow_iter (__kmem_cache_alloc env m) env c gflags i s' = some si →
            si.getpages si.getpages_calls ≠ 0 →
            (__kmem_cache_alloc env m (grow_start si c) (si.cache c).slabp_cache
              (gflags &&& env.SLAB_LEVEL_MASK)).isSome = true) →
        ∃ sj s2 r, grow_iter (__kmem_cache_alloc env m) env c gflags j s' = some sj ∧
          (sj.cache c).colour_next =
            (if (s'.cache c).colour = 0 then 0 else j % (s'.cache c).colour) ∧
          grow_offset sj c =
            ((if (s'.cache c).colour = 0 then 0 else j % (s'.cache c).colour) *
              (s'.cache c).colour_off) % ULONG ∧
          kmem_cache_grow (__kmem_cache_alloc env m) env sj c gflags = some (s2, r) ∧
          (s2.cache c).colour_next =
            (if (s'.cache c).colour = 0 then 0 else (j + 1) % (s'.cache c).colour) ∧
          (r = 1 → ∃ slabp, slabp ≠ 0 ∧
            (s2.cache c).slabs = (sj.cache c).slabs ++ [slabp] ∧
            ((s'.cache c).flags &&& CFLGS_OFF_SLAB = 0 →
              slabp = (sj.getpages sj.getpages_calls + grow_offset sj c) % ULONG ∧
              (s2.slab slabp).s_mem =
                (sj.getpages sj.getpages_calls + (grow_offset sj c + L1_CACHE_ALIGN env.cfg
                  (((((s'.cache c).num * sizeof_kmem_bufctl_t) % ULONG) + sizeof_slab_t) %
                    ULONG)) % ULONG) % ULONG) ∧
            ((s'.cache c).flags &&& CFLGS_OFF_SLAB ≠ 0 →
              (s2.slab slabp).s_mem =
                (sj.getpages sj.getpages_calls + grow_offset sj c) % ULONG)) := by
  have hU : ULONG = 4294967296 := rfl
  have hch := create_checks_of_some env n s nm size offset flags ctor dtor _ h
  have hos := create_checks_offset _ _ _ _ _ _ _ _ _ hch
  obtain ⟨-, -, -, -, -, -, -, l, hl, desc, hd, hg⟩ :=
    create_result env n s nm size offset flags ctor dtor s' c h hc
  obtain ⟨i, hi, hal⟩ := create_align_pow env.cfg size flags k hL hk hmask hsize
  have hLpos : 0 < env.cfg.L1_CACHE_BYTES := by rw [hL]; exact Nat.two_pow_pos k
  have hi_le : 2 ^ i ≤ env.cfg.L1_CACHE_BYTES + 4 := by
    by_cases hfl : flags &&& env.cfg.SLAB_HWCACHE_ALIGN = 0
    · have e : create_align env.cfg size flags = BYTES_PER_WORD := by
        unfold create_align
        rw [create_flags_hw env.cfg size flags hmask, if_neg (not_not.mpr hfl),
          if_neg (not_not.mpr hfl)]
      rw [← hal, e]
      have : BYTES_PER_WORD = 4 := rfl
      omega
    · obtain ⟨-, -, -, h4⟩ := create_objsize_round env.cfg size flags k hL hk hmask hsize
      obtain ⟨i2, hi2, he2, -⟩ := h4 hfl
      rw [← hal, he2, hL]
      have := Nat.pow_le_pow_right (show 0 < 2 by decide) hi2
      omega
  obtain ⟨d1, d2, -⟩ := create_descriptor_colour env _ nm size offset flags ctor dtor _ l _
    desc i hi hal (by omega) hd
  have gco : (s'.cache c).colour_off = desc.colour_off := hg.2.2.2.2.2.2.1
  have gc : (s'.cache c).colour = desc.colour := hg.2.2.2.2.2.1
  have hlt := create_order_loop_left_lt _ _ _ _ _ _ _ _ _ _ hl
  have hcol : (s'.cache c).colour < ULONG := by
    rw [gc, d2]
    refine Nat.lt_of_le_of_lt (Nat.div_le_self _ _) ?_
    split
    · exact Nat.lt_of_le_of_lt (Nat.sub_le _ _) hlt
    · exact hlt
  have hn0 : (s'.cache c).colour_next = 0 :=
    create_colour_next env n s nm size offset flags ctor dtor s' c h hc hgen
  refine ⟨i, l, hal, hl, by rw [gco, d1], by rw [gc, d2, gco], hn0, ?_⟩
  intro j hret
  obtain ⟨sj, hj, e1, e2, e3, e4, e5, e6⟩ := grow_any_cycle env m c gflags hf j s' hcol
    (Or.inr hn0) hdesc (fun ho i hi' si hsi hp => hret ho i (Nat.le_of_lt hi') si hsi hp)
  rw [hn0, Nat.zero_add] at e1
  have hsl : (sj.cache c).slabp_cache = (s'.cache c).slabp_cache := (e6 c).2.2.2.2.2.2.2.2.1
  obtain ⟨s2, r, hgj, f1, -, -, -, -, -, hr⟩ := grow_any_step env m sj c gflags hf
    (fun ho q hq => by
      rw [e4] at ho
      rw [hsl, desc_chain_same s' sj e6]
      exact hdesc ho q hq)
    (fun ho hp => by
      rw [e4] at ho
      exact hret ho j (Nat.le_refl j) sj hj hp)
  refine ⟨sj, s2, r, hj, e1, ?_, hgj, ?_, ?_⟩
  · unfold grow_offset
    rw [e1, e3]
  · rw [f1, e1, e2]
    by_cases h0 : (s'.cache c).colour = 0
    · rw [if_pos h0, if_pos h0, if_pos (by rw [h0]; exact Nat.zero_le _)]
    · rw [if_neg h0, if_neg h0]
      have hpos : 0 < (s'.cache c).colour := Nat.pos_of_ne_zero h0
      have hlt2 := Nat.mod_lt j hpos
      have hm : (j % (s'.cache c).colour + 1) % ULONG = j % (s'.cache c).colour + 1 :=
        Nat.mod_eq_of_lt (by omega)
      have key : (j + 1) % (s'.cache c).colour =
          (j % (s'.cache c).colour + 1) % (s'.cache c).colour := by
        rw [Nat.add_mod j 1, Nat.add_mod (j % (s'.cache c).colour) 1, Nat.mod_mod]
      rw [hm, key]
      by_cases hw : j % (s'.cache c).colour + 1 ≥ (s'.cache c).colour
      · rw [if_pos hw]
        have e : j % (s'.cache c).colour + 1 = (s'.cache c).colour := by omega
        rw [e, Nat.mod_self]
      · rw [if_neg hw]
        exact (Nat.mod_eq_of_lt (by omega)).symm
  · intro h1
    obtain ⟨slabp, r0, r1, r2, r3⟩ := hr h1
    rw [e4, e5] at r2
    rw [e4] at r3
    exact ⟨slabp, r0, r1, r2, r3⟩
theorem option_map_true {α : Type} (o : Option α) (p : α → Bool)
    (h : o.map p = some true) : ∀ x, o = some x → p x = true := by
  intro x hx
  rw [hx] at h
  exact Option.some.inj h

theorem kmem_state_ex17_created :
    kmem_cache_create slab_env_ex 2 kmem_state_ex16 (some "big") 4068 8 0 false false =
      some (kmem_state_ex17, 0xC1000060) := by
  obtain ⟨s', h⟩ := option_map_snd
    (kmem_cache_create slab_env_ex 2 kmem_state_ex16 (some "big") 4068 8 0 false false)
    0xC1000060 (by decide)
  have e : kmem_state_ex17 = s' := by
    unfold kmem_state_ex17
    rw [h]
  rw [e]
  exact h

/-- Witness for C32: the cache "big" of `kmem_state_ex17` keeps its slab
descriptors off the slab and has `colour_off = 8` and `colour = 3`; the call
of `kmem_cache_grow` number 4 finds `colour_next = 1`, uses the colour offset
8, succeeds, and the objects of its slab start 8 bytes into the pages. -/
theorem slab_colouring_witness :
    (kmem_state_ex17.cache 0xC1000060).flags &&& CFLGS_OFF_SLAB ≠ 0 ∧
    (kmem_state_ex17.cache 0xC1000060).colour_off = 8 ∧
    (kmem_state_ex17.cache 0xC1000060).colour = 3 ∧
    (kmem_state_ex17.cache 0xC1000060).colour_next = 0 ∧
    ∃ s4 s5 slabp, grow_iter (__kmem_cache_alloc slab_env_ex 2) slab_env_ex 0xC1000060 0x07 4
        kmem_state_ex17 = some s4 ∧
      (s4.cache 0xC1000060).colour_next = 1 ∧ grow_offset s4 0xC1000060 = 8 ∧
      kmem_cache_grow (__kmem_cache_alloc slab_env_ex 2) slab_env_ex s4 0xC1000060 0x07 =
        some (s5, 1) ∧
      (s5.cache 0xC1000060).colour_next = 2 ∧
      (s5.cache 0xC1000060).slabs = (s4.cache 0xC1000060).slabs ++ [slabp] ∧
      (s5.slab slabp).s_mem = (s4.getpages s4.getpages_calls + 8) % ULONG := by
  have hoff : (kmem_state_ex17.cache 0xC1000060).flags &&& CFLGS_OFF_SLAB ≠ 0 := by decide
  obtain ⟨i, l, -, -, h3, -, h5, h6⟩ := slab_colouring slab_env_ex 2 2 kmem_state_ex16 "big"
    4068 8 0 false false kmem_state_ex17 0xC1000060 5 0x07
    (by decide) (by decide) (by decide) (by decide) kmem_state_ex17_created (by decide)
    (fun hg => absurd hg (by decide)) (fun _ => by decide) (by decide)
  have hret : ∀ i, i ≤ 4 →
      (grow_iter (__kmem_cache_alloc slab_env_ex 2) slab_env_ex 0xC1000060 0x07 i
        kmem_state_ex17).map (fun si => decide (si.getpages si.getpages_calls ≠ 0 →
          (__kmem_cache_alloc slab_env_ex 2 (grow_start si 0xC1000060)
            (si.cache 0xC1000060).slabp_cache
            (0x07 &&& slab_env_ex.SLAB_LEVEL_MASK)).isSome = true)) = some true := by
    decide!
  obtain ⟨s4, s5, r, hj, e1, e2, hg, e3, hr⟩ := h6 4 (fun _ i hi si hsi =>
    of_decide_eq_true (option_map_true _ _ (hret i hi) si hsi))
  have c3 : (kmem_state_ex17.cache 0xC1000060).colour = 3 := by decide
  have c8 : (kmem_state_ex17.cache 0xC1000060).colour_off = 8 := by decide
  rw [c3] at e1 e3
  rw [c3, c8] at e2
  have hr1 : r = 1 := by
    have hb : ((grow_iter (__kmem_cache_alloc slab_env_ex 2) slab_env_ex 0xC1000060 0x07 4
        kmem_state_ex17).bind (fun t =>
          kmem_cache_grow (__kmem_cache_alloc slab_env_ex 2) slab_env_ex t 0xC1000060
            0x07)).map Prod.snd = some 1 := by decide!
    rw [hj, Option.some_bind, hg] at hb
    exact Option.some.inj hb
  subst hr1
  obtain ⟨slabp, -, r1, -, r3⟩ := hr rfl
  have r4 := r3 hoff
  rw [e2] at r4
  exact ⟨hoff, c8, c3, h5, s4, s5, slabp, hj, e1, e2, hg, e3, r1, r4⟩
/-! ## Growth of an off-slab cache in a run of allocations -/

theorem grow_open_off (env : slab_env) (m : Nat) (s : kmem_state) (cachep flags : Nat)
    (hN1 : 1 ≤ (s.cache cachep).num) (hN2 : (s.cache cachep).num ≤ SLAB_LIMIT)
    (hoff : (s.cache cachep).flags &&& CFLGS_OFF_SLAB ≠ 0) (hf : grow_flags_ok env flags)
    (hfn : (s.cache cachep).firstnotfull = none)
    (hap : desc_caches_apart env m s cachep)
    (hr : offslab_grow_ready env m s cachep flags) :
    ∃ s' d, kmem_cache_grow (__kmem_cache_alloc env m) env s cachep flags = some (s', 1) ∧
      open_slab s' cachep (s.cache cachep).slabs d 0 ∧
      s'.grown.count cachep = s.grown.count cachep + 1 ∧
      ((s.cache cachep).cpudata env.cpu ≠ 0 →
        s'.cpucache ((s.cache cachep).cpudata env.cpu) =
          s.cpucache ((s.cache cachep).cpudata env.cpu)) ∧
      cache_same (s.cache cachep) (s'.cache cachep) ∧
      (s'.cache cachep).colour_next =
        (if ((s.cache cachep).colour_next + 1) % ULONG ≥ (s.cache cachep).colour then 0
          else ((s.cache cachep).colour_next + 1) % ULONG) := by
  have hU : ULONG = 4294967296 := rfl
  obtain ⟨hp0, hp1, hal⟩ := hr
  obtain ⟨hsep, hcpu⟩ := hap
  have hoffs : grow_offset s cachep =
      (s.cache cachep).colour_next * (s.cache cachep).colour_off := by
    unfold grow_offset; exact Nat.mod_eq_of_lt (by omega)
  have hsm : (s.getpages s.getpages_calls + grow_offset s cachep) % ULONG =
      s.getpages s.getpages_calls +
        (s.cache cachep).colour_next * (s.cache cachep).colour_off := by
    rw [hoffs]; exact Nat.mod_eq_of_lt (by omega)
  obtain ⟨hgc, hgsl, hgcc, hggr, hggp, hggc⟩ := grow_start_cache s cachep
  have hoff2 : ((grow_start s cachep).cache cachep).flags &&& CFLGS_OFF_SLAB ≠ 0 := by
    rw [hgc]; exact hoff
  have hsl : ((grow_start s cachep).cache cachep).slabp_cache =
      (s.cache cachep).slabp_cache := by rw [hgc]
  have heq := kmem_cache_grow_eq (__kmem_cache_alloc env m) env s cachep flags hf
    (Nat.pos_iff_ne_zero.mp hp0)
  rw [slabmgmt_offslab_eq _ env _ cachep _ _ _ hoff2, hsl] at heq
  cases ha : __kmem_cache_alloc env m (grow_start s cachep) (s.cache cachep).slabp_cache
      (flags &&& env.SLAB_LEVEL_MASK) with
  | none => rw [ha] at hal; cases hal
  | some x =>
    obtain ⟨t, d⟩ := x
    rw [ha] at heq hal
    have hd := of_decide_eq_true (Option.some.inj hal)
    obtain ⟨hd0, hdf⟩ : d ≠ 0 ∧ d ∉ (s.cache cachep).slabs := hd
    simp only [if_neg hd0] at heq
    have hss := grow_start_same s cachep
    have hch : ∀ k, k < m →
        desc_chain (grow_start s cachep) k (s.cache cachep).slabp_cache ≠ cachep := by
      intro k hk
      rw [desc_chain_same s _ hss]
      exact hsep k hk
    obtain ⟨a1, a3⟩ := alloc_other_cache env m _ _ _ t d cachep ha hch
    have a2 : (s.cache cachep).cpudata env.cpu ≠ 0 →
        t.cpucache ((s.cache cachep).cpudata env.cpu) =
          s.cpucache ((s.cache cachep).cpudata env.cpu) := by
      intro hcc
      obtain ⟨-, b2, -⟩ := alloc_other env m _ _ _ t d cachep
        ((s.cache cachep).cpudata env.cpu) ha hch (fun k hk => by
          rw [desc_chain_same s _ hss, (cache_same_cpudata _ _ (hss _)).1]
          exact hcpu hcc k hk)
      rw [b2, hgcc]
    obtain ⟨S2, hS2⟩ : ∃ S2, S2 = { t with
        slab := upd t.slab d
          { t.slab d with
            inuse := 0
            colouroff := grow_offset s cachep
            s_mem := (s.getpages s.getpages_calls + grow_offset s cachep) % ULONG } } :=
      ⟨_, rfl⟩
    rw [← hS2] at heq
    have hS2c : S2.cache cachep = (grow_start s cachep).cache cachep := by
      rw [hS2]
      exact a1
    have hS2gr : S2.grown = t.grown := by rw [hS2]
    have hS2cc : S2.cpucache = t.cpucache := by rw [hS2]
    have hS2d : S2.slab d = { t.slab d with
        inuse := 0
        colouroff := grow_offset s cachep
        s_mem := (s.getpages s.getpages_calls + grow_offset s cachep) % ULONG } := by
      rw [hS2]
      exact upd_same _ _ _
    obtain ⟨hfc, -⟩ := grow_finish_cache env S2 cachep d (s.getpages s.getpages_calls)
    obtain ⟨hfs, -⟩ := grow_finish_slab env S2 cachep d (s.getpages s.getpages_calls)
    obtain ⟨hf1, -, -, hf4, -, -⟩ := grow_finish_frame env S2 cachep d
      (s.getpages s.getpages_calls)
    obtain ⟨G, hG⟩ : ∃ G, G = grow_finish env S2 cachep d (s.getpages s.getpages_calls) :=
      ⟨_, rfl⟩
    rw [← hG] at heq hfc hfs hf1 hf4
    rw [hS2c, hgc] at hfc
    have hnum2 : (S2.cache cachep).num = (s.cache cachep).num := by rw [hS2c, hgc]
    rw [hnum2, if_neg (by omega)] at hfs
    obtain ⟨hb1, hb2⟩ := grow_bufctl (S2.slab d).bufctl (s.cache cachep).num hN1 hN2
    have hnumG : (G.cache cachep).num = (s.cache cachep).num := by rw [hfc]
    have hosG : (G.cache cachep).objsize = (s.cache cachep).objsize := by rw [hfc]
    have e1 : (G.slab d).inuse = 0 := by rw [hfs, hS2d]
    have e2 : (G.slab d).free = 0 := by rw [hfs]
    have e3 : ∀ i, i + 1 < (s.cache cachep).num → (G.slab d).bufctl i = i + 1 := by
      intro i hi; rw [hfs]; exact hb1 i hi
    have e4 : (G.slab d).bufctl ((s.cache cachep).num - 1) = BUFCTL_END := by
      rw [hfs]; exact hb2
    obtain ⟨-, e6⟩ := grow_slab_free_ok _ (s.cache cachep).num hN1 hN2 e1 e2 e3 e4
    have e7 : (G.slab d).s_mem = s.getpages s.getpages_calls +
        (s.cache cachep).colour_next * (s.cache cachep).colour_off := by
      rw [hfs, hS2d]
      exact hsm
    refine ⟨G, d, heq, ⟨?_, hdf, ?_, ?_, e1, ?_, ?_⟩, ?_, ?_, ?_, ?_⟩
    · rw [hfc]
    · rw [hfc]
      show (if (s.cache cachep).firstnotfull = none then some _ else _) = _
      rw [if_pos hfn, if_pos (show 0 < (s.cache cachep).num from hN1)]
    · rw [hnumG]; exact e6
    · rw [e7]; omega
    · rw [e7, hnumG, hosG]; omega
    · rw [hf1, hS2gr, List.count_cons_self, a3, hggr]
    · intro hcc
      rw [hf4, hS2cc]
      exact a2 hcc
    · rw [hfc]; exact ⟨rfl, rfl, rfl, rfl, rfl, rfl, rfl, rfl, rfl, rfl, rfl, rfl, rfl⟩
    · rw [hfc]
theorem alloc_iter_same (env : slab_env) (n cachep flags : Nat) :
    ∀ (k : Nat) (s s' : kmem_state), alloc_iter env n cachep flags k s = some s' →
      state_same s s' := by
  intro k
  induction k with
  | zero =>
    intro s s' h
    rw [alloc_iter] at h
    cases h
    exact state_same_refl s
  | succ k ih =>
    intro s s' h
    rw [alloc_iter] at h
    cases ha : kmem_cache_alloc env n s cachep flags with
    | none => rw [ha] at h; cases h
    | some r =>
      obtain ⟨t, p⟩ := r
      rw [ha] at h
      simp only [] at h
      by_cases hp : p = 0
      · rw [if_pos hp] at h; cases h
      · rw [if_neg hp] at h
        exact state_same_trans _ _ _ (alloc_same env n s cachep flags t p ha) (ih t s' h)

theorem desc_caches_apart_same (env : slab_env) (m : Nat) (s t : kmem_state) (cachep : Nat)
    (h : state_same s t) (ha : desc_caches_apart env m s cachep) :
    desc_caches_apart env m t cachep := by
  obtain ⟨h1, h2⟩ := ha
  have hsl : (t.cache cachep).slabp_cache = (s.cache cachep).slabp_cache :=
    (h cachep).2.2.2.2.2.2.2.2.1
  have hcd : ∀ x, (t.cache x).cpudata = (s.cache x).cpudata :=
    fun x => (cache_same_cpudata _ _ (h x)).1
  refine ⟨fun k hk => ?_, fun hcc k hk => ?_⟩
  · rw [hsl, desc_chain_same s t h]
    exact h1 k hk
  · rw [hsl, desc_chain_same s t h, hcd, hcd]
    rw [hcd] at hcc
    exact h2 hcc k hk

theorem alloc_grow_off (env : slab_env) (n : Nat) (s : kmem_state) (cachep flags : Nat)
    (hN1 : 1 ≤ (s.cache cachep).num) (hN2 : (s.cache cachep).num ≤ SLAB_LIMIT)
    (hoff : (s.cache cachep).flags &&& CFLGS_OFF_SLAB ≠ 0) (hf : grow_flags_ok env flags)
    (hfn : (s.cache cachep).firstnotfull = none)
    (hmag : (s.cache cachep).cpudata env.cpu ≠ 0 →
      (s.cpucache ((s.cache cachep).cpudata env.cpu)).avail = 0 ∧
      1 ≤ (s.cache cachep).batchcount ∧ (s.cache cachep).batchcount ≤ INT_MAX)
    (hap : desc_caches_apart env (n + 1) s cachep)
    (hr : offslab_grow_ready env (n + 1) s cachep flags) :
    ∃ s' p d, __kmem_cache_alloc env (n + 2) s cachep flags = some (s', p) ∧ p ≠ 0 ∧
      run_inv env s' cachep (s.cache cachep).slabs d 1 ∧
      s'.grown.count cachep = s.grown.count cachep + 1 ∧
      cache_same (s.cache cachep) (s'.cache cachep) := by
  obtain ⟨G, d, hG, hoG, hgr, hcc, hsame, -⟩ := grow_open_off env (n + 1) s cachep flags hN1 hN2
    hoff hf hfn hap hr
  obtain ⟨e1, e2, e3, -⟩ := cache_same_cpudata _ _ hsame
  have hinv : run_inv env G cachep (s.cache cachep).slabs d 0 := by
    refine run_inv_intro env s G cachep _ _ 0 0 0 hsame hoG rfl ?_
    by_cases h0 : (s.cache cachep).cpudata env.cpu = 0
    · rw [if_pos h0]
    · rw [if_neg h0]
      obtain ⟨ha, hb1, hb2⟩ := hmag h0
      refine ⟨⟨?_, fun i hi => absurd hi (Nat.not_lt_zero _)⟩, hb1, hb2⟩
      rw [hcc h0]; exact ha
  obtain ⟨s', p, hal, hp, hinv', hq⟩ := alloc_step env n G cachep flags _ _ 0
    (by rw [e3]; exact hN2) hinv (by rw [e3]; exact hN1)
  refine ⟨s', p, d, ?_, hp, hinv', ?_, cache_same_trans _ _ _ hsame hq.2.2.2.2⟩
  · rw [__kmem_cache_alloc, alloc_pass_none env s cachep hfn
      (fun h => ⟨(hmag h).1, (hmag h).2.2⟩)]
    simp only []
    rw [hG]
    simp only []
    rw [if_pos (by decide)]
    exact hal
  · rw [hq.1, hgr]

theorem alloc_num_grows_off (env : slab_env) (n : Nat) (s : kmem_state) (cachep flags : Nat)
    (hslabs : (s.cache cachep).slabs = []) (hfn : (s.cache cachep).firstnotfull = none)
    (hmag : (s.cache cachep).cpudata env.cpu ≠ 0 →
      (s.cpucache ((s.cache cachep).cpudata env.cpu)).avail = 0 ∧
      1 ≤ (s.cache cachep).batchcount ∧ (s.cache cachep).batchcount ≤ INT_MAX)
    (hN1 : 1 ≤ (s.cache cachep).num) (hN2 : (s.cache cachep).num ≤ SLAB_LIMIT)
    (hoff : (s.cache cachep).flags &&& CFLGS_OFF_SLAB ≠ 0) (hf : grow_flags_ok env flags)
    (hap : desc_caches_apart env (n + 1) s cachep)
    (hr : offslab_grow_ready env (n + 1) s cachep flags) :
    ∃ sN, alloc_iter env (n + 2) cachep flags (s.cache cachep).num s = some sN ∧
      sN.grown.count cachep = s.grown.count cachep + 1 ∧
      (sN.cache cachep).slabs.length = 1 ∧
      (offslab_grow_ready env (n + 1) sN cachep flags →
        ∃ sM, alloc_iter env (n + 2) cachep flags 1 sN = some sM ∧
          alloc_iter env (n + 2) cachep flags ((s.cache cachep).num + 1) s = some sM ∧
          sM.grown.count cachep = s.grown.count cachep + 2 ∧
          (sM.cache cachep).slabs.length = 2) := by
  obtain ⟨s1, p, d, hal, hpz, hinv1, hgr1, hsame1⟩ := alloc_grow_off env n s cachep flags hN1
    hN2 hoff hf hfn hmag hap hr
  rw [hslabs] at hinv1
  obtain ⟨k, hk⟩ : ∃ k, (s.cache cachep).num = 1 + k := ⟨(s.cache cachep).num - 1, by omega⟩
  obtain ⟨-, -, e3, e4, -⟩ := cache_same_cpudata _ _ hsame1
  obtain ⟨sN, hit, hinvN, hqN⟩ := alloc_iter_run env (n + 1) cachep flags [] _ k 1 s1
    (by rw [e3]; exact hN2) hinv1 (by rw [e3]; omega)
  have hsameN := cache_same_trans _ _ _ hsame1 hqN.2.2.2.2
  obtain ⟨-, -, f3, f4, -⟩ := cache_same_cpudata _ _ hsameN
  rw [← hk, ← f3] at hinvN
  obtain ⟨hslN, hfnN, hmagN⟩ := run_inv_full env sN cachep _ _ hinvN
  have hitN : alloc_iter env (n + 2) cachep flags (s.cache cachep).num s = some sN := by
    rw [hk, Nat.add_comm 1 k, alloc_iter]
    unfold kmem_cache_alloc
    rw [hal]
    simp only []
    rw [if_neg hpz]
    exact hit
  refine ⟨sN, hitN, by rw [hqN.1, hgr1], by rw [hslN]; rfl, fun hrN => ?_⟩
  have hapN := desc_caches_apart_same env (n + 1) s sN cachep
    (alloc_iter_same env (n + 2) cachep flags _ s sN hitN) hap
  obtain ⟨sM, q, d2, halM, hqz, hinvM, hgrM, -⟩ := alloc_grow_off env n sN cachep flags
    (by rw [f3]; exact hN1) (by rw [f3]; exact hN2) (by rw [f4]; exact hoff) hf hfnN hmagN
    hapN hrN
  have hit1 : alloc_iter env (n + 2) cachep flags 1 sN = some sM := by
    rw [alloc_iter]
    unfold kmem_cache_alloc
    rw [halM]
    simp only []
    rw [if_neg hqz]
    rfl
  refine ⟨sM, hit1, alloc_iter_snoc env (n + 2) cachep flags _ s sN sM hitN hit1, ?_, ?_⟩
  · rw [hgrM, hqN.1, hgr1]
  · obtain ⟨u, a, ho, -, -⟩ := hinvM
    rw [ho.1, hslN]; rfl
/-- C15. A cache has no slab, an empty per-CPU array (or none) and
`1 ≤ num ≤ SLAB_LIMIT` objects per slab of a size that is not 0.  When it keeps
its slab descriptors in the slab and the page allocator answers the next two
calls with blocks apart from each other in which a slab fits, `num` successive
calls of `kmem_cache_alloc` all return an object and `kmem_cache_grow` has
returned 1 exactly once, for this cache, which has one slab; one more call
returns an object too, after `kmem_cache_grow` has returned 1 a second time,
and the cache has two slabs.  When it keeps its slab descriptors off the slab,
in caches other than itself, and the page allocator and the allocation of the
descriptor succeed at the first call (`offslab_grow_ready`), `num` successive
calls all return an object, `kmem_cache_grow` has returned 1 for this cache
exactly once more than before, and the cache has one slab; when the two
succeed again in the state reached, one more call returns an object,
`kmem_cache_grow` has returned 1 for this cache a second time, and the cache
has two slabs. -/
theorem alloc_num_grows_once (env : slab_env) (n : Nat) (s : kmem_state) (cachep flags : Nat)
    (hslabs : (s.cache cachep).slabs = []) (hfn : (s.cache cachep).firstnotfull = none)
    (hmag : (s.cache cachep).cpudata env.cpu ≠ 0 →
      (s.cpucache ((s.cache cachep).cpudata env.cpu)).avail = 0 ∧
      1 ≤ (s.cache cachep).batchcount ∧ (s.cache cachep).batchcount ≤ INT_MAX)
    (hN1 : 1 ≤ (s.cache cachep).num) (hN2 : (s.cache cachep).num ≤ SLAB_LIMIT)
    (hos : 0 < (s.cache cachep).objsize) (hf : grow_flags_ok env flags) :
    ((s.cache cachep).flags &&& CFLGS_OFF_SLAB = 0 →
      pages_ok env s cachep (max (s.cache cachep).colour_next (s.cache cachep).colour) →
      ∃ sN, alloc_iter env (n + 2) cachep flags (s.cache cachep).num s = some sN ∧
        sN.grown = cachep :: s.grown ∧ (sN.cache cachep).slabs.length = 1 ∧
        ∃ sM, alloc_iter env (n + 2) cachep flags 1 sN = some sM ∧
          alloc_iter env (n + 2) cachep flags ((s.cache cachep).num + 1) s = some sM ∧
          sM.grown = cachep :: cachep :: s.grown ∧ (sM.cache cachep).slabs.length = 2) ∧
    ((s.cache cachep).flags &&& CFLGS_OFF_SLAB ≠ 0 →
      desc_caches_apart env (n + 1) s cachep →
      offslab_grow_ready env (n + 1) s cachep flags →
      ∃ sN, alloc_iter env (n + 2) cachep flags (s.cache cachep).num s = some sN ∧
        sN.grown.count cachep = s.grown.count cachep + 1 ∧
        (sN.cache cachep).slabs.length = 1 ∧
        (offslab_grow_ready env (n + 1) sN cachep flags →
          ∃ sM, alloc_iter env (n + 2) cachep flags 1 sN = some sM ∧
            alloc_iter env (n + 2) cachep flags ((s.cache cachep).num + 1) s = some sM ∧
            sM.grown.count cachep = s.grown.count cachep + 2 ∧
            (sM.cache cachep).slabs.length = 2)) :=
  ⟨fun hon hp => alloc_num_grows env n s cachep flags hslabs hfn hmag hN1 hN2 hos hon hf hp,
    fun hoff hap hr => alloc_num_grows_off env n s cachep flags hslabs hfn hmag hN1 hN2 hoff hf
      hap hr⟩

theorem kmem_state_ex18_created :
    kmem_cache_create slab_env_ex 2 kmem_state_ex16 (some "buffer") 1024 0 0 false false =
      some (kmem_state_ex18, 0xC1000060) := by
  obtain ⟨s', h⟩ := option_map_snd
    (kmem_cache_create slab_env_ex 2 kmem_state_ex16 (some "buffer") 1024 0 0 false false)
    0xC1000060 (by decide)
  have e : kmem_state_ex18 = s' := by
    unfold kmem_state_ex18
    rw [h]
  rw [e]
  exact h

/-- Witness for C15: the cache "buffer" of `kmem_state_ex18` keeps its slab
descriptors in the general cache of 64-byte objects and has four objects per
slab; four calls of `kmem_cache_alloc` return objects with one successful
`kmem_cache_grow` for the cache, and the fifth brings the second. -/
theorem alloc_num_grows_once_witness :
    (kmem_state_ex18.cache 0xC1000060).flags &&& CFLGS_OFF_SLAB ≠ 0 ∧
    (kmem_state_ex18.cache 0xC1000060).num = 4 ∧
    kmem_state_ex18.grown.count 0xC1000060 = 0 ∧
    ∃ sN sM, alloc_iter slab_env_ex 3 0xC1000060 0x07 4 kmem_state_ex18 = some sN ∧
      sN.grown.count 0xC1000060 = 1 ∧ (sN.cache 0xC1000060).slabs.length = 1 ∧
      alloc_iter slab_env_ex 3 0xC1000060 0x07 1 sN = some sM ∧
      sM.grown.count 0xC1000060 = 2 ∧ (sM.cache 0xC1000060).slabs.length = 2 := by
  have hoff : (kmem_state_ex18.cache 0xC1000060).flags &&& CFLGS_OFF_SLAB ≠ 0 := by decide!
  have hnum : (kmem_state_ex18.cache 0xC1000060).num = 4 := by decide!
  have hgr : kmem_state_ex18.grown.count 0xC1000060 = 0 := by decide!
  obtain ⟨-, hB⟩ := alloc_num_grows_once slab_env_ex 1 kmem_state_ex18 0xC1000060 0x07
    (by decide!) (by decide!) (by decide!) (by decide!) (by decide!) (by decide!) (by decide)
  obtain ⟨sN, h1, h2, h3, h4⟩ := hB hoff (by decide!) (by decide!)
  rw [hnum] at h1
  rw [hgr] at h2
  have hready : (alloc_iter slab_env_ex 3 0xC1000060 0x07 4 kmem_state_ex18).map
      (fun t => decide (offslab_grow_ready slab_env_ex 2 t 0xC1000060 0x07)) = some true := by
    decide!
  obtain ⟨sM, h5, -, h6, h7⟩ := h4 (of_decide_eq_true (option_map_true _ _ hready sN h1))
  rw [hgr] at h6
  exact ⟨hoff, hnum, hgr, sN, sM, h1, h2, h3, h5, h6, h7⟩
/-! ## The pages behind the pointers of `kmalloc` -/

theorem alloc_one_tail_marks (s : kmem_state) (cachep slabp : Nat) :
    (kmem_cache_alloc_one_tail s cachep slabp).1.PageSlab = s.PageSlab ∧
    (kmem_cache_alloc_one_tail s cachep slabp).1.page_cache = s.page_cache ∧
    (kmem_cache_alloc_one_tail s cachep slabp).1.page_slab = s.page_slab ∧
    (kmem_cache_alloc_one_tail s cachep slabp).1.cpucache = s.cpucache := by
  obtain ⟨fnf, hf⟩ := alloc_one_tail_form s cachep slabp
  rw [hf]
  exact ⟨rfl, rfl, rfl, rfl⟩

theorem alloc_batch_loop_marked (env : slab_env) (cachep cc : Nat) (J : kmem_state → Prop)
    (hJ : ∀ t x, J t → (t.cache cachep).firstnotfull = some x →
      J (kmem_cache_alloc_one_tail t cachep x).1 ∧
      (kmem_cache_alloc_one_tail t cachep x).2 ≠ 0 ∧
      page_of_cache env t cachep (kmem_cache_alloc_one_tail t cachep x).2)
    (hJc : ∀ t v, J t → J { t with cpucache := v }) :
    ∀ (b : Nat) (s : kmem_state) (a : Nat), J s → (s.cpucache cc).avail = a →
      a + b < ULONG →
      (∀ i, i < a → (s.cpucache cc).entry i ≠ 0 ∧
        page_of_cache env s cachep ((s.cpucache cc).entry i)) →
      J (alloc_batch_loop cachep cc b s) ∧
      (alloc_batch_loop cachep cc b s).PageSlab = s.PageSlab ∧
      (alloc_batch_loop cachep cc b s).page_cache = s.page_cache ∧
      ∃ a', ((alloc_batch_loop cachep cc b s).cpucache cc).avail = a' ∧ a ≤ a' ∧
        a' ≤ a + b ∧
        ((s.cache cachep).firstnotfull ≠ none → 1 ≤ b → a < a') ∧
        (∀ i, i < a' → ((alloc_batch_loop cachep cc b s).cpucache cc).entry i ≠ 0 ∧
          page_of_cache env s cachep
            (((alloc_batch_loop cachep cc b s).cpucache cc).entry i)) ∧
        ((s.cache cachep).firstnotfull = none → alloc_batch_loop cachep cc b s = s) := by
  intro b
  induction b with
  | zero =>
    intro s a hJs ha _ hent
    exact ⟨hJs, rfl, rfl, a, ha, Nat.le_refl _, Nat.le_refl _,
      fun _ h => absurd h (by decide), hent, fun _ => rfl⟩
  | succ b ih =>
    intro s a hJs ha hab hent
    cases hfn : (s.cache cachep).firstnotfull with
    | none =>
      have hL : alloc_batch_loop cachep cc (b + 1) s = s := by
        rw [alloc_batch_loop]; simp only [hfn]
      rw [hL]
      exact ⟨hJs, rfl, rfl, a, ha, Nat.le_refl _, Nat.le_add_right _ _,
        fun h => absurd rfl h, hent, fun _ => rfl⟩
    | some x =>
      obtain ⟨hJ1, hobj, hown⟩ := hJ s x hJs hfn
      obtain ⟨m1, m2, -, m4⟩ := alloc_one_tail_marks s cachep x
      obtain ⟨S2, hS2⟩ : ∃ S2, S2 = { (kmem_cache_alloc_one_tail s cachep x).1 with
          cpucache := upd (kmem_cache_alloc_one_tail s cachep x).1.cpucache cc
            { (kmem_cache_alloc_one_tail s cachep x).1.cpucache cc with
              entry := upd ((kmem_cache_alloc_one_tail s cachep x).1.cpucache cc).entry
                ((kmem_cache_alloc_one_tail s cachep x).1.cpucache cc).avail
                (kmem_cache_alloc_one_tail s cachep x).2
              avail := (((kmem_cache_alloc_one_tail s cachep x).1.cpucache cc).avail + 1)
                % ULONG } } := ⟨_, rfl⟩
      have hstep : alloc_batch_loop cachep cc (b + 1) s = alloc_batch_loop cachep cc b S2 := by
        rw [alloc_batch_loop]; simp only [hfn]; rw [hS2]
      have hJ2 : J S2 := by rw [hS2]; exact hJc _ _ hJ1
      have hP2 : S2.PageSlab = s.PageSlab := by rw [hS2]; exact m1
      have hC2 : S2.page_cache = s.page_cache := by rw [hS2]; exact m2
      have hown2 : ∀ p, page_of_cache env S2 cachep p ↔ page_of_cache env s cachep p := by
        intro p
        unfold page_of_cache
        rw [hP2, hC2]
      have hcc2 : S2.cpucache cc =
          { s.cpucache cc with
            entry := upd (s.cpucache cc).entry (s.cpucache cc).avail
              (kmem_cache_alloc_one_tail s cachep x).2
            avail := ((s.cpucache cc).avail + 1) % ULONG } := by
        rw [hS2]
        show upd _ cc _ cc = _
        rw [upd_same, m4]
      have ha2 : (S2.cpucache cc).avail = a + 1 := by
        rw [hcc2]
        show ((s.cpucache cc).avail + 1) % ULONG = a + 1
        rw [ha]
        exact Nat.mod_eq_of_lt (by omega)
      have hent2 : ∀ i, i < a + 1 → (S2.cpucache cc).entry i ≠ 0 ∧
          page_of_cache env S2 cachep ((S2.cpucache cc).entry i) := by
        intro i hi
        rw [hown2, hcc2]
        show upd (s.cpucache cc).entry (s.cpucache cc).avail _ i ≠ 0 ∧
          page_of_cache env s cachep (upd (s.cpucache cc).entry (s.cpucache cc).avail _ i)
        by_cases hia : i = a
        · rw [ha, hia, upd_same]
          exact ⟨hobj, hown⟩
        · rw [ha, upd_other _ _ _ _ hia]
          exact hent i (by omega)
      obtain ⟨r1, r2, r3, a', r4, r5, r6, -, r8, -⟩ := ih S2 (a + 1) hJ2 ha2 (by omega) hent2
      rw [hstep]
      refine ⟨r1, r2.trans hP2, r3.trans hC2, a', r4, by omega, by omega, fun _ _ => by omega,
        fun i hi => ?_, fun h => by cases h⟩
      obtain ⟨e1, e2⟩ := r8 i hi
      exact ⟨e1, (hown2 _).mp e2⟩
theorem alloc_pass_marked (env : slab_env) (cachep : Nat) (J : kmem_state → Prop)
    (hJ : ∀ t x, J t → (t.cache cachep).firstnotfull = some x →
      J (kmem_cache_alloc_one_tail t cachep x).1 ∧
      (kmem_cache_alloc_one_tail t cachep x).2 ≠ 0 ∧
      page_of_cache env t cachep (kmem_cache_alloc_one_tail t cachep x).2)
    (hJc : ∀ t v, J t → J { t with cpucache := v })
    (s : kmem_state) (hJs : J s) (hm : mag_marked env s cachep) (s1 : kmem_state)
    (r : Option Nat) (h : alloc_pass env s cachep = some (s1, r)) :
    s1.PageSlab = s.PageSlab ∧ s1.page_cache = s.page_cache ∧
    (∀ p, r = some p → p ≠ 0 ∧ page_of_cache env s cachep p) ∧
    (r = none → (s.cache cachep).firstnotfull = none ∧ s1 = s ∧
      ((s.cache cachep).cpudata env.cpu ≠ 0 →
        (s.cpucache ((s.cache cachep).cpudata env.cpu)).avail = 0)) := by
  have hU : ULONG = 4294967296 := rfl
  have hI : INT_MAX = 2147483647 := rfl
  unfold alloc_pass at h
  by_cases hcc : (s.cache cachep).cpudata env.cpu = 0
  · rw [if_neg (not_not.mpr hcc)] at h
    unfold kmem_cache_alloc_one at h
    cases hfn : (s.cache cachep).firstnotfull with
    | none =>
      rw [hfn] at h
      simp only [Option.some.injEq, Prod.mk.injEq] at h
      obtain ⟨h1, h2⟩ := h
      rw [← h1, ← h2]
      exact ⟨rfl, rfl, (fun p hp => by cases hp), fun _ => ⟨rfl, rfl, fun hne => absurd hcc hne⟩⟩
    | some x =>
      rw [hfn] at h
      simp only [Option.some.injEq, Prod.mk.injEq] at h
      obtain ⟨h1, h2⟩ := h
      obtain ⟨-, hobj, hown⟩ := hJ s x hJs hfn
      obtain ⟨m1, m2, -, -⟩ := alloc_one_tail_marks s cachep x
      rw [← h1, ← h2]
      refine ⟨m1, m2, fun p hp => ?_, fun hn => by cases hn⟩
      have e : (kmem_cache_alloc_one_tail s cachep x).2 = p := Option.some.inj hp
      rw [← e]
      exact ⟨hobj, hown⟩
  · obtain ⟨hb1, hb2, hav, hent⟩ := hm hcc
    rw [if_pos hcc] at h
    dsimp only at h
    by_cases ha : (s.cpucache ((s.cache cachep).cpudata env.cpu)).avail = 0
    · rw [if_neg (not_not.mpr ha)] at h
      unfold kmem_cache_alloc_batch at h
      dsimp only at h
      rw [if_neg (Nat.not_lt.mpr hb2)] at h
      obtain ⟨-, r2, r3, a', r4, -, r6, r7, r8, r9⟩ := alloc_batch_loop_marked env cachep
        ((s.cache cachep).cpudata env.cpu) J hJ hJc (s.cache cachep).batchcount s 0 hJs ha
        (by omega) (fun i hi => absurd hi (Nat.not_lt_zero _))
      obtain ⟨L, hL⟩ : ∃ L, L = alloc_batch_loop cachep ((s.cache cachep).cpudata env.cpu)
        (s.cache cachep).batchcount s := ⟨_, rfl⟩
      rw [← hL] at h r2 r3 r4 r8 r9
      by_cases hz : a' = 0
      · rw [r4, if_neg (not_not.mpr hz)] at h
        simp only [if_true, Option.some.injEq, Prod.mk.injEq] at h
        obtain ⟨h1, h2⟩ := h
        have hfn : (s.cache cachep).firstnotfull = none := by
          by_contra hne
          have := r7 hne hb1
          omega
        rw [← h1, ← h2]
        exact ⟨r2, r3, (fun p hp => by cases hp), fun _ => ⟨hfn, r9 hfn, fun _ => ha⟩⟩
      · rw [r4, if_pos hz] at h
        dsimp only at h
        have hidx : (a' + ULONG - 1) % ULONG = a' - 1 := by
          have e : a' + ULONG - 1 = a' - 1 + ULONG := by omega
          rw [e, Nat.add_mod_right]
          exact Nat.mod_eq_of_lt (by omega)
        rw [hidx] at h
        obtain ⟨e1, e2⟩ := r8 (a' - 1) (by omega)
        rw [if_neg e1] at h
        simp only [Option.some.injEq, Prod.mk.injEq] at h
        obtain ⟨h1, h2⟩ := h
        rw [← h1, ← h2]
        refine ⟨r2, r3, fun p hp => ?_, fun hn => by cases hn⟩
        have e : (L.cpucache ((s.cache cachep).cpudata env.cpu)).entry (a' - 1) = p :=
          Option.some.inj hp
        rw [← e]
        exact ⟨e1, e2⟩
    · rw [if_pos ha] at h
      simp only [Option.some.injEq, Prod.mk.injEq] at h
      obtain ⟨h1, h2⟩ := h
      have hidx : ((s.cpucache ((s.cache cachep).cpudata env.cpu)).avail + ULONG - 1) % ULONG =
          (s.cpucache ((s.cache cachep).cpudata env.cpu)).avail - 1 := by
        have e : (s.cpucache ((s.cache cachep).cpudata env.cpu)).avail + ULONG - 1 =
            (s.cpucache ((s.cache cachep).cpudata env.cpu)).avail - 1 + ULONG := by omega
        rw [e, Nat.add_mod_right]
        exact Nat.mod_eq_of_lt (by omega)
      rw [hidx] at h2
      rw [← h1, ← h2]
      refine ⟨rfl, rfl, fun p hp => ?_, fun hn => by cases hn⟩
      have e := Option.some.inj hp
      rw [← e]
      exact hent _ (by omega)
theorem alloc_one_tail_object (s : kmem_state) (cachep x : Nat)
    (hN2 : (s.cache cachep).num ≤ SLAB_LIMIT)
    (hok : slab_free_ok (s.cache cachep).num (s.slab x))
    (hlt : (s.slab x).inuse < (s.cache cachep).num)
    (h0 : 0 < (s.slab x).s_mem)
    (hw : (s.slab x).s_mem + (s.cache cachep).num * (s.cache cachep).objsize < ULONG) :
    (s.slab x).free < (s.cache cachep).num ∧
    (kmem_cache_alloc_one_tail s cachep x).2 =
      (s.slab x).s_mem + (s.slab x).free * (s.cache cachep).objsize ∧
    (kmem_cache_alloc_one_tail s cachep x).2 ≠ 0 := by
  have hU : ULONG = 4294967296 := rfl
  obtain ⟨hfree, -⟩ := alloc_slab_free_ok _ _ hok hlt hN2
  obtain ⟨-, -, -, -, hobj⟩ := alloc_one_tail_cache s cachep x
  have hmul : (s.slab x).free * (s.cache cachep).objsize ≤
      (s.cache cachep).num * (s.cache cachep).objsize :=
    Nat.mul_le_mul_right _ (Nat.le_of_lt hfree)
  have e : (kmem_cache_alloc_one_tail s cachep x).2 =
      (s.slab x).s_mem + (s.slab x).free * (s.cache cachep).objsize := by
    rw [hobj, Nat.mod_eq_of_lt (show (s.slab x).free * (s.cache cachep).objsize < ULONG by omega),
      Nat.mod_eq_of_lt (by omega)]
  refine ⟨hfree, e, ?_⟩
  rw [e]
  omega

theorem slabs_marked_step (env : slab_env) (cachep : Nat) (t : kmem_state) (x : Nat)
    (h : slabs_marked env t cachep) (hfn : (t.cache cachep).firstnotfull = some x) :
    slabs_marked env (kmem_cache_alloc_one_tail t cachep x).1 cachep ∧
    (kmem_cache_alloc_one_tail t cachep x).2 ≠ 0 ∧
    page_of_cache env t cachep (kmem_cache_alloc_one_tail t cachep x).2 := by
  obtain ⟨hN1, hN2, ho, hfr, hpg, hlay⟩ := h
  obtain ⟨hlt, ho1⟩ := alloc_one_tail_order t cachep x hN1 hN2 hfn ho hfr
  have hfr1 := alloc_one_tail_free_ok t cachep x hN2 hlt hfr
  have hpg1 := alloc_one_tail_pages_ok env t cachep x hpg
  obtain ⟨hc, -, hs, hso, -⟩ := alloc_one_tail_cache t cachep x
  have hx : x ∈ (t.cache cachep).slabs := by
    obtain ⟨-, full, part, emp, hl, -, -, -, hfnf⟩ := ho
    rw [hfn] at hfnf
    rw [hl]
    refine List.mem_append_right _ ?_
    cases hpe : part ++ emp with
    | nil => rw [hpe] at hfnf; cases hfnf
    | cons y r =>
      rw [hpe] at hfnf
      have e : y = x := (Option.some.inj hfnf).symm
      rw [e]
      exact List.mem_cons_self _ _
  obtain ⟨l0, l1⟩ := hlay x hx
  obtain ⟨hfree, hobj, hnz⟩ := alloc_one_tail_object t cachep x hN2 (hfr x hx) hlt l0 l1
  refine ⟨⟨?_, ?_, ho1, hfr1, hpg1, ?_⟩, hnz, ?_⟩
  · rw [hc]; exact hN1
  · rw [hc]; exact hN2
  · intro y hy
    rw [hc] at hy ⊢
    have hy' : y ∈ (t.cache cachep).slabs := hy
    have hsm : ((kmem_cache_alloc_one_tail t cachep x).1.slab y).s_mem = (t.slab y).s_mem := by
      by_cases e : y = x
      · rw [e, hs]
      · rw [hso y e]
    rw [hsm]
    exact hlay y hy'
  · rw [hobj]
    obtain ⟨p1, p2, -⟩ := hpg x hx _ hfree
    exact ⟨p1, p2⟩

/-- The slab `slabp`, the last of the list and not on it before, is the one
`kmem_cache_alloc` takes objects from, and the pages of its objects point back
to the cache. -/
theorem open_marked_step (env : slab_env) (cachep : Nat) (pre : List Nat) (d : Nat)
    (t : kmem_state) (x : Nat)
    (h : ∃ u, open_slab t cachep pre d u ∧ (t.cache cachep).num ≤ SLAB_LIMIT ∧
      ∀ i, i < (t.cache cachep).num →
        page_of_cache env t cachep ((t.slab d).s_mem + i * (t.cache cachep).objsize))
    (hfn : (t.cache cachep).firstnotfull = some x) :
    (∃ u, open_slab (kmem_cache_alloc_one_tail t cachep x).1 cachep pre d u ∧
      ((kmem_cache_alloc_one_tail t cachep x).1.cache cachep).num ≤ SLAB_LIMIT ∧
      ∀ i, i < ((kmem_cache_alloc_one_tail t cachep x).1.cache cachep).num →
        page_of_cache env (kmem_cache_alloc_one_tail t cachep x).1 cachep
          (((kmem_cache_alloc_one_tail t cachep x).1.slab d).s_mem +
            i * ((kmem_cache_alloc_one_tail t cachep x).1.cache cachep).objsize)) ∧
    (kmem_cache_alloc_one_tail t cachep x).2 ≠ 0 ∧
    page_of_cache env t cachep (kmem_cache_alloc_one_tail t cachep x).2 := by
  obtain ⟨u, ho, hN2, hmk⟩ := h
  have hu : u < (t.cache cachep).num := by
    by_contra hn
    rw [ho.2.2.1, if_neg hn] at hfn
    cases hfn
  have hxd : x = d := by
    rw [ho.2.2.1, if_pos hu] at hfn
    exact (Option.some.inj hfn).symm
  subst hxd
  obtain ⟨ho1, -⟩ := alloc_one_tail_open t cachep pre x u hN2 ho hu
  obtain ⟨hc, -, hs, -, -⟩ := alloc_one_tail_cache t cachep x
  obtain ⟨m1, m2, -, -⟩ := alloc_one_tail_marks t cachep x
  obtain ⟨-, -, -, hok, hin, l0, l1⟩ := ho
  obtain ⟨hfree, hobj, hnz⟩ := alloc_one_tail_object t cachep x hN2 hok (by rw [hin]; exact hu)
    l0 l1
  refine ⟨⟨u + 1, ho1, by rw [hc]; exact hN2, fun i hi => ?_⟩, hnz, ?_⟩
  · rw [hc] at hi ⊢
    rw [hs]
    unfold page_of_cache
    rw [m1, m2]
    exact hmk i hi
  · rw [hobj]
    exact hmk _ hfree

theorem block_pages (env : slab_env) (page a g : Nat) (hPS : 0 < env.cfg.PAGE_SIZE)
    (hPO : env.PAGE_OFFSET ≤ page) (hal : env.cfg.PAGE_SIZE ∣ (page - env.PAGE_OFFSET))
    (hW : page + env.cfg.PAGE_SIZE * 2 ^ g < ULONG)
    (h1 : page ≤ a) (h2 : a < page + env.cfg.PAGE_SIZE * 2 ^ g) :
    virt_to_page env page ≤ virt_to_page env a ∧
    virt_to_page env a < virt_to_page env page + (1 <<< g) % ULONG := by
  have hU : ULONG = 4294967296 := rfl
  have hpo : env.PAGE_OFFSET % ULONG = env.PAGE_OFFSET := Nat.mod_eq_of_lt (by omega)
  have hv : ∀ b, env.PAGE_OFFSET ≤ b → b < ULONG →
      virt_to_page env b = (b - env.PAGE_OFFSET) / env.cfg.PAGE_SIZE := by
    intro b hb1 hb2
    unfold virt_to_page
    rw [hpo]
    have e : b + ULONG - env.PAGE_OFFSET = (b - env.PAGE_OFFSET) + ULONG := by omega
    rw [e, Nat.add_mod_right, Nat.mod_eq_of_lt (by omega)]
  have h2g : 2 ^ g ≤ env.cfg.PAGE_SIZE * 2 ^ g := Nat.le_mul_of_pos_left _ hPS
  have hsh : (1 <<< g) % ULONG = 2 ^ g := by
    rw [Nat.shiftLeft_eq, Nat.one_mul]
    exact Nat.mod_eq_of_lt (by omega)
  rw [hv page hPO (by omega), hv a (by omega) (by omega), hsh]
  obtain ⟨k, hk⟩ := hal
  rw [hk, Nat.mul_div_cancel_left _ hPS]
  have ea : a - env.PAGE_OFFSET = env.cfg.PAGE_SIZE * k + (a - page) := by omega
  rw [ea]
  refine ⟨?_, ?_⟩
  · rw [Nat.le_div_iff_mul_le hPS, Nat.mul_comm]
    exact Nat.le_add_right _ _
  · rw [Nat.div_lt_iff_lt_mul hPS, Nat.add_mul, Nat.mul_comm k, Nat.mul_comm (2 ^ g)]
    omega

theorem grow_block_marked (env : slab_env) (n : Nat) (s : kmem_state) (cachep flags : Nat)
    (s' : kmem_state)
    (h : kmem_cache_grow (__kmem_cache_alloc env n) env s cachep flags = some (s', 1)) :
    ∃ slabp, (s'.cache cachep).slabs.getLast? = some slabp ∧
      ∀ q, virt_to_page env (s.getpages s.getpages_calls) ≤ q →
        q < virt_to_page env (s.getpages s.getpages_calls) +
          (1 <<< (s.cache cachep).gfporder) % ULONG →
        s'.PageSlab q = true ∧ s'.page_cache q = cachep ∧ s'.page_slab q = slabp := by
  obtain ⟨-, -, s2, slabp, hz, hm, hs'⟩ :=
    kmem_cache_grow_success (__kmem_cache_alloc env n) env s cachep flags s' h
  have hsame2 : (s2.cache cachep).gfporder = (s.cache cachep).gfporder :=
    (state_same_trans _ _ _ (grow_start_same s cachep)
      (slabmgmt_same _ (alloc_same env n) env _ cachep _ _ _ s2 slabp hm) cachep).2.2.2.2.1
  obtain ⟨hc1, -⟩ := grow_finish_cache env s2 cachep slabp (s.getpages s.getpages_calls)
  refine ⟨slabp, ?_, ?_⟩
  · rw [hs', hc1]
    exact getLast_snoc _ _
  · intro q hq1 hq2
    obtain ⟨p1, p2, p3⟩ := grow_finish_pages env s2 cachep slabp (s.getpages s.getpages_calls) q
    rw [hsame2] at p1 p2 p3
    rw [hs', p1, p2, p3, if_pos ⟨hq1, hq2⟩, if_pos ⟨hq1, hq2⟩, if_pos ⟨hq1, hq2⟩]
    exact ⟨rfl, rfl, rfl⟩
theorem grow_opens_marked (env : slab_env) (n : Nat) (s : kmem_state) (cachep flags : Nat)
    (s2 : kmem_state) (grew : Nat)
    (hN1 : 1 ≤ (s.cache cachep).num) (hN2 : (s.cache cachep).num ≤ SLAB_LIMIT)
    (hfn : (s.cache cachep).firstnotfull = none)
    (ha0 : (s.cache cachep).cpudata env.cpu ≠ 0 →
      (s.cpucache ((s.cache cachep).cpudata env.cpu)).avail = 0)
    (hm : mag_marked env s cachep) (hg : grow_prepared env n s cachep flags)
    (h : kmem_cache_grow (__kmem_cache_alloc env n) env s cachep flags = some (s2, grew))
    (hne : grew ≠ 0) :
    (∃ d u, open_slab s2 cachep (s.cache cachep).slabs d u ∧ u < (s2.cache cachep).num ∧
      (s2.cache cachep).num ≤ SLAB_LIMIT ∧
      ∀ i, i < (s2.cache cachep).num →
        page_of_cache env s2 cachep ((s2.slab d).s_mem + i * (s2.cache cachep).objsize)) ∧
    mag_marked env s2 cachep := by
  have hU : ULONG = 4294967296 := rfl
  obtain ⟨hfit, hcol, hS, hPS, hPO, hp0, hal, hW, hfresh⟩ := hg
  obtain ⟨hf, h1⟩ : grow_flags_ok env flags ∧ grew = 1 := by
    rcases kmem_cache_grow_cases _ env s cachep flags s2 grew h with
      ⟨-, e⟩ | ⟨-, -, e⟩ | ⟨hf, -, t, slabp, -, ⟨-, e, -⟩ | ⟨-, e, -⟩⟩
    · exact absurd e hne
    · exact absurd e hne
    · exact absurd e hne
    · exact ⟨hf, e⟩
  subst h1
  have hcn : (s.cache cachep).colour_next * (s.cache cachep).colour_off ≤
      ((s.cache cachep).colour - 1) * (s.cache cachep).colour_off := by
    apply Nat.mul_le_mul_right
    rcases hcol.2 with hlt | h0
    · omega
    · rw [h0]; exact Nat.zero_le _
  -- the slab that the call links
  have hopen : ∃ d, open_slab s2 cachep (s.cache cachep).slabs d 0 ∧
      ((s.cache cachep).cpudata env.cpu ≠ 0 →
        s2.cpucache ((s.cache cachep).cpudata env.cpu) =
          s.cpucache ((s.cache cachep).cpudata env.cpu)) ∧
      cache_same (s.cache cachep) (s2.cache cachep) := by
    by_cases hon : (s.cache cachep).flags &&& CFLGS_OFF_SLAB = 0
    · rw [if_pos hon] at hfresh
      have hext : s.getpages s.getpages_calls +
          slab_extent env (s.cache cachep) (s.cache cachep).colour_next < ULONG := by
        unfold slab_fits slab_mgmt at hfit
        rw [if_neg (not_not.mpr hon)] at hfit
        unfold slab_extent
        omega
      obtain ⟨G, hG, hoG, -, -, -, hcc, hsame, -⟩ := grow_open (__kmem_cache_alloc env n) env s
        cachep flags (s.cache cachep).colour_next hN1 hN2 hon hf (Nat.le_refl _) hp0 hext hfn
        hfresh
      rw [h] at hG
      have e : s2 = G := (Prod.mk.inj (Option.some.inj hG)).1
      rw [e]
      exact ⟨_, hoG, fun _ => by rw [hcc], hsame⟩
    · rw [if_neg hon] at hfresh
      obtain ⟨G, d, hG, hoG, -, hcc, hsame, -⟩ := grow_open_off env n s cachep flags hN1 hN2
        hon hf hfn hfresh.1 hfresh.2
      rw [h] at hG
      have e : s2 = G := (Prod.mk.inj (Option.some.inj hG)).1
      rw [e]
      exact ⟨d, hoG, hcc, hsame⟩
  obtain ⟨d, hoG, hcc, hsame⟩ := hopen
  obtain ⟨e1, e2, e3, -, -, -, e7⟩ := cache_same_cpudata _ _ hsame
  obtain ⟨x1, hl1, -, hsm, -, hobj, -, -⟩ := grow_layout env n s cachep flags s2 hfit hcol hN1
    hS (Nat.le_of_lt hW) h
  obtain ⟨x2, hl2, hmk⟩ := grow_block_marked env n s cachep flags s2 h
  have hlast : (s2.cache cachep).slabs.getLast? = some d := by
    rw [hoG.1]
    exact getLast_snoc _ _
  have hx1 : x1 = d := by
    rw [hl1] at hlast
    exact Option.some.inj hlast
  subst hx1
  refine ⟨⟨x1, 0, hoG, by rw [e3]; exact hN1, by rw [e3]; exact hN2, fun i hi => ?_⟩, ?_⟩
  · rw [e3] at hi
    rw [e7]
    obtain ⟨o1, o2⟩ := hobj i hi
    obtain ⟨b1, b2⟩ := block_pages env (s.getpages s.getpages_calls)
      ((s2.slab x1).s_mem + i * (s.cache cachep).objsize) (s.cache cachep).gfporder hPS hPO hal
      hW o1 (by omega)
    obtain ⟨k1, k2, -⟩ := hmk _ b1 b2
    exact ⟨k1, k2⟩
  · intro hc2
    rw [e1] at hc2 ⊢
    obtain ⟨hb1, hb2, -, -⟩ := hm hc2
    rw [e2, hcc hc2, ha0 hc2]
    exact ⟨hb1, hb2, by decide, fun i hi => absurd hi (Nat.not_lt_zero _)⟩

/-- The pointer that `kmem_cache_alloc` returns, from a cache in order, lies
in a page that has `PG_slab` set and points back to the cache, whether the
object came from the array of the CPU, from a slab on the list, or from a
slab that the call had to build. -/
theorem alloc_marked (env : slab_env) (n : Nat) (s : kmem_state) (cachep flags : Nat)
    (s' : kmem_state) (p : Nat)
    (hs : slabs_marked env s cachep) (hm : mag_marked env s cachep)
    (hg : (s.cache cachep).firstnotfull = none → grow_prepared env n s cachep flags)
    (h : __kmem_cache_alloc env (n + 1) s cachep flags = some (s', p)) (hp : p ≠ 0) :
    page_of_cache env s' cachep p := by
  rw [__kmem_cache_alloc] at h
  cases hpass : alloc_pass env s cachep with
  | none => rw [hpass] at h; cases h
  | some v =>
    obtain ⟨s1, r⟩ := v
    rw [hpass] at h
    obtain ⟨m1, m2, m3, m4⟩ := alloc_pass_marked env cachep (fun t => slabs_marked env t cachep)
      (fun t x => slabs_marked_step env cachep t x) (fun _ _ ht => ht) s hs hm s1 r hpass
    cases r with
    | some q =>
      simp only [Option.some.injEq, Prod.mk.injEq] at h
      obtain ⟨h1, h2⟩ := h
      obtain ⟨-, k1, k2⟩ := m3 q rfl
      rw [← h1, ← h2]
      unfold page_of_cache
      rw [m1, m2]
      exact ⟨k1, k2⟩
    | none =>
      obtain ⟨hfn, hs1, ha0⟩ := m4 rfl
      rw [hs1] at h
      simp only [] at h
      cases hgrow : kmem_cache_grow (__kmem_cache_alloc env n) env s cachep flags with
      | none => rw [hgrow] at h; cases h
      | some w =>
        obtain ⟨s2, grew⟩ := w
        rw [hgrow] at h
        simp only [] at h
        by_cases hne : grew ≠ 0
        · rw [if_pos hne] at h
          obtain ⟨⟨d, u, hoG, hu, hN2, hmk⟩, hm2⟩ := grow_opens_marked env n s cachep flags s2
            grew hs.1 hs.2.1 hfn ha0 hm (hg hfn) hgrow hne
          cases n with
          | zero => rw [__kmem_cache_alloc] at h; cases h
          | succ n =>
            rw [__kmem_cache_alloc] at h
            cases hpass2 : alloc_pass env s2 cachep with
            | none => rw [hpass2] at h; cases h
            | some v2 =>
              obtain ⟨s3, r2⟩ := v2
              rw [hpass2] at h
              obtain ⟨n1, n2, n3, n4⟩ := alloc_pass_marked env cachep
                (fun t => ∃ u, open_slab t cachep (s.cache cachep).slabs d u ∧
                  (t.cache cachep).num ≤ SLAB_LIMIT ∧
                  ∀ i, i < (t.cache cachep).num →
                    page_of_cache env t cachep ((t.slab d).s_mem + i * (t.cache cachep).objsize))
                (fun t x => open_marked_step env cachep (s.cache cachep).slabs d t x)
                (fun _ _ ht => ht) s2 ⟨u, hoG, hN2, hmk⟩ hm2 s3 r2 hpass2
              cases r2 with
              | some q =>
                simp only [Option.some.injEq, Prod.mk.injEq] at h
                obtain ⟨h1, h2⟩ := h
                obtain ⟨-, k1, k2⟩ := n3 q rfl
                rw [← h1, ← h2]
                unfold page_of_cache
                rw [n1, n2]
                exact ⟨k1, k2⟩
              | none =>
                obtain ⟨hfn2, -, -⟩ := n4 rfl
                rw [hoG.2.2.1, if_pos hu] at hfn2
                cases hfn2
        · rw [if_neg hne] at h
          simp only [Option.some.injEq, Prod.mk.injEq] at h
          exact absurd h.2.symm hp
/-! ## What allocation and release do to the page tables -/

theorem pages_same_refl (s : kmem_state) : pages_same s s := ⟨rfl, rfl, rfl, rfl, rfl⟩

theorem pages_same_trans (a b c : kmem_state) (h1 : pages_same a b) (h2 : pages_same b c) :
    pages_same a c :=
  ⟨h2.1.trans h1.1, h2.2.1.trans h1.2.1, h2.2.2.1.trans h1.2.2.1,
    h2.2.2.2.1.trans h1.2.2.2.1, h2.2.2.2.2.trans h1.2.2.2.2⟩

theorem pages_frame_of_same (env : slab_env) (w : Nat) (s s2 : kmem_state)
    (h : pages_same s s2) : pages_frame env w s s2 := by
  obtain ⟨h1, h2, h3, h4, h5⟩ := h
  refine ⟨h4, by rw [h5], fun q _ => ?_⟩
  rw [h1, h2, h3]
  exact ⟨rfl, rfl, rfl⟩

theorem pages_frame_trans (env : slab_env) (w : Nat) (a b c : kmem_state)
    (h1 : pages_frame env w a b) (h2 : pages_frame env w b c) : pages_frame env w a c := by
  obtain ⟨a1, a2, a3⟩ := h1
  obtain ⟨b1, b2, b3⟩ := h2
  refine ⟨b1.trans a1, Nat.le_trans a2 b2, fun q hq => ?_⟩
  obtain ⟨x1, x2, x3⟩ := a3 q (fun k hk1 hk2 => hq k hk1 (Nat.lt_of_lt_of_le hk2 b2))
  obtain ⟨y1, y2, y3⟩ := b3 q (fun k hk1 hk2 => by
    rw [a1]
    exact hq k (Nat.le_trans a2 hk1) hk2)
  exact ⟨y1.trans x1, y2.trans x2, y3.trans x3⟩

theorem alloc_one_tail_pages_same (s : kmem_state) (cachep slabp : Nat) :
    pages_same s (kmem_cache_alloc_one_tail s cachep slabp).1 := by
  obtain ⟨fnf, hf⟩ := alloc_one_tail_form s cachep slabp
  rw [hf]
  exact ⟨rfl, rfl, rfl, rfl, rfl⟩

theorem alloc_batch_loop_pages_same (cachep cc : Nat) :
    ∀ (n : Nat) (s : kmem_state), pages_same s (alloc_batch_loop cachep cc n s) := by
  intro n
  induction n with
  | zero => intro s; exact pages_same_refl s
  | succ n ih =>
    intro s
    rw [alloc_batch_loop]
    cases hf : (s.cache cachep).firstnotfull with
    | none => exact pages_same_refl s
    | some slabp =>
      simp only []
      exact pages_same_trans _ _ _ (alloc_one_tail_pages_same s cachep slabp) (ih _)

theorem alloc_pass_pages_same (env : slab_env) (s : kmem_state) (cachep : Nat)
    (s' : kmem_state) (r : Option Nat) (h : alloc_pass env s cachep = some (s', r)) :
    pages_same s s' := by
  unfold alloc_pass at h
  by_cases hcc : (s.cache cachep).cpudata env.cpu ≠ 0
  · rw [if_pos hcc] at h
    dsimp only at h
    by_cases ha : (s.cpucache ((s.cache cachep).cpudata env.cpu)).avail ≠ 0
    · rw [if_pos ha] at h
      simp only [Option.some.injEq, Prod.mk.injEq] at h
      rw [← h.1]
      exact ⟨rfl, rfl, rfl, rfl, rfl⟩
    · rw [if_neg ha] at h
      unfold kmem_cache_alloc_batch at h
      dsimp only at h
      by_cases hb : (s.cache cachep).batchcount > INT_MAX
      · rw [if_pos hb] at h; cases h
      · rw [if_neg hb] at h
        have hl := alloc_batch_loop_pages_same cachep ((s.cache cachep).cpudata env.cpu)
          (s.cache cachep).batchcount s
        by_cases hv : ((alloc_batch_loop cachep ((s.cache cachep).cpudata env.cpu)
            (s.cache cachep).batchcount s).cpucache
            ((s.cache cachep).cpudata env.cpu)).avail ≠ 0
        · rw [if_pos hv] at h
          dsimp only at h
          split at h
          · simp only [Option.some.injEq, Prod.mk.injEq] at h
            rw [← h.1]; exact hl
          · simp only [Option.some.injEq, Prod.mk.injEq] at h
            rw [← h.1]; exact hl
        · rw [if_neg hv] at h
          dsimp only at h
          rw [if_pos rfl] at h
          simp only [Option.some.injEq, Prod.mk.injEq] at h
          rw [← h.1]; exact hl
  · rw [if_neg hcc] at h
    unfold kmem_cache_alloc_one at h
    cases hf : (s.cache cachep).firstnotfull with
    | none =>
      rw [hf] at h
      simp only [Option.some.injEq, Prod.mk.injEq] at h
      rw [← h.1]; exact pages_same_refl s
    | some slabp =>
      rw [hf] at h
      simp only [Option.some.injEq, Prod.mk.injEq] at h
      rw [← h.1]; exact alloc_one_tail_pages_same s cachep slabp

theorem clear_slab_loop_pages :
    ∀ (n : Nat) (flag : Nat → Bool) (page q : Nat),
      clear_slab_loop flag n page q =
        (if page ≤ q ∧ q < page + n then false else flag q) := by
  intro n
  induction n with
  | zero =>
    intro flag page q
    simp only [clear_slab_loop]
    rw [if_neg (by omega)]
  | succ n ih =>
    intro flag page q
    rw [clear_slab_loop, ih]
    by_cases h1 : page + 1 ≤ q ∧ q < page + 1 + n
    · rw [if_pos h1, if_pos (by omega)]
    · rw [if_neg h1]
      by_cases h2 : q = page
      · rw [h2, upd_same, if_pos (by omega)]
      · rw [upd_other _ _ _ _ h2, if_neg (by omega)]
theorem order_bound_same (w : Nat) (s t : kmem_state) (h : state_same s t)
    (hw : ∀ x, (1 <<< (s.cache x).gfporder) % ULONG ≤ w) :
    ∀ x, (1 <<< (t.cache x).gfporder) % ULONG ≤ w := by
  intro x
  rw [(h x).2.2.2.2.1]
  exact hw x

theorem grow_pages_frame (env : slab_env) (w n : Nat)
    (ih : ∀ (s : kmem_state) (c f : Nat) (s' : kmem_state) (r : Nat),
      (∀ x, (1 <<< (s.cache x).gfporder) % ULONG ≤ w) →
      __kmem_cache_alloc env n s c f = some (s', r) → pages_frame env w s s')
    (s : kmem_state) (cachep flags : Nat) (s' : kmem_state) (r : Nat)
    (hw : ∀ x, (1 <<< (s.cache x).gfporder) % ULONG ≤ w)
    (h : kmem_cache_grow (__kmem_cache_alloc env n) env s cachep flags = some (s', r)) :
    pages_frame env w s s' := by
  obtain ⟨-, -, -, -, hggp, hggc⟩ := grow_start_cache s cachep
  have hgm : (grow_start s cachep).PageSlab = s.PageSlab ∧
      (grow_start s cachep).page_cache = s.page_cache ∧
      (grow_start s cachep).page_slab = s.page_slab := by
    unfold grow_start kmem_getpages
    exact ⟨rfl, rfl, rfl⟩
  rcases kmem_cache_grow_cases _ env s cachep flags s' r h with
    ⟨he, -⟩ | ⟨-, he, -⟩ | ⟨-, -, s2, slabp, hm, hc⟩
  · rw [he]; exact pages_frame_of_same env w s s (pages_same_refl s)
  · rw [he]
    refine ⟨hggp, ?_, fun q _ => ?_⟩
    · show s.getpages_calls ≤ (grow_start s cachep).getpages_calls
      rw [hggc]; exact Nat.le_succ _
    · show (grow_start s cachep).PageSlab q = _ ∧ (grow_start s cachep).page_cache q = _ ∧
        (grow_start s cachep).page_slab q = _
      rw [hgm.1, hgm.2.1, hgm.2.2]
      exact ⟨rfl, rfl, rfl⟩
  · obtain ⟨s1, h1, h2⟩ := kmem_cache_slabmgmt_cases _ env _ cachep _ _ _ s2 slabp hm
    have hss := grow_start_same s cachep
    have hB : pages_frame env w (grow_start s cachep) s1 := by
      rcases h1 with ⟨-, ha⟩ | ⟨-, e, -⟩
      · exact ih _ _ _ _ _ (order_bound_same w s _ hss hw) ha
      · rw [e]; exact pages_frame_of_same env w _ _ (pages_same_refl _)
    have hC : pages_same s1 s2 := by
      rcases h2 with ⟨-, e⟩ | ⟨co, e, -⟩
      · rw [e]; exact pages_same_refl _
      · rw [e]; exact ⟨rfl, rfl, rfl, rfl, rfl⟩
    have hg2 : (s2.cache cachep).gfporder = (s.cache cachep).gfporder :=
      (state_same_trans _ _ _ hss
        (slabmgmt_same _ (alloc_same env n) env _ cachep _ _ _ s2 slabp hm) cachep).2.2.2.2.1
    obtain ⟨b1, b2, b3⟩ := hB
    obtain ⟨c1, c2, c3, c4, c5⟩ := hC
    -- the last step touches the pages of the block only
    have hD : s'.getpages = s2.getpages ∧ s'.getpages_calls = s2.getpages_calls ∧
        ∀ q, ¬ (virt_to_page env (s.getpages s.getpages_calls) ≤ q ∧
            q < virt_to_page env (s.getpages s.getpages_calls) +
              (1 <<< (s.cache cachep).gfporder) % ULONG) →
          s'.PageSlab q = s2.PageSlab q ∧ s'.page_cache q = s2.page_cache q ∧
          s'.page_slab q = s2.page_slab q := by
      rcases hc with ⟨-, -, e⟩ | ⟨-, -, e⟩
      · rw [e]
        refine ⟨rfl, rfl, fun q hq => ⟨?_, rfl, rfl⟩⟩
        show clear_slab_loop s2.PageSlab _ _ q = _
        rw [clear_slab_loop_pages, hg2, if_neg hq]
      · rw [e]
        obtain ⟨-, f2, f3, -⟩ := grow_finish_frame env s2 cachep slabp
          (s.getpages s.getpages_calls)
        refine ⟨f2, f3, fun q hq => ?_⟩
        obtain ⟨p1, p2, p3⟩ := grow_finish_pages env s2 cachep slabp
          (s.getpages s.getpages_calls) q
        rw [hg2] at p1 p2 p3
        rw [p1, p2, p3, if_neg hq, if_neg hq, if_neg hq]
        exact ⟨rfl, rfl, rfl⟩
    obtain ⟨d1, d2, d3⟩ := hD
    have hcalls : s.getpages_calls + 1 ≤ s'.getpages_calls := by
      rw [d2, c5, ← hggc]; exact b2
    refine ⟨d1.trans (c4.trans (b1.trans hggp)), by omega, fun q hq => ?_⟩
    have hk := hq s.getpages_calls (Nat.le_refl _) (by omega)
    obtain ⟨m1, m2, m3⟩ := d3 q (fun hin => hk ⟨hin.1, Nat.lt_of_lt_of_le hin.2
      (Nat.add_le_add_left (hw cachep) _)⟩)
    obtain ⟨n1, n2, n3⟩ := b3 q (fun k hk1 hk2 => by
      rw [hggp]
      rw [hggc] at hk1
      exact hq k (by omega) (by rw [d2, c5]; exact hk2))
    rw [m1, m2, m3, c1, c2, c3, n1, n2, n3, hgm.1, hgm.2.1, hgm.2.2]
    exact ⟨rfl, rfl, rfl⟩

/-- What `kmem_cache_alloc` does to the page tables: only pages of blocks that
the page allocator gave during the call can have changed `PG_slab` or a
back-pointer (`w` bounds the pages per block of every cache). -/
theorem alloc_pages_frame (env : slab_env) (w : Nat) :
    ∀ (n : Nat) (s : kmem_state) (cachep flags : Nat) (s' : kmem_state) (r : Nat),
      (∀ x, (1 <<< (s.cache x).gfporder) % ULONG ≤ w) →
      __kmem_cache_alloc env n s cachep flags = some (s', r) → pages_frame env w s s' := by
  intro n
  induction n with
  | zero => intro s cachep flags s' r _ h; rw [__kmem_cache_alloc] at h; cases h
  | succ n ih =>
    intro s cachep flags s' r hw h
    rw [__kmem_cache_alloc] at h
    cases hp : alloc_pass env s cachep with
    | none => rw [hp] at h; cases h
    | some v =>
      obtain ⟨s1, o⟩ := v
      rw [hp] at h
      have h1 := pages_frame_of_same env w s s1 (alloc_pass_pages_same env s cachep s1 o hp)
      have hw1 := order_bound_same w s s1 (alloc_pass_same env s cachep s1 o hp) hw
      cases o with
      | some objp =>
        simp only [Option.some.injEq, Prod.mk.injEq] at h
        rw [← h.1]; exact h1
      | none =>
        simp only [] at h
        cases hg : kmem_cache_grow (__kmem_cache_alloc env n) env s1 cachep flags with
        | none => rw [hg] at h; cases h
        | some v2 =>
          obtain ⟨s2, grew⟩ := v2
          rw [hg] at h
          have h2 := grow_pages_frame env w n ih s1 cachep flags s2 grew hw1 hg
          have hw2 := order_bound_same w s1 s2
            (grow_same _ (alloc_same env n) env s1 cachep flags s2 grew hg) hw1
          simp only [] at h
          by_cases hgz : grew ≠ 0
          · rw [if_pos hgz] at h
            exact pages_frame_trans env w _ _ _ (pages_frame_trans env w _ _ _ h1 h2)
              (ih _ _ _ _ _ hw2 h)
          · rw [if_neg hgz] at h
            simp only [Option.some.injEq, Prod.mk.injEq] at h
            rw [← h.1]
            exact pages_frame_trans env w _ _ _ h1 h2

theorem free_one_marks (env : slab_env) (s : kmem_state) (cachep objp : Nat)
    (s' : kmem_state) (h : kmem_cache_free_one env s cachep objp = some s') :
    pages_same s s' := by
  obtain ⟨_, slabs, fnf, hform, _⟩ := free_one_form env s cachep objp s' h
  rw [hform]
  exact ⟨rfl, rfl, rfl, rfl, rfl⟩

theorem free_block_loop_marks (env : slab_env) (cachep : Nat) (objpp : Nat → Nat) :
    ∀ (len i : Nat) (s s' : kmem_state), __free_block env cachep objpp len i s = some s' →
      pages_same s s' := by
  intro len
  induction len with
  | zero =>
    intro i s s' h
    rw [__free_block] at h
    simp only [Option.some.injEq] at h
    rw [← h]
    exact pages_same_refl s
  | succ len ih =>
    intro i s s' h
    rw [__free_block] at h
    cases h1 : kmem_cache_free_one env s cachep (objpp i) with
    | none => rw [h1] at h; cases h
    | some s1 =>
      rw [h1] at h
      exact pages_same_trans _ _ _ (free_one_marks env s cachep _ s1 h1) (ih _ _ _ h)

theorem free_block_marks (env : slab_env) (s : kmem_state) (cachep : Nat)
    (objpp : Nat → Nat) (len : Nat) (s' : kmem_state)
    (h : free_block env s cachep objpp len = some s') : pages_same s s' := by
  unfold free_block at h
  by_cases hl : len > INT_MAX
  · rw [if_pos hl] at h
    simp only [Option.some.injEq] at h
    rw [← h]
    exact pages_same_refl s
  · rw [if_neg hl] at h
    exact free_block_loop_marks env cachep objpp len 0 s s' h

theorem cache_free_marks (env : slab_env) (s : kmem_state) (cachep p : Nat)
    (s' : kmem_state) (h : __kmem_cache_free env s cachep p = some s') : pages_same s s' := by
  unfold __kmem_cache_free at h
  by_cases hcc : (s.cache cachep).cpudata env.cpu ≠ 0
  · rw [if_pos hcc] at h
    dsimp only at h
    by_cases ha : (s.cpucache ((s.cache cachep).cpudata env.cpu)).avail <
        (s.cpucache ((s.cache cachep).cpudata env.cpu)).limit
    · rw [if_pos ha] at h
      simp only [Option.some.injEq] at h
      rw [← h]
      exact ⟨rfl, rfl, rfl, rfl, rfl⟩
    · rw [if_neg ha] at h
      cases hb : free_block env
          { s with
            cpucache := upd s.cpucache ((s.cache cachep).cpudata env.cpu)
              { s.cpucache ((s.cache cachep).cpudata env.cpu) with
                avail := ((s.cpucache ((s.cache cachep).cpudata env.cpu)).avail + ULONG -
                  (s.cache cachep).batchcount % ULONG) % ULONG } } cachep
          (fun i => (s.cpucache ((s.cache cachep).cpudata env.cpu)).entry
            (((s.cpucache ((s.cache cachep).cpudata env.cpu)).avail + ULONG -
              (s.cache cachep).batchcount % ULONG) % ULONG + i))
          ((s.cache cachep).batchcount % ULONG) with
      | none => rw [hb] at h; cases h
      | some s1 =>
        rw [hb] at h
        simp only [Option.some.injEq] at h
        have h1 := free_block_marks env _ cachep _ _ s1 hb
        rw [← h]
        exact ⟨h1.1, h1.2.1, h1.2.2.1, h1.2.2.2.1, h1.2.2.2.2⟩
  · rw [if_neg hcc] at h
    exact free_block_marks env s cachep _ 1 s' h

theorem kfree_marks (env : slab_env) (s : kmem_state) (p : Nat) (s' : kmem_state)
    (h : kfree env s p = some s') : pages_same s s' := by
  unfold kfree at h
  by_cases hp : p = 0
  · rw [if_pos hp] at h
    simp only [Option.some.injEq] at h
    rw [← h]
    exact pages_same_refl s
  · rw [if_neg hp] at h
    exact cache_free_marks env s _ p s' h
theorem slabs_marked_empty (env : slab_env) (s : kmem_state) (cachep : Nat)
    (hsl : (s.cache cachep).slabs = []) (hfn : (s.cache cachep).firstnotfull = none)
    (hN1 : 1 ≤ (s.cache cachep).num) (hN2 : (s.cache cachep).num ≤ SLAB_LIMIT) :
    slabs_marked env s cachep := by
  refine ⟨hN1, hN2, ⟨?_, [], [], [], ?_, ?_, ?_, ?_, ?_⟩, ?_, ?_, ?_⟩
  · rw [hsl]; exact List.nodup_nil
  · rw [hsl]; rfl
  · intro x hx; cases hx
  · intro x hx; cases hx
  · intro x hx; cases hx
  · rw [hfn]; rfl
  · intro x hx; rw [hsl] at hx; cases hx
  · intro x hx; rw [hsl] at hx; cases hx
  · intro x hx; rw [hsl] at hx; cases hx

/-- C19. When `kmem_cache_grow` returns 1, for a cache of either kind, each
of the `1 << gfporder` pages from that of the block the page allocator gave
has `PG_slab` set and points back to the cache and to the new slab, the last
of the list.  Consequently the pointer `p`, not NULL, that `kmalloc` returns
lies in a page that has `PG_slab` set and points back to the general cache `c`
that `kmalloc` selected, whether the object came from the array of the CPU,
from a slab on the list or from a slab the call had to build, on or off the
slab; the cache chain is as before, so that `c` is on it if it was; and
`kfree(p)` is `__kmem_cache_free(c, p)`.  This holds for a cache in order
(`slabs_marked`: list order, free lists and back-pointers of its slabs;
`mag_marked`: the objects in the array of the CPU lie in pages of the cache),
given, when a slab has to be built, what `grow_prepared` asks of the page
allocator and of the descriptor cache.  While `p` is live the page keeps its
marks: `kfree` of any pointer leaves `PG_slab` and the back-pointers of every
page and the cache chain alone, and `kmalloc` changes them only for pages of
blocks that the page allocator gave during the call. -/
theorem slab_pages_marked (env : slab_env) (s : kmem_state) :
    (∀ cachep n flags s',
      kmem_cache_grow (__kmem_cache_alloc env n) env s cachep flags = some (s', 1) →
      ∃ slabp, (s'.cache cachep).slabs.getLast? = some slabp ∧
        ∀ q, virt_to_page env (s.getpages s.getpages_calls) ≤ q →
          q < virt_to_page env (s.getpages s.getpages_calls) +
            (1 <<< (s.cache cachep).gfporder) % ULONG →
          s'.PageSlab q = true ∧ s'.page_cache q = cachep ∧ s'.page_slab q = slabp) ∧
    (∀ n size flags c s' p,
      kmalloc_cachep env size flags s.cache_sizes = some c →
      slabs_marked env s c → mag_marked env s c →
      ((s.cache c).firstnotfull = none → grow_prepared env n s c flags) →
      kmalloc env (n + 1) s size flags = some (s', p) → p ≠ 0 →
      s'.PageSlab (virt_to_page env p) = true ∧ s'.page_cache (virt_to_page env p) = c ∧
      s'.cache_chain = s.cache_chain ∧ (c ∈ s.cache_chain → c ∈ s'.cache_chain) ∧
      kfree env s' p = __kmem_cache_free env s' c p) ∧
    (∀ x s', kfree env s x = some s' →
      s'.PageSlab = s.PageSlab ∧ s'.page_cache = s.page_cache ∧
      s'.page_slab = s.page_slab ∧ s'.cache_chain = s.cache_chain) ∧
    (∀ w n size flags s' r, (∀ x, (1 <<< (s.cache x).gfporder) % ULONG ≤ w) →
      kmalloc env n s size flags = some (s', r) →
      s'.cache_chain = s.cache_chain ∧
      ∀ q, (∀ k, s.getpages_calls ≤ k → k < s'.getpages_calls →
          ¬ (virt_to_page env (s.getpages k) ≤ q ∧
            q < virt_to_page env (s.getpages k) + w)) →
        s'.PageSlab q = s.PageSlab q ∧ s'.page_cache q = s.page_cache q ∧
        s'.page_slab q = s.page_slab q) := by
  refine ⟨?_, ?_, ?_, ?_⟩
  · intro cachep n flags s' h
    exact grow_block_marked env n s cachep flags s' h
  · intro n size flags c s' p hk hs hm hg h hp
    unfold kmalloc at h
    rw [hk] at h
    simp only [] at h
    obtain ⟨k1, k2⟩ := alloc_marked env n s c flags s' p hs hm hg h hp
    have hch : s'.cache_chain = s.cache_chain :=
      (alloc_globals env (n + 1) s c flags s' p h).1
    refine ⟨k1, k2, hch, fun hc => by rw [hch]; exact hc, ?_⟩
    unfold kfree
    rw [if_neg hp, k2]
  · intro x s' h
    obtain ⟨m1, m2, m3, -, -⟩ := kfree_marks env s x s' h
    exact ⟨m1, m2, m3, (kfree_create_frame env s x s' h).2.1⟩
  · intro w n size flags s' r hw h
    refine ⟨(kmalloc_create_frame env n s size flags s' r h).2.1, ?_⟩
    unfold kmalloc at h
    cases hk : kmalloc_cachep env size flags s.cache_sizes with
    | none => rw [hk] at h; cases h
    | some c =>
      rw [hk] at h
      exact (alloc_pages_frame env w n s c flags s' r hw h).2.2

/-- Witness for C19: in `kmem_state_ex19` the call `kmalloc(1000, GFP_KERNEL)`
selects the off-slab general cache of 1024-byte objects, which has no slab
yet; it returns the first object of the slab it builds, `0xC1000000`, whose
page (frame 4096) has `PG_slab` set and points back to that cache, which is on
the chain, and `kfree` of the pointer releases it to that cache. -/
theorem slab_pages_marked_witness :
    kmalloc_cachep slab_env_ex 1000 0x07 kmem_state_ex19.cache_sizes = some 0xC0310400 ∧
    (kmem_state_ex19.cache 0xC0310400).flags &&& CFLGS_OFF_SLAB ≠ 0 ∧
    ∃ s', kmalloc slab_env_ex 3 kmem_state_ex19 1000 0x07 = some (s', 0xC1000000) ∧
      s'.PageSlab 4096 = true ∧ s'.page_cache 4096 = 0xC0310400 ∧
      0xC0310400 ∈ s'.cache_chain ∧
      kfree slab_env_ex s' 0xC1000000 = __kmem_cache_free slab_env_ex s' 0xC0310400 0xC1000000 := by
  have hk : kmalloc_cachep slab_env_ex 1000 0x07 kmem_state_ex19.cache_sizes =
      some 0xC0310400 := by decide
  obtain ⟨s', h⟩ := option_map_snd (kmalloc slab_env_ex 3 kmem_state_ex19 1000 0x07) 0xC1000000
    (by decide!)
  obtain ⟨-, hB, -, -⟩ := slab_pages_marked slab_env_ex kmem_state_ex19
  obtain ⟨b1, b2, -, b4, b5⟩ := hB 2 1000 0x07 0xC0310400 s' 0xC1000000 hk
    (slabs_marked_empty slab_env_ex kmem_state_ex19 0xC0310400 (by decide) (by decide)
      (by decide) (by decide))
    (by decide) (fun _ => by decide!) h (by decide)
  have hv : virt_to_page slab_env_ex 0xC1000000 = 4096 := by decide
  rw [hv] at b1 b2
  exact ⟨hk, by decide, s', h, b1, b2, b4 (by decide), b5⟩

end Linux24
